import Mathlib

/-!
# CHIMP surface kinetic Monte Carlo engine: a shallow embedding

The definitions below transcribe the surface simulation core of CHIMP
(`src/model/ensemble.cc`, `src/model/environment.cc`, `src/model/kmc.cc`).

Conventions of the embedding:

* a `model_species*` is the address of the species object, a `Nat`; the
  (immutable) surface coordination of the object behind an address is given by a
  function `sc : Nat → Nat`;
* an `environment*` is the address of the environment object, a `Nat`; the
  environment objects live in a store `Nat → environment`;
* a `std::set` is the list of its elements in iteration (ascending) order,
  a `std::map` the list of its entries in ascending key order;
* C++ exceptions are values of the type `exn`, and a throwing function returns
  `Except exn _`;
* `double` quantities are rational numbers (exact arithmetic).
-/

namespace chimp

/-! ## Exceptions -/

/-- The exception classes of `except.h` that the modelled code throws, one
constructor per `throw` statement that is modelled. -/
inductive exn where
  /-- `kmc::create_ensembles`: reactants and products differ in coordination. -/
  | bad_input_coordination
  /-- `model_reaction::get_reactant_seq`/`get_product_seq`: non-integer
  stoichiometric coefficient. -/
  | bad_input_stoichiometry
  /-- `environment::connectivity`: too large an ensemble for neighbor sites. -/
  | bad_input_connectivity
  /-- `environment::initialize`: the random number generator is not set. -/
  | bad_pointer_rng
  /-- `environment::set_species`: environment not initialized. -/
  | bad_pointer_set_species
  /-- `environment::change_ensemble`: environment not initialized. -/
  | bad_pointer_not_initialized
  /-- `environment::change_ensemble`: the old ensemble is not owned here. -/
  | bad_pointer_not_owned
  /-- `kmc::delete_ensembles`: the class map has been corrupted. -/
  | bad_pointer_corrupted
  /-- `kmc::select_reaction`: the rate/reaction map has been corrupted. -/
  | bad_pointer_rates
  /-- `environment::place_species`: species exhausted, lattice points remain. -/
  | bad_request_points_left
  /-- `environment::place_species`: not a surface species. -/
  | bad_request_not_surface
  /-- `environment::change_ensemble`: coordination of reactants and products. -/
  | bad_request_coordination
  /-- `kmc::select_reaction`: total of all absolute rates is zero. -/
  | bad_request_zero_rate
  /-- `kmc::perform_reaction`: no ensemble of the class on the surface. -/
  | bad_request_no_ensemble
  /-- `kmc::perform_reaction`: the class of empty sites is not in the map. -/
  | bad_request_empty_class
  /-- `kmc::perform_reaction`: no sequence of reactants or products. -/
  | bad_input_sequences
  /-- `kmc::perform_reaction`: the rate is neither positive nor negative. -/
  | bad_value_rate
  /-- `kmc::initialize`: the model has no empty site `@`. -/
  | bad_pointer_empty_site
  /-- `lattice::initialize`: no empty site for a surface that has sites. -/
  | bad_pointer_lattice
  /-- `lattice::set_size`: the surface has been created already. -/
  | bad_request_resize
  /-- `lattice::get_point`: the lattice has not been initialized. -/
  | bad_request_lattice
  /-- `lattice::get_point`: the row is not on the lattice. -/
  | bad_value_row
  /-- `lattice::get_point`: the column is not on the lattice. -/
  | bad_value_column
  /-- `environment::string2type`: unknown type of environment. -/
  | bad_value_environment_type
  /-- `surface_quantity::set_coverage`: the coverage is not in `[0, 1]`. -/
  | bad_value_coverage
  /-- `fluid_quantity::set_concentration`: the concentration is below zero. -/
  | bad_value_concentration
  /-- `fluid_quantity::set_pressure`: the pressure is below zero. -/
  | bad_value_pressure
  /-- `reactor::set_temperature`: the absolute temperature is below zero. -/
  | bad_value_temperature
  /-- `reactor::set_sites`: the number of catalytic sites is below zero. -/
  | bad_value_sites
  /-- `reactor::kmc_reaction`: the units of the fluid are not valid. -/
  | bad_type_units
  /-- `reaction::get_forward_k`: the forward rate constant is null. -/
  | bad_pointer_forward_k
  /-- `kmc::count_sites`: a site is larger than the array of the counts. -/
  | bad_value_site_large
  /-- `kmc::count_sites`: a site has no environment. -/
  | bad_value_site_zero
  /-- `kmc::get_site_count`: the size of the ensemble is below one. -/
  | bad_value_count_small
  /-- `kmc::get_site_count`: the size of the ensemble exceeds the maximum. -/
  | bad_value_count_large
  /-- `kmc::calc_rate_scale`: the ensemble of a reaction has no size. -/
  | bad_request_ensemble_size
  /-- `kmc::calc_rate_scale`: the surface has no site of the size needed. -/
  | bad_request_site_count
  /-- `kmc::get_net_rate`: the reaction has no scale factor in the map. -/
  | bad_request_rate_scale
  /-- `kmc::initial_coverage`: the initial coverages sum to more than one. -/
  | bad_input_total_coverage
  /-- `kmc::initial_coverage`: the coverage given for the empty sites does not
  agree with what the other species leave. -/
  | bad_input_empty_coverage
  /-- Behaviour the C++ standard leaves undefined (dereferencing `end()`,
  integer division by zero). -/
  | undefined_behaviour
  /-- Not an exception of the program: a `double` that is not a finite number
  (a division by zero), which the rational numbers do not have. -/
  | not_finite
  /-- Not an exception of the program: a loop was followed for as many
  iterations as the model was given, and had not ended. -/
  | loop_bound
  deriving DecidableEq, Repr

/-- The exception class of an exception. -/
inductive exn_class where
  | bad_input | bad_pointer | bad_request | bad_value | bad_type | undefined | no_result
  deriving DecidableEq, Repr

/-- The class an exception belongs to. -/
def exn.cls : exn → exn_class
  | .bad_input_coordination => .bad_input
  | .bad_input_stoichiometry => .bad_input
  | .bad_input_connectivity => .bad_input
  | .bad_pointer_rng => .bad_pointer
  | .bad_pointer_set_species => .bad_pointer
  | .bad_pointer_not_initialized => .bad_pointer
  | .bad_pointer_not_owned => .bad_pointer
  | .bad_pointer_corrupted => .bad_pointer
  | .bad_pointer_rates => .bad_pointer
  | .bad_request_points_left => .bad_request
  | .bad_request_not_surface => .bad_request
  | .bad_request_coordination => .bad_request
  | .bad_request_zero_rate => .bad_request
  | .bad_request_no_ensemble => .bad_request
  | .bad_request_empty_class => .bad_request
  | .bad_input_sequences => .bad_input
  | .bad_value_rate => .bad_value
  | .bad_pointer_empty_site => .bad_pointer
  | .bad_pointer_lattice => .bad_pointer
  | .bad_request_resize => .bad_request
  | .bad_request_lattice => .bad_request
  | .bad_value_row => .bad_value
  | .bad_value_column => .bad_value
  | .bad_value_environment_type => .bad_value
  | .bad_value_coverage => .bad_value
  | .bad_value_concentration => .bad_value
  | .bad_value_pressure => .bad_value
  | .bad_value_temperature => .bad_value
  | .bad_value_sites => .bad_value
  | .bad_type_units => .bad_type
  | .bad_pointer_forward_k => .bad_pointer
  | .bad_value_site_large => .bad_value
  | .bad_value_site_zero => .bad_value
  | .bad_value_count_small => .bad_value
  | .bad_value_count_large => .bad_value
  | .bad_request_ensemble_size => .bad_request
  | .bad_request_site_count => .bad_request
  | .bad_request_rate_scale => .bad_request
  | .bad_input_total_coverage => .bad_input
  | .bad_input_empty_coverage => .bad_input
  | .undefined_behaviour => .undefined
  | .not_finite => .no_result
  | .loop_bound => .no_result

/-! ## Standard containers -/

/-- The call `std::lexicographical_compare`, which is `operator<` of
`std::vector` and of `std::set`, on sequences of addresses. -/
def lexicographical_compare : List Nat → List Nat → Bool
  | [], [] => false
  | [], _ :: _ => true
  | _ :: _, [] => false
  | a :: as, b :: bs =>
    if a < b then true else if b < a then false else lexicographical_compare as bs

/-- The call `std::set::insert`: the element is put at its place in the
ascending order unless an equivalent element is present. -/
def set_insert {α : Type} (lt : α → α → Bool) (x : α) : List α → List α
  | [] => [x]
  | y :: ys =>
    if lt x y then x :: y :: ys
    else if lt y x then y :: set_insert lt x ys
    else y :: ys

/-- Range insertion `std::set::insert(first, last)`. -/
def set_insert_range {α : Type} (lt : α → α → Bool) (s : List α) (xs : List α) : List α :=
  xs.foldl (fun acc x => set_insert lt x acc) s

/-- The call `std::set::find(x) != end()`. -/
def set_contains {α : Type} (lt : α → α → Bool) (s : List α) (x : α) : Bool :=
  s.any (fun y => !lt y x && !lt x y)

/-- The call `std::map::find`: the entry with a key equivalent to `k`. -/
def map_find {κ ν : Type} (lt : κ → κ → Bool) (m : List (κ × ν)) (k : κ) : Option (κ × ν) :=
  m.find? (fun kv => !lt kv.1 k && !lt k kv.1)

/-- The call `std::map::insert`: a new entry is put at its place in the
ascending key order; an entry with an equivalent key is left as it is. -/
def map_insert {κ ν : Type} (lt : κ → κ → Bool) (kv : κ × ν) : List (κ × ν) → List (κ × ν)
  | [] => [kv]
  | e :: es =>
    if lt kv.1 e.1 then kv :: e :: es
    else if lt e.1 kv.1 then e :: map_insert lt kv es
    else e :: es

/-- The call `std::map::erase(key)`: removes the entry with an equivalent
key and returns the number of entries removed (0 or 1). -/
def map_erase {κ ν : Type} (lt : κ → κ → Bool) (k : κ) : List (κ × ν) → List (κ × ν) × Nat
  | [] => ([], 0)
  | e :: es =>
    if !lt e.1 k && !lt k e.1 then (es, 1)
    else ((map_erase lt k es).1.cons e, (map_erase lt k es).2)

/-! ## Species and ensembles (`ensemble.cc`) -/

/-- Class `ensemble`: the sorted surface species and their total coordination. -/
structure ensemble where
  sorted_species : List Nat
  coordination : Nat
  deriving DecidableEq, Repr

/-- The loop of the constructor `ensemble::ensemble`: only surface species are
inserted, `coordination` is an `unsigned int`. -/
def ensemble.collect (sc : Nat → Nat) :
    List Nat → List Nat × Nat → List Nat × Nat
  | [], acc => acc
  | s :: rest, acc =>
    if sc s > 0 then ensemble.collect sc rest (acc.1 ++ [s], (acc.2 + sc s) % 2 ^ 32)
    else ensemble.collect sc rest acc

/-- The constructor `ensemble::ensemble(const model_species::seq&)`. -/
def ensemble.ctor (sc : Nat → Nat) (speciess : List Nat) : ensemble :=
  { sorted_species := (ensemble.collect sc speciess ([], 0)).1.insertionSort (· ≤ ·)
    coordination := (ensemble.collect sc speciess ([], 0)).2 }

/-- The operator `ensemble::operator<`. -/
def ensemble.lt (left right : ensemble) : Bool :=
  lexicographical_compare left.sorted_species right.sorted_species

/-- The method `ensemble::get_size`: the size of the sequence, returned as an
`unsigned int`. -/
def ensemble.get_size (e : ensemble) : Nat := e.sorted_species.length % 2 ^ 32

/-- The method `ensemble::get_coordination`. -/
def ensemble.get_coordination (e : ensemble) : Nat := e.coordination

/-! ## Reactions (`reaction.cc`) -/

/-- Class `stoichiometric`: the coefficient of a species in a reaction and the
power its quantity is raised to in the rate expression. -/
structure stoichiometric where
  coefficient : ℚ
  power : ℚ
  deriving DecidableEq

/-- The constant `DBL_EPSILON` of `<cfloat>`. -/
def DBL_EPSILON : ℚ := 1 / 2 ^ 52

/-- The integral part that `modf` stores and `static_cast<int>` computes:
truncation toward zero. -/
def trunc (x : ℚ) : ℤ := if 0 ≤ x then ⌊x⌋ else ⌈x⌉

/-- Class `model_reaction`: the stoichiometric maps of reactants and products
(entries in key order) and whether a reverse rate constant is present. -/
structure model_reaction where
  reactants : List (Nat × stoichiometric)
  products : List (Nat × stoichiometric)
  reversible : Bool

/-- The static method `model_reaction::create_species_seq(const stoich_map&)`:
every species as many times as its stoichiometric coefficient says; fails on a
coefficient that is not close to an integer. -/
def model_reaction.create_species_seq_of :
    List (Nat × stoichiometric) → Bool × List Nat
  | [] => (true, [])
  | it :: rest =>
    if |it.2.coefficient - (trunc it.2.coefficient : ℚ)| > 2 * DBL_EPSILON then (false, [])
    else
      if (model_reaction.create_species_seq_of rest).1 then
        (true, List.replicate (trunc ((trunc it.2.coefficient : ℚ) + 1 / 10)).toNat it.1
          ++ (model_reaction.create_species_seq_of rest).2)
      else (false, [])

/-- The method `model_reaction::create_species_seq()`: the values of the members
`(seq_available, reactant_seq, product_seq)` it leaves. -/
def model_reaction.create_species_seq (r : model_reaction) :
    Bool × List Nat × List Nat :=
  if (model_reaction.create_species_seq_of r.reactants).1 then
    if (model_reaction.create_species_seq_of r.products).1 then
      (true, (model_reaction.create_species_seq_of r.reactants).2,
        (model_reaction.create_species_seq_of r.products).2)
    else (false, [], [])
  else (false, [], [])

/-- The method `model_reaction::get_reactant_seq`. -/
def model_reaction.get_reactant_seq (r : model_reaction) : Except exn (List Nat) :=
  if r.create_species_seq.1 then .ok r.create_species_seq.2.1
  else .error .bad_input_stoichiometry

/-- The method `model_reaction::get_product_seq`. -/
def model_reaction.get_product_seq (r : model_reaction) : Except exn (List Nat) :=
  if r.create_species_seq.1 then .ok r.create_species_seq.2.2
  else .error .bad_input_stoichiometry

/-- The method `reaction::is_reversible`. -/
def model_reaction.is_reversible (r : model_reaction) : Bool := r.reversible

/-- Class `model_mechanism`: the species and the reactions of the model.  A
`model_reaction*` is the position of the reaction in `reactions`. -/
structure model_mechanism where
  speciess : List Nat
  reactions : List model_reaction

/-! ## The random number generator (`rng.h`) -/

/-- Class `rng`, seen from its callers: the values that the successive calls of
the virtual method `get_random()` return, the number of calls made so far, and
the value of `get_max()`. -/
structure rng where
  stream : Nat → Nat
  calls : Nat
  max : Nat

/-- The method `rng::get_random()`: the next value, and the generator after
the call. -/
def rng.get_random (g : rng) : Nat × rng := (g.stream g.calls, { g with calls := g.calls + 1 })

/-- The method `rng::get_max()`. -/
def rng.get_max (g : rng) : Nat := g.max

/-- The method `rng::get_random(ul_int n)`, `get_random() % n`; for `n = 0`
the remainder is undefined. -/
def rng.get_random_n (g : rng) (n : Nat) : Except exn (Nat × rng) :=
  if n = 0 then .error .undefined_behaviour else .ok (g.get_random.1 % n, g.get_random.2)

/-- The method `rng::get_random_open(double max)`,
`(max * get_random()) / (get_max() + 1.0e0)`. -/
def rng.get_random_open (g : rng) (max : ℚ) : ℚ × rng :=
  ((max * (g.get_random.1 : ℚ)) / ((g.get_max : ℚ) + 1), g.get_random.2)

/-! ## The lattice (`lattice.cc`, `point.cc`) -/

/-- The enumeration `environment::type`. -/
inductive environment.type where
  | Esingle | Enn | Ennn
  deriving DecidableEq, Repr

/-- Class `lattice_point`: the species on the point and its position.  Every
environment is created with a lattice point of its own
(`kmc::create_environments`), and the point is stored with its environment. -/
structure lattice_point where
  type : Nat
  row : Nat
  column : Nat

/-- Class `lattice`: the length of a side, whether the surface has been
created, and the points. -/
structure lattice where
  size : Nat
  initialized : Bool
  points : List lattice_point

/-- The method `lattice::make_surface`. -/
def lattice.make_surface (l : lattice) (empty_site : Nat) : lattice :=
  { l with
    points := l.points ++
      (List.range l.size).flatMap (fun i =>
        (List.range l.size).map (fun j => ({ type := empty_site, row := i, column := j }))) }

/-- The method `lattice::get_size`. -/
def lattice.get_size (l : lattice) : Nat := l.size

/-- The method `lattice::set_size`. -/
def lattice.set_size (l : lattice) (size_ : Nat) : Except exn lattice :=
  if l.initialized then .error .bad_request_resize else .ok { l with size := size_ }

/-- The method `lattice::initialize`; a null `empty_site` is `none`. -/
def lattice.initialize (l : lattice) (empty_site : Option Nat) : Except exn lattice :=
  if l.size > 0 then
    match empty_site with
    | none => .error .bad_pointer_lattice
    | some e => .ok { l.make_surface e with initialized := true }
  else .ok { l with initialized := true }

/-- The method `lattice::get_point`; the index `row * size + column` is an
`unsigned int`. -/
def lattice.get_point (l : lattice) (row column : Nat) : Except exn lattice_point :=
  if !l.initialized then .error .bad_request_lattice
  else if row ≥ l.size then .error .bad_value_row
  else if column ≥ l.size then .error .bad_value_column
  else
    match l.points[(row * l.size + column) % 2 ^ 32]? with
    | none => .error .undefined_behaviour
    | some p => .ok p

/-! ## The engine: ensemble classes (`kmc.cc`) -/

/-- The type `kmc::ens_env_map`, a `std::map<ensemble*, environment*>`. -/
abbrev ens_env_map := List (Nat × Nat)

/-- An iterator into the ensemble class map: the key of the entry it points
at, or `none` for `ensembles.end()`. -/
abbrev ensemble_map_iter := Option ensemble

/-- Class `kmc`, the members of the surface engine. -/
structure kmc where
  /-- the generator `*random` when the environments are created; from
  `environment::set_rng(random)` on, the generator is the member `random` of
  the store -/
  random : Option rng
  /-- total number of lattice sites -/
  sites : Nat
  /-- the catalyst surface -/
  surface : lattice
  /-- the ensemble class map `std::map<ensemble, ens_env_map>` -/
  ensembles : List (ensemble × ens_env_map)
  /-- reaction to (forward class, reverse class) -/
  rxn_ens : List (Nat × (ensemble_map_iter × ensemble_map_iter))
  max_coordination : Nat
  max_sites : Nat
  /-- the vector of environment addresses -/
  environments : List Nat
  /-- the input for the type of the environments, as the type that it names
  (`none` when it names no type) -/
  env_type : Option environment.type
  /-- the scheme that creates the sites of the environments -/
  env_radial : Bool

/-- Order of addresses. -/
def ptr_lt (a b : Nat) : Bool := decide (a < b)

/-- The body of the loop over the reactions in `kmc::create_ensembles`, for the
reaction at address `rxn`. -/
def kmc.create_ensembles_reaction (sc : Nat → Nat) (k : kmc) (rxn : Nat)
    (r : model_reaction) : Except exn kmc :=
  match r.get_reactant_seq, r.get_product_seq with
  | .error e, _ => .error e
  | .ok _, .error e => .error e
  | .ok reactant_seq, .ok product_seq =>
    if (ensemble.ctor sc reactant_seq).get_coordination
        ≠ (ensemble.ctor sc product_seq).get_coordination then
      .error .bad_input_coordination
    else if (ensemble.ctor sc reactant_seq).get_coordination > 0 ∧ k.sites > 0 then
      .ok { k with
        max_sites :=
          if (ensemble.ctor sc reactant_seq).get_coordination > k.max_sites
          then (ensemble.ctor sc reactant_seq).get_coordination else k.max_sites
        ensembles :=
          if r.is_reversible then
            map_insert ensemble.lt (ensemble.ctor sc product_seq, [])
              (map_insert ensemble.lt (ensemble.ctor sc reactant_seq, []) k.ensembles)
          else map_insert ensemble.lt (ensemble.ctor sc reactant_seq, []) k.ensembles
        rxn_ens :=
          map_insert ptr_lt
            (rxn, (some (ensemble.ctor sc reactant_seq),
              if r.is_reversible then some (ensemble.ctor sc product_seq) else none))
            k.rxn_ens }
    else
      .ok { k with rxn_ens := map_insert ptr_lt (rxn, (none, none)) k.rxn_ens }

/-- The loop over the reactions in `kmc::create_ensembles`; `rxn` is the
address of the first reaction of the list. -/
def kmc.create_ensembles_reactions (sc : Nat → Nat) :
    List model_reaction → Nat → kmc → Except exn kmc
  | [], _, k => .ok k
  | r :: rest, rxn, k =>
    match kmc.create_ensembles_reaction sc k rxn r with
    | .error e => .error e
    | .ok k1 => kmc.create_ensembles_reactions sc rest (rxn + 1) k1

/-- The loop `for (i = 1; i <= max_coordination; ++i)` of
`kmc::create_ensembles`, which inserts the classes of `i` empty sites; `n` is
the number of iterations left. -/
def kmc.create_ensembles_empties (sc : Nat → Nat) (empty_site : Nat) :
    Nat → Nat → List (ensemble × ens_env_map) → List (ensemble × ens_env_map)
  | 0, _, ensembles => ensembles
  | n + 1, i, ensembles =>
    kmc.create_ensembles_empties sc empty_site n (i + 1)
      (map_insert ensemble.lt (ensemble.ctor sc (List.replicate i empty_site), []) ensembles)

/-- The method `kmc::create_ensembles(model_species* empty_site)`; a null
`empty_site` is `none`. -/
def kmc.create_ensembles (sc : Nat → Nat) (mech : model_mechanism)
    (empty_site : Option Nat) (k : kmc) : Except exn kmc :=
  match kmc.create_ensembles_reactions sc mech.reactions 0 k with
  | .error e => .error e
  | .ok k1 =>
    if k1.sites > 0 then
      match empty_site with
      | some empty =>
        .ok { k1 with ensembles :=
          kmc.create_ensembles_empties sc empty k1.max_coordination 1 k1.ensembles }
      | none =>
        if k1.max_coordination = 0 then .ok k1 else .error .undefined_behaviour
    else .ok k1

/-! ## The engine: selection of a reaction (`kmc.cc`) -/

/-- Order of `double` keys. -/
def double_lt (a b : ℚ) : Bool := decide (a < b)

/-- The iterator that `std::map::insert` returns, as the position of the entry
it points at (the new entry, or the entry that prevented the insertion). -/
def map_insert_pos {κ ν : Type} (lt : κ → κ → Bool) (kv : κ × ν) : List (κ × ν) → Nat
  | [] => 0
  | e :: es =>
    if lt kv.1 e.1 then 0
    else if lt e.1 kv.1 then map_insert_pos lt kv es + 1
    else 0

/-- The entry that the iterator returned by `std::map::insert` points at after
one `++`; `none` when the iterator has become `end()`. -/
def map_insert_next {κ ν : Type} (lt : κ → κ → Bool) (kv : κ × ν) (m : List (κ × ν)) :
    Option (κ × ν) :=
  (map_insert lt kv m)[map_insert_pos lt kv m + 1]?

/-- The locals of `kmc::select_reaction` that its loop over `rxn_ens` fills. -/
structure select_state where
  total_rate : ℚ
  /-- the map `rates` of the reactions and their net rates -/
  rates : List (Nat × ℚ)
  /-- the map `cum_rates` of the cumulative rate and the reaction (an iterator
  into `rxn_ens`, `none` for `rxn_ens.end()`) it corresponds to -/
  cum_rates : List (ℚ × Option Nat)

/-- The loop of `kmc::select_reaction` over `rxn_ens`.  The net rate of a
reaction is what `get_net_rate` returns for it. -/
def kmc.select_reaction_loop (get_net_rate : Nat → Except exn ℚ) :
    List (Nat × (ensemble_map_iter × ensemble_map_iter)) → select_state → Except exn select_state
  | [], st => .ok st
  | rxn_ens_it :: rest, st =>
    match get_net_rate rxn_ens_it.1 with
    | .error e => .error e
    | .ok net_rate =>
      kmc.select_reaction_loop get_net_rate rest
        { total_rate := st.total_rate + |net_rate|
          rates := map_insert ptr_lt (rxn_ens_it.1, net_rate) st.rates
          cum_rates :=
            if st.total_rate + |net_rate| > st.total_rate then
              map_insert double_lt (st.total_rate + |net_rate|, some rxn_ens_it.1) st.cum_rates
            else st.cum_rates }

/-- The method `kmc::select_reaction`: the selected reaction (an iterator into
`rxn_ens`) and the total rate, negative for the reverse direction.  The
threshold `precision::get().get_double()` is `precision`; the diagnostic
counters `rxn_count` are left out. -/
def kmc.select_reaction (get_net_rate : Nat → Except exn ℚ) (precision : ℚ) (k : kmc) (g : rng) :
    Except exn ((Nat × ℚ) × rng) :=
  match kmc.select_reaction_loop get_net_rate k.rxn_ens
      { total_rate := 0, rates := [], cum_rates := [] } with
  | .error e => .error e
  | .ok st =>
    if st.total_rate < precision then .error .bad_request_zero_rate
    else
      match map_insert_next double_lt ((g.get_random_open st.total_rate).1, none) st.cum_rates with
      | none => .error .undefined_behaviour
      | some (_, none) => .error .undefined_behaviour
      | some (_, some rxn) =>
        match map_find ptr_lt st.rates rxn with
        | none => .error .bad_pointer_rates
        | some rate_it =>
          if rate_it.2 < 0 then .ok ((rxn, st.total_rate * -1), (g.get_random_open st.total_rate).2)
          else .ok ((rxn, st.total_rate), (g.get_random_open st.total_rate).2)

/-! ## Environments (`environment.cc`, `point.cc`) -/

/-- Class `environment`, the non-static members.  An `environment*` and an
`ensemble*` are addresses; `neighbors` and `multisite` are vectors,
`connected` is a `std::set<environment*>`, `sites` a `std::set<group>`,
`ensembles` a vector and `ensemble_env` a `std::map<ensemble*, seq>`. -/
structure environment where
  center : lattice_point
  multisite : List Nat
  neighbors : List Nat
  connected : List Nat
  sites : List (List Nat)
  ensembles : List Nat
  ensemble_env : List (Nat × List Nat)
  initialized : Bool

/-- The objects the environments work on: the environment behind every
`environment*`, the `ensemble` behind every `ensemble*` (`none` when no object
lives at the address), the address that the next `new ensemble` returns, and
the static members of the class `environment`. -/
structure store where
  env : Nat → environment
  ens : Nat → Option ensemble
  next : Nat
  env_type : environment.type
  radial : Bool
  max_sites : Nat
  random : Option rng
  empty_site : Option Nat

/-- The store after the generator `*random` has advanced to the state `g`. -/
def store.with_random (st : store) (g : rng) : store := { st with random := some g }

/-- The method `environment::get_species`. -/
def environment.get_species (e : environment) : Nat × List Nat :=
  (e.center.type, e.multisite)

/-- The method `environment::is_neighbor`. -/
def environment.is_neighbor (e : environment) (env : Nat) : Bool :=
  e.neighbors.any (fun it => it == env)

/-- The test at the head of the loop of `environment::create_ensembles`: sites
of the maximum size around an empty centre are not used for neighbor sites. -/
def environment.skip_site (st : store) (this : Nat) (site : List Nat) : Bool :=
  if !st.radial ∧ some (st.env this).center.type = st.empty_site ∧ site.length = st.max_sites then
    match st.env_type with
    | .Esingle => false
    | .Enn => decide (st.max_sites = 5)
    | .Ennn => decide (st.max_sites = 9)
  else false

/-- The loop of `environment::create_ensembles` through the environments of
one site: the species sequence `ms_seq` and the flag `multisite` it leaves. -/
def environment.create_ensembles_site (st : store) (site : List Nat) :
    List Nat → List Nat → Bool → List Nat × Bool
  | [], ms_seq, multisite => (ms_seq, multisite)
  | git :: rest, ms_seq, multisite =>
    if (st.env git).get_species.2.isEmpty then
      if (ms_seq ++ [(st.env git).get_species.1]).isEmpty then
        (ms_seq ++ [(st.env git).get_species.1], multisite)
      else
        environment.create_ensembles_site st site rest
          (ms_seq ++ [(st.env git).get_species.1]) multisite
    else
      if (st.env git).get_species.2.all (fun multi_it => set_contains ptr_lt site multi_it) then
        if (ms_seq ++ [(st.env git).get_species.1]).isEmpty then
          (ms_seq ++ [(st.env git).get_species.1], true)
        else
          environment.create_ensembles_site st site rest
            (ms_seq ++ [(st.env git).get_species.1]) true
      else ([], true)

/-- The statement `++species_count[*sp_it]` on a
`std::map<model_species*, counter>`. -/
def species_count_increment (sp : Nat) : List (Nat × Nat) →
    List (Nat × Nat)
  | [] => [(sp, 1)]
  | e :: es =>
    if sp < e.1 then (sp, 1) :: e :: es
    else if e.1 < sp then e :: species_count_increment sp es
    else (e.1, e.2 + 1) :: es

/-- The loop of `environment::create_ensembles` that counts how often a species
is in the sequence. -/
def species_count (ms_seq : List Nat) : List (Nat × Nat) :=
  ms_seq.foldl (fun m sp => species_count_increment sp m) []

/-- The loop of `environment::create_ensembles` that inserts every species
`count / coord` times; the division by a coordination of zero is undefined. -/
def environment.insert_counted (sc : Nat → Nat) :
    List (Nat × Nat) → Except exn (List Nat)
  | [] => .ok []
  | mm_it :: rest =>
    if sc mm_it.1 = 0 then .error .undefined_behaviour
    else
      match environment.insert_counted sc rest with
      | .error e => .error e
      | .ok ms_seq => .ok (List.replicate (mm_it.2 / sc mm_it.1) mm_it.1 ++ ms_seq)

/-- The method `environment::insert_ensemble`. -/
def environment.insert_ensemble (sc : Nat → Nat) (st : store) (this : Nat)
    (speciess : List Nat) (envs : List Nat) : store :=
  { st with
    ens := Function.update st.ens st.next (some (ensemble.ctor sc speciess))
    next := st.next + 1
    env := Function.update st.env this
      { (st.env this) with
        ensembles := (st.env this).ensembles ++ [st.next]
        ensemble_env := map_insert ptr_lt (st.next, envs) (st.env this).ensemble_env } }

/-- The loop of `environment::create_ensembles` over the sites. -/
def environment.create_ensembles_loop (sc : Nat → Nat) (this : Nat) :
    List (List Nat) → store → Except exn store
  | [], st => .ok st
  | it :: rest, st =>
    if environment.skip_site st this it then
      environment.create_ensembles_loop sc this rest st
    else
      if !(environment.create_ensembles_site st it it [] false).1.isEmpty then
        if (environment.create_ensembles_site st it it [] false).2 then
          match environment.insert_counted sc
              (species_count (environment.create_ensembles_site st it it [] false).1) with
          | .error e => .error e
          | .ok ms_seq =>
            environment.create_ensembles_loop sc this rest
              (environment.insert_ensemble sc st this ms_seq it)
        else
          environment.create_ensembles_loop sc this rest
            (environment.insert_ensemble sc st this
              (environment.create_ensembles_site st it it [] false).1 it)
      else environment.create_ensembles_loop sc this rest st

/-- The method `environment::create_ensembles` of the environment at the
address `this`. -/
def environment.create_ensembles (sc : Nat → Nat) (st : store) (this : Nat) :
    Except exn store :=
  environment.create_ensembles_loop sc this (st.env this).sites
    { st with
      env := Function.update st.env this
        { (st.env this) with ensembles := [], ensemble_env := [] } }

/-- The body of the loops of `environment::get_sites`: the environment `eit`
is added to the smaller site `sit` when it is not in it and is a neighbor of
one of its environments. -/
def environment.get_sites_try (env : Nat → environment) (eit : Nat)
    (sites : List (List Nat)) (sit : List Nat) : List (List Nat) :=
  if !set_contains ptr_lt sit eit then
    if sit.any (fun git => (env git).is_neighbor eit) then
      set_insert lexicographical_compare (set_insert ptr_lt eit sit) sites
    else sites
  else sites

/-- The method `environment::get_sites`: the sites of `coord` connected
environments of `envs` are inserted into `sites`.  The recursion of the source
does not end for `coord < 1`. -/
def environment.get_sites (env : Nat → environment) :
    Nat → List Nat → List (List Nat) → Except exn (List (List Nat))
  | 0, _, _ => .error .undefined_behaviour
  | 1, envs, sites =>
    .ok (envs.foldl (fun s it => set_insert lexicographical_compare [it] s) sites)
  | coord + 2, envs, sites =>
    match environment.get_sites env (coord + 1) envs [] with
    | .error e => .error e
    | .ok small =>
      .ok (envs.foldl (fun s eit => small.foldl (environment.get_sites_try env eit) s) sites)

/-- The method `environment::set_species(model_species*, const seq&)`. -/
def environment.set_species (st : store) (this : Nat) (center_species : Nat)
    (multisite_ : List Nat) : Except exn store :=
  if !(st.env this).initialized then .error .bad_pointer_set_species
  else
    .ok { st with
      env := Function.update st.env this
        { (st.env this) with
          center := { (st.env this).center with type := center_species }
          multisite := multisite_ } }

/-- The loop of `environment::place_species` that puts the species on the
environments of the chosen site; `multi` holds the other environments of the
site (the elements of a `std::set` are distinct). -/
def environment.place_on_site (surf_species : Nat) (site : List Nat) :
    List Nat → store → Except exn store
  | [], st => .ok st
  | git :: rest, st =>
    match environment.set_species st git surf_species (site.filter (fun it => it != git)) with
    | .error e => .error e
    | .ok st1 => environment.place_on_site surf_species site rest st1

/-- The call `std::random_shuffle(first, last, *random)`: the element at every
position `i ≥ 1` is swapped with the element at the position `random(i + 1)`;
`i` is the current position and `n` the number of positions left. -/
def random_shuffle_loop {α : Type} : Nat → Nat → List α → rng → List α × rng
  | 0, _, l, g => (l, g)
  | n + 1, i, l, g =>
    match l[i]?, l[g.get_random.1 % (i + 1)]? with
    | some x, some y =>
      random_shuffle_loop n (i + 1) ((l.set i y).set (g.get_random.1 % (i + 1)) x) g.get_random.2
    | _, _ => (l, g)

/-- The call `std::random_shuffle(first, last, *random)`. -/
def random_shuffle {α : Type} (l : List α) (g : rng) : List α × rng :=
  random_shuffle_loop (l.length - 1) 1 l g

/-- The `while` loop of `environment::place_species` through the shuffled
sites; `place_rest` is the recursive call for the species that are left. -/
def environment.place_species_loop (place_rest : store → List Nat → Except exn (Bool × store))
    (surf_species : Nat) (envs : List Nat) :
    List (List Nat) → store → Except exn (Bool × store)
  | [], st => .ok (false, st)
  | site_it :: rest, st =>
    match place_rest st (envs.filter (fun orig_it => !set_contains ptr_lt site_it orig_it)) with
    | .error e => .error e
    | .ok (true, st1) =>
      match environment.place_on_site surf_species site_it site_it st1 with
      | .error e => .error e
      | .ok st2 => .ok (true, st2)
    | .ok (false, st1) => environment.place_species_loop place_rest surf_species envs rest st1

/-- The method `environment::place_species`.  The coordination is passed to
`get_sites` as an `int`. -/
def environment.place_species (sc : Nat → Nat) :
    List Nat → store → List Nat → Except exn (Bool × store)
  | [], st, envs =>
    if !envs.isEmpty then .error .bad_request_points_left else .ok (true, st)
  | surf_species :: species_left, st, envs =>
    if sc surf_species < 1 then .error .bad_request_not_surface
    else if sc surf_species ≥ 2 ^ 31 then .error .undefined_behaviour
    else
      match environment.get_sites st.env (sc surf_species) envs [] with
      | .error e => .error e
      | .ok sites_set =>
        match st.random with
        | none => .error .undefined_behaviour
        | some g =>
          environment.place_species_loop (environment.place_species sc species_left)
            surf_species envs (random_shuffle sites_set g).1
            (st.with_random (random_shuffle sites_set g).2)

/-- The loop of `environment::change_ensemble` that re-creates the ensembles of
the affected environments. -/
def environment.recreate_ensembles (sc : Nat → Nat) :
    List Nat → store → Except exn store
  | [], st => .ok st
  | it :: rest, st =>
    match environment.create_ensembles sc st it with
    | .error e => .error e
    | .ok st1 => environment.recreate_ensembles sc rest st1

/-- The set `changed` that `environment::change_ensemble` builds: this point,
the environments connected to it and those connected to the environments of
the old ensemble. -/
def environment.collect_changed (st : store) (this : Nat) (old_envs : List Nat)
    (changed : List Nat) : List Nat :=
  old_envs.foldl (fun c it => set_insert_range ptr_lt c (st.env it).connected)
    (set_insert_range ptr_lt (set_insert ptr_lt this changed) (st.env this).connected)

/-- The deque `remove` that `environment::change_ensemble` builds: the
ensembles of every environment of `changed` are appended. -/
def environment.collect_remove (st : store) (changed : List Nat) (remove : List Nat) : List Nat :=
  changed.foldl (fun r it => r ++ (st.env it).ensembles) remove

/-- The method `environment::change_ensemble` of the environment at the
address `this`; it returns the store and the outputs `remove` and `changed`. -/
def environment.change_ensemble (sc : Nat → Nat) (st : store) (this : Nat)
    (reactants : Nat) (products : List Nat) (remove : List Nat) (changed : List Nat) :
    Except exn (store × List Nat × List Nat) :=
  if !(st.env this).initialized then .error .bad_pointer_not_initialized
  else
    match map_find ptr_lt (st.env this).ensemble_env reactants with
    | none => .error .bad_pointer_not_owned
    | some old_ens_env =>
      match st.ens reactants with
      | none => .error .undefined_behaviour
      | some reactants_obj =>
        if reactants_obj.get_coordination ≠ (ensemble.ctor sc products).get_coordination then
          .error .bad_request_coordination
        else
          match st.random with
          | none => .error .undefined_behaviour
          | some g =>
            match environment.place_species sc
                (random_shuffle (ensemble.ctor sc products).sorted_species g).1
                (st.with_random (random_shuffle (ensemble.ctor sc products).sorted_species g).2)
                old_ens_env.2 with
            | .error e => .error e
            | .ok placed =>
              match environment.recreate_ensembles sc
                  (environment.collect_changed st this old_ens_env.2 changed) placed.2 with
              | .error e => .error e
              | .ok st1 =>
                .ok (st1,
                  environment.collect_remove st
                    (environment.collect_changed st this old_ens_env.2 changed) remove,
                  environment.collect_changed st this old_ens_env.2 changed)

/-- The `throw` statements of `environment::change_ensemble` itself, in the
order of the method: the exception thrown, with the store and the outputs
`remove` and `changed` as the statements before the `throw` left them. The
result is `none` when none of the three statements is reached. -/
def environment.change_ensemble_throw (sc : Nat → Nat) (st : store) (this : Nat)
    (reactants : Nat) (products : List Nat) (remove : List Nat) (changed : List Nat) :
    Option (exn × store × List Nat × List Nat) :=
  if !(st.env this).initialized then some (.bad_pointer_not_initialized, st, remove, changed)
  else
    match map_find ptr_lt (st.env this).ensemble_env reactants with
    | none => some (.bad_pointer_not_owned, st, remove, changed)
    | some old_ens_env =>
      match st.ens reactants with
      | none => none
      | some reactants_obj =>
        if reactants_obj.get_coordination ≠ (ensemble.ctor sc products).get_coordination then
          some (.bad_request_coordination, st,
            environment.collect_remove st
              (environment.collect_changed st this old_ens_env.2 changed) remove,
            environment.collect_changed st this old_ens_env.2 changed)
        else none

/-! ## The engine: reactions on the surface (`kmc.cc`) -/

/-- The method `model_reaction::get_reactant_seq_ptr`; a null pointer is
`none`. -/
def model_reaction.get_reactant_seq_ptr (r : model_reaction) : Option (List Nat) :=
  if r.create_species_seq.1 then some r.create_species_seq.2.1 else none

/-- The method `model_reaction::get_product_seq_ptr`; a null pointer is
`none`. -/
def model_reaction.get_product_seq_ptr (r : model_reaction) : Option (List Nat) :=
  if r.create_species_seq.1 then some r.create_species_seq.2.2 else none

/-- A change of the mapped value through the iterator that `std::map::find`
returns for the key `k`: the value of the entry with an equivalent key becomes
`f` of it. -/
def map_modify {κ ν : Type} (lt : κ → κ → Bool) (k : κ) (f : ν → ν) :
    List (κ × ν) → List (κ × ν)
  | [] => []
  | e :: es =>
    if !lt e.1 k && !lt k e.1 then (e.1, f e.2) :: es else e :: map_modify lt k f es

/-- The body of the inner loop of `kmc::get_ensembles`, for the ensemble `it`
of the environment `env_it`. -/
def kmc.get_ensembles_ensemble (st : store) (env_it : Nat)
    (ensembles : List (ensemble × ens_env_map)) (it : Nat) :
    Except exn (List (ensemble × ens_env_map)) :=
  match st.ens it with
  | none => .error .undefined_behaviour
  | some obj =>
    match map_find ensemble.lt ensembles obj with
    | none => .ok ensembles
    | some _ => .ok (map_modify ensemble.lt obj (map_insert ptr_lt (it, env_it)) ensembles)

/-- The inner loop of `kmc::get_ensembles`, over the ensembles at the
environment `env_it`. -/
def kmc.get_ensembles_env (st : store) (env_it : Nat) :
    List Nat → List (ensemble × ens_env_map) → Except exn (List (ensemble × ens_env_map))
  | [], ensembles => .ok ensembles
  | it :: rest, ensembles =>
    match kmc.get_ensembles_ensemble st env_it ensembles it with
    | .error e => .error e
    | .ok ensembles1 => kmc.get_ensembles_env st env_it rest ensembles1

/-- The outer loop of `kmc::get_ensembles`, over the environments. -/
def kmc.get_ensembles_loop (st : store) :
    List Nat → List (ensemble × ens_env_map) → Except exn (List (ensemble × ens_env_map))
  | [], ensembles => .ok ensembles
  | env_it :: rest, ensembles =>
    match kmc.get_ensembles_env st env_it (st.env env_it).ensembles ensembles with
    | .error e => .error e
    | .ok ensembles1 => kmc.get_ensembles_loop st rest ensembles1

/-- The method `kmc::get_ensembles(environment::group& changed_environments)`. -/
def kmc.get_ensembles_changed (k : kmc) (st : store) (changed_environments : List Nat) :
    Except exn kmc :=
  match kmc.get_ensembles_loop st changed_environments k.ensembles with
  | .error e => .error e
  | .ok ensembles => .ok { k with ensembles := ensembles }

/-- The method `kmc::get_ensembles()`. -/
def kmc.get_ensembles (k : kmc) (st : store) : Except exn kmc :=
  kmc.get_ensembles_changed k st (set_insert_range ptr_lt [] k.environments)

/-- The loop of `kmc::delete_ensembles`: the class map and the store after the
ensembles of the deque have been erased from their class and deleted. -/
def kmc.delete_ensembles_loop :
    List Nat → List (ensemble × ens_env_map) × store →
      Except exn (List (ensemble × ens_env_map) × store)
  | [], acc => .ok acc
  | ens_it :: rest, acc =>
    match acc.2.ens ens_it with
    | none => .error .undefined_behaviour
    | some obj =>
      match map_find ensemble.lt acc.1 obj with
      | some ens_map_it =>
        if (map_erase ptr_lt ens_it ens_map_it.2).2 < 1 then .error .bad_pointer_corrupted
        else
          kmc.delete_ensembles_loop rest
            (map_modify ensemble.lt obj (fun m => (map_erase ptr_lt ens_it m).1) acc.1,
              { acc.2 with ens := Function.update acc.2.ens ens_it none })
      | none =>
        kmc.delete_ensembles_loop rest
          (acc.1, { acc.2 with ens := Function.update acc.2.ens ens_it none })

/-- The method `kmc::delete_ensembles`. -/
def kmc.delete_ensembles (k : kmc) (st : store) (old_ensembles : List Nat) :
    Except exn (kmc × store) :=
  match kmc.delete_ensembles_loop old_ensembles (k.ensembles, st) with
  | .error e => .error e
  | .ok r => .ok ({ k with ensembles := r.1 }, r.2)

/-- The branch of `kmc::perform_reaction(rxn_ensemble_iter_map_iter, double)`
for a reaction that involves the surface: an instance of the class `ens_map_it`
is drawn, changed by `change_ensemble`, and the class map is brought up to
date.  The generator `*random` of the engine is the generator of the
environments (`environment::set_rng(random)`); `size` and `r` are
`unsigned int`. -/
def kmc.perform_reaction_surface (sc : Nat → Nat) (k : kmc) (st : store)
    (ens_map_it : ensemble) (products : List Nat) : Except exn (kmc × store) :=
  match map_find ensemble.lt k.ensembles ens_map_it with
  | none => .error .undefined_behaviour
  | some entry =>
    if entry.2.length % 2 ^ 32 < 1 then .error .bad_request_no_ensemble
    else
      match st.random with
      | none => .error .undefined_behaviour
      | some g =>
        match g.get_random_n (entry.2.length % 2 ^ 32) with
        | .error e => .error e
        | .ok r =>
          match entry.2[r.1 % 2 ^ 32]? with
          | none => .error .undefined_behaviour
          | some ens_env_it =>
            match environment.change_ensemble sc (st.with_random r.2) ens_env_it.2 ens_env_it.1
                products [] [] with
            | .error e => .error e
            | .ok changed =>
              match kmc.delete_ensembles k changed.1 changed.2.1 with
              | .error e => .error e
              | .ok deleted =>
                match kmc.get_ensembles_changed deleted.1 deleted.2 changed.2.2 with
                | .error e => .error e
                | .ok k1 => .ok (k1, deleted.2)

/-- The part of `kmc::perform_reaction(rxn_ensemble_iter_map_iter, double)`
after the direction has been chosen.  The call `kmc_reaction` of the reactor
acts on the quantities of the species only; `reactor` is the exception it
throws, if any. -/
def kmc.perform_reaction_direction (sc : Nat → Nat)
    (reactor : List Nat → List Nat → Option exn) (k : kmc) (st : store)
    (ens_map_it : ensemble_map_iter) (reactants products : Option (List Nat)) :
    Except exn (kmc × store) :=
  match reactants, products with
  | some reactants, some products =>
    match ens_map_it with
    | some ens =>
      match kmc.perform_reaction_surface sc k st ens products with
      | .error e => .error e
      | .ok r =>
        match reactor reactants products with
        | some e => .error e
        | none => .ok r
    | none =>
      match reactor reactants products with
      | some e => .error e
      | none => .ok (k, st)
  | _, _ => .error .bad_input_sequences

/-- The method `kmc::perform_reaction(rxn_ensemble_iter_map_iter, double)`, for
the entry of the reaction `rxn` with the class iterators `rxn_for_rev`. -/
def kmc.perform_reaction (sc : Nat → Nat) (reactor : List Nat → List Nat → Option exn)
    (k : kmc) (st : store) (rxn : model_reaction)
    (rxn_for_rev : ensemble_map_iter × ensemble_map_iter) (rate : ℚ) :
    Except exn (kmc × store) :=
  if rate > 0 then
    kmc.perform_reaction_direction sc reactor k st rxn_for_rev.1
      rxn.get_reactant_seq_ptr rxn.get_product_seq_ptr
  else if rate < 0 then
    kmc.perform_reaction_direction sc reactor k st rxn_for_rev.2
      rxn.get_product_seq_ptr rxn.get_reactant_seq_ptr
  else .error .bad_value_rate

/-- The method `kmc::perform_reaction(model_reaction&)`, which
`kmc::initial_coverage` calls to put a species on empty sites. -/
def kmc.perform_reaction_rxn (sc : Nat → Nat) (reactor : List Nat → List Nat → Option exn)
    (k : kmc) (st : store) (rxn : model_reaction) : Except exn (Bool × kmc × store) :=
  match rxn.get_reactant_seq with
  | .error e => .error e
  | .ok reactant_seq =>
    match map_find ensemble.lt k.ensembles (ensemble.ctor sc reactant_seq) with
    | none => .error .bad_request_empty_class
    | some em_it =>
      if em_it.2.isEmpty then .ok (false, k, st)
      else
        match kmc.perform_reaction sc reactor k st rxn (some em_it.1, none) 1 with
        | .error e => .error e
        | .ok r => .ok (true, r)

/-! ## Creation of the environments (`environment.cc`, `kmc.cc`) -/

/-- The elements `surface[up][column]`, ... that `environment::set_neighbors`
pushes onto `neighbors` for an environment at `center`, `none` for an element
that is not in the matrix; `first` is the first row of `surface`, the positions
and sizes are `int`. -/
def environment.neighbor_elements (type : environment.type) (center : lattice_point)
    (surface : List (List Nat)) (first : List Nat) : List (Option Nat) :=
  let row : Int := center.row
  let column : Int := center.column
  let rows : Int := surface.length
  let columns : Int := first.length
  let up : Int := if row - 1 < 0 then rows - 1 else row - 1
  let down : Int := if row + 1 ≥ rows then 0 else row + 1
  let left : Int := if column - 1 < 0 then columns - 1 else column - 1
  let right : Int := if column + 1 ≥ columns then 0 else column + 1
  let element : Int → Int → Option Nat := fun r c =>
    if r < 0 ∨ c < 0 then none else (surface[r.toNat]?).bind (fun l => l[c.toNat]?)
  [element up column, element down column, element row right, element row left] ++
    (if type = .Enn then []
    else [element up left, element up right, element down left, element down right])

/-- The method `environment::set_neighbors`, for the matrix `surface` of the
environments.  The positions and sizes are converted to `int`. -/
def environment.set_neighbors (st : store) (this : Nat) (surface : List (List Nat)) :
    Except exn store :=
  if st.env_type = .Esingle then .ok st
  else
    match surface.head? with
    | none => .error .undefined_behaviour
    | some first =>
      if (st.env this).center.row ≥ 2 ^ 31 ∨ (st.env this).center.column ≥ 2 ^ 31 ∨
          surface.length ≥ 2 ^ 31 ∨ first.length ≥ 2 ^ 31 then .error .undefined_behaviour
      else
        match (environment.neighbor_elements st.env_type (st.env this).center surface
            first).allSome with
        | none => .error .undefined_behaviour
        | some added =>
          .ok { st with
            env := Function.update st.env this
              { (st.env this) with neighbors := (st.env this).neighbors ++ added } }

/-- The method `environment::radiate`: `touch` and `groups` after the call at
the environment `this` with `n_sites`. -/
def environment.radiate (env : Nat → environment) :
    Nat → Nat → List Nat × List (List Nat) → List Nat × List (List Nat)
  | 0, _, acc => acc
  | n_sites + 1, this, acc =>
    let r := (env this).neighbors.foldl
      (fun (a : List Nat × List (List Nat)) it =>
        ((environment.radiate env n_sites it (a.1, [])).1,
          (environment.radiate env n_sites it (a.1, [])).2.foldl
            (fun groups git =>
              set_insert lexicographical_compare (set_insert ptr_lt this git) groups)
            a.2))
      (set_insert ptr_lt this acc.1, acc.2)
    (r.1, set_insert lexicographical_compare [this] r.2)

/-- The method `environment::neighbor_sites`. -/
def environment.neighbor_sites (env : Nat → environment) (this : Nat) :
    Nat → List (List Nat) → List (List Nat)
  | 0, groups => set_insert lexicographical_compare [this] groups
  | 1, groups => set_insert lexicographical_compare [this] groups
  | n_sites + 2, groups =>
    set_insert lexicographical_compare [this]
      ((environment.neighbor_sites env this (n_sites + 1) []).foldl
        (fun g git =>
          (env this).neighbors.foldl
            (fun g2 it => set_insert lexicographical_compare (set_insert ptr_lt it git) g2) g)
        groups)

/-- The element that an iterator of a `std::set` points at after `++`, for an
iterator that points at `x`; `none` for `end()`. -/
def set_next {α : Type} (lt : α → α → Bool) (s : List α) (x : α) : Option α :=
  s.find? (fun y => lt x y)

/-- The loop `while (++in != sites.end())` of `environment::connectivity`, which
inserts into `sites` while it runs through it; at most `fuel` iterations are
followed, and `none` is the result when that does not reach the end. -/
def environment.criss_cross_in (max_sites : Nat) (out : List Nat) :
    Nat → List Nat → List (List Nat) → Option (List (List Nat))
  | 0, _, _ => none
  | fuel + 1, in_, sites =>
    match set_next lexicographical_compare sites in_ with
    | none => some sites
    | some in1 =>
      environment.criss_cross_in max_sites out fuel in1
        (if (set_insert_range ptr_lt out in1).length ≤ max_sites then
          set_insert lexicographical_compare (set_insert_range ptr_lt out in1) sites
        else sites)

/-- The loop over `out` of `environment::connectivity`, for `groups` that is
`sites` (the call in `environment::initialize`); at most `fuel` iterations of
each loop are followed. -/
def environment.criss_cross (max_sites : Nat) (fuel : Nat) :
    Nat → List Nat → List (List Nat) → Option (List (List Nat))
  | 0, _, _ => none
  | n + 1, out, sites =>
    match environment.criss_cross_in max_sites out fuel out sites with
    | none => none
    | some sites1 =>
      match set_next lexicographical_compare sites1 out with
      | none => some sites1
      | some out1 => environment.criss_cross max_sites fuel n out1 sites1

/-- The method `environment::connectivity`, called with `connected` for `touch`
and `sites` for `groups`. -/
def environment.connectivity (fuel : Nat) (st : store) (this : Nat) (n_sites : Nat) :
    Except exn store :=
  if st.radial then
    match
      (match (environment.radiate st.env n_sites this
          ((st.env this).connected, (st.env this).sites)).2 with
      | [] => some []
      | out :: rest => environment.criss_cross st.max_sites fuel fuel out (out :: rest)) with
    | none => .error .loop_bound
    | some sites =>
      .ok { st with
        env := Function.update st.env this
          { (st.env this) with
            connected := (environment.radiate st.env n_sites this
              ((st.env this).connected, (st.env this).sites)).1
            sites := sites } }
  else if n_sites > (st.env this).neighbors.length + 1 then .error .bad_input_connectivity
  else
    .ok { st with
      env := Function.update st.env this
        { (st.env this) with
          connected :=
            set_insert_range ptr_lt (set_insert ptr_lt this (st.env this).connected)
              (st.env this).neighbors
          sites := environment.neighbor_sites st.env this n_sites (st.env this).sites } }

/-- The method `environment::initialize`. -/
def environment.initialize (sc : Nat → Nat) (fuel : Nat) (st : store) (this : Nat) :
    Except exn store :=
  match st.random with
  | none => .error .bad_pointer_rng
  | some _ =>
    match environment.connectivity fuel
        { st with env := Function.update st.env this { (st.env this) with sites := [] } }
        this st.max_sites with
    | .error e => .error e
    | .ok st1 =>
      match environment.create_ensembles sc st1 this with
      | .error e => .error e
      | .ok st2 =>
        .ok { st2 with
          env := Function.update st2.env this { (st2.env this) with initialized := true } }

/-- The constructor `environment::environment(lattice_point*)`. -/
def environment.ctor (center_ : lattice_point) : environment :=
  { center := center_, multisite := [], neighbors := [], connected := [], sites := [],
    ensembles := [], ensemble_env := [], initialized := false }

/-- The loop over the columns in `kmc::create_environments`: the environments
of the row are created at the addresses from `next` on. -/
def kmc.create_environments_row (surface : lattice) (row : Nat) :
    List Nat → List Nat × store → Except exn (List Nat × store)
  | [], acc => .ok acc
  | col :: rest, acc =>
    match surface.get_point row col with
    | .error e => .error e
    | .ok point =>
      kmc.create_environments_row surface row rest
        (acc.1 ++ [acc.2.next],
          { acc.2 with
            env := Function.update acc.2.env acc.2.next (environment.ctor point)
            next := acc.2.next + 1 })

/-- The loop over the rows in `kmc::create_environments`: the matrix
`env_surface` and the store after the environments have been created. -/
def kmc.create_environments_rows (surface : lattice) :
    List Nat → List (List Nat) × store → Except exn (List (List Nat) × store)
  | [], acc => .ok acc
  | row :: rest, acc =>
    match kmc.create_environments_row surface row (List.range surface.get_size) ([], acc.2) with
    | .error e => .error e
    | .ok r => kmc.create_environments_rows surface rest (acc.1 ++ [r.1], r.2)

/-- The loop of `kmc::create_environments` that sets the neighbors. -/
def kmc.set_neighbors_all (env_surface : List (List Nat)) : List Nat → store → Except exn store
  | [], st => .ok st
  | eit :: rest, st =>
    match environment.set_neighbors st eit env_surface with
    | .error e => .error e
    | .ok st1 => kmc.set_neighbors_all env_surface rest st1

/-- The loop of `kmc::create_environments` that initializes the environments. -/
def kmc.initialize_all (sc : Nat → Nat) (fuel : Nat) : List Nat → store → Except exn store
  | [], st => .ok st
  | eit :: rest, st =>
    match environment.initialize sc fuel st eit with
    | .error e => .error e
    | .ok st1 => kmc.initialize_all sc fuel rest st1

/-- The method `kmc::create_environments`.  An environment and an ensemble are
objects of one heap: `new environment` returns the address `next` of the
store. -/
def kmc.create_environments (sc : Nat → Nat) (fuel : Nat) (k : kmc) (st : store)
    (empty_site : Option Nat) : Except exn (kmc × store) :=
  match k.env_type with
  | none => .error .bad_value_environment_type
  | some type =>
    match kmc.create_environments_rows k.surface (List.range k.surface.get_size)
        ([], { st with
          env_type := type, radial := k.env_radial, max_sites := k.max_sites,
          random := k.random, empty_site := empty_site }) with
    | .error e => .error e
    | .ok created =>
      match kmc.set_neighbors_all created.1 (k.environments ++ created.1.flatten) created.2 with
      | .error e => .error e
      | .ok st1 =>
        match kmc.initialize_all sc fuel (k.environments ++ created.1.flatten) st1 with
        | .error e => .error e
        | .ok st2 => .ok ({ k with environments := k.environments ++ created.1.flatten }, st2)

/-- The method `kmc::calc_max_coordination`. -/
def kmc.calc_max_coordination (sc : Nat → Nat) (mech : model_mechanism) (k : kmc) : kmc :=
  { k with
    max_coordination :=
      mech.speciess.foldl (fun m it => if sc it > m then sc it else m) k.max_coordination }

/-- The method `kmc::initialize`, up to its call of `get_ensembles()`; `empty`
is the species that `mech->get_species("@")` returns.  The calls before that
act on the reactor, the precision and the counters of the reactions; the calls
after, `calc_rate_scale()` and `initial_coverage(empty)`, act on the class map
and the environments through `perform_reaction(rxn)` only. -/
def kmc.initialize (sc : Nat → Nat) (mech : model_mechanism) (empty : Option Nat) (fuel : Nat)
    (k : kmc) (st : store) : Except exn (kmc × store) :=
  match
    (if (kmc.calc_max_coordination sc mech k).max_coordination > 0 then
      match empty with
      | none => .error .bad_pointer_empty_site
      | some e => .ok (some e, k.surface)
    else
      match k.surface.set_size 0 with
      | .error e => .error e
      | .ok surface => .ok (none, surface) : Except exn (Option Nat × lattice)) with
  | .error e => .error e
  | .ok r =>
    match kmc.create_ensembles sc mech r.1
        { kmc.calc_max_coordination sc mech k with
          max_sites := (kmc.calc_max_coordination sc mech k).max_coordination
          surface := r.2 } with
    | .error e => .error e
    | .ok k1 =>
      match k1.surface.initialize r.1 with
      | .error e => .error e
      | .ok surface =>
        match kmc.create_environments sc fuel { k1 with surface := surface } st r.1 with
        | .error e => .error e
        | .ok created => 
          match kmc.get_ensembles created.1 created.2 with
          | .error e => .error e
          | .ok k2 => .ok (k2, created.2)

/-! ## The lattice: the `throw` of `lattice::initialize` (`lattice.cc`) -/

/-- The `throw` statement of `lattice::initialize`: the exception thrown, with
the lattice as the statements before the `throw` left it.  The result is
`none` when the statement is not reached. -/
def lattice.initialize_throw (l : lattice) (empty_site : Option Nat) :
    Option (exn × lattice) :=
  if l.size > 0 then
    match empty_site with
    | none => some (.bad_pointer_lattice, l)
    | some _ => none
  else none

/-! ## The Mersenne Twister (`rng.cc`, `rng.h`) -/

/-- The constant `rng_mt::length`, the length of the state vector. -/
def rng_mt.length : Nat := 624

/-- The constant `rng_mt::period`. -/
def rng_mt.period : Nat := 397

/-- The constant `rng_mt::magic`. -/
def rng_mt.magic : Nat := 0x9908b0df

/-- Class `rng_mt`: the member `seed` of the base class `rng`, the array
`state[length + 1]`, the pointer `next` as an index of `state`, and `left`.
The type `ul_int` is `unsigned long`, of 64 bits. -/
structure rng_mt where
  seed : Nat
  state : List Nat
  next : Nat
  left : Int

/-- The method `rng_mt::hiBit`. -/
def rng_mt.hiBit (u : Nat) : Nat := u &&& 0x80000000

/-- The method `rng_mt::loBit`. -/
def rng_mt.loBit (u : Nat) : Nat := u &&& 0x00000001

/-- The method `rng_mt::loBits`. -/
def rng_mt.loBits (u : Nat) : Nat := u &&& 0x7fffffff

/-- The method `rng_mt::mixBits`. -/
def rng_mt.mixBits (u v : Nat) : Nat := rng_mt.hiBit u ||| rng_mt.loBits v

/-- The loop of `rng_mt::seed_state` after its first assignment: the words
`(x *= 69069UL) & 0xffffffffUL` of `j` iterations. -/
def rng_mt.seed_state_loop : Nat → Nat → List Nat
  | 0, _ => []
  | j + 1, x =>
    (((x * 69069) % 2 ^ 64) &&& 0xffffffff) :: rng_mt.seed_state_loop j ((x * 69069) % 2 ^ 64)

/-- The method `rng_mt::seed_state`: the first `length` elements of `state`
are filled from the seed and `left` is set to 0; the element `state[length]`
and `next` are left as they are. -/
def rng_mt.seed_state (g : rng_mt) : rng_mt :=
  { g with
    state :=
      (((g.seed ||| 1) &&& 0xffffffff) ::
        rng_mt.seed_state_loop (rng_mt.length - 1) ((g.seed ||| 1) &&& 0xffffffff))
        ++ g.state.drop rng_mt.length
    left := 0 }

/-- The locals of `rng_mt::reload` in its loops: the array `state`, the
pointers `p0`, `p2`, `pp` as indices, and `s0`, `s1`. -/
structure rng_mt.reload_state where
  state : List Nat
  p0 : Nat
  p2 : Nat
  pp : Nat
  s0 : Nat
  s1 : Nat

/-- The value `*pp ^ (mixBits(s0, s1) >> 1) ^ (loBit(s1) ? magic : 0UL)` of
`rng_mt::reload`. -/
def rng_mt.twist (a : rng_mt.reload_state) : Nat :=
  (a.state.getD a.pp 0 ^^^ (rng_mt.mixBits a.s0 a.s1 >>> 1)) ^^^
    (if rng_mt.loBit a.s1 ≠ 0 then rng_mt.magic else 0)

/-- The `for` loops of `rng_mt::reload`, for `j` iterations: the body
`*p0++ = *pp++ ^ ...` and then `s0 = s1, s1 = *p2++`. -/
def rng_mt.reload_loop : Nat → rng_mt.reload_state → rng_mt.reload_state
  | 0, a => a
  | j + 1, a =>
    rng_mt.reload_loop j
      { state := a.state.set a.p0 (rng_mt.twist a), p0 := a.p0 + 1, p2 := a.p2 + 1,
        pp := a.pp + 1, s0 := a.s1, s1 := (a.state.set a.p0 (rng_mt.twist a)).getD a.p2 0 }

/-- The tempering of a word of the state, at the end of `rng_mt::reload` and of
`rng_mt::get_random`. -/
def rng_mt.temper (y : Nat) : Nat :=
  let y1 := y ^^^ (y >>> 11)
  let y2 := y1 ^^^ (((y1 <<< 7) % 2 ^ 64) &&& 0x9d2c5680)
  let y3 := y2 ^^^ (((y2 <<< 15) % 2 ^ 64) &&& 0xefc60000)
  y3 ^^^ (y3 >>> 18)

/-- The method `rng_mt::reload`: the value returned and the generator after the
call. -/
def rng_mt.reload (g : rng_mt) : Nat × rng_mt :=
  let a1 := rng_mt.reload_loop (rng_mt.length - rng_mt.period)
    { state := g.state, p0 := 0, p2 := 2, pp := rng_mt.period, s0 := g.state.getD 0 0,
      s1 := g.state.getD 1 0 }
  let a2 := rng_mt.reload_loop (rng_mt.period - 1) { a1 with pp := 0 }
  let a3 : rng_mt.reload_state := { a2 with s1 := a2.state.getD 0 0 }
  (rng_mt.temper (a2.state.getD 0 0),
    { g with
      state := a3.state.set a3.p0 (rng_mt.twist a3)
      next := 1
      left := rng_mt.length - 1 })

/-- The method `rng_mt::get_random`. -/
def rng_mt.get_random (g : rng_mt) : Nat × rng_mt :=
  if g.left - 1 < 0 then rng_mt.reload { g with left := g.left - 1 }
  else
    (rng_mt.temper (g.state.getD g.next 0), { g with left := g.left - 1, next := g.next + 1 })

/-- The constructor `rng_mt::rng_mt(ul_int seed_)`.  The members `state` and
`next` of a new object are indeterminate; they are 0 here.  The method
`seed_state` sets all of `state` but its last element, which `reload` reads
only into a variable that it overwrites, and `reload` sets `next` before
`get_random` reads it. -/
def rng_mt.ctor (seed_ : Nat) : rng_mt :=
  rng_mt.seed_state
    { seed := seed_, state := List.replicate (rng_mt.length + 1) 0, next := 0, left := 0 }

/-- The method `rng_mt::copy`, with the copy constructor
`rng_mt::rng_mt(const rng_mt&)`: the base class copies the seed, and
`seed_state` fills the state of the new object. -/
def rng_mt.copy (original : rng_mt) : rng_mt :=
  rng_mt.seed_state
    { seed := original.seed, state := List.replicate (rng_mt.length + 1) 0, next := 0,
      left := 0 }

/-- The method `rng_mt::set_seed`: the generator after the call. -/
def rng_mt.set_seed (g : rng_mt) (seed_ : Nat) : rng_mt :=
  rng_mt.seed_state { g with seed := seed_ }

/-- The values of `n` successive calls of `rng_mt::get_random`. -/
def rng_mt.draws : Nat → rng_mt → List Nat
  | 0, _ => []
  | n + 1, g => (rng_mt.get_random g).1 :: rng_mt.draws n (rng_mt.get_random g).2

/-! ## The engine: the scale factors of the rates (`kmc.cc`) -/

/-- The loop of `kmc::coverage_scale`: the values of `(cov_scale, sum)`.  The
function `std::pow` of `<cmath>` is the parameter `pow`. -/
def kmc.coverage_scale_loop (pow : ℚ → ℚ → ℚ) (sc : Nat → Nat) :
    List (Nat × stoichiometric) → ℚ × ℚ → ℚ × ℚ
  | [], acc => acc
  | it :: rest, acc =>
    if sc it.1 > 0 then
      kmc.coverage_scale_loop pow sc rest
        (acc.1 * pow (it.2.power / (sc it.1 : ℚ)) it.2.power, acc.2 + it.2.power)
    else kmc.coverage_scale_loop pow sc rest acc

/-- The method `kmc::coverage_scale`. -/
def kmc.coverage_scale (pow : ℚ → ℚ → ℚ) (sc : Nat → Nat)
    (reactants : List (Nat × stoichiometric)) : ℚ :=
  (kmc.coverage_scale_loop pow sc reactants (1, 0)).1 /
    pow (kmc.coverage_scale_loop pow sc reactants (1, 0)).2
      (kmc.coverage_scale_loop pow sc reactants (1, 0)).2

/-! ## Quantities and the reactor (`quantity.cc`, `precision.cc`, `reactor.cc`) -/

/-- The enumeration `quantity::type`. -/
inductive quantity.type where
  | Econcentration | Epressure | Eflow
  deriving DecidableEq, Repr

/-- Class `precision`, of which the program has one object. -/
structure precision where
  dbl_precision : ℚ
  pressure : ℚ
  concentration : ℚ
  flow : ℚ
  coverage : ℚ
  deriving DecidableEq

/-- The constructor `precision::precision()`. -/
def precision.ctor : precision :=
  { dbl_precision := DBL_EPSILON, pressure := DBL_EPSILON, concentration := DBL_EPSILON,
    flow := DBL_EPSILON, coverage := DBL_EPSILON }

/-- The method `precision::get_double`. -/
def precision.get_double (p : precision) : ℚ := p.dbl_precision

/-- The method `precision::get_pressure`. -/
def precision.get_pressure (p : precision) : ℚ := p.pressure

/-- The method `precision::get_concentration`. -/
def precision.get_concentration (p : precision) : ℚ := p.concentration

/-- The method `precision::get_coverage`. -/
def precision.get_coverage (p : precision) : ℚ := p.coverage

/-- The method `precision::set_coverage`: the object after the call. -/
def precision.set_coverage (p : precision) (coverage_ : ℚ) : precision :=
  { p with coverage := if coverage_ < DBL_EPSILON then DBL_EPSILON else coverage_ }

/-- The classes `surface_quantity` and `fluid_quantity`, which derive from
`quantity`, with their members. -/
inductive quantity where
  | surface_quantity (coverage : ℚ)
  | fluid_quantity (concentration pressure flow : ℚ)
  deriving DecidableEq

/-- The virtual method `quantity::get_quantity(type)`; a `surface_quantity`
ignores the type. -/
def quantity.get_quantity : quantity → quantity.type → ℚ
  | .surface_quantity coverage, _ => coverage
  | .fluid_quantity concentration _ _, .Econcentration => concentration
  | .fluid_quantity _ pressure _, .Epressure => pressure
  | .fluid_quantity _ _ flow, .Eflow => flow

/-- The virtual method `quantity::set_quantity(type, amount)`, with
`surface_quantity::set_coverage`, `fluid_quantity::set_concentration`,
`set_pressure` and `set_flow`: the object after the call. -/
def quantity.set_quantity (prec : precision) : quantity → quantity.type → ℚ → Except exn quantity
  | .surface_quantity _, _, amount =>
    if amount < 0 - prec.get_coverage ∨ amount > 1 + prec.get_coverage then
      .error .bad_value_coverage
    else .ok (.surface_quantity amount)
  | .fluid_quantity _ pressure flow, .Econcentration, amount =>
    if amount < 0 - prec.get_concentration then .error .bad_value_concentration
    else .ok (.fluid_quantity amount pressure flow)
  | .fluid_quantity concentration _ flow, .Epressure, amount =>
    if amount < 0 - prec.get_pressure then .error .bad_value_pressure
    else .ok (.fluid_quantity concentration amount flow)
  | .fluid_quantity concentration pressure _, .Eflow, amount =>
    .ok (.fluid_quantity concentration pressure amount)

/-- The virtual method `quantity::add_to_quantity(type, increment)`: the object
after the call. -/
def quantity.add_to_quantity (prec : precision) (q : quantity) (type_ : quantity.type)
    (increment : ℚ) : Except exn quantity :=
  q.set_quantity prec type_ (q.get_quantity type_ + increment)

/-- The constant `constant::avogadro` of `constant.cc`. -/
def constant.avogadro : ℚ := 60221367 * 10 ^ 16

/-- The constant `constant::k` of `constant.cc`. -/
def constant.k : ℚ := 1380657 / 10 ^ 29

/-- The enumeration `reactor::rate_amount`. -/
inductive reactor.rate_amount where
  | Emoles | Emolecules
  deriving DecidableEq, Repr

/-- The enumeration `reactor::rate_size`. -/
inductive reactor.rate_size where
  | Evolume | Eweight | Esites
  deriving DecidableEq, Repr

/-- Class `reactor`, the members. -/
structure reactor where
  temperature : ℚ
  heating_rate : ℚ
  pressure : ℚ
  volume : ℚ
  weight : ℚ
  sites : ℚ
  amount_type : reactor.rate_amount
  size_type : reactor.rate_size
  fluid_type : quantity.type
  deriving DecidableEq

/-- The constructor `reactor::reactor()`. -/
def reactor.ctor : reactor :=
  { temperature := 27315 / 100, heating_rate := 0, pressure := 1, volume := 1, weight := 0,
    sites := 0, amount_type := .Emoles, size_type := .Evolume, fluid_type := .Econcentration }

/-- The method `reactor::get_temperature`. -/
def reactor.get_temperature (r : reactor) : ℚ := r.temperature

/-- The method `reactor::get_heating_rate`. -/
def reactor.get_heating_rate (r : reactor) : ℚ := r.heating_rate

/-- The method `reactor::get_volume`. -/
def reactor.get_volume (r : reactor) : ℚ := r.volume

/-- The method `reactor::get_weight`. -/
def reactor.get_weight (r : reactor) : ℚ := r.weight

/-- The method `reactor::get_sites`. -/
def reactor.get_sites (r : reactor) : ℚ := r.sites

/-- The method `reactor::set_sites`: the reactor after the call. -/
def reactor.set_sites (prec : precision) (r : reactor) (sites_ : ℚ) : Except exn reactor :=
  if sites_ < -prec.get_coverage then .error .bad_value_sites else .ok { r with sites := sites_ }

/-- The method `reactor::set_temperature`: the reactor after the call.  The
test is on the member `temperature`, not on the argument. -/
def reactor.set_temperature (prec : precision) (r : reactor) (temperature_ : ℚ) :
    Except exn reactor :=
  if r.temperature < -prec.get_double then .error .bad_value_temperature
  else .ok { r with temperature := temperature_ }

/-- The objects that the engine reaches through `state_info`, through the
species of `mech` and through `precision::get()`: the precision, the reactor,
the static member `model_reaction::amount_type`, and the member `amount` of
every `model_species`, which is a `surface_quantity` for a species with a
surface coordination and a `fluid_quantity` otherwise. -/
structure state where
  prec : precision
  rxtor : reactor
  amount_type : quantity.type
  amount : Nat → quantity

/-- The method `model_species::get_quantity(type)`. -/
def state.get_quantity (s : state) (msp : Nat) (type_ : quantity.type) : ℚ :=
  (s.amount msp).get_quantity type_

/-- The method `model_species::set_quantity(type, amount_)`: the objects after
the call. -/
def state.set_quantity (s : state) (msp : Nat) (type_ : quantity.type) (amount_ : ℚ) :
    Except exn state :=
  match (s.amount msp).set_quantity s.prec type_ amount_ with
  | .error e => .error e
  | .ok q => .ok { s with amount := Function.update s.amount msp q }

/-- The method `model_species::add_to_quantity(type, increment)`: the objects
after the call. -/
def state.add_to_quantity (s : state) (msp : Nat) (type_ : quantity.type) (increment : ℚ) :
    Except exn state :=
  match (s.amount msp).add_to_quantity s.prec type_ increment with
  | .error e => .error e
  | .ok q => .ok { s with amount := Function.update s.amount msp q }

/-- The quotient of two numbers of type `double`.  A division by zero gives no
finite number. -/
def double_div (a b : ℚ) : Except exn ℚ := if b = 0 then .error .not_finite else .ok (a / b)

/-- The method `reactor::kmc_reaction(model_species* msp)`, the change of the
quantity of a species for one molecule. -/
def reactor.kmc_reaction_msp (sc : Nat → Nat) (r : reactor) (msp : Nat) : Except exn ℚ :=
  if sc msp > 0 then double_div 1 r.get_sites
  else if r.fluid_type = .Epressure then double_div (constant.k * r.get_temperature) r.get_volume
  else if r.fluid_type = .Econcentration then double_div 1 (constant.avogadro * r.get_volume)
  else .error .bad_type_units

/-- The method `reactor::kmc_quantities(net, molecules)`. -/
def reactor.kmc_quantities (sc : Nat → Nat) (s : state) :
    List (Nat × stoichiometric) → ℚ → Except exn Bool
  | [], _ => .ok true
  | it :: rest, molecules =>
    if molecules * it.2.coefficient < 0 then
      match reactor.kmc_reaction_msp sc s.rxtor it.1 with
      | .error e => .error e
      | .ok x =>
        if s.get_quantity it.1 s.rxtor.fluid_type < -(molecules * it.2.coefficient) * x then
          .ok false
        else reactor.kmc_quantities sc s rest molecules
    else reactor.kmc_quantities sc s rest molecules

/-- A loop of `reactor::kmc_reaction(reactants, products, molecules)`: the
quantity of every species of the sequence is incremented by `molecules` times
its change for one molecule. -/
def reactor.kmc_reaction_loop (sc : Nat → Nat) (molecules : ℚ) : List Nat → state → Except exn state
  | [], s => .ok s
  | sp_it :: rest, s =>
    match reactor.kmc_reaction_msp sc s.rxtor sp_it with
    | .error e => .error e
    | .ok x =>
      match s.add_to_quantity sp_it s.rxtor.fluid_type (molecules * x) with
      | .error e => .error e
      | .ok s1 => reactor.kmc_reaction_loop sc molecules rest s1

/-- The method `reactor::kmc_reaction(reactants, products, molecules)`: the
loop through the reactants with `- molecules`, then the loop through the
products with `molecules`. -/
def reactor.kmc_reaction (sc : Nat → Nat) (s : state) (reactants products : List Nat)
    (molecules : ℚ) : Except exn state :=
  match reactor.kmc_reaction_loop sc (-molecules) reactants s with
  | .error e => .error e
  | .ok s1 => reactor.kmc_reaction_loop sc molecules products s1

/-- The method `reactor::kmc_initialize(kmc_sites, scale)`: the scale
returned, and the objects after the call. -/
def reactor.kmc_initialize (s : state) (kmc_sites : Nat) (scale : ℚ) : Except exn (ℚ × state) :=
  if s.rxtor.get_sites > s.prec.get_double then
    if kmc_sites > 0 then .ok (s.rxtor.get_sites / (kmc_sites : ℚ), s)
    else .ok (scale, s)
  else
    match reactor.set_sites s.prec s.rxtor ((kmc_sites : ℚ) * scale) with
    | .error e => .error e
    | .ok r => .ok (scale, { s with rxtor := r })

/-- The method `reactor::kmc_rate(original_rate)`. -/
def reactor.kmc_rate (r : reactor) (original_rate : ℚ) : ℚ :=
  (if r.amount_type = .Emoles then original_rate * constant.avogadro else original_rate) *
    (match r.size_type with
      | .Evolume => r.get_volume
      | .Eweight => r.get_weight
      | .Esites => r.get_sites)

/-- The loop of `reactor::kmc_step` through the species of the model; the
virtual method `kmc_step(msp, dx, T0, T1)` of the class of the reactor is
`kmc_step_msp`. -/
def reactor.kmc_step_loop (sc : Nat → Nat)
    (kmc_step_msp : state → Nat → ℚ → ℚ → ℚ → Except exn state) (dx T0 T1 : ℚ) :
    List Nat → state → Except exn state
  | [], s => .ok s
  | sp_it :: rest, s =>
    if sc sp_it < 1 then
      match kmc_step_msp s sp_it dx T0 T1 with
      | .error e => .error e
      | .ok s1 => reactor.kmc_step_loop sc kmc_step_msp dx T0 T1 rest s1
    else reactor.kmc_step_loop sc kmc_step_msp dx T0 T1 rest s

/-- The method `reactor::kmc_step(species_begin, species_end, dx)`.  The `T1`
that the loop passes on is the variable declared before the `if`, which holds
`T0`; the new temperature is a variable of the block of the `if`. -/
def reactor.kmc_step (sc : Nat → Nat)
    (kmc_step_msp : state → Nat → ℚ → ℚ → ℚ → Except exn state) (s : state)
    (species : List Nat) (dx : ℚ) : Except exn state :=
  if |s.rxtor.get_heating_rate| > s.prec.get_double then
    match reactor.set_temperature s.prec s.rxtor
        (s.rxtor.get_temperature + s.rxtor.get_heating_rate * dx) with
    | .error e => .error e
    | .ok r =>
      reactor.kmc_step_loop sc kmc_step_msp dx s.rxtor.get_temperature s.rxtor.get_temperature
        species { s with rxtor := r }
  else
    reactor.kmc_step_loop sc kmc_step_msp dx s.rxtor.get_temperature s.rxtor.get_temperature
      species s

/-! ## The engine: the rates of the reactions (`kmc.cc`, `reaction.cc`) -/

/-- Further members of class `kmc`: the number of steps taken, whether the rate
constants are event based, the scale-up factor of the reactor, and the map
`rate_scale` of the reactions and their pairs of scale factors. -/
structure kmc.rate_members where
  steps : Nat
  event_rate : Bool
  scale : ℚ
  rate_scale : List (Nat × (ℚ × ℚ))

/-- The functions of the rates that are no rational functions: `std::pow` of
`<cmath>`, and the rate constants `k_forward` and `k_reverse` of every
reaction (class `k`), functions of the temperature; a null `k_forward` is
`none`, and `k_reverse` is looked at for a reversible reaction only. -/
structure rate_functions where
  pow : ℚ → ℚ → ℚ
  k_forward : Nat → Option (ℚ → ℚ)
  k_reverse : Nat → ℚ → ℚ

/-- The inner loop of `kmc::count_sites`, through the sites of one environment;
`site_count` is the vector of the counters. -/
def kmc.count_sites_env (max_sites : Nat) : List (List Nat) → List Int → Except exn (List Int)
  | [], site_count => .ok site_count
  | site_it :: rest, site_count =>
    if site_it.length % 2 ^ 32 > max_sites then .error .bad_value_site_large
    else if site_it.length % 2 ^ 32 < 1 then .error .bad_value_site_zero
    else
      match site_count[site_it.length % 2 ^ 32]? with
      | none => .error .undefined_behaviour
      | some i =>
        if i + 1 ≥ 2 ^ 31 then .error .undefined_behaviour
        else
          kmc.count_sites_env max_sites rest (site_count.set (site_it.length % 2 ^ 32) (i + 1))

/-- The outer loop of `kmc::count_sites`, through the environments. -/
def kmc.count_sites_loop (k : kmc) (st : store) : List Nat → List Int → Except exn (List Int)
  | [], site_count => .ok site_count
  | env_it :: rest, site_count =>
    match kmc.count_sites_env k.max_sites (st.env env_it).sites site_count with
    | .error e => .error e
    | .ok site_count1 => kmc.count_sites_loop k st rest site_count1

/-- The method `kmc::count_sites`: the vector of the counters after the call. -/
def kmc.count_sites (k : kmc) (st : store) (site_count : List Int) : Except exn (List Int) :=
  kmc.count_sites_loop k st k.environments site_count

/-- The method `kmc::get_site_count`. -/
def kmc.get_site_count (k : kmc) (site_count : List Int) (size : Nat) : Except exn Int :=
  if size < 1 then .error .bad_value_count_small
  else if size > k.max_sites then .error .bad_value_count_large
  else
    match site_count[size]? with
    | none => .error .undefined_behaviour
    | some i => .ok i

/-- The method `kmc::site_scale`, for a reaction with the forward class
`first`. -/
def kmc.site_scale (k : kmc) (first : ensemble) (site_count : List Int) : Except exn ℚ :=
  match kmc.get_site_count k site_count first.get_coordination with
  | .error e => .error e
  | .ok possible_sites => if possible_sites > 0 then .ok (1 / (possible_sites : ℚ)) else .ok 0

/-- The method `kmc::multisite_scale(speciess, site_count)`; it is called with
`sites > 0` only. -/
def kmc.multisite_scale_seq (sc : Nat → Nat) (k : kmc) (site_count : List Int) :
    List Nat → ℚ → Except exn ℚ
  | [], ms_scale => .ok ms_scale
  | sp_it :: rest, ms_scale =>
    if sc sp_it > 1 then
      match kmc.get_site_count k site_count (sc sp_it) with
      | .error e => .error e
      | .ok count =>
        kmc.multisite_scale_seq sc k site_count rest (ms_scale * (count : ℚ) / (k.sites : ℚ))
    else kmc.multisite_scale_seq sc k site_count rest ms_scale

/-- The method `kmc::multisite_scale(rxn_ens_it, site_count, f_scale, r_scale)`:
the values of `(f_scale, r_scale)` after the call. -/
def kmc.multisite_scale (sc : Nat → Nat) (k : kmc) (rxn : model_reaction) (site_count : List Int)
    (f_scale r_scale : ℚ) : Except exn (ℚ × ℚ) :=
  if k.sites > 0 then
    match rxn.get_reactant_seq with
    | .error e => .error e
    | .ok reactant_seq =>
      match kmc.multisite_scale_seq sc k site_count reactant_seq 1 with
      | .error e => .error e
      | .ok f =>
        if rxn.is_reversible then
          match rxn.get_product_seq with
          | .error e => .error e
          | .ok product_seq =>
            match kmc.multisite_scale_seq sc k site_count product_seq 1 with
            | .error e => .error e
            | .ok r => .ok (f_scale * f, r_scale * r)
        else .ok (f_scale * f, r_scale)
  else .ok (f_scale, r_scale)

/-- The method `kmc::coverage_scale(rxn, f_scale, r_scale)`: the values of
`(f_scale, r_scale)` after the call. -/
def kmc.coverage_scale_rxn (pow : ℚ → ℚ → ℚ) (sc : Nat → Nat) (k : kmc) (rxn : model_reaction)
    (f_scale r_scale : ℚ) : ℚ × ℚ :=
  if k.sites > 0 then
    if rxn.is_reversible then
      (f_scale * kmc.coverage_scale pow sc rxn.reactants,
        r_scale * kmc.coverage_scale pow sc rxn.products)
    else (f_scale * kmc.coverage_scale pow sc rxn.reactants, r_scale)
  else (f_scale, r_scale)

/-- The value of `scale` in `kmc::calc_rate_scale` for event based rate
constants and a reaction with a surface class of the coordination `coord`:
`scale /= coord` for radial sites, `scale /= 2.0e0` for neighbor sites and the
coordination 2. -/
def kmc.event_scale (k : kmc) (coord : Nat) : ℚ :=
  if k.env_radial then 1 / (coord : ℚ) else if coord = 2 then 1 / 2 else 1

/-- The loop of `kmc::calc_rate_scale` for event based rate constants: the map
`rate_scale` after the loop. -/
def kmc.calc_rate_scale_event (k : kmc) (site_count : List Int) :
    List (Nat × (ensemble_map_iter × ensemble_map_iter)) → List (Nat × (ℚ × ℚ)) →
      Except exn (List (Nat × (ℚ × ℚ)))
  | [], rate_scale => .ok rate_scale
  | rxn_ens_it :: rest, rate_scale =>
    match rxn_ens_it.2.1 with
    | some first =>
      if first.get_coordination < 1 then .error .bad_request_ensemble_size
      else
        match site_count[first.get_coordination]? with
        | none => .error .undefined_behaviour
        | some count =>
          if count < 1 then .error .bad_request_site_count
          else
            kmc.calc_rate_scale_event k site_count rest
              (map_insert ptr_lt
                (rxn_ens_it.1,
                  (kmc.event_scale k first.get_coordination,
                    kmc.event_scale k first.get_coordination))
                rate_scale)
    | none =>
      kmc.calc_rate_scale_event k site_count rest
        (map_insert ptr_lt (rxn_ens_it.1, (1, 1)) rate_scale)

/-- The loop of `kmc::calc_rate_scale` for coverage based rate constants: the
map `rate_scale` after the loop.  The reaction behind a `model_reaction*` is
the one at that place of the mechanism. -/
def kmc.calc_rate_scale_coverage (pow : ℚ → ℚ → ℚ) (sc : Nat → Nat) (mech : model_mechanism)
    (k : kmc) (site_count : List Int) (reactor_scale : ℚ) :
    List (Nat × (ensemble_map_iter × ensemble_map_iter)) → List (Nat × (ℚ × ℚ)) →
      Except exn (List (Nat × (ℚ × ℚ)))
  | [], rate_scale => .ok rate_scale
  | rxn_ens_it :: rest, rate_scale =>
    match rxn_ens_it.2.1 with
    | some first =>
      match kmc.site_scale k first site_count with
      | .error e => .error e
      | .ok inv_sites =>
        match mech.reactions[rxn_ens_it.1]? with
        | none => .error .undefined_behaviour
        | some rxn =>
          match kmc.multisite_scale sc k rxn site_count (reactor_scale * inv_sites)
              (reactor_scale * inv_sites) with
          | .error e => .error e
          | .ok ms =>
            kmc.calc_rate_scale_coverage pow sc mech k site_count reactor_scale rest
              (map_insert ptr_lt (rxn_ens_it.1, kmc.coverage_scale_rxn pow sc k rxn ms.1 ms.2)
                rate_scale)
    | none =>
      kmc.calc_rate_scale_coverage pow sc mech k site_count reactor_scale rest
        (map_insert ptr_lt (rxn_ens_it.1, (reactor_scale, reactor_scale)) rate_scale)

/-- The method `kmc::calc_rate_scale`: the map `rate_scale` after the call. -/
def kmc.calc_rate_scale (pow : ℚ → ℚ → ℚ) (sc : Nat → Nat) (mech : model_mechanism) (k : kmc)
    (st : store) (s : state) (km : kmc.rate_members) : Except exn (List (Nat × (ℚ × ℚ))) :=
  match kmc.count_sites k st (List.replicate ((k.max_sites + 1) % 2 ^ 32) 0) with
  | .error e => .error e
  | .ok site_count =>
    if km.event_rate then kmc.calc_rate_scale_event k site_count k.rxn_ens km.rate_scale
    else
      match double_div (s.rxtor.kmc_rate 1) km.scale with
      | .error e => .error e
      | .ok reactor_scale =>
        kmc.calc_rate_scale_coverage pow sc mech k site_count reactor_scale k.rxn_ens
          km.rate_scale

/-! ## The engine: the net rate of a reaction (`kmc.cc`, `reaction.cc`) -/

/-- The statement `net[sp] += increment` on a stoichiometric map whose powers
are not set: `operator[]` makes an entry of coefficient 0 for a new species,
and `operator+=` adds to the coefficient and gives the power its value. -/
def stoich_map_add (sp : Nat) (increment : ℚ) :
    List (Nat × stoichiometric) → List (Nat × stoichiometric)
  | [] => [(sp, ⟨0 + increment, 0 + increment⟩)]
  | e :: es =>
    if sp < e.1 then (sp, ⟨0 + increment, 0 + increment⟩) :: e :: es
    else if e.1 < sp then e :: stoich_map_add sp increment es
    else (e.1, ⟨e.2.coefficient + increment, e.2.coefficient + increment⟩) :: es

/-- The method `reaction::get_net_coefficients`: the member `net` of a reaction
whose maps `reactants` and `products` were filled by `add_reactant` and
`add_product`, which add the coefficient to the entry of the species in `net`,
negated for a reactant. -/
def model_reaction.get_net_coefficients (r : model_reaction) : List (Nat × stoichiometric) :=
  r.products.foldl (fun net it => stoich_map_add it.1 it.2.coefficient net)
    (r.reactants.foldl (fun net it => stoich_map_add it.1 (-it.2.coefficient) net) [])

/-- The loop of `model_reaction::get_forward_rate` and `get_reverse_rate`
through a stoichiometric map. -/
def model_reaction.rate_loop (f : rate_functions) (s : state) :
    List (Nat × stoichiometric) → ℚ → ℚ
  | [], rate => rate
  | it :: rest, rate =>
    model_reaction.rate_loop f s rest
      (rate * f.pow (s.get_quantity it.1 s.amount_type) it.2.power)

/-- The loop of `model_reaction::get_fluid_forward_rate` and
`get_fluid_reverse_rate` through a stoichiometric map: the species of the fluid
only. -/
def model_reaction.fluid_rate_loop (f : rate_functions) (sc : Nat → Nat) (s : state) :
    List (Nat × stoichiometric) → ℚ → ℚ
  | [], rate => rate
  | it :: rest, rate =>
    if sc it.1 < 1 then
      model_reaction.fluid_rate_loop f sc s rest
        (rate * f.pow (s.get_quantity it.1 s.amount_type) it.2.power)
    else model_reaction.fluid_rate_loop f sc s rest rate

/-- The method `model_reaction::get_forward_rate(T)`, for the reaction at the
address `rxn`. -/
def model_reaction.get_forward_rate (r : model_reaction) (f : rate_functions) (s : state)
    (rxn : Nat) (T : ℚ) : Except exn ℚ :=
  match f.k_forward rxn with
  | none => .error .bad_pointer_forward_k
  | some k => .ok (model_reaction.rate_loop f s r.reactants (k T))

/-- The method `model_reaction::get_reverse_rate(T)`. -/
def model_reaction.get_reverse_rate (r : model_reaction) (f : rate_functions) (s : state)
    (rxn : Nat) (T : ℚ) : ℚ :=
  if !r.is_reversible then 0
  else model_reaction.rate_loop f s r.products (f.k_reverse rxn T)

/-- The method `model_reaction::get_fluid_forward_rate(T)`. -/
def model_reaction.get_fluid_forward_rate (r : model_reaction) (f : rate_functions)
    (sc : Nat → Nat) (s : state) (rxn : Nat) (T : ℚ) : Except exn ℚ :=
  match f.k_forward rxn with
  | none => .error .bad_pointer_forward_k
  | some k => .ok (model_reaction.fluid_rate_loop f sc s r.reactants (k T))

/-- The method `model_reaction::get_fluid_reverse_rate(T)`. -/
def model_reaction.get_fluid_reverse_rate (r : model_reaction) (f : rate_functions)
    (sc : Nat → Nat) (s : state) (rxn : Nat) (T : ℚ) : ℚ :=
  if !r.is_reversible then 0
  else model_reaction.fluid_rate_loop f sc s r.products (f.k_reverse rxn T)

/-- One of the two tests of `kmc::check_quantities`: the rate after it, for
the number `molecules` of molecules, `scale` or `- scale`. -/
def kmc.check_quantities_rate (sc : Nat → Nat) (s : state) (rxn : model_reaction)
    (rate molecules : ℚ) : Except exn ℚ :=
  if rate > s.prec.get_double then
    match reactor.kmc_quantities sc s rxn.get_net_coefficients molecules with
    | .error e => .error e
    | .ok true => .ok rate
    | .ok false => .ok 0
  else .ok 0

/-- The method `kmc::check_quantities`: the values of `(f_rate, r_rate)` after
the call. -/
def kmc.check_quantities (sc : Nat → Nat) (s : state) (km : kmc.rate_members)
    (rxn : model_reaction) (f_rate r_rate : ℚ) : Except exn (ℚ × ℚ) :=
  match kmc.check_quantities_rate sc s rxn f_rate km.scale with
  | .error e => .error e
  | .ok f =>
    match kmc.check_quantities_rate sc s rxn r_rate (-km.scale) with
    | .error e => .error e
    | .ok r => .ok (f, r)

/-- The statements of `kmc::get_net_rate` that multiply the rates by the sizes
of the classes of the reaction; an iterator that is not `end()` points at the
entry of its key in the class map. -/
def kmc.get_net_rate_sizes (k : kmc) (rxn_ens_it : Nat × (ensemble_map_iter × ensemble_map_iter))
    (f_rate r_rate : ℚ) : Except exn (ℚ × ℚ) :=
  match rxn_ens_it.2.1 with
  | some first =>
    match map_find ensemble.lt k.ensembles first with
    | none => .error .undefined_behaviour
    | some first_it =>
      match rxn_ens_it.2.2 with
      | some second =>
        match map_find ensemble.lt k.ensembles second with
        | none => .error .undefined_behaviour
        | some second_it =>
          .ok (f_rate * (first_it.2.length : ℚ), r_rate * (second_it.2.length : ℚ))
      | none => .ok (f_rate * (first_it.2.length : ℚ), r_rate)
  | none => .ok (f_rate, r_rate)

/-- The method `kmc::get_net_rate`, for the entry `rxn_ens_it` of `rxn_ens`; the
reaction behind its `model_reaction*` is the one at that place of the
mechanism. -/
def kmc.get_net_rate (f : rate_functions) (sc : Nat → Nat) (mech : model_mechanism) (k : kmc)
    (s : state) (km : kmc.rate_members)
    (rxn_ens_it : Nat × (ensemble_map_iter × ensemble_map_iter)) : Except exn ℚ :=
  match mech.reactions[rxn_ens_it.1]? with
  | none => .error .undefined_behaviour
  | some rxn =>
    match
      (if k.sites > 0 then
        match rxn.get_fluid_forward_rate f sc s rxn_ens_it.1 s.rxtor.get_temperature with
        | .error e => .error e
        | .ok f_rate =>
          .ok (f_rate, rxn.get_fluid_reverse_rate f sc s rxn_ens_it.1 s.rxtor.get_temperature)
      else
        match rxn.get_forward_rate f s rxn_ens_it.1 s.rxtor.get_temperature with
        | .error e => .error e
        | .ok f_rate =>
          .ok (f_rate, rxn.get_reverse_rate f s rxn_ens_it.1 s.rxtor.get_temperature) :
        Except exn (ℚ × ℚ)) with
    | .error e => .error e
    | .ok rates =>
      match kmc.check_quantities sc s km rxn rates.1 rates.2 with
      | .error e => .error e
      | .ok checked =>
        match kmc.get_net_rate_sizes k rxn_ens_it checked.1 checked.2 with
        | .error e => .error e
        | .ok sized =>
          match map_find ptr_lt km.rate_scale rxn_ens_it.1 with
          | none => .error .bad_request_rate_scale
          | some scale_it => .ok (sized.1 * scale_it.2.1 - sized.2 * scale_it.2.2)

/-! ## The engine: the steps (`kmc.cc`, `rng.h`) -/

/-- The method `rng::get_random_open_open(double max)`,
`(max * (get_random() + 1.0e0)) / (get_max() + 2.0e0)`. -/
def rng.get_random_open_open (g : rng) (max : ℚ) : ℚ × rng :=
  ((max * ((g.get_random.1 : ℚ) + 1)) / ((g.get_max : ℚ) + 2), g.get_random.2)

/-- The engine with the objects it works on: the members of the class `kmc`,
the environments and ensembles, and the quantities of the species with the
reactor. -/
structure simulation where
  engine : kmc
  memory : store
  quantities : state
  rates : kmc.rate_members

/-- The part of `kmc::perform_reaction(rxn_ensemble_iter_map_iter, double)`
after the direction has been chosen, with the reactor: the reaction on the
surface, then `kmc_reaction(*reactants, *products, scale)`. -/
def kmc.perform_reaction_reactor_direction (sc : Nat → Nat) (w : simulation)
    (ens_map_it : ensemble_map_iter) (reactants products : Option (List Nat)) :
    Except exn simulation :=
  match reactants, products with
  | some reactants, some products =>
    match ens_map_it with
    | some ens =>
      match kmc.perform_reaction_surface sc w.engine w.memory ens products with
      | .error e => .error e
      | .ok r =>
        match reactor.kmc_reaction sc w.quantities reactants products w.rates.scale with
        | .error e => .error e
        | .ok s => .ok { w with engine := r.1, memory := r.2, quantities := s }
    | none =>
      match reactor.kmc_reaction sc w.quantities reactants products w.rates.scale with
      | .error e => .error e
      | .ok s => .ok { w with quantities := s }
  | _, _ => .error .bad_input_sequences

/-- The method `kmc::perform_reaction(rxn_ensemble_iter_map_iter, double)` with
the reactor, for the entry of the reaction `rxn` with the class iterators
`rxn_for_rev`. -/
def kmc.perform_reaction_reactor (sc : Nat → Nat) (w : simulation) (rxn : model_reaction)
    (rxn_for_rev : ensemble_map_iter × ensemble_map_iter) (rate : ℚ) : Except exn simulation :=
  if rate > 0 then
    kmc.perform_reaction_reactor_direction sc w rxn_for_rev.1
      rxn.get_reactant_seq_ptr rxn.get_product_seq_ptr
  else if rate < 0 then
    kmc.perform_reaction_reactor_direction sc w rxn_for_rev.2
      rxn.get_product_seq_ptr rxn.get_reactant_seq_ptr
  else .error .bad_value_rate

/-- The method `kmc::perform_reaction(model_reaction&)` with the reactor. -/
def kmc.perform_reaction_rxn_reactor (sc : Nat → Nat) (w : simulation) (rxn : model_reaction) :
    Except exn (Bool × simulation) :=
  match rxn.get_reactant_seq with
  | .error e => .error e
  | .ok reactant_seq =>
    match map_find ensemble.lt w.engine.ensembles (ensemble.ctor sc reactant_seq) with
    | none => .error .bad_request_empty_class
    | some em_it =>
      if em_it.2.isEmpty then .ok (false, w)
      else
        match kmc.perform_reaction_reactor sc w rxn (some em_it.1, none) 1 with
        | .error e => .error e
        | .ok r => .ok (true, r)

/-- The call `get_net_rate(rxn_ens_it)` of `kmc::select_reaction` for the entry
of `rxn_ens` with the key `rxn`. -/
def kmc.get_net_rate_of (f : rate_functions) (sc : Nat → Nat) (mech : model_mechanism)
    (w : simulation) (rxn : Nat) : Except exn ℚ :=
  match map_find ptr_lt w.engine.rxn_ens rxn with
  | none => .error .undefined_behaviour
  | some rxn_ens_it => kmc.get_net_rate f sc mech w.engine w.quantities w.rates rxn_ens_it

/-- The values of the local variables of one iteration of the loop of
`kmc::step`: the reaction selected and the rate returned with it by
`select_reaction`, the random number drawn for the time step, and the time
step `dx`. -/
structure kmc.step_locals where
  rxn : Nat
  rate : ℚ
  u : ℚ
  dx : ℚ
  deriving DecidableEq

/-- The body of the loop of `kmc::step`: `select_reaction`, `perform_reaction`,
the time step, `kmc_step` of the reactor and the counter of the steps.  The
function `std::log` of `<cmath>` is `log`; the generator `*random` is the one
of the environments; `perform_reaction` has thrown for a rate of 0 before the
division by its absolute value. -/
def kmc.step_body (f : rate_functions) (log : ℚ → ℚ)
    (kmc_step_msp : state → Nat → ℚ → ℚ → ℚ → Except exn state) (sc : Nat → Nat)
    (mech : model_mechanism) (w : simulation) : Except exn (simulation × kmc.step_locals) :=
  match w.memory.random with
  | none => .error .undefined_behaviour
  | some g =>
    match kmc.select_reaction (kmc.get_net_rate_of f sc mech w) w.quantities.prec.get_double
        w.engine g with
    | .error e => .error e
    | .ok selected =>
      match map_find ptr_lt w.engine.rxn_ens selected.1.1, mech.reactions[selected.1.1]? with
      | some rxn_for_rev_it, some rxn =>
        match kmc.perform_reaction_reactor sc
            { w with memory := w.memory.with_random selected.2 } rxn rxn_for_rev_it.2
            selected.1.2 with
        | .error e => .error e
        | .ok w1 =>
          match w1.memory.random with
          | none => .error .undefined_behaviour
          | some g1 =>
            match reactor.kmc_step sc kmc_step_msp w1.quantities mech.speciess
                (-(log (g1.get_random_open_open 1).1 / |selected.1.2|)) with
            | .error e => .error e
            | .ok s =>
              .ok ({ w1 with
                  memory := w1.memory.with_random (g1.get_random_open_open 1).2
                  quantities := s
                  rates := { w1.rates with steps := (w1.rates.steps + 1) % 2 ^ 32 } },
                { rxn := selected.1.1, rate := selected.1.2,
                  u := (g1.get_random_open_open 1).1,
                  dx := -(log (g1.get_random_open_open 1).1 / |selected.1.2|) })
      | _, _ => .error .undefined_behaviour

/-- The method `kmc::step(xi, xf)`: the value returned, and the engine after
the call; `fuel` bounds the number of iterations of the loop. -/
def kmc.step (f : rate_functions) (log : ℚ → ℚ)
    (kmc_step_msp : state → Nat → ℚ → ℚ → ℚ → Except exn state) (sc : Nat → Nat)
    (mech : model_mechanism) : Nat → simulation → ℚ → ℚ → Except exn (ℚ × simulation)
  | 0, _, _, _ => .error .loop_bound
  | fuel + 1, w, xi, xf =>
    if xi < xf then
      match kmc.step_body f log kmc_step_msp sc mech w with
      | .error e => .error e
      | .ok r => kmc.step f log kmc_step_msp sc mech fuel r.1 (xi + r.2.dx) xf
    else .ok (xi, w)

/-! ## The engine: the initial coverages (`kmc.cc`) -/

/-- The reaction that `kmc::initial_coverage` makes to place the species `sp`:
`rxn.add_reactant(empty_site, coord)` and `rxn.add_product(*sp_it)` on a
reaction without rate constants. -/
def kmc.initial_coverage_rxn (sc : Nat → Nat) (empty_site sp : Nat) : model_reaction :=
  { reactants := [(empty_site, ⟨(sc sp : ℚ), (sc sp : ℚ)⟩)], products := [(sp, ⟨1, 1⟩)],
    reversible := false }

/-- The `while` loop of `kmc::initial_coverage` that places the species `sp`:
whether the loop was left by `break`, and the engine after the loop; `fuel`
bounds the number of iterations. -/
def kmc.initial_coverage_while (sc : Nat → Nat) (rxn : model_reaction) (sp : Nat)
    (coverage : ℚ) : Nat → simulation → Except exn (Bool × simulation)
  | 0, _ => .error .loop_bound
  | fuel + 1, w =>
    if w.quantities.get_quantity sp .Econcentration
        < coverage - (1 / 2) / (w.engine.sites : ℚ) then
      match kmc.perform_reaction_rxn_reactor sc w rxn with
      | .error e => .error e
      | .ok (false, _) => .ok (true, w)
      | .ok (true, w1) => kmc.initial_coverage_while sc rxn sp coverage fuel w1
    else .ok (false, w)

/-- The local variables `total_coverage` and `empty_coverage` of
`kmc::initial_coverage`, and, which is no variable of the method, the species
whose loop of placement was left by `break`. -/
structure kmc.coverage_locals where
  total_coverage : ℚ
  empty_coverage : ℚ
  stopped : List Nat

/-- The test of `kmc::initial_coverage` before a species is placed:
`total_coverage + coverage * coord > 1.0e0 + (5.0e-1 * coord) / sites`.  For
`sites = 0` the quotient is infinite and the test is false. -/
def kmc.initial_coverage_exceeds (sc : Nat → Nat) (sp : Nat) (loc : kmc.coverage_locals)
    (w : simulation) : Bool :=
  decide (w.engine.sites > 0) &&
    decide (loc.total_coverage + w.quantities.get_quantity sp .Econcentration * (sc sp : ℚ)
      > 1 + ((1 / 2) * (sc sp : ℚ)) / (w.engine.sites : ℚ))

/-- The body of the loop of `kmc::initial_coverage` through the species, for
the species `sp`. -/
def kmc.initial_coverage_species (sc : Nat → Nat) (fuel : Nat) (empty_site sp : Nat)
    (loc : kmc.coverage_locals) (w : simulation) : Except exn (kmc.coverage_locals × simulation) :=
  if sp = empty_site then
    match w.quantities.set_quantity sp .Econcentration 1 with
    | .error e => .error e
    | .ok s =>
      .ok ({ loc with empty_coverage := w.quantities.get_quantity sp .Econcentration },
        { w with quantities := s })
  else if sc sp > 0 ∧ w.quantities.get_quantity sp .Econcentration > 0 then
    if kmc.initial_coverage_exceeds sc sp loc w then .error .bad_input_total_coverage
    else if w.engine.sites > 0 then
      match w.quantities.set_quantity sp .Econcentration 0 with
      | .error e => .error e
      | .ok s =>
        match kmc.initial_coverage_while sc (kmc.initial_coverage_rxn sc empty_site sp) sp
            (w.quantities.get_quantity sp .Econcentration) fuel { w with quantities := s } with
        | .error e => .error e
        | .ok r =>
          .ok ({ loc with
              total_coverage := loc.total_coverage
                + r.2.quantities.get_quantity sp .Econcentration * (sc sp : ℚ)
              stopped := if r.1 then loc.stopped ++ [sp] else loc.stopped },
            r.2)
    else
      .ok ({ loc with
          total_coverage := loc.total_coverage
            + w.quantities.get_quantity sp .Econcentration * (sc sp : ℚ) },
        w)
  else .ok (loc, w)

/-- The loop of `kmc::initial_coverage` through the species of the model. -/
def kmc.initial_coverage_loop (sc : Nat → Nat) (fuel : Nat) (empty_site : Nat) :
    List Nat → kmc.coverage_locals → simulation → Except exn (kmc.coverage_locals × simulation)
  | [], loc, w => .ok (loc, w)
  | sp_it :: rest, loc, w =>
    match kmc.initial_coverage_species sc fuel empty_site sp_it loc w with
    | .error e => .error e
    | .ok r => kmc.initial_coverage_loop sc fuel empty_site rest r.1 r.2

/-- The method `kmc::initial_coverage(empty_site)`: the species whose loop of
placement was left by `break`, and the engine after the call. -/
def kmc.initial_coverage (sc : Nat → Nat) (fuel : Nat) (mech : model_mechanism)
    (empty_site : Option Nat) (w : simulation) : Except exn (List Nat × simulation) :=
  match empty_site with
  | none => .ok ([], w)
  | some empty =>
    match kmc.initial_coverage_loop sc fuel empty mech.speciess
        { total_coverage := 0, empty_coverage := 0, stopped := [] } w with
    | .error e => .error e
    | .ok r =>
      if r.1.empty_coverage > r.2.quantities.prec.get_coverage ∧
          (r.1.empty_coverage < 1 - r.1.total_coverage - r.2.quantities.prec.get_coverage ∨
            r.1.empty_coverage > 1 - r.1.total_coverage + r.2.quantities.prec.get_coverage) then
        .error .bad_input_empty_coverage
      else
        match r.2.quantities.set_quantity empty .Econcentration (1 - r.1.total_coverage) with
        | .error e => .error e
        | .ok s => .ok (r.1.stopped, { r.2 with quantities := s })

/-- The first `throw` statement of `kmc::initial_coverage`, of `bad_input` for
a total coverage above 1: the species at which it is reached, the species
that the loop has not come to, the local variables and the engine as the
statements before the `throw` left them.  The result is `none` when the
statement is not reached. -/
def kmc.initial_coverage_throw (sc : Nat → Nat) (fuel : Nat) (empty_site : Nat) :
    List Nat → kmc.coverage_locals → simulation →
      Option (Nat × List Nat × kmc.coverage_locals × simulation)
  | [], _, _ => none
  | sp_it :: rest, loc, w =>
    if sp_it ≠ empty_site ∧ sc sp_it > 0 ∧ w.quantities.get_quantity sp_it .Econcentration > 0 ∧
        kmc.initial_coverage_exceeds sc sp_it loc w = true then
      some (sp_it, rest, loc, w)
    else
      match kmc.initial_coverage_species sc fuel empty_site sp_it loc w with
      | .error _ => none
      | .ok r => kmc.initial_coverage_throw sc fuel empty_site rest r.1 r.2

/-! ## The batch reactor (`batch.cc`) -/

/-- The method `batch_reactor::kmc_step(msp, dx, T0, T1)`: the objects after
the call. -/
def batch_reactor.kmc_step (s : state) (msp : Nat) (_dx T0 T1 : ℚ) : Except exn state :=
  if s.rxtor.fluid_type = .Epressure then
    match double_div (s.get_quantity msp .Epressure * T1) T0 with
    | .error e => .error e
    | .ok amount_ => s.set_quantity msp .Epressure amount_
  else if s.rxtor.fluid_type ≠ .Econcentration then .error .bad_type_units
  else .ok s

/-! ## The expansion of the species sets (`mechanism.cc`) -/

/-- The call `std::multiset::insert`: the element is put at its place in the
ascending order, after the elements that are equivalent to it. -/
def multiset_insert (x : Nat) : List Nat → List Nat
  | [] => [x]
  | y :: ys => if x < y then x :: y :: ys else y :: multiset_insert x ys

/-- The method `mechanism::expand_species(combinations, current, end)`: the set
`combinations` after the call.  A species set is the list of its species, a
`std::multiset<species*>` the ascending list of its elements, and the
`std::set` of the multisets is in lexicographical order. -/
def mechanism.expand_species :
    List (List Nat) → List (List Nat) → List (List Nat)
  | [], combinations => combinations
  | [current], combinations =>
    current.foldl
      (fun c ss_it => set_insert lexicographical_compare (multiset_insert ss_it []) c)
      combinations
  | current :: next :: rest, combinations =>
    (mechanism.expand_species (next :: rest) []).foldl
      (fun c sub_it =>
        current.foldl
          (fun c2 ss_it =>
            set_insert lexicographical_compare (multiset_insert ss_it sub_it) c2) c)
      combinations

/-! ## Properties used in the statements -/

/-- The sum of the absolute values of the first `i` of the rates. -/
def cumulative_rate (rates : List ℚ) (i : Nat) : ℚ := ((rates.take i).map (fun x => |x|)).sum



/-- A reaction whose reactant ensemble and product ensemble differ in total
coordination. -/
def model_reaction.coordination_mismatch (sc : Nat → Nat) (r : model_reaction) : Prop :=
  ∃ rs ps, r.get_reactant_seq = .ok rs ∧ r.get_product_seq = .ok ps ∧
    (ensemble.ctor sc rs).get_coordination ≠ (ensemble.ctor sc ps).get_coordination

/-- Every multisite partner of every member of the site-group lies in the
site-group. -/
def environment.site_contained (st : store) (site : List Nat) : Bool :=
  site.all (fun m => (st.env m).multisite.all (fun p => decide (p ∈ site)))

/-- The site-group is not skipped by the empty-centre rule, and every multisite
partner of every member lies in the site-group. -/
def environment.site_used (st : store) (this : Nat) (site : List Nat) : Bool :=
  !environment.skip_site st this site && environment.site_contained st site

/-- The site-group yields an ensemble instance: it is used and not empty. -/
def environment.site_yields (st : store) (this : Nat) (site : List Nat) : Bool :=
  environment.site_used st this site && !site.isEmpty

/-- The species on the members of a site-group, member by member. -/
def environment.site_occupants (st : store) (site : List Nat) : List Nat :=
  site.map (fun m => (st.env m).center.type)

/-- Some member of the site-group holds a multisite species. -/
def environment.site_multisite (st : store) (site : List Nat) : Bool :=
  site.any (fun m => !(st.env m).multisite.isEmpty)

/-- Every ensemble instance is registered once: the ensemble list of an
environment has no instance twice, and no instance is in the lists of two
environments. -/
def store.ensembles_unique (st : store) : Prop :=
  (∀ e, (st.env e).ensembles.Nodup) ∧
  ∀ e1 e2 p, p ∈ (st.env e1).ensembles → p ∈ (st.env e2).ensembles → e1 = e2

/-- The environments of the group `g` are connected under the neighbour
relation: the group is not empty, and from every member every other member is
reached by steps, each from an environment to one of its neighbours, that stay
in the group. -/
def environment.connected_group (env : Nat → environment) (g : List Nat) : Prop :=
  g ≠ [] ∧ ∀ a ∈ g, ∀ b ∈ g,
    Relation.ReflTransGen (fun x y => y ∈ g ∧ y ∈ (env x).neighbors) a b

/-- The groups `gs` are a partition of the pool `envs` for the species
`speciess`: the group of the species `s` is a set (an ascending list) of
`sc s` environments that is connected, the groups are pairwise disjoint, and
the environments of the pool are the members of the groups. -/
def environment.is_partition (sc : Nat → Nat) (env : Nat → environment)
    (speciess envs : List Nat) (gs : List (List Nat)) : Prop :=
  List.Forall₂ (fun s g => g.Pairwise (· < ·) ∧ g.length = sc s ∧
    environment.connected_group env g) speciess gs ∧
  gs.Pairwise List.Disjoint ∧
  ∀ e, e ∈ envs ↔ ∃ g ∈ gs, e ∈ g

/-- The species and multisite lists after a successful placement: the
environments of the group of a species hold the species, and their multisite
lists hold the other environments of the group. -/
def environment.assigned (env : Nat → environment) : List Nat → List (List Nat) → Prop
  | s :: rest, g :: gs =>
    (∀ e ∈ g, (env e).center.type = s ∧ (env e).multisite = g.filter (fun it => it != e)) ∧
      environment.assigned env rest gs
  | [], [] => True
  | _, _ => False

/-- The invariant of the class map: the instance map of every class holds
exactly the pairs of an instance and an environment such that the instance is
in the ensemble list of the environment and has the sorted species of the
class. -/
def kmc.classes_registered (ensembles : List (ensemble × ens_env_map)) (st : store) : Prop :=
  ∀ c ∈ ensembles, ∀ p e, (p, e) ∈ c.2 ↔
    p ∈ (st.env e).ensembles ∧
      ∃ obj, st.ens p = some obj ∧ obj.sorted_species = c.1.sorted_species

/-- No environment has been created: every address holds an environment as
the constructor leaves it. -/
def store.blank (st : store) : Prop := ∀ e, ∃ c, st.env e = environment.ctor c

/-- The engines and stores that the program reaches: `kmc::initialize` on an
engine as its constructor leaves it (no class, no environment, no point of the
lattice) whose number of lattice points is held by an `unsigned int`, and a
store in which no environment has been created, then calls of `kmc::perform_reaction(model_reaction&)`
(by `kmc::initial_coverage`) and of
`kmc::perform_reaction(rxn_ensemble_iter_map_iter, double)` that return. -/
inductive kmc.reached (sc : Nat → Nat) (mech : model_mechanism) (empty : Option Nat)
    (fuel : Nat) (reactor : List Nat → List Nat → Option exn) : kmc → store → Prop where
  | init {k0 k : kmc} {st0 st : store} :
    k0.ensembles = [] → k0.environments = [] → k0.surface.points = [] →
    k0.surface.size * k0.surface.size ≤ 2 ^ 32 → st0.blank →
    kmc.initialize sc mech empty fuel k0 st0 = .ok (k, st) →
    kmc.reached sc mech empty fuel reactor k st
  | coverage {k k1 : kmc} {st st1 : store} {rxn : model_reaction} {b : Bool} :
    kmc.reached sc mech empty fuel reactor k st →
    kmc.perform_reaction_rxn sc reactor k st rxn = .ok (b, k1, st1) →
    kmc.reached sc mech empty fuel reactor k1 st1
  | step {k k1 : kmc} {st st1 : store} {rxn : model_reaction}
      {rxn_for_rev : ensemble_map_iter × ensemble_map_iter} {rate : ℚ} :
    kmc.reached sc mech empty fuel reactor k st →
    kmc.perform_reaction sc reactor k st rxn rxn_for_rev rate = .ok (k1, st1) →
    kmc.reached sc mech empty fuel reactor k1 st1

/-- The index `x` wrapped into the range of a matrix of size `N`: `x mod N`. -/
def lattice.wrap (N : Nat) (x : Int) : Nat := (x % (N : Int)).toNat

/-- The neighbors of the environment at `(r, c)` of an `N x N` matrix with the
entries `addr`, by the type of the environments: none for a single site; above,
below, right, left for nearest neighbors; these and the four diagonal elements
for next nearest neighbors; every index is taken modulo `N`. -/
def environment.periodic_neighbors (type : environment.type) (N r c : Nat)
    (addr : Nat → Nat → Nat) : List Nat :=
  match type with
  | .Esingle => []
  | .Enn =>
    [addr (lattice.wrap N (r - 1)) c, addr (lattice.wrap N (r + 1)) c,
      addr r (lattice.wrap N (c + 1)), addr r (lattice.wrap N (c - 1))]
  | .Ennn =>
    [addr (lattice.wrap N (r - 1)) c, addr (lattice.wrap N (r + 1)) c,
      addr r (lattice.wrap N (c + 1)), addr r (lattice.wrap N (c - 1)),
      addr (lattice.wrap N (r - 1)) (lattice.wrap N (c - 1)),
      addr (lattice.wrap N (r - 1)) (lattice.wrap N (c + 1)),
      addr (lattice.wrap N (r + 1)) (lattice.wrap N (c - 1)),
      addr (lattice.wrap N (r + 1)) (lattice.wrap N (c + 1))]

/-- The ensemble `key` is a class that `kmc::create_ensembles` inserts for the
reaction `r`: the reaction has reactants and products of a total coordination
greater than 0, and `key` is the ensemble of its reactants or, for a reversible
reaction, the ensemble of its products. -/
def model_reaction.inserts_class (sc : Nat → Nat) (r : model_reaction) (key : ensemble) :
    Prop :=
  ∃ rs ps, r.get_reactant_seq = .ok rs ∧ r.get_product_seq = .ok ps ∧
    (ensemble.ctor sc rs).get_coordination > 0 ∧
    (key = ensemble.ctor sc rs ∨ (r.is_reversible = true ∧ key = ensemble.ctor sc ps))

/-- The branch of `kmc::perform_reaction` for a reaction on the surface has
returned the engine `kf` and the store `stf`: an instance of the class `ens`
of the class map was drawn, `environment::change_ensemble` replaced it at its
environment by the species `products`, and the class map was brought up to
date with the ensembles destroyed and created. -/
def kmc.consumes_instance (sc : Nat → Nat) (k : kmc) (st : store) (ens : ensemble)
    (products : List Nat) (kf : kmc) (stf : store) : Prop :=
  ∃ entry inst g changed deleted,
    map_find ensemble.lt k.ensembles ens = some entry ∧ inst ∈ entry.2 ∧
    environment.change_ensemble sc (st.with_random g) inst.2 inst.1 products [] []
      = .ok changed ∧
    kmc.delete_ensembles k changed.1 changed.2.1 = .ok deleted ∧
    kmc.get_ensembles_changed deleted.1 deleted.2 changed.2.2 = .ok kf ∧
    stf = deleted.2

/-- The lattices that the interface of the class `lattice` produces: the
constructors give a lattice of the given size without points, and
`lattice::set_size` and `lattice::initialize` change it. -/
inductive lattice.reached : lattice → Prop where
  | ctor (size_ : Nat) : lattice.reached ⟨size_, false, []⟩
  | resize {l l' : lattice} (size_ : Nat) :
    lattice.reached l → l.set_size size_ = .ok l' → lattice.reached l'
  | init {l l' : lattice} (empty_site : Option Nat) :
    lattice.reached l → lattice.initialize l empty_site = .ok l' → lattice.reached l'

/-- The generators that a program can have: made by the constructor or by
`copy`, after any calls of `set_seed` and `get_random`. -/
inductive rng_mt.reached : rng_mt → Prop where
  | ctor (seed_ : Nat) : rng_mt.reached (rng_mt.ctor seed_)
  | copy {g : rng_mt} : rng_mt.reached g → rng_mt.reached (rng_mt.copy g)
  | set_seed {g : rng_mt} (seed_ : Nat) :
    rng_mt.reached g → rng_mt.reached (rng_mt.set_seed g seed_)
  | get_random {g : rng_mt} : rng_mt.reached g → rng_mt.reached (rng_mt.get_random g).2

/-- The surface species of a stoichiometric map: the entries whose species has
a surface coordination above 0. -/
def kmc.surface_entries (sc : Nat → Nat) (reactants : List (Nat × stoichiometric)) :
    List (Nat × stoichiometric) :=
  reactants.filter (fun it => 0 < sc it.1)

/-- The sum of the powers `n_i` of the surface species. -/
def kmc.power_sum (sc : Nat → Nat) (reactants : List (Nat × stoichiometric)) : ℚ :=
  ((kmc.surface_entries sc reactants).map (fun it => it.2.power)).sum

/-- The scale factor of the coverages as the documentation of
`kmc::coverage_scale` gives it, for powers that are natural numbers: the
product of `(n_i / m_i) ^ n_i` over the surface species, divided by
`(sum n_i) ^ (sum n_i)`, with `0 ^ 0 = 1`. -/
def kmc.coverage_scale_spec (sc : Nat → Nat) (reactants : List (Nat × stoichiometric)) : ℚ :=
  ((kmc.surface_entries sc reactants).map
      (fun it => (it.2.power / (sc it.1 : ℚ)) ^ it.2.power.num.toNat)).prod /
    (kmc.power_sum sc reactants) ^ (kmc.power_sum sc reactants).num.toNat

/-- The number of instances registered in a class of a reaction, as a factor of
its rate: the factor is 1 when the reaction has no such class. -/
def kmc.class_count (k : kmc) (it : ensemble_map_iter) : ℚ :=
  match it with
  | none => 1
  | some key =>
    match map_find ensemble.lt k.ensembles key with
    | some e => (e.2.length : ℚ)
    | none => 0

/-- A rate after the test of the quantities: 0 when the rate is not above the
threshold of the precision or `reactor::kmc_quantities` is false. -/
def kmc.checked_rate (s : state) (rate : ℚ) (quantities : Bool) : ℚ :=
  if rate > s.prec.get_double ∧ quantities = true then rate else 0

/-- The net rate of the reaction with the key `rxn` in `rxn_ens`, as
`kmc::get_net_rate` returns it; 0 when the call throws. -/
def kmc.net_rate (f : rate_functions) (sc : Nat → Nat) (mech : model_mechanism) (w : simulation)
    (rxn : Nat) : ℚ :=
  match kmc.get_net_rate_of f sc mech w rxn with
  | .ok v => v
  | .error _ => 0

/-- The total propensity: the sum over all reactions of the absolute net
rate. -/
def kmc.total_propensity (f : rate_functions) (sc : Nat → Nat) (mech : model_mechanism)
    (w : simulation) : ℚ :=
  (w.engine.rxn_ens.map (fun e => |kmc.net_rate f sc mech w e.1|)).sum

/-- The quantity of every species with a surface coordination is a
`surface_quantity`, as the constructor of `model_species` makes it. -/
def state.surface_typed (sc : Nat → Nat) (s : state) : Prop :=
  ∀ sp, sc sp > 0 → ∃ c, s.amount sp = .surface_quantity c

/-- The relation that `reactor::kmc_initialize` makes between the scale of the
engine, the number of its lattice sites and the sites of the reactor: the
sites of the reactor are `scale` times the lattice sites. -/
def simulation.scaled (w : simulation) : Prop :=
  w.quantities.rxtor.get_sites = (w.engine.sites : ℚ) * w.rates.scale

/-- The number of lattice sites that the species `sp` occupies. -/
def kmc.occupied_sites (w : simulation) (sp : Nat) : Nat :=
  (w.engine.environments.filter
    (fun e => decide ((w.memory.env e).center.type = sp))).length

/-- The coverage that `kmc::initial_coverage` has placed for the species of
the list `l`, every species weighted by its surface coordination: the sum of
`coverage * coord` over the species of `l` other than the empty site that have
a surface coordination and a requested coverage above 0 in `w`, with the
coverage that the species has in `w1`. -/
def kmc.placed_coverage (sc : Nat → Nat) (empty_site : Nat) (l : List Nat)
    (w w1 : simulation) : ℚ :=
  (l.map (fun y =>
    if y ≠ empty_site ∧ sc y > 0 ∧ w.quantities.get_quantity y .Econcentration > 0 then
      w1.quantities.get_quantity y .Econcentration * (sc y : ℚ)
    else 0)).sum

/-- Every site-group of every environment is a set (an ascending list of
addresses) that is connected under the neighbour relation. -/
def store.groups_connected (st : store) : Prop :=
  ∀ e g, g ∈ (st.env e).sites → g.Pairwise (· < ·) ∧ environment.connected_group st.env g

/-- The engine `k` and the store `st` are as `kmc::initialize` leaves them when
it comes to `calc_rate_scale()` and `initial_coverage(empty)`: the result of
the calls up to `get_ensembles()` on an engine as its constructor leaves it (no
class, no environment, no point of the lattice) whose number of lattice points
is held by an `unsigned int`, and a store in which no environment has been
created. -/
def kmc.initialized_engine (sc : Nat → Nat) (mech : model_mechanism) (empty : Nat)
    (k : kmc) (st : store) : Prop :=
  ∃ (k0 : kmc) (st0 : store) (fuel : Nat),
    k0.ensembles = [] ∧ k0.environments = [] ∧ k0.surface.points = [] ∧
    k0.surface.size * k0.surface.size ≤ 2 ^ 32 ∧ st0.blank ∧
    kmc.initialize sc mech (some empty) fuel k0 st0 = .ok (k, st)

/-- The ascending list `z` is a combination of the species sets: it holds one
species of every set, a species as often as it was taken. -/
def mechanism.is_combination (sets : List (List Nat)) (z : List Nat) : Prop :=
  z.Pairwise (· ≤ ·) ∧ ∃ xs : List Nat, List.Forall₂ (fun x S => x ∈ S) xs sets ∧ z.Perm xs

/-- The statements of `kmc::get_net_rate` that get the forward and the reverse
rate of the reaction `rxn` at the address `i`: the fluid rates when the lattice
is used, the rates of the reaction otherwise. -/
def kmc.get_net_rate_rates (f : rate_functions) (sc : Nat → Nat) (k : kmc) (s : state)
    (i : Nat) (rxn : model_reaction) : Except exn (ℚ × ℚ) :=
  if k.sites > 0 then
    match rxn.get_fluid_forward_rate f sc s i s.rxtor.get_temperature with
    | .error e => .error e
    | .ok f_rate =>
      .ok (f_rate, rxn.get_fluid_reverse_rate f sc s i s.rxtor.get_temperature)
  else
    match rxn.get_forward_rate f s i s.rxtor.get_temperature with
    | .error e => .error e
    | .ok f_rate =>
      .ok (f_rate, rxn.get_reverse_rate f s i s.rxtor.get_temperature)

/-- The generator `g'` is the generator `g` after further calls of
`get_random()`: it returns the values of the same sequence and has the same
`get_max()`. -/
def rng.advanced (g g' : rng) : Prop := g'.stream = g.stream ∧ g'.max = g.max

/-- The generator of the store `st'` is the generator of the store `st` after
further calls of `get_random()`. -/
def store.rng_advanced (st st' : store) : Prop :=
  ∀ g, st.random = some g → ∃ g', st'.random = some g' ∧ g.advanced g'

/-- Every site-group of every environment is a set (an ascending list) of at
most `max_sites` environments that holds the environment and is connected
under the neighbour relation. -/
def store.groups_rooted (st : store) : Prop :=
  ∀ e g, g ∈ (st.env e).sites →
    g.Pairwise (· < ·) ∧ e ∈ g ∧ g.length ≤ st.max_sites ∧ environment.connected_group st.env g

/-- The molecules on the lattice are closed: every environment of `envs` lies,
with the environments of its multisite list, on as many sites as the surface
coordination of its species, and the multisite list of a partner of an
environment holds the environment and its other partners. -/
def store.molecules_closed (sc : Nat → Nat) (envs : List Nat) (st : store) : Prop :=
  (∀ m ∈ envs, (st.env m).multisite.length + 1 = sc (st.env m).center.type) ∧
  ∀ m ∈ envs, ∀ p ∈ (st.env m).multisite, ∀ x,
    x ∈ (st.env p).multisite ↔ x ≠ p ∧ (x = m ∨ x ∈ (st.env m).multisite)

/-- What the branch of `kmc::perform_reaction` for a reaction on the surface
has done to the lattice when it returns the engine `kf` and the store `stf`.
An instance `inst` of the class `ens` was drawn; it was registered at its
environment with an object of the species of the class and with the members
`members`, and after the call it is registered at no environment and in no
class.  `environment::place_species` was called with the surface species of
`products` in some order `sp` on the members and returned `b`, leaving the
store `stp`, whose occupants and multisite lists are those of `stf`.  The
environments that are no members hold what they held.  When `b` is true the
members are divided into connected groups, one for every species of `sp`, and
every member holds the species of its group and lists the other members of the
group; when `b` is false every environment holds what it held before the
call. -/
def kmc.reaction_outcome (sc : Nat → Nat) (k : kmc) (st : store) (ens : ensemble)
    (products : List Nat) (kf : kmc) (stf : store) : Prop :=
  ∃ (entry : ensemble × ens_env_map) (inst : Nat × Nat) (obj : ensemble)
      (members sp : List Nat) (g : rng) (b : Bool) (stp : store),
    map_find ensemble.lt k.ensembles ens = some entry ∧ inst ∈ entry.2 ∧
    inst.1 ∈ (st.env inst.2).ensembles ∧ st.ens inst.1 = some obj ∧
    obj.sorted_species = ens.sorted_species ∧
    map_find ptr_lt (st.env inst.2).ensemble_env inst.1 = some (inst.1, members) ∧
    (∀ e, inst.1 ∉ (stf.env e).ensembles) ∧ (∀ c ∈ kf.ensembles, inst ∉ c.2) ∧
    sp.Perm (ensemble.ctor sc products).sorted_species ∧
    environment.place_species sc sp (st.with_random g) members = .ok (b, stp) ∧
    (∀ e, (stf.env e).center.type = (stp.env e).center.type ∧
      (stf.env e).multisite = (stp.env e).multisite) ∧
    (∀ e, e ∉ members → (stf.env e).center.type = (st.env e).center.type ∧
      (stf.env e).multisite = (st.env e).multisite) ∧
    (b = true → ∃ gs, environment.is_partition sc st.env sp members gs ∧
      environment.assigned stf.env sp gs) ∧
    (b = false → ∀ e, (stf.env e).center.type = (st.env e).center.type ∧
      (stf.env e).multisite = (st.env e).multisite)

/-! ## Auxiliary definitions of the proofs -/

/-- The sites that `environment::get_sites` builds: a single environment of
`envs`, or a site with one more environment of `envs` that is a neighbor of a
member. -/
inductive environment.grown (env : Nat → environment) (envs : List Nat) :
    Nat → List Nat → Prop where
  | single {e : Nat} : e ∈ envs → environment.grown env envs 1 [e]
  | add {k : Nat} {sit : List Nat} {eit : Nat} :
    environment.grown env envs k sit → eit ∈ envs → eit ∉ sit →
    (∃ git ∈ sit, eit ∈ (env git).neighbors) →
    environment.grown env envs (k + 1) (set_insert ptr_lt eit sit)

/-- The species sequence that `environment::create_ensembles` hands to
`insert_ensemble` for a site-group whose multisite species are contained. -/
def environment.site_species (sc : Nat → Nat) (st : store) (site : List Nat) :
    Except exn (List Nat) :=
  if environment.site_multisite st site then
    environment.insert_counted sc (species_count (environment.site_occupants st site))
  else .ok (environment.site_occupants st site)

/-- The sequence of `site_species`, empty when it is undefined. -/
def environment.site_species_get (sc : Nat → Nat) (st : store) (site : List Nat) :
    List Nat :=
  match environment.site_species sc st site with
  | .ok l => l
  | .error _ => []

/-- The count that a `std::map<model_species*, counter>` holds for a species,
zero when the species is not a key. -/
def species_count_get : List (Nat × Nat) → Nat → Nat
  | [], _ => 0
  | e :: es, s => if e.1 = s then e.2 else species_count_get es s

/-- The store in which `environment::create_ensembles` starts its loop: the
containers of the environment are cleared. -/
def store.cleared (st : store) (this : Nat) : store :=
  { st with
    env := Function.update st.env this
      { (st.env this) with ensembles := [], ensemble_env := [] } }

/-- Two stores with the same static members and, at every environment, the
same lattice point and multisite list. -/
def store.same_surface (a b : store) : Prop :=
  a.env_type = b.env_type ∧ a.radial = b.radial ∧ a.max_sites = b.max_sites ∧
  a.empty_site = b.empty_site ∧
  ∀ e, (a.env e).center = (b.env e).center ∧ (a.env e).multisite = (b.env e).multisite

/-- The relation between the store before and the store after the ensembles of
the environments of `changed` have been created anew: the ensembles of these
environments are new objects, everything else is as before. -/
def store.recreated (st st' : store) (changed : List Nat) : Prop :=
  st.next ≤ st'.next ∧
  (∀ a, a < st.next → st'.ens a = st.ens a) ∧
  (∀ e, e ∉ changed → st'.env e = st.env e) ∧
  st.same_surface st' ∧
  st'.random = st.random ∧
  (∀ e, (st'.env e).neighbors = (st.env e).neighbors ∧
    (st'.env e).connected = (st.env e).connected ∧ (st'.env e).sites = (st.env e).sites ∧
    (st'.env e).initialized = (st.env e).initialized) ∧
  (∀ e ∈ changed, (st'.env e).ensembles.Nodup ∧
    ∀ p ∈ (st'.env e).ensembles, st.next ≤ p ∧ p < st'.next ∧ ∃ obj, st'.ens p = some obj) ∧
  (∀ e1 ∈ changed, ∀ e2 ∈ changed, ∀ p,
    p ∈ (st'.env e1).ensembles → p ∈ (st'.env e2).ensembles → e1 = e2)

/-- The relation between the store before and the store after species have
been placed on environments: only the generator, the species on lattice points
and the multisite lists can differ. -/
def store.frame (st st' : store) : Prop :=
  st'.ens = st.ens ∧ st'.next = st.next ∧ st'.env_type = st.env_type ∧ st'.radial = st.radial ∧
  st'.max_sites = st.max_sites ∧ st'.empty_site = st.empty_site ∧
  (st.random.isSome = true → st'.random.isSome = true) ∧
  ∀ e, (st'.env e).neighbors = (st.env e).neighbors ∧
    (st'.env e).connected = (st.env e).connected ∧ (st'.env e).sites = (st.env e).sites ∧
    (st'.env e).ensembles = (st.env e).ensembles ∧
    (st'.env e).ensemble_env = (st.env e).ensemble_env ∧
    (st'.env e).initialized = (st.env e).initialized ∧
    (st'.env e).center.row = (st.env e).center.row ∧
    (st'.env e).center.column = (st.env e).center.column

/-- The pool `envs` can be divided for the species: a connected set of `sc s`
environments of the pool for the first species `s`, and the same for the
species that are left on the environments that are left. -/
def environment.placeable (sc : Nat → Nat) (env : Nat → environment) :
    List Nat → List Nat → Prop
  | [], envs => envs = []
  | s :: rest, envs =>
    ∃ g, g.Pairwise (· < ·) ∧ g.length = sc s ∧ (∀ m ∈ g, m ∈ envs) ∧
      environment.connected_group env g ∧
      environment.placeable sc env rest (envs.filter (fun e => decide (e ∉ g)))

/-- The store after `insert_ensemble` for every site-group of the list. -/
def environment.insert_all (sc : Nat → Nat) (this : Nat)
    (seq : List Nat → List Nat) : List (List Nat) → store → store
  | [], st => st
  | g :: rest, st =>
    environment.insert_all sc this seq rest (environment.insert_ensemble sc st this (seq g) g)

/-- The entries that the loop of `kmc::select_reaction` appends to `cum_rates`
when it starts with the total rate `t`. -/
def cum_entries (n : Nat → ℚ) :
    List (Nat × (ensemble_map_iter × ensemble_map_iter)) → ℚ → List (ℚ × Option Nat)
  | [], _ => []
  | e :: rest, t =>
    if t + |n e.1| > t then (t + |n e.1|, some e.1) :: cum_entries n rest (t + |n e.1|)
    else cum_entries n rest (t + |n e.1|)

/-- The containers of the engine and of the environments are well formed: the
keys of the class map and of every instance map ascend, every instance is
registered at one environment, once, and was allocated before `next`. -/
def kmc.well_formed (ensembles : List (ensemble × ens_env_map)) (st : store) : Prop :=
  ensembles.Pairwise (fun a b => ensemble.lt a.1 b.1 = true) ∧
  (∀ c ∈ ensembles, c.2.Pairwise (fun a b => a.1 < b.1)) ∧
  st.ensembles_unique ∧
  ∀ e, ∀ p ∈ (st.env e).ensembles, p < st.next

/-- The loops of `kmc::get_ensembles` as one loop over the pairs of an
instance and its environment. -/
def kmc.register_all (st : store) :
    List (Nat × Nat) → List (ensemble × ens_env_map) →
      Except exn (List (ensemble × ens_env_map))
  | [], ensembles => .ok ensembles
  | pe :: rest, ensembles =>
    match kmc.get_ensembles_ensemble st pe.2 ensembles pe.1 with
    | .error e => .error e
    | .ok ensembles1 => kmc.register_all st rest ensembles1

/-- The instances of the store are registered at environments of `envs` only,
each at one environment, once, and were allocated before `next`. -/
def store.instances_in (st : store) (envs : List Nat) : Prop :=
  st.ensembles_unique ∧ (∀ e, ∀ p ∈ (st.env e).ensembles, p < st.next) ∧
  ∀ e, e ∉ envs → (st.env e).ensembles = []

/-- The classes of a class map before `kmc::get_ensembles()`: the keys ascend
and no instance is registered. -/
def kmc.classes_empty (ensembles : List (ensemble × ens_env_map)) : Prop :=
  ensembles.Pairwise (fun a b => ensemble.lt a.1 b.1 = true) ∧ ∀ c ∈ ensembles, c.2 = []

/-- The environment `b` is reached from the environment `a` by at most `k`
steps, each from an environment to one of its neighbors. -/
def environment.within (nb : Nat → List Nat) : Nat → Nat → Nat → Prop
  | 0, a, b => a = b
  | k + 1, a, b => a = b ∨ ∃ c ∈ nb a, environment.within nb k c b

/-- The environments that `environment::connectivity` touches from the
environment `e`: with radial sites those within `max_sites - 1` steps, with
neighbor sites the environment and its neighbors. -/
def environment.near (nb : Nat → List Nat) (radial : Bool) (max_sites : Nat) (e m : Nat) :
    Prop :=
  if radial then 0 < max_sites ∧ environment.within nb (max_sites - 1) e m
  else m = e ∨ m ∈ nb e

/-- The registered site-groups of every environment are site-groups of it. -/
def store.ensemble_env_sites (st : store) : Prop :=
  ∀ e p g, (p, g) ∈ (st.env e).ensemble_env → g ∈ (st.env e).sites

/-- The invariant of the loop of `kmc::create_environments` that initializes
the environments, for the environments `D` that have been initialized: their
site-groups hold near environments only, their connected environments include
the near environments, and the other environments have no site-group. -/
def store.touched (st : store) (D : Nat → Prop) : Prop :=
  (∀ e, D e →
    (∀ g ∈ (st.env e).sites, ∀ m ∈ g,
      environment.near (fun a => (st.env a).neighbors) st.radial st.max_sites e m) ∧
    ∀ m, environment.near (fun a => (st.env a).neighbors) st.radial st.max_sites e m →
      m ∈ (st.env e).connected) ∧
  (∀ e, ¬ D e → (st.env e).sites = []) ∧
  st.ensemble_env_sites

/-- The surface has been built by `kmc::create_environments`: the environments
that it has initialized satisfy the invariant `touched`, and the other
addresses hold no neighbors. -/
def store.surface_built (st : store) : Prop :=
  ∃ D : Nat → Prop, st.touched D ∧ ∀ e, ¬ D e → (st.env e).neighbors = []

/-- The topology that `environment::change_ensemble` relies on: an environment
is connected to itself and to every environment that has it in a site-group,
and the registered site-groups of an environment are site-groups of it. -/
def store.sites_connected (st : store) : Prop :=
  (∀ e g, g ∈ (st.env e).sites → ∀ m ∈ g,
    e ∈ (st.env m).connected ∧ m ∈ (st.env m).connected) ∧
  st.ensemble_env_sites

/-- The row (or column) next to the row `r` on a periodic lattice of the side
`size`, in the direction `d`: before it for a negative `d`, after it for a
positive `d`. -/
def lattice.shift (size : Nat) (d : Int) (r : Nat) : Nat :=
  if d < 0 then (if r = 0 then size - 1 else r - 1)
  else if 0 < d then (if size ≤ r + 1 then 0 else r + 1)
  else r

/-- The directions of the neighbors that `environment::set_neighbors` sets, as
steps of the row and of the column, in the order of the source. -/
def environment.directions (type : environment.type) : List (Int × Int) :=
  [(-1, 0), (1, 0), (0, 1), (0, -1)] ++
    (if type = .Enn then [] else [(-1, -1), (-1, 1), (1, -1), (1, 1)])

/-- The environments of the groups of a `std::set` of groups, as a set. -/
def environment.universe (groups : List (List Nat)) : List Nat :=
  groups.foldl (fun u g => set_insert_range ptr_lt u g) []

/-- The generator after `k` calls of `rng_mt::get_random`. -/
def rng_mt.advance : Nat → rng_mt → rng_mt
  | 0, g => g
  | k + 1, g => rng_mt.advance k (rng_mt.get_random g).2

/-- Two arrays `state` with the same first `length` elements. -/
def rng_mt.agree (s t : List Nat) : Prop :=
  s.length = rng_mt.length + 1 ∧ t.length = rng_mt.length + 1 ∧
    ∀ i, i < rng_mt.length → s.getD i 0 = t.getD i 0

/-- Two generators with the same seed, the same first `length` elements of
`state`, the same `left`, and the same `next` when a word is left. -/
def rng_mt.same (g h : rng_mt) : Prop :=
  g.seed = h.seed ∧ g.left = h.left ∧ rng_mt.agree g.state h.state ∧
    (0 < g.left → g.next = h.next ∧ (g.next : Int) + g.left = rng_mt.length)

/-- The molecules on the lattice are whole: the multisite list of every
environment has no environment twice and not the environment itself, every
environment of the list holds the species of the environment and lists it in
turn, and an environment with a multisite list lies, with the environments of
the list, on as many sites as the surface coordination of its species. -/
def store.molecules (sc : Nat → Nat) (st : store) : Prop :=
  ∀ m, (st.env m).multisite.Nodup ∧ m ∉ (st.env m).multisite ∧
    (∀ p ∈ (st.env m).multisite,
      (st.env p).center.type = (st.env m).center.type ∧ m ∈ (st.env p).multisite) ∧
    ((st.env m).multisite ≠ [] →
      (st.env m).multisite.length + 1 = sc (st.env m).center.type)

/-- The registered instances describe the lattice as it is: every instance of
the map `ensemble_env` of an environment is in its list `ensembles`, its
site-group holds the multisite partners of its members, and its object is the
ensemble of the species that `create_ensembles` finds on the site-group now. -/
def store.instances_current (sc : Nat → Nat) (st : store) : Prop :=
  ∀ e p g, (p, g) ∈ (st.env e).ensemble_env →
    p ∈ (st.env e).ensembles ∧ environment.site_contained st g = true ∧
    ∃ seq, environment.site_species sc st g = .ok seq ∧
      st.ens p = some (ensemble.ctor sc seq)

/-- The members of the site-groups are environments of the list `envs`, and
each of them holds a species with a surface coordination. -/
def store.sites_surface (sc : Nat → Nat) (envs : List Nat) (st : store) : Prop :=
  ∀ e g, g ∈ (st.env e).sites → ∀ m ∈ g, m ∈ envs ∧ 1 ≤ sc (st.env m).center.type

/-- The invariant of the engine with its lattice: the containers are well
formed and the class map holds the registered instances, the surface has been
built with a symmetric neighbour relation, the molecules are whole, the
instances describe the lattice as it is, the members of the site-groups are
environments of the engine that hold species of the surface, and the
environments of the engine are distinct and initialized. -/
def kmc.lattice_whole (sc : Nat → Nat) (k : kmc) (st : store) : Prop :=
  kmc.well_formed k.ensembles st ∧ kmc.classes_registered k.ensembles st ∧
  st.surface_built ∧ (∀ a x, x ∈ (st.env a).neighbors → a ∈ (st.env x).neighbors) ∧
  st.molecules sc ∧ st.instances_current sc ∧ st.sites_surface sc k.environments ∧
  k.environments.Nodup ∧ (∀ e ∈ k.environments, (st.env e).initialized = true)

/-- The coverage of the species `s` agrees with the lattice: the number of the
lattice sites that `s` occupies is its surface coordination times the number
of the lattice sites times its coverage. -/
def kmc.coverage_agrees (sc : Nat → Nat) (w : simulation) (s : Nat) : Prop :=
  (kmc.occupied_sites w s : ℚ)
    = (sc s : ℚ) * (w.engine.sites : ℚ) * w.quantities.get_quantity s .Econcentration

/-- A site-group of one environment, or of two environments in ascending order
that are neighbors of each other. -/
def environment.small_group (env : Nat → environment) (g : List Nat) : Bool :=
  match g with
  | [_] => true
  | [a, b] =>
    decide (a < b) && decide (b ∈ (env a).neighbors) && decide (a ∈ (env b).neighbors)
  | _ => false

/-- The exceptions that `environment::place_species` throws. -/
def exn.of_place_species (e : exn) : Prop :=
  e = .bad_request_points_left ∨ e = .bad_request_not_surface ∨ e = .undefined_behaviour ∨
    e = .bad_pointer_set_species

/-- The exceptions that `environment::change_ensemble` throws. -/
def exn.of_change_ensemble (e : exn) : Prop :=
  e = .bad_pointer_not_initialized ∨ e = .bad_pointer_not_owned ∨
    e = .bad_request_coordination ∨ e.of_place_species

/-- The exceptions that `reactor::kmc_reaction` throws, with the result of a
division that is no finite number. -/
def exn.of_kmc_reaction (e : exn) : Prop :=
  e = .not_finite ∨ e = .bad_type_units ∨ e = .bad_value_coverage ∨
    e = .bad_value_concentration ∨ e = .bad_value_pressure

/-- The lattice sites and the coverages of the species `1` and `2` in an
engine. -/
def kmc.coverage_summary (w : simulation) : Nat × Nat × ℚ × ℚ :=
  (kmc.occupied_sites w 1, kmc.occupied_sites w 2,
    w.quantities.get_quantity 1 .Econcentration, w.quantities.get_quantity 2 .Econcentration)

/-! ## Example data -/

/-- The stoichiometric coefficient `n` with the default power `n`. -/
def stoichiometric.of_nat (n : ℕ) : stoichiometric := ⟨n, n⟩

/-- Example species table: `1` is the empty site `@`, `2` a species on two
sites, every other species is in the fluid. -/
def example_sc : Nat → Nat := fun s => if s = 1 then 1 else if s = 2 then 2 else 0

/-- Example reaction `@ -> @@A`, which does not conserve coordination. -/
def example_rxn_unbalanced : model_reaction :=
  { reactants := [(1, .of_nat 1)], products := [(2, .of_nat 1)], reversible := false }

/-- Example reaction `2 @ <-> @@A`. -/
def example_rxn_balanced : model_reaction :=
  { reactants := [(1, .of_nat 2)], products := [(2, .of_nat 1)], reversible := true }

/-- An engine before `kmc::create_ensembles`, on a lattice of four sites. -/
def example_kmc : kmc :=
  { random := none, sites := 4, surface := ⟨2, false, []⟩, ensembles := [], rxn_ens := [],
    max_coordination := 2, max_sites := 2, environments := [], env_type := some .Enn,
    env_radial := true }

/-- Example engine with three reactions at the addresses `0`, `1` and `2`,
none of them with a surface class. -/
def example_kmc_rates : kmc :=
  { random := none, sites := 0, surface := ⟨0, false, []⟩, ensembles := [],
    rxn_ens := [(0, (none, none)), (1, (none, none)), (2, (none, none))],
    max_coordination := 0, max_sites := 0, environments := [], env_type := some .Enn,
    env_radial := true }

/-- Example net rates: `1` for reaction `0`, `0` for reaction `1` and `-1` for
reaction `2`. -/
def example_net_rate : Nat → ℚ := fun rxn => if rxn = 0 then 1 else if rxn = 1 then 0 else -1

/-- Example generator: every `get_random()` returns `1`, and `get_max()` is `1`,
so that `get_random_open(2)` is `1`, the first cumulative total. -/
def example_rng : rng := { stream := fun _ => 1, calls := 0, max := 1 }

/-- Example environments: four lattice points `0 - 1 - 2 - 3` in a row, each
holding the empty site, with the sites of one or two neighbouring points. -/
def example_env (i : Nat) : environment :=
  { center := ⟨1, 0, i⟩, multisite := [],
    neighbors :=
      if i = 0 then [1] else if i = 1 then [0, 2] else if i = 2 then [1, 3]
      else if i = 3 then [2] else [],
    connected :=
      if i = 0 then [0, 1] else if i = 1 then [0, 1, 2] else if i = 2 then [1, 2, 3]
      else if i = 3 then [2, 3] else [],
    sites :=
      if i = 0 then [[0], [0, 1]] else if i = 1 then [[0, 1], [1], [1, 2]]
      else if i = 2 then [[1, 2], [2], [2, 3]] else if i = 3 then [[2, 3], [3]] else [],
    ensembles := [], ensemble_env := [], initialized := true }

/-- Example store: the four example environments, no ensemble allocated. -/
def example_store : store :=
  { env := example_env, ens := fun _ => none, next := 100, env_type := .Enn, radial := false,
    max_sites := 2, random := some { stream := fun n => 7 * n + 3, calls := 0, max := 1000 },
    empty_site := some 1 }

/-- The store a computation returns, the given store when it throws. -/
def store.of_result (r : Except exn store) (st : store) : store :=
  match r with
  | .ok s => s
  | .error _ => st

/-- Example store after `create_ensembles` at the environment `1`. -/
def example_store_created : store :=
  store.of_result (environment.create_ensembles example_sc example_store 1) example_store

/-- Example store in which the species `2`, of coordination 2, lies on the
environments `0` and `1`. -/
def example_store_multi : store :=
  { example_store with
    env := fun i =>
      if i = 0 then { example_env 0 with center := ⟨2, 0, 0⟩, multisite := [1] }
      else if i = 1 then { example_env 1 with center := ⟨2, 0, 1⟩, multisite := [0] }
      else example_env i }

/-- Example store after `create_ensembles` at the environment `1`, with the
species `2` on the environments `0` and `1`. -/
def example_store_multi_created : store :=
  store.of_result (environment.create_ensembles example_sc example_store_multi 1)
    example_store_multi

/-- Example store after `create_ensembles` at the four environments. -/
def example_store_init : store :=
  store.of_result (environment.recreate_ensembles example_sc [0, 1, 2, 3] example_store)
    example_store

/-- Example call of `change_ensemble`: at the environment `1`, the instance
`102` of two empty sites on the environments `0` and `1` is replaced by the
species `2`. -/
def example_change : Except exn (store × List Nat × List Nat) :=
  environment.change_ensemble example_sc example_store_init 1 102 [2] [] []

/-- The store after the example call of `change_ensemble`. -/
def example_change_store : store :=
  match example_change with
  | .ok r => r.1
  | .error _ => example_store_init

/-- The output `remove` of the example call of `change_ensemble`. -/
def example_change_remove : List Nat :=
  match example_change with
  | .ok r => r.2.1
  | .error _ => []

/-- The output `changed` of the example call of `change_ensemble`. -/
def example_change_changed : List Nat :=
  match example_change with
  | .ok r => r.2.2
  | .error _ => []

/-- Example store after `place_species` has put the species `2` on the pool of
the environments `0` and `1`. -/
def example_store_placed : store :=
  match environment.place_species example_sc [2] example_store [0, 1] with
  | .ok r => r.2
  | .error _ => example_store

/-- Example memory at the start of the program: no environment and no ensemble
has been created, and the static members of `environment` have their initial
values. -/
def example_memory : store :=
  { env := fun _ => environment.ctor ⟨0, 0, 0⟩, ens := fun _ => none, next := 0,
    env_type := .Enn, radial := true, max_sites := 0, random := none, empty_site := none }

/-- Example engine before `kmc::initialize`: a lattice of three rows and three
columns, nearest neighbors, radial sites. -/
def example_engine : kmc :=
  { random := some { stream := fun n => 7 * n + 3, calls := 0, max := 1000 }, sites := 9,
    surface := ⟨3, false, []⟩, ensembles := [], rxn_ens := [], max_coordination := 0,
    max_sites := 0, environments := [], env_type := some .Enn, env_radial := true }

/-- Example mechanism: the species `1` and `2` of `example_sc`, no reaction. -/
def example_mech : model_mechanism := ⟨[1, 2], []⟩

/-- The example call of `kmc::initialize`. -/
def example_initialize : Except exn (kmc × store) :=
  kmc.initialize example_sc example_mech (some 1) 20 example_engine example_memory

/-- The engine after the example call of `kmc::initialize`. -/
def example_engine_init : kmc :=
  match example_initialize with
  | .ok r => r.1
  | .error _ => example_engine

/-- The store after the example call of `kmc::initialize`. -/
def example_memory_init : store :=
  match example_initialize with
  | .ok r => r.2
  | .error _ => example_memory

/-- The example reaction on the surface: an instance of the class of two empty
sites is replaced by the species `2`. -/
def example_reaction : Except exn (kmc × store) :=
  kmc.perform_reaction_surface example_sc example_engine_init example_memory_init
    (ensemble.ctor example_sc [1, 1]) [2]

/-- The engine after the example reaction. -/
def example_engine_reacted : kmc :=
  match example_reaction with
  | .ok r => r.1
  | .error _ => example_engine_init

/-- The store after the example reaction. -/
def example_memory_reacted : store :=
  match example_reaction with
  | .ok r => r.2
  | .error _ => example_memory_init

/-- Example call of `change_ensemble` on the lattice of three rows and three
columns: at the environment `0`, the instance `10` of two empty sites on the
environments `0` and `1` is replaced by the species `2`. -/
def example_frame_change : Except exn (store × List Nat × List Nat) :=
  environment.change_ensemble example_sc (example_memory_init.with_random example_rng) 0 10 [2]
    [] []

/-- The store after the example call on the lattice. -/
def example_frame_store : store :=
  match example_frame_change with
  | .ok r => r.1
  | .error _ => example_memory_init

/-- The output `remove` of the example call on the lattice. -/
def example_frame_remove : List Nat :=
  match example_frame_change with
  | .ok r => r.2.1
  | .error _ => []

/-- The output `changed` of the example call on the lattice. -/
def example_frame_changed : List Nat :=
  match example_frame_change with
  | .ok r => r.2.2
  | .error _ => []

/-- Example matrix of environments: three rows and three columns, the
environment of row `i` and column `j` at the address `3 * i + j`. -/
def example_matrix : List (List Nat) := [[0, 1, 2], [3, 4, 5], [6, 7, 8]]

/-- Example memory with the nine environments of `example_matrix` as their
constructor leaves them, for next nearest neighbors. -/
def example_memory_matrix : store :=
  { example_memory with
    env_type := .Ennn, env := fun e => environment.ctor ⟨1, e / 3, e % 3⟩ }

/-- Example environments before `environment::initialize`: the four lattice
points `0 - 1 - 2 - 3` of `example_env` with their neighbors set, nothing
else. -/
def example_env_new (i : Nat) : environment :=
  { example_env i with connected := [], sites := [], initialized := false }

/-- Example store before `environment::initialize`, with radial sites of at most
`n` environments. -/
def example_store_radial (n : Nat) : store :=
  { example_store with env := example_env_new, radial := true, max_sites := n }

/-- Example store after `environment::initialize` at the environment `1`, with
radial sites of at most `n` environments. -/
def example_store_radial_init (n : Nat) : store :=
  store.of_result ( environment.initialize example_sc 20 (example_store_radial n) 1)
    (example_store_radial n)

/-- Example store before `environment::initialize`, with neighbor sites of at
most `n` environments. -/
def example_store_neighbor (n : Nat) : store :=
  { example_store with env := example_env_new, radial := false, max_sites := n }

/-- Example store after `environment::initialize` at the environment `1`, with
neighbor sites of at most `n` environments. -/
def example_store_neighbor_init (n : Nat) : store :=
  store.of_result ( environment.initialize example_sc 20 (example_store_neighbor n) 1)
    (example_store_neighbor n)

/-- Example reaction `2 @ -> @@A`, which has no reverse rate constant. -/
def example_rxn_irreversible : model_reaction :=
  { reactants := [(1, .of_nat 2)], products := [(2, .of_nat 1)], reversible := false }

/-- The example engine after `kmc::create_ensembles` for the mechanism of the
reaction `2 @ <-> @@A`: the classes of one empty site, of two empty sites and of
the species on two sites. -/
def example_kmc_classes : kmc :=
  { example_kmc with
    ensembles := [(⟨[1], 1⟩, []), (⟨[1, 1], 2⟩, []), (⟨[2], 2⟩, [])],
    rxn_ens := [(0, (some ⟨[1, 1], 2⟩, some ⟨[2], 2⟩))] }

/-- The example engine after `kmc::create_ensembles` for the mechanism of the
reaction `2 @ -> @@A`: the classes of one empty site and of two empty sites. -/
def example_kmc_classes_irreversible : kmc :=
  { example_kmc with
    ensembles := [(⟨[1], 1⟩, []), (⟨[1, 1], 2⟩, [])],
    rxn_ens := [(0, (some ⟨[1, 1], 2⟩, none))] }

/-- Example lattice: the lattice of side 2 after `lattice::initialize` with the
species `1`. -/
def example_lattice : lattice :=
  ⟨2, true, [⟨1, 0, 0⟩, ⟨1, 0, 1⟩, ⟨1, 1, 0⟩, ⟨1, 1, 1⟩]⟩

/-- An exact `std::pow` on the exponents that are natural numbers. -/
def example_pow (x y : ℚ) : ℚ := x ^ y.num.toNat

/-- A stoichiometric map: species 1 to the power 1, species 2 to the power 2,
and species 3, which is not on the surface. -/
def example_stoich : List (Nat × stoichiometric) := [(1, ⟨1, 1⟩), (2, ⟨1, 2⟩), (3, ⟨1, 1⟩)]

/-- Example engine with two reactions: the reaction `0` with the class of two
empty sites for its reactants, the reaction `1` without a surface class. -/
def example_engine_rates : kmc :=
  { example_engine_init with
    rxn_ens := [(0, (some (ensemble.ctor example_sc [1, 1]), none)), (1, (none, none))] }

/-- Example quantities: the default precision, a reactor of nine sites, and no
amount of any species. -/
def example_state : state :=
  { prec := precision.ctor, rxtor := { reactor.ctor with sites := 9 },
    amount_type := .Econcentration,
    amount := fun sp => if example_sc sp > 0 then .surface_quantity 0 else .fluid_quantity 0 0 0 }

/-- Example members of the engine for the rates: event based rate constants,
the scale 1, no scale factor of a reaction yet. -/
def example_rate_members : kmc.rate_members :=
  { steps := 0, event_rate := true, scale := 1, rate_scale := [] }

/-- Example mechanism with the reaction `2 @ -> @@A` at the address `0`. -/
def example_mech_rates : model_mechanism := ⟨[1, 2], [example_rxn_irreversible]⟩

/-- Example functions of the rates: the exact power, a forward rate constant of
2 for every reaction at every temperature, and no reverse rate. -/
def example_rate_functions : rate_functions :=
  { pow := example_pow, k_forward := fun _ => some (fun _ => 2), k_reverse := fun _ _ => 0 }

/-- Example quantities on the empty lattice of nine sites: the coverage of the
empty site is 1. -/
def example_state_empty : state :=
  { example_state with
    amount := fun sp =>
      if sp = 1 then .surface_quantity 1
      else if example_sc sp > 0 then .surface_quantity 0 else .fluid_quantity 0 0 0 }

/-- Example members of the engine for the rates, after `calc_rate_scale`: the
scale factors `(1/2, 1/2)` for the reaction `0`. -/
def example_rate_members_scaled : kmc.rate_members :=
  { steps := 0, event_rate := true, scale := 1, rate_scale := [(0, (1 / 2, 1 / 2))] }

/-- Example mechanism of the fluid: the reactions `5 -> 6` at the address `0`
and `5 -> 7` at the address `1`, with no reverse rate constant. -/
def example_mech_step : model_mechanism :=
  ⟨[5, 6, 7],
    [{ reactants := [(5, .of_nat 1)], products := [(6, .of_nat 1)], reversible := false },
      { reactants := [(5, .of_nat 1)], products := [(7, .of_nat 1)], reversible := false }]⟩

/-- Example functions of the rates: the exact power, the forward rate constant
1 of the reaction `0` and 3 of the other reactions. -/
def example_rate_functions_step : rate_functions :=
  { pow := example_pow, k_forward := fun rxn => some (fun _ => if rxn = 0 then 1 else 3),
    k_reverse := fun _ _ => 0 }

/-- A function in the place of `std::log`, negative between 0 and 1. -/
def example_log (x : ℚ) : ℚ := x - 1

/-- The method `kmc_step(msp, dx, T0, T1)` of a reactor that has nothing to
update, as a batch reactor with concentrations. -/
def example_kmc_step_msp (s : state) (_ : Nat) (_ _ _ : ℚ) : Except exn state := .ok s

/-- Example engine without a lattice, with the two reactions of the fluid and
the generator of which every `get_random()` returns 1: the concentration of the
species `5` is 1, the scale factors of both reactions are `(1, 1)`. -/
def example_simulation : simulation :=
  { engine :=
      { random := none, sites := 0, surface := ⟨0, false, []⟩, ensembles := [],
        rxn_ens := [(0, (none, none)), (1, (none, none))], max_coordination := 0,
        max_sites := 0, environments := [], env_type := some .Enn, env_radial := true }
    memory := { example_memory with random := some example_rng }
    quantities :=
      { prec := precision.ctor, rxtor := reactor.ctor, amount_type := .Econcentration,
        amount := fun sp => if sp = 5 then .fluid_quantity 1 0 0 else .fluid_quantity 0 0 0 }
    rates :=
      { steps := 0, event_rate := true, scale := 1,
        rate_scale := [(0, (1, 1)), (1, (1, 1))] } }

/-- The example iteration of the loop of `kmc::step`. -/
def example_step : Except exn (simulation × kmc.step_locals) :=
  kmc.step_body example_rate_functions_step example_log example_kmc_step_msp example_sc
    example_mech_step example_simulation

/-- The engine after the example iteration. -/
def example_simulation_stepped : simulation :=
  match example_step with
  | .ok r => r.1
  | .error _ => example_simulation

/-- The local variables of the example iteration. -/
def example_step_locals : kmc.step_locals :=
  match example_step with
  | .ok r => r.2
  | .error _ => ⟨0, 0, 0, 0⟩

/-- Example quantities on the lattice of nine sites before the initial
coverages are placed: the coverage `1/9` is requested for the species `2`,
which lies on two sites, and none for the empty site. -/
def example_state_request : state :=
  { example_state with
    amount := fun sp =>
      if sp = 2 then .surface_quantity (1 / 9)
      else if example_sc sp > 0 then .surface_quantity 0 else .fluid_quantity 0 0 0 }

/-- Example engine on the lattice of three rows and three columns after
`kmc::initialize` has come to `initial_coverage`. -/
def example_simulation_request : simulation :=
  { engine := example_engine_init, memory := example_memory_init,
    quantities := example_state_request, rates := example_rate_members }

/-- The example call of `kmc::initial_coverage`. -/
def example_initial_coverage : Except exn (List Nat × simulation) :=
  kmc.initial_coverage example_sc 20 example_mech (some 1) example_simulation_request

/-- The engine after the example call of `kmc::initial_coverage`. -/
def example_simulation_covered : simulation :=
  match example_initial_coverage with
  | .ok r => r.2
  | .error _ => example_simulation_request

/-- Example species table of single sites: `1` is the empty site `@`, `2` and
`3` are species on one site, every other species is in the fluid. -/
def example_sc_single : Nat → Nat :=
  fun s => if s = 1 then 1 else if s = 2 then 1 else if s = 3 then 1 else 0

/-- Example mechanism of single sites: the species `1`, `2` and `3` of
`example_sc_single`, no reaction. -/
def example_mech_single : model_mechanism := ⟨[1, 2, 3], []⟩

/-- Example engine before `kmc::initialize`: a lattice of two rows and two
columns, nearest neighbors, radial sites. -/
def example_engine_small : kmc :=
  { example_engine with sites := 4, surface := ⟨2, false, []⟩ }

/-- The example call of `kmc::initialize` on the lattice of four sites. -/
def example_initialize_small : Except exn (kmc × store) :=
  kmc.initialize example_sc_single example_mech_single (some 1) 20 example_engine_small
    example_memory

/-- Example quantities on the lattice of four sites before the initial
coverages are placed: the coverage `a` is requested for the species `2`, the
coverage `b` for the species `3`, and none for the empty site. -/
def example_state_requests (a b : ℚ) : state :=
  { prec := precision.ctor, rxtor := { reactor.ctor with sites := 4 },
    amount_type := .Econcentration,
    amount := fun sp =>
      if sp = 2 then .surface_quantity a
      else if sp = 3 then .surface_quantity b
      else if example_sc_single sp > 0 then .surface_quantity 0 else .fluid_quantity 0 0 0 }

/-- Example engine on the lattice of two rows and two columns after
`kmc::initialize` has come to `initial_coverage`, with the requested coverages
`a` and `b`. -/
def example_simulation_requests (a b : ℚ) : simulation :=
  { engine :=
      match example_initialize_small with
      | .ok r => r.1
      | .error _ => example_engine_small
    memory :=
      match example_initialize_small with
      | .ok r => r.2
      | .error _ => example_memory
    quantities := example_state_requests a b, rates := example_rate_members }

/-- The engine after the example call of `kmc::initial_coverage` with the
requested coverages `31/50` and `31/50`. -/
def example_simulation_overfull : simulation :=
  match kmc.initial_coverage example_sc_single 20 example_mech_single (some 1)
      (example_simulation_requests (31 / 50) (31 / 50)) with
  | .ok r => r.2
  | .error _ => example_simulation_requests (31 / 50) (31 / 50)

/-- The local variables and the engine at the `throw` of the example call of
`kmc::initial_coverage` with the requested coverages `31/50` and `7/10`. -/
def example_coverage_throw : kmc.coverage_locals × simulation :=
  match kmc.initial_coverage_throw example_sc_single 20 1 [1, 2, 3] ⟨0, 0, []⟩
      (example_simulation_requests (31 / 50) (7 / 10)) with
  | some r => r.2.2
  | none => (⟨0, 0, []⟩, example_simulation_requests (31 / 50) (7 / 10))

/-- The example store after `place_species` was called for the species `2` on
the pool of the environments `0` and `2`, which are no neighbors. -/
def example_store_unplaced : store :=
  match environment.place_species example_sc [2] example_store [0, 2] with
  | .ok r => r.2
  | .error _ => example_store

/-- Example environments for neighbor sites of nearest neighbors: the point
`0` with its four neighbors `1`, `2`, `3` and `4`, each holding the empty
site; the point `0` has the site-groups of one, two and five points. -/
def example_env_star (i : Nat) : environment :=
  { center := ⟨1, 0, i⟩, multisite := [],
    neighbors := if i = 0 then [1, 2, 3, 4] else if i ≤ 4 then [0] else [],
    connected := if i = 0 then [0, 1, 2, 3, 4] else [],
    sites := if i = 0 then [[0], [0, 1], [0, 1, 2, 3, 4]] else [],
    ensembles := [], ensemble_env := [], initialized := true }

/-- Example store with neighbor sites of the maximum size 5 on nearest
neighbors. -/
def example_store_star : store :=
  { env := example_env_star, ens := fun _ => none, next := 100, env_type := .Enn,
    radial := false, max_sites := 5, random := none, empty_site := some 1 }

/-- The example store of the star after `create_ensembles` at the point `0`. -/
def example_store_star_created : store :=
  store.of_result (environment.create_ensembles example_sc example_store_star 0)
    example_store_star

/-- Example quantities of a batch reactor that is heated: the temperature is
300, the heating rate 1, the fluid quantity is the pressure, and the species
`5`, which is no surface species of `example_sc`, has the pressure 2. -/
def example_state_heated : state :=
  { prec := precision.ctor,
    rxtor := { reactor.ctor with temperature := 300, heating_rate := 1, fluid_type := .Epressure },
    amount_type := .Epressure,
    amount := fun sp =>
      if example_sc sp > 0 then .surface_quantity 0 else .fluid_quantity 0 2 0 }

/-- Example engine on the lattice of three rows and three columns with the
reaction `2 @ -> @@A` at the address `0`: the lattice is empty, the scale
factors of the reaction are `(1/2, 1/2)`, and every `get_random()` of the
generator returns 1. -/
def example_simulation_surface : simulation :=
  { engine :=
      { example_engine_init with
        rxn_ens := [(0, (some (ensemble.ctor example_sc [1, 1]), none))] }
    memory := { example_memory_init with random := some example_rng }
    quantities := example_state_empty
    rates := example_rate_members_scaled }

/-- Example reaction `4 @ -> 2 @@A`: four empty sites become two adsorbates on
two sites each. -/
def example_rxn_pairs : model_reaction :=
  { reactants := [(1, .of_nat 4)], products := [(2, .of_nat 2)], reversible := false }

/-- Example mechanism with the species `1` and `2` of `example_sc` and the
reaction `4 @ -> 2 @@A` at the address `0`. -/
def example_mech_pairs : model_mechanism := ⟨[1, 2], [example_rxn_pairs]⟩

/-- Example engine before `kmc::initialize`: a lattice of four rows and four
columns, nearest neighbors, neighbor sites. -/
def example_engine_pairs : kmc :=
  { random := some example_rng, sites := 16, surface := ⟨4, false, []⟩, ensembles := [],
    rxn_ens := [], max_coordination := 0, max_sites := 0, environments := [],
    env_type := some .Enn, env_radial := false }

/-- The example call of `kmc::initialize` on the lattice of four rows and four
columns. -/
def example_initialize_pairs : Except exn (kmc × store) :=
  kmc.initialize example_sc example_mech_pairs (some 1) 20 example_engine_pairs example_memory

/-- Example engine on the empty lattice of four rows and four columns after
`kmc::initialize`: the reactor has sixteen sites, the coverage of the empty
site is 1 and the coverage of the species `2` is 0. -/
def example_simulation_pairs : simulation :=
  { engine :=
      match example_initialize_pairs with
      | .ok r => r.1
      | .error _ => example_engine_pairs
    memory :=
      match example_initialize_pairs with
      | .ok r => r.2
      | .error _ => example_memory
    quantities :=
      { example_state_empty with rxtor := { reactor.ctor with sites := 16 } }
    rates := example_rate_members }

/-- The example call of `kmc::perform_reaction` for the reaction `4 @ -> 2 @@A`
on the empty lattice of four rows and four columns. -/
def example_perform_pairs : Except exn simulation :=
  kmc.perform_reaction_reactor example_sc example_simulation_pairs example_rxn_pairs
    (some (ensemble.ctor example_sc [1, 1, 1, 1]), none) 1

/-- The engine after the example call of `kmc::perform_reaction` for the
reaction `4 @ -> 2 @@A`. -/
def example_simulation_unpaired : simulation :=
  match example_perform_pairs with
  | .ok r => r
  | .error _ => example_simulation_pairs

/-! ## Lemmas on the containers -/

theorem lexicographical_compare_irrefl (l : List Nat) : lexicographical_compare l l = false := by
  induction l with
  | nil => rfl
  | cons a as ih => simp [lexicographical_compare, ih]

theorem lexicographical_compare_eq_of_not_lt :
    ∀ (l r : List Nat), lexicographical_compare l r = false →
      lexicographical_compare r l = false → l = r
  | [], [], _, _ => rfl
  | [], _ :: _, h, _ => by simp [lexicographical_compare] at h
  | _ :: _, [], _, h => by simp [lexicographical_compare] at h
  | a :: as, b :: bs, h1, h2 => by
    simp only [lexicographical_compare] at h1 h2
    by_cases hab : a < b
    · simp [hab] at h1
    · by_cases hba : b < a
      · simp [hba] at h2
      · simp only [hab, hba, if_false] at h1 h2
        have : a = b := by omega
        rw [this, lexicographical_compare_eq_of_not_lt as bs h1 h2]

theorem ensemble.collect_fst (sc : Nat → Nat) (l : List Nat)
    (acc : List Nat × Nat) :
    (ensemble.collect sc l acc).1 = acc.1 ++ l.filter (fun s => decide (sc s > 0)) := by
  induction l generalizing acc with
  | nil => simp [ensemble.collect]
  | cons s rest ih =>
    by_cases h : sc s > 0
    · simp [ensemble.collect, h, ih]
    · simp [ensemble.collect, h, ih]

theorem ensemble.collect_snd (sc : Nat → Nat) (l : List Nat)
    (acc : List Nat × Nat) :
    (ensemble.collect sc l acc).2 % 2 ^ 32 = (acc.2 + (l.map sc).sum) % 2 ^ 32 := by
  induction l generalizing acc with
  | nil => simp [ensemble.collect]
  | cons s rest ih =>
    by_cases h : sc s > 0
    · simp only [ensemble.collect, h, if_true, ih, List.map_cons, List.sum_cons]
      omega
    · have h0 : sc s = 0 := by omega
      simp only [ensemble.collect, h, if_false]
      rw [ih, List.map_cons, List.sum_cons, h0, Nat.zero_add]

theorem ensemble.collect_snd_lt (sc : Nat → Nat) (l : List Nat)
    (acc : List Nat × Nat) (hacc : acc.2 < 2 ^ 32) :
    (ensemble.collect sc l acc).2 < 2 ^ 32 := by
  induction l generalizing acc with
  | nil => simpa [ensemble.collect] using hacc
  | cons s rest ih =>
    by_cases h : sc s > 0
    · simp only [ensemble.collect, h, if_true]
      exact ih _ (Nat.mod_lt _ (by norm_num))
    · simp only [ensemble.collect, h, if_false]
      exact ih _ hacc

/-- The coordination of an ensemble is the sum of the coordinations of the
species given to the constructor, as an `unsigned int`. -/
theorem ensemble.coordination_eq (sc : Nat → Nat) (l : List Nat) :
    (ensemble.ctor sc l).coordination = (l.map sc).sum % 2 ^ 32 := by
  have h1 := ensemble.collect_snd sc l ([], 0)
  have h2 := ensemble.collect_snd_lt sc l ([], 0) (by norm_num)
  simp only [ensemble.ctor]
  rw [Nat.mod_eq_of_lt h2] at h1
  simpa using h1

/-- The species of an ensemble are the surface species given to the
constructor, sorted. -/
theorem ensemble.sorted_species_eq (sc : Nat → Nat) (l : List Nat) :
    (ensemble.ctor sc l).sorted_species =
      (l.filter (fun s => decide (sc s > 0))).insertionSort (· ≤ ·) := by
  simp [ensemble.ctor, ensemble.collect_fst]

theorem ensemble.ctor_perm (sc : Nat → Nat) {s1 s2 : List Nat}
    (h : s1.Perm s2) : ensemble.ctor sc s1 = ensemble.ctor sc s2 := by
  have hs : (ensemble.ctor sc s1).sorted_species = (ensemble.ctor sc s2).sorted_species := by
    rw [ensemble.sorted_species_eq, ensemble.sorted_species_eq]
    apply List.eq_of_perm_of_sorted (r := (· ≤ ·))
    · exact ((List.perm_insertionSort _ _).trans (h.filter _)).trans
        (List.perm_insertionSort _ _).symm
    · exact List.sorted_insertionSort _ _
    · exact List.sorted_insertionSort _ _
  have hc : (ensemble.ctor sc s1).coordination = (ensemble.ctor sc s2).coordination := by
    rw [ensemble.coordination_eq, ensemble.coordination_eq, (h.map sc).sum_eq]
  cases h1 : ensemble.ctor sc s1
  cases h2 : ensemble.ctor sc s2
  rw [h1] at hs hc
  rw [h2] at hs hc
  simp only at hs hc
  rw [hs, hc]

/-! ## Lemmas on `kmc::create_ensembles` -/

theorem model_reaction.get_seq_cases (r : model_reaction) :
    (r.get_reactant_seq = .error .bad_input_stoichiometry ∧
      r.get_product_seq = .error .bad_input_stoichiometry) ∨
    (r.get_reactant_seq = .ok r.create_species_seq.2.1 ∧
      r.get_product_seq = .ok r.create_species_seq.2.2) := by
  unfold model_reaction.get_reactant_seq model_reaction.get_product_seq
  cases h : r.create_species_seq.1 <;> simp

theorem kmc.create_ensembles_reaction_mismatch (sc : Nat → Nat) (k : kmc) (rxn : Nat)
    (r : model_reaction) (h : r.coordination_mismatch sc) :
    kmc.create_ensembles_reaction sc k rxn r = .error .bad_input_coordination := by
  obtain ⟨rs, ps, h1, h2, h3⟩ := h
  unfold kmc.create_ensembles_reaction
  rw [h1, h2]
  simp only [ne_eq, h3, not_false_eq_true, if_true]

theorem kmc.create_ensembles_reaction_error (sc : Nat → Nat) (k : kmc) (rxn : Nat)
    (r : model_reaction) (e : exn) (h : kmc.create_ensembles_reaction sc k rxn r = .error e) :
    e = .bad_input_stoichiometry ∨ (e = .bad_input_coordination ∧ r.coordination_mismatch sc) := by
  unfold kmc.create_ensembles_reaction at h
  rcases r.get_seq_cases with ⟨h1, h2⟩ | ⟨h1, h2⟩
  · rw [h1] at h
    simp only [Except.error.injEq] at h
    exact Or.inl h.symm
  · rw [h1, h2] at h
    simp only at h
    split_ifs at h with hc hs
    · simp only [Except.error.injEq] at h
      exact Or.inr ⟨h.symm, _, _, h1, h2, hc⟩

theorem kmc.create_ensembles_reactions_mismatch (sc : Nat → Nat)
    (l : List model_reaction) (h : ∃ r ∈ l, r.coordination_mismatch sc) (rxn : Nat) (k : kmc) :
    ∃ e, kmc.create_ensembles_reactions sc l rxn k = .error e ∧ e.cls = .bad_input := by
  induction l generalizing rxn k with
  | nil => simp at h
  | cons r rest ih =>
    unfold kmc.create_ensembles_reactions
    cases hr : kmc.create_ensembles_reaction sc k rxn r with
    | error e =>
      refine ⟨e, rfl, ?_⟩
      rcases kmc.create_ensembles_reaction_error sc k rxn r e hr with h1 | ⟨h1, _⟩ <;>
        rw [h1] <;> rfl
    | ok k1 =>
      simp only
      apply ih
      obtain ⟨r', hmem, hmis⟩ := h
      rcases List.mem_cons.mp hmem with heq | hin
      · subst heq
        rw [kmc.create_ensembles_reaction_mismatch sc k rxn r' hmis] at hr
        cases hr
      · exact ⟨r', hin, hmis⟩

theorem kmc.create_ensembles_reactions_no_mismatch (sc : Nat → Nat)
    (l : List model_reaction) (h : ∀ r ∈ l, ¬ r.coordination_mismatch sc) (rxn : Nat) (k : kmc) :
    kmc.create_ensembles_reactions sc l rxn k ≠ .error .bad_input_coordination := by
  induction l generalizing rxn k with
  | nil => simp [kmc.create_ensembles_reactions]
  | cons r rest ih =>
    unfold kmc.create_ensembles_reactions
    cases hr : kmc.create_ensembles_reaction sc k rxn r with
    | error e =>
      simp only [ne_eq, Except.error.injEq]
      rintro rfl
      rcases kmc.create_ensembles_reaction_error sc k rxn r _ hr with h1 | ⟨_, h2⟩
      · cases h1
      · exact h r (List.mem_cons_self _ _) h2
    | ok k1 =>
      simp only
      exact ih (fun r' hr' => h r' (List.mem_cons_of_mem _ hr')) _ _

theorem trunc_natCast (n : ℕ) : trunc (n : ℚ) = n := by
  simp [trunc]

theorem trunc_natCast_add (n : ℕ) : trunc (((n : ℤ) : ℚ) + 1 / 10) = n := by
  have h0 : (0 : ℚ) ≤ ((n : ℤ) : ℚ) + 1 / 10 := by positivity
  simp only [trunc, h0, if_true]
  rw [Int.floor_eq_iff]
  constructor <;> norm_num

theorem model_reaction.create_species_seq_of_nil :
    model_reaction.create_species_seq_of [] = (true, []) := rfl

theorem model_reaction.create_species_seq_of_nat (s : Nat) (n : ℕ)
    (rest : List (Nat × stoichiometric)) :
    model_reaction.create_species_seq_of ((s, stoichiometric.of_nat n) :: rest) =
      if (model_reaction.create_species_seq_of rest).1 then
        (true, List.replicate n s ++ (model_reaction.create_species_seq_of rest).2)
      else (false, []) := by
  have h : ¬ (|(n : ℚ) - (((n : ℕ) : ℤ) : ℚ)| > 2 * DBL_EPSILON) := by simp [DBL_EPSILON]
  simp only [model_reaction.create_species_seq_of, stoichiometric.of_nat,
    trunc_natCast, trunc_natCast_add, Int.toNat_ofNat]
  rw [if_neg h]

theorem example_rxn_unbalanced_mismatch : example_rxn_unbalanced.coordination_mismatch example_sc := by
  refine ⟨[1], [2], ?_, ?_, by decide⟩
  · simp [model_reaction.get_reactant_seq, model_reaction.create_species_seq,
      model_reaction.create_species_seq_of_nat, example_rxn_unbalanced,
      model_reaction.create_species_seq_of_nil]
  · simp [model_reaction.get_product_seq, model_reaction.create_species_seq,
      model_reaction.create_species_seq_of_nat, example_rxn_unbalanced,
      model_reaction.create_species_seq_of_nil]

theorem example_rxn_balanced_no_mismatch :
    ¬ example_rxn_balanced.coordination_mismatch example_sc := by
  rintro ⟨rs, ps, h1, h2, h3⟩
  simp [model_reaction.get_product_seq, model_reaction.get_reactant_seq,
    model_reaction.create_species_seq, model_reaction.create_species_seq_of_nat,
    example_rxn_balanced, model_reaction.create_species_seq_of_nil, List.replicate] at h1 h2
  subst h1 h2
  exact h3 (by decide)

/-! ## Lemmas on `kmc::select_reaction` -/

theorem map_insert_double_append (kv : ℚ × Option Nat) (m : List (ℚ × Option Nat))
    (h : ∀ e ∈ m, e.1 < kv.1) : map_insert double_lt kv m = m ++ [kv] := by
  induction m with
  | nil => rfl
  | cons e es ih =>
    have he : e.1 < kv.1 := h e (List.mem_cons_self _ _)
    have h1 : double_lt kv.1 e.1 = false := by simp [double_lt, le_of_lt he]
    have h2 : double_lt e.1 kv.1 = true := by simp [double_lt, he]
    simp only [map_insert, h1, h2, if_true, List.cons_append, Bool.false_eq_true, if_false]
    rw [ih (fun e' he' => h e' (List.mem_cons_of_mem _ he'))]

theorem cum_entries_gt (n : Nat → ℚ) (L : List (Nat × (ensemble_map_iter × ensemble_map_iter)))
    (t : ℚ) : ∀ e ∈ cum_entries n L t, t < e.1 := by
  induction L generalizing t with
  | nil => simp [cum_entries]
  | cons x rest ih =>
    intro e he
    have hle : t ≤ t + |n x.1| := by linarith [abs_nonneg (n x.1)]
    simp only [cum_entries] at he
    split_ifs at he with hgt
    · rcases List.mem_cons.mp he with rfl | hin
      · exact hgt
      · exact lt_of_le_of_lt hle (ih _ e hin)
    · exact lt_of_le_of_lt hle (ih _ e he)

theorem kmc.select_reaction_loop_cum (n : Nat → ℚ)
    (L : List (Nat × (ensemble_map_iter × ensemble_map_iter))) (st : select_state)
    (h : ∀ e ∈ st.cum_rates, e.1 ≤ st.total_rate) :
    ∃ st', kmc.select_reaction_loop (fun rxn => .ok (n rxn)) L st = .ok st' ∧
      st'.cum_rates = st.cum_rates ++ cum_entries n L st.total_rate ∧
      st'.total_rate = st.total_rate + (L.map (fun e => |n e.1|)).sum := by
  induction L generalizing st with
  | nil => exact ⟨st, rfl, by simp [cum_entries], by simp⟩
  | cons x rest ih =>
    simp only [kmc.select_reaction_loop]
    have hle : st.total_rate ≤ st.total_rate + |n x.1| := by linarith [abs_nonneg (n x.1)]
    by_cases hgt : st.total_rate + |n x.1| > st.total_rate
    · simp only [hgt, if_true]
      rw [map_insert_double_append _ _ (fun e he => lt_of_le_of_lt (h e he) hgt)]
      obtain ⟨st', h1, h2, h3⟩ := ih
        { total_rate := st.total_rate + |n x.1|
          rates := map_insert ptr_lt (x.1, n x.1) st.rates
          cum_rates := st.cum_rates ++ [(st.total_rate + |n x.1|, some x.1)] }
        (by
          intro e he
          rcases List.mem_append.mp he with hin | hin
          · exact le_trans (h e hin) hle
          · simp only [List.mem_singleton] at hin
            rw [hin])
      refine ⟨st', h1, ?_, ?_⟩
      · rw [h2]; simp [cum_entries, hgt]
      · rw [h3]; simp [add_assoc]
    · simp only [hgt, if_false]
      obtain ⟨st', h1, h2, h3⟩ := ih
        { total_rate := st.total_rate + |n x.1|
          rates := map_insert ptr_lt (x.1, n x.1) st.rates
          cum_rates := st.cum_rates }
        (fun e he => le_trans (h e he) hle)
      refine ⟨st', h1, ?_, ?_⟩
      · rw [h2]; simp [cum_entries, hgt]
      · rw [h3]; simp [add_assoc]

theorem map_insert_next_of_all_gt (r : ℚ) (m : List (ℚ × Option Nat))
    (h : ∀ e ∈ m, r < e.1) : map_insert_next double_lt (r, none) m = m.head? := by
  cases m with
  | nil => rfl
  | cons e es =>
    have he : r < e.1 := h e (List.mem_cons_self _ _)
    simp [map_insert_next, map_insert, map_insert_pos, double_lt, he]

theorem map_insert_next_cons_ge (r : ℚ) (e : ℚ × Option Nat) (m : List (ℚ × Option Nat))
    (he : e.1 ≤ r) (h : ∀ e' ∈ m, e.1 < e'.1) :
    map_insert_next double_lt (r, none) (e :: m) = map_insert_next double_lt (r, none) m := by
  rcases lt_or_eq_of_le he with hlt | heq
  · have h1 : ¬ r < e.1 := not_lt.mpr he
    simp [map_insert_next, map_insert, map_insert_pos, double_lt, h1, hlt]
  · have h1 : ¬ r < e.1 := not_lt.mpr he
    have h2 : ¬ e.1 < r := by rw [heq]; exact lt_irrefl _
    rw [map_insert_next_of_all_gt r m (fun e' he' => heq ▸ h e' he')]
    simp [map_insert_next, map_insert, map_insert_pos, double_lt, h1, h2, List.head?_eq_getElem?]

theorem cumulative_rate_zero (l : List ℚ) : cumulative_rate l 0 = 0 := by
  simp [cumulative_rate]

theorem cumulative_rate_cons_succ (x : ℚ) (l : List ℚ) (i : Nat) :
    cumulative_rate (x :: l) (i + 1) = |x| + cumulative_rate l i := by
  simp [cumulative_rate]

theorem cumulative_rate_succ (l : List ℚ) (i : Nat) (v : ℚ) (h : l[i]? = some v) :
    cumulative_rate l (i + 1) = cumulative_rate l i + |v| := by
  induction l generalizing i with
  | nil => simp at h
  | cons x xs ih =>
    cases i with
    | zero =>
      simp only [List.getElem?_cons_zero, Option.some.injEq] at h
      subst h
      simp [cumulative_rate]
    | succ j =>
      simp only [List.getElem?_cons_succ] at h
      rw [cumulative_rate_cons_succ, cumulative_rate_cons_succ, ih j h, add_assoc]

theorem cumulative_rate_length (l : List ℚ) :
    cumulative_rate l l.length = (l.map (fun x => |x|)).sum := by
  simp [cumulative_rate]

theorem map_insert_next_cum_entries (n : Nat → ℚ)
    (L : List (Nat × (ensemble_map_iter × ensemble_map_iter))) (t r : ℚ) (htr : t ≤ r)
    (hr : r < t + (L.map (fun e => |n e.1|)).sum) :
    ∃ i x c, L[i]? = some x ∧
      map_insert_next double_lt (r, none) (cum_entries n L t) = some (c, some x.1) ∧
      t + cumulative_rate (L.map (fun e => n e.1)) i ≤ r ∧
      r < t + cumulative_rate (L.map (fun e => n e.1)) (i + 1) := by
  induction L generalizing t with
  | nil => simp at hr; linarith
  | cons y rest ih =>
    have ha : 0 ≤ |n y.1| := abs_nonneg _
    simp only [List.map_cons, List.sum_cons] at hr
    by_cases hgt : t + |n y.1| > t
    · by_cases hlt : r < t + |n y.1|
      · refine ⟨0, y, t + |n y.1|, by simp, ?_, ?_, ?_⟩
        · simp [cum_entries, hgt, map_insert_next, map_insert, map_insert_pos, double_lt, hlt]
        · simpa [cumulative_rate_zero] using htr
        · simpa [cumulative_rate_cons_succ, cumulative_rate_zero] using hlt
      · have hge : t + |n y.1| ≤ r := not_lt.mp hlt
        obtain ⟨i, x, c, h1, h2, h3, h4⟩ := ih (t + |n y.1|) hge (by linarith)
        refine ⟨i + 1, x, c, by simpa using h1, ?_, ?_, ?_⟩
        · simp only [cum_entries, hgt, if_true]
          rw [map_insert_next_cons_ge r _ _ hge (cum_entries_gt n rest _), h2]
        · rw [List.map_cons, cumulative_rate_cons_succ]; linarith
        · rw [List.map_cons, cumulative_rate_cons_succ]; linarith
    · have h0 : |n y.1| = 0 := by linarith [not_lt.mp hgt]
      obtain ⟨i, x, c, h1, h2, h3, h4⟩ := ih (t + |n y.1|) (by linarith) (by linarith)
      refine ⟨i + 1, x, c, by simpa using h1, ?_, ?_, ?_⟩
      · simp only [cum_entries, hgt, if_false]
        exact h2
      · rw [List.map_cons, cumulative_rate_cons_succ]; linarith
      · rw [List.map_cons, cumulative_rate_cons_succ]; linarith

theorem ptr_lt_equiv (a b : Nat) : (!ptr_lt a b && !ptr_lt b a) = decide (a = b) := by
  by_cases h : a = b
  · subst h; simp [ptr_lt]
  · have : a < b ∨ b < a := by omega
    rcases this with h1 | h1 <;> simp [ptr_lt, h, h1, Nat.le_of_lt h1]

theorem map_find_ptr_eq {ν : Type} (m : List (Nat × ν)) (k : Nat) :
    map_find ptr_lt m k = m.find? (fun kv => decide (kv.1 = k)) := by
  simp only [map_find, ptr_lt_equiv]

theorem map_find_ptr_insert_ne {ν : Type} (m : List (Nat × ν)) (k k' : Nat) (v : ν)
    (h : k' ≠ k) :
    map_find ptr_lt (map_insert ptr_lt (k, v) m) k' = map_find ptr_lt m k' := by
  simp only [map_find_ptr_eq]
  induction m with
  | nil => simp [map_insert, h.symm]
  | cons e es ih =>
    simp only [map_insert]
    split_ifs with h1 h2
    · simp [List.find?_cons, h.symm]
    · simp only [List.find?_cons, ih]
    · rfl

theorem map_find_ptr_insert_self {ν : Type} (m : List (Nat × ν)) (k : Nat) (v : ν)
    (h : map_find ptr_lt m k = none) :
    map_find ptr_lt (map_insert ptr_lt (k, v) m) k = some (k, v) := by
  simp only [map_find_ptr_eq] at h ⊢
  induction m with
  | nil => simp [map_insert]
  | cons e es ih =>
    have hne : e.1 ≠ k := by
      intro heq
      simp [List.find?_cons, heq] at h
    have hes : es.find? (fun kv => decide (kv.1 = k)) = none := by
      simpa [List.find?_cons, hne] using h
    simp only [map_insert]
    split_ifs with h1 h2
    · simp [List.find?_cons]
    · simp only [List.find?_cons, hne, decide_False]
      exact ih hes
    · exfalso
      apply hne
      simp only [ptr_lt, decide_eq_true_eq] at h1 h2
      omega

theorem kmc.select_reaction_loop_rates (n : Nat → ℚ)
    (L : List (Nat × (ensemble_map_iter × ensemble_map_iter))) (st st' : select_state)
    (hnd : (L.map Prod.fst).Nodup) (hfresh : ∀ e ∈ L, map_find ptr_lt st.rates e.1 = none)
    (h : kmc.select_reaction_loop (fun rxn => .ok (n rxn)) L st = .ok st') :
    ∀ a, map_find ptr_lt st'.rates a =
      if a ∈ L.map Prod.fst then some (a, n a) else map_find ptr_lt st.rates a := by
  induction L generalizing st with
  | nil =>
    simp only [kmc.select_reaction_loop, Except.ok.injEq] at h
    subst h
    simp
  | cons x rest ih =>
    simp only [kmc.select_reaction_loop] at h
    simp only [List.map_cons, List.nodup_cons] at hnd
    intro a
    have hx : map_find ptr_lt st.rates x.1 = none := hfresh x (List.mem_cons_self _ _)
    rw [ih _ hnd.2 ?_ h a]
    · simp only [List.map_cons, List.mem_cons]
      by_cases ha : a ∈ rest.map Prod.fst
      · simp [ha]
      · simp only [ha, if_false, or_false]
        by_cases hax : a = x.1
        · subst hax
          simp [map_find_ptr_insert_self _ _ _ hx]
        · simp [hax, map_find_ptr_insert_ne _ _ _ _ hax]
    · intro e he
      have hne : e.1 ≠ x.1 := by
        intro heq
        exact hnd.1 (heq ▸ List.mem_map_of_mem Prod.fst he)
      simp only
      rw [map_find_ptr_insert_ne _ _ _ _ hne]
      exact hfresh e (List.mem_cons_of_mem _ he)

theorem rng.get_random_open_bounds (g : rng) (T : ℚ) (hT : 0 < T)
    (hmax : g.stream g.calls ≤ g.max) :
    0 ≤ (g.get_random_open T).1 ∧ (g.get_random_open T).1 < T := by
  have hden : (0 : ℚ) < (g.max : ℚ) + 1 := by positivity
  have hraw : (g.stream g.calls : ℚ) < (g.max : ℚ) + 1 := by
    have : (g.stream g.calls : ℚ) ≤ (g.max : ℚ) := by exact_mod_cast hmax
    linarith
  simp only [rng.get_random_open, rng.get_random, rng.get_max]
  constructor
  · positivity
  · rw [div_lt_iff₀ hden]
    exact mul_lt_mul_of_pos_left hraw hT

/-! ## Lemmas on `environment::create_ensembles` -/

theorem set_contains_ptr (s : List Nat) (x : Nat) : set_contains ptr_lt s x = decide (x ∈ s) := by
  induction s with
  | nil => simp [set_contains]
  | cons y ys ih =>
    simp only [set_contains, List.any_cons, ptr_lt_equiv] at ih ⊢
    rw [ih]
    by_cases h : y = x
    · simp [h]
    · have h' : ¬ x = y := fun e => h e.symm
      simp [h, h']

theorem environment.create_ensembles_site_eq (st : store) (site l : List Nat)
    (acc : List Nat) (multi : Bool) :
    environment.create_ensembles_site st site l acc multi =
      if l.all (fun m => (st.env m).multisite.all (fun p => decide (p ∈ site))) then
        (acc ++ l.map (fun m => (st.env m).center.type),
          multi || l.any (fun m => !(st.env m).multisite.isEmpty))
      else ([], true) := by
  induction l generalizing acc multi with
  | nil => simp [environment.create_ensembles_site]
  | cons git rest ih =>
    have hne : ∀ x : Nat, (acc ++ [x]).isEmpty = false := by
      intro x; cases acc <;> rfl
    simp only [environment.create_ensembles_site, environment.get_species, hne,
      Bool.false_eq_true, if_false, set_contains_ptr]
    by_cases hemp : (st.env git).multisite.isEmpty = true
    · have hnil : (st.env git).multisite = [] := List.isEmpty_iff.mp hemp
      simp only [hemp, if_true, ih, List.all_cons, hnil, List.all_nil, Bool.true_and,
        List.map_cons, List.any_cons, List.isEmpty_nil, Bool.not_true, Bool.false_or,
        List.append_assoc, List.singleton_append]
    · simp only [hemp, Bool.false_eq_true, if_false, List.all_cons, List.any_cons]
      by_cases hall : (st.env git).multisite.all (fun p => decide (p ∈ site)) = true
      · simp only [hall, if_true, ih, Bool.true_and, List.map_cons, List.append_assoc,
          List.singleton_append, Bool.true_or, Bool.not_false, Bool.or_true,
          Bool.eq_false_iff.mpr hemp]
      · simp only [hall, Bool.false_eq_true, if_false, Bool.false_and]

theorem environment.create_ensembles_site_start (st : store) (site : List Nat) :
    environment.create_ensembles_site st site site [] false =
      if environment.site_contained st site then
        (environment.site_occupants st site, environment.site_multisite st site)
      else ([], true) := by
  rw [environment.create_ensembles_site_eq]
  simp [environment.site_contained, environment.site_occupants, environment.site_multisite]

theorem store.same_surface_refl (a : store) : a.same_surface a :=
  ⟨rfl, rfl, rfl, rfl, fun _ => ⟨rfl, rfl⟩⟩

theorem store.same_surface_symm {a b : store} (h : a.same_surface b) : b.same_surface a :=
  ⟨h.1.symm, h.2.1.symm, h.2.2.1.symm, h.2.2.2.1.symm,
    fun e => ⟨(h.2.2.2.2 e).1.symm, (h.2.2.2.2 e).2.symm⟩⟩

theorem store.same_surface_trans {a b c : store} (h1 : a.same_surface b)
    (h2 : b.same_surface c) : a.same_surface c :=
  ⟨h1.1.trans h2.1, h1.2.1.trans h2.2.1, h1.2.2.1.trans h2.2.2.1, h1.2.2.2.1.trans h2.2.2.2.1,
    fun e => ⟨(h1.2.2.2.2 e).1.trans (h2.2.2.2.2 e).1, (h1.2.2.2.2 e).2.trans (h2.2.2.2.2 e).2⟩⟩

theorem environment.insert_ensemble_same_surface (sc : Nat → Nat) (st : store)
    (this : Nat) (speciess : List Nat) (envs : List Nat) :
    st.same_surface (environment.insert_ensemble sc st this speciess envs) := by
  refine ⟨rfl, rfl, rfl, rfl, fun e => ?_⟩
  by_cases h : e = this
  · subst h; simp [environment.insert_ensemble]
  · simp [environment.insert_ensemble, Function.update_noteq h]

theorem environment.skip_site_congr {a b : store} (h : a.same_surface b) (this : Nat)
    (site : List Nat) : environment.skip_site a this site = environment.skip_site b this site := by
  obtain ⟨h1, h2, h3, h4, h5⟩ := h
  simp only [environment.skip_site, h1, h2, h3, h4, (h5 this).1]

theorem environment.site_contained_congr {a b : store} (h : a.same_surface b)
    (site : List Nat) : environment.site_contained a site = environment.site_contained b site := by
  simp only [environment.site_contained, (h.2.2.2.2 _).2]

theorem environment.site_occupants_congr {a b : store} (h : a.same_surface b)
    (site : List Nat) : environment.site_occupants a site = environment.site_occupants b site := by
  simp only [environment.site_occupants, (h.2.2.2.2 _).1]

theorem environment.site_multisite_congr {a b : store} (h : a.same_surface b)
    (site : List Nat) : environment.site_multisite a site = environment.site_multisite b site := by
  simp only [environment.site_multisite, (h.2.2.2.2 _).2]

theorem environment.site_used_congr {a b : store} (h : a.same_surface b) (this : Nat)
    (site : List Nat) : environment.site_used a this site = environment.site_used b this site := by
  simp only [environment.site_used, environment.skip_site_congr h,
    environment.site_contained_congr h]

theorem environment.site_species_congr (sc : Nat → Nat) {a b : store}
    (h : a.same_surface b) (site : List Nat) :
    environment.site_species sc a site = environment.site_species sc b site := by
  simp only [environment.site_species, environment.site_multisite_congr h,
    environment.site_occupants_congr h]

theorem environment.site_yields_congr {a b : store} (h : a.same_surface b) (this : Nat)
    (site : List Nat) :
    environment.site_yields a this site = environment.site_yields b this site := by
  simp only [environment.site_yields, environment.site_used_congr h]

theorem environment.create_ensembles_loop_yields (sc : Nat → Nat) (this : Nat)
    (L : List (List Nat)) (st0 st st' : store) (hs : st0.same_surface st)
    (h : environment.create_ensembles_loop sc this L st = .ok st') :
    st' = environment.insert_all sc this (environment.site_species_get sc st0)
        (L.filter (environment.site_yields st0 this)) st ∧
    ∀ g ∈ L.filter (environment.site_yields st0 this),
      environment.site_species sc st0 g = .ok (environment.site_species_get sc st0 g) := by
  induction L generalizing st with
  | nil =>
    simp only [environment.create_ensembles_loop, Except.ok.injEq] at h
    simp [environment.insert_all, h]
  | cons it rest ih =>
    simp only [environment.create_ensembles_loop, environment.create_ensembles_site_start] at h
    by_cases hskip : environment.skip_site st this it = true
    · have hu : environment.site_yields st0 this it = false := by
        simp [environment.site_yields, environment.site_used, environment.skip_site_congr hs,
          hskip]
      simp only [hskip, if_true] at h
      simp only [List.filter_cons, hu, Bool.false_eq_true, if_false]
      exact ih st hs h
    · simp only [hskip, Bool.false_eq_true, if_false] at h
      by_cases hcont : environment.site_contained st it = true
      · by_cases hocc : (environment.site_occupants st it).isEmpty = true
        · have hnil : it = [] := by
            cases it with
            | nil => rfl
            | cons a as => simp [environment.site_occupants] at hocc
          have hu : environment.site_yields st0 this it = false := by
            simp [environment.site_yields, hnil]
          simp only [hcont, if_true, hocc, Bool.not_true, Bool.false_eq_true, if_false] at h
          simp only [List.filter_cons, hu, Bool.false_eq_true, if_false]
          exact ih st hs h
        · have hne : it.isEmpty = false := by
            cases it with
            | nil => simp [environment.site_occupants] at hocc
            | cons a as => rfl
          have hu : environment.site_yields st0 this it = true := by
            simp [environment.site_yields, environment.site_used,
              environment.skip_site_congr hs, hskip, environment.site_contained_congr hs,
              hcont, hne]
          simp only [hcont, if_true, Bool.eq_false_iff.mpr hocc, Bool.not_false] at h
          simp only [List.filter_cons, hu, if_true, List.mem_cons, forall_eq_or_imp,
            environment.insert_all]
          by_cases hm : environment.site_multisite st it = true
          · simp only [hm, if_true] at h
            cases hic : environment.insert_counted sc
                (species_count (environment.site_occupants st it)) with
            | error e => rw [hic] at h; cases h
            | ok ms_seq =>
              rw [hic] at h
              simp only at h
              have hsp : environment.site_species sc st0 it = .ok ms_seq := by
                rw [environment.site_species_congr sc hs]
                simp [environment.site_species, hm, hic]
              have hget : environment.site_species_get sc st0 it = ms_seq := by
                simp [environment.site_species_get, hsp]
              obtain ⟨h1, h2⟩ := ih _ (store.same_surface_trans hs
                (environment.insert_ensemble_same_surface sc st this ms_seq it)) h
              exact ⟨by rw [hget]; exact h1, by rw [hget]; exact hsp, h2⟩
          · simp only [hm, Bool.false_eq_true, if_false] at h
            have hsp : environment.site_species sc st0 it
                = .ok (environment.site_occupants st it) := by
              rw [environment.site_species_congr sc hs]
              simp [environment.site_species, hm]
            have hget : environment.site_species_get sc st0 it
                = environment.site_occupants st it := by
              simp [environment.site_species_get, hsp]
            obtain ⟨h1, h2⟩ := ih _ (store.same_surface_trans hs
              (environment.insert_ensemble_same_surface sc st this _ it)) h
            exact ⟨by rw [hget]; exact h1, by rw [hget]; exact hsp, h2⟩
      · have hu : environment.site_yields st0 this it = false := by
          simp [environment.site_yields, environment.site_used,
            environment.site_contained_congr hs, hcont]
        simp only [hcont, Bool.false_eq_true, if_false, List.isEmpty_nil, Bool.not_true] at h
        simp only [List.filter_cons, hu, Bool.false_eq_true, if_false]
        exact ih st hs h

theorem environment.filter_site_yields (st : store) (this : Nat) (L : List (List Nat))
    (hne : ∀ g ∈ L, g ≠ []) :
    L.filter (environment.site_yields st this) = L.filter (environment.site_used st this) := by
  apply List.filter_congr
  intro g hg
  have : g.isEmpty = false := by
    cases g with
    | nil => exact absurd rfl (hne [] hg)
    | cons a as => rfl
  simp [environment.site_yields, this]

theorem environment.create_ensembles_loop_eq (sc : Nat → Nat) (this : Nat)
    (L : List (List Nat)) (st0 st st' : store) (hs : st0.same_surface st)
    (hne : ∀ g ∈ L, g ≠ [])
    (h : environment.create_ensembles_loop sc this L st = .ok st') :
    st' = environment.insert_all sc this (environment.site_species_get sc st0)
        (L.filter (environment.site_used st0 this)) st ∧
    ∀ g ∈ L.filter (environment.site_used st0 this),
      environment.site_species sc st0 g = .ok (environment.site_species_get sc st0 g) := by
  rw [← environment.filter_site_yields st0 this L hne]
  exact environment.create_ensembles_loop_yields sc this L st0 st st' hs h

theorem map_insert_ptr_append {ν : Type} (kv : Nat × ν) (m : List (Nat × ν))
    (h : ∀ e ∈ m, e.1 < kv.1) : map_insert ptr_lt kv m = m ++ [kv] := by
  induction m with
  | nil => rfl
  | cons e es ih =>
    have he : e.1 < kv.1 := h e (List.mem_cons_self _ _)
    have h1 : ptr_lt kv.1 e.1 = false := by simp [ptr_lt, Nat.le_of_lt he]
    have h2 : ptr_lt e.1 kv.1 = true := by simp [ptr_lt, he]
    simp only [map_insert, h1, h2, if_true, List.cons_append, Bool.false_eq_true, if_false]
    rw [ih (fun e' he' => h e' (List.mem_cons_of_mem _ he'))]

theorem environment.insert_all_next (sc : Nat → Nat) (this : Nat)
    (seq : List Nat → List Nat) (Q : List (List Nat)) (st : store) :
    (environment.insert_all sc this seq Q st).next = st.next + Q.length := by
  induction Q generalizing st with
  | nil => rfl
  | cons g rest ih =>
    simp only [environment.insert_all, ih, List.length_cons]
    simp only [environment.insert_ensemble]
    omega

theorem environment.insert_all_static (sc : Nat → Nat) (this : Nat)
    (seq : List Nat → List Nat) (Q : List (List Nat)) (st : store) :
    (environment.insert_all sc this seq Q st).env_type = st.env_type ∧
    (environment.insert_all sc this seq Q st).radial = st.radial ∧
    (environment.insert_all sc this seq Q st).max_sites = st.max_sites ∧
    (environment.insert_all sc this seq Q st).random = st.random ∧
    (environment.insert_all sc this seq Q st).empty_site = st.empty_site := by
  induction Q generalizing st with
  | nil => exact ⟨rfl, rfl, rfl, rfl, rfl⟩
  | cons g rest ih =>
    simp only [environment.insert_all]
    exact ih _

theorem environment.insert_all_env_other (sc : Nat → Nat) (this : Nat)
    (seq : List Nat → List Nat) (Q : List (List Nat)) (st : store) (e : Nat)
    (he : e ≠ this) : (environment.insert_all sc this seq Q st).env e = st.env e := by
  induction Q generalizing st with
  | nil => rfl
  | cons g rest ih =>
    simp only [environment.insert_all, ih]
    simp [environment.insert_ensemble, Function.update_noteq he]

theorem environment.insert_all_env_this (sc : Nat → Nat) (this : Nat)
    (seq : List Nat → List Nat) (Q : List (List Nat)) (st : store) :
    ((environment.insert_all sc this seq Q st).env this).center = (st.env this).center ∧
    ((environment.insert_all sc this seq Q st).env this).multisite = (st.env this).multisite ∧
    ((environment.insert_all sc this seq Q st).env this).neighbors = (st.env this).neighbors ∧
    ((environment.insert_all sc this seq Q st).env this).connected = (st.env this).connected ∧
    ((environment.insert_all sc this seq Q st).env this).sites = (st.env this).sites ∧
    ((environment.insert_all sc this seq Q st).env this).initialized
      = (st.env this).initialized := by
  induction Q generalizing st with
  | nil => exact ⟨rfl, rfl, rfl, rfl, rfl, rfl⟩
  | cons g rest ih =>
    simp only [environment.insert_all]
    obtain ⟨h1, h2, h3, h4, h5, h6⟩ := ih (environment.insert_ensemble sc st this (seq g) g)
    rw [h1, h2, h3, h4, h5, h6]
    simp [environment.insert_ensemble]

theorem environment.insert_all_ensembles (sc : Nat → Nat) (this : Nat)
    (seq : List Nat → List Nat) (Q : List (List Nat)) (st : store) :
    ((environment.insert_all sc this seq Q st).env this).ensembles
      = (st.env this).ensembles ++ List.range' st.next Q.length := by
  induction Q generalizing st with
  | nil => simp [environment.insert_all]
  | cons g rest ih =>
    simp only [environment.insert_all, ih, List.length_cons, List.range'_succ]
    simp [environment.insert_ensemble]

theorem environment.insert_all_ensemble_env (sc : Nat → Nat) (this : Nat)
    (seq : List Nat → List Nat) (Q : List (List Nat)) (st : store)
    (h : ∀ kv ∈ (st.env this).ensemble_env, kv.1 < st.next) :
    ((environment.insert_all sc this seq Q st).env this).ensemble_env
      = (st.env this).ensemble_env ++ List.zip (List.range' st.next Q.length) Q := by
  induction Q generalizing st with
  | nil => simp [environment.insert_all]
  | cons g rest ih =>
    simp only [environment.insert_all, List.length_cons, List.range'_succ, List.zip_cons_cons]
    rw [ih]
    · simp only [environment.insert_ensemble, Function.update_same]
      rw [map_insert_ptr_append _ _ h]
      simp
    · intro kv hkv
      simp only [environment.insert_ensemble, Function.update_same] at hkv ⊢
      rw [map_insert_ptr_append _ _ h] at hkv
      rcases List.mem_append.mp hkv with hin | hin
      · exact Nat.lt_succ_of_lt (h kv hin)
      · simp only [List.mem_singleton] at hin
        rw [hin]
        exact Nat.lt_succ_self _

theorem environment.insert_all_ens_old (sc : Nat → Nat) (this : Nat)
    (seq : List Nat → List Nat) (Q : List (List Nat)) (st : store) (a : Nat)
    (ha : a < st.next) : (environment.insert_all sc this seq Q st).ens a = st.ens a := by
  induction Q generalizing st with
  | nil => rfl
  | cons g rest ih =>
    simp only [environment.insert_all]
    rw [ih _ (by simp only [environment.insert_ensemble]; omega)]
    simp [environment.insert_ensemble, Function.update_noteq (Nat.ne_of_lt ha)]

theorem environment.insert_all_ens_new (sc : Nat → Nat) (this : Nat)
    (seq : List Nat → List Nat) (Q : List (List Nat)) (st : store) (i : Nat)
    (g : List Nat) (hg : Q[i]? = some g) :
    (environment.insert_all sc this seq Q st).ens (st.next + i)
      = some (ensemble.ctor sc (seq g)) := by
  induction Q generalizing st i with
  | nil => simp at hg
  | cons g0 rest ih =>
    simp only [environment.insert_all]
    cases i with
    | zero =>
      simp only [List.getElem?_cons_zero, Option.some.injEq] at hg
      subst hg
      rw [environment.insert_all_ens_old _ _ _ _ _ _ (by simp [environment.insert_ensemble])]
      simp [environment.insert_ensemble]
    | succ j =>
      simp only [List.getElem?_cons_succ] at hg
      have := ih (environment.insert_ensemble sc st this (seq g0) g0) j hg
      simp only [environment.insert_ensemble] at this ⊢
      rw [← this]
      congr 1
      omega

theorem species_count_get_of_lt (m : List (Nat × Nat)) (sp : Nat)
    (h : ∀ e ∈ m, sp < e.1) : species_count_get m sp = 0 := by
  induction m with
  | nil => rfl
  | cons e es ih =>
    have he : sp < e.1 := h e (List.mem_cons_self _ _)
    have hne : ¬ e.1 = sp := by omega
    simp only [species_count_get, hne, if_false]
    exact ih (fun e' he' => h e' (List.mem_cons_of_mem _ he'))

theorem species_count_increment_sorted (sp : Nat) (m : List (Nat × Nat))
    (hm : m.Pairwise (fun a b => a.1 < b.1)) :
    (species_count_increment sp m).Pairwise (fun a b => a.1 < b.1) ∧
    ∀ e ∈ species_count_increment sp m, e.1 = sp ∨ e ∈ m := by
  induction m with
  | nil => simp [species_count_increment]
  | cons e es ih =>
    rw [List.pairwise_cons] at hm
    simp only [species_count_increment]
    split_ifs with h1 h2
    · refine ⟨List.pairwise_cons.mpr ⟨?_, List.pairwise_cons.mpr hm⟩, ?_⟩
      · intro e' he'
        rcases List.mem_cons.mp he' with rfl | hin
        · exact h1
        · exact Nat.lt_trans h1 (hm.1 e' hin)
      · intro e' he'
        rcases List.mem_cons.mp he' with rfl | hin
        · exact Or.inl rfl
        · exact Or.inr hin
    · obtain ⟨ih1, ih2⟩ := ih hm.2
      refine ⟨List.pairwise_cons.mpr ⟨?_, ih1⟩, ?_⟩
      · intro e' he'
        rcases ih2 e' he' with heq | hin
        · rw [heq]; exact h2
        · exact hm.1 e' hin
      · intro e' he'
        rcases List.mem_cons.mp he' with rfl | hin
        · exact Or.inr (List.mem_cons_self _ _)
        · rcases ih2 e' hin with heq | hin'
          · exact Or.inl heq
          · exact Or.inr (List.mem_cons_of_mem _ hin')
    · have heq : e.1 = sp := by omega
      refine ⟨List.pairwise_cons.mpr ⟨hm.1, hm.2⟩, ?_⟩
      intro e' he'
      rcases List.mem_cons.mp he' with rfl | hin
      · exact Or.inl heq
      · exact Or.inr (List.mem_cons_of_mem _ hin)

theorem species_count_increment_get (sp : Nat) (m : List (Nat × Nat))
    (hm : m.Pairwise (fun a b => a.1 < b.1)) (s : Nat) :
    species_count_get (species_count_increment sp m) s
      = species_count_get m s + (if s = sp then 1 else 0) := by
  induction m with
  | nil =>
    by_cases h : sp = s
    · simp [species_count_increment, species_count_get, h]
    · have h' : ¬ s = sp := fun e => h e.symm
      simp [species_count_increment, species_count_get, h, h']
  | cons e es ih =>
    rw [List.pairwise_cons] at hm
    simp only [species_count_increment]
    split_ifs with h1 h2 h3 h4 h5
    · -- sp < e.1, s = sp
      subst h2
      have h0 := species_count_get_of_lt (e :: es) s (by
        intro e' he'
        rcases List.mem_cons.mp he' with rfl | hin
        · exact h1
        · exact Nat.lt_trans h1 (hm.1 e' hin))
      simp [species_count_get] at h0 ⊢
      omega
    · have h' : ¬ sp = s := fun e => h2 e.symm
      simp [species_count_get, h']
    · -- e.1 < sp, s = sp
      subst h4
      have : ¬ e.1 = s := by omega
      simp only [species_count_get, this, if_false, ih hm.2, if_true]
    · by_cases hes : e.1 = s
      · simp [species_count_get, hes]
      · simp only [species_count_get, hes, if_false, ih hm.2, h4, if_false]
    · -- e.1 = sp, s = sp
      subst h5
      have : e.1 = s := by omega
      simp [species_count_get, this]
    · have heq : e.1 = sp := by omega
      have : ¬ e.1 = s := by rw [heq]; exact fun e => h5 e.symm
      simp [species_count_get, this]

theorem species_count_foldl (seq : List Nat) (m : List (Nat × Nat))
    (hm : m.Pairwise (fun a b => a.1 < b.1)) :
    (seq.foldl (fun m sp => species_count_increment sp m) m).Pairwise (fun a b => a.1 < b.1) ∧
    ∀ s, species_count_get (seq.foldl (fun m sp => species_count_increment sp m) m) s
      = species_count_get m s + seq.count s := by
  induction seq generalizing m with
  | nil => simp [hm]
  | cons x xs ih =>
    simp only [List.foldl_cons]
    obtain ⟨h1, h2⟩ := ih _ (species_count_increment_sorted x m hm).1
    refine ⟨h1, fun s => ?_⟩
    rw [h2, species_count_increment_get x m hm, List.count_cons]
    by_cases hxs : s = x
    · subst hxs; simp; omega
    · have : ¬ x = s := fun e => hxs e.symm
      simp [hxs, this]

theorem species_count_spec (seq : List Nat) :
    (species_count seq).Pairwise (fun a b => a.1 < b.1) ∧
    ∀ s, species_count_get (species_count seq) s = seq.count s := by
  obtain ⟨h1, h2⟩ := species_count_foldl seq [] List.Pairwise.nil
  exact ⟨h1, fun s => by rw [species_count, h2]; simp [species_count_get]⟩

theorem environment.insert_counted_count (sc : Nat → Nat)
    (m : List (Nat × Nat)) (out : List Nat)
    (hm : m.Pairwise (fun a b => a.1 < b.1))
    (h : environment.insert_counted sc m = .ok out) (s : Nat) :
    out.count s = species_count_get m s / sc s := by
  induction m generalizing out with
  | nil =>
    simp only [environment.insert_counted, Except.ok.injEq] at h
    subst h
    simp [species_count_get]
  | cons e es ih =>
    rw [List.pairwise_cons] at hm
    simp only [environment.insert_counted] at h
    split_ifs at h with h0
    cases hrec : environment.insert_counted sc es with
    | error err => rw [hrec] at h; cases h
    | ok tail =>
      rw [hrec] at h
      simp only [Except.ok.injEq] at h
      subst h
      rw [List.count_append, ih tail hm.2 hrec, List.count_replicate]
      by_cases hes : e.1 = s
      · subst hes
        rw [species_count_get_of_lt es e.1 hm.1]
        simp [species_count_get]
      · simp [species_count_get, hes]

theorem ensemble.ctor_count (sc : Nat → Nat) (l : List Nat)
    (s : Nat) :
    (ensemble.ctor sc l).sorted_species.count s = if sc s > 0 then l.count s else 0 := by
  rw [ensemble.sorted_species_eq, (List.perm_insertionSort _ _).count_eq]
  by_cases h : sc s > 0
  · rw [List.count_filter (by simpa using h)]
    simp [h]
  · simp only [h, if_false]
    apply List.count_eq_zero_of_not_mem
    simp [List.mem_filter, h]

theorem store.cleared_same_surface (st : store) (this : Nat) :
    st.same_surface (st.cleared this) := by
  refine ⟨rfl, rfl, rfl, rfl, fun e => ?_⟩
  by_cases h : e = this
  · subst h; simp [store.cleared]
  · simp [store.cleared, Function.update_noteq h]

/-- The store that `environment::create_ensembles` returns: the containers of
the environment are cleared and one ensemble is inserted for every site-group
that is used. -/
theorem environment.create_ensembles_eq (sc : Nat → Nat) (st st' : store) (this : Nat)
    (hne : ∀ g ∈ (st.env this).sites, g ≠ [])
    (h : environment.create_ensembles sc st this = .ok st') :
    st' = environment.insert_all sc this (environment.site_species_get sc st)
        ((st.env this).sites.filter (environment.site_used st this)) (st.cleared this) ∧
    ∀ g ∈ (st.env this).sites.filter (environment.site_used st this),
      environment.site_species sc st g = .ok (environment.site_species_get sc st g) :=
  environment.create_ensembles_loop_eq sc this (st.env this).sites st (st.cleared this) st'
    (st.cleared_same_surface this) hne h

theorem environment.create_ensembles_ensembles (sc : Nat → Nat) (st st' : store) (this : Nat)
    (hne : ∀ g ∈ (st.env this).sites, g ≠ [])
    (h : environment.create_ensembles sc st this = .ok st') :
    (st'.env this).ensembles = List.range' st.next
      ((st.env this).sites.filter (environment.site_used st this)).length ∧
    (st'.env this).ensemble_env = List.zip (List.range' st.next
      ((st.env this).sites.filter (environment.site_used st this)).length)
      ((st.env this).sites.filter (environment.site_used st this)) := by
  obtain ⟨heq, _⟩ := environment.create_ensembles_eq sc st st' this hne h
  subst heq
  constructor
  · rw [environment.insert_all_ensembles]
    simp [store.cleared]
  · rw [environment.insert_all_ensemble_env]
    · simp [store.cleared]
    · intro kv hkv
      simp [store.cleared] at hkv

theorem mem_zip_range' {α : Type} (s : Nat) (Q : List α) (p : Nat) (g : α)
    (h : (p, g) ∈ List.zip (List.range' s Q.length) Q) :
    ∃ i, p = s + i ∧ Q[i]? = some g := by
  obtain ⟨i, hi, hgi⟩ := List.getElem_of_mem h
  have hi' : i < Q.length := by simpa using hi
  rw [List.getElem_zip] at hgi
  simp only [List.getElem_range', Nat.one_mul, Prod.mk.injEq] at hgi
  exact ⟨i, hgi.1.symm, by rw [List.getElem?_eq_getElem hi', hgi.2]⟩

theorem count_map_eq_length_filter (f : Nat → Nat) (g : List Nat) (s : Nat) :
    (g.map f).count s = (g.filter (fun m => f m = s)).length := by
  induction g with
  | nil => rfl
  | cons a as ih =>
    by_cases h : f a = s
    · simp [List.count_cons, List.filter_cons, h, ih]
    · simp [List.count_cons, List.filter_cons, h, ih]

/-- The object behind every instance that `environment::create_ensembles`
registers for a site-group. -/
theorem environment.create_ensembles_object (sc : Nat → Nat) (st st' : store) (this : Nat)
    (hne : ∀ g ∈ (st.env this).sites, g ≠ [])
    (h : environment.create_ensembles sc st this = .ok st') (p : Nat) (g : List Nat)
    (hpg : (p, g) ∈ (st'.env this).ensemble_env) :
    ∃ seq, environment.site_species sc st g = .ok seq ∧
      st'.ens p = some (ensemble.ctor sc seq) := by
  obtain ⟨heq, hsp⟩ := environment.create_ensembles_eq sc st st' this hne h
  rw [(environment.create_ensembles_ensembles sc st st' this hne h).2] at hpg
  obtain ⟨i, hp, hgi⟩ := mem_zip_range' _ _ p g hpg
  refine ⟨environment.site_species_get sc st g, hsp g (List.getElem?_mem hgi), ?_⟩
  rw [heq, hp]
  exact environment.insert_all_ens_new sc this _ _ (st.cleared this) i g hgi

/-! ## Lemmas on `environment::change_ensemble` -/

theorem set_insert_ptr_mem (x z : Nat) (l : List Nat) :
    z ∈ set_insert ptr_lt x l ↔ z = x ∨ z ∈ l := by
  induction l with
  | nil => simp [set_insert]
  | cons y ys ih =>
    simp only [set_insert]
    split_ifs with h1 h2
    · simp
    · simp only [List.mem_cons, ih]
      tauto
    · have hxy : x = y := by
        simp only [ptr_lt, decide_eq_true_eq] at h1 h2
        omega
      subst hxy
      simp

theorem set_insert_ptr_sorted (x : Nat) (l : List Nat) (hl : l.Pairwise (· < ·)) :
    (set_insert ptr_lt x l).Pairwise (· < ·) := by
  induction l with
  | nil => simp [set_insert]
  | cons y ys ih =>
    rw [List.pairwise_cons] at hl
    simp only [set_insert]
    split_ifs with h1 h2
    · simp only [ptr_lt, decide_eq_true_eq] at h1
      refine List.pairwise_cons.mpr ⟨?_, List.pairwise_cons.mpr hl⟩
      intro z hz
      rcases List.mem_cons.mp hz with rfl | hin
      · exact h1
      · exact Nat.lt_trans h1 (hl.1 z hin)
    · simp only [ptr_lt, decide_eq_true_eq] at h2
      refine List.pairwise_cons.mpr ⟨?_, ih hl.2⟩
      intro z hz
      rcases (set_insert_ptr_mem x z ys).mp hz with rfl | hin
      · exact h2
      · exact hl.1 z hin
    · exact List.pairwise_cons.mpr hl

theorem set_insert_range_ptr_mem (s xs : List Nat) (z : Nat) :
    z ∈ set_insert_range ptr_lt s xs ↔ z ∈ s ∨ z ∈ xs := by
  induction xs generalizing s with
  | nil => simp [set_insert_range]
  | cons x rest ih =>
    simp only [set_insert_range, List.foldl_cons] at ih ⊢
    rw [ih, set_insert_ptr_mem]
    simp only [List.mem_cons]
    tauto

theorem set_insert_range_ptr_sorted (s xs : List Nat) (hs : s.Pairwise (· < ·)) :
    (set_insert_range ptr_lt s xs).Pairwise (· < ·) := by
  induction xs generalizing s with
  | nil => simpa [set_insert_range] using hs
  | cons x rest ih =>
    simp only [set_insert_range, List.foldl_cons] at ih ⊢
    exact ih _ (set_insert_ptr_sorted x s hs)

theorem pairwise_lt_nodup (l : List Nat) (h : l.Pairwise (· < ·)) : l.Nodup :=
  h.imp (fun hab => Nat.ne_of_lt hab)


theorem environment.collect_changed_foldl_mem (st : store) (old_envs : List Nat) (c : List Nat)
    (x : Nat) :
    x ∈ old_envs.foldl (fun c it => set_insert_range ptr_lt c (st.env it).connected) c ↔
      x ∈ c ∨ ∃ m ∈ old_envs, x ∈ (st.env m).connected := by
  induction old_envs generalizing c with
  | nil => simp
  | cons m rest ih =>
    simp only [List.foldl_cons]
    rw [ih, set_insert_range_ptr_mem]
    simp only [List.mem_cons, exists_eq_or_imp]
    tauto

theorem environment.collect_changed_foldl_sorted (st : store) (old_envs : List Nat)
    (c : List Nat) (hc : c.Pairwise (· < ·)) :
    (old_envs.foldl (fun c it => set_insert_range ptr_lt c (st.env it).connected) c).Pairwise
      (· < ·) := by
  induction old_envs generalizing c with
  | nil => simpa using hc
  | cons m rest ih =>
    simp only [List.foldl_cons]
    exact ih _ (set_insert_range_ptr_sorted _ _ hc)

theorem environment.collect_changed_mem (st : store) (this : Nat) (old_envs changed : List Nat)
    (x : Nat) :
    x ∈ environment.collect_changed st this old_envs changed ↔
      x ∈ changed ∨ x = this ∨ x ∈ (st.env this).connected ∨
        ∃ m ∈ old_envs, x ∈ (st.env m).connected := by
  unfold environment.collect_changed
  rw [environment.collect_changed_foldl_mem, set_insert_range_ptr_mem, set_insert_ptr_mem]
  tauto

theorem environment.collect_changed_sorted (st : store) (this : Nat)
    (old_envs changed : List Nat) (hc : changed.Pairwise (· < ·)) :
    (environment.collect_changed st this old_envs changed).Pairwise (· < ·) := by
  unfold environment.collect_changed
  exact environment.collect_changed_foldl_sorted st _ _
    (set_insert_range_ptr_sorted _ _ (set_insert_ptr_sorted _ _ hc))

theorem environment.collect_remove_eq (st : store) (changed remove : List Nat) :
    environment.collect_remove st changed remove
      = remove ++ changed.flatMap (fun e => (st.env e).ensembles) := by
  unfold environment.collect_remove
  induction changed generalizing remove with
  | nil => simp
  | cons e rest ih =>
    simp only [List.foldl_cons, ih, List.flatMap_cons, List.append_assoc]

theorem map_find_ptr_key {ν : Type} (m : List (Nat × ν)) (k : Nat) (e : Nat × ν)
    (h : map_find ptr_lt m k = some e) : e.1 = k ∧ e ∈ m := by
  rw [map_find_ptr_eq] at h
  have h1 := List.find?_some h
  exact ⟨by simpa using h1, List.mem_of_find?_eq_some h⟩

/-- What a successful `environment::change_ensemble` has gone through. -/
theorem environment.change_ensemble_ok (sc : Nat → Nat) (st st' : store) (this reactants : Nat)
    (products remove0 changed0 remove changed : List Nat)
    (h : environment.change_ensemble sc st this reactants products remove0 changed0
      = .ok (st', remove, changed)) :
    (st.env this).initialized = true ∧
    ∃ members obj g placed,
      map_find ptr_lt (st.env this).ensemble_env reactants = some (reactants, members) ∧
      st.ens reactants = some obj ∧
      obj.get_coordination = (ensemble.ctor sc products).get_coordination ∧
      st.random = some g ∧
      environment.place_species sc
        (random_shuffle (ensemble.ctor sc products).sorted_species g).1
        (st.with_random (random_shuffle (ensemble.ctor sc products).sorted_species g).2)
        members = .ok placed ∧
      environment.recreate_ensembles sc changed placed.2 = .ok st' ∧
      changed = environment.collect_changed st this members changed0 ∧
      remove = environment.collect_remove st changed remove0 := by
  unfold environment.change_ensemble at h
  split_ifs at h with hinit
  cases hfind : map_find ptr_lt (st.env this).ensemble_env reactants with
  | none => rw [hfind] at h; cases h
  | some old_ens_env =>
    rw [hfind] at h
    simp only at h
    cases hobj : st.ens reactants with
    | none => rw [hobj] at h; cases h
    | some obj =>
      rw [hobj] at h
      simp only at h
      split_ifs at h with hcoord
      cases hrand : st.random with
      | none => rw [hrand] at h; cases h
      | some g =>
        rw [hrand] at h
        simp only at h
        cases hplace : environment.place_species sc
            (random_shuffle (ensemble.ctor sc products).sorted_species g).1
            (st.with_random (random_shuffle (ensemble.ctor sc products).sorted_species g).2)
            old_ens_env.2 with
        | error e => rw [hplace] at h; cases h
        | ok placed =>
          rw [hplace] at h
          simp only at h
          cases hrec : environment.recreate_ensembles sc
              (environment.collect_changed st this old_ens_env.2 changed0) placed.2 with
          | error e => rw [hrec] at h; cases h
          | ok st1 =>
            rw [hrec] at h
            simp only [Except.ok.injEq, Prod.mk.injEq] at h
            obtain ⟨h1, h2, h3⟩ := h
            have hkey := (map_find_ptr_key _ _ _ hfind).1
            refine ⟨by simpa using hinit, old_ens_env.2, obj, g, placed, ?_, rfl, ?_, rfl,
              hplace, ?_, h3.symm, ?_⟩
            · rw [← hkey]
            · simpa using hcoord
            · rw [← h3, ← h1]; exact hrec
            · rw [← h2, ← h3]

theorem environment.create_ensembles_yields (sc : Nat → Nat) (st st' : store) (this : Nat)
    (h : environment.create_ensembles sc st this = .ok st') :
    st' = environment.insert_all sc this (environment.site_species_get sc st)
        ((st.env this).sites.filter (environment.site_yields st this)) (st.cleared this) ∧
    ∀ g ∈ (st.env this).sites.filter (environment.site_yields st this),
      environment.site_species sc st g = .ok (environment.site_species_get sc st g) :=
  environment.create_ensembles_loop_yields sc this (st.env this).sites st (st.cleared this) st'
    (st.cleared_same_surface this) h

theorem environment.create_ensembles_recreated (sc : Nat → Nat) (st st' : store) (this : Nat)
    (h : environment.create_ensembles sc st this = .ok st') : st.recreated st' [this] := by
  obtain ⟨heq, _⟩ := environment.create_ensembles_yields sc st st' this h
  have hens : (st'.env this).ensembles = List.range' st.next
      ((st.env this).sites.filter (environment.site_yields st this)).length := by
    rw [heq, environment.insert_all_ensembles]
    simp [store.cleared]
  have hnext : st'.next = st.next
      + ((st.env this).sites.filter (environment.site_yields st this)).length := by
    rw [heq, environment.insert_all_next]
    rfl
  have hother : ∀ e, e ≠ this → st'.env e = st.env e := by
    intro e he
    rw [heq, environment.insert_all_env_other _ _ _ _ _ _ he]
    simp [store.cleared, Function.update_noteq he]
  have hthis := environment.insert_all_env_this sc this (environment.site_species_get sc st)
    ((st.env this).sites.filter (environment.site_yields st this)) (st.cleared this)
  rw [← heq] at hthis
  have hcl : ((st.cleared this).env this).center = (st.env this).center ∧
      ((st.cleared this).env this).multisite = (st.env this).multisite ∧
      ((st.cleared this).env this).neighbors = (st.env this).neighbors ∧
      ((st.cleared this).env this).connected = (st.env this).connected ∧
      ((st.cleared this).env this).sites = (st.env this).sites ∧
      ((st.cleared this).env this).initialized = (st.env this).initialized := by
    simp [store.cleared]
  have hstat := environment.insert_all_static sc this (environment.site_species_get sc st)
    ((st.env this).sites.filter (environment.site_yields st this)) (st.cleared this)
  rw [← heq] at hstat
  refine ⟨by omega, ?_, ?_, ?_, ?_, ?_, ?_, ?_⟩
  · intro a ha
    rw [heq, environment.insert_all_ens_old _ _ _ _ _ _ (by simpa [store.cleared] using ha)]
    rfl
  · intro e he
    exact hother e (by simpa using he)
  · refine ⟨hstat.1.symm, hstat.2.1.symm, hstat.2.2.1.symm, hstat.2.2.2.2.symm, fun e => ?_⟩
    by_cases he : e = this
    · subst he
      exact ⟨by rw [hthis.1, hcl.1], by rw [hthis.2.1, hcl.2.1]⟩
    · rw [hother e he]; exact ⟨rfl, rfl⟩
  · exact hstat.2.2.2.1
  · intro e
    by_cases he : e = this
    · subst he
      exact ⟨by rw [hthis.2.2.1, hcl.2.2.1], by rw [hthis.2.2.2.1, hcl.2.2.2.1],
        by rw [hthis.2.2.2.2.1, hcl.2.2.2.2.1], by rw [hthis.2.2.2.2.2, hcl.2.2.2.2.2]⟩
    · rw [hother e he]; exact ⟨rfl, rfl, rfl, rfl⟩
  · intro e he
    simp only [List.mem_singleton] at he
    subst he
    rw [hens]
    refine ⟨List.nodup_range' _ _, fun p hp => ?_⟩
    simp only [List.mem_range'_1] at hp
    refine ⟨hp.1, by omega, ?_⟩
    obtain ⟨i, hi⟩ : ∃ i, p = st.next + i := ⟨p - st.next, by omega⟩
    have hilt : i < ((st.env e).sites.filter (environment.site_yields st e)).length := by omega
    have hnx : (st.cleared e).next = st.next := rfl
    rw [heq, hi, ← hnx]
    exact ⟨_, environment.insert_all_ens_new sc e _ _ (st.cleared e) i _
      (List.getElem?_eq_getElem hilt)⟩
  · intro e1 he1 e2 he2 p _ _
    simp only [List.mem_singleton] at he1 he2
    rw [he1, he2]

theorem store.recreated_nil (st : store) : st.recreated st [] :=
  ⟨Nat.le_refl _, fun _ _ => rfl, fun _ _ => rfl, st.same_surface_refl, rfl,
    fun _ => ⟨rfl, rfl, rfl, rfl⟩, fun _ he => by simp at he, fun _ he => by simp at he⟩

theorem store.recreated_cons (st st1 st' : store) (it : Nat) (rest : List Nat)
    (hit : it ∉ rest) (h1 : st.recreated st1 [it]) (h2 : st1.recreated st' rest) :
    st.recreated st' (it :: rest) := by
  obtain ⟨a1, a2, a3, a4, a5, a6, a7, a8⟩ := h1
  obtain ⟨b1, b2, b3, b4, b5, b6, b7, b8⟩ := h2
  have hit_env : st'.env it = st1.env it := b3 it hit
  have hA : ∀ p ∈ (st'.env it).ensembles,
      st.next ≤ p ∧ p < st1.next ∧ ∃ obj, st'.ens p = some obj := by
    intro p hp
    rw [hit_env] at hp
    obtain ⟨c1, c2, obj, c3⟩ := (a7 it (List.mem_singleton_self _)).2 p hp
    exact ⟨c1, c2, obj, by rw [b2 p c2]; exact c3⟩
  refine ⟨Nat.le_trans a1 b1, ?_, ?_, store.same_surface_trans a4 b4, by rw [b5, a5], ?_, ?_, ?_⟩
  · intro a ha
    rw [b2 a (Nat.lt_of_lt_of_le ha a1), a2 a ha]
  · intro e he
    simp only [List.mem_cons, not_or] at he
    rw [b3 e he.2, a3 e (by simpa using he.1)]
  · intro e
    obtain ⟨x1, x2, x3, x4⟩ := a6 e
    obtain ⟨y1, y2, y3, y4⟩ := b6 e
    exact ⟨y1.trans x1, y2.trans x2, y3.trans x3, y4.trans x4⟩
  · intro e he
    rcases List.mem_cons.mp he with rfl | hin
    · refine ⟨by rw [hit_env]; exact (a7 e (List.mem_singleton_self _)).1, fun p hp => ?_⟩
      obtain ⟨c1, c2, c3⟩ := hA p hp
      exact ⟨c1, Nat.lt_of_lt_of_le c2 b1, c3⟩
    · refine ⟨(b7 e hin).1, fun p hp => ?_⟩
      obtain ⟨c1, c2, c3⟩ := (b7 e hin).2 p hp
      exact ⟨Nat.le_trans a1 c1, c2, c3⟩
  · intro e1 he1 e2 he2 p hp1 hp2
    rcases List.mem_cons.mp he1 with rfl | hin1 <;> rcases List.mem_cons.mp he2 with rfl | hin2
    · rfl
    · exfalso
      have := (hA p hp1).2.1
      have := ((b7 e2 hin2).2 p hp2).1
      omega
    · exfalso
      have := (hA p hp2).2.1
      have := ((b7 e1 hin1).2 p hp1).1
      omega
    · exact b8 e1 hin1 e2 hin2 p hp1 hp2

theorem environment.recreate_ensembles_recreated (sc : Nat → Nat) (changed : List Nat)
    (st st' : store) (hnd : changed.Nodup)
    (h : environment.recreate_ensembles sc changed st = .ok st') : st.recreated st' changed := by
  induction changed generalizing st with
  | nil =>
    simp only [environment.recreate_ensembles, Except.ok.injEq] at h
    subst h
    exact st.recreated_nil
  | cons it rest ih =>
    rw [List.nodup_cons] at hnd
    simp only [environment.recreate_ensembles] at h
    cases hc : environment.create_ensembles sc st it with
    | error e => rw [hc] at h; cases h
    | ok st1 =>
      rw [hc] at h
      exact store.recreated_cons st st1 st' it rest hnd.1
        (environment.create_ensembles_recreated sc st st1 it hc) (ih st1 hnd.2 h)

theorem store.recreated_unique_of_empty (st st' : store) (changed : List Nat)
    (hempty : ∀ e, (st.env e).ensembles = []) (h : st.recreated st' changed) :
    st'.ensembles_unique := by
  obtain ⟨_, _, a3, _, _, _, a7, a8⟩ := h
  have hnot : ∀ e, e ∉ changed → (st'.env e).ensembles = [] := by
    intro e he; rw [a3 e he]; exact hempty e
  constructor
  · intro e
    by_cases he : e ∈ changed
    · exact (a7 e he).1
    · rw [hnot e he]; exact List.nodup_nil
  · intro e1 e2 p hp1 hp2
    by_cases he1 : e1 ∈ changed
    · by_cases he2 : e2 ∈ changed
      · exact a8 e1 he1 e2 he2 p hp1 hp2
      · rw [hnot e2 he2] at hp2; simp at hp2
    · rw [hnot e1 he1] at hp1; simp at hp1

theorem example_store_init_eq :
    environment.recreate_ensembles example_sc [0, 1, 2, 3] example_store = .ok example_store_init :=
  rfl

theorem example_store_init_unique : example_store_init.ensembles_unique :=
  store.recreated_unique_of_empty example_store example_store_init [0, 1, 2, 3]
    (fun e => by simp [example_store, example_env])
    (environment.recreate_ensembles_recreated example_sc [0, 1, 2, 3] example_store
      example_store_init (by decide) example_store_init_eq)

theorem example_change_eq :
    environment.change_ensemble example_sc example_store_init 1 102 [2] [] []
      = .ok (example_change_store, example_change_remove, example_change_changed) := rfl

/-! ## Lemmas on `environment::get_sites` and `environment::place_species` -/

theorem set_insert_lex_mem (x z : List Nat) (l : List (List Nat)) :
    z ∈ set_insert lexicographical_compare x l ↔ z = x ∨ z ∈ l := by
  induction l with
  | nil => simp [set_insert]
  | cons y ys ih =>
    simp only [set_insert]
    split_ifs with h1 h2
    · simp
    · simp only [List.mem_cons, ih]
      tauto
    · have hxy : x = y := lexicographical_compare_eq_of_not_lt x y
        (by simpa using h1) (by simpa using h2)
      subst hxy
      simp

theorem environment.is_neighbor_iff (e : environment) (x : Nat) :
    e.is_neighbor x = true ↔ x ∈ e.neighbors := by
  simp [environment.is_neighbor]

theorem environment.get_sites_try_mem (env : Nat → environment) (eit : Nat)
    (s : List (List Nat)) (sit z : List Nat) :
    z ∈ environment.get_sites_try env eit s sit ↔
      z ∈ s ∨ (eit ∉ sit ∧ (∃ git ∈ sit, eit ∈ (env git).neighbors) ∧
        z = set_insert ptr_lt eit sit) := by
  unfold environment.get_sites_try
  rw [set_contains_ptr]
  by_cases hin : eit ∈ sit
  · simp [hin]
  · by_cases hnb : ∃ git ∈ sit, eit ∈ (env git).neighbors
    · have hany : sit.any (fun git => (env git).is_neighbor eit) = true := by
        simpa [environment.is_neighbor_iff] using hnb
      simp only [hin, decide_False, Bool.not_false, if_true, hany, set_insert_lex_mem]
      constructor
      · rintro (h | h)
        · exact Or.inr ⟨not_false, hnb, h⟩
        · exact Or.inl h
      · rintro (h | ⟨_, _, h⟩)
        · exact Or.inr h
        · exact Or.inl h
    · have hany : (sit.any (fun git => (env git).is_neighbor eit)) = false := by
        rw [Bool.eq_false_iff]
        simpa [environment.is_neighbor_iff] using hnb
      simp only [hin, decide_False, Bool.not_false, if_true, hany, Bool.false_eq_true, if_false]
      constructor
      · intro h; exact Or.inl h
      · rintro (h | ⟨_, h, _⟩)
        · exact h
        · exact absurd h hnb

theorem environment.get_sites_inner_mem (env : Nat → environment) (eit : Nat)
    (small s : List (List Nat)) (z : List Nat) :
    z ∈ small.foldl (environment.get_sites_try env eit) s ↔
      z ∈ s ∨ ∃ sit ∈ small, eit ∉ sit ∧ (∃ git ∈ sit, eit ∈ (env git).neighbors) ∧
        z = set_insert ptr_lt eit sit := by
  induction small generalizing s with
  | nil => simp
  | cons sit rest ih =>
    rw [List.foldl_cons, ih, environment.get_sites_try_mem]
    constructor
    · rintro ((h | h) | ⟨sit', hs', h⟩)
      · exact Or.inl h
      · exact Or.inr ⟨sit, List.mem_cons_self _ _, h⟩
      · exact Or.inr ⟨sit', List.mem_cons_of_mem _ hs', h⟩
    · rintro (h | ⟨sit', hs', h⟩)
      · exact Or.inl (Or.inl h)
      · rcases List.mem_cons.mp hs' with rfl | hin
        · exact Or.inl (Or.inr h)
        · exact Or.inr ⟨sit', hin, h⟩

theorem environment.get_sites_outer_mem (env : Nat → environment) (envs : List Nat)
    (small s : List (List Nat)) (z : List Nat) :
    z ∈ envs.foldl (fun s eit => small.foldl (environment.get_sites_try env eit) s) s ↔
      z ∈ s ∨ ∃ eit ∈ envs, ∃ sit ∈ small, eit ∉ sit ∧
        (∃ git ∈ sit, eit ∈ (env git).neighbors) ∧ z = set_insert ptr_lt eit sit := by
  induction envs generalizing s with
  | nil => simp
  | cons eit rest ih =>
    rw [List.foldl_cons, ih, environment.get_sites_inner_mem]
    constructor
    · rintro ((h | h) | ⟨e', he', h⟩)
      · exact Or.inl h
      · exact Or.inr ⟨eit, List.mem_cons_self _ _, h⟩
      · exact Or.inr ⟨e', List.mem_cons_of_mem _ he', h⟩
    · rintro (h | ⟨e', he', h⟩)
      · exact Or.inl (Or.inl h)
      · rcases List.mem_cons.mp he' with rfl | hin
        · exact Or.inl (Or.inr h)
        · exact Or.inr ⟨e', hin, h⟩

theorem environment.get_sites_single_mem (envs : List Nat) (s : List (List Nat)) (z : List Nat) :
    z ∈ envs.foldl (fun s it => set_insert lexicographical_compare [it] s) s ↔
      z ∈ s ∨ ∃ e ∈ envs, z = [e] := by
  induction envs generalizing s with
  | nil => simp
  | cons e rest ih =>
    rw [List.foldl_cons, ih, set_insert_lex_mem]
    constructor
    · rintro ((h | h) | ⟨e', he', h⟩)
      · exact Or.inr ⟨e, List.mem_cons_self _ _, h⟩
      · exact Or.inl h
      · exact Or.inr ⟨e', List.mem_cons_of_mem _ he', h⟩
    · rintro (h | ⟨e', he', h⟩)
      · exact Or.inl (Or.inr h)
      · rcases List.mem_cons.mp he' with rfl | hin
        · exact Or.inl (Or.inl h)
        · exact Or.inr ⟨e', hin, h⟩

theorem environment.grown_pos (env : Nat → environment) (envs : List Nat) (k : Nat)
    (g : List Nat) (h : environment.grown env envs k g) : 1 ≤ k := by
  cases h with
  | single _ => exact Nat.le_refl _
  | add _ _ _ _ => omega

/-- The method `environment::get_sites` returns for every `coord ≥ 1`, and the
sites it inserts are the sites that can be grown from a single environment. -/
theorem environment.get_sites_spec (env : Nat → environment) (coord : Nat) (envs : List Nat)
    (sites : List (List Nat)) :
    ∃ S, environment.get_sites env (coord + 1) envs sites = .ok S ∧
      ∀ z, z ∈ S ↔ z ∈ sites ∨ environment.grown env envs (coord + 1) z := by
  induction coord generalizing sites with
  | zero =>
    refine ⟨_, rfl, fun z => ?_⟩
    rw [environment.get_sites_single_mem]
    constructor
    · rintro (h | ⟨e, he, rfl⟩)
      · exact Or.inl h
      · exact Or.inr (environment.grown.single he)
    · rintro (h | h)
      · exact Or.inl h
      · cases h with
        | single he => exact Or.inr ⟨_, he, rfl⟩
        | add hg _ _ _ => exact absurd (environment.grown_pos _ _ _ _ hg) (by omega)
  | succ n ih =>
    obtain ⟨small, hsmall, hmem⟩ := ih []
    refine ⟨envs.foldl (fun s eit => small.foldl (environment.get_sites_try env eit) s) sites,
      by simp only [environment.get_sites, hsmall], fun z => ?_⟩
    rw [environment.get_sites_outer_mem]
    constructor
    · rintro (h | ⟨eit, he, sit, hsit, hnin, hnb, rfl⟩)
      · exact Or.inl h
      · have hg : environment.grown env envs (n + 1) sit := by
          rcases (hmem sit).mp hsit with h0 | h0
          · simp at h0
          · exact h0
        exact Or.inr (environment.grown.add hg he hnin hnb)
    · rintro (h | h)
      · exact Or.inl h
      · cases h with
        | add hg he hnin hnb =>
          exact Or.inr ⟨_, he, _, (hmem _).mpr (Or.inr hg), hnin, hnb, rfl⟩
theorem set_insert_ptr_length (x : Nat) (l : List Nat) (h : x ∉ l) :
    (set_insert ptr_lt x l).length = l.length + 1 := by
  induction l with
  | nil => rfl
  | cons y ys ih =>
    simp only [List.mem_cons, not_or] at h
    simp only [set_insert]
    split_ifs with h1 h2
    · rfl
    · simp [ih h.2]
    · exfalso
      simp only [ptr_lt, decide_eq_true_eq] at h1 h2
      exact h.1 (by omega)

theorem environment.grown_props (env : Nat → environment) (envs : List Nat) (k : Nat)
    (g : List Nat) (h : environment.grown env envs k g) :
    g.Pairwise (· < ·) ∧ g.length = k ∧ ∀ m ∈ g, m ∈ envs := by
  induction h with
  | single he => exact ⟨by simp, rfl, by simpa using he⟩
  | add _ he hnin _ ih =>
    obtain ⟨h1, h2, h3⟩ := ih
    refine ⟨set_insert_ptr_sorted _ _ h1, by rw [set_insert_ptr_length _ _ hnin, h2], ?_⟩
    intro m hm
    rcases (set_insert_ptr_mem _ _ _).mp hm with rfl | hin
    · exact he
    · exact h3 m hin

theorem environment.grown_connected (env : Nat → environment) (envs : List Nat)
    (hsym : ∀ a ∈ envs, ∀ b ∈ envs, b ∈ (env a).neighbors → a ∈ (env b).neighbors)
    (k : Nat) (g : List Nat) (h : environment.grown env envs k g) :
    environment.connected_group env g := by
  induction h with
  | single he =>
    refine ⟨by simp, fun a ha b hb => ?_⟩
    simp only [List.mem_singleton] at ha hb
    rw [ha, hb]
  | @add k sit eit hg he hnin hnb ih =>
    obtain ⟨git, hgit, hedge⟩ := hnb
    have hsub := (environment.grown_props env envs k sit hg).2.2
    have hmono : ∀ a b, Relation.ReflTransGen (fun x y => y ∈ sit ∧ y ∈ (env x).neighbors) a b →
        Relation.ReflTransGen
          (fun x y => y ∈ set_insert ptr_lt eit sit ∧ y ∈ (env x).neighbors) a b := by
      intro a b hab
      exact Relation.ReflTransGen.mono
        (fun x y hxy => ⟨(set_insert_ptr_mem _ _ _).mpr (Or.inr hxy.1), hxy.2⟩) hab
    have hto : Relation.ReflTransGen
        (fun x y => y ∈ set_insert ptr_lt eit sit ∧ y ∈ (env x).neighbors) git eit :=
      Relation.ReflTransGen.single ⟨(set_insert_ptr_mem _ _ _).mpr (Or.inl rfl), hedge⟩
    have hfrom : Relation.ReflTransGen
        (fun x y => y ∈ set_insert ptr_lt eit sit ∧ y ∈ (env x).neighbors) eit git :=
      Relation.ReflTransGen.single ⟨(set_insert_ptr_mem _ _ _).mpr (Or.inr hgit),
        hsym git (hsub git hgit) eit he hedge⟩
    refine ⟨?_, fun a ha b hb => ?_⟩
    · intro hnil
      have := (set_insert_ptr_mem eit eit sit).mpr (Or.inl rfl)
      rw [hnil] at this
      simp at this
    · rcases (set_insert_ptr_mem _ _ _).mp ha with rfl | ha' <;>
        rcases (set_insert_ptr_mem _ _ _).mp hb with rfl | hb'
      · exact Relation.ReflTransGen.refl
      · exact hfrom.trans (hmono _ _ (ih.2 git hgit b hb'))
      · exact (hmono _ _ (ih.2 a ha' git hgit)).trans hto
      · exact hmono _ _ (ih.2 a ha' b hb')

theorem environment.crossing_edge (env : Nat → environment) (g t : List Nat) (a b : Nat)
    (ha : a ∈ t) (hb : b ∉ t)
    (h : Relation.ReflTransGen (fun x y => y ∈ g ∧ y ∈ (env x).neighbors) a b) :
    ∃ x y, x ∈ t ∧ y ∉ t ∧ y ∈ g ∧ y ∈ (env x).neighbors := by
  induction h with
  | refl => exact absurd ha hb
  | @tail c d _ hcd ih =>
    by_cases hc : c ∈ t
    · exact ⟨c, d, hc, hb, hcd.1, hcd.2⟩
    · exact ih hc

theorem environment.grown_of_connected_aux (env : Nat → environment) (envs g : List Nat)
    (hnd : g.Nodup) (hsub : ∀ m ∈ g, m ∈ envs) (hconn : environment.connected_group env g)
    (k : Nat) (hk : k + 1 ≤ g.length) :
    ∃ t, environment.grown env envs (k + 1) t ∧ ∀ m ∈ t, m ∈ g := by
  induction k with
  | zero =>
    obtain ⟨a, ha⟩ := List.exists_mem_of_ne_nil g hconn.1
    exact ⟨[a], environment.grown.single (hsub a ha), by simpa using ha⟩
  | succ n ih =>
    obtain ⟨t, hgrown, hts⟩ := ih (by omega)
    obtain ⟨hsorted, hlen, _⟩ := environment.grown_props env envs _ t hgrown
    have hex : ∃ b ∈ g, b ∉ t := by
      by_contra hcon
      push_neg at hcon
      have := (List.subperm_of_subset hnd hcon).length_le
      omega
    obtain ⟨b, hbg, hbt⟩ := hex
    have htne : t ≠ [] := by
      intro h0; rw [h0] at hlen; simp at hlen
    obtain ⟨a, hat⟩ := List.exists_mem_of_ne_nil t htne
    obtain ⟨x, y, hx, hy, hyg, hxy⟩ := environment.crossing_edge env g t a b hat hbt
      (hconn.2 a (hts a hat) b hbg)
    refine ⟨set_insert ptr_lt y t, environment.grown.add hgrown (hsub y hyg) hy ⟨x, hx, hxy⟩, ?_⟩
    intro m hm
    rcases (set_insert_ptr_mem _ _ _).mp hm with rfl | hin
    · exact hyg
    · exact hts m hin

theorem environment.grown_of_connected (env : Nat → environment) (envs g : List Nat)
    (hsorted : g.Pairwise (· < ·)) (hsub : ∀ m ∈ g, m ∈ envs)
    (hconn : environment.connected_group env g) :
    environment.grown env envs g.length g := by
  have hpos : 1 ≤ g.length := by
    cases g with
    | nil => exact absurd rfl hconn.1
    | cons a as => simp
  obtain ⟨t, hgrown, hts⟩ := environment.grown_of_connected_aux env envs g
    (pairwise_lt_nodup g hsorted) hsub hconn (g.length - 1) (by omega)
  have hk : g.length - 1 + 1 = g.length := by omega
  rw [hk] at hgrown
  obtain ⟨htsorted, htlen, _⟩ := environment.grown_props env envs _ t hgrown
  have hperm : t.Perm g :=
    (List.subperm_of_subset (pairwise_lt_nodup t htsorted) hts).perm_of_length_le
      (by omega)
  have heq : t = g := List.eq_of_perm_of_sorted (r := (· < ·)) hperm htsorted hsorted
  rw [← heq]
  rw [← heq] at hgrown
  simpa [htlen] using hgrown
theorem store.frame_refl (st : store) : st.frame st :=
  ⟨rfl, rfl, rfl, rfl, rfl, rfl, fun h => h, fun _ => ⟨rfl, rfl, rfl, rfl, rfl, rfl, rfl, rfl⟩⟩

theorem store.frame_trans {a b c : store} (h1 : a.frame b) (h2 : b.frame c) : a.frame c := by
  obtain ⟨a1, a2, a3, a4, a5, a6, a7, a8⟩ := h1
  obtain ⟨b1, b2, b3, b4, b5, b6, b7, b8⟩ := h2
  refine ⟨b1.trans a1, b2.trans a2, b3.trans a3, b4.trans a4, b5.trans a5, b6.trans a6,
    fun h => b7 (a7 h), fun e => ?_⟩
  obtain ⟨x1, x2, x3, x4, x5, x6, x7, x8⟩ := a8 e
  obtain ⟨y1, y2, y3, y4, y5, y6, y7, y8⟩ := b8 e
  exact ⟨y1.trans x1, y2.trans x2, y3.trans x3, y4.trans x4, y5.trans x5, y6.trans x6,
    y7.trans x7, y8.trans x8⟩

theorem store.with_random_frame (st : store) (g : rng) : st.frame (st.with_random g) :=
  ⟨rfl, rfl, rfl, rfl, rfl, rfl, fun _ => rfl, fun _ => ⟨rfl, rfl, rfl, rfl, rfl, rfl, rfl, rfl⟩⟩

theorem environment.set_species_ok (st st' : store) (this s : Nat) (multi : List Nat)
    (h : environment.set_species st this s multi = .ok st') :
    st.frame st' ∧ st'.random = st.random ∧ (st.env this).initialized = true ∧
    (∀ e, e ≠ this → st'.env e = st.env e) ∧
    (st'.env this).center.type = s ∧ (st'.env this).multisite = multi := by
  unfold environment.set_species at h
  split_ifs at h with hinit
  simp only [Except.ok.injEq] at h
  subst h
  refine ⟨⟨rfl, rfl, rfl, rfl, rfl, rfl, fun h => h, fun e => ?_⟩, rfl, by simpa using hinit,
    fun e he => by simp [Function.update_noteq he], by simp, by simp⟩
  by_cases he : e = this
  · subst he; simp
  · simp [Function.update_noteq he]

theorem environment.set_species_total (st : store) (this s : Nat) (multi : List Nat)
    (h : (st.env this).initialized = true) :
    ∃ st', environment.set_species st this s multi = .ok st' := by
  simp [environment.set_species, h]

theorem environment.place_on_site_ok (s : Nat) (site rest : List Nat) (st st' : store)
    (hnd : rest.Nodup) (h : environment.place_on_site s site rest st = .ok st') :
    st.frame st' ∧ st'.random = st.random ∧
    (∀ e, e ∉ rest → st'.env e = st.env e) ∧
    ∀ e ∈ rest, (st'.env e).center.type = s ∧
      (st'.env e).multisite = site.filter (fun it => it != e) := by
  induction rest generalizing st with
  | nil =>
    simp only [environment.place_on_site, Except.ok.injEq] at h
    subst h
    exact ⟨st.frame_refl, rfl, fun _ _ => rfl, fun e he => by simp at he⟩
  | cons git rest ih =>
    rw [List.nodup_cons] at hnd
    simp only [environment.place_on_site] at h
    cases hs : environment.set_species st git s (site.filter (fun it => it != git)) with
    | error e => rw [hs] at h; cases h
    | ok st1 =>
      rw [hs] at h
      obtain ⟨f1, r1, _, o1, c1, m1⟩ := environment.set_species_ok _ _ _ _ _ hs
      obtain ⟨f2, r2, o2, a2⟩ := ih st1 hnd.2 h
      refine ⟨store.frame_trans f1 f2, r2.trans r1, ?_, ?_⟩
      · intro e he
        simp only [List.mem_cons, not_or] at he
        rw [o2 e he.2, o1 e he.1]
      · intro e he
        rcases List.mem_cons.mp he with rfl | hin
        · rw [o2 e hnd.1]; exact ⟨c1, m1⟩
        · exact a2 e hin

theorem environment.place_on_site_total (s : Nat) (site rest : List Nat) (st : store)
    (hinit : ∀ e ∈ rest, (st.env e).initialized = true) :
    ∃ st', environment.place_on_site s site rest st = .ok st' := by
  induction rest generalizing st with
  | nil => exact ⟨st, rfl⟩
  | cons git rest ih =>
    obtain ⟨st1, hs⟩ := environment.set_species_total st git s
      (site.filter (fun it => it != git)) (hinit git (List.mem_cons_self _ _))
    obtain ⟨f1, _⟩ := environment.set_species_ok _ _ _ _ _ hs
    obtain ⟨st', h'⟩ := ih st1 (fun e he => by
      rw [(f1.2.2.2.2.2.2.2 e).2.2.2.2.2.1]; exact hinit e (List.mem_cons_of_mem _ he))
    exact ⟨st', by simp only [environment.place_on_site, hs, h']⟩
theorem mem_set_set_swap {α : Type} (l : List α) (i j : Nat) (x y : α)
    (hi : l[i]? = some x) (hj : l[j]? = some y) (z : α) :
    z ∈ (l.set i y).set j x ↔ z ∈ l := by
  have hil : i < l.length := by
    by_contra hcon
    rw [List.getElem?_eq_none (by omega)] at hi
    cases hi
  have hjl : j < l.length := by
    by_contra hcon
    rw [List.getElem?_eq_none (by omega)] at hj
    cases hj
  simp only [List.mem_iff_getElem?]
  constructor
  · rintro ⟨n, hn⟩
    rw [List.getElem?_set] at hn
    by_cases hjn : j = n
    · subst hjn
      simp only [List.length_set, hjl, if_true] at hn
      exact ⟨i, by rw [hi, ← hn]⟩
    · simp only [hjn, if_false] at hn
      rw [List.getElem?_set] at hn
      by_cases hin : i = n
      · subst hin
        simp only [hil, if_true] at hn
        exact ⟨j, by rw [hj, ← hn]⟩
      · simp only [hin, if_false] at hn
        exact ⟨n, hn⟩
  · rintro ⟨n, hn⟩
    by_cases hjn : n = j
    · subst hjn
      have hzy : z = y := by rw [hn] at hj; exact Option.some.inj hj
      by_cases hij : i = n
      · subst hij
        have hxy : x = y := by rw [hi] at hj; exact Option.some.inj hj
        exact ⟨i, by rw [List.getElem?_set]; simp [hil, hzy, hxy]⟩
      · refine ⟨i, ?_⟩
        rw [List.getElem?_set]
        have : ¬ n = i := fun e => hij e.symm
        simp only [this, if_false]
        rw [List.getElem?_set]
        simp [hil, hzy]
    · by_cases hin : n = i
      · subst hin
        have hzx : z = x := by rw [hn] at hi; exact Option.some.inj hi
        refine ⟨j, ?_⟩
        rw [List.getElem?_set]
        simp [hjl, hzx]
      · refine ⟨n, ?_⟩
        rw [List.getElem?_set]
        have h1 : ¬ j = n := fun e => hjn e.symm
        simp only [h1, if_false]
        rw [List.getElem?_set]
        have h2 : ¬ i = n := fun e => hin e.symm
        simp only [h2, if_false]
        exact hn

theorem random_shuffle_loop_mem {α : Type} (n i : Nat) (l : List α) (g : rng) (z : α) :
    z ∈ (random_shuffle_loop n i l g).1 ↔ z ∈ l := by
  induction n generalizing i l g with
  | zero => rfl
  | succ n ih =>
    simp only [random_shuffle_loop]
    cases hi : l[i]? with
    | none => simp
    | some x =>
      cases hj : l[g.get_random.1 % (i + 1)]? with
      | none => simp
      | some y =>
        simp only
        rw [ih, mem_set_set_swap l i _ x y hi hj]

theorem random_shuffle_mem {α : Type} (l : List α) (g : rng) (z : α) :
    z ∈ (random_shuffle l g).1 ↔ z ∈ l :=
  random_shuffle_loop_mem _ _ l g z
theorem environment.get_sites_grown (env : Nat → environment) (coord : Nat) (envs : List Nat)
    (hc : 1 ≤ coord) :
    ∃ S, environment.get_sites env coord envs [] = .ok S ∧
      ∀ z, z ∈ S ↔ environment.grown env envs coord z := by
  obtain ⟨c, rfl⟩ : ∃ c, coord = c + 1 := ⟨coord - 1, by omega⟩
  obtain ⟨S, hS, hmem⟩ := environment.get_sites_spec env c envs []
  exact ⟨S, hS, fun z => by rw [hmem]; simp⟩

theorem mem_filter_not_contains (envs site : List Nat) (e : Nat) :
    e ∈ envs.filter (fun orig_it => !set_contains ptr_lt site orig_it) ↔ e ∈ envs ∧ e ∉ site := by
  simp [List.mem_filter, set_contains_ptr]

theorem environment.place_species_loop_frame
    (place_rest : store → List Nat → Except exn (Bool × store)) (s : Nat) (envs : List Nat)
    (hrest : ∀ st envs' b st', place_rest st envs' = .ok (b, st') →
      st.frame st' ∧ (∀ e, e ∉ envs' → st'.env e = st.env e) ∧ (b = false → st'.env = st.env))
    (L : List (List Nat)) (hL : ∀ site ∈ L, site.Nodup ∧ ∀ m ∈ site, m ∈ envs)
    (st : store) (b : Bool) (st' : store)
    (h : environment.place_species_loop place_rest s envs L st = .ok (b, st')) :
    st.frame st' ∧ (∀ e, e ∉ envs → st'.env e = st.env e) ∧ (b = false → st'.env = st.env) := by
  induction L generalizing st with
  | nil =>
    simp only [environment.place_species_loop, Except.ok.injEq, Prod.mk.injEq] at h
    obtain ⟨_, rfl⟩ := h
    exact ⟨st.frame_refl, fun _ _ => rfl, fun _ => rfl⟩
  | cons site more ih =>
    have hsite := hL site (List.mem_cons_self _ _)
    simp only [environment.place_species_loop] at h
    cases hr : place_rest st (envs.filter (fun orig_it => !set_contains ptr_lt site orig_it)) with
    | error e => rw [hr] at h; cases h
    | ok r =>
      obtain ⟨b1, st1⟩ := r
      rw [hr] at h
      obtain ⟨f1, o1, e1⟩ := hrest _ _ _ _ hr
      cases b1 with
      | true =>
        simp only at h
        cases hp : environment.place_on_site s site site st1 with
        | error e => rw [hp] at h; cases h
        | ok st2 =>
          rw [hp] at h
          simp only [Except.ok.injEq, Prod.mk.injEq] at h
          obtain ⟨rfl, rfl⟩ := h
          obtain ⟨f2, _, o2, _⟩ := environment.place_on_site_ok s site site st1 st2 hsite.1 hp
          refine ⟨store.frame_trans f1 f2, ?_, fun hb => by cases hb⟩
          intro e he
          rw [o2 e (fun hin => he (hsite.2 e hin)),
            o1 e (fun hin => he ((mem_filter_not_contains _ _ _).mp hin).1)]
      | false =>
        simp only at h
        obtain ⟨f2, o2, e2⟩ := ih (fun x hx => hL x (List.mem_cons_of_mem _ hx)) st1 h
        have henv := e1 rfl
        refine ⟨store.frame_trans f1 f2, ?_, ?_⟩
        · intro e he; rw [o2 e he, henv]
        · intro hb; rw [e2 hb, henv]

theorem environment.place_species_frame (sc : Nat → Nat) (sp : List Nat) :
    ∀ (st : store) (envs : List Nat) (b : Bool) (st' : store),
      environment.place_species sc sp st envs = .ok (b, st') →
      st.frame st' ∧ (∀ e, e ∉ envs → st'.env e = st.env e) ∧ (b = false → st'.env = st.env) := by
  induction sp with
  | nil =>
    intro st envs b st' h
    simp only [environment.place_species] at h
    split_ifs at h
    simp only [Except.ok.injEq, Prod.mk.injEq] at h
    obtain ⟨_, rfl⟩ := h
    exact ⟨st.frame_refl, fun _ _ => rfl, fun _ => rfl⟩
  | cons s rest ih =>
    intro st envs b st' h
    simp only [environment.place_species] at h
    split_ifs at h with h1 h2
    have hc : 1 ≤ sc s := by omega
    obtain ⟨S, hS, hmem⟩ := environment.get_sites_grown st.env (sc s) envs hc
    rw [hS] at h
    simp only at h
    cases hg : st.random with
    | none => rw [hg] at h; cases h
    | some g =>
      rw [hg] at h
      simp only at h
      obtain ⟨f, o, e⟩ := environment.place_species_loop_frame
        (environment.place_species sc rest) s envs ih (random_shuffle S g).1
        (by
          intro site hsite
          rw [random_shuffle_mem, hmem] at hsite
          obtain ⟨p1, _, p3⟩ := environment.grown_props _ _ _ _ hsite
          exact ⟨pairwise_lt_nodup _ p1, p3⟩)
        _ b st' h
      exact ⟨store.frame_trans (st.with_random_frame _) f, fun x hx => by rw [o x hx]; rfl,
        fun hb => by rw [e hb]; rfl⟩
theorem environment.place_species_loop_true
    (place_rest : store → List Nat → Except exn (Bool × store)) (s : Nat) (envs : List Nat)
    (hrest : ∀ st envs' b st', place_rest st envs' = .ok (b, st') →
      st.frame st' ∧ (∀ e, e ∉ envs' → st'.env e = st.env e) ∧ (b = false → st'.env = st.env))
    (L : List (List Nat)) (st st' : store)
    (h : environment.place_species_loop place_rest s envs L st = .ok (true, st')) :
    ∃ site ∈ L, ∃ stx st2, stx.env = st.env ∧
      place_rest stx (envs.filter (fun orig_it => !set_contains ptr_lt site orig_it))
        = .ok (true, st2) ∧
      environment.place_on_site s site site st2 = .ok st' := by
  induction L generalizing st with
  | nil => simp [environment.place_species_loop] at h
  | cons site more ih =>
    simp only [environment.place_species_loop] at h
    cases hr : place_rest st (envs.filter (fun orig_it => !set_contains ptr_lt site orig_it)) with
    | error e => rw [hr] at h; cases h
    | ok r =>
      obtain ⟨b1, st1⟩ := r
      rw [hr] at h
      cases b1 with
      | true =>
        simp only at h
        cases hp : environment.place_on_site s site site st1 with
        | error e => rw [hp] at h; cases h
        | ok st2 =>
          rw [hp] at h
          simp only [Except.ok.injEq, Prod.mk.injEq, true_and] at h
          subst h
          exact ⟨site, List.mem_cons_self _ _, st, st1, rfl, hr, hp⟩
      | false =>
        simp only at h
        obtain ⟨site', hs', stx, st2, hx, h1, h2⟩ := ih st1 h
        exact ⟨site', List.mem_cons_of_mem _ hs', stx, st2,
          hx.trans ((hrest _ _ _ _ hr).2.2 rfl), h1, h2⟩

theorem environment.assigned_congr (env env' : Nat → environment) (sp : List Nat)
    (gs : List (List Nat)) (h : ∀ g ∈ gs, ∀ e ∈ g, env' e = env e)
    (ha : environment.assigned env sp gs) : environment.assigned env' sp gs := by
  induction sp generalizing gs with
  | nil =>
    cases gs with
    | nil => trivial
    | cons g gs => exact ha
  | cons s rest ih =>
    cases gs with
    | nil => exact ha
    | cons g gs =>
      simp only [environment.assigned] at ha ⊢
      refine ⟨fun e he => ?_, ih gs (fun g' hg' => h g' (List.mem_cons_of_mem _ hg')) ha.2⟩
      rw [h g (List.mem_cons_self _ _) e he]
      exact ha.1 e he

theorem environment.connected_group_congr (env env' : Nat → environment) (g : List Nat)
    (h : ∀ e, (env' e).neighbors = (env e).neighbors)
    (hc : environment.connected_group env g) : environment.connected_group env' g := by
  refine ⟨hc.1, fun a ha b hb => ?_⟩
  exact Relation.ReflTransGen.mono (fun x y hxy => ⟨hxy.1, by rw [h x]; exact hxy.2⟩)
    (hc.2 a ha b hb)

/-- A successful `environment::place_species` has divided the pool into
connected groups, one for every species, and has put every species on the
environments of its group. -/
theorem environment.place_species_sound (sc : Nat → Nat) (sp : List Nat) :
    ∀ (st : store) (envs : List Nat) (st' : store),
      (∀ a ∈ envs, ∀ b ∈ envs, b ∈ (st.env a).neighbors → a ∈ (st.env b).neighbors) →
      environment.place_species sc sp st envs = .ok (true, st') →
      ∃ gs, environment.is_partition sc st.env sp envs gs ∧
        environment.assigned st'.env sp gs := by
  induction sp with
  | nil =>
    intro st envs st' _ h
    simp only [environment.place_species] at h
    split_ifs at h with hemp
    have henvs : envs = [] := by
      cases envs with
      | nil => rfl
      | cons a as => simp at hemp
    subst henvs
    exact ⟨[], ⟨List.Forall₂.nil, List.Pairwise.nil, fun e => by simp⟩, trivial⟩
  | cons s rest ih =>
    intro st envs st' hsym h
    simp only [environment.place_species] at h
    split_ifs at h with h1 h2
    have hc : 1 ≤ sc s := by omega
    obtain ⟨S, hS, hmem⟩ := environment.get_sites_grown st.env (sc s) envs hc
    rw [hS] at h
    simp only at h
    cases hg : st.random with
    | none => rw [hg] at h; cases h
    | some g =>
      rw [hg] at h
      simp only at h
      obtain ⟨site, hsite, stx, st2, hx, hrest, hplace⟩ :=
        environment.place_species_loop_true (environment.place_species sc rest) s envs
          (environment.place_species_frame sc rest) _ _ _ h
      have hxenv : stx.env = st.env := hx
      rw [random_shuffle_mem, hmem] at hsite
      obtain ⟨p1, p2, p3⟩ := environment.grown_props _ _ _ _ hsite
      have hconn := environment.grown_connected st.env envs hsym _ _ hsite
      have hleft : ∀ e, e ∈ envs.filter (fun orig_it => !set_contains ptr_lt site orig_it) ↔
          e ∈ envs ∧ e ∉ site := mem_filter_not_contains envs site
      obtain ⟨gs', hpart, hass⟩ := ih stx _ st2
        (by
          intro a ha b hb hab
          rw [hxenv] at hab ⊢
          exact hsym a ((hleft a).mp ha).1 b ((hleft b).mp hb).1 hab)
        hrest
      rw [hxenv] at hpart
      obtain ⟨q1, q2, q3⟩ := hpart
      obtain ⟨_, _, o2, a2⟩ := environment.place_on_site_ok s site site st2 st'
        (pairwise_lt_nodup _ p1) hplace
      have hdisj : ∀ g' ∈ gs', List.Disjoint site g' := by
        intro g' hg' e he1 he2
        exact ((hleft e).mp ((q3 e).mpr ⟨g', hg', he2⟩)).2 he1
      refine ⟨site :: gs', ⟨List.Forall₂.cons ⟨p1, p2, hconn⟩ q1,
        List.pairwise_cons.mpr ⟨hdisj, q2⟩, fun e => ?_⟩, ?_⟩
      · constructor
        · intro he
          by_cases hes : e ∈ site
          · exact ⟨site, List.mem_cons_self _ _, hes⟩
          · obtain ⟨g', hg', heg⟩ := (q3 e).mp ((hleft e).mpr ⟨he, hes⟩)
            exact ⟨g', List.mem_cons_of_mem _ hg', heg⟩
        · rintro ⟨g', hg', heg⟩
          rcases List.mem_cons.mp hg' with rfl | hin
          · exact p3 e heg
          · exact ((hleft e).mp ((q3 e).mpr ⟨g', hin, heg⟩)).1
      · simp only [environment.assigned]
        refine ⟨a2, environment.assigned_congr st2.env st'.env rest gs' ?_ hass⟩
        intro g' hg' e he
        exact o2 e (fun hes => hdisj g' hg' hes he)
theorem length_filter_not_mem (envs site : List Nat) (hnd : envs.Nodup) (hs : site.Nodup)
    (hsub : ∀ m ∈ site, m ∈ envs) :
    (envs.filter (fun orig_it => !set_contains ptr_lt site orig_it)).length + site.length
      = envs.length := by
  have hperm : (envs.filter (fun e => decide (e ∈ site))).Perm site := by
    rw [List.perm_ext_iff_of_nodup (hnd.filter _) hs]
    intro a
    simp only [List.mem_filter, decide_eq_true_eq]
    exact ⟨fun h => h.2, fun h => ⟨hsub a h, h⟩⟩
  have hlen : envs.length = (envs.filter (fun e => decide (e ∈ site))).length
      + (envs.filter (fun e => !decide (e ∈ site))).length :=
    List.length_eq_length_filter_add _
  rw [hperm.length_eq] at hlen
  have hfun : (fun orig_it => !set_contains ptr_lt site orig_it)
      = (fun e => !decide (e ∈ site)) := by
    funext x; rw [set_contains_ptr]
  rw [hfun]
  omega

theorem environment.place_species_loop_complete
    (place_rest : store → List Nat → Except exn (Bool × store)) (s : Nat) (envs : List Nat)
    (env0 : Nat → environment) (good : List Nat → Prop)
    (hrest : ∀ st envs' b st', place_rest st envs' = .ok (b, st') →
      st.frame st' ∧ (∀ e, e ∉ envs' → st'.env e = st.env e) ∧ (b = false → st'.env = st.env))
    (L : List (List Nat))
    (htot : ∀ site ∈ L, ∀ stx : store, stx.env = env0 → stx.random.isSome = true →
      ∃ b st2, place_rest stx (envs.filter (fun orig_it => !set_contains ptr_lt site orig_it))
        = .ok (b, st2) ∧ (good site → b = true))
    (hL : ∀ site ∈ L, ∀ e ∈ site, (env0 e).initialized = true)
    (st : store) (hst : st.env = env0) (hr : st.random.isSome = true) :
    ∃ b st', environment.place_species_loop place_rest s envs L st = .ok (b, st') ∧
      ((∃ site ∈ L, good site) → b = true) := by
  induction L generalizing st with
  | nil => exact ⟨false, st, rfl, fun ⟨_, h, _⟩ => by simp at h⟩
  | cons site more ih =>
    obtain ⟨b1, st1, h1, hgood⟩ := htot site (List.mem_cons_self _ _) st hst hr
    obtain ⟨f1, _, e1⟩ := hrest _ _ _ _ h1
    cases b1 with
    | true =>
      obtain ⟨st2, h2⟩ := environment.place_on_site_total s site site st1 (by
        intro e he
        rw [(f1.2.2.2.2.2.2.2 e).2.2.2.2.2.1, hst]
        exact hL site (List.mem_cons_self _ _) e he)
      exact ⟨true, st2, by simp only [environment.place_species_loop, h1, h2], fun _ => rfl⟩
    | false =>
      obtain ⟨b, st', h2, hb⟩ := ih
        (fun x hx => htot x (List.mem_cons_of_mem _ hx))
        (fun x hx => hL x (List.mem_cons_of_mem _ hx)) st1
        ((e1 rfl).trans hst) (f1.2.2.2.2.2.2.1 hr)
      refine ⟨b, st', by simp only [environment.place_species_loop, h1, h2], ?_⟩
      rintro ⟨site', hs', hg'⟩
      rcases List.mem_cons.mp hs' with rfl | hin
      · exact absurd (hgood hg') (by simp)
      · exact hb ⟨site', hin, hg'⟩

theorem environment.is_partition_cons (sc : Nat → Nat) (env : Nat → environment) (s : Nat)
    (rest envs : List Nat) (gs : List (List Nat))
    (h : environment.is_partition sc env (s :: rest) envs gs) :
    ∃ g gs', gs = g :: gs' ∧ g.Pairwise (· < ·) ∧ g.length = sc s ∧
      environment.connected_group env g ∧ (∀ m ∈ g, m ∈ envs) ∧
      environment.is_partition sc env rest
        (envs.filter (fun orig_it => !set_contains ptr_lt g orig_it)) gs' := by
  obtain ⟨h1, h2, h3⟩ := h
  cases h1 with
  | cons hg hrest =>
    rename_i g gs'
    rw [List.pairwise_cons] at h2
    refine ⟨g, gs', rfl, hg.1, hg.2.1, hg.2.2,
      fun m hm => (h3 m).mpr ⟨g, List.mem_cons_self _ _, hm⟩, hrest, h2.2, fun e => ?_⟩
    rw [mem_filter_not_contains, h3]
    constructor
    · rintro ⟨⟨g', hg', heg⟩, hne⟩
      rcases List.mem_cons.mp hg' with rfl | hin
      · exact absurd heg hne
      · exact ⟨g', hin, heg⟩
    · rintro ⟨g', hg', heg⟩
      exact ⟨⟨g', List.mem_cons_of_mem _ hg', heg⟩, fun hin => h2.1 g' hg' hin heg⟩

/-- Under the conditions of a placement (the species are surface species, the
pool is a set of initialized environments with as many members as the species
need), `environment::place_species` returns, and it returns `true` when the
pool can be divided. -/
theorem environment.place_species_complete (sc : Nat → Nat) (sp : List Nat) :
    ∀ (st : store) (envs : List Nat),
      (∀ s ∈ sp, 1 ≤ sc s) → envs.length < 2 ^ 31 → envs.length = (sp.map sc).sum →
      envs.Nodup → (∀ e ∈ envs, (st.env e).initialized = true) → st.random.isSome = true →
      ∃ b st', environment.place_species sc sp st envs = .ok (b, st') ∧
        ((∃ gs, environment.is_partition sc st.env sp envs gs) → b = true) := by
  induction sp with
  | nil =>
    intro st envs _ _ hsize _ _ _
    have henvs : envs = [] := by
      cases envs with
      | nil => rfl
      | cons a as => simp at hsize
    subst henvs
    exact ⟨true, st, rfl, fun _ => rfl⟩
  | cons s rest ih =>
    intro st envs hcoord hsmall hsize hnd hinit hrand
    have hc : 1 ≤ sc s := hcoord s (List.mem_cons_self _ _)
    simp only [List.map_cons, List.sum_cons] at hsize
    have hlt : sc s < 2 ^ 31 := by omega
    obtain ⟨S, hS, hmem⟩ := environment.get_sites_grown st.env (sc s) envs hc
    obtain ⟨g, hg⟩ := Option.isSome_iff_exists.mp hrand
    have hsites : ∀ site ∈ (random_shuffle S g).1,
        environment.grown st.env envs (sc s) site := by
      intro site hsite
      rwa [random_shuffle_mem, hmem] at hsite
    obtain ⟨b, st', hloop, hb⟩ := environment.place_species_loop_complete
      (environment.place_species sc rest) s envs st.env
      (fun site => ∃ gs', environment.is_partition sc st.env rest
        (envs.filter (fun orig_it => !set_contains ptr_lt site orig_it)) gs')
      (environment.place_species_frame sc rest) (random_shuffle S g).1
      (by
        intro site hsite stx hx hxr
        obtain ⟨p1, p2, p3⟩ := environment.grown_props _ _ _ _ (hsites site hsite)
        have hlen := length_filter_not_mem envs site hnd (pairwise_lt_nodup _ p1) p3
        obtain ⟨b, st2, h1, h2⟩ := ih stx
          (envs.filter (fun orig_it => !set_contains ptr_lt site orig_it))
          (fun s' hs' => hcoord s' (List.mem_cons_of_mem _ hs'))
          (by omega) (by omega) (hnd.filter _)
          (by
            intro e he
            rw [hx]
            exact hinit e ((mem_filter_not_contains _ _ _).mp he).1)
          hxr
        rw [hx] at h2
        exact ⟨b, st2, h1, h2⟩)
      (by
        intro site hsite e he
        exact hinit e ((environment.grown_props _ _ _ _ (hsites site hsite)).2.2 e he))
      (st.with_random (random_shuffle S g).2) rfl rfl
    refine ⟨b, st', ?_, ?_⟩
    · simp only [environment.place_species]
      rw [if_neg (by omega), if_neg (by omega), hS]
      simp only [hg]
      exact hloop
    · rintro ⟨gs, hgs⟩
      obtain ⟨g0, gs', _, q1, q2, q3, q4, q5⟩ :=
        environment.is_partition_cons sc st.env s rest envs gs hgs
      apply hb
      refine ⟨g0, ?_, gs', q5⟩
      rw [random_shuffle_mem, hmem, ← q2]
      exact environment.grown_of_connected st.env envs g0 q1 q4 q3

/-- Whether groups are a partition depends on the neighbors only. -/
theorem environment.is_partition_congr (sc : Nat → Nat) (env env' : Nat → environment)
    (sp envs : List Nat) (gs : List (List Nat))
    (h : ∀ e, (env' e).neighbors = (env e).neighbors)
    (hp : environment.is_partition sc env sp envs gs) :
    environment.is_partition sc env' sp envs gs := by
  refine ⟨?_, hp.2.1, hp.2.2⟩
  exact List.Forall₂.imp (fun _ g hsg =>
    ⟨hsg.1, hsg.2.1, environment.connected_group_congr env env' g h hsg.2.2⟩) hp.1

/-- Example store after the species `2` has been placed on the pool `{0, 1}`. -/
theorem example_place_eq :
    environment.place_species example_sc [2] example_store [0, 1]
      = .ok (true, example_store_placed) := by
  rfl

/-! ## Lemmas on the class map of the engine -/

theorem ensemble.equiv_iff (a b : ensemble) :
    (!ensemble.lt a b && !ensemble.lt b a) = true ↔ a.sorted_species = b.sorted_species := by
  unfold ensemble.lt
  constructor
  · intro h
    simp only [Bool.and_eq_true, Bool.not_eq_true', Bool.not_eq_eq_eq_not, Bool.not_true] at h
    exact lexicographical_compare_eq_of_not_lt _ _ h.1 h.2
  · intro h
    rw [h]
    simp [lexicographical_compare_irrefl]

theorem lexicographical_compare_trans :
    ∀ (a b c : List Nat), lexicographical_compare a b = true →
      lexicographical_compare b c = true → lexicographical_compare a c = true
  | [], [], _, h, _ => by simp [lexicographical_compare] at h
  | [], _ :: _, [], _, h => by simp [lexicographical_compare] at h
  | [], _ :: _, _ :: _, _, _ => by simp [lexicographical_compare]
  | _ :: _, [], _, h, _ => by simp [lexicographical_compare] at h
  | _ :: _, _ :: _, [], _, h => by simp [lexicographical_compare] at h
  | x :: xs, y :: ys, z :: zs, h1, h2 => by
    simp only [lexicographical_compare] at h1 h2 ⊢
    by_cases hxy : x < y
    · by_cases hyz : y < z
      · simp [Nat.lt_trans hxy hyz]
      · by_cases hzy : z < y
        · simp [hyz, hzy] at h2
        · have : y = z := by omega
          subst this
          simp [hxy]
    · by_cases hyx : y < x
      · simp [hxy, hyx] at h1
      · have hxy' : x = y := by omega
        subst hxy'
        simp only [Nat.lt_irrefl, if_false] at h1
        by_cases hxz : x < z
        · simp [hxz]
        · by_cases hzx : z < x
          · simp [hxz, hzx] at h2
          · simp only [hxz, hzx, if_false] at h2 ⊢
            exact lexicographical_compare_trans xs ys zs h1 h2

theorem map_find_ensemble_none (ens : List (ensemble × ens_env_map)) (obj : ensemble)
    (h : map_find ensemble.lt ens obj = none) :
    ∀ c ∈ ens, c.1.sorted_species ≠ obj.sorted_species := by
  intro c hc heq
  unfold map_find at h
  rw [List.find?_eq_none] at h
  exact h c hc ((ensemble.equiv_iff c.1 obj).2 heq)

theorem map_find_ensemble_some (ens : List (ensemble × ens_env_map)) (obj : ensemble)
    (e : ensemble × ens_env_map) (h : map_find ensemble.lt ens obj = some e) :
    e ∈ ens ∧ e.1.sorted_species = obj.sorted_species := by
  unfold map_find at h
  have h1 := List.find?_some h
  exact ⟨List.mem_of_find?_eq_some h, (ensemble.equiv_iff e.1 obj).1 h1⟩

/-- In a class map with ascending keys, a change through the iterator of a key
changes the one class with the sorted species of the key. -/
theorem map_modify_eq_map (ens : List (ensemble × ens_env_map)) (obj : ensemble)
    (f : ens_env_map → ens_env_map)
    (hk : ens.Pairwise (fun a b => ensemble.lt a.1 b.1 = true)) :
    map_modify ensemble.lt obj f ens
      = ens.map (fun c => if c.1.sorted_species = obj.sorted_species then (c.1, f c.2) else c) := by
  induction ens with
  | nil => rfl
  | cons e es ih =>
    rw [List.pairwise_cons] at hk
    simp only [map_modify, List.map_cons]
    by_cases he : e.1.sorted_species = obj.sorted_species
    · rw [if_pos ((ensemble.equiv_iff e.1 obj).2 he), if_pos he]
      congr 1
      symm
      conv_rhs => rw [← List.map_id es]
      apply List.map_congr_left
      intro c hc
      have hlt := hk.1 c hc
      have hne : c.1.sorted_species ≠ obj.sorted_species := by
        intro hco
        unfold ensemble.lt at hlt
        rw [he, hco, lexicographical_compare_irrefl] at hlt
        cases hlt
      rw [if_neg hne]
      rfl
    · have hn : ¬ ((!ensemble.lt e.1 obj && !ensemble.lt obj e.1) = true) :=
        fun h => he ((ensemble.equiv_iff e.1 obj).1 h)
      rw [if_neg hn, if_neg he, ih hk.2]

/-- The keys of the class map stay in ascending order at an insertion. -/
theorem map_insert_ensemble_sorted (kv : ensemble × ens_env_map)
    (ens : List (ensemble × ens_env_map))
    (hk : ens.Pairwise (fun a b => ensemble.lt a.1 b.1 = true)) :
    (map_insert ensemble.lt kv ens).Pairwise (fun a b => ensemble.lt a.1 b.1 = true) ∧
    ∀ c ∈ map_insert ensemble.lt kv ens, c = kv ∨ c ∈ ens := by
  induction ens with
  | nil =>
    simp [map_insert]
  | cons e es ih =>
    rw [List.pairwise_cons] at hk
    obtain ⟨ihs, ihm⟩ := ih hk.2
    simp only [map_insert]
    by_cases h1 : ensemble.lt kv.1 e.1 = true
    · rw [if_pos h1]
      refine ⟨?_, ?_⟩
      · rw [List.pairwise_cons]
        refine ⟨?_, List.pairwise_cons.2 hk⟩
        intro c hc
        rcases List.mem_cons.1 hc with rfl | hc
        · exact h1
        · exact lexicographical_compare_trans _ _ _ h1 (hk.1 c hc)
      · intro c hc
        rcases List.mem_cons.1 hc with rfl | hc
        · exact Or.inl rfl
        · exact Or.inr hc
    · rw [if_neg h1]
      by_cases h2 : ensemble.lt e.1 kv.1 = true
      · rw [if_pos h2]
        refine ⟨?_, ?_⟩
        · rw [List.pairwise_cons]
          refine ⟨?_, ihs⟩
          intro c hc
          rcases ihm c hc with rfl | hc
          · exact h2
          · exact hk.1 c hc
        · intro c hc
          rcases List.mem_cons.1 hc with rfl | hc
          · exact Or.inr (List.mem_cons_self _ _)
          · rcases ihm c hc with rfl | hc
            · exact Or.inl rfl
            · exact Or.inr (List.mem_cons_of_mem _ hc)
      · rw [if_neg h2]
        exact ⟨List.pairwise_cons.2 hk, fun c hc => Or.inr hc⟩

theorem map_insert_ptr_mem {ν : Type} (kv : Nat × ν) (m : List (Nat × ν))
    (h : ∀ y ∈ m, y.1 ≠ kv.1) (x : Nat × ν) :
    x ∈ map_insert ptr_lt kv m ↔ x = kv ∨ x ∈ m := by
  induction m with
  | nil => simp [map_insert]
  | cons e es ih =>
    have he : e.1 ≠ kv.1 := h e (List.mem_cons_self _ _)
    have ih' := ih (fun y hy => h y (List.mem_cons_of_mem _ hy))
    simp only [map_insert, ptr_lt]
    by_cases h1 : kv.1 < e.1
    · simp [h1]
    · have h2 : e.1 < kv.1 := by omega
      simp only [h1, h2, decide_False, decide_True, if_true, Bool.false_eq_true, if_false,
        List.mem_cons, ih']
      tauto

theorem map_insert_ptr_sorted {ν : Type} (kv : Nat × ν) (m : List (Nat × ν))
    (hs : m.Pairwise (fun a b => a.1 < b.1)) :
    (map_insert ptr_lt kv m).Pairwise (fun a b => a.1 < b.1) ∧
    ∀ c ∈ map_insert ptr_lt kv m, c = kv ∨ c ∈ m := by
  induction m with
  | nil => simp [map_insert]
  | cons e es ih =>
    rw [List.pairwise_cons] at hs
    obtain ⟨ihs, ihm⟩ := ih hs.2
    simp only [map_insert, ptr_lt]
    by_cases h1 : kv.1 < e.1
    · simp only [h1, decide_True, if_true]
      refine ⟨?_, ?_⟩
      · rw [List.pairwise_cons]
        refine ⟨?_, List.pairwise_cons.2 hs⟩
        intro c hc
        rcases List.mem_cons.1 hc with rfl | hc
        · exact h1
        · exact Nat.lt_trans h1 (hs.1 c hc)
      · intro c hc
        rcases List.mem_cons.1 hc with rfl | hc
        · exact Or.inl rfl
        · exact Or.inr hc
    · simp only [h1, decide_False, Bool.false_eq_true, if_false]
      by_cases h2 : e.1 < kv.1
      · simp only [h2, decide_True, if_true]
        refine ⟨?_, ?_⟩
        · rw [List.pairwise_cons]
          refine ⟨?_, ihs⟩
          intro c hc
          rcases ihm c hc with rfl | hc
          · exact h2
          · exact hs.1 c hc
        · intro c hc
          rcases List.mem_cons.1 hc with rfl | hc
          · exact Or.inr (List.mem_cons_self _ _)
          · rcases ihm c hc with rfl | hc
            · exact Or.inl rfl
            · exact Or.inr (List.mem_cons_of_mem _ hc)
      · simp only [h2, decide_False, Bool.false_eq_true, if_false]
        exact ⟨List.pairwise_cons.2 hs, fun c hc => Or.inr hc⟩

/-- The call `erase(key)` on an instance map with ascending keys: the entries
with another key are left, and the count is zero only when the key is not in
the map. -/
theorem map_erase_ptr {ν : Type} (p : Nat) (m : List (Nat × ν))
    (hs : m.Pairwise (fun a b => a.1 < b.1)) :
    (map_erase ptr_lt p m).1 = m.filter (fun y => decide (y.1 ≠ p)) ∧
    ((map_erase ptr_lt p m).2 < 1 ↔ ∀ y ∈ m, y.1 ≠ p) := by
  induction m with
  | nil => simp [map_erase]
  | cons e es ih =>
    rw [List.pairwise_cons] at hs
    obtain ⟨ih1, ih2⟩ := ih hs.2
    simp only [map_erase, ptr_lt_equiv]
    by_cases he : e.1 = p
    · simp only [he, decide_True, if_true]
      refine ⟨?_, ?_⟩
      · rw [List.filter_cons_of_neg (by simp [he])]
        symm
        rw [List.filter_eq_self]
        intro y hy
        have := hs.1 y hy
        simp only [decide_eq_true_eq]
        omega
      · simp only [Nat.lt_irrefl, false_iff]
        intro h
        exact h e (List.mem_cons_self _ _) he
    · simp only [he, decide_False, Bool.false_eq_true, if_false]
      refine ⟨?_, ?_⟩
      · rw [List.filter_cons_of_pos (by simp [he]), ← ih1]
      · rw [ih2]
        simp [he]

theorem map_insert_ptr_subset {ν : Type} (kv : Nat × ν) (m : List (Nat × ν)) :
    ∀ c ∈ map_insert ptr_lt kv m, c = kv ∨ c ∈ m := by
  induction m with
  | nil => simp [map_insert]
  | cons e es ih =>
    intro c hc
    simp only [map_insert] at hc
    split_ifs at hc
    · rcases List.mem_cons.1 hc with rfl | hc
      · exact Or.inl rfl
      · exact Or.inr hc
    · rcases List.mem_cons.1 hc with rfl | hc
      · exact Or.inr (List.mem_cons_self _ _)
      · rcases ih c hc with h | h
        · exact Or.inl h
        · exact Or.inr (List.mem_cons_of_mem _ h)
    · exact Or.inr hc

/-- One step of `kmc::get_ensembles` on a class map with ascending keys: the
instance is inserted into the instance map of its class, if there is one. -/
theorem kmc.get_ensembles_ensemble_eq (st : store) (env_it it : Nat)
    (ens ens1 : List (ensemble × ens_env_map))
    (hk : ens.Pairwise (fun a b => ensemble.lt a.1 b.1 = true))
    (h : kmc.get_ensembles_ensemble st env_it ens it = .ok ens1) :
    ∃ obj, st.ens it = some obj ∧
      ens1 = ens.map (fun c =>
        if c.1.sorted_species = obj.sorted_species
        then (c.1, map_insert ptr_lt (it, env_it) c.2) else c) := by
  unfold kmc.get_ensembles_ensemble at h
  cases hobj : st.ens it with
  | none => rw [hobj] at h; cases h
  | some obj =>
    simp only [hobj] at h
    refine ⟨obj, rfl, ?_⟩
    cases hfind : map_find ensemble.lt ens obj with
    | none =>
      rw [hfind] at h
      simp only [Except.ok.injEq] at h
      subst h
      conv_lhs => rw [← List.map_id ens]
      apply List.map_congr_left
      intro c hc
      rw [if_neg (map_find_ensemble_none ens obj hfind c hc)]
      rfl
    | some e =>
      rw [hfind] at h
      simp only [Except.ok.injEq] at h
      rw [← h, map_modify_eq_map ens obj _ hk]

theorem kmc.register_all_append (st : store) (l1 l2 : List (Nat × Nat))
    (ens : List (ensemble × ens_env_map)) :
    kmc.register_all st (l1 ++ l2) ens
      = match kmc.register_all st l1 ens with
        | .error e => .error e
        | .ok ens1 => kmc.register_all st l2 ens1 := by
  induction l1 generalizing ens with
  | nil => rfl
  | cons pe rest ih =>
    simp only [List.cons_append, kmc.register_all]
    cases kmc.get_ensembles_ensemble st pe.2 ens pe.1 with
    | error e => rfl
    | ok ens1 => exact ih ens1

theorem kmc.get_ensembles_env_eq (st : store) (env_it : Nat) (its : List Nat)
    (ens : List (ensemble × ens_env_map)) :
    kmc.get_ensembles_env st env_it its ens
      = kmc.register_all st (its.map (fun p => (p, env_it))) ens := by
  induction its generalizing ens with
  | nil => rfl
  | cons it rest ih =>
    simp only [kmc.get_ensembles_env, List.map_cons, kmc.register_all]
    cases kmc.get_ensembles_ensemble st env_it ens it with
    | error e => rfl
    | ok ens1 => exact ih ens1

theorem kmc.get_ensembles_loop_eq (st : store) (changed : List Nat)
    (ens : List (ensemble × ens_env_map)) :
    kmc.get_ensembles_loop st changed ens
      = kmc.register_all st
          (changed.flatMap (fun e => (st.env e).ensembles.map (fun p => (p, e)))) ens := by
  induction changed generalizing ens with
  | nil => rfl
  | cons e rest ih =>
    simp only [kmc.get_ensembles_loop, List.flatMap_cons, kmc.register_all_append,
      kmc.get_ensembles_env_eq]
    cases kmc.register_all st ((st.env e).ensembles.map (fun p => (p, e))) ens with
    | error e => rfl
    | ok ens1 => exact ih ens1

/-- The class map after the loops of `kmc::get_ensembles`, for instances that
are not yet keys of an instance map and are listed once: the keys of the class
map are as before, and the instance map of a class has the new pairs whose
instance is of the class in addition. -/
theorem kmc.register_all_spec (st : store) (pairs : List (Nat × Nat)) :
    ∀ (ens ens' : List (ensemble × ens_env_map)),
      ens.Pairwise (fun a b => ensemble.lt a.1 b.1 = true) →
      (pairs.map Prod.fst).Nodup →
      (∀ x ∈ pairs, ∀ c ∈ ens, ∀ y ∈ c.2, y.1 ≠ x.1) →
      kmc.register_all st pairs ens = .ok ens' →
      ∃ F : ensemble × ens_env_map → ens_env_map,
        ens' = ens.map (fun c => (c.1, F c)) ∧
        ∀ c ∈ ens,
          (c.2.Pairwise (fun a b => a.1 < b.1) → (F c).Pairwise (fun a b => a.1 < b.1)) ∧
          ∀ x, x ∈ F c ↔ x ∈ c.2 ∨
            (x ∈ pairs ∧ ∃ obj, st.ens x.1 = some obj ∧
              obj.sorted_species = c.1.sorted_species) := by
  induction pairs with
  | nil =>
    intro ens ens' _ _ _ h
    simp only [kmc.register_all, Except.ok.injEq] at h
    subst h
    refine ⟨fun c => c.2, by simp, fun c _ => ⟨fun hs => hs, fun x => by simp⟩⟩
  | cons pe rest ih =>
    intro ens ens' hk hnd hfresh h
    simp only [kmc.register_all] at h
    cases h1 : kmc.get_ensembles_ensemble st pe.2 ens pe.1 with
    | error e => rw [h1] at h; cases h
    | ok ens1 =>
      rw [h1] at h
      obtain ⟨obj, hobj, hens1⟩ := kmc.get_ensembles_ensemble_eq st pe.2 pe.1 ens ens1 hk h1
      rw [List.map_cons, List.nodup_cons] at hnd
      have hk1 : ens1.Pairwise (fun a b => ensemble.lt a.1 b.1 = true) := by
        rw [hens1, List.pairwise_map]
        refine hk.imp ?_
        intro a b hab
        by_cases ha : a.1.sorted_species = obj.sorted_species <;>
          by_cases hb : b.1.sorted_species = obj.sorted_species <;>
          simp only [ha, hb, if_true, if_false] <;> exact hab
      have hfresh1 : ∀ x ∈ rest, ∀ c ∈ ens1, ∀ y ∈ c.2, y.1 ≠ x.1 := by
        intro x hx c hc y hy
        rw [hens1, List.mem_map] at hc
        obtain ⟨c0, hc0, rfl⟩ := hc
        by_cases hm : c0.1.sorted_species = obj.sorted_species
        · rw [if_pos hm] at hy
          rcases map_insert_ptr_subset (pe.1, pe.2) c0.2 y hy with h | h
          · rw [h]
            intro heq
            exact hnd.1 (List.mem_map.2 ⟨x, hx, heq.symm⟩)
          · exact hfresh x (List.mem_cons_of_mem _ hx) c0 hc0 y h
        · rw [if_neg hm] at hy
          exact hfresh x (List.mem_cons_of_mem _ hx) c0 hc0 y hy
      obtain ⟨F1, hF1, hF1p⟩ := ih ens1 ens' hk1 hnd.2 hfresh1 h
      refine ⟨fun c => F1 (if c.1.sorted_species = obj.sorted_species
        then (c.1, map_insert ptr_lt (pe.1, pe.2) c.2) else c), ?_, ?_⟩
      · rw [hF1, hens1, List.map_map]
        apply List.map_congr_left
        intro c _
        by_cases hm : c.1.sorted_species = obj.sorted_species <;> simp [hm]
      · intro c hc
        have hc1 : (if c.1.sorted_species = obj.sorted_species
            then (c.1, map_insert ptr_lt (pe.1, pe.2) c.2) else c) ∈ ens1 := by
          rw [hens1]
          exact List.mem_map.2 ⟨c, hc, rfl⟩
        obtain ⟨hs1, hm1⟩ := hF1p _ hc1
        by_cases hm : c.1.sorted_species = obj.sorted_species
        · simp only [hm, if_true] at hs1 hm1 ⊢
          refine ⟨fun hs => hs1 (map_insert_ptr_sorted _ _ hs).1, fun x => ?_⟩
          rw [hm1 x, map_insert_ptr_mem (pe.1, pe.2) c.2
            (fun y hy => hfresh pe (List.mem_cons_self _ _) c hc y hy) x]
          constructor
          · rintro ((h | h) | h)
            · exact Or.inr ⟨by rw [h]; exact List.mem_cons_self _ _, obj, by rw [h]; exact hobj, rfl⟩
            · exact Or.inl h
            · exact Or.inr ⟨List.mem_cons_of_mem _ h.1, h.2⟩
          · rintro (h | ⟨h, h2⟩)
            · exact Or.inl (Or.inr h)
            · rcases List.mem_cons.1 h with h | h
              · exact Or.inl (Or.inl h)
              · exact Or.inr ⟨h, h2⟩
        · simp only [hm, if_false] at hs1 hm1 ⊢
          refine ⟨hs1, fun x => ?_⟩
          rw [hm1 x]
          constructor
          · rintro (h | h)
            · exact Or.inl h
            · exact Or.inr ⟨List.mem_cons_of_mem _ h.1, h.2⟩
          · rintro (h | ⟨h, obj2, h2, h3⟩)
            · exact Or.inl h
            · rcases List.mem_cons.1 h with h | h
              · exfalso
                rw [h, hobj] at h2
                simp only [Option.some.injEq] at h2
                rw [← h2] at h3
                exact hm h3.symm
              · exact Or.inr ⟨h, obj2, h2, h3⟩

/-- The loop of `kmc::delete_ensembles` on a class map in which the instances
of a class map have the species of the class, for instances that are listed
once and are registered in their class: the `corrupted` error is not raised,
and when the loop returns the listed instances are gone from the instance maps
and from the store, and nothing else has changed. -/
theorem kmc.delete_ensembles_loop_spec (old : List Nat) :
    ∀ (ens : List (ensemble × ens_env_map)) (st : store),
      old.Nodup →
      ens.Pairwise (fun a b => ensemble.lt a.1 b.1 = true) →
      (∀ c ∈ ens, c.2.Pairwise (fun a b => a.1 < b.1)) →
      (∀ c ∈ ens, ∀ y ∈ c.2,
        ∃ obj, st.ens y.1 = some obj ∧ obj.sorted_species = c.1.sorted_species) →
      (∀ q ∈ old, ∀ obj, st.ens q = some obj →
        ∀ c ∈ ens, c.1.sorted_species = obj.sorted_species → ∃ y ∈ c.2, y.1 = q) →
      kmc.delete_ensembles_loop old (ens, st) ≠ .error .bad_pointer_corrupted ∧
      ∀ r, kmc.delete_ensembles_loop old (ens, st) = .ok r →
        (∃ F : ensemble × ens_env_map → ens_env_map,
          r.1 = ens.map (fun c => (c.1, F c)) ∧
          ∀ c ∈ ens, (F c).Pairwise (fun a b => a.1 < b.1) ∧
            ∀ y, y ∈ F c ↔ y ∈ c.2 ∧ y.1 ∉ old) ∧
        r.2.env = st.env ∧ r.2.next = st.next ∧
        ∀ a, r.2.ens a = if a ∈ old then none else st.ens a := by
  induction old with
  | nil =>
    intro ens st _ _ hs _ _
    refine ⟨by simp [kmc.delete_ensembles_loop], ?_⟩
    intro r h
    simp only [kmc.delete_ensembles_loop, Except.ok.injEq] at h
    subst h
    exact ⟨⟨fun c => c.2, by simp, fun c hc => ⟨hs c hc, fun y => by simp⟩⟩, rfl, rfl,
      fun a => by simp⟩
  | cons ens_it rest ih =>
    intro ens st hnd hk hs hcls hreg
    rw [List.nodup_cons] at hnd
    cases hobj : st.ens ens_it with
    | none =>
      have hres : kmc.delete_ensembles_loop (ens_it :: rest) (ens, st)
          = .error .undefined_behaviour := by
        simp only [kmc.delete_ensembles_loop, hobj]
      rw [hres]
      exact ⟨by simp, fun r h => by cases h⟩
    | some obj =>
      -- the class map and the store after the step
      have hstep : ∃ ens1, ens1 = ens.map (fun c =>
            if c.1.sorted_species = obj.sorted_species
            then (c.1, c.2.filter (fun y => decide (y.1 ≠ ens_it))) else c) ∧
          kmc.delete_ensembles_loop (ens_it :: rest) (ens, st)
            = kmc.delete_ensembles_loop rest
                (ens1, { st with ens := Function.update st.ens ens_it none }) := by
        refine ⟨_, rfl, ?_⟩
        simp only [kmc.delete_ensembles_loop, hobj]
        cases hfind : map_find ensemble.lt ens obj with
        | none =>
          simp only []
          congr 2
          conv_lhs => rw [← List.map_id ens]
          apply List.map_congr_left
          intro c hc
          rw [if_neg (map_find_ensemble_none ens obj hfind c hc)]
          rfl
        | some e =>
          simp only []
          obtain ⟨he, hem⟩ := map_find_ensemble_some ens obj e hfind
          obtain ⟨y, hy, hyq⟩ := hreg ens_it (List.mem_cons_self _ _) obj hobj e he hem
          have hcount : ¬ (map_erase ptr_lt ens_it e.2).2 < 1 := by
            rw [(map_erase_ptr ens_it e.2 (hs e he)).2]
            intro h
            exact h y hy hyq
          rw [if_neg hcount, map_modify_eq_map ens obj _ hk]
          congr 2
          apply List.map_congr_left
          intro c hc
          by_cases hm : c.1.sorted_species = obj.sorted_species
          · rw [if_pos hm, if_pos hm, (map_erase_ptr ens_it c.2 (hs c hc)).1]
          · rw [if_neg hm, if_neg hm]
      obtain ⟨ens1, hens1, hloop⟩ := hstep
      rw [hloop]
      -- an instance of another class is not the deleted instance
      have hother : ∀ c ∈ ens, c.1.sorted_species ≠ obj.sorted_species →
          ∀ y ∈ c.2, y.1 ≠ ens_it := by
        intro c hc hm y hy heq
        obtain ⟨obj2, h2, h3⟩ := hcls c hc y hy
        rw [heq, hobj] at h2
        simp only [Option.some.injEq] at h2
        rw [← h2] at h3
        exact hm h3.symm
      have hmem1 : ∀ c ∈ ens, ∀ y,
          y ∈ (if c.1.sorted_species = obj.sorted_species
            then (c.1, c.2.filter (fun y => decide (y.1 ≠ ens_it))) else c).2
            ↔ y ∈ c.2 ∧ y.1 ≠ ens_it := by
        intro c hc y
        by_cases hm : c.1.sorted_species = obj.sorted_species
        · simp [hm, List.mem_filter]
        · simp only [hm, if_false]
          exact ⟨fun h => ⟨h, hother c hc hm y h⟩, fun h => h.1⟩
      have hfst1 : ∀ c : ensemble × ens_env_map,
          (if c.1.sorted_species = obj.sorted_species
            then (c.1, c.2.filter (fun y => decide (y.1 ≠ ens_it))) else c).1 = c.1 := by
        intro c
        by_cases hm : c.1.sorted_species = obj.sorted_species <;> simp [hm]
      have hk1 : ens1.Pairwise (fun a b => ensemble.lt a.1 b.1 = true) := by
        rw [hens1, List.pairwise_map]
        refine hk.imp ?_
        intro a b hab
        rw [hfst1 a, hfst1 b]
        exact hab
      have hs1 : ∀ c ∈ ens1, c.2.Pairwise (fun a b => a.1 < b.1) := by
        intro c hc
        rw [hens1, List.mem_map] at hc
        obtain ⟨c0, hc0, rfl⟩ := hc
        by_cases hm : c0.1.sorted_species = obj.sorted_species
        · simp only [hm, if_true]
          exact (hs c0 hc0).filter _
        · simp only [hm, if_false]
          exact hs c0 hc0
      have hcls1 : ∀ c ∈ ens1, ∀ y ∈ c.2,
          ∃ obj', (Function.update st.ens ens_it none) y.1 = some obj' ∧
            obj'.sorted_species = c.1.sorted_species := by
        intro c hc y hy
        rw [hens1, List.mem_map] at hc
        obtain ⟨c0, hc0, rfl⟩ := hc
        obtain ⟨hy0, hne⟩ := (hmem1 c0 hc0 y).1 hy
        obtain ⟨obj', h1, h2⟩ := hcls c0 hc0 y hy0
        refine ⟨obj', ?_, ?_⟩
        · rw [Function.update_noteq hne]
          exact h1
        · rw [hfst1 c0]
          exact h2
      have hreg1 : ∀ q ∈ rest, ∀ obj', (Function.update st.ens ens_it none) q = some obj' →
          ∀ c ∈ ens1, c.1.sorted_species = obj'.sorted_species → ∃ y ∈ c.2, y.1 = q := by
        intro q hq obj' hq' c hc hm
        have hne : q ≠ ens_it := fun h => hnd.1 (h ▸ hq)
        rw [Function.update_noteq hne] at hq'
        rw [hens1, List.mem_map] at hc
        obtain ⟨c0, hc0, rfl⟩ := hc
        rw [hfst1 c0] at hm
        obtain ⟨y, hy, hyq⟩ := hreg q (List.mem_cons_of_mem _ hq) obj' hq' c0 hc0 hm
        exact ⟨y, (hmem1 c0 hc0 y).2 ⟨hy, by rw [hyq]; exact hne⟩, hyq⟩
      obtain ⟨hno, hok⟩ := ih ens1 { st with ens := Function.update st.ens ens_it none }
        hnd.2 hk1 hs1 hcls1 hreg1
      refine ⟨hno, ?_⟩
      intro r hr
      obtain ⟨⟨F1, hF1, hF1p⟩, henv, hnext, hheap⟩ := hok r hr
      refine ⟨⟨fun c => F1 (if c.1.sorted_species = obj.sorted_species
        then (c.1, c.2.filter (fun y => decide (y.1 ≠ ens_it))) else c), ?_, ?_⟩,
        henv, hnext, ?_⟩
      · rw [hF1, hens1, List.map_map]
        apply List.map_congr_left
        intro c _
        simp only [Function.comp_apply, hfst1 c]
      · intro c hc
        have hc1 : (if c.1.sorted_species = obj.sorted_species
            then (c.1, c.2.filter (fun y => decide (y.1 ≠ ens_it))) else c) ∈ ens1 := by
          rw [hens1]
          exact List.mem_map.2 ⟨c, hc, rfl⟩
        obtain ⟨hsF, hmF⟩ := hF1p _ hc1
        refine ⟨hsF, fun y => ?_⟩
        rw [hmF y, hmem1 c hc y]
        simp only [List.mem_cons, not_or]
        tauto
      · intro a
        rw [hheap a]
        by_cases ha : a = ens_it
        · subst ha
          by_cases har : a ∈ rest
          · simp [har]
          · simp [har]
        · by_cases har : a ∈ rest
          · simp [har]
          · simp [har, ha, Function.update_noteq ha]

/-- The instances after a successful `environment::change_ensemble`: the
environments of `changed` hold new instances, the other environments hold the
instances they held, and `remove` lists the instances that the environments of
`changed` held, each once. -/
theorem environment.change_ensemble_instances (sc : Nat → Nat) (st st1 : store)
    (this old : Nat) (products remove changed : List Nat) (huniq : st.ensembles_unique)
    (h : environment.change_ensemble sc st this old products [] [] = .ok (st1, remove, changed)) :
    st.next ≤ st1.next ∧ (∀ a, a < st.next → st1.ens a = st.ens a) ∧
    (∀ e, e ∉ changed → (st1.env e).ensembles = (st.env e).ensembles) ∧
    (∀ e ∈ changed, (st1.env e).ensembles.Nodup ∧
      ∀ p ∈ (st1.env e).ensembles, st.next ≤ p ∧ p < st1.next ∧ ∃ obj, st1.ens p = some obj) ∧
    (∀ e1 ∈ changed, ∀ e2 ∈ changed, ∀ p,
      p ∈ (st1.env e1).ensembles → p ∈ (st1.env e2).ensembles → e1 = e2) ∧
    changed.Nodup ∧
    remove = changed.flatMap (fun e => (st.env e).ensembles) ∧ remove.Nodup := by
  obtain ⟨_, members, obj, g, placed, _, _, _, _, hplace, hrec, hch, hrem⟩ :=
    environment.change_ensemble_ok sc st st1 this old products [] [] remove changed h
  have hnd : changed.Nodup := by
    rw [hch]
    exact pairwise_lt_nodup _
      (environment.collect_changed_sorted st this members [] List.Pairwise.nil)
  have hrecr := environment.recreate_ensembles_recreated sc changed placed.2 st1 hnd hrec
  have hframe := (environment.place_species_frame sc _ _ members placed.1 placed.2 hplace).1
  obtain ⟨f1, f2, _, _, _, _, _, f8⟩ := hframe
  obtain ⟨r1, r2, r3, _, _, _, r7, r8⟩ := hrecr
  have hnext : placed.2.next = st.next := f2
  have hens : placed.2.ens = st.ens := f1
  have hrem' : remove = changed.flatMap (fun e => (st.env e).ensembles) := by
    rw [hrem, environment.collect_remove_eq]; rfl
  refine ⟨by rw [← hnext]; exact r1, ?_, ?_, ?_, r8, hnd, hrem', ?_⟩
  · intro a ha
    rw [r2 a (by rw [hnext]; exact ha), hens]
  · intro e he
    rw [r3 e he]
    exact (f8 e).2.2.2.1
  · intro e he
    refine ⟨(r7 e he).1, fun p hp => ?_⟩
    have := (r7 e he).2 p hp
    rw [hnext] at this
    exact this
  · rw [hrem', List.nodup_flatMap]
    refine ⟨fun e _ => huniq.1 e, ?_⟩
    apply hnd.imp
    intro a b hab
    show List.Disjoint (st.env a).ensembles (st.env b).ensembles
    intro p hpa hpb
    exact hab (huniq.2 a b p hpa hpb)

/-- The invariant of the class map is kept by the update that
`kmc::perform_reaction` makes after `environment::change_ensemble`: the
instances of `remove` are deleted, and the instances of the environments of
`changed` are registered. -/
theorem kmc.update_registered (sc : Nat → Nat) (k : kmc) (st st1 : store) (this old : Nat)
    (products remove changed : List Nat)
    (hwf : kmc.well_formed k.ensembles st) (hinv : kmc.classes_registered k.ensembles st)
    (h : environment.change_ensemble sc st this old products [] [] = .ok (st1, remove, changed)) :
    kmc.delete_ensembles k st1 remove ≠ .error .bad_pointer_corrupted ∧
    ∀ kd std k', kmc.delete_ensembles k st1 remove = .ok (kd, std) →
      kmc.get_ensembles_changed kd std changed = .ok k' →
      kmc.well_formed k'.ensembles std ∧ kmc.classes_registered k'.ensembles std := by
  obtain ⟨hk, hs, huniq, hlt⟩ := hwf
  obtain ⟨c1, c2, c3, c4, c5, c6, c7, c8⟩ :=
    environment.change_ensemble_instances sc st st1 this old products remove changed huniq h
  have hrem_mem : ∀ q, q ∈ remove ↔ ∃ e ∈ changed, q ∈ (st.env e).ensembles := by
    intro q
    rw [c7]
    simp [List.mem_flatMap]
  have hrem_lt : ∀ q ∈ remove, q < st.next := by
    intro q hq
    obtain ⟨e, _, hqe⟩ := (hrem_mem q).1 hq
    exact hlt e q hqe
  -- the instances of the class maps are those of before the call
  have hcls : ∀ c ∈ k.ensembles, ∀ y ∈ c.2,
      ∃ obj, st1.ens y.1 = some obj ∧ obj.sorted_species = c.1.sorted_species := by
    intro c hc y hy
    obtain ⟨hy1, obj, hobj, hm⟩ := (hinv c hc y.1 y.2).1 hy
    exact ⟨obj, by rw [c2 y.1 (hlt y.2 y.1 hy1)]; exact hobj, hm⟩
  have hreg : ∀ q ∈ remove, ∀ obj, st1.ens q = some obj →
      ∀ c ∈ k.ensembles, c.1.sorted_species = obj.sorted_species → ∃ y ∈ c.2, y.1 = q := by
    intro q hq obj hobj c hc hm
    obtain ⟨e, _, hqe⟩ := (hrem_mem q).1 hq
    rw [c2 q (hrem_lt q hq)] at hobj
    exact ⟨(q, e), (hinv c hc q e).2 ⟨hqe, obj, hobj, hm.symm⟩, rfl⟩
  obtain ⟨hno, hok⟩ := kmc.delete_ensembles_loop_spec remove k.ensembles st1 c8 hk hs hcls hreg
  refine ⟨?_, ?_⟩
  · unfold kmc.delete_ensembles
    cases hd : kmc.delete_ensembles_loop remove (k.ensembles, st1) with
    | error e =>
      simp only []
      intro heq
      apply hno
      rw [hd]
      simp only [Except.error.injEq] at heq
      rw [heq]
    | ok r => simp
  · intro kd std k' hdel hget
    unfold kmc.delete_ensembles at hdel
    cases hd : kmc.delete_ensembles_loop remove (k.ensembles, st1) with
    | error e => rw [hd] at hdel; cases hdel
    | ok r =>
      rw [hd] at hdel
      simp only [Except.ok.injEq, Prod.mk.injEq] at hdel
      obtain ⟨hkd, hstd⟩ := hdel
      obtain ⟨⟨F, hF, hFp⟩, henv, hnext, hheap⟩ := hok r hd
      rw [hstd] at henv hnext hheap
      have hkd_ens : kd.ensembles = k.ensembles.map (fun c => (c.1, F c)) := by
        rw [← hkd]; exact hF
      unfold kmc.get_ensembles_changed at hget
      rw [kmc.get_ensembles_loop_eq] at hget
      cases hreg2 : kmc.register_all std
          (changed.flatMap (fun e => (std.env e).ensembles.map (fun p => (p, e))))
          kd.ensembles with
      | error e => rw [hreg2] at hget; cases hget
      | ok ens' =>
        rw [hreg2] at hget
        simp only [Except.ok.injEq] at hget
        have hk'_ens : k'.ensembles = ens' := by rw [← hget]
        rw [hk'_ens]
        -- the pairs that are registered
        have hpairs : ∀ x : Nat × Nat,
            x ∈ changed.flatMap (fun e => (std.env e).ensembles.map (fun p => (p, e)))
              ↔ x.2 ∈ changed ∧ x.1 ∈ (st1.env x.2).ensembles := by
          intro x
          rw [henv]
          simp only [List.mem_flatMap, List.mem_map]
          constructor
          · rintro ⟨e, he, p, hp, rfl⟩
            exact ⟨he, hp⟩
          · rintro ⟨h1, h2⟩
            exact ⟨x.2, h1, x.1, h2, rfl⟩
        have hkd_sorted : kd.ensembles.Pairwise (fun a b => ensemble.lt a.1 b.1 = true) := by
          rw [hkd_ens, List.pairwise_map]
          exact hk
        have hpairs_nd :
            ((changed.flatMap (fun e => (std.env e).ensembles.map (fun p => (p, e)))).map
              Prod.fst).Nodup := by
          rw [henv]
          have : (changed.flatMap (fun e => (st1.env e).ensembles.map (fun p => (p, e)))).map
              Prod.fst = changed.flatMap (fun e => (st1.env e).ensembles) := by
            rw [List.map_flatMap]
            congr 1
            funext e
            rw [List.map_map]
            exact List.map_id _
          rw [this, List.nodup_flatMap]
          refine ⟨fun e he => (c4 e he).1, ?_⟩
          have hnd2 : changed.Pairwise (fun a b => a ≠ b) := c6
          have hall : ∀ a ∈ changed, ∀ b ∈ changed, a ≠ b →
              List.Disjoint (st1.env a).ensembles (st1.env b).ensembles := by
            intro a ha b hb hab p hpa hpb
            exact hab (c5 a ha b hb p hpa hpb)
          exact List.Pairwise.imp_of_mem (fun ha hb hab => hall _ ha _ hb hab) hnd2
        have hfresh : ∀ x ∈ changed.flatMap
            (fun e => (std.env e).ensembles.map (fun p => (p, e))),
            ∀ c ∈ kd.ensembles, ∀ y ∈ c.2, y.1 ≠ x.1 := by
          intro x hx c hc y hy
          obtain ⟨hx1, hx2⟩ := (hpairs x).1 hx
          rw [hkd_ens, List.mem_map] at hc
          obtain ⟨c0, hc0, rfl⟩ := hc
          have hy0 := ((hFp c0 hc0).2 y).1 hy
          have hylt : y.1 < st.next := hlt y.2 y.1 ((hinv c0 hc0 y.1 y.2).1 hy0.1).1
          have hxge := ((c4 x.2 hx1).2 x.1 hx2).1
          omega
        obtain ⟨G, hG, hGp⟩ := kmc.register_all_spec std _ kd.ensembles ens'
          hkd_sorted hpairs_nd hfresh hreg2
        have hens' : ens' = k.ensembles.map (fun c => (c.1, G (c.1, F c))) := by
          rw [hG, hkd_ens, List.map_map]
          rfl
        have hmem_kd : ∀ c ∈ k.ensembles, (c.1, F c) ∈ kd.ensembles := by
          intro c hc
          rw [hkd_ens]
          exact List.mem_map.2 ⟨c, hc, rfl⟩
        refine ⟨⟨?_, ?_, ⟨?_, ?_⟩, ?_⟩, ?_⟩
        · rw [hens', List.pairwise_map]
          exact hk
        · intro c hc
          rw [hens', List.mem_map] at hc
          obtain ⟨c0, hc0, rfl⟩ := hc
          exact (hGp _ (hmem_kd c0 hc0)).1 (hFp c0 hc0).1
        · intro e
          rw [henv]
          by_cases he : e ∈ changed
          · exact (c4 e he).1
          · rw [c3 e he]
            exact huniq.1 e
        · intro e1 e2 p hp1 hp2
          rw [henv] at hp1 hp2
          by_cases he1 : e1 ∈ changed
          · by_cases he2 : e2 ∈ changed
            · exact c5 e1 he1 e2 he2 p hp1 hp2
            · rw [c3 e2 he2] at hp2
              have := ((c4 e1 he1).2 p hp1).1
              have := hlt e2 p hp2
              omega
          · by_cases he2 : e2 ∈ changed
            · rw [c3 e1 he1] at hp1
              have := ((c4 e2 he2).2 p hp2).1
              have := hlt e1 p hp1
              omega
            · rw [c3 e1 he1] at hp1
              rw [c3 e2 he2] at hp2
              exact huniq.2 e1 e2 p hp1 hp2
        · intro e p hp
          rw [henv] at hp
          rw [hnext]
          by_cases he : e ∈ changed
          · exact ((c4 e he).2 p hp).2.1
          · rw [c3 e he] at hp
            have := hlt e p hp
            omega
        · intro c hc p e
          rw [hens', List.mem_map] at hc
          obtain ⟨c0, hc0, rfl⟩ := hc
          rw [(hGp _ (hmem_kd c0 hc0)).2 (p, e), (hFp c0 hc0).2 (p, e), hpairs (p, e), henv]
          simp only []
          constructor
          · rintro (⟨hold, hnr⟩ | ⟨⟨hech, hpe⟩, obj, hobj, hm⟩)
            · obtain ⟨hpe, obj, hobj, hm⟩ := (hinv c0 hc0 p e).1 hold
              have hech : e ∉ changed := fun hech => hnr ((hrem_mem p).2 ⟨e, hech, hpe⟩)
              refine ⟨by rw [c3 e hech]; exact hpe, obj, ?_, hm⟩
              rw [hheap p, if_neg hnr, c2 p (hlt e p hpe)]
              exact hobj
            · exact ⟨hpe, obj, hobj, hm⟩
          · rintro ⟨hpe, obj, hobj, hm⟩
            by_cases hech : e ∈ changed
            · exact Or.inr ⟨⟨hech, hpe⟩, obj, hobj, hm⟩
            · left
              rw [c3 e hech] at hpe
              have hnr : p ∉ remove := by
                intro hr
                rw [hheap p, if_pos hr] at hobj
                cases hobj
              rw [hheap p, if_neg hnr, c2 p (hlt e p hpe)] at hobj
              exact ⟨(hinv c0 hc0 p e).2 ⟨hpe, obj, hobj, hm⟩, hnr⟩

theorem kmc.well_formed_with_random (ens : List (ensemble × ens_env_map)) (st : store) (g : rng)
    (h : kmc.well_formed ens st) : kmc.well_formed ens (st.with_random g) := h

theorem kmc.classes_registered_with_random (ens : List (ensemble × ens_env_map)) (st : store)
    (g : rng) (h : kmc.classes_registered ens st) :
    kmc.classes_registered ens (st.with_random g) := h

/-- The invariant of the class map is kept by the surface branch of
`kmc::perform_reaction`. -/
theorem kmc.perform_reaction_surface_registered (sc : Nat → Nat) (k k' : kmc) (st st' : store)
    (ens_map_it : ensemble) (products : List Nat)
    (hwf : kmc.well_formed k.ensembles st) (hinv : kmc.classes_registered k.ensembles st)
    (h : kmc.perform_reaction_surface sc k st ens_map_it products = .ok (k', st')) :
    kmc.well_formed k'.ensembles st' ∧ kmc.classes_registered k'.ensembles st' := by
  unfold kmc.perform_reaction_surface at h
  cases hfind : map_find ensemble.lt k.ensembles ens_map_it with
  | none => simp only [hfind] at h; cases h
  | some entry =>
    simp only [hfind] at h
    split_ifs at h with hsize
    cases hrand : st.random with
    | none => simp only [hrand] at h; cases h
    | some g =>
      simp only [hrand] at h
      cases hr : g.get_random_n (entry.2.length % 2 ^ 32) with
      | error e => simp only [hr] at h; cases h
      | ok r =>
        simp only [hr] at h
        cases hget : entry.2[r.1 % 2 ^ 32]? with
        | none => simp only [hget] at h; cases h
        | some ens_env_it =>
          simp only [hget] at h
          cases hch : environment.change_ensemble sc (st.with_random r.2) ens_env_it.2
              ens_env_it.1 products [] [] with
          | error e => simp only [hch] at h; cases h
          | ok changed =>
            simp only [hch] at h
            obtain ⟨st1, remove, chg⟩ := changed
            have hupd := (kmc.update_registered sc k (st.with_random r.2) st1 ens_env_it.2
              ens_env_it.1 products remove chg (kmc.well_formed_with_random _ _ _ hwf)
              (kmc.classes_registered_with_random _ _ _ hinv) hch).2
            cases hdel : kmc.delete_ensembles k st1 remove with
            | error e => simp only [hdel] at h; cases h
            | ok deleted =>
              simp only [hdel] at h
              obtain ⟨kd, std⟩ := deleted
              cases hge : kmc.get_ensembles_changed kd std chg with
              | error e => simp only [hge] at h; cases h
              | ok k1 =>
                simp only [hge, Except.ok.injEq, Prod.mk.injEq] at h
                obtain ⟨rfl, rfl⟩ := h
                exact hupd kd std k1 hdel hge

theorem kmc.perform_reaction_direction_registered (sc : Nat → Nat)
    (reactor : List Nat → List Nat → Option exn) (k k' : kmc) (st st' : store)
    (ens_map_it : ensemble_map_iter) (reactants products : Option (List Nat))
    (hwf : kmc.well_formed k.ensembles st) (hinv : kmc.classes_registered k.ensembles st)
    (h : kmc.perform_reaction_direction sc reactor k st ens_map_it reactants products
      = .ok (k', st')) :
    kmc.well_formed k'.ensembles st' ∧ kmc.classes_registered k'.ensembles st' := by
  unfold kmc.perform_reaction_direction at h
  cases reactants with
  | none => cases h
  | some rs =>
    cases products with
    | none => cases h
    | some ps =>
      cases ens_map_it with
      | none =>
        simp only [] at h
        cases hre : reactor rs ps with
        | some e => simp only [hre] at h; cases h
        | none =>
          simp only [hre, Except.ok.injEq, Prod.mk.injEq] at h
          obtain ⟨rfl, rfl⟩ := h
          exact ⟨hwf, hinv⟩
      | some ens =>
        simp only [] at h
        cases hs : kmc.perform_reaction_surface sc k st ens ps with
        | error e => simp only [hs] at h; cases h
        | ok r =>
          simp only [hs] at h
          cases hre : reactor rs ps with
          | some e => simp only [hre] at h; cases h
          | none =>
            simp only [hre, Except.ok.injEq] at h
            subst h
            exact kmc.perform_reaction_surface_registered sc k k' st st' ens ps hwf hinv hs

/-- The invariant of the class map is kept by
`kmc::perform_reaction(rxn_ensemble_iter_map_iter, double)`. -/
theorem kmc.perform_reaction_registered (sc : Nat → Nat)
    (reactor : List Nat → List Nat → Option exn) (k k' : kmc) (st st' : store)
    (rxn : model_reaction) (rxn_for_rev : ensemble_map_iter × ensemble_map_iter) (rate : ℚ)
    (hwf : kmc.well_formed k.ensembles st) (hinv : kmc.classes_registered k.ensembles st)
    (h : kmc.perform_reaction sc reactor k st rxn rxn_for_rev rate = .ok (k', st')) :
    kmc.well_formed k'.ensembles st' ∧ kmc.classes_registered k'.ensembles st' := by
  unfold kmc.perform_reaction at h
  split_ifs at h
  · exact kmc.perform_reaction_direction_registered sc reactor k k' st st' _ _ _ hwf hinv h
  · exact kmc.perform_reaction_direction_registered sc reactor k k' st st' _ _ _ hwf hinv h

/-- The invariant of the class map is kept by
`kmc::perform_reaction(model_reaction&)`. -/
theorem kmc.perform_reaction_rxn_registered (sc : Nat → Nat)
    (reactor : List Nat → List Nat → Option exn) (k k' : kmc) (st st' : store)
    (rxn : model_reaction) (b : Bool)
    (hwf : kmc.well_formed k.ensembles st) (hinv : kmc.classes_registered k.ensembles st)
    (h : kmc.perform_reaction_rxn sc reactor k st rxn = .ok (b, k', st')) :
    kmc.well_formed k'.ensembles st' ∧ kmc.classes_registered k'.ensembles st' := by
  unfold kmc.perform_reaction_rxn at h
  cases hseq : rxn.get_reactant_seq with
  | error e => simp only [hseq] at h; cases h
  | ok reactant_seq =>
    simp only [hseq] at h
    cases hfind : map_find ensemble.lt k.ensembles (ensemble.ctor sc reactant_seq) with
    | none => simp only [hfind] at h; cases h
    | some em_it =>
      simp only [hfind] at h
      split_ifs at h
      · simp only [Except.ok.injEq, Prod.mk.injEq] at h
        obtain ⟨_, rfl, rfl⟩ := h
        exact ⟨hwf, hinv⟩
      · cases hp : kmc.perform_reaction sc reactor k st rxn (some em_it.1, none) 1 with
        | error e => simp only [hp] at h; cases h
        | ok r =>
          simp only [hp, Except.ok.injEq, Prod.mk.injEq] at h
          obtain ⟨k1, st1⟩ := r
          obtain ⟨_, h2⟩ := h
          simp only [Prod.mk.injEq] at h2
          obtain ⟨rfl, rfl⟩ := h2
          exact kmc.perform_reaction_registered sc reactor k k1 st st1 rxn _ 1 hwf hinv hp

/-! ## Lemmas on `kmc::initialize` -/

/-- A step that leaves the ensemble list of an environment as it is, or empty,
keeps the registration of the instances. -/
theorem store.instances_in_of_same (st st' : store) (envs : List Nat)
    (hnext : st.next ≤ st'.next)
    (henv : ∀ e, (st'.env e).ensembles = (st.env e).ensembles ∨ (st'.env e).ensembles = [])
    (h : st.instances_in envs) : st'.instances_in envs := by
  obtain ⟨⟨h1, h2⟩, h3, h4⟩ := h
  refine ⟨⟨?_, ?_⟩, ?_, ?_⟩
  · intro e
    rcases henv e with he | he <;> rw [he]
    · exact h1 e
    · exact List.nodup_nil
  · intro e1 e2 p hp1 hp2
    rcases henv e1 with he1 | he1 <;> rw [he1] at hp1
    · rcases henv e2 with he2 | he2 <;> rw [he2] at hp2
      · exact h2 e1 e2 p hp1 hp2
      · cases hp2
    · cases hp1
  · intro e p hp
    rcases henv e with he | he <;> rw [he] at hp
    · exact Nat.lt_of_lt_of_le (h3 e p hp) hnext
    · cases hp
  · intro e he
    rcases henv e with he' | he'
    · rw [he']; exact h4 e he
    · exact he'

/-- The call `create_ensembles` at an environment of `envs` keeps the
registration of the instances. -/
theorem store.instances_in_recreated (st st' : store) (envs : List Nat) (this : Nat)
    (hthis : this ∈ envs) (hr : st.recreated st' [this]) (h : st.instances_in envs) :
    st'.instances_in envs := by
  obtain ⟨⟨h1, h2⟩, h3, h4⟩ := h
  obtain ⟨r1, _, r3, _, _, _, r7, _⟩ := hr
  have hother : ∀ e, e ≠ this → st'.env e = st.env e := fun e he => r3 e (by simpa using he)
  have hnew := r7 this (List.mem_singleton_self _)
  refine ⟨⟨?_, ?_⟩, ?_, ?_⟩
  · intro e
    by_cases he : e = this
    · rw [he]; exact hnew.1
    · rw [hother e he]; exact h1 e
  · intro e1 e2 p hp1 hp2
    by_cases he1 : e1 = this
    · by_cases he2 : e2 = this
      · rw [he1, he2]
      · rw [hother e2 he2] at hp2
        rw [he1] at hp1
        have := (hnew.2 p hp1).1
        have := h3 e2 p hp2
        omega
    · by_cases he2 : e2 = this
      · rw [hother e1 he1] at hp1
        rw [he2] at hp2
        have := (hnew.2 p hp2).1
        have := h3 e1 p hp1
        omega
      · rw [hother e1 he1] at hp1
        rw [hother e2 he2] at hp2
        exact h2 e1 e2 p hp1 hp2
  · intro e p hp
    by_cases he : e = this
    · rw [he] at hp
      exact (hnew.2 p hp).2.1
    · rw [hother e he] at hp
      exact Nat.lt_of_lt_of_le (h3 e p hp) r1
  · intro e he
    have hne : e ≠ this := fun h => he (h ▸ hthis)
    rw [hother e hne]
    exact h4 e he

theorem environment.set_neighbors_instances (st st' : store) (this : Nat)
    (surface : List (List Nat)) (h : environment.set_neighbors st this surface = .ok st') :
    st'.next = st.next ∧ ∀ e, (st'.env e).ensembles = (st.env e).ensembles := by
  unfold environment.set_neighbors at h
  split_ifs at h with h1
  · simp only [Except.ok.injEq] at h
    subst h
    exact ⟨rfl, fun _ => rfl⟩
  · cases hh : surface.head? with
    | none => simp only [hh] at h; cases h
    | some first =>
      simp only [hh] at h
      split_ifs at h with h2
      cases ha : (environment.neighbor_elements st.env_type (st.env this).center surface
          first).allSome with
      | none => simp only [ha] at h; cases h
      | some added =>
        simp only [ha, Except.ok.injEq] at h
        subst h
        refine ⟨rfl, fun e => ?_⟩
        by_cases he : e = this
        · subst he; simp [Function.update_same]
        · simp [Function.update_noteq he]

theorem environment.connectivity_instances (fuel : Nat) (st st' : store) (this n_sites : Nat)
    (h : environment.connectivity fuel st this n_sites = .ok st') :
    st'.next = st.next ∧ st'.ens = st.ens ∧
    ∀ e, (st'.env e).ensembles = (st.env e).ensembles := by
  unfold environment.connectivity at h
  split_ifs at h with h1 h2
  · revert h
    split
    · intro h; cases h
    · intro h
      simp only [Except.ok.injEq] at h
      subst h
      refine ⟨rfl, rfl, fun e => ?_⟩
      by_cases he : e = this
      · subst he; simp [Function.update_same]
      · simp [Function.update_noteq he]
  · simp only [Except.ok.injEq] at h
    subst h
    refine ⟨rfl, rfl, fun e => ?_⟩
    by_cases he : e = this
    · subst he; simp [Function.update_same]
    · simp [Function.update_noteq he]

/-- The call `environment::initialize` at an environment of `envs` keeps the
registration of the instances. -/
theorem environment.initialize_instances (sc : Nat → Nat) (fuel : Nat) (st st' : store)
    (this : Nat) (envs : List Nat) (hthis : this ∈ envs) (hin : st.instances_in envs)
    (h : environment.initialize sc fuel st this = .ok st') : st'.instances_in envs := by
  unfold environment.initialize at h
  split at h
  · cases h
  · cases hc : environment.connectivity fuel
        { st with env := Function.update st.env this { (st.env this) with sites := [] } }
        this st.max_sites with
    | error e => simp only [hc] at h; cases h
    | ok st1 =>
      simp only [hc] at h
      cases hcr : environment.create_ensembles sc st1 this with
      | error e => simp only [hcr] at h; cases h
      | ok st2 =>
        simp only [hcr, Except.ok.injEq] at h
        obtain ⟨c1, _, c3⟩ := environment.connectivity_instances fuel _ st1 this st.max_sites hc
        have hin1 : st1.instances_in envs := by
          refine store.instances_in_of_same st st1 envs (Nat.le_of_eq c1.symm) ?_ hin
          intro e
          left
          rw [c3 e]
          by_cases he : e = this
          · subst he; simp [Function.update_same]
          · simp [Function.update_noteq he]
        have hin2 := store.instances_in_recreated st1 st2 envs this hthis
          (environment.create_ensembles_recreated sc st1 st2 this hcr) hin1
        refine store.instances_in_of_same st2 st' envs (by rw [← h]) ?_ hin2
        intro e
        left
        rw [← h]
        by_cases he : e = this
        · subst he; simp [Function.update_same]
        · simp [Function.update_noteq he]

theorem kmc.initialize_all_instances (sc : Nat → Nat) (fuel : Nat) (envs : List Nat) :
    ∀ (l : List Nat) (st st' : store), (∀ e ∈ l, e ∈ envs) → st.instances_in envs →
      kmc.initialize_all sc fuel l st = .ok st' → st'.instances_in envs := by
  intro l
  induction l with
  | nil =>
    intro st st' _ hin h
    simp only [kmc.initialize_all, Except.ok.injEq] at h
    subst h
    exact hin
  | cons eit rest ih =>
    intro st st' hl hin h
    simp only [kmc.initialize_all] at h
    cases h1 : environment.initialize sc fuel st eit with
    | error e => simp only [h1] at h; cases h
    | ok st1 =>
      simp only [h1] at h
      exact ih st1 st' (fun e he => hl e (List.mem_cons_of_mem _ he))
        (environment.initialize_instances sc fuel st st1 eit envs
          (hl eit (List.mem_cons_self _ _)) hin h1) h

theorem kmc.set_neighbors_all_instances (env_surface : List (List Nat)) (envs : List Nat) :
    ∀ (l : List Nat) (st st' : store), st.instances_in envs →
      kmc.set_neighbors_all env_surface l st = .ok st' → st'.instances_in envs := by
  intro l
  induction l with
  | nil =>
    intro st st' hin h
    simp only [kmc.set_neighbors_all, Except.ok.injEq] at h
    subst h
    exact hin
  | cons eit rest ih =>
    intro st st' hin h
    simp only [kmc.set_neighbors_all] at h
    cases h1 : environment.set_neighbors st eit env_surface with
    | error e => simp only [h1] at h; cases h
    | ok st1 =>
      simp only [h1] at h
      obtain ⟨n1, e1⟩ := environment.set_neighbors_instances st st1 eit env_surface h1
      exact ih st1 st' (store.instances_in_of_same st st1 envs (Nat.le_of_eq n1.symm)
        (fun e => Or.inl (e1 e)) hin) h

theorem kmc.create_environments_row_instances (surface : lattice) (row : Nat)
    (envs : List Nat) :
    ∀ (l : List Nat) (acc r : List Nat × store), acc.2.instances_in envs →
      kmc.create_environments_row surface row l acc = .ok r → r.2.instances_in envs := by
  intro l
  induction l with
  | nil =>
    intro acc r hin h
    simp only [kmc.create_environments_row, Except.ok.injEq] at h
    subst h
    exact hin
  | cons col rest ih =>
    intro acc r hin h
    simp only [kmc.create_environments_row] at h
    cases h1 : surface.get_point row col with
    | error e => simp only [h1] at h; cases h
    | ok point =>
      simp only [h1] at h
      refine ih _ r ?_ h
      refine store.instances_in_of_same acc.2 _ envs (Nat.le_succ _) ?_ hin
      intro e
      by_cases he : e = acc.2.next
      · right
        subst he
        simp [Function.update_same, environment.ctor]
      · left
        simp [Function.update_noteq he]

theorem kmc.create_environments_rows_instances (surface : lattice) (envs : List Nat) :
    ∀ (l : List Nat) (acc r : List (List Nat) × store), acc.2.instances_in envs →
      kmc.create_environments_rows surface l acc = .ok r → r.2.instances_in envs := by
  intro l
  induction l with
  | nil =>
    intro acc r hin h
    simp only [kmc.create_environments_rows, Except.ok.injEq] at h
    subst h
    exact hin
  | cons row rest ih =>
    intro acc r hin h
    simp only [kmc.create_environments_rows] at h
    cases h1 : kmc.create_environments_row surface row (List.range surface.get_size)
        ([], acc.2) with
    | error e => simp only [h1] at h; cases h
    | ok r1 =>
      simp only [h1] at h
      exact ih _ r (kmc.create_environments_row_instances surface row envs _ ([], acc.2) r1
        hin h1) h

theorem store.instances_in_mono (st : store) (envs envs' : List Nat)
    (hsub : ∀ e ∈ envs, e ∈ envs') (h : st.instances_in envs) : st.instances_in envs' :=
  ⟨h.1, h.2.1, fun e he => h.2.2 e (fun hm => he (hsub e hm))⟩

/-- After `kmc::create_environments` on a store without instances, the
instances are registered at the environments of the engine, each at one
environment, once; the class map is as before. -/
theorem kmc.create_environments_instances (sc : Nat → Nat) (fuel : Nat) (k k' : kmc)
    (st st' : store) (empty_site : Option Nat)
    (hempty : ∀ e, (st.env e).ensembles = [])
    (h : kmc.create_environments sc fuel k st empty_site = .ok (k', st')) :
    k'.ensembles = k.ensembles ∧ st'.instances_in k'.environments := by
  unfold kmc.create_environments at h
  cases htype : k.env_type with
  | none => simp only [htype] at h; cases h
  | some type =>
    simp only [htype] at h
    cases hrows : kmc.create_environments_rows k.surface (List.range k.surface.get_size)
        ([], { st with
          env_type := type, radial := k.env_radial, max_sites := k.max_sites,
          random := k.random, empty_site := empty_site }) with
    | error e => simp only [hrows] at h; cases h
    | ok created =>
      simp only [hrows] at h
      cases hnb : kmc.set_neighbors_all created.1 (k.environments ++ created.1.flatten)
          created.2 with
      | error e => simp only [hnb] at h; cases h
      | ok st1 =>
        simp only [hnb] at h
        cases hini : kmc.initialize_all sc fuel (k.environments ++ created.1.flatten) st1 with
        | error e => simp only [hini] at h; cases h
        | ok st2 =>
          simp only [hini, Except.ok.injEq, Prod.mk.injEq] at h
          obtain ⟨rfl, rfl⟩ := h
          refine ⟨rfl, ?_⟩
          have h0 : store.instances_in { st with
              env_type := type, radial := k.env_radial, max_sites := k.max_sites,
              random := k.random, empty_site := empty_site } [] := by
            refine ⟨⟨fun e => ?_, fun e1 e2 p hp1 _ => ?_⟩, fun e p hp => ?_, fun e _ => hempty e⟩
            · show (st.env e).ensembles.Nodup
              rw [hempty e]; exact List.nodup_nil
            · have : p ∈ (st.env e1).ensembles := hp1
              rw [hempty e1] at this; cases this
            · have : p ∈ (st.env e).ensembles := hp
              rw [hempty e] at this; cases this
          have h1 := kmc.create_environments_rows_instances k.surface [] _ _ created h0 hrows
          have h2 := store.instances_in_mono _ [] (k.environments ++ created.1.flatten)
            (fun e he => by cases he) h1
          have h3 := kmc.set_neighbors_all_instances created.1 _ _ created.2 st1 h2 hnb
          exact kmc.initialize_all_instances sc fuel _ _ st1 st2 (fun e he => he) h3 hini

theorem kmc.classes_empty_insert (key : ensemble) (ens : List (ensemble × ens_env_map))
    (h : kmc.classes_empty ens) : kmc.classes_empty (map_insert ensemble.lt (key, []) ens) := by
  obtain ⟨hs, hm⟩ := map_insert_ensemble_sorted (key, []) ens h.1
  refine ⟨hs, fun c hc => ?_⟩
  rcases hm c hc with rfl | hc
  · rfl
  · exact h.2 c hc

theorem kmc.create_ensembles_reaction_classes (sc : Nat → Nat) (k k' : kmc) (rxn : Nat)
    (r : model_reaction) (hk : kmc.classes_empty k.ensembles)
    (h : kmc.create_ensembles_reaction sc k rxn r = .ok k') :
    kmc.classes_empty k'.ensembles := by
  unfold kmc.create_ensembles_reaction at h
  split at h
  · cases h
  · cases h
  · split_ifs at h
    all_goals
      simp only [Except.ok.injEq] at h
      subst h
      first
        | exact hk
        | exact kmc.classes_empty_insert _ _ hk
        | exact kmc.classes_empty_insert _ _ (kmc.classes_empty_insert _ _ hk)

theorem kmc.create_ensembles_reactions_classes (sc : Nat → Nat) (rs : List model_reaction) :
    ∀ (rxn : Nat) (k k' : kmc), kmc.classes_empty k.ensembles →
      kmc.create_ensembles_reactions sc rs rxn k = .ok k' → kmc.classes_empty k'.ensembles := by
  induction rs with
  | nil =>
    intro rxn k k' hk h
    simp only [kmc.create_ensembles_reactions, Except.ok.injEq] at h
    subst h
    exact hk
  | cons r rest ih =>
    intro rxn k k' hk h
    simp only [kmc.create_ensembles_reactions] at h
    cases h1 : kmc.create_ensembles_reaction sc k rxn r with
    | error e => simp only [h1] at h; cases h
    | ok k1 =>
      simp only [h1] at h
      exact ih (rxn + 1) k1 k' (kmc.create_ensembles_reaction_classes sc k k1 rxn r hk h1) h

theorem kmc.create_ensembles_empties_classes (sc : Nat → Nat) (empty_site : Nat) (n : Nat) :
    ∀ (i : Nat) (ens : List (ensemble × ens_env_map)), kmc.classes_empty ens →
      kmc.classes_empty (kmc.create_ensembles_empties sc empty_site n i ens) := by
  induction n with
  | zero => intro i ens h; exact h
  | succ n ih =>
    intro i ens h
    exact ih (i + 1) _ (kmc.classes_empty_insert _ _ h)

/-- The class map that `kmc::create_ensembles` builds from a class map without
instances has ascending keys and no instances. -/
theorem kmc.create_ensembles_classes (sc : Nat → Nat) (mech : model_mechanism)
    (empty_site : Option Nat) (k k' : kmc) (hk : kmc.classes_empty k.ensembles)
    (h : kmc.create_ensembles sc mech empty_site k = .ok k') :
    kmc.classes_empty k'.ensembles := by
  unfold kmc.create_ensembles at h
  cases h1 : kmc.create_ensembles_reactions sc mech.reactions 0 k with
  | error e => simp only [h1] at h; cases h
  | ok k1 =>
    simp only [h1] at h
    have hk1 := kmc.create_ensembles_reactions_classes sc mech.reactions 0 k k1 hk h1
    cases empty_site with
    | none =>
      simp only [] at h
      split_ifs at h
      all_goals
        simp only [Except.ok.injEq] at h
        subst h
        exact hk1
    | some empty =>
      simp only [] at h
      split_ifs at h
      · simp only [Except.ok.injEq] at h
        subst h
        exact kmc.create_ensembles_empties_classes sc empty _ 1 _ hk1
      · simp only [Except.ok.injEq] at h
        subst h
        exact hk1

/-- The call `kmc::get_ensembles()` on a class map without instances
establishes the invariant of the class map. -/
theorem kmc.get_ensembles_registered (k k' : kmc) (st : store)
    (hk : kmc.classes_empty k.ensembles) (hin : st.instances_in k.environments)
    (h : kmc.get_ensembles k st = .ok k') :
    k'.environments = k.environments ∧
    kmc.well_formed k'.ensembles st ∧ kmc.classes_registered k'.ensembles st := by
  obtain ⟨huniq, hlt, hout⟩ := hin
  unfold kmc.get_ensembles kmc.get_ensembles_changed at h
  rw [kmc.get_ensembles_loop_eq] at h
  cases hreg : kmc.register_all st
      ((set_insert_range ptr_lt [] k.environments).flatMap
        (fun e => (st.env e).ensembles.map (fun p => (p, e)))) k.ensembles with
  | error e => rw [hreg] at h; cases h
  | ok ens' =>
    rw [hreg] at h
    simp only [Except.ok.injEq] at h
    subst h
    refine ⟨rfl, ?_⟩
    show kmc.well_formed ens' st ∧ kmc.classes_registered ens' st
    have hset_mem : ∀ e, e ∈ set_insert_range ptr_lt [] k.environments ↔ e ∈ k.environments := by
      intro e
      rw [set_insert_range_ptr_mem]
      simp
    have hset_nd : (set_insert_range ptr_lt [] k.environments).Nodup :=
      pairwise_lt_nodup _ (set_insert_range_ptr_sorted _ _ List.Pairwise.nil)
    have hpairs : ∀ x : Nat × Nat,
        x ∈ (set_insert_range ptr_lt [] k.environments).flatMap
          (fun e => (st.env e).ensembles.map (fun p => (p, e)))
          ↔ x.2 ∈ k.environments ∧ x.1 ∈ (st.env x.2).ensembles := by
      intro x
      simp only [List.mem_flatMap, List.mem_map, hset_mem]
      constructor
      · rintro ⟨e, he, p, hp, rfl⟩
        exact ⟨he, hp⟩
      · rintro ⟨h1, h2⟩
        exact ⟨x.2, h1, x.1, h2, rfl⟩
    have hpairs_nd : (((set_insert_range ptr_lt [] k.environments).flatMap
        (fun e => (st.env e).ensembles.map (fun p => (p, e)))).map Prod.fst).Nodup := by
      have : ((set_insert_range ptr_lt [] k.environments).flatMap
          (fun e => (st.env e).ensembles.map (fun p => (p, e)))).map Prod.fst
          = (set_insert_range ptr_lt [] k.environments).flatMap
            (fun e => (st.env e).ensembles) := by
        rw [List.map_flatMap]
        congr 1
        funext e
        rw [List.map_map]
        exact List.map_id _
      rw [this, List.nodup_flatMap]
      refine ⟨fun e _ => huniq.1 e, ?_⟩
      apply hset_nd.imp
      intro a b hab
      show List.Disjoint (st.env a).ensembles (st.env b).ensembles
      intro p hpa hpb
      exact hab (huniq.2 a b p hpa hpb)
    have hfresh : ∀ x ∈ (set_insert_range ptr_lt [] k.environments).flatMap
        (fun e => (st.env e).ensembles.map (fun p => (p, e))),
        ∀ c ∈ k.ensembles, ∀ y ∈ c.2, y.1 ≠ x.1 := by
      intro x _ c hc y hy
      rw [hk.2 c hc] at hy
      cases hy
    obtain ⟨F, hF, hFp⟩ := kmc.register_all_spec st _ k.ensembles ens' hk.1 hpairs_nd hfresh hreg
    refine ⟨⟨?_, ?_, huniq, hlt⟩, ?_⟩
    · rw [hF, List.pairwise_map]
      exact hk.1
    · intro c hc
      rw [hF, List.mem_map] at hc
      obtain ⟨c0, hc0, rfl⟩ := hc
      refine (hFp c0 hc0).1 ?_
      rw [hk.2 c0 hc0]
      exact List.Pairwise.nil
    · intro c hc p e
      rw [hF, List.mem_map] at hc
      obtain ⟨c0, hc0, rfl⟩ := hc
      rw [(hFp c0 hc0).2 (p, e), hpairs (p, e), hk.2 c0 hc0]
      simp only [List.not_mem_nil, false_or]
      constructor
      · rintro ⟨⟨_, hpe⟩, hobj⟩
        exact ⟨hpe, hobj⟩
      · rintro ⟨hpe, hobj⟩
        refine ⟨⟨?_, hpe⟩, hobj⟩
        by_contra he
        rw [hout e he] at hpe
        cases hpe

/-- The method `kmc::initialize`, when it starts with a class map without
instances and a store without instances, establishes the invariant of the
class map. -/
theorem kmc.initialize_registered (sc : Nat → Nat) (mech : model_mechanism) (empty : Option Nat)
    (fuel : Nat) (k k' : kmc) (st st' : store) (hk : kmc.classes_empty k.ensembles)
    (hempty : ∀ e, (st.env e).ensembles = [])
    (h : kmc.initialize sc mech empty fuel k st = .ok (k', st')) :
    kmc.well_formed k'.ensembles st' ∧ kmc.classes_registered k'.ensembles st' := by
  unfold kmc.initialize at h
  split at h
  · cases h
  · rename_i r _
    cases h1 : kmc.create_ensembles sc mech r.1
        { kmc.calc_max_coordination sc mech k with
          max_sites := (kmc.calc_max_coordination sc mech k).max_coordination
          surface := r.2 } with
    | error e => simp only [h1] at h; cases h
    | ok k1 =>
      simp only [h1] at h
      have hk1 := kmc.create_ensembles_classes sc mech r.1 _ k1 (by exact hk) h1
      cases h2 : k1.surface.initialize r.1 with
      | error e => simp only [h2] at h; cases h
      | ok surface =>
        simp only [h2] at h
        cases h3 : kmc.create_environments sc fuel { k1 with surface := surface } st r.1 with
        | error e => simp only [h3] at h; cases h
        | ok created =>
          simp only [h3] at h
          obtain ⟨kc, stc⟩ := created
          obtain ⟨hens, hin⟩ := kmc.create_environments_instances sc fuel _ kc st stc r.1
            hempty h3
          cases h4 : kmc.get_ensembles kc stc with
          | error e => simp only [h4] at h; cases h
          | ok k2 =>
            simp only [h4, Except.ok.injEq, Prod.mk.injEq] at h
            obtain ⟨rfl, rfl⟩ := h
            have hkc : kmc.classes_empty kc.ensembles := by rw [hens]; exact hk1
            exact (kmc.get_ensembles_registered kc k2 stc hkc hin h4).2

theorem example_initialize_eq :
    kmc.initialize example_sc example_mech (some 1) 20 example_engine example_memory
      = .ok (example_engine_init, example_memory_init) := rfl

theorem example_reaction_eq :
    kmc.perform_reaction_surface example_sc example_engine_init example_memory_init
      (ensemble.ctor example_sc [1, 1]) [2]
      = .ok (example_engine_reacted, example_memory_reacted) := rfl

theorem example_rxn_balanced_seq :
    example_rxn_balanced.create_species_seq = (true, [1, 1], [2]) := by
  simp [model_reaction.create_species_seq, model_reaction.create_species_seq_of_nat,
    example_rxn_balanced, model_reaction.create_species_seq_of_nil, List.replicate]

theorem example_perform_reaction_eq :
    kmc.perform_reaction example_sc (fun _ _ => none) example_engine_init example_memory_init
      example_rxn_balanced (some (ensemble.ctor example_sc [1, 1]), none) 1
      = .ok (example_engine_reacted, example_memory_reacted) := by
  unfold kmc.perform_reaction
  rw [if_pos (by norm_num)]
  unfold model_reaction.get_reactant_seq_ptr model_reaction.get_product_seq_ptr
  rw [example_rxn_balanced_seq]
  simp only [if_true]
  unfold kmc.perform_reaction_direction
  simp only [example_reaction_eq]

/-- The engines that the program reaches keep the invariant of the class map
and the well-formedness of the containers. -/
theorem kmc.reached_registered (sc : Nat → Nat) (mech : model_mechanism) (empty : Option Nat)
    (fuel : Nat) (reactor : List Nat → List Nat → Option exn) (k : kmc) (st : store)
    (h : kmc.reached sc mech empty fuel reactor k st) :
    kmc.well_formed k.ensembles st ∧ kmc.classes_registered k.ensembles st := by
  induction h with
  | init hk _ _ _ hst hinit =>
    refine kmc.initialize_registered sc mech empty fuel _ _ _ _ ?_ ?_ hinit
    · rw [hk]
      exact ⟨List.Pairwise.nil, fun c hc => by cases hc⟩
    · intro e
      obtain ⟨c, hc⟩ := hst e
      rw [hc]
      rfl
  | coverage _ hstep ih =>
    exact kmc.perform_reaction_rxn_registered sc reactor _ _ _ _ _ _ ih.1 ih.2 hstep
  | step _ hstep ih =>
    exact kmc.perform_reaction_registered sc reactor _ _ _ _ _ _ _ ih.1 ih.2 hstep

/-! ## Lemmas on `environment::connectivity` -/

theorem environment.within_refl (nb : Nat → List Nat) (k a : Nat) :
    environment.within nb k a a := by
  cases k with
  | zero => rfl
  | succ k => exact Or.inl rfl

theorem environment.within_step (nb : Nat → List Nat) (k a c b : Nat) (hc : c ∈ nb a)
    (h : environment.within nb k c b) : environment.within nb (k + 1) a b :=
  Or.inr ⟨c, hc, h⟩

theorem environment.within_succ (nb : Nat → List Nat) :
    ∀ (k a b : Nat), environment.within nb k a b → environment.within nb (k + 1) a b
  | 0, a, b, h => Or.inl h
  | k + 1, a, b, h => by
    rcases h with h | ⟨c, hc, h⟩
    · exact Or.inl h
    · exact Or.inr ⟨c, hc, environment.within_succ nb k c b h⟩

/-- A path is extended at its end. -/
theorem environment.within_snoc (nb : Nat → List Nat) :
    ∀ (k a c b : Nat), environment.within nb k a c → b ∈ nb c →
      environment.within nb (k + 1) a b
  | 0, a, c, b, h, hb => by
    have : a = c := h
    subst this
    exact Or.inr ⟨b, hb, rfl⟩
  | k + 1, a, c, b, h, hb => by
    rcases h with h | ⟨d, hd, h⟩
    · subst h
      exact Or.inr ⟨b, hb, environment.within_refl nb (k + 1) b⟩
    · exact Or.inr ⟨d, hd, environment.within_snoc nb k d c b h hb⟩

/-- With a symmetric neighbour relation, paths are reversed. -/
theorem environment.within_symm (nb : Nat → List Nat)
    (hsym : ∀ a b, b ∈ nb a → a ∈ nb b) :
    ∀ (k a b : Nat), environment.within nb k a b → environment.within nb k b a
  | 0, a, b, h => by
    have : a = b := h
    exact this.symm
  | k + 1, a, b, h => by
    rcases h with h | ⟨c, hc, h⟩
    · exact Or.inl h.symm
    · exact environment.within_snoc nb k b c a (environment.within_symm nb hsym k c b h)
        (hsym a c hc)

/-- An environment that is reached by a path with a step is a neighbor of an
environment. -/
theorem environment.within_neighbor (nb : Nat → List Nat) :
    ∀ (k a b : Nat), environment.within nb k a b → a ≠ b → ∃ c, b ∈ nb c
  | 0, a, b, h, hne => absurd h hne
  | k + 1, a, b, h, hne => by
    rcases h with h | ⟨c, hc, h⟩
    · exact absurd h hne
    · by_cases hcb : c = b
      · subst hcb
        exact ⟨a, hc⟩
      · exact environment.within_neighbor nb k c b h hcb

theorem environment.near_symm (nb : Nat → List Nat) (radial : Bool) (max_sites : Nat)
    (hsym : ∀ a b, b ∈ nb a → a ∈ nb b) (e m : Nat)
    (h : environment.near nb radial max_sites e m) :
    environment.near nb radial max_sites m e := by
  unfold environment.near at h ⊢
  cases radial with
  | true =>
    simp only [if_true] at h ⊢
    exact ⟨h.1, environment.within_symm nb hsym _ e m h.2⟩
  | false =>
    simp only [Bool.false_eq_true, if_false] at h ⊢
    rcases h with h | h
    · exact Or.inl h.symm
    · exact Or.inr (hsym e m h)

theorem environment.near_self (nb : Nat → List Nat) (radial : Bool) (max_sites : Nat)
    (e m : Nat) (h : environment.near nb radial max_sites e m) :
    environment.near nb radial max_sites m m := by
  unfold environment.near at h ⊢
  cases radial with
  | true =>
    simp only [if_true] at h ⊢
    exact ⟨h.1, environment.within_refl nb _ m⟩
  | false =>
    rw [if_neg (by simp)]
    exact Or.inl rfl

theorem environment.near_neighbor (nb : Nat → List Nat) (radial : Bool) (max_sites : Nat)
    (e m : Nat) (h : environment.near nb radial max_sites e m) (hne : e ≠ m) :
    ∃ c, m ∈ nb c := by
  unfold environment.near at h
  cases radial with
  | true =>
    simp only [if_true] at h
    exact environment.within_neighbor nb _ e m h.2 hne
  | false =>
    simp only [Bool.false_eq_true, if_false] at h
    rcases h with h | h
    · exact absurd h.symm hne
    · exact ⟨e, h⟩

/-- The first component of a loop that updates a pair, when the update of the
first component does not depend on the second. -/
theorem foldl_pair_fst {α β γ : Type} (F : γ → α → α) (G : γ → α × β → β) (l : List γ)
    (init : α × β) :
    (l.foldl (fun a it => (F it a.1, G it a)) init).1 = l.foldl (fun t it => F it t) init.1 := by
  induction l generalizing init with
  | nil => rfl
  | cons x xs ih => simp only [List.foldl_cons, ih]

theorem foldl_insert_group_mem (this : Nat) (l : List (List Nat)) (groups : List (List Nat))
    (g : List Nat) :
    g ∈ l.foldl (fun groups git =>
        set_insert lexicographical_compare (set_insert ptr_lt this git) groups) groups ↔
      g ∈ groups ∨ ∃ git ∈ l, g = set_insert ptr_lt this git := by
  induction l generalizing groups with
  | nil => simp
  | cons x xs ih =>
    simp only [List.foldl_cons, ih, set_insert_lex_mem, List.mem_cons]
    constructor
    · rintro ((h | h) | ⟨git, hg, h⟩)
      · exact Or.inr ⟨x, Or.inl rfl, h⟩
      · exact Or.inl h
      · exact Or.inr ⟨git, Or.inr hg, h⟩
    · rintro (h | ⟨git, hg | hg, h⟩)
      · exact Or.inl (Or.inr h)
      · subst hg
        exact Or.inl (Or.inl h)
      · exact Or.inr ⟨git, hg, h⟩

/-- The environments that `environment::radiate` puts into `touch`. -/
theorem environment.radiate_touch (env : Nat → environment) :
    ∀ (n this : Nat) (touch : List Nat) (groups : List (List Nat)) (x : Nat),
      x ∈ (environment.radiate env n this (touch, groups)).1 ↔
        x ∈ touch ∨ (0 < n ∧ environment.within (fun a => (env a).neighbors) (n - 1) this x)
  | 0, this, touch, groups, x => by simp [environment.radiate]
  | n + 1, this, touch, groups, x => by
    simp only [environment.radiate, Nat.add_sub_cancel, Nat.succ_pos, true_and]
    rw [foldl_pair_fst (fun it t => (environment.radiate env n it (t, [])).1)
      (fun it (a : List Nat × List (List Nat)) =>
        (environment.radiate env n it (a.1, [])).2.foldl
          (fun groups git =>
            set_insert lexicographical_compare (set_insert ptr_lt this git) groups) a.2)]
    have hfold : ∀ (l : List Nat) (t : List Nat),
        x ∈ l.foldl (fun t it => (environment.radiate env n it (t, [])).1) t ↔
          x ∈ t ∨ ∃ it ∈ l, 0 < n ∧
            environment.within (fun a => (env a).neighbors) (n - 1) it x := by
      intro l
      induction l with
      | nil => intro t; simp
      | cons it rest ih =>
        intro t
        simp only [List.foldl_cons, ih, environment.radiate_touch env n it t [] x,
          List.mem_cons]
        constructor
        · rintro ((h | h) | ⟨c, hc, h⟩)
          · exact Or.inl h
          · exact Or.inr ⟨it, Or.inl rfl, h⟩
          · exact Or.inr ⟨c, Or.inr hc, h⟩
        · rintro (h | ⟨c, hc | hc, h⟩)
          · exact Or.inl (Or.inl h)
          · subst hc
            exact Or.inl (Or.inr h)
          · exact Or.inr ⟨c, hc, h⟩
    rw [hfold, set_insert_ptr_mem]
    cases n with
    | zero =>
      simp only [Nat.lt_irrefl, false_and, and_false, exists_false, or_false,
        environment.within]
      constructor
      · rintro (h | h)
        · exact Or.inr h.symm
        · exact Or.inl h
      · rintro (h | h)
        · exact Or.inr h
        · exact Or.inl h.symm
    | succ k =>
      simp only [Nat.succ_pos, true_and, Nat.add_sub_cancel, environment.within]
      constructor
      · rintro ((h | h) | h)
        · exact Or.inr (Or.inl h.symm)
        · exact Or.inl h
        · exact Or.inr (Or.inr h)
      · rintro (h | h | h)
        · exact Or.inl (Or.inr h)
        · exact Or.inl (Or.inl h.symm)
        · exact Or.inr h

/-- The groups that `environment::radiate` inserts hold environments within
`n - 1` steps only. -/
theorem environment.radiate_groups (env : Nat → environment) :
    ∀ (n this : Nat) (touch : List Nat) (groups : List (List Nat)) (g : List Nat),
      g ∈ (environment.radiate env n this (touch, groups)).2 →
        g ∈ groups ∨ (0 < n ∧
          ∀ m ∈ g, environment.within (fun a => (env a).neighbors) (n - 1) this m)
  | 0, this, touch, groups, g => by
    intro h
    exact Or.inl h
  | n + 1, this, touch, groups, g => by
    intro h
    simp only [environment.radiate, Nat.add_sub_cancel, Nat.succ_pos, true_and] at h ⊢
    rw [set_insert_lex_mem] at h
    rcases h with h | h
    · right
      intro m hm
      rw [h] at hm
      simp only [List.mem_singleton] at hm
      rw [hm]
      exact environment.within_refl _ n this
    · have hfold : ∀ (l : List Nat) (a : List Nat × List (List Nat)),
          (∀ it ∈ l, it ∈ (env this).neighbors) →
          g ∈ (l.foldl (fun (a : List Nat × List (List Nat)) it =>
            ((environment.radiate env n it (a.1, [])).1,
              (environment.radiate env n it (a.1, [])).2.foldl
                (fun groups git =>
                  set_insert lexicographical_compare (set_insert ptr_lt this git) groups)
                a.2)) a).2 →
          g ∈ a.2 ∨ ∀ m ∈ g, environment.within (fun a => (env a).neighbors) n this m := by
        intro l
        induction l with
        | nil => intro a _ hg; exact Or.inl hg
        | cons it rest ih =>
          intro a hl hg
          simp only [List.foldl_cons] at hg
          rcases ih _ (fun x hx => hl x (List.mem_cons_of_mem _ hx)) hg with h1 | h1
          · simp only [] at h1
            rw [foldl_insert_group_mem] at h1
            rcases h1 with h1 | ⟨git, hgit, h1⟩
            · exact Or.inl h1
            · right
              rcases environment.radiate_groups env n it a.1 [] git hgit with h2 | h2
              · cases h2
              · intro m hm
                rw [h1, set_insert_ptr_mem] at hm
                rcases hm with hm | hm
                · rw [hm]
                  exact environment.within_refl _ n this
                · have hw := h2.2 m hm
                  have hn : n = (n - 1) + 1 := by omega
                  rw [hn]
                  exact environment.within_step _ (n - 1) this it m
                    (hl it (List.mem_cons_self _ _)) hw
          · exact Or.inr h1
      exact hfold _ _ (fun it hit => hit) h

/-- The groups that `environment::neighbor_sites` inserts hold the environment
and neighbors of it only. -/
theorem environment.neighbor_sites_groups (env : Nat → environment) (this : Nat) :
    ∀ (n : Nat) (groups : List (List Nat)) (g : List Nat),
      g ∈ environment.neighbor_sites env this n groups →
        g ∈ groups ∨ ∀ m ∈ g, m = this ∨ m ∈ (env this).neighbors := by
  have hsingle : ∀ (groups : List (List Nat)) (g : List Nat),
      g ∈ set_insert lexicographical_compare [this] groups →
        g ∈ groups ∨ ∀ m ∈ g, m = this ∨ m ∈ (env this).neighbors := by
    intro groups g h
    rw [set_insert_lex_mem] at h
    rcases h with h | h
    · right
      intro m hm
      rw [h] at hm
      exact Or.inl (by simpa using hm)
    · exact Or.inl h
  intro n
  induction n with
  | zero => intro groups g h; exact hsingle groups g h
  | succ n ih =>
    intro groups g h
    cases n with
    | zero => exact hsingle groups g h
    | succ k =>
      simp only [environment.neighbor_sites] at h
      rcases hsingle _ g h with h | h
      · have hfold : ∀ (small : List (List Nat)) (gr : List (List Nat)),
            (∀ git ∈ small, ∀ m ∈ git, m = this ∨ m ∈ (env this).neighbors) →
            g ∈ small.foldl (fun g git =>
              (env this).neighbors.foldl
                (fun g2 it =>
                  set_insert lexicographical_compare (set_insert ptr_lt it git) g2) g) gr →
            g ∈ gr ∨ ∀ m ∈ g, m = this ∨ m ∈ (env this).neighbors := by
          intro small
          induction small with
          | nil => intro gr _ hg; exact Or.inl hg
          | cons git rest ihs =>
            intro gr hsmall hg
            simp only [List.foldl_cons] at hg
            rcases ihs _ (fun x hx => hsmall x (List.mem_cons_of_mem _ hx)) hg with h1 | h1
            · have hinner : ∀ (l : List Nat) (g2 : List (List Nat)),
                  (∀ it ∈ l, it ∈ (env this).neighbors) →
                  g ∈ l.foldl (fun g2 it =>
                    set_insert lexicographical_compare (set_insert ptr_lt it git) g2) g2 →
                  g ∈ g2 ∨ ∀ m ∈ g, m = this ∨ m ∈ (env this).neighbors := by
                intro l
                induction l with
                | nil => intro g2 _ hg2; exact Or.inl hg2
                | cons it l ihl =>
                  intro g2 hl hg2
                  simp only [List.foldl_cons] at hg2
                  rcases ihl _ (fun x hx => hl x (List.mem_cons_of_mem _ hx)) hg2 with h2 | h2
                  · rw [set_insert_lex_mem] at h2
                    rcases h2 with h2 | h2
                    · right
                      intro m hm
                      rw [h2, set_insert_ptr_mem] at hm
                      rcases hm with hm | hm
                      · rw [hm]
                        exact Or.inr (hl it (List.mem_cons_self _ _))
                      · exact hsmall git (List.mem_cons_self _ _) m hm
                    · exact Or.inl h2
                  · exact Or.inr h2
              exact hinner _ _ (fun it hit => hit) h1
            · exact Or.inr h1
        refine hfold _ groups ?_ h
        intro git hgit
        rcases ih [] git hgit with h3 | h3
        · cases h3
        · exact h3
      · exact Or.inr h

theorem set_next_mem {α : Type} (lt : α → α → Bool) (s : List α) (x y : α)
    (h : set_next lt s x = some y) : y ∈ s :=
  List.mem_of_find?_eq_some h

/-- A property of groups that holds for the union of two groups is kept by the
inner loop of `environment::connectivity`. -/
theorem environment.criss_cross_in_all (P : List Nat → Prop) (max_sites : Nat) (out : List Nat)
    (hP : ∀ a b, P a → P b → P (set_insert_range ptr_lt a b)) (hout : P out) :
    ∀ (fuel : Nat) (in_ : List Nat) (sites sites' : List (List Nat)),
      (∀ g ∈ sites, P g) →
      environment.criss_cross_in max_sites out fuel in_ sites = some sites' →
      ∀ g ∈ sites', P g := by
  intro fuel
  induction fuel with
  | zero => intro in_ sites sites' _ h; cases h
  | succ fuel ih =>
    intro in_ sites sites' hs h
    simp only [environment.criss_cross_in] at h
    cases hn : set_next lexicographical_compare sites in_ with
    | none =>
      simp only [hn, Option.some.injEq] at h
      subst h
      exact hs
    | some in1 =>
      simp only [hn] at h
      refine ih in1 _ sites' ?_ h
      intro g hg
      split_ifs at hg
      · rw [set_insert_lex_mem] at hg
        rcases hg with hg | hg
        · rw [hg]
          exact hP out in1 hout (hs in1 (set_next_mem _ _ _ _ hn))
        · exact hs g hg
      · exact hs g hg

/-- A property of groups that holds for the union of two groups is kept by the
loops of `environment::connectivity`. -/
theorem environment.criss_cross_all (P : List Nat → Prop) (max_sites fuel : Nat)
    (hP : ∀ a b, P a → P b → P (set_insert_range ptr_lt a b)) :
    ∀ (n : Nat) (out : List Nat) (sites sites' : List (List Nat)),
      out ∈ sites → (∀ g ∈ sites, P g) →
      environment.criss_cross max_sites fuel n out sites = some sites' →
      ∀ g ∈ sites', P g := by
  intro n
  induction n with
  | zero => intro out sites sites' _ _ h; cases h
  | succ n ih =>
    intro out sites sites' hout hs h
    simp only [environment.criss_cross] at h
    cases hin : environment.criss_cross_in max_sites out fuel out sites with
    | none => simp only [hin] at h; cases h
    | some sites1 =>
      simp only [hin] at h
      have hs1 := environment.criss_cross_in_all P max_sites out hP (hs out hout) fuel out
        sites sites1 hs hin
      cases hn : set_next lexicographical_compare sites1 out with
      | none =>
        simp only [hn, Option.some.injEq] at h
        subst h
        exact hs1
      | some out1 =>
        simp only [hn] at h
        exact ih out1 sites1 sites' (set_next_mem _ _ _ _ hn) hs1 h

/-- The site-groups and connected environments after
`environment::connectivity` at an environment without site-groups. -/
theorem environment.connectivity_near (fuel : Nat) (st st' : store) (this : Nat)
    (hs : (st.env this).sites = [])
    (h : environment.connectivity fuel st this st.max_sites = .ok st') :
    st'.radial = st.radial ∧ st'.max_sites = st.max_sites ∧
    (∀ e, e ≠ this → st'.env e = st.env e) ∧
    (st'.env this).neighbors = (st.env this).neighbors ∧
    (st'.env this).ensemble_env = (st.env this).ensemble_env ∧
    (∀ g ∈ (st'.env this).sites, ∀ m ∈ g,
      environment.near (fun a => (st.env a).neighbors) st.radial st.max_sites this m) ∧
    ∀ m, environment.near (fun a => (st.env a).neighbors) st.radial st.max_sites this m →
      m ∈ (st'.env this).connected := by
  unfold environment.connectivity at h
  cases hrad : st.radial with
  | true =>
    rw [hrad] at h
    simp only [if_true] at h
    revert h
    split
    · intro h; cases h
    · rename_i sites hcc
      intro h
      simp only [Except.ok.injEq] at h
      subst h
      refine ⟨rfl, rfl, fun e he => by simp [Function.update_noteq he], by simp, by simp,
        ?_, ?_⟩
      · -- the groups hold environments within `max_sites - 1` steps
        have hrg : ∀ g ∈ (environment.radiate st.env st.max_sites this
            ((st.env this).connected, (st.env this).sites)).2, 0 < st.max_sites ∧
            ∀ m ∈ g, environment.within (fun a => (st.env a).neighbors)
              (st.max_sites - 1) this m := by
          intro g hg
          rcases environment.radiate_groups st.env st.max_sites this _ _ g hg with h1 | h1
          · rw [hs] at h1; cases h1
          · exact h1
        have hall : ∀ g ∈ sites, 0 < st.max_sites ∧
            ∀ m ∈ g, environment.within (fun a => (st.env a).neighbors)
              (st.max_sites - 1) this m := by
          revert hcc
          split
          · rename_i hnil
            intro hcc
            simp only [Option.some.injEq] at hcc
            subst hcc
            intro g hg
            cases hg
          · rename_i out rest hcons
            intro hcc
            rw [hcons] at hrg
            refine environment.criss_cross_all
              (fun g => 0 < st.max_sites ∧
                ∀ m ∈ g, environment.within (fun a => (st.env a).neighbors)
                  (st.max_sites - 1) this m)
              st.max_sites fuel ?_ fuel out (out :: rest) sites (List.mem_cons_self _ _)
              hrg hcc
            intro a b ha hb
            refine ⟨ha.1, fun m hm => ?_⟩
            rw [set_insert_range_ptr_mem] at hm
            rcases hm with hm | hm
            · exact ha.2 m hm
            · exact hb.2 m hm
        intro g hg m hm
        simp only [Function.update_same] at hg
        unfold environment.near
        simp only [if_true]
        exact ⟨(hall g hg).1, (hall g hg).2 m hm⟩
      · intro m hm
        unfold environment.near at hm
        simp only [if_true] at hm
        simp only [Function.update_same]
        rw [environment.radiate_touch]
        exact Or.inr hm
  | false =>
    rw [hrad] at h
    simp only [Bool.false_eq_true, if_false] at h
    split_ifs at h
    simp only [Except.ok.injEq] at h
    subst h
    refine ⟨rfl, rfl, fun e he => by simp [Function.update_noteq he], by simp, by simp,
      ?_, ?_⟩
    · intro g hg m hm
      simp only [Function.update_same] at hg
      unfold environment.near
      rw [if_neg (by simp)]
      rcases environment.neighbor_sites_groups st.env this st.max_sites _ g hg with h1 | h1
      · rw [hs] at h1; cases h1
      · exact h1 m hm
    · intro m hm
      unfold environment.near at hm
      rw [if_neg (by simp)] at hm
      simp only [Function.update_same]
      rw [set_insert_range_ptr_mem, set_insert_ptr_mem]
      rcases hm with hm | hm
      · exact Or.inl (Or.inl hm)
      · exact Or.inr hm

/-- The site-groups that `environment::create_ensembles` registers are
site-groups of the environment. -/
theorem environment.create_ensembles_ensemble_env_sites (sc : Nat → Nat) (st st' : store)
    (this : Nat) (h : environment.create_ensembles sc st this = .ok st') (p : Nat)
    (g : List Nat) (hpg : (p, g) ∈ (st'.env this).ensemble_env) : g ∈ (st.env this).sites := by
  obtain ⟨heq, _⟩ := environment.create_ensembles_yields sc st st' this h
  rw [heq, environment.insert_all_ensemble_env] at hpg
  · simp only [store.cleared, Function.update_same, List.nil_append] at hpg
    exact (List.mem_filter.1 (List.of_mem_zip hpg).2).1
  · intro kv hkv
    simp [store.cleared] at hkv

/-- The call `environment::create_ensembles` keeps the registered site-groups
among the site-groups. -/
theorem environment.create_ensembles_env_sites (sc : Nat → Nat) (st st' : store) (this : Nat)
    (hok : st.ensemble_env_sites) (h : environment.create_ensembles sc st this = .ok st') :
    st'.ensemble_env_sites := by
  have hr := environment.create_ensembles_recreated sc st st' this h
  intro e p g hpg
  rw [(hr.2.2.2.2.2.1 e).2.2.1]
  by_cases he : e = this
  · subst he
    exact environment.create_ensembles_ensemble_env_sites sc st st' e h p g hpg
  · rw [hr.2.2.1 e (by simpa using he)] at hpg
    exact hok e p g hpg

theorem environment.recreate_ensembles_env_sites (sc : Nat → Nat) (changed : List Nat) :
    ∀ (st st' : store), st.ensemble_env_sites →
      environment.recreate_ensembles sc changed st = .ok st' → st'.ensemble_env_sites := by
  induction changed with
  | nil =>
    intro st st' hok h
    simp only [environment.recreate_ensembles, Except.ok.injEq] at h
    subst h
    exact hok
  | cons it rest ih =>
    intro st st' hok h
    simp only [environment.recreate_ensembles] at h
    cases h1 : environment.create_ensembles sc st it with
    | error e => simp only [h1] at h; cases h
    | ok st1 =>
      simp only [h1] at h
      exact ih st1 st' (environment.create_ensembles_env_sites sc st st1 it hok h1) h

/-- A store with the same site-groups, connected environments, neighbors and
static members, and registered site-groups among the site-groups, satisfies
the invariant `touched` when the first store does. -/
theorem store.touched_of_same (st st' : store) (D : Nat → Prop)
    (hrad : st'.radial = st.radial) (hmax : st'.max_sites = st.max_sites)
    (henv : ∀ e, (st'.env e).neighbors = (st.env e).neighbors ∧
      (st'.env e).connected = (st.env e).connected ∧ (st'.env e).sites = (st.env e).sites)
    (hee : st'.ensemble_env_sites) (h : st.touched D) : st'.touched D := by
  have hnb : (fun a => (st'.env a).neighbors) = (fun a => (st.env a).neighbors) := by
    funext a
    exact (henv a).1
  refine ⟨fun e he => ?_, fun e he => ?_, hee⟩
  · rw [hnb, hrad, hmax, (henv e).2.2, (henv e).2.1]
    exact h.1 e he
  · rw [(henv e).2.2]
    exact h.2.1 e he

/-- The call `environment::initialize` keeps the invariant `touched`, with the
environment among the initialized environments. -/
theorem environment.initialize_touched (sc : Nat → Nat) (fuel : Nat) (st st' : store)
    (this : Nat) (D : Nat → Prop) (hin : st.touched D)
    (h : environment.initialize sc fuel st this = .ok st') :
    st'.touched (fun e => e = this ∨ D e) ∧
    ∀ e, (st'.env e).neighbors = (st.env e).neighbors := by
  unfold environment.initialize at h
  split at h
  · cases h
  · cases hc : environment.connectivity fuel
        { st with env := Function.update st.env this { (st.env this) with sites := [] } }
        this st.max_sites with
    | error e => simp only [hc] at h; cases h
    | ok st1 =>
      simp only [hc] at h
      cases hcr : environment.create_ensembles sc st1 this with
      | error e => simp only [hcr] at h; cases h
      | ok st2 =>
        simp only [hcr, Except.ok.injEq] at h
        obtain ⟨c1, c2, c3, c4, c5, c6, c7⟩ := environment.connectivity_near fuel _ st1 this
          (by simp) hc
        -- the neighbors are as before
        have hnb0 : (fun a => ((Function.update st.env this
            { (st.env this) with sites := [] }) a).neighbors)
            = (fun a => (st.env a).neighbors) := by
          funext a
          by_cases ha : a = this
          · subst ha; simp
          · simp [Function.update_noteq ha]
        have hnb1 : ∀ e, (st1.env e).neighbors = (st.env e).neighbors := by
          intro e
          by_cases he : e = this
          · subst he
            rw [c4]
            simp
          · rw [c3 e he]
            simp [Function.update_noteq he]
        have hr := environment.create_ensembles_recreated sc st1 st2 this hcr
        obtain ⟨_, _, r3, r4, _, r6, _, _⟩ := hr
        have hother1 : ∀ e, e ≠ this → st1.env e = st.env e := by
          intro e he
          rw [c3 e he]
          simp [Function.update_noteq he]
        have hnbf : (fun a => (st1.env a).neighbors) = (fun a => (st.env a).neighbors) := by
          funext a
          exact hnb1 a
        have hrad1 : st1.radial = st.radial := c1
        have hmax1 : st1.max_sites = st.max_sites := c2
        simp only [hnb0] at c6 c7
        -- the final store and the store after `create_ensembles`
        have henv' : ∀ e, (st'.env e).neighbors = (st2.env e).neighbors ∧
            (st'.env e).connected = (st2.env e).connected ∧
            (st'.env e).sites = (st2.env e).sites ∧
            (st'.env e).ensemble_env = (st2.env e).ensemble_env := by
          intro e
          rw [← h]
          by_cases he : e = this
          · subst he; simp
          · simp [Function.update_noteq he]
        have hrad' : st'.radial = st.radial := by
          rw [← h]
          show st2.radial = st.radial
          rw [← r4.2.1, hrad1]
        have hmax' : st'.max_sites = st.max_sites := by
          rw [← h]
          show st2.max_sites = st.max_sites
          rw [← r4.2.2.1, hmax1]
        have hnb' : ∀ e, (st'.env e).neighbors = (st.env e).neighbors := by
          intro e
          rw [(henv' e).1, (r6 e).1, hnb1 e]
        have hnbf' : (fun a => (st'.env a).neighbors) = (fun a => (st.env a).neighbors) := by
          funext a
          exact hnb' a
        refine ⟨⟨fun e he => ?_, fun e he => ?_, fun e p g hpg => ?_⟩, hnb'⟩
        · rw [hnbf', hrad', hmax', (henv' e).2.2.1, (henv' e).2.1, (r6 e).2.2.1, (r6 e).2.1]
          by_cases het : e = this
          · subst het
            exact ⟨c6, c7⟩
          · rw [hother1 e het]
            rcases he with he | he
            · exact absurd he het
            · exact hin.1 e he
        · have het : e ≠ this := fun hh => he (Or.inl hh)
          rw [(henv' e).2.2.1, (r6 e).2.2.1, hother1 e het]
          exact hin.2.1 e (fun hd => he (Or.inr hd))
        · rw [(henv' e).2.2.2] at hpg
          rw [(henv' e).2.2.1, (r6 e).2.2.1]
          by_cases het : e = this
          · subst het
            exact environment.create_ensembles_ensemble_env_sites sc st1 st2 e hcr p g hpg
          · rw [r3 e (by simpa using het)] at hpg
            rw [hother1 e het] at hpg ⊢
            exact hin.2.2 e p g hpg

theorem kmc.initialize_all_touched (sc : Nat → Nat) (fuel : Nat) :
    ∀ (l : List Nat) (st st' : store) (D : Nat → Prop), st.touched D →
      kmc.initialize_all sc fuel l st = .ok st' →
      st'.touched (fun e => e ∈ l ∨ D e) ∧
      ∀ e, (st'.env e).neighbors = (st.env e).neighbors := by
  intro l
  induction l with
  | nil =>
    intro st st' D hin h
    simp only [kmc.initialize_all, Except.ok.injEq] at h
    subst h
    refine ⟨?_, fun _ => rfl⟩
    simpa using hin
  | cons eit rest ih =>
    intro st st' D hin h
    simp only [kmc.initialize_all] at h
    cases h1 : environment.initialize sc fuel st eit with
    | error e => simp only [h1] at h; cases h
    | ok st1 =>
      simp only [h1] at h
      obtain ⟨ht1, hn1⟩ := environment.initialize_touched sc fuel st st1 eit D hin h1
      obtain ⟨ht2, hn2⟩ := ih st1 st' _ ht1 h
      refine ⟨?_, fun e => by rw [hn2 e, hn1 e]⟩
      have hD : (fun e => e ∈ rest ∨ (e = eit ∨ D e)) = (fun e => e ∈ eit :: rest ∨ D e) := by
        funext e
        simp only [List.mem_cons, eq_iff_iff]
        tauto
      rw [← hD]
      exact ht2

theorem environment.set_neighbors_blank (st st' : store) (this : Nat)
    (surface : List (List Nat)) (h : environment.set_neighbors st this surface = .ok st') :
    ∀ e, (st'.env e).sites = (st.env e).sites ∧
      (st'.env e).ensemble_env = (st.env e).ensemble_env ∧
      (e ≠ this → (st'.env e).neighbors = (st.env e).neighbors) := by
  unfold environment.set_neighbors at h
  split_ifs at h with h1
  · simp only [Except.ok.injEq] at h
    subst h
    exact fun _ => ⟨rfl, rfl, fun _ => rfl⟩
  · cases hh : surface.head? with
    | none => simp only [hh] at h; cases h
    | some first =>
      simp only [hh] at h
      split_ifs at h with h2
      cases ha : (environment.neighbor_elements st.env_type (st.env this).center surface
          first).allSome with
      | none => simp only [ha] at h; cases h
      | some added =>
        simp only [ha, Except.ok.injEq] at h
        subst h
        intro e
        by_cases he : e = this
        · subst he
          simp [Function.update_same]
        · simp [Function.update_noteq he]

theorem kmc.set_neighbors_all_blank (env_surface : List (List Nat)) (L : List Nat) :
    ∀ (l : List Nat) (st st' : store), (∀ e ∈ l, e ∈ L) →
      (∀ e, (st.env e).sites = [] ∧ (st.env e).ensemble_env = [] ∧
        (e ∉ L → (st.env e).neighbors = [])) →
      kmc.set_neighbors_all env_surface l st = .ok st' →
      ∀ e, (st'.env e).sites = [] ∧ (st'.env e).ensemble_env = [] ∧
        (e ∉ L → (st'.env e).neighbors = []) := by
  intro l
  induction l with
  | nil =>
    intro st st' _ hst h
    simp only [kmc.set_neighbors_all, Except.ok.injEq] at h
    subst h
    exact hst
  | cons eit rest ih =>
    intro st st' hl hst h
    simp only [kmc.set_neighbors_all] at h
    cases h1 : environment.set_neighbors st eit env_surface with
    | error e => simp only [h1] at h; cases h
    | ok st1 =>
      simp only [h1] at h
      refine ih st1 st' (fun e he => hl e (List.mem_cons_of_mem _ he)) ?_ h
      intro e
      obtain ⟨s1, s2, s3⟩ := environment.set_neighbors_blank st st1 eit env_surface h1 e
      refine ⟨by rw [s1]; exact (hst e).1, by rw [s2]; exact (hst e).2.1, fun he => ?_⟩
      have hne : e ≠ eit := fun hh => he (hh ▸ hl eit (List.mem_cons_self _ _))
      rw [s3 hne]
      exact (hst e).2.2 he

theorem kmc.create_environments_row_blank (surface : lattice) (row : Nat) :
    ∀ (l : List Nat) (acc r : List Nat × store), acc.2.blank →
      kmc.create_environments_row surface row l acc = .ok r → r.2.blank := by
  intro l
  induction l with
  | nil =>
    intro acc r hb h
    simp only [kmc.create_environments_row, Except.ok.injEq] at h
    subst h
    exact hb
  | cons col rest ih =>
    intro acc r hb h
    simp only [kmc.create_environments_row] at h
    cases h1 : surface.get_point row col with
    | error e => simp only [h1] at h; cases h
    | ok point =>
      simp only [h1] at h
      refine ih _ r ?_ h
      intro e
      by_cases he : e = acc.2.next
      · subst he
        exact ⟨point, by simp [Function.update_same]⟩
      · obtain ⟨c, hc⟩ := hb e
        exact ⟨c, by simp [Function.update_noteq he, hc]⟩

theorem kmc.create_environments_rows_blank (surface : lattice) :
    ∀ (l : List Nat) (acc r : List (List Nat) × store), acc.2.blank →
      kmc.create_environments_rows surface l acc = .ok r → r.2.blank := by
  intro l
  induction l with
  | nil =>
    intro acc r hb h
    simp only [kmc.create_environments_rows, Except.ok.injEq] at h
    subst h
    exact hb
  | cons row rest ih =>
    intro acc r hb h
    simp only [kmc.create_environments_rows] at h
    cases h1 : kmc.create_environments_row surface row (List.range surface.get_size)
        ([], acc.2) with
    | error e => simp only [h1] at h; cases h
    | ok r1 =>
      simp only [h1] at h
      exact ih _ r (kmc.create_environments_row_blank surface row _ ([], acc.2) r1 hb h1) h

/-- After `kmc::create_environments` on a store without environments the
surface is built. -/
theorem kmc.create_environments_built (sc : Nat → Nat) (fuel : Nat) (k k' : kmc)
    (st st' : store) (empty_site : Option Nat) (hblank : st.blank)
    (h : kmc.create_environments sc fuel k st empty_site = .ok (k', st')) :
    st'.surface_built := by
  unfold kmc.create_environments at h
  cases htype : k.env_type with
  | none => simp only [htype] at h; cases h
  | some type =>
    simp only [htype] at h
    cases hrows : kmc.create_environments_rows k.surface (List.range k.surface.get_size)
        ([], { st with
          env_type := type, radial := k.env_radial, max_sites := k.max_sites,
          random := k.random, empty_site := empty_site }) with
    | error e => simp only [hrows] at h; cases h
    | ok created =>
      simp only [hrows] at h
      cases hnb : kmc.set_neighbors_all created.1 (k.environments ++ created.1.flatten)
          created.2 with
      | error e => simp only [hnb] at h; cases h
      | ok st1 =>
        simp only [hnb] at h
        cases hini : kmc.initialize_all sc fuel (k.environments ++ created.1.flatten) st1 with
        | error e => simp only [hini] at h; cases h
        | ok st2 =>
          simp only [hini, Except.ok.injEq, Prod.mk.injEq] at h
          obtain ⟨_, rfl⟩ := h
          have hb1 : created.2.blank :=
            kmc.create_environments_rows_blank k.surface _ _ created (by exact hblank) hrows
          have hu := kmc.set_neighbors_all_blank created.1 (k.environments ++ created.1.flatten)
            _ created.2 st1 (fun e he => he) (fun e => by
              obtain ⟨c, hc⟩ := hb1 e
              rw [hc]
              exact ⟨rfl, rfl, fun _ => rfl⟩) hnb
          have ht1 : st1.touched (fun _ => False) := by
            refine ⟨fun e he => he.elim, fun e _ => (hu e).1, fun e p g hpg => ?_⟩
            rw [(hu e).2.1] at hpg
            cases hpg
          obtain ⟨ht2, hn2⟩ := kmc.initialize_all_touched sc fuel _ st1 st2 _ ht1 hini
          refine ⟨_, ht2, fun e he => ?_⟩
          rw [hn2 e]
          exact (hu e).2.2 (fun hm => he (Or.inl hm))

/-- On a built surface with a symmetric neighbour relation, an environment is
connected to itself and to the environments that have it in a site-group. -/
theorem store.surface_built_connected (st : store) (hb : st.surface_built)
    (hsym : ∀ a b, b ∈ (st.env a).neighbors → a ∈ (st.env b).neighbors) :
    st.sites_connected := by
  obtain ⟨D, ⟨h1, h2, h3⟩, hout⟩ := hb
  refine ⟨?_, h3⟩
  intro e g hg m hm
  have he : D e := by
    by_contra hne
    rw [h2 e hne] at hg
    cases hg
  have hnear := (h1 e he).1 g hg m hm
  have hmD : D m := by
    by_cases hem : e = m
    · rw [← hem]; exact he
    · obtain ⟨c, hc⟩ := environment.near_neighbor _ _ _ e m hnear hem
      by_contra hne
      have := hsym c m hc
      rw [hout m hne] at this
      cases this
  exact ⟨(h1 m hmD).2 e (environment.near_symm _ _ _ hsym e m hnear),
    (h1 m hmD).2 m (environment.near_self _ _ _ e m hnear)⟩

/-- A successful `environment::change_ensemble` keeps the surface built, and
the neighbors. -/
theorem environment.change_ensemble_built (sc : Nat → Nat) (st st' : store) (this old : Nat)
    (products remove0 changed0 remove changed : List Nat) (hb : st.surface_built)
    (h : environment.change_ensemble sc st this old products remove0 changed0
      = .ok (st', remove, changed)) :
    st'.surface_built ∧ ∀ e, (st'.env e).neighbors = (st.env e).neighbors := by
  obtain ⟨_, members, obj, g, placed, _, _, _, _, hplace, hrec, _, _⟩ :=
    environment.change_ensemble_ok sc st st' this old products remove0 changed0 remove changed h
  have hframe := (environment.place_species_frame sc _ _ members placed.1 placed.2 hplace).1
  obtain ⟨_, _, _, f4, f5, _, _, f8⟩ := hframe
  obtain ⟨D, ht, hout⟩ := hb
  -- the store after the placement
  have htp : placed.2.touched D := by
    refine store.touched_of_same st placed.2 D f4 f5
      (fun e => ⟨(f8 e).1, (f8 e).2.1, (f8 e).2.2.1⟩) ?_ ht
    intro e p g hpg
    rw [(f8 e).2.2.2.2.1] at hpg
    rw [(f8 e).2.2.1]
    exact ht.2.2 e p g hpg
  -- the store after the ensembles are created anew
  have hees := environment.recreate_ensembles_env_sites sc changed placed.2 st' htp.2.2 hrec
  have hsame : ∀ (l : List Nat) (a b : store),
      environment.recreate_ensembles sc l a = .ok b →
      b.radial = a.radial ∧ b.max_sites = a.max_sites ∧
      ∀ e, (b.env e).neighbors = (a.env e).neighbors ∧
        (b.env e).connected = (a.env e).connected ∧ (b.env e).sites = (a.env e).sites := by
    intro l
    induction l with
    | nil =>
      intro a b hab
      simp only [environment.recreate_ensembles, Except.ok.injEq] at hab
      subst hab
      exact ⟨rfl, rfl, fun _ => ⟨rfl, rfl, rfl⟩⟩
    | cons it rest ih =>
      intro a b hab
      simp only [environment.recreate_ensembles] at hab
      cases h1 : environment.create_ensembles sc a it with
      | error e => simp only [h1] at hab; cases hab
      | ok a1 =>
        simp only [h1] at hab
        obtain ⟨_, _, _, r4, _, r6, _, _⟩ := environment.create_ensembles_recreated sc a a1 it h1
        obtain ⟨i1, i2, i3⟩ := ih a1 b hab
        refine ⟨by rw [i1, ← r4.2.1], by rw [i2, ← r4.2.2.1], fun e => ?_⟩
        rw [(i3 e).1, (i3 e).2.1, (i3 e).2.2, (r6 e).1, (r6 e).2.1, (r6 e).2.2.1]
        exact ⟨rfl, rfl, rfl⟩
  obtain ⟨s1, s2, s3⟩ := hsame changed placed.2 st' hrec
  refine ⟨⟨D, store.touched_of_same placed.2 st' D s1 s2 s3 hees htp, fun e he => ?_⟩,
    fun e => ?_⟩
  · rw [(s3 e).1, (f8 e).1]
    exact hout e he
  · rw [(s3 e).1, (f8 e).1]
    rfl

theorem kmc.delete_ensembles_loop_env (old : List Nat) :
    ∀ (acc r : List (ensemble × ens_env_map) × store),
      kmc.delete_ensembles_loop old acc = .ok r →
      r.2.env = acc.2.env ∧ r.2.radial = acc.2.radial ∧ r.2.max_sites = acc.2.max_sites := by
  induction old with
  | nil =>
    intro acc r h
    simp only [kmc.delete_ensembles_loop, Except.ok.injEq] at h
    subst h
    exact ⟨rfl, rfl, rfl⟩
  | cons ens_it rest ih =>
    intro acc r h
    simp only [kmc.delete_ensembles_loop] at h
    split at h
    · cases h
    · split at h
      · split_ifs at h
        have h2 := ih _ r h
        exact h2
      · have h2 := ih _ r h
        exact h2

theorem store.surface_built_of_env (st st' : store) (henv : st'.env = st.env)
    (hrad : st'.radial = st.radial) (hmax : st'.max_sites = st.max_sites)
    (h : st.surface_built) : st'.surface_built := by
  obtain ⟨D, ht, hout⟩ := h
  refine ⟨D, store.touched_of_same st st' D hrad hmax (fun e => by rw [henv]; exact ⟨rfl, rfl, rfl⟩)
    ?_ ht, fun e he => by rw [henv]; exact hout e he⟩
  intro e p g hpg
  rw [henv] at hpg ⊢
  exact ht.2.2 e p g hpg

/-- The surface branch of `kmc::perform_reaction` keeps the surface built, and
the neighbors. -/
theorem kmc.perform_reaction_surface_built (sc : Nat → Nat) (k k' : kmc) (st st' : store)
    (ens_map_it : ensemble) (products : List Nat) (hb : st.surface_built)
    (h : kmc.perform_reaction_surface sc k st ens_map_it products = .ok (k', st')) :
    st'.surface_built ∧ ∀ e, (st'.env e).neighbors = (st.env e).neighbors := by
  unfold kmc.perform_reaction_surface at h
  split at h
  · cases h
  · split_ifs at h
    split at h
    · cases h
    · rename_i g hg
      split at h
      · cases h
      · rename_i r hr
        split at h
        · cases h
        · rename_i ens_env_it hget
          split at h
          · cases h
          · rename_i changed hch
            obtain ⟨st1, remove, chg⟩ := changed
            have hb0 : (st.with_random r.2).surface_built :=
              store.surface_built_of_env st _ rfl rfl rfl hb
            obtain ⟨hb1, hn1⟩ := environment.change_ensemble_built sc _ st1 _ _ products [] []
              remove chg hb0 hch
            split at h
            · cases h
            · rename_i deleted hdel
              split at h
              · cases h
              · simp only [Except.ok.injEq, Prod.mk.injEq] at h
                unfold kmc.delete_ensembles at hdel
                cases hd : kmc.delete_ensembles_loop remove (k.ensembles, st1) with
                | error e =>
                  rw [hd] at hdel
                  cases hdel
                | ok rd =>
                  rw [hd] at hdel
                  simp only [Except.ok.injEq] at hdel
                  obtain ⟨d1, d2, d3⟩ := kmc.delete_ensembles_loop_env remove _ rd hd
                  have hst' : st' = rd.2 := by
                    rw [← h.2, ← hdel]
                  rw [hst']
                  refine ⟨store.surface_built_of_env st1 rd.2 d1 d2 d3 hb1, fun e => ?_⟩
                  rw [d1]
                  exact hn1 e

theorem kmc.perform_reaction_direction_built (sc : Nat → Nat)
    (reactor : List Nat → List Nat → Option exn) (k k' : kmc) (st st' : store)
    (ens_map_it : ensemble_map_iter) (reactants products : Option (List Nat))
    (hb : st.surface_built)
    (h : kmc.perform_reaction_direction sc reactor k st ens_map_it reactants products
      = .ok (k', st')) :
    st'.surface_built ∧ ∀ e, (st'.env e).neighbors = (st.env e).neighbors := by
  unfold kmc.perform_reaction_direction at h
  cases reactants with
  | none => cases h
  | some rs =>
    cases products with
    | none => cases h
    | some ps =>
      cases ens_map_it with
      | none =>
        simp only [] at h
        cases hre : reactor rs ps with
        | some e => simp only [hre] at h; cases h
        | none =>
          simp only [hre, Except.ok.injEq, Prod.mk.injEq] at h
          obtain ⟨rfl, rfl⟩ := h
          exact ⟨hb, fun _ => rfl⟩
      | some ens =>
        simp only [] at h
        cases hs : kmc.perform_reaction_surface sc k st ens ps with
        | error e => simp only [hs] at h; cases h
        | ok r =>
          simp only [hs] at h
          cases hre : reactor rs ps with
          | some e => simp only [hre] at h; cases h
          | none =>
            simp only [hre, Except.ok.injEq] at h
            subst h
            exact kmc.perform_reaction_surface_built sc k k' st st' ens ps hb hs

theorem kmc.perform_reaction_built (sc : Nat → Nat)
    (reactor : List Nat → List Nat → Option exn) (k k' : kmc) (st st' : store)
    (rxn : model_reaction) (rxn_for_rev : ensemble_map_iter × ensemble_map_iter) (rate : ℚ)
    (hb : st.surface_built)
    (h : kmc.perform_reaction sc reactor k st rxn rxn_for_rev rate = .ok (k', st')) :
    st'.surface_built ∧ ∀ e, (st'.env e).neighbors = (st.env e).neighbors := by
  unfold kmc.perform_reaction at h
  split_ifs at h
  · exact kmc.perform_reaction_direction_built sc reactor k k' st st' _ _ _ hb h
  · exact kmc.perform_reaction_direction_built sc reactor k k' st st' _ _ _ hb h

theorem kmc.perform_reaction_rxn_built (sc : Nat → Nat)
    (reactor : List Nat → List Nat → Option exn) (k k' : kmc) (st st' : store)
    (rxn : model_reaction) (b : Bool) (hb : st.surface_built)
    (h : kmc.perform_reaction_rxn sc reactor k st rxn = .ok (b, k', st')) :
    st'.surface_built ∧ ∀ e, (st'.env e).neighbors = (st.env e).neighbors := by
  unfold kmc.perform_reaction_rxn at h
  cases hseq : rxn.get_reactant_seq with
  | error e => simp only [hseq] at h; cases h
  | ok reactant_seq =>
    simp only [hseq] at h
    cases hfind : map_find ensemble.lt k.ensembles (ensemble.ctor sc reactant_seq) with
    | none => simp only [hfind] at h; cases h
    | some em_it =>
      simp only [hfind] at h
      split_ifs at h
      · simp only [Except.ok.injEq, Prod.mk.injEq] at h
        obtain ⟨_, rfl, rfl⟩ := h
        exact ⟨hb, fun _ => rfl⟩
      · cases hp : kmc.perform_reaction sc reactor k st rxn (some em_it.1, none) 1 with
        | error e => simp only [hp] at h; cases h
        | ok r =>
          simp only [hp, Except.ok.injEq, Prod.mk.injEq] at h
          obtain ⟨k1, st1⟩ := r
          obtain ⟨_, h2⟩ := h
          simp only [Prod.mk.injEq] at h2
          obtain ⟨rfl, rfl⟩ := h2
          exact kmc.perform_reaction_built sc reactor k k1 st st1 rxn _ 1 hb hp

/-- After `kmc::initialize` on a store without environments the surface is
built. -/
theorem kmc.initialize_built (sc : Nat → Nat) (mech : model_mechanism) (empty : Option Nat)
    (fuel : Nat) (k k' : kmc) (st st' : store) (hblank : st.blank)
    (h : kmc.initialize sc mech empty fuel k st = .ok (k', st')) : st'.surface_built := by
  unfold kmc.initialize at h
  split at h
  · cases h
  · rename_i r _
    split at h
    · cases h
    · rename_i k1 _
      split at h
      · cases h
      · rename_i surface _
        split at h
        · cases h
        · rename_i created hcr
          split at h
          · cases h
          · simp only [Except.ok.injEq, Prod.mk.injEq] at h
            obtain ⟨kc, stc⟩ := created
            rw [← h.2]
            exact kmc.create_environments_built sc fuel _ kc st stc r.1 hblank hcr

/-! ## Lemmas on the lattice and the neighbors -/

theorem flatMap_getElem? {α β : Type} (n : Nat) (f : α → List β) :
    ∀ (l : List α), (∀ x ∈ l, (f x).length = n) → ∀ (i j : Nat), j < n →
      (l.flatMap f)[i * n + j]? = (l[i]?).bind (fun x => (f x)[j]?) := by
  intro l
  induction l with
  | nil => intro _ i j _; simp
  | cons x xs ih =>
    intro hl i j hj
    have hx : (f x).length = n := hl x (List.mem_cons_self _ _)
    rw [List.flatMap_cons]
    cases i with
    | zero =>
      simp only [Nat.zero_mul, Nat.zero_add, List.getElem?_cons_zero, Option.some_bind]
      rw [List.getElem?_append_left (by omega)]
    | succ i =>
      have hidx : (i + 1) * n + j = (f x).length + (i * n + j) := by
        rw [hx, Nat.succ_mul]
        omega
      rw [hidx, List.getElem?_append_right (by omega)]
      simp only [Nat.add_sub_cancel_left, List.getElem?_cons_succ]
      exact ih (fun y hy => hl y (List.mem_cons_of_mem _ hy)) i j hj

/-- The points of a lattice that `lattice::initialize` has created are at
their positions. -/
theorem lattice.get_point_position (s0 s1 : lattice) (empty_site : Option Nat)
    (hpoints : s0.points = []) (hsize : s0.size * s0.size ≤ 2 ^ 32)
    (hinit : s0.initialize empty_site = .ok s1) (row col : Nat) (p : lattice_point)
    (h : s1.get_point row col = .ok p) :
    s1.size = s0.size ∧ p.row = row ∧ p.column = col := by
  unfold lattice.initialize at hinit
  unfold lattice.get_point at h
  split_ifs at hinit with hpos
  · cases empty_site with
    | none => cases hinit
    | some e =>
      simp only [Except.ok.injEq] at hinit
      subst hinit
      simp only [lattice.make_surface, hpoints, List.nil_append] at h
      split_ifs at h with h1 h2 h3
      have hlt : row * s0.size + col < s0.size * s0.size := by
        have h4 : row + 1 ≤ s0.size := by omega
        have h5 : (row + 1) * s0.size ≤ s0.size * s0.size := Nat.mul_le_mul_right _ h4
        rw [Nat.succ_mul] at h5
        omega
      rw [Nat.mod_eq_of_lt (by omega)] at h
      rw [flatMap_getElem? s0.size _ _ (by simp) row col (by omega)] at h
      rw [List.getElem?_range (by omega)] at h
      simp only [Option.some_bind] at h
      rw [List.getElem?_map, List.getElem?_range (by omega)] at h
      simp only [Option.map_some', Except.ok.injEq] at h
      subst h
      exact ⟨rfl, rfl, rfl⟩
  · simp only [Except.ok.injEq] at hinit
    subst hinit
    split_ifs at h with h1 h2 h3
    dsimp only at h2
    omega

/-- The environments that the loop over the columns creates. -/
theorem kmc.create_environments_row_spec (surface : lattice) (row : Nat)
    (hpt : ∀ col p, surface.get_point row col = .ok p → p.row = row ∧ p.column = col) :
    ∀ (l : List Nat) (acc r : List Nat × store),
      kmc.create_environments_row surface row l acc = .ok r →
      r.1 = acc.1 ++ List.range' acc.2.next l.length ∧
      r.2.next = acc.2.next + l.length ∧
      (∀ i, i < l.length → ∃ p, r.2.env (acc.2.next + i) = environment.ctor p ∧
        p.row = row ∧ some p.column = l[i]?) ∧
      (∀ a, a < acc.2.next ∨ acc.2.next + l.length ≤ a → r.2.env a = acc.2.env a) ∧
      r.2.env_type = acc.2.env_type := by
  intro l
  induction l with
  | nil =>
    intro acc r h
    simp only [kmc.create_environments_row, Except.ok.injEq] at h
    subst h
    simp
  | cons col rest ih =>
    intro acc r h
    simp only [kmc.create_environments_row] at h
    cases h1 : surface.get_point row col with
    | error e => simp only [h1] at h; cases h
    | ok point =>
      simp only [h1] at h
      obtain ⟨i1, i2, i3, i4, i5⟩ := ih _ r h
      simp only at i1 i2 i3 i4 i5
      refine ⟨?_, ?_, ?_, ?_, i5⟩
      · rw [i1, List.length_cons, List.range'_succ]
        simp
      · rw [i2, List.length_cons]
        omega
      · intro i hi
        cases i with
        | zero =>
          refine ⟨point, ?_, (hpt col point h1).1, ?_⟩
          · rw [i4 _ (Or.inl (by omega))]
            simp [Function.update_same]
          · simp [(hpt col point h1).2]
        | succ i =>
          simp only [List.length_cons] at hi
          obtain ⟨p, hp1, hp2, hp3⟩ := i3 i (by omega)
          refine ⟨p, ?_, hp2, ?_⟩
          · rw [← hp1]
            congr 1
            omega
          · simp [hp3]
      · intro a ha
        rw [i4 a (by simp only [List.length_cons] at ha; omega)]
        have hne : a ≠ acc.2.next := by
          simp only [List.length_cons] at ha
          omega
        simp [Function.update_noteq hne]

/-- The matrix and the environments that the loop over the rows creates. -/
theorem kmc.create_environments_rows_spec (surface : lattice)
    (hpt : ∀ row col p, surface.get_point row col = .ok p → p.row = row ∧ p.column = col) :
    ∀ (l : List Nat) (acc r : List (List Nat) × store),
      kmc.create_environments_rows surface l acc = .ok r →
      r.1 = acc.1 ++ (List.range l.length).map
        (fun j => List.range' (acc.2.next + j * surface.get_size) surface.get_size) ∧
      r.2.next = acc.2.next + l.length * surface.get_size ∧
      (∀ j c, j < l.length → c < surface.get_size →
        ∃ p, r.2.env (acc.2.next + j * surface.get_size + c) = environment.ctor p ∧
          some p.row = l[j]? ∧ p.column = c) ∧
      (∀ a, a < acc.2.next ∨ acc.2.next + l.length * surface.get_size ≤ a →
        r.2.env a = acc.2.env a) ∧
      r.2.env_type = acc.2.env_type := by
  intro l
  induction l with
  | nil =>
    intro acc r h
    simp only [kmc.create_environments_rows, Except.ok.injEq] at h
    subst h
    simp
  | cons row rest ih =>
    intro acc r h
    simp only [kmc.create_environments_rows] at h
    cases h1 : kmc.create_environments_row surface row (List.range surface.get_size)
        ([], acc.2) with
    | error e => simp only [h1] at h; cases h
    | ok r1 =>
      simp only [h1] at h
      obtain ⟨a1, a2, a3, a4, a5⟩ := kmc.create_environments_row_spec surface row
        (hpt row) _ ([], acc.2) r1 h1
      simp only [List.nil_append, List.length_range] at a1 a2 a3 a4 a5
      obtain ⟨i1, i2, i3, i4, i5⟩ := ih _ r h
      simp only at i1 i2 i3 i4 i5
      refine ⟨?_, ?_, ?_, ?_, ?_⟩
      · rw [i1, a1, a2, List.length_cons, List.range_succ_eq_map]
        simp only [List.map_cons, List.map_map, Nat.zero_mul, Nat.add_zero, List.append_assoc,
          List.singleton_append, List.cons.injEq, true_and, List.append_cancel_left_eq]
        apply List.map_congr_left
        intro j _
        simp only [Function.comp_apply, Nat.succ_mul]
        congr 1
        omega
      · rw [i2, a2, List.length_cons, Nat.succ_mul]
        omega
      · intro j c hj hc
        cases j with
        | zero =>
          obtain ⟨p, hp1, hp2, hp3⟩ := a3 c hc
          rw [List.getElem?_range hc] at hp3
          refine ⟨p, ?_, by simp [hp2], by simpa using hp3⟩
          rw [i4 _ (Or.inl (by rw [a2]; omega))]
          simpa using hp1
        | succ j =>
          simp only [List.length_cons] at hj
          obtain ⟨p, hp1, hp2, hp3⟩ := i3 j c (by omega) hc
          refine ⟨p, ?_, by simpa using hp2, hp3⟩
          rw [← hp1, a2]
          congr 1
          rw [Nat.succ_mul]
          omega
      · intro a ha
        simp only [List.length_cons, Nat.succ_mul] at ha
        rw [i4 a (by rw [a2]; omega), a4 a (by omega)]
      · rw [i5, a5]

theorem lattice.shift_lt (size : Nat) (d : Int) (r : Nat) (hr : r < size) :
    lattice.shift size d r < size := by
  unfold lattice.shift
  split_ifs <;> omega

theorem lattice.shift_neg (size : Nat) (d : Int) (r : Nat) (hr : r < size) :
    lattice.shift size (-d) (lattice.shift size d r) = r := by
  rcases lt_trichotomy d 0 with hd | hd | hd
  · have h1 : ¬ (-d < 0) := by omega
    have h2 : 0 < -d := by omega
    simp only [lattice.shift, hd, h1, h2, if_true, if_false]
    by_cases hs : r = 0
    · simp only [hs, if_true]
      rw [if_pos (by omega)]
    · simp only [hs, if_false]
      rw [if_neg (by omega)]
      omega
  · subst hd
    simp [lattice.shift]
  · have h1 : ¬ (d < 0) := by omega
    have h2 : -d < 0 := by omega
    simp only [lattice.shift, hd, h1, h2, if_true, if_false]
    by_cases hs : size ≤ r + 1
    · simp only [hs, if_true]
      omega
    · simp only [hs, if_false]
      rw [if_neg (by omega)]
      omega

theorem environment.directions_neg (type : environment.type) (d : Int × Int)
    (h : d ∈ environment.directions type) : (-d.1, -d.2) ∈ environment.directions type := by
  unfold environment.directions at h ⊢
  cases type <;> simp only [reduceCtorEq, if_true, if_false, List.append_nil, List.cons_append,
    List.nil_append, List.mem_cons, List.mem_singleton, List.not_mem_nil, or_false] at h ⊢ <;>
    rcases h with rfl | rfl | rfl | rfl | rfl | rfl | rfl | rfl <;> simp

/-- The elements of the matrix that `environment::set_neighbors` reads, for an
environment at the row `r` and the column `c` of a matrix with `size` rows and
columns. -/
theorem environment.neighbor_elements_eq (type : environment.type) (t r c size : Nat)
    (surface : List (List Nat)) (first : List Nat) (addr : Nat → Nat → Nat)
    (hrows : surface.length = size) (hcols : first.length = size)
    (helt : ∀ i j, i < size → j < size → (surface[i]?).bind (fun l => l[j]?) = some (addr i j))
    (hr : r < size) (hc : c < size) :
    environment.neighbor_elements type ⟨t, r, c⟩ surface first
      = (environment.directions type).map
          (fun d => some (addr (lattice.shift size d.1 r) (lattice.shift size d.2 c))) := by
  have hup : ∀ x : Nat, x < size →
      (if (x : Int) - 1 < 0 then (size : Int) - 1 else (x : Int) - 1)
        = ((lattice.shift size (-1) x : Nat) : Int) := by
    intro x hx
    unfold lattice.shift
    split_ifs <;> omega
  have hdown : ∀ x : Nat, x < size →
      (if (x : Int) + 1 ≥ (size : Int) then (0 : Int) else (x : Int) + 1)
        = ((lattice.shift size 1 x : Nat) : Int) := by
    intro x hx
    unfold lattice.shift
    split_ifs <;> omega
  have hid : ∀ x : Nat, x = lattice.shift size 0 x := by
    intro x
    unfold lattice.shift
    simp
  have hel : ∀ i j : Nat, i < size → j < size →
      (if (i : Int) < 0 ∨ (j : Int) < 0 then none
        else (surface[(i : Int).toNat]?).bind (fun l => l[(j : Int).toNat]?))
        = some (addr i j) := by
    intro i j hi hj
    rw [if_neg (by omega)]
    simp only [Int.toNat_ofNat]
    exact helt i j hi hj
  unfold environment.neighbor_elements
  simp only [hrows, hcols, hup r hr, hup c hc, hdown r hr, hdown c hc]
  rw [hel _ c (lattice.shift_lt size (-1) r hr) hc, hel _ c (lattice.shift_lt size 1 r hr) hc,
    hel r _ hr (lattice.shift_lt size 1 c hc), hel r _ hr (lattice.shift_lt size (-1) c hc),
    hel _ _ (lattice.shift_lt size (-1) r hr) (lattice.shift_lt size (-1) c hc),
    hel _ _ (lattice.shift_lt size (-1) r hr) (lattice.shift_lt size 1 c hc),
    hel _ _ (lattice.shift_lt size 1 r hr) (lattice.shift_lt size (-1) c hc),
    hel _ _ (lattice.shift_lt size 1 r hr) (lattice.shift_lt size 1 c hc)]
  unfold environment.directions
  cases type <;> simp [← hid]

theorem lattice.addr_inj (size i j i' j' : Nat) (hj : j < size) (hj' : j' < size)
    (h : i * size + j = i' * size + j') : i = i' ∧ j = j' := by
  have hpos : 0 < size := by omega
  have h1 : (i * size + j) / size = i := by
    rw [Nat.add_comm, Nat.add_mul_div_right _ _ hpos, Nat.div_eq_of_lt hj, Nat.zero_add]
  have h2 : (i' * size + j') / size = i' := by
    rw [Nat.add_comm, Nat.add_mul_div_right _ _ hpos, Nat.div_eq_of_lt hj', Nat.zero_add]
  have hi : i = i' := by rw [← h1, ← h2, h]
  subst hi
  exact ⟨rfl, by omega⟩

theorem allSome_map_some {α β : Type} (f : α → β) (l : List α) :
    (l.map (fun d => some (f d))).allSome = some (l.map f) := by
  induction l with
  | nil => rfl
  | cons x xs ih =>
    simp only [List.allSome, List.map_cons, List.mapM_cons, id_eq] at ih ⊢
    rw [ih]
    rfl

/-- The neighbors after `environment::set_neighbors` at an environment of the
matrix. -/
theorem environment.set_neighbors_spec (st st' : store) (this : Nat)
    (surface : List (List Nat)) (first : List Nat) (size r c : Nat) (addr : Nat → Nat → Nat)
    (hne : st.env_type ≠ .Esingle)
    (hhead : surface.head? = some first)
    (hrows : surface.length = size) (hcols : first.length = size)
    (helt : ∀ i j, i < size → j < size → (surface[i]?).bind (fun l => l[j]?) = some (addr i j))
    (hr : r < size) (hc : c < size)
    (hrow : (st.env this).center.row = r) (hcol : (st.env this).center.column = c)
    (h : environment.set_neighbors st this surface = .ok st') :
    st'.env_type = st.env_type ∧
    (∀ e, (st'.env e).center = (st.env e).center) ∧
    (∀ e, e ≠ this → (st'.env e).neighbors = (st.env e).neighbors) ∧
    (st'.env this).neighbors = (st.env this).neighbors ++
      (environment.directions st.env_type).map
        (fun d => addr (lattice.shift size d.1 r) (lattice.shift size d.2 c)) := by
  unfold environment.set_neighbors at h
  rw [if_neg hne, hhead] at h
  simp only [] at h
  split_ifs at h
  have hcenter : (st.env this).center = ⟨(st.env this).center.type, r, c⟩ := by
    rw [← hrow, ← hcol]
  rw [hcenter, environment.neighbor_elements_eq st.env_type _ r c size surface first addr hrows
    hcols helt hr hc, allSome_map_some] at h
  simp only [Except.ok.injEq] at h
  subst h
  refine ⟨rfl, fun e => ?_, fun e he => ?_, ?_⟩
  · by_cases he : e = this
    · subst he
      simp only [Function.update_same]
      exact hcenter.symm
    · simp [Function.update_noteq he]
  · simp [Function.update_noteq he]
  · simp

/-- The neighbors after the loop of `kmc::create_environments` that sets them,
for environments of the matrix: the invariant of the loop. -/
theorem kmc.set_neighbors_all_spec (surface : List (List Nat)) (first : List Nat)
    (size b : Nat) (type : environment.type) (hne : type ≠ .Esingle)
    (hhead : surface.head? = some first)
    (hrows : surface.length = size) (hcols : first.length = size)
    (helt : ∀ i j, i < size → j < size →
      (surface[i]?).bind (fun l => l[j]?) = some (b + i * size + j)) :
    ∀ (l : List Nat) (st st' : store) (proc : Nat → Prop),
      (∀ a ∈ l, ∃ i j, i < size ∧ j < size ∧ a = b + i * size + j) →
      st.env_type = type →
      (∀ i j, i < size → j < size → ((st.env (b + i * size + j)).center.row = i ∧
        (st.env (b + i * size + j)).center.column = j)) →
      (∀ a x, x ∈ (st.env a).neighbors ↔ proc a ∧ ∃ i j d, i < size ∧ j < size ∧
        a = b + i * size + j ∧ d ∈ environment.directions type ∧
        x = b + lattice.shift size d.1 i * size + lattice.shift size d.2 j) →
      kmc.set_neighbors_all surface l st = .ok st' →
      ∀ a x, x ∈ (st'.env a).neighbors ↔ (a ∈ l ∨ proc a) ∧ ∃ i j d, i < size ∧ j < size ∧
        a = b + i * size + j ∧ d ∈ environment.directions type ∧
        x = b + lattice.shift size d.1 i * size + lattice.shift size d.2 j := by
  intro l
  induction l with
  | nil =>
    intro st st' proc _ _ _ hinv h
    simp only [kmc.set_neighbors_all, Except.ok.injEq] at h
    subst h
    intro a x
    rw [hinv a x]
    simp
  | cons eit rest ih =>
    intro st st' proc hl htype hcen hinv h
    simp only [kmc.set_neighbors_all] at h
    cases h1 : environment.set_neighbors st eit surface with
    | error e => simp only [h1] at h; cases h
    | ok st1 =>
      simp only [h1] at h
      obtain ⟨i0, j0, hi0, hj0, heit⟩ := hl eit (List.mem_cons_self _ _)
      obtain ⟨s1, s2, s3, s4⟩ := environment.set_neighbors_spec st st1 eit surface first size
        i0 j0 (fun i j => b + i * size + j) (by rw [htype]; exact hne) hhead hrows hcols helt
        hi0 hj0 (by rw [heit]; exact (hcen i0 j0 hi0 hj0).1)
        (by rw [heit]; exact (hcen i0 j0 hi0 hj0).2) h1
      have hstep := ih st1 st' (fun a => a = eit ∨ proc a)
        (fun a ha => hl a (List.mem_cons_of_mem _ ha)) (by rw [s1, htype])
        (fun i j hi hj => by rw [s2]; exact hcen i j hi hj) ?_ h
      · intro a x
        rw [hstep a x]
        simp only [List.mem_cons]
        constructor
        · rintro ⟨h2 | h2 | h2, h3⟩
          · exact ⟨Or.inl (Or.inr h2), h3⟩
          · exact ⟨Or.inl (Or.inl h2), h3⟩
          · exact ⟨Or.inr h2, h3⟩
        · rintro ⟨(h2 | h2) | h2, h3⟩
          · exact ⟨Or.inr (Or.inl h2), h3⟩
          · exact ⟨Or.inl h2, h3⟩
          · exact ⟨Or.inr (Or.inr h2), h3⟩
      · intro a x
        by_cases ha : a = eit
        · subst ha
          rw [s4, List.mem_append, hinv a x, htype]
          simp only [List.mem_map]
          constructor
          · rintro (⟨h2, h3⟩ | ⟨d, hd, hx⟩)
            · exact ⟨Or.inr h2, h3⟩
            · exact ⟨Or.inl trivial, i0, j0, d, hi0, hj0, heit, hd, hx.symm⟩
          · rintro ⟨_, i, j, d, hi, hj, ha, hd, hx⟩
            right
            have hij := lattice.addr_inj size i j i0 j0 hj hj0 (by omega)
            refine ⟨d, hd, ?_⟩
            rw [hx, hij.1, hij.2]
        · rw [s3 a ha, hinv a x]
          constructor
          · rintro ⟨h2, h3⟩
            exact ⟨Or.inr h2, h3⟩
          · rintro ⟨h2 | h2, h3⟩
            · exact absurd h2 ha
            · exact ⟨h2, h3⟩

theorem kmc.set_neighbors_all_single (surface : List (List Nat)) :
    ∀ (l : List Nat) (st st' : store), st.env_type = .Esingle →
      kmc.set_neighbors_all surface l st = .ok st' → st' = st := by
  intro l
  induction l with
  | nil =>
    intro st st' _ h
    simp only [kmc.set_neighbors_all, Except.ok.injEq] at h
    exact h.symm
  | cons eit rest ih =>
    intro st st' htype h
    simp only [kmc.set_neighbors_all, environment.set_neighbors, htype, if_true] at h
    exact ih st st' htype h

/-- The neighbour relation that `kmc::create_environments` sets on a store
without environments, for an engine without environments and a lattice whose
points are at their positions, is symmetric. -/
theorem kmc.create_environments_symmetric (sc : Nat → Nat) (fuel : Nat) (k k' : kmc)
    (st st' : store) (empty_site : Option Nat) (hblank : st.blank)
    (henvs : k.environments = [])
    (hpt : ∀ row col p, k.surface.get_point row col = .ok p → p.row = row ∧ p.column = col)
    (h : kmc.create_environments sc fuel k st empty_site = .ok (k', st')) :
    ∀ a x, x ∈ (st'.env a).neighbors → a ∈ (st'.env x).neighbors := by
  unfold kmc.create_environments at h
  cases htype : k.env_type with
  | none => simp only [htype] at h; cases h
  | some type =>
    simp only [htype] at h
    cases hrows : kmc.create_environments_rows k.surface (List.range k.surface.get_size)
        ([], { st with
          env_type := type, radial := k.env_radial, max_sites := k.max_sites,
          random := k.random, empty_site := empty_site }) with
    | error e => simp only [hrows] at h; cases h
    | ok created =>
      simp only [hrows] at h
      cases hnb : kmc.set_neighbors_all created.1 (k.environments ++ created.1.flatten)
          created.2 with
      | error e => simp only [hnb] at h; cases h
      | ok st1 =>
        simp only [hnb] at h
        cases hini : kmc.initialize_all sc fuel (k.environments ++ created.1.flatten) st1 with
        | error e => simp only [hini] at h; cases h
        | ok st2 =>
          simp only [hini, Except.ok.injEq, Prod.mk.injEq] at h
          obtain ⟨_, rfl⟩ := h
          have hb1 : created.2.blank :=
            kmc.create_environments_rows_blank k.surface _ _ created (by exact hblank) hrows
          -- the neighbors are those after the loop that sets them
          have hu := kmc.set_neighbors_all_blank created.1 (k.environments ++ created.1.flatten)
            _ created.2 st1 (fun e he => he) (fun e => by
              obtain ⟨c, hc⟩ := hb1 e
              rw [hc]
              exact ⟨rfl, rfl, fun _ => rfl⟩) hnb
          have ht1 : st1.touched (fun _ => False) := by
            refine ⟨fun e he => he.elim, fun e _ => (hu e).1, fun e p g hpg => ?_⟩
            rw [(hu e).2.1] at hpg
            cases hpg
          obtain ⟨_, hn2⟩ := kmc.initialize_all_touched sc fuel _ st1 st2 _ ht1 hini
          intro a x
          rw [hn2 a, hn2 x]
          revert a x
          -- the matrix and the environments
          obtain ⟨m1, _, m3, _, m5⟩ := kmc.create_environments_rows_spec k.surface hpt _ _
            created hrows
          simp only [List.nil_append, List.length_range] at m1 m3 m5
          have hnil : ∀ e, (created.2.env e).neighbors = [] := by
            intro e
            obtain ⟨c, hc⟩ := hb1 e
            rw [hc]
            rfl
          by_cases hsingle : type = .Esingle
          · have := kmc.set_neighbors_all_single created.1 _ created.2 st1
              (by rw [m5, hsingle]) hnb
            intro a x hx
            rw [this, hnil a] at hx
            cases hx
          · by_cases hzero : k.surface.get_size = 0
            · rw [henvs, m1, hzero] at hnb
              simp only [List.range_zero, List.map_nil, List.flatten_nil, List.append_nil,
                kmc.set_neighbors_all, Except.ok.injEq] at hnb
              intro a x hx
              rw [← hnb, hnil a] at hx
              cases hx
            · have hpos : 0 < k.surface.get_size := Nat.pos_of_ne_zero hzero
              have helt : ∀ i j, i < k.surface.get_size → j < k.surface.get_size →
                  (created.1[i]?).bind (fun l => l[j]?)
                    = some (st.next + i * k.surface.get_size + j) := by
                intro i j hi hj
                rw [m1, List.getElem?_map, List.getElem?_range hi]
                simp only [Option.map_some', Option.some_bind]
                rw [List.getElem?_range' _ _ hj]
                congr 1
                omega
              have hhead : created.1.head? = some (List.range' st.next k.surface.get_size) := by
                rw [m1]
                cases hsz : k.surface.get_size with
                | zero => omega
                | succ n => simp [List.range_succ_eq_map]
              have hmemL : ∀ a, a ∈ k.environments ++ created.1.flatten ↔
                  ∃ i j, i < k.surface.get_size ∧ j < k.surface.get_size ∧
                    a = st.next + i * k.surface.get_size + j := by
                intro a
                rw [henvs, List.nil_append, m1]
                simp only [List.mem_flatten, List.mem_map, List.mem_range, List.mem_range'_1]
                constructor
                · rintro ⟨l, ⟨i, hi, rfl⟩, ha⟩
                  rw [List.mem_range'_1] at ha
                  exact ⟨i, a - (st.next + i * k.surface.get_size), hi, by omega, by omega⟩
                · rintro ⟨i, j, hi, hj, rfl⟩
                  refine ⟨_, ⟨i, hi, rfl⟩, ?_⟩
                  rw [List.mem_range'_1]
                  omega
              have hcen : ∀ i j, i < k.surface.get_size → j < k.surface.get_size →
                  ((created.2.env (st.next + i * k.surface.get_size + j)).center.row = i ∧
                    (created.2.env (st.next + i * k.surface.get_size + j)).center.column = j) := by
                intro i j hi hj
                obtain ⟨p, hp1, hp2, hp3⟩ := m3 i j hi hj
                rw [List.getElem?_range hi] at hp2
                simp only [Option.some.injEq] at hp2
                have hp1' : created.2.env (st.next + i * k.surface.get_size + j)
                    = environment.ctor p := hp1
                rw [hp1']
                exact ⟨hp2, hp3⟩
              have hspec := kmc.set_neighbors_all_spec created.1
                (List.range' st.next k.surface.get_size) k.surface.get_size st.next type hsingle
                hhead (by rw [m1]; simp) (by simp) helt
                (k.environments ++ created.1.flatten) created.2 st1 (fun _ => False)
                (fun a ha => (hmemL a).1 ha) m5 hcen
                (fun a x => by rw [hnil a]; simp) hnb
              intro a x hx
              obtain ⟨_, i, j, d, hi, hj, ha, hd, hxe⟩ := (hspec a x).1 hx
              rw [hspec x a]
              have hi' := lattice.shift_lt k.surface.get_size d.1 i hi
              have hj' := lattice.shift_lt k.surface.get_size d.2 j hj
              refine ⟨Or.inl ((hmemL x).2 ⟨_, _, hi', hj', hxe⟩), _, _, (-d.1, -d.2), hi', hj',
                hxe, environment.directions_neg type d hd, ?_⟩
              simp only []
              rw [lattice.shift_neg _ _ _ hi, lattice.shift_neg _ _ _ hj]
              exact ha

theorem kmc.create_ensembles_reaction_surface (sc : Nat → Nat) (k k' : kmc) (rxn : Nat)
    (r : model_reaction) (h : kmc.create_ensembles_reaction sc k rxn r = .ok k') :
    k'.surface = k.surface ∧ k'.environments = k.environments := by
  unfold kmc.create_ensembles_reaction at h
  split at h
  · cases h
  · cases h
  · split_ifs at h
    all_goals
      simp only [Except.ok.injEq] at h
      subst h
      exact ⟨rfl, rfl⟩

theorem kmc.create_ensembles_reactions_surface (sc : Nat → Nat) (rs : List model_reaction) :
    ∀ (rxn : Nat) (k k' : kmc), kmc.create_ensembles_reactions sc rs rxn k = .ok k' →
      k'.surface = k.surface ∧ k'.environments = k.environments := by
  induction rs with
  | nil =>
    intro rxn k k' h
    simp only [kmc.create_ensembles_reactions, Except.ok.injEq] at h
    subst h
    exact ⟨rfl, rfl⟩
  | cons r rest ih =>
    intro rxn k k' h
    simp only [kmc.create_ensembles_reactions] at h
    cases h1 : kmc.create_ensembles_reaction sc k rxn r with
    | error e => simp only [h1] at h; cases h
    | ok k1 =>
      simp only [h1] at h
      obtain ⟨a1, a2⟩ := kmc.create_ensembles_reaction_surface sc k k1 rxn r h1
      obtain ⟨b1, b2⟩ := ih (rxn + 1) k1 k' h
      exact ⟨by rw [b1, a1], by rw [b2, a2]⟩

theorem kmc.create_ensembles_surface (sc : Nat → Nat) (mech : model_mechanism)
    (empty_site : Option Nat) (k k' : kmc)
    (h : kmc.create_ensembles sc mech empty_site k = .ok k') :
    k'.surface = k.surface ∧ k'.environments = k.environments := by
  unfold kmc.create_ensembles at h
  cases h1 : kmc.create_ensembles_reactions sc mech.reactions 0 k with
  | error e => simp only [h1] at h; cases h
  | ok k1 =>
    simp only [h1] at h
    have hk1 := kmc.create_ensembles_reactions_surface sc mech.reactions 0 k k1 h1
    cases empty_site with
    | none =>
      simp only [] at h
      split_ifs at h
      all_goals
        simp only [Except.ok.injEq] at h
        subst h
        exact hk1
    | some empty =>
      simp only [] at h
      split_ifs at h
      all_goals
        simp only [Except.ok.injEq] at h
        subst h
        exact hk1

/-- The neighbour relation after `kmc::initialize`, on a store without
environments, for an engine without environments whose lattice has no points
yet and a number of points that an `unsigned int` holds, is symmetric. -/
theorem kmc.initialize_symmetric (sc : Nat → Nat) (mech : model_mechanism) (empty : Option Nat)
    (fuel : Nat) (k k' : kmc) (st st' : store) (henvs : k.environments = [])
    (hpoints : k.surface.points = []) (hsize : k.surface.size * k.surface.size ≤ 2 ^ 32)
    (hblank : st.blank) (h : kmc.initialize sc mech empty fuel k st = .ok (k', st')) :
    ∀ a x, x ∈ (st'.env a).neighbors → a ∈ (st'.env x).neighbors := by
  unfold kmc.initialize at h
  split at h
  · cases h
  · rename_i r hr
    -- the lattice that is initialized
    have hr2 : r.2.points = [] ∧ r.2.size * r.2.size ≤ 2 ^ 32 := by
      split_ifs at hr
      · cases empty with
        | none => cases hr
        | some e =>
          simp only [Except.ok.injEq] at hr
          rw [← hr]
          exact ⟨hpoints, hsize⟩
      · unfold lattice.set_size at hr
        split_ifs at hr
        simp only [Except.ok.injEq] at hr
        rw [← hr]
        exact ⟨hpoints, by simp⟩
    split at h
    · cases h
    · rename_i k1 hk1
      obtain ⟨s1, s2⟩ := kmc.create_ensembles_surface sc mech r.1 _ k1 hk1
      split at h
      · cases h
      · rename_i surface hsurf
        split at h
        · cases h
        · rename_i created hcr
          split at h
          · cases h
          · simp only [Except.ok.injEq, Prod.mk.injEq] at h
            obtain ⟨kc, stc⟩ := created
            rw [← h.2]
            refine kmc.create_environments_symmetric sc fuel _ kc st stc r.1 hblank ?_ ?_ hcr
            · show k1.environments = []
              rw [s2]
              exact henvs
            · intro row col p hp
              have hs0 : k1.surface = r.2 := s1
              rw [hs0] at hsurf
              exact (lattice.get_point_position r.2 surface r.1 hr2.1 hr2.2 hsurf row col p
                hp).2

/-- The surface of the engines that the program reaches is built, and its
neighbour relation is symmetric. -/
theorem kmc.reached_surface (sc : Nat → Nat) (mech : model_mechanism) (empty : Option Nat)
    (fuel : Nat) (reactor : List Nat → List Nat → Option exn) (k : kmc) (st : store)
    (h : kmc.reached sc mech empty fuel reactor k st) :
    st.surface_built ∧ ∀ a x, x ∈ (st.env a).neighbors → a ∈ (st.env x).neighbors := by
  induction h with
  | init _ henvs hpoints hsize hst hinit =>
    exact ⟨kmc.initialize_built sc mech empty fuel _ _ _ _ hst hinit,
      kmc.initialize_symmetric sc mech empty fuel _ _ _ _ henvs hpoints hsize hst hinit⟩
  | coverage _ hstep ih =>
    obtain ⟨hb, hn⟩ := kmc.perform_reaction_rxn_built sc reactor _ _ _ _ _ _ ih.1 hstep
    refine ⟨hb, fun a x hx => ?_⟩
    rw [hn a] at hx
    rw [hn x]
    exact ih.2 a x hx
  | step _ hstep ih =>
    obtain ⟨hb, hn⟩ := kmc.perform_reaction_built sc reactor _ _ _ _ _ _ _ ih.1 hstep
    refine ⟨hb, fun a x hx => ?_⟩
    rw [hn a] at hx
    rw [hn x]
    exact ih.2 a x hx

theorem example_frame_change_eq :
    environment.change_ensemble example_sc (example_memory_init.with_random example_rng) 0 10 [2]
      [] [] = .ok (example_frame_store, example_frame_remove, example_frame_changed) := rfl

/-- The frame of a successful `environment::change_ensemble`, in a store in
which every member of the replaced instance is connected to itself and every
environment that has a member in one of its site-groups is connected to that
member. -/
theorem environment.change_ensemble_frame (sc : Nat → Nat) (st st' : store) (this old : Nat)
    (products remove changed members : List Nat)
    (hfind : map_find ptr_lt (st.env this).ensemble_env old = some (old, members))
    (hself : ∀ m ∈ members, m ∈ (st.env m).connected)
    (hsites : ∀ e g, g ∈ (st.env e).sites → ∀ m ∈ g, m ∈ members → e ∈ (st.env m).connected)
    (h : environment.change_ensemble sc st this old products [] [] = .ok (st', remove, changed)) :
    (∀ e, e ∉ changed →
      (st'.env e).center.type = (st.env e).center.type ∧
      (st'.env e).multisite = (st.env e).multisite ∧
      (st'.env e).ensembles = (st.env e).ensembles ∧
      (st'.env e).ensemble_env = (st.env e).ensemble_env ∧
      ∀ g ∈ (st.env e).sites,
        environment.site_occupants st' g = environment.site_occupants st g ∧
        ∀ m ∈ g, (st'.env m).multisite = (st.env m).multisite) ∧
    (∀ e, (st'.env e).center.type ≠ (st.env e).center.type → e ∈ members) := by
  obtain ⟨_, members', obj, g, placed, hfind', _, _, _, hplace, hrec, hch, _⟩ :=
    environment.change_ensemble_ok sc st st' this old products [] [] remove changed h
  rw [hfind] at hfind'
  simp only [Option.some.injEq, Prod.mk.injEq, true_and] at hfind'
  subst hfind'
  have hnd : changed.Nodup := by
    rw [hch]
    exact pairwise_lt_nodup _
      (environment.collect_changed_sorted st this members [] List.Pairwise.nil)
  have hrecr := environment.recreate_ensembles_recreated sc changed placed.2 st' hnd hrec
  have hframe := environment.place_species_frame sc _ _ members placed.1 placed.2 hplace
  -- the environments outside the instance are as before after the placement
  have hplaced : ∀ e, e ∉ members → placed.2.env e = st.env e := by
    intro e he
    rw [hframe.2.1 e he]
    rfl
  -- the surface is as after the placement when the ensembles are created anew
  have hsurf : ∀ e, (st'.env e).center = (placed.2.env e).center ∧
      (st'.env e).multisite = (placed.2.env e).multisite := by
    intro e
    have := hrecr.2.2.2.1.2.2.2.2 e
    exact ⟨this.1.symm, this.2.symm⟩
  have hmem : ∀ m ∈ members, ∀ x ∈ (st.env m).connected, x ∈ changed := by
    intro m hm x hx
    rw [hch, environment.collect_changed_mem]
    exact Or.inr (Or.inr (Or.inr ⟨m, hm, hx⟩))
  have hout : ∀ e, e ∉ changed → e ∉ members :=
    fun e he hm => he (hmem e hm e (hself e hm))
  refine ⟨fun e he => ?_, fun e hne => ?_⟩
  · have heq : st'.env e = st.env e := by
      rw [hrecr.2.2.1 e he, hplaced e (hout e he)]
    refine ⟨by rw [heq], by rw [heq], by rw [heq], by rw [heq], fun g hg => ?_⟩
    have hgm : ∀ m ∈ g, (st'.env m).center = (st.env m).center ∧
        (st'.env m).multisite = (st.env m).multisite := by
      intro m hm
      have hmn : m ∉ members := fun hmm => he (hmem m hmm e (hsites e g hg m hm hmm))
      rw [(hsurf m).1, (hsurf m).2, hplaced m hmn]
      exact ⟨rfl, rfl⟩
    refine ⟨?_, fun m hm => (hgm m hm).2⟩
    unfold environment.site_occupants
    apply List.map_congr_left
    intro m hm
    rw [(hgm m hm).1]
  · by_contra hm
    apply hne
    rw [(hsurf e).1, hplaced e hm]

/-! ## Lemmas on the order of the ensembles -/

/-- The call `std::lexicographical_compare` is the lexicographic order of the
sequences. -/
theorem lexicographical_compare_iff_lex :
    ∀ (l r : List Nat), lexicographical_compare l r = true ↔ List.Lex (· < ·) l r
  | [], [] => by simp [lexicographical_compare]
  | [], _ :: _ => by simp [lexicographical_compare, List.Lex.nil]
  | _ :: _, [] => by simp [lexicographical_compare]
  | a :: as, b :: bs => by
    simp only [lexicographical_compare]
    by_cases hab : a < b
    · simp only [hab, if_true, true_iff]
      exact List.Lex.rel hab
    · by_cases hba : b < a
      · simp only [hab, hba, if_false, if_true, Bool.false_eq_true, false_iff]
        intro h
        cases h with
        | cons h1 => exact absurd hba (lt_irrefl _)
        | rel h1 => exact hab h1
      · have heq : a = b := by omega
        subst heq
        simp only [hab, if_false]
        rw [lexicographical_compare_iff_lex as bs]
        constructor
        · intro h
          exact List.Lex.cons h
        · intro h
          cases h with
          | cons h1 => exact h1
          | rel h1 => exact absurd h1 hab

theorem lexicographical_compare_asymm (l r : List Nat)
    (h : lexicographical_compare l r = true) : lexicographical_compare r l = false := by
  cases h2 : lexicographical_compare r l with
  | false => rfl
  | true =>
    have h3 := lexicographical_compare_trans l r l h h2
    rw [lexicographical_compare_irrefl] at h3
    exact absurd h3 (by decide)

theorem ensemble.size_le_sum (sc : Nat → Nat) (l : List Nat) :
    (l.filter (fun s => decide (sc s > 0))).length ≤ (l.map sc).sum := by
  induction l with
  | nil => simp
  | cons s rest ih =>
    by_cases h : sc s > 0
    · simp only [List.filter_cons, h, decide_True, if_true, List.length_cons, List.map_cons,
        List.sum_cons]
      omega
    · simp only [List.filter_cons, h, decide_False, List.map_cons, List.sum_cons]
      simp only [Bool.false_eq_true, if_false]
      omega

/-! ## Lemmas on the errors of `environment::change_ensemble` -/

/-- An exception of one of the `throw` statements of `change_ensemble` is the
result of the call. -/
theorem environment.change_ensemble_throw_error (sc : Nat → Nat) (st st' : store)
    (this reactants : Nat) (products remove changed remove' changed' : List Nat) (e : exn)
    (h : environment.change_ensemble_throw sc st this reactants products remove changed
      = some (e, st', remove', changed')) :
    environment.change_ensemble sc st this reactants products remove changed = .error e ∧
      st' = st := by
  unfold environment.change_ensemble_throw at h
  unfold environment.change_ensemble
  cases hinit : (st.env this).initialized with
  | false =>
    simp only [hinit, Bool.not_false, if_true, Option.some.injEq, Prod.mk.injEq] at h ⊢
    exact ⟨by rw [h.1], h.2.1.symm⟩
  | true =>
    simp only [hinit, Bool.not_true, Bool.false_eq_true, if_false] at h ⊢
    cases hfind : map_find ptr_lt (st.env this).ensemble_env reactants with
    | none =>
      simp only [hfind, Option.some.injEq, Prod.mk.injEq] at h ⊢
      exact ⟨by rw [h.1], h.2.1.symm⟩
    | some old =>
      simp only [hfind] at h ⊢
      cases hobj : st.ens reactants with
      | none => simp [hobj] at h
      | some obj =>
        simp only [hobj] at h ⊢
        by_cases hc : obj.get_coordination = (ensemble.ctor sc products).get_coordination
        · simp [hc] at h
        · simp only [ne_eq, hc, not_false_eq_true, if_true, Option.some.injEq,
            Prod.mk.injEq] at h ⊢
          exact ⟨by rw [h.1], h.2.1.symm⟩

/-! ## Lemmas on `environment::set_neighbors` -/

theorem lattice.wrap_pred (N r : Nat) (hr : r < N) :
    lattice.wrap N ((r : Int) - 1) = lattice.shift N (-1) r := by
  unfold lattice.wrap lattice.shift
  simp only [Int.reduceNeg, Int.reduceLT, if_true]
  by_cases h0 : r = 0
  · subst h0
    simp only [if_true, Nat.cast_zero, zero_sub]
    have h1 : (-1 : Int) % (N : Int) = (N : Int) - 1 := by
      rw [← Int.add_emod_self]
      apply Int.emod_eq_of_lt <;> omega
    rw [h1]
    omega
  · simp only [h0, if_false]
    have h1 : ((r : Int) - 1) % (N : Int) = (r : Int) - 1 := by
      apply Int.emod_eq_of_lt <;> omega
    rw [h1]
    omega

theorem lattice.wrap_succ (N r : Nat) (hr : r < N) :
    lattice.wrap N ((r : Int) + 1) = lattice.shift N 1 r := by
  unfold lattice.wrap lattice.shift
  simp only [Int.reduceLT, if_false, Int.reduceLT, zero_lt_one, if_true]
  by_cases h0 : N ≤ r + 1
  · simp only [h0, if_true]
    have h1 : (r : Int) + 1 = (N : Int) := by omega
    rw [h1, Int.emod_self]
    rfl
  · simp only [h0, if_false]
    have h1 : ((r : Int) + 1) % (N : Int) = (r : Int) + 1 := by
      apply Int.emod_eq_of_lt <;> omega
    rw [h1]
    omega

/-- The call `environment::set_neighbors` at an environment of a square matrix
returns, with the neighbors appended in the order of the directions. -/
theorem environment.set_neighbors_ok (st : store) (this : Nat)
    (surface : List (List Nat)) (first : List Nat) (size r c : Nat) (addr : Nat → Nat → Nat)
    (hne : st.env_type ≠ .Esingle) (hsize : size < 2 ^ 31)
    (hhead : surface.head? = some first)
    (hrows : surface.length = size) (hcols : first.length = size)
    (helt : ∀ i j, i < size → j < size → (surface[i]?).bind (fun l => l[j]?) = some (addr i j))
    (hr : r < size) (hc : c < size)
    (hrow : (st.env this).center.row = r) (hcol : (st.env this).center.column = c) :
    ∃ st', environment.set_neighbors st this surface = .ok st' ∧
      (∀ e, e ≠ this → st'.env e = st.env e) ∧
      (st'.env this).neighbors = (st.env this).neighbors ++
        (environment.directions st.env_type).map
          (fun d => addr (lattice.shift size d.1 r) (lattice.shift size d.2 c)) := by
  unfold environment.set_neighbors
  rw [if_neg hne, hhead]
  simp only []
  rw [if_neg (by rw [hrow, hcol, hrows, hcols]; omega)]
  have hcenter : (st.env this).center = ⟨(st.env this).center.type, r, c⟩ := by
    rw [← hrow, ← hcol]
  rw [hcenter, environment.neighbor_elements_eq st.env_type _ r c size surface first addr hrows
    hcols helt hr hc, allSome_map_some]
  refine ⟨_, rfl, fun e he => ?_, ?_⟩
  · simp [Function.update_noteq he]
  · simp

theorem environment.directions_periodic (type : environment.type) (N r c : Nat)
    (addr : Nat → Nat → Nat) (hne : type ≠ .Esingle) (hr : r < N) (hc : c < N) :
    (environment.directions type).map
        (fun d => addr (lattice.shift N d.1 r) (lattice.shift N d.2 c))
      = environment.periodic_neighbors type N r c addr := by
  have h0 : ∀ x, lattice.shift N 0 x = x := by
    intro x
    simp [lattice.shift]
  cases type with
  | Esingle => exact absurd rfl hne
  | Enn =>
    simp only [environment.directions, environment.periodic_neighbors, if_true, List.append_nil,
      List.map_cons, List.map_nil, h0, lattice.wrap_pred N r hr, lattice.wrap_succ N r hr,
      lattice.wrap_pred N c hc, lattice.wrap_succ N c hc]
  | Ennn =>
    simp only [environment.directions, environment.periodic_neighbors, if_false,
      List.map_cons, List.map_nil, h0, lattice.wrap_pred N r hr, lattice.wrap_succ N r hr,
      lattice.wrap_pred N c hc, lattice.wrap_succ N c hc, reduceCtorEq, List.cons_append,
      List.nil_append]

theorem lattice.matrix_getElem (N : Nat) (addr : Nat → Nat → Nat) (i j : Nat)
    (hi : i < N) (hj : j < N) :
    (((List.range N).map (fun i => (List.range N).map (fun j => addr i j)))[i]?).bind
      (fun l => l[j]?) = some (addr i j) := by
  simp [List.getElem?_map, List.getElem?_range hi, List.getElem?_range hj]

/-! ## Lemmas on `environment::initialize` -/

/-- The method `environment::radiate` reads the neighbors of the environments
only. -/
theorem environment.radiate_congr (env env' : Nat → environment)
    (hnb : ∀ a, (env a).neighbors = (env' a).neighbors) :
    ∀ (n this : Nat) (acc : List Nat × List (List Nat)),
      environment.radiate env n this acc = environment.radiate env' n this acc
  | 0, _, _ => rfl
  | n + 1, this, acc => by
    simp only [environment.radiate, hnb this]
    have hfun : (fun (a : List Nat × List (List Nat)) it =>
          ((environment.radiate env n it (a.1, [])).1,
            (environment.radiate env n it (a.1, [])).2.foldl
              (fun groups git =>
                set_insert lexicographical_compare (set_insert ptr_lt this git) groups) a.2))
        = (fun (a : List Nat × List (List Nat)) it =>
          ((environment.radiate env' n it (a.1, [])).1,
            (environment.radiate env' n it (a.1, [])).2.foldl
              (fun groups git =>
                set_insert lexicographical_compare (set_insert ptr_lt this git) groups) a.2)) := by
      funext a it
      rw [environment.radiate_congr env env' hnb n it (a.1, [])]
    rw [hfun]

/-- The method `environment::neighbor_sites` reads the neighbors of its
environment only. -/
theorem environment.neighbor_sites_congr (env env' : Nat → environment) (this : Nat)
    (hnb : (env this).neighbors = (env' this).neighbors) :
    ∀ (n : Nat) (groups : List (List Nat)),
      environment.neighbor_sites env this n groups
        = environment.neighbor_sites env' this n groups
  | 0, _ => rfl
  | 1, _ => rfl
  | n + 2, groups => by
    simp only [environment.neighbor_sites, hnb]
    rw [environment.neighbor_sites_congr env env' this hnb (n + 1) []]

/-- The only exception of `environment::create_ensembles` is the division by a
coordination of zero. -/
theorem environment.create_ensembles_loop_error (sc : Nat → Nat) (this : Nat) :
    ∀ (sites : List (List Nat)) (st : store) (e : exn),
      environment.create_ensembles_loop sc this sites st = .error e →
        e = .undefined_behaviour := by
  intro sites
  induction sites with
  | nil => intro st e h; cases h
  | cons it rest ih =>
    intro st e h
    simp only [environment.create_ensembles_loop] at h
    split_ifs at h
    · exact ih _ e h
    · cases hc : environment.insert_counted sc
          (species_count (environment.create_ensembles_site st it it [] false).1) with
      | error e1 =>
        simp only [hc, Except.error.injEq] at h
        subst h
        have hins : ∀ (l : List (Nat × Nat)) (e : exn),
            environment.insert_counted sc l = .error e → e = .undefined_behaviour := by
          intro l
          induction l with
          | nil => intro e h; cases h
          | cons mm rest ih2 =>
            intro e h
            simp only [environment.insert_counted] at h
            split_ifs at h
            · simp only [Except.error.injEq] at h
              exact h.symm
            · cases hr : environment.insert_counted sc rest with
              | error e2 =>
                simp only [hr, Except.error.injEq] at h
                subst h
                exact ih2 _ hr
              | ok v => simp only [hr] at h; cases h
        exact hins _ _ hc
      | ok ms_seq =>
        simp only [hc] at h
        exact ih _ e h
    · exact ih _ e h
    · exact ih _ e h

theorem environment.create_ensembles_error (sc : Nat → Nat) (st : store) (this : Nat) (e : exn)
    (h : environment.create_ensembles sc st this = .error e) : e = .undefined_behaviour :=
  environment.create_ensembles_loop_error sc this _ _ e h

/-- The members `connected` and `sites` after `environment::initialize` are
those that `environment::connectivity` leaves, called on the store with the
site-groups of the environment cleared. -/
theorem environment.initialize_connectivity (sc : Nat → Nat) (fuel : Nat) (st st' : store)
    (this : Nat) (h : environment.initialize sc fuel st this = .ok st') :
    ∃ st1, environment.connectivity fuel
        { st with env := Function.update st.env this { (st.env this) with sites := [] } }
        this st.max_sites = .ok st1 ∧
      (st'.env this).connected = (st1.env this).connected ∧
      (st'.env this).sites = (st1.env this).sites := by
  unfold environment.initialize at h
  split at h
  · cases h
  · cases hc : environment.connectivity fuel
        { st with env := Function.update st.env this { (st.env this) with sites := [] } }
        this st.max_sites with
    | error e => simp only [hc] at h; cases h
    | ok st1 =>
      simp only [hc] at h
      cases hcr : environment.create_ensembles sc st1 this with
      | error e => simp only [hcr] at h; cases h
      | ok st2 =>
        simp only [hcr, Except.ok.injEq] at h
        obtain ⟨_, _, _, _, _, r6, _, _⟩ := environment.create_ensembles_recreated sc st1 st2 this hcr
        refine ⟨st1, rfl, ?_, ?_⟩
        · rw [← h, ← (r6 this).2.1]
          simp
        · rw [← h, ← (r6 this).2.2.1]
          simp

/-- With radial sites, `connected` after `environment::initialize` holds what it
held before and the environments that `environment::radiate` touches. -/
theorem environment.initialize_radial (sc : Nat → Nat) (fuel : Nat) (st st' : store)
    (this : Nat) (hrad : st.radial = true)
    (h : environment.initialize sc fuel st this = .ok st') :
    (st'.env this).connected
      = (environment.radiate st.env st.max_sites this ((st.env this).connected, [])).1 ∧
    (match (environment.radiate st.env st.max_sites this ((st.env this).connected, [])).2 with
      | [] => some []
      | out :: rest => environment.criss_cross st.max_sites fuel fuel out (out :: rest))
      = some (st'.env this).sites := by
  obtain ⟨st1, hc, h1, h2⟩ := environment.initialize_connectivity sc fuel st st' this h
  have hnb : ∀ a, ((Function.update st.env this { (st.env this) with sites := [] }) a).neighbors
      = (st.env a).neighbors := by
    intro a
    by_cases ha : a = this
    · subst ha; simp
    · simp [Function.update_noteq ha]
  unfold environment.connectivity at hc
  simp only [hrad, if_true, Function.update_same] at hc
  rw [environment.radiate_congr _ st.env hnb] at hc
  revert hc
  cases hcc : (match (environment.radiate st.env st.max_sites this
      ((st.env this).connected, [])).2 with
    | [] => some []
    | out :: rest => environment.criss_cross st.max_sites fuel fuel out (out :: rest)) with
  | none =>
    intro hc
    cases hc
  | some sites =>
    intro hc
    simp only [Except.ok.injEq] at hc
    rw [h1, h2, ← hc]
    simp

/-- With neighbor sites, `environment::initialize` throws `bad_input` when the
maximum size is greater than the number of neighbors plus one, and leaves the
site-groups of `environment::neighbor_sites` otherwise. -/
theorem environment.initialize_neighbor (sc : Nat → Nat) (fuel : Nat) (st : store)
    (this : Nat) (g : rng) (hrad : st.radial = false) (hrng : st.random = some g) :
    (st.max_sites > (st.env this).neighbors.length + 1 →
      environment.initialize sc fuel st this = .error .bad_input_connectivity) ∧
    (¬ st.max_sites > (st.env this).neighbors.length + 1 →
      (∃ st', environment.initialize sc fuel st this = .ok st') ∨
        environment.initialize sc fuel st this = .error .undefined_behaviour) ∧
    (∀ st', environment.initialize sc fuel st this = .ok st' →
      (st'.env this).connected
        = set_insert_range ptr_lt (set_insert ptr_lt this (st.env this).connected)
            (st.env this).neighbors ∧
      (st'.env this).sites = environment.neighbor_sites st.env this st.max_sites []) := by
  have hconn : ¬ st.max_sites > (st.env this).neighbors.length + 1 →
      ∃ st1, environment.connectivity fuel
        { st with env := Function.update st.env this { (st.env this) with sites := [] } }
        this st.max_sites = .ok st1 ∧
        (st1.env this).connected
          = set_insert_range ptr_lt (set_insert ptr_lt this (st.env this).connected)
              (st.env this).neighbors ∧
        (st1.env this).sites = environment.neighbor_sites st.env this st.max_sites [] := by
    intro hn
    unfold environment.connectivity
    simp only [hrad, Bool.false_eq_true, if_false, Function.update_same]
    rw [if_neg hn]
    refine ⟨_, rfl, ?_, ?_⟩
    · simp
    · simp only [Function.update_same]
      exact environment.neighbor_sites_congr _ _ this (by simp) _ _
  refine ⟨?_, ?_, ?_⟩
  · intro hn
    unfold environment.initialize
    split
    · rename_i hnone
      rw [hrng] at hnone
      cases hnone
    · unfold environment.connectivity
      simp only [hrad, Bool.false_eq_true, if_false, Function.update_same]
      rw [if_pos hn]
  · intro hn
    obtain ⟨st1, hc, _, _⟩ := hconn hn
    unfold environment.initialize
    split
    · rename_i hnone
      rw [hrng] at hnone
      cases hnone
    · rw [hc]
      simp only []
      cases hcr : environment.create_ensembles sc st1 this with
      | error e =>
        right
        rw [environment.create_ensembles_error sc st1 this e hcr]
      | ok st2 =>
        left
        exact ⟨_, rfl⟩
  · intro st' h
    obtain ⟨st1, hc, h1, h2⟩ := environment.initialize_connectivity sc fuel st st' this h
    by_cases hn : st.max_sites > (st.env this).neighbors.length + 1
    · exfalso
      unfold environment.connectivity at hc
      simp only [hrad, Bool.false_eq_true, if_false, Function.update_same] at hc
      rw [if_pos hn] at hc
      cases hc
    · obtain ⟨st1', hc', h1', h2'⟩ := hconn hn
      rw [hc] at hc'
      simp only [Except.ok.injEq] at hc'
      subst hc'
      rw [h1, h2, h1', h2']
      exact ⟨rfl, rfl⟩

/-- The call `environment::initialize` leaves the neighbors of every environment
as they are. -/
theorem environment.initialize_neighbors (sc : Nat → Nat) (fuel : Nat) (st st' : store)
    (this : Nat) (h : environment.initialize sc fuel st this = .ok st') :
    ∀ e, (st'.env e).neighbors = (st.env e).neighbors := by
  unfold environment.initialize at h
  split at h
  · cases h
  · cases hc : environment.connectivity fuel
        { st with env := Function.update st.env this { (st.env this) with sites := [] } }
        this st.max_sites with
    | error e => simp only [hc] at h; cases h
    | ok st1 =>
      simp only [hc] at h
      cases hcr : environment.create_ensembles sc st1 this with
      | error e => simp only [hcr] at h; cases h
      | ok st2 =>
        simp only [hcr, Except.ok.injEq] at h
        obtain ⟨_, _, c3, c4, _, _, _⟩ := environment.connectivity_near fuel _ st1 this
          (by simp) hc
        obtain ⟨_, _, _, _, _, r6, _, _⟩ := environment.create_ensembles_recreated sc st1 st2 this hcr
        intro e
        have h1 : (st'.env e).neighbors = (st2.env e).neighbors := by
          rw [← h]
          by_cases he : e = this
          · subst he; simp
          · simp [Function.update_noteq he]
        rw [h1, (r6 e).1]
        by_cases he : e = this
        · subst he
          rw [c4]
          simp
        · rw [c3 e he]
          simp [Function.update_noteq he]

/-! ## Lemmas on `environment::neighbor_sites` -/

/-- Two `std::set`s of addresses with the same elements are equal. -/
theorem sorted_eq_of_mem_iff (l1 l2 : List Nat) (h1 : l1.Pairwise (· < ·))
    (h2 : l2.Pairwise (· < ·)) (h : ∀ x, x ∈ l1 ↔ x ∈ l2) : l1 = l2 := by
  apply List.eq_of_perm_of_sorted (r := (· < ·)) _ h1 h2
  exact (List.perm_ext_iff_of_nodup (pairwise_lt_nodup l1 h1) (pairwise_lt_nodup l2 h2)).mpr h

theorem foldl_insert_neighbors_mem (nbrs : List Nat) (small : List (List Nat))
    (groups : List (List Nat)) (g : List Nat) :
    g ∈ small.foldl (fun g git =>
        nbrs.foldl
          (fun g2 it => set_insert lexicographical_compare (set_insert ptr_lt it git) g2) g)
        groups ↔
      g ∈ groups ∨ ∃ git ∈ small, ∃ it ∈ nbrs, g = set_insert ptr_lt it git := by
  have hinner : ∀ (git : List Nat) (l : List Nat) (gs : List (List Nat)),
      g ∈ l.foldl
          (fun g2 it => set_insert lexicographical_compare (set_insert ptr_lt it git) g2) gs ↔
        g ∈ gs ∨ ∃ it ∈ l, g = set_insert ptr_lt it git := by
    intro git l
    induction l with
    | nil => intro gs; simp
    | cons x xs ih =>
      intro gs
      simp only [List.foldl_cons, ih, set_insert_lex_mem, List.mem_cons]
      constructor
      · rintro ((h | h) | ⟨it, hit, h⟩)
        · exact Or.inr ⟨x, Or.inl rfl, h⟩
        · exact Or.inl h
        · exact Or.inr ⟨it, Or.inr hit, h⟩
      · rintro (h | ⟨it, hit | hit, h⟩)
        · exact Or.inl (Or.inr h)
        · subst hit
          exact Or.inl (Or.inl h)
        · exact Or.inr ⟨it, hit, h⟩
  induction small generalizing groups with
  | nil => simp
  | cons s rest ih =>
    simp only [List.foldl_cons, ih, hinner, List.mem_cons]
    constructor
    · rintro ((h | ⟨it, hit, h⟩) | ⟨git, hgit, it, hit, h⟩)
      · exact Or.inl h
      · exact Or.inr ⟨s, Or.inl rfl, it, hit, h⟩
      · exact Or.inr ⟨git, Or.inr hgit, it, hit, h⟩
    · rintro (h | ⟨git, hgit | hgit, it, hit, h⟩)
      · exact Or.inl (Or.inl h)
      · subst hgit
        exact Or.inl (Or.inr ⟨it, hit, h⟩)
      · exact Or.inr ⟨git, hgit, it, hit, h⟩

/-- The groups that `environment::neighbor_sites` adds for `n_sites`: the sets
of this environment and of at most `n_sites - 1` of its neighbors. -/
theorem environment.neighbor_sites_mem (env : Nat → environment) (this : Nat) :
    ∀ (n : Nat) (groups : List (List Nat)) (g : List Nat),
      g ∈ environment.neighbor_sites env this n groups ↔
        g ∈ groups ∨ (g.Pairwise (· < ·) ∧ ∃ S : List Nat, S.Nodup ∧
          (∀ x ∈ S, x ∈ (env this).neighbors) ∧ S.length ≤ n - 1 ∧
          ∀ x, x ∈ g ↔ x = this ∨ x ∈ S) := by
  have hsingle : ∀ g : List Nat, (g.Pairwise (· < ·) ∧ ∃ S : List Nat, S.Nodup ∧
      (∀ x ∈ S, x ∈ (env this).neighbors) ∧ S.length ≤ 0 ∧
      ∀ x, x ∈ g ↔ x = this ∨ x ∈ S) ↔ g = [this] := by
    intro g
    constructor
    · rintro ⟨hg, S, _, _, hlen, hmem⟩
      have hS : S = [] := List.length_eq_zero.mp (by omega)
      subst hS
      apply sorted_eq_of_mem_iff g [this] hg (by simp)
      intro x
      rw [hmem x]
      simp
    · intro h
      subst h
      exact ⟨by simp, [], List.nodup_nil, by simp, by simp, by simp⟩
  intro n
  induction n using Nat.strong_induction_on with
  | _ n ih =>
    intro groups g
    match n with
    | 0 =>
      simp only [environment.neighbor_sites, set_insert_lex_mem, Nat.zero_sub, hsingle]
      tauto
    | 1 =>
      simp only [environment.neighbor_sites, set_insert_lex_mem, Nat.sub_self, hsingle]
      tauto
    | m + 2 =>
      simp only [environment.neighbor_sites, set_insert_lex_mem, foldl_insert_neighbors_mem,
        Nat.add_sub_cancel]
      constructor
      · rintro (h | h | ⟨git, hgit, it, hit, h⟩)
        · right
          subst h
          exact ⟨by simp, [], List.nodup_nil, by simp, by simp, by simp⟩
        · exact Or.inl h
        · right
          rw [ih (m + 1) (by omega) [] git] at hgit
          rcases hgit with hgit | ⟨hsorted, S, hnd, hsub, hlen, hmem⟩
          · cases hgit
          · subst h
            refine ⟨set_insert_ptr_sorted it git hsorted, ?_⟩
            by_cases hin : it ∈ S
            · refine ⟨S, hnd, hsub, by omega, ?_⟩
              intro x
              rw [set_insert_ptr_mem, hmem x]
              constructor
              · rintro (h | h)
                · subst h; exact Or.inr hin
                · exact h
              · intro h
                exact Or.inr h
            · refine ⟨it :: S, List.nodup_cons.mpr ⟨hin, hnd⟩, ?_, ?_, ?_⟩
              · intro x hx
                rcases List.mem_cons.mp hx with rfl | hx
                · exact hit
                · exact hsub x hx
              · simp only [List.length_cons]
                omega
              · intro x
                rw [set_insert_ptr_mem, hmem x]
                simp only [List.mem_cons]
                tauto
      · rintro (h | ⟨hsorted, S, hnd, hsub, hlen, hmem⟩)
        · exact Or.inr (Or.inl h)
        · cases S with
          | nil =>
            left
            apply sorted_eq_of_mem_iff g [this] hsorted (by simp)
            intro x
            rw [hmem x]
            simp
          | cons it S0 =>
            right
            right
            rw [List.nodup_cons] at hnd
            refine ⟨set_insert_range ptr_lt [this] S0, ?_, it, hsub it (by simp), ?_⟩
            · rw [ih (m + 1) (by omega) []]
              right
              refine ⟨set_insert_range_ptr_sorted [this] S0 (by simp), S0, hnd.2,
                fun x hx => hsub x (List.mem_cons_of_mem _ hx), ?_, ?_⟩
              · simp only [List.length_cons] at hlen
                omega
              · intro x
                rw [set_insert_range_ptr_mem]
                simp
            · apply sorted_eq_of_mem_iff g _ hsorted
                (set_insert_ptr_sorted it _ (set_insert_range_ptr_sorted [this] S0 (by simp)))
              intro x
              rw [hmem x, set_insert_ptr_mem, set_insert_range_ptr_mem]
              simp only [List.mem_cons, List.mem_singleton, List.not_mem_nil, or_false]
              tauto

/-! ## Lemmas on the loops of `environment::connectivity` -/

/-- A `std::set` of groups stays in ascending order at an insertion. -/
theorem set_insert_lex_sorted (x : List Nat) (l : List (List Nat))
    (hl : l.Pairwise (fun a b => lexicographical_compare a b = true)) :
    (set_insert lexicographical_compare x l).Pairwise
      (fun a b => lexicographical_compare a b = true) := by
  induction l with
  | nil => simp [set_insert]
  | cons y ys ih =>
    rw [List.pairwise_cons] at hl
    simp only [set_insert]
    split_ifs with h1 h2
    · refine List.pairwise_cons.mpr ⟨?_, List.pairwise_cons.mpr hl⟩
      intro z hz
      rcases List.mem_cons.mp hz with rfl | hin
      · exact h1
      · exact lexicographical_compare_trans _ _ _ h1 (hl.1 z hin)
    · refine List.pairwise_cons.mpr ⟨?_, ih hl.2⟩
      intro z hz
      rw [set_insert_lex_mem] at hz
      rcases hz with rfl | hin
      · exact h2
      · exact hl.1 z hin
    · exact List.pairwise_cons.mpr hl

theorem foldl_set_insert_lex_sorted {α : Type} (f : α → List Nat) (l : List α)
    (groups : List (List Nat))
    (hg : groups.Pairwise (fun a b => lexicographical_compare a b = true)) :
    (l.foldl (fun groups git => set_insert lexicographical_compare (f git) groups)
      groups).Pairwise (fun a b => lexicographical_compare a b = true) := by
  induction l generalizing groups with
  | nil => exact hg
  | cons x xs ih =>
    simp only [List.foldl_cons]
    exact ih _ (set_insert_lex_sorted _ _ hg)

theorem set_next_none (s : List (List Nat)) (x g : List Nat)
    (h : set_next lexicographical_compare s x = none) (hg : g ∈ s) :
    lexicographical_compare x g = false := by
  unfold set_next at h
  rw [List.find?_eq_none] at h
  simpa using h g hg

theorem set_next_gt (s : List (List Nat)) (x y : List Nat)
    (h : set_next lexicographical_compare s x = some y) :
    lexicographical_compare x y = true := by
  unfold set_next at h
  exact List.find?_some h

/-- The iterator of a `std::set` moves to the least element above it. -/
theorem set_next_least (s : List (List Nat)) (x y g : List Nat)
    (hs : s.Pairwise (fun a b => lexicographical_compare a b = true))
    (h : set_next lexicographical_compare s x = some y) (hg : g ∈ s)
    (hxg : lexicographical_compare x g = true) :
    g = y ∨ lexicographical_compare y g = true := by
  induction s with
  | nil => cases hg
  | cons a t ih =>
    rw [List.pairwise_cons] at hs
    unfold set_next at h ih
    simp only [List.find?_cons] at h
    cases hxa : lexicographical_compare x a with
    | true =>
      simp only [hxa, Option.some.injEq] at h
      subst h
      rcases List.mem_cons.mp hg with hga | hgt
      · exact Or.inl hga
      · exact Or.inr (hs.1 g hgt)
    | false =>
      simp only [hxa] at h
      rcases List.mem_cons.mp hg with hga | hgt
      · rw [hga, hxa] at hxg
        cases hxg
      · exact ih hs.2 h hgt

/-- The inner loop of `environment::connectivity`: the set grows, and the group
`out` is combined with every group of the set above the iterator. -/
theorem environment.criss_cross_in_spec (max_sites : Nat) (out : List Nat) :
    ∀ (fuel : Nat) (in_ : List Nat) (sites sites' : List (List Nat)),
      sites.Pairwise (fun a b => lexicographical_compare a b = true) →
      environment.criss_cross_in max_sites out fuel in_ sites = some sites' →
      sites'.Pairwise (fun a b => lexicographical_compare a b = true) ∧
      (∀ g ∈ sites, g ∈ sites') ∧
      (∀ g ∈ sites, lexicographical_compare in_ g = true →
        (set_insert_range ptr_lt out g).length ≤ max_sites →
        set_insert_range ptr_lt out g ∈ sites') := by
  intro fuel
  induction fuel with
  | zero => intro in_ sites sites' _ h; cases h
  | succ fuel ih =>
    intro in_ sites sites' hs h
    simp only [environment.criss_cross_in] at h
    cases hn : set_next lexicographical_compare sites in_ with
    | none =>
      simp only [hn, Option.some.injEq] at h
      subst h
      refine ⟨hs, fun g hg => hg, ?_⟩
      intro g hg hlt _
      rw [set_next_none sites in_ g hn hg] at hlt
      cases hlt
    | some in1 =>
      simp only [hn] at h
      have hsA : (if (set_insert_range ptr_lt out in1).length ≤ max_sites then
            set_insert lexicographical_compare (set_insert_range ptr_lt out in1) sites
          else sites).Pairwise (fun a b => lexicographical_compare a b = true) := by
        split_ifs
        · exact set_insert_lex_sorted _ _ hs
        · exact hs
      have hsub : ∀ g ∈ sites, g ∈ (if (set_insert_range ptr_lt out in1).length ≤ max_sites then
            set_insert lexicographical_compare (set_insert_range ptr_lt out in1) sites
          else sites) := by
        intro g hg
        split_ifs
        · rw [set_insert_lex_mem]
          exact Or.inr hg
        · exact hg
      obtain ⟨i1, i2, i3⟩ := ih in1 _ sites' hsA h
      refine ⟨i1, fun g hg => i2 g (hsub g hg), ?_⟩
      intro g hg hlt hlen
      rcases set_next_least sites in_ in1 g hs hn hg hlt with heq | hgt
      · subst heq
        apply i2
        rw [if_pos hlen, set_insert_lex_mem]
        exact Or.inl rfl
      · exact i3 g (hsub g hg) hgt hlen

/-- The loops of `environment::connectivity`: the set grows, and every group of
the set at or above `out` is combined with every group of the set above it. -/
theorem environment.criss_cross_spec (max_sites fuel : Nat) :
    ∀ (n : Nat) (out : List Nat) (sites sites' : List (List Nat)),
      sites.Pairwise (fun a b => lexicographical_compare a b = true) →
      environment.criss_cross max_sites fuel n out sites = some sites' →
      sites'.Pairwise (fun a b => lexicographical_compare a b = true) ∧
      (∀ g ∈ sites, g ∈ sites') ∧
      (∀ g1 ∈ sites, (g1 = out ∨ lexicographical_compare out g1 = true) →
        ∀ g2 ∈ sites, lexicographical_compare g1 g2 = true →
        (set_insert_range ptr_lt g1 g2).length ≤ max_sites →
        set_insert_range ptr_lt g1 g2 ∈ sites') := by
  intro n
  induction n with
  | zero => intro out sites sites' _ h; cases h
  | succ n ih =>
    intro out sites sites' hs h
    simp only [environment.criss_cross] at h
    cases hin : environment.criss_cross_in max_sites out fuel out sites with
    | none => simp only [hin] at h; cases h
    | some sites1 =>
      simp only [hin] at h
      obtain ⟨a1, a2, a3⟩ := environment.criss_cross_in_spec max_sites out fuel out sites sites1
        hs hin
      cases hn : set_next lexicographical_compare sites1 out with
      | none =>
        simp only [hn, Option.some.injEq] at h
        subst h
        refine ⟨a1, a2, ?_⟩
        intro g1 hg1 hout g2 hg2 hlt hlen
        rcases hout with rfl | hout
        · exact a3 g2 hg2 hlt hlen
        · rw [set_next_none sites1 out g1 hn (a2 g1 hg1)] at hout
          cases hout
      | some out1 =>
        simp only [hn] at h
        obtain ⟨b1, b2, b3⟩ := ih out1 sites1 sites' a1 h
        refine ⟨b1, fun g hg => b2 g (a2 g hg), ?_⟩
        intro g1 hg1 hout g2 hg2 hlt hlen
        rcases hout with rfl | hout
        · exact b2 _ (a3 g2 hg2 hlt hlen)
        · have hleast := set_next_least sites1 out out1 g1 a1 hn (a2 g1 hg1) hout
          exact b3 g1 (a2 g1 hg1) hleast g2 (a2 g2 hg2) hlt hlen

/-- A property of the single groups that is kept when an environment is
inserted holds for the groups of `environment::radiate`. -/
theorem environment.radiate_all (env : Nat → environment) (P : List Nat → Prop)
    (hsingle : ∀ t, P [t]) (hins : ∀ t g, P g → P (set_insert ptr_lt t g)) :
    ∀ (n this : Nat) (touch : List Nat) (groups : List (List Nat)),
      (∀ g ∈ groups, P g) →
      ∀ g ∈ (environment.radiate env n this (touch, groups)).2, P g
  | 0, this, touch, groups => by
    intro hg g h
    exact hg g h
  | n + 1, this, touch, groups => by
    intro hg g h
    simp only [environment.radiate] at h
    rw [set_insert_lex_mem] at h
    rcases h with h | h
    · rw [h]
      exact hsingle this
    · have hfold : ∀ (l : List Nat) (a : List Nat × List (List Nat)),
          (∀ g ∈ a.2, P g) →
          ∀ g ∈ (l.foldl (fun (a : List Nat × List (List Nat)) it =>
            ((environment.radiate env n it (a.1, [])).1,
              (environment.radiate env n it (a.1, [])).2.foldl
                (fun groups git =>
                  set_insert lexicographical_compare (set_insert ptr_lt this git) groups)
                a.2)) a).2, P g := by
        intro l
        induction l with
        | nil => intro a ha g hg; exact ha g hg
        | cons it rest ih =>
          intro a ha g hg2
          simp only [List.foldl_cons] at hg2
          refine ih _ ?_ g hg2
          intro g' hg'
          simp only [] at hg'
          rw [foldl_insert_group_mem] at hg'
          rcases hg' with h1 | ⟨git, hgit, h1⟩
          · exact ha g' h1
          · rw [h1]
            exact hins this git
              (environment.radiate_all env P hsingle hins n it a.1 [] (by simp) git hgit)
      exact hfold _ _ hg g h

/-- The groups of `environment::radiate` are in ascending order. -/
theorem environment.radiate_sorted (env : Nat → environment) (n this : Nat)
    (touch : List Nat) (groups : List (List Nat))
    (hg : groups.Pairwise (fun a b => lexicographical_compare a b = true)) :
    (environment.radiate env n this (touch, groups)).2.Pairwise
      (fun a b => lexicographical_compare a b = true) := by
  cases n with
  | zero => exact hg
  | succ n =>
    simp only [environment.radiate]
    apply set_insert_lex_sorted
    have hfold : ∀ (l : List Nat) (a : List Nat × List (List Nat)),
        a.2.Pairwise (fun a b => lexicographical_compare a b = true) →
        (l.foldl (fun (a : List Nat × List (List Nat)) it =>
          ((environment.radiate env n it (a.1, [])).1,
            (environment.radiate env n it (a.1, [])).2.foldl
              (fun groups git =>
                set_insert lexicographical_compare (set_insert ptr_lt this git) groups)
              a.2)) a).2.Pairwise (fun a b => lexicographical_compare a b = true) := by
      intro l
      induction l with
      | nil => intro a ha; exact ha
      | cons it rest ih =>
        intro a ha
        simp only [List.foldl_cons]
        exact ih _ (foldl_set_insert_lex_sorted _ _ _ ha)
    exact hfold _ _ hg

/-- The union of two `std::set`s does not depend on which of them is inserted
into the other. -/
theorem set_insert_range_comm (g1 g2 : List Nat) (h1 : g1.Pairwise (· < ·))
    (h2 : g2.Pairwise (· < ·)) :
    set_insert_range ptr_lt g1 g2 = set_insert_range ptr_lt g2 g1 := by
  apply sorted_eq_of_mem_iff _ _ (set_insert_range_ptr_sorted g1 g2 h1)
    (set_insert_range_ptr_sorted g2 g1 h2)
  intro x
  rw [set_insert_range_ptr_mem, set_insert_range_ptr_mem]
  tauto

theorem set_insert_range_self (g : List Nat) (h : g.Pairwise (· < ·)) :
    set_insert_range ptr_lt g g = g := by
  apply sorted_eq_of_mem_iff _ _ (set_insert_range_ptr_sorted g g h) h
  intro x
  rw [set_insert_range_ptr_mem]
  tauto

/-- With radial sites, the union of two groups of `environment::radiate` that
has at most `max_sites` environments is a site-group after
`environment::initialize`. -/
theorem environment.initialize_criss_cross (sc : Nat → Nat) (fuel : Nat) (st st' : store)
    (this : Nat) (hrad : st.radial = true)
    (h : environment.initialize sc fuel st this = .ok st') (g1 g2 : List Nat)
    (h1 : g1 ∈ (environment.radiate st.env st.max_sites this ((st.env this).connected, [])).2)
    (h2 : g2 ∈ (environment.radiate st.env st.max_sites this ((st.env this).connected, [])).2)
    (hlen : (set_insert_range ptr_lt g1 g2).length ≤ st.max_sites) :
    set_insert_range ptr_lt g1 g2 ∈ (st'.env this).sites ∧
    g1 ∈ (st'.env this).sites ∧ g1.Pairwise (· < ·) ∧ g2.Pairwise (· < ·) := by
  obtain ⟨_, hcc⟩ := environment.initialize_radial sc fuel st st' this hrad h
  have hsorted := environment.radiate_sorted st.env st.max_sites this (st.env this).connected []
    List.Pairwise.nil
  have hgs := environment.radiate_all st.env (fun g => g.Pairwise (· < ·)) (by simp)
    (fun t g hg => set_insert_ptr_sorted t g hg) st.max_sites this (st.env this).connected []
    (by simp)
  have hs1 := hgs g1 h1
  have hs2 := hgs g2 h2
  revert hcc h1 h2 hsorted
  cases hr : (environment.radiate st.env st.max_sites this ((st.env this).connected, [])).2 with
  | nil =>
    intro h1
    cases h1
  | cons out rest =>
    intro h1 h2 hcc hsorted
    have hcc' : environment.criss_cross st.max_sites fuel fuel out (out :: rest)
        = some (st'.env this).sites := hcc
    obtain ⟨c1, c2, c3⟩ := environment.criss_cross_spec st.max_sites fuel fuel out (out :: rest)
      (st'.env this).sites hsorted hcc'
    have hhead : ∀ g ∈ out :: rest, g = out ∨ lexicographical_compare out g = true := by
      intro g hg
      rcases List.mem_cons.mp hg with hg | hg
      · exact Or.inl hg
      · exact Or.inr ((List.pairwise_cons.mp hsorted).1 g hg)
    refine ⟨?_, c2 g1 h1, hs1, hs2⟩
    cases h12 : lexicographical_compare g1 g2 with
    | true => exact c3 g1 h1 (hhead g1 h1) g2 h2 h12 hlen
    | false =>
      cases h21 : lexicographical_compare g2 g1 with
      | true =>
        rw [set_insert_range_comm g1 g2 hs1 hs2] at hlen ⊢
        exact c3 g2 h2 (hhead g2 h2) g1 h1 h21 hlen
      | false =>
        have heq := lexicographical_compare_eq_of_not_lt g1 g2 h12 h21
        subst heq
        rw [set_insert_range_self g1 hs1]
        exact c2 g1 h1

/-! ## Lemmas on the keys of the class map -/

theorem ensemble.sum_filter_surface (sc : Nat → Nat) (l : List Nat) :
    ((l.filter (fun s => decide (sc s > 0))).map sc).sum = (l.map sc).sum := by
  induction l with
  | nil => rfl
  | cons s rest ih =>
    by_cases h : sc s > 0
    · simp only [List.filter_cons, h, decide_True, if_true, List.map_cons, List.sum_cons, ih]
    · have h0 : sc s = 0 := by omega
      rw [List.filter_cons, if_neg (by simpa using h0), ih, List.map_cons, List.sum_cons, h0,
        Nat.zero_add]

/-- The coordination of an ensemble is that of its sorted species. -/
theorem ensemble.coordination_sorted (sc : Nat → Nat) (l : List Nat) :
    (ensemble.ctor sc l).coordination
      = ((ensemble.ctor sc l).sorted_species.map sc).sum % 2 ^ 32 := by
  rw [ensemble.coordination_eq, ensemble.sorted_species_eq,
    ((List.perm_insertionSort (· ≤ ·) _).map sc).sum_eq, ensemble.sum_filter_surface]

/-- Two ensembles of the constructor with the same sorted species are equal. -/
theorem ensemble.ctor_eq_of_sorted_eq (sc : Nat → Nat) (l1 l2 : List Nat)
    (h : (ensemble.ctor sc l1).sorted_species = (ensemble.ctor sc l2).sorted_species) :
    ensemble.ctor sc l1 = ensemble.ctor sc l2 := by
  have hc : (ensemble.ctor sc l1).coordination = (ensemble.ctor sc l2).coordination := by
    rw [ensemble.coordination_sorted, ensemble.coordination_sorted, h]
  cases h1 : ensemble.ctor sc l1
  cases h2 : ensemble.ctor sc l2
  rw [h1] at h hc
  rw [h2] at h hc
  simp only at h hc
  rw [h, hc]

/-- The keys of the class map after an insertion, for keys that are equal when
they are equivalent. -/
theorem map_insert_ensemble_keys (kv : ensemble × ens_env_map)
    (ens : List (ensemble × ens_env_map))
    (hkeys : ∀ c ∈ ens, c.1.sorted_species = kv.1.sorted_species → c.1 = kv.1)
    (key : ensemble) :
    (∃ c ∈ map_insert ensemble.lt kv ens, c.1 = key) ↔
      key = kv.1 ∨ ∃ c ∈ ens, c.1 = key := by
  induction ens with
  | nil => simp [map_insert, eq_comm]
  | cons e es ih =>
    have ih' := ih (fun c hc => hkeys c (List.mem_cons_of_mem _ hc))
    simp only [map_insert]
    by_cases h1 : ensemble.lt kv.1 e.1 = true
    · rw [if_pos h1]
      simp only [List.mem_cons, exists_eq_or_imp]
      constructor
      · rintro (h | h | h)
        · exact Or.inl h.symm
        · exact Or.inr (Or.inl h)
        · exact Or.inr (Or.inr h)
      · rintro (h | h | h)
        · exact Or.inl h.symm
        · exact Or.inr (Or.inl h)
        · exact Or.inr (Or.inr h)
    · rw [if_neg h1]
      by_cases h2 : ensemble.lt e.1 kv.1 = true
      · rw [if_pos h2]
        simp only [List.mem_cons, exists_eq_or_imp, ih']
        tauto
      · rw [if_neg h2]
        have heq : e.1 = kv.1 := by
          apply hkeys e (List.mem_cons_self _ _)
          apply (ensemble.equiv_iff e.1 kv.1).1
          simp only [Bool.not_eq_true] at h1 h2
          simp [h1, h2]
        simp only [List.mem_cons, exists_eq_or_imp]
        constructor
        · intro h
          exact Or.inr h
        · rintro (h | h)
          · left
            rw [h, heq]
          · exact h

/-- The keys of the class map after an insertion of an ensemble of the
constructor, when the keys of the map are ensembles of the constructor. -/
theorem map_insert_ctor_keys (sc : Nat → Nat) (l : List Nat) (v : ens_env_map)
    (ens : List (ensemble × ens_env_map))
    (hctor : ∀ c ∈ ens, ∃ l', c.1 = ensemble.ctor sc l') :
    (∀ c ∈ map_insert ensemble.lt (ensemble.ctor sc l, v) ens, ∃ l', c.1 = ensemble.ctor sc l') ∧
    ∀ key, (∃ c ∈ map_insert ensemble.lt (ensemble.ctor sc l, v) ens, c.1 = key) ↔
      key = ensemble.ctor sc l ∨ ∃ c ∈ ens, c.1 = key := by
  have hkeys : ∀ c ∈ ens, c.1.sorted_species = (ensemble.ctor sc l).sorted_species →
      c.1 = ensemble.ctor sc l := by
    intro c hc hs
    obtain ⟨l', hl'⟩ := hctor c hc
    rw [hl'] at hs ⊢
    exact ensemble.ctor_eq_of_sorted_eq sc l' l hs
  have hiff := map_insert_ensemble_keys (ensemble.ctor sc l, v) ens hkeys
  refine ⟨?_, hiff⟩
  intro c hc
  rcases (hiff c.1).1 ⟨c, hc, rfl⟩ with h | ⟨c', hc', h⟩
  · exact ⟨l, h⟩
  · rw [← h]
    exact hctor c' hc'

/-- The keys of the class map after the body of the loop over the reactions of
`kmc::create_ensembles`. -/
theorem kmc.create_ensembles_reaction_keys (sc : Nat → Nat) (k k' : kmc) (rxn : Nat)
    (r : model_reaction) (hctor : ∀ c ∈ k.ensembles, ∃ l', c.1 = ensemble.ctor sc l')
    (h : kmc.create_ensembles_reaction sc k rxn r = .ok k') :
    (∀ c ∈ k'.ensembles, ∃ l', c.1 = ensemble.ctor sc l') ∧
    k'.sites = k.sites ∧ k'.max_coordination = k.max_coordination ∧
    ∀ key, (∃ c ∈ k'.ensembles, c.1 = key) ↔
      (∃ c ∈ k.ensembles, c.1 = key) ∨ (k.sites > 0 ∧ r.inserts_class sc key) := by
  unfold kmc.create_ensembles_reaction at h
  rcases r.get_seq_cases with ⟨h1, h2⟩ | ⟨h1, h2⟩
  · rw [h1] at h
    cases h
  · rw [h1, h2] at h
    simp only at h
    have hins : ∀ key, r.inserts_class sc key ↔
        (ensemble.ctor sc r.create_species_seq.2.1).get_coordination > 0 ∧
        (key = ensemble.ctor sc r.create_species_seq.2.1 ∨
          (r.is_reversible = true ∧ key = ensemble.ctor sc r.create_species_seq.2.2)) := by
      intro key
      unfold model_reaction.inserts_class
      rw [h1, h2]
      constructor
      · rintro ⟨rs, ps, hrs, hps, hc, hkey⟩
        simp only [Except.ok.injEq] at hrs hps
        subst hrs hps
        exact ⟨hc, hkey⟩
      · rintro ⟨hc, hkey⟩
        exact ⟨_, _, rfl, rfl, hc, hkey⟩
    by_cases hne : (ensemble.ctor sc r.create_species_seq.2.1).get_coordination
        ≠ (ensemble.ctor sc r.create_species_seq.2.2).get_coordination
    · rw [if_pos hne] at h
      cases h
    · rw [if_neg hne] at h
      by_cases hpos : (ensemble.ctor sc r.create_species_seq.2.1).get_coordination > 0 ∧
          k.sites > 0
      · rw [if_pos hpos] at h
        simp only [Except.ok.injEq] at h
        subst h
        obtain ⟨c1, k1⟩ := map_insert_ctor_keys sc r.create_species_seq.2.1 [] k.ensembles hctor
        cases hrev : r.is_reversible with
        | false =>
          simp only [hrev, Bool.false_eq_true, if_false]
          refine ⟨c1, trivial, trivial, ?_⟩
          intro key
          rw [k1 key, hins key, hrev]
          simp only [Bool.false_eq_true, false_and, or_false]
          constructor
          · rintro (h | h)
            · exact Or.inr ⟨hpos.2, hpos.1, h⟩
            · exact Or.inl h
          · rintro (h | ⟨_, _, h⟩)
            · exact Or.inr h
            · exact Or.inl h
        | true =>
          simp only [hrev, if_true]
          obtain ⟨c2, k2⟩ := map_insert_ctor_keys sc r.create_species_seq.2.2 []
            (map_insert ensemble.lt (ensemble.ctor sc r.create_species_seq.2.1, []) k.ensembles) c1
          refine ⟨c2, trivial, trivial, ?_⟩
          intro key
          rw [k2 key, k1 key, hins key, hrev]
          simp only [true_and]
          constructor
          · rintro (h | h | h)
            · exact Or.inr ⟨hpos.2, hpos.1, Or.inr h⟩
            · exact Or.inr ⟨hpos.2, hpos.1, Or.inl h⟩
            · exact Or.inl h
          · rintro (h | ⟨_, _, h | h⟩)
            · exact Or.inr (Or.inr h)
            · exact Or.inr (Or.inl h)
            · exact Or.inl h
      · rw [if_neg hpos] at h
        simp only [Except.ok.injEq] at h
        subst h
        refine ⟨hctor, rfl, rfl, ?_⟩
        intro key
        rw [hins key]
        constructor
        · intro h
          exact Or.inl h
        · rintro (h | ⟨hs, hc, _⟩)
          · exact h
          · exact absurd ⟨hc, hs⟩ hpos

theorem kmc.create_ensembles_reactions_keys (sc : Nat → Nat) (rs : List model_reaction) :
    ∀ (rxn : Nat) (k k' : kmc), (∀ c ∈ k.ensembles, ∃ l', c.1 = ensemble.ctor sc l') →
      kmc.create_ensembles_reactions sc rs rxn k = .ok k' →
      (∀ c ∈ k'.ensembles, ∃ l', c.1 = ensemble.ctor sc l') ∧
      k'.sites = k.sites ∧ k'.max_coordination = k.max_coordination ∧
      ∀ key, (∃ c ∈ k'.ensembles, c.1 = key) ↔
        (∃ c ∈ k.ensembles, c.1 = key) ∨ (k.sites > 0 ∧ ∃ r ∈ rs, r.inserts_class sc key) := by
  induction rs with
  | nil =>
    intro rxn k k' hk h
    simp only [kmc.create_ensembles_reactions, Except.ok.injEq] at h
    subst h
    exact ⟨hk, rfl, rfl, fun key => by simp⟩
  | cons r rest ih =>
    intro rxn k k' hk h
    simp only [kmc.create_ensembles_reactions] at h
    cases h1 : kmc.create_ensembles_reaction sc k rxn r with
    | error e => simp only [h1] at h; cases h
    | ok k1 =>
      simp only [h1] at h
      obtain ⟨a1, a2, a3, a4⟩ := kmc.create_ensembles_reaction_keys sc k k1 rxn r hk h1
      obtain ⟨b1, b2, b3, b4⟩ := ih (rxn + 1) k1 k' a1 h
      refine ⟨b1, by rw [b2, a2], by rw [b3, a3], ?_⟩
      intro key
      rw [b4 key, a4 key, a2]
      constructor
      · rintro ((h | ⟨hs, hr⟩) | ⟨hs, r', hr', hin⟩)
        · exact Or.inl h
        · exact Or.inr ⟨hs, r, List.mem_cons_self _ _, hr⟩
        · exact Or.inr ⟨hs, r', List.mem_cons_of_mem _ hr', hin⟩
      · rintro (h | ⟨hs, r', hr', hin⟩)
        · exact Or.inl (Or.inl h)
        · rcases List.mem_cons.mp hr' with heq | hr'
          · subst heq
            exact Or.inl (Or.inr ⟨hs, hin⟩)
          · exact Or.inr ⟨hs, r', hr', hin⟩

theorem kmc.create_ensembles_empties_keys (sc : Nat → Nat) (empty_site : Nat) (n : Nat) :
    ∀ (i : Nat) (ens : List (ensemble × ens_env_map)),
      (∀ c ∈ ens, ∃ l', c.1 = ensemble.ctor sc l') →
      (∀ c ∈ kmc.create_ensembles_empties sc empty_site n i ens,
        ∃ l', c.1 = ensemble.ctor sc l') ∧
      ∀ key, (∃ c ∈ kmc.create_ensembles_empties sc empty_site n i ens, c.1 = key) ↔
        (∃ c ∈ ens, c.1 = key) ∨
          ∃ j, i ≤ j ∧ j < i + n ∧ key = ensemble.ctor sc (List.replicate j empty_site) := by
  induction n with
  | zero =>
    intro i ens h
    refine ⟨h, fun key => ?_⟩
    simp only [kmc.create_ensembles_empties]
    constructor
    · intro hk
      exact Or.inl hk
    · rintro (hk | ⟨j, h1, h2, _⟩)
      · exact hk
      · omega
  | succ n ih =>
    intro i ens h
    simp only [kmc.create_ensembles_empties]
    obtain ⟨c1, k1⟩ := map_insert_ctor_keys sc (List.replicate i empty_site) [] ens h
    obtain ⟨c2, k2⟩ := ih (i + 1) _ c1
    refine ⟨c2, fun key => ?_⟩
    rw [k2 key, k1 key]
    constructor
    · rintro ((h1 | h1) | ⟨j, hj1, hj2, hj3⟩)
      · exact Or.inr ⟨i, le_refl _, by omega, h1⟩
      · exact Or.inl h1
      · exact Or.inr ⟨j, by omega, by omega, hj3⟩
    · rintro (h1 | ⟨j, hj1, hj2, hj3⟩)
      · exact Or.inl (Or.inr h1)
      · by_cases hji : j = i
        · subst hji
          exact Or.inl (Or.inl hj3)
        · exact Or.inr ⟨j, by omega, by omega, hj3⟩

/-- The keys of the class map after `kmc::create_ensembles` on a lattice with
sites, started with an empty class map. -/
theorem kmc.create_ensembles_keys (sc : Nat → Nat) (mech : model_mechanism) (empty : Nat)
    (k0 k : kmc) (hstart : k0.ensembles = []) (hsites : k0.sites > 0)
    (h : kmc.create_ensembles sc mech (some empty) k0 = .ok k) :
    ∀ key, (∃ c ∈ k.ensembles, c.1 = key) ↔
      (∃ r ∈ mech.reactions, r.inserts_class sc key) ∨
        ∃ i, 1 ≤ i ∧ i ≤ k0.max_coordination ∧
          key = ensemble.ctor sc (List.replicate i empty) := by
  unfold kmc.create_ensembles at h
  cases h1 : kmc.create_ensembles_reactions sc mech.reactions 0 k0 with
  | error e => simp only [h1] at h; cases h
  | ok k1 =>
    simp only [h1] at h
    obtain ⟨a1, a2, a3, a4⟩ := kmc.create_ensembles_reactions_keys sc mech.reactions 0 k0 k1
      (by rw [hstart]; simp) h1
    rw [if_pos (by rw [a2]; exact hsites)] at h
    simp only [Except.ok.injEq] at h
    subst h
    obtain ⟨_, b2⟩ := kmc.create_ensembles_empties_keys sc empty k1.max_coordination 1
      k1.ensembles a1
    intro key
    show (∃ c ∈ kmc.create_ensembles_empties sc empty k1.max_coordination 1 k1.ensembles,
      c.1 = key) ↔ _
    rw [b2 key, a4 key, hstart, a3]
    simp only [List.not_mem_nil, false_and, exists_false, false_or]
    constructor
    · rintro (⟨_, h⟩ | ⟨j, hj1, hj2, hj3⟩)
      · exact Or.inl h
      · exact Or.inr ⟨j, hj1, by omega, hj3⟩
    · rintro (h | ⟨j, hj1, hj2, hj3⟩)
      · exact Or.inl ⟨hsites, h⟩
      · exact Or.inr ⟨j, hj1, by omega, hj3⟩

theorem example_rxn_irreversible_seq :
    example_rxn_irreversible.create_species_seq = (true, [1, 1], [2]) := by
  simp [model_reaction.create_species_seq, model_reaction.create_species_seq_of_nat,
    example_rxn_irreversible, model_reaction.create_species_seq_of_nil, List.replicate]

theorem example_create_ensembles_eq :
    kmc.create_ensembles example_sc ⟨[1, 2], [example_rxn_balanced]⟩ (some 1) example_kmc
      = .ok example_kmc_classes := by
  unfold kmc.create_ensembles
  simp only [kmc.create_ensembles_reactions, kmc.create_ensembles_reaction,
    model_reaction.get_reactant_seq, model_reaction.get_product_seq, example_rxn_balanced_seq,
    if_true]
  rfl

theorem example_create_ensembles_irreversible_eq :
    kmc.create_ensembles example_sc ⟨[1, 2], [example_rxn_irreversible]⟩ (some 1) example_kmc
      = .ok example_kmc_classes_irreversible := by
  unfold kmc.create_ensembles
  simp only [kmc.create_ensembles_reactions, kmc.create_ensembles_reaction,
    model_reaction.get_reactant_seq, model_reaction.get_product_seq,
    example_rxn_irreversible_seq, if_true]
  rfl

theorem example_rxn_irreversible_get_seq :
    example_rxn_irreversible.get_reactant_seq = .ok [1, 1] ∧
    example_rxn_irreversible.get_product_seq = .ok [2] := by
  simp [model_reaction.get_reactant_seq, model_reaction.get_product_seq,
    example_rxn_irreversible_seq]

/-! ## Lemmas on the result of `kmc::select_reaction` -/

/-- Below the threshold `kmc::select_reaction` throws `bad_request`. -/
theorem kmc.select_reaction_error (n : Nat → ℚ) (precision : ℚ) (k : kmc) (g : rng)
    (hlt : (k.rxn_ens.map (fun e => |n e.1|)).sum < precision) :
    kmc.select_reaction (fun rxn => .ok (n rxn)) precision k g
      = .error .bad_request_zero_rate := by
  obtain ⟨st, hloop, _, htot⟩ := kmc.select_reaction_loop_cum n k.rxn_ens
    { total_rate := 0, rates := [], cum_rates := [] } (fun e he => by simp at he)
  simp only [zero_add] at htot
  simp only [kmc.select_reaction, hloop]
  rw [if_pos (by rw [htot]; exact hlt)]

/-- At or above a positive threshold `kmc::select_reaction` returns a reaction
of `rxn_ens` with a net rate that is not zero, and the total rate with the sign
of that net rate. -/
theorem kmc.select_reaction_ok (n : Nat → ℚ) (precision : ℚ) (k : kmc) (g : rng)
    (hkeys : (k.rxn_ens.map Prod.fst).Nodup)
    (hmax : g.stream g.calls ≤ g.max)
    (hprec : precision ≤ (k.rxn_ens.map (fun e => |n e.1|)).sum)
    (hpos : 0 < (k.rxn_ens.map (fun e => |n e.1|)).sum) :
    ∃ (i : Nat) (x : Nat × (ensemble_map_iter × ensemble_map_iter)),
      k.rxn_ens[i]? = some x ∧ n x.1 ≠ 0 ∧
      kmc.select_reaction (fun rxn => .ok (n rxn)) precision k g
        = .ok ((x.1, if n x.1 < 0 then (k.rxn_ens.map (fun e => |n e.1|)).sum * -1
            else (k.rxn_ens.map (fun e => |n e.1|)).sum),
          (g.get_random_open (k.rxn_ens.map (fun e => |n e.1|)).sum).2) := by
  have hbounds := g.get_random_open_bounds (k.rxn_ens.map (fun e => |n e.1|)).sum
  have hbounds2 := hbounds hpos hmax
  obtain ⟨hr0, hrT⟩ := hbounds2
  obtain ⟨st, hloop, hcum, htot⟩ := kmc.select_reaction_loop_cum n k.rxn_ens
    { total_rate := 0, rates := [], cum_rates := [] } (fun e he => by simp at he)
  simp only [List.nil_append, zero_add] at hcum htot
  have hrates := kmc.select_reaction_loop_rates n k.rxn_ens
    { total_rate := 0, rates := [], cum_rates := [] } st hkeys (fun e _ => rfl) hloop
  have hrT0 : (g.get_random_open (k.rxn_ens.map (fun e => |n e.1|)).sum).1
      < 0 + (k.rxn_ens.map (fun e => |n e.1|)).sum := by
    rw [zero_add]; exact hrT
  have hsel := map_insert_next_cum_entries n k.rxn_ens 0
    (g.get_random_open (k.rxn_ens.map (fun e => |n e.1|)).sum).1
  have hsel2 := hsel hr0 hrT0
  obtain ⟨i, x, c, hget, hnext, hlo, hhi⟩ := hsel2
  have hxmem : x.1 ∈ k.rxn_ens.map Prod.fst :=
    List.mem_map_of_mem Prod.fst (List.getElem?_mem hget)
  have hfind : map_find ptr_lt st.rates x.1 = some (x.1, n x.1) := by
    rw [hrates x.1]; simp [hxmem]
  simp only [zero_add] at hlo hhi
  have hnz : n x.1 ≠ 0 := by
    intro h0
    have hstep := cumulative_rate_succ (k.rxn_ens.map (fun e => n e.1)) i (n x.1)
      (by rw [List.getElem?_map, hget]; rfl)
    rw [hstep, h0] at hhi
    simp at hhi
    linarith
  have hnp : ¬ st.total_rate < precision := by rw [htot]; exact not_lt.mpr hprec
  refine ⟨i, x, hget, hnz, ?_⟩
  by_cases hneg : n x.1 < 0
  · simp only [kmc.select_reaction, hloop, hnp, if_false]
    rw [hcum, htot, hnext]
    simp only [hfind, hneg, if_true]
  · simp only [kmc.select_reaction, hloop, hnp, if_false]
    rw [hcum, htot, hnext]
    simp only [hfind, hneg, if_false]

theorem DBL_EPSILON_pos : 0 < DBL_EPSILON := by
  unfold DBL_EPSILON
  positivity

/-- What the branch of `kmc::perform_reaction` for a reaction on the surface
has done when it returns. -/
theorem kmc.perform_reaction_surface_ok (sc : Nat → Nat) (k kf : kmc) (st stf : store)
    (ens : ensemble) (products : List Nat)
    (h : kmc.perform_reaction_surface sc k st ens products = .ok (kf, stf)) :
    kmc.consumes_instance sc k st ens products kf stf := by
  unfold kmc.perform_reaction_surface at h
  cases hfind : map_find ensemble.lt k.ensembles ens with
  | none => simp only [hfind] at h; cases h
  | some entry =>
    simp only [hfind] at h
    split_ifs at h with hsize
    cases hrand : st.random with
    | none => simp only [hrand] at h; cases h
    | some g =>
      simp only [hrand] at h
      cases hr : g.get_random_n (entry.2.length % 2 ^ 32) with
      | error e => simp only [hr] at h; cases h
      | ok r =>
        simp only [hr] at h
        cases hget : entry.2[r.1 % 2 ^ 32]? with
        | none => simp only [hget] at h; cases h
        | some inst =>
          simp only [hget] at h
          cases hch : environment.change_ensemble sc (st.with_random r.2) inst.2 inst.1
              products [] [] with
          | error e => simp only [hch] at h; cases h
          | ok changed =>
            simp only [hch] at h
            cases hdel : kmc.delete_ensembles k changed.1 changed.2.1 with
            | error e => simp only [hdel] at h; cases h
            | ok deleted =>
              simp only [hdel] at h
              cases hge : kmc.get_ensembles_changed deleted.1 deleted.2 changed.2.2 with
              | error e => simp only [hge] at h; cases h
              | ok k1 =>
                simp only [hge, Except.ok.injEq, Prod.mk.injEq] at h
                obtain ⟨rfl, rfl⟩ := h
                exact ⟨entry, inst, r.2, changed, deleted, hfind, List.getElem?_mem hget, hch,
                  hdel, hge, rfl⟩

/-- What `kmc::perform_reaction` has done, after the direction has been chosen,
when it returns for a reaction with a class on the surface. -/
theorem kmc.perform_reaction_direction_ok (sc : Nat → Nat)
    (reactor : List Nat → List Nat → Option exn) (k kf : kmc) (st stf : store)
    (ens : ensemble) (reactants products : Option (List Nat))
    (h : kmc.perform_reaction_direction sc reactor k st (some ens) reactants products
      = .ok (kf, stf)) :
    ∃ rs ps, reactants = some rs ∧ products = some ps ∧
      kmc.consumes_instance sc k st ens ps kf stf := by
  unfold kmc.perform_reaction_direction at h
  cases reactants with
  | none => cases h
  | some rs =>
    cases products with
    | none => cases h
    | some ps =>
      simp only [] at h
      cases hs : kmc.perform_reaction_surface sc k st ens ps with
      | error e => simp only [hs] at h; cases h
      | ok r =>
        simp only [hs] at h
        cases hre : reactor rs ps with
        | some e => simp only [hre] at h; cases h
        | none =>
          simp only [hre, Except.ok.injEq] at h
          subst h
          exact ⟨rs, ps, rfl, rfl, kmc.perform_reaction_surface_ok sc k _ st _ ens ps hs⟩

theorem example_select_reaction_eq :
    kmc.select_reaction (fun rxn => .ok (example_net_rate rxn)) DBL_EPSILON
      example_kmc_rates example_rng
      = .ok ((2, -2), { stream := fun _ => 1, calls := 1, max := 1 }) := by
  norm_num [kmc.select_reaction, kmc.select_reaction_loop, example_kmc_rates, example_net_rate,
    map_insert, double_lt, ptr_lt, map_insert_next, map_insert_pos, rng.get_random_open,
    rng.get_random, rng.get_max, example_rng, DBL_EPSILON, map_find]

/-! ## Lemmas on the end of the loops of `environment::connectivity` -/

theorem environment.universe_foldl (groups : List (List Nat)) (u : List Nat)
    (hu : u.Pairwise (· < ·)) :
    (groups.foldl (fun u g => set_insert_range ptr_lt u g) u).Pairwise (· < ·) ∧
    ∀ x, x ∈ groups.foldl (fun u g => set_insert_range ptr_lt u g) u ↔
      x ∈ u ∨ ∃ g ∈ groups, x ∈ g := by
  induction groups generalizing u with
  | nil => exact ⟨hu, fun x => by simp⟩
  | cons g rest ih =>
    simp only [List.foldl_cons]
    obtain ⟨h1, h2⟩ := ih (set_insert_range ptr_lt u g) (set_insert_range_ptr_sorted u g hu)
    refine ⟨h1, fun x => ?_⟩
    rw [h2 x, set_insert_range_ptr_mem]
    simp only [List.mem_cons, exists_eq_or_imp]
    tauto

theorem environment.universe_sorted (groups : List (List Nat)) :
    (environment.universe groups).Pairwise (· < ·) :=
  (environment.universe_foldl groups [] List.Pairwise.nil).1

theorem environment.universe_mem (groups : List (List Nat)) (g : List Nat) (hg : g ∈ groups)
    (x : Nat) (hx : x ∈ g) : x ∈ environment.universe groups :=
  ((environment.universe_foldl groups [] List.Pairwise.nil).2 x).2 (Or.inr ⟨g, hg, hx⟩)

/-- A `std::set` of elements of another `std::set` is a sublist of it. -/
theorem sorted_sublist (U : List Nat) :
    ∀ (g : List Nat), g.Pairwise (· < ·) → U.Pairwise (· < ·) → (∀ x ∈ g, x ∈ U) →
      g.Sublist U := by
  induction U with
  | nil =>
    intro g _ _ h
    cases g with
    | nil => exact List.Sublist.slnil
    | cons a as => exact absurd (h a (List.mem_cons_self _ _)) (List.not_mem_nil _)
  | cons u us ih =>
    intro g hg hU h
    cases g with
    | nil => exact List.nil_sublist _
    | cons a as =>
      rw [List.pairwise_cons] at hg hU
      by_cases hau : a = u
      · subst hau
        apply List.Sublist.cons₂
        apply ih as hg.2 hU.2
        intro x hx
        have hlt := hg.1 x hx
        rcases List.mem_cons.mp (h x (List.mem_cons_of_mem _ hx)) with hxa | hxu
        · omega
        · exact hxu
      · apply List.Sublist.cons
        apply ih (a :: as) (List.pairwise_cons.mpr hg) hU.2
        have ha : a ∈ us := by
          rcases List.mem_cons.mp (h a (List.mem_cons_self _ _)) with h1 | h1
          · exact absurd h1 hau
          · exact h1
        have hua := hU.1 a ha
        intro x hx
        rcases List.mem_cons.mp (h x hx) with hxu | hxu
        · rcases List.mem_cons.mp hx with hxa | hxa
          · omega
          · have := hg.1 x hxa
            omega
        · exact hxu

theorem length_filter_lt_of_imp {α : Type} (p q : α → Bool) (l : List α)
    (himp : ∀ x ∈ l, p x = true → q x = true) (y : α) (hy : y ∈ l) (hq : q y = true)
    (hp : p y = false) : (l.filter p).length < (l.filter q).length := by
  induction l with
  | nil => cases hy
  | cons a as ih =>
    have hle : ∀ (l' : List α), (∀ x ∈ l', p x = true → q x = true) →
        (l'.filter p).length ≤ (l'.filter q).length := by
      intro l'
      induction l' with
      | nil => intro _; simp
      | cons b bs ihb =>
        intro hb
        have h2 := ihb (fun x hx => hb x (List.mem_cons_of_mem _ hx))
        cases hpb : p b with
        | true =>
          have hqb := hb b (List.mem_cons_self _ _) hpb
          simp only [List.filter_cons, hpb, hqb, if_true, List.length_cons]
          omega
        | false =>
          cases hqb : q b with
          | true =>
            simp only [List.filter_cons, hpb, hqb, if_true, List.length_cons]
            simp only [Bool.false_eq_true, if_false]
            omega
          | false =>
            simp only [List.filter_cons, hpb, hqb]
            simpa using h2
    rcases List.mem_cons.mp hy with hya | hys
    · subst hya
      have h2 := hle as (fun x hx => himp x (List.mem_cons_of_mem _ hx))
      simp only [List.filter_cons, hp, hq, if_true, List.length_cons]
      simp only [Bool.false_eq_true, if_false]
      omega
    · have h2 := ih (fun x hx => himp x (List.mem_cons_of_mem _ hx)) hys
      cases hpa : p a with
      | true =>
        have hqa := himp a (List.mem_cons_self _ _) hpa
        simp only [List.filter_cons, hpa, hqa, if_true, List.length_cons]
        omega
      | false =>
        cases hqa : q a with
        | true =>
          simp only [List.filter_cons, hpa, hqa, if_true, List.length_cons]
          simp only [Bool.false_eq_true, if_false]
          omega
        | false =>
          simp only [List.filter_cons, hpa, hqa]
          simpa using h2

/-- The number of groups above a group, among the subsets of `U`, falls when
the iterator of a `std::set` of such subsets moves on. -/
theorem set_next_measure (U : List Nat) (hU : U.Pairwise (· < ·)) (s : List (List Nat))
    (x y : List Nat) (hs : ∀ g ∈ s, g.Pairwise (· < ·) ∧ ∀ a ∈ g, a ∈ U)
    (h : set_next lexicographical_compare s x = some y) :
    (U.sublists.filter (fun g => lexicographical_compare y g)).length
      < (U.sublists.filter (fun g => lexicographical_compare x g)).length := by
  have hy : y ∈ s := set_next_mem _ s x y h
  have hxy := set_next_gt s x y h
  apply length_filter_lt_of_imp _ _ _ _ y
  · rw [List.mem_sublists]
    exact sorted_sublist U y (hs y hy).1 hU (hs y hy).2
  · exact hxy
  · exact lexicographical_compare_irrefl y
  · intro g _ hyg
    exact lexicographical_compare_trans x y g hxy hyg

/-- The inner loop of `environment::connectivity` ends. -/
theorem environment.criss_cross_in_returns (max_sites : Nat) (out U : List Nat)
    (hU : U.Pairwise (· < ·)) (hout : out.Pairwise (· < ·) ∧ ∀ a ∈ out, a ∈ U) :
    ∀ (fuel : Nat) (in_ : List Nat) (sites : List (List Nat)),
      (∀ g ∈ sites, g.Pairwise (· < ·) ∧ ∀ a ∈ g, a ∈ U) →
      (U.sublists.filter (fun g => lexicographical_compare in_ g)).length < fuel →
      ∃ sites', environment.criss_cross_in max_sites out fuel in_ sites = some sites' ∧
        ∀ g ∈ sites', g.Pairwise (· < ·) ∧ ∀ a ∈ g, a ∈ U := by
  intro fuel
  induction fuel with
  | zero => intro in_ sites _ h; omega
  | succ fuel ih =>
    intro in_ sites hs hm
    simp only [environment.criss_cross_in]
    cases hn : set_next lexicographical_compare sites in_ with
    | none => exact ⟨sites, rfl, hs⟩
    | some in1 =>
      simp only []
      have hin1 := hs in1 (set_next_mem _ sites in_ in1 hn)
      have hdec := set_next_measure U hU sites in_ in1 hs hn
      apply ih
      · intro g hg
        split_ifs at hg
        · rw [set_insert_lex_mem] at hg
          rcases hg with hg | hg
          · rw [hg]
            refine ⟨set_insert_range_ptr_sorted out in1 hout.1, ?_⟩
            intro a ha
            rw [set_insert_range_ptr_mem] at ha
            rcases ha with ha | ha
            · exact hout.2 a ha
            · exact hin1.2 a ha
          · exact hs g hg
        · exact hs g hg
      · omega

/-- The loops of `environment::connectivity` end. -/
theorem environment.criss_cross_returns (max_sites fuel : Nat) (U : List Nat)
    (hU : U.Pairwise (· < ·)) (hfuel : U.sublists.length < fuel) :
    ∀ (n : Nat) (out : List Nat) (sites : List (List Nat)),
      (∀ g ∈ sites, g.Pairwise (· < ·) ∧ ∀ a ∈ g, a ∈ U) → out ∈ sites →
      (U.sublists.filter (fun g => lexicographical_compare out g)).length < n →
      ∃ sites', environment.criss_cross max_sites fuel n out sites = some sites' := by
  intro n
  induction n with
  | zero => intro out sites _ _ h; omega
  | succ n ih =>
    intro out sites hs hout hm
    simp only [environment.criss_cross]
    have hle : (U.sublists.filter (fun g => lexicographical_compare out g)).length < fuel :=
      lt_of_le_of_lt (List.length_filter_le _ _) hfuel
    obtain ⟨sites1, h1, hs1⟩ := environment.criss_cross_in_returns max_sites out U hU
      (hs out hout) fuel out sites hs hle
    rw [h1]
    simp only []
    cases hn : set_next lexicographical_compare sites1 out with
    | none => exact ⟨sites1, rfl⟩
    | some out1 =>
      simp only []
      have hdec := set_next_measure U hU sites1 out out1 hs1 hn
      exact ih out1 sites1 hs1 (set_next_mem _ sites1 out out1 hn) (by omega)

/-- With radial sites and more iterations than there are subsets of the
environments that `environment::radiate` groups, `environment::initialize`
returns, unless `environment::create_ensembles` divides by a coordination of
zero. -/
theorem environment.initialize_radial_returns (sc : Nat → Nat) (fuel : Nat) (st : store)
    (this : Nat) (g : rng) (hrad : st.radial = true) (hrng : st.random = some g)
    (hfuel : 2 ^ (environment.universe (environment.radiate st.env st.max_sites this
      ((st.env this).connected, [])).2).length < fuel) :
    (∃ st', environment.initialize sc fuel st this = .ok st') ∨
      environment.initialize sc fuel st this = .error .undefined_behaviour := by
  have hnb : ∀ a, ((Function.update st.env this { (st.env this) with sites := [] }) a).neighbors
      = (st.env a).neighbors := by
    intro a
    by_cases ha : a = this
    · subst ha; simp
    · simp [Function.update_noteq ha]
  have hgs := environment.radiate_all st.env (fun g => g.Pairwise (· < ·)) (by simp)
    (fun t g hg => set_insert_ptr_sorted t g hg) st.max_sites this (st.env this).connected []
    (by simp)
  have hconn : ∃ st1, environment.connectivity fuel
      { st with env := Function.update st.env this { (st.env this) with sites := [] } }
      this st.max_sites = .ok st1 := by
    unfold environment.connectivity
    simp only [hrad, if_true, Function.update_same]
    rw [environment.radiate_congr _ st.env hnb]
    revert hfuel hgs
    cases hr : (environment.radiate st.env st.max_sites this
        ((st.env this).connected, [])).2 with
    | nil =>
      intro _ _
      exact ⟨_, rfl⟩
    | cons out rest =>
      intro hfuel hgs
      simp only []
      have hfuel' : (environment.universe (out :: rest)).sublists.length < fuel := by
        rw [List.length_sublists]
        exact hfuel
      obtain ⟨sites', hs'⟩ := environment.criss_cross_returns st.max_sites fuel
        (environment.universe (out :: rest)) (environment.universe_sorted _) hfuel' fuel out
        (out :: rest)
        (fun g hg => ⟨hgs g hg, fun a ha => environment.universe_mem _ g hg a ha⟩)
        (List.mem_cons_self _ _)
        (lt_of_le_of_lt (List.length_filter_le _ _) hfuel')
      rw [hs']
      exact ⟨_, rfl⟩
  obtain ⟨st1, hc⟩ := hconn
  unfold environment.initialize
  split
  · rename_i hnone
    rw [hrng] at hnone
    cases hnone
  · rw [hc]
    simp only []
    cases hcr : environment.create_ensembles sc st1 this with
    | error e =>
      right
      rw [environment.create_ensembles_error sc st1 this e hcr]
    | ok st2 =>
      left
      exact ⟨_, rfl⟩

/-! ## Lemmas on the points of the lattice -/

/-- The points that `lattice::make_surface` creates on a lattice without
points. -/
theorem lattice.make_surface_points (l : lattice) (e : Nat) (hpts : l.points = []) :
    (l.make_surface e).points.length = l.size * l.size ∧
    (∀ p ∈ (l.make_surface e).points, p.type = e) ∧
    ∀ r c, r < l.size → c < l.size →
      (l.make_surface e).points[r * l.size + c]? = some ⟨e, r, c⟩ := by
  simp only [lattice.make_surface, hpts, List.nil_append]
  refine ⟨?_, ?_, ?_⟩
  · have hlen : ∀ (m : List Nat), (m.flatMap (fun i =>
        (List.range l.size).map (fun j => ({ type := e, row := i, column := j } :
          lattice_point)))).length = m.length * l.size := by
      intro m
      induction m with
      | nil => simp
      | cons x xs ih =>
        rw [List.flatMap_cons, List.length_append, ih]
        simp only [List.length_map, List.length_range, List.length_cons]
        rw [Nat.succ_mul]
        omega
    rw [hlen, List.length_range]
  · intro p hp
    simp only [List.mem_flatMap, List.mem_map, List.mem_range] at hp
    obtain ⟨i, _, j, _, rfl⟩ := hp
    rfl
  · intro r c hr hc
    rw [flatMap_getElem? l.size _ _ (by simp) r c hc, List.getElem?_range hr]
    simp only [Option.some_bind]
    rw [List.getElem?_map, List.getElem?_range hc]
    rfl

/-- The invariant of the lattices of the interface: a lattice that has not
been initialized has no points, and the points of an initialized lattice are
at their positions. -/
theorem lattice.reached_points (l : lattice) (h : l.reached) :
    (l.initialized = false → l.points = []) ∧
    (l.initialized = true → ∀ r c, r < l.size → c < l.size →
      ∃ p, l.points[r * l.size + c]? = some p ∧ p.row = r ∧ p.column = c) := by
  induction h with
  | ctor size_ =>
    refine ⟨fun _ => rfl, fun h => ?_⟩
    cases h
  | @resize l l' size_ _ hs ih =>
    unfold lattice.set_size at hs
    cases hi : l.initialized with
    | true =>
      rw [hi] at hs
      cases hs
    | false =>
      rw [hi] at hs
      simp only [Bool.false_eq_true, if_false, Except.ok.injEq] at hs
      subst hs
      refine ⟨fun _ => ih.1 hi, fun h => ?_⟩
      simp [hi] at h
  | @init l l' empty_site _ hinit ih =>
    unfold lattice.initialize at hinit
    by_cases hpos : l.size > 0
    · rw [if_pos hpos] at hinit
      cases empty_site with
      | none => cases hinit
      | some e =>
        simp only [Except.ok.injEq] at hinit
        subst hinit
        refine ⟨fun h => (by simp at h), fun _ r c hr hc => ?_⟩
        cases hi : l.initialized with
        | false =>
          obtain ⟨_, _, h3⟩ := lattice.make_surface_points l e (ih.1 hi)
          exact ⟨⟨e, r, c⟩, h3 r c hr hc, rfl, rfl⟩
        | true =>
          obtain ⟨p, hp, hrow, hcol⟩ := ih.2 hi r c hr hc
          refine ⟨p, ?_, hrow, hcol⟩
          show (l.points ++ _)[r * l.size + c]? = some p
          have hlt : r * l.size + c < l.points.length := by
            by_contra hge
            rw [List.getElem?_eq_none (by omega)] at hp
            cases hp
          rw [List.getElem?_append_left hlt]
          exact hp
    · rw [if_neg hpos] at hinit
      simp only [Except.ok.injEq] at hinit
      subst hinit
      refine ⟨fun h => (by simp at h), fun _ r c hr _ => ?_⟩
      exact absurd hr (by show ¬ r < l.size; omega)

/-! ## Lemmas on the Mersenne Twister -/

theorem rng_mt.getD_set (s : List Nat) (p i v : Nat) :
    (s.set p v).getD i 0 = if p = i ∧ p < s.length then v else s.getD i 0 := by
  simp only [List.getD_eq_getElem?_getD, List.getElem?_set]
  by_cases h : p = i
  · subst h
    by_cases h2 : p < s.length
    · simp [h2]
    · simp [h2, List.getElem?_eq_none (Nat.le_of_not_lt h2)]
  · simp [h]

theorem rng_mt.agree_set {s t : List Nat} (h : rng_mt.agree s t) (p v : Nat) :
    rng_mt.agree (s.set p v) (t.set p v) := by
  obtain ⟨h1, h2, h3⟩ := h
  refine ⟨by simp [h1], by simp [h2], fun i hi => ?_⟩
  rw [rng_mt.getD_set, rng_mt.getD_set, h1, h2, h3 i hi]

theorem rng_mt.agree_refl {s : List Nat} (h : s.length = rng_mt.length + 1) :
    rng_mt.agree s s := ⟨h, h, fun _ _ => rfl⟩

theorem rng_mt.agree_symm {s t : List Nat} (h : rng_mt.agree s t) : rng_mt.agree t s :=
  ⟨h.2.1, h.1, fun i hi => (h.2.2 i hi).symm⟩

theorem rng_mt.agree_trans {s t u : List Nat} (h : rng_mt.agree s t) (h' : rng_mt.agree t u) :
    rng_mt.agree s u :=
  ⟨h.1, h'.2.1, fun i hi => (h.2.2 i hi).trans (h'.2.2 i hi)⟩

theorem rng_mt.reload_loop_add (m n : Nat) (a : rng_mt.reload_state) :
    rng_mt.reload_loop (m + n) a = rng_mt.reload_loop n (rng_mt.reload_loop m a) := by
  induction m generalizing a with
  | zero => simp [rng_mt.reload_loop]
  | succ m ih =>
    rw [Nat.add_right_comm, rng_mt.reload_loop, ih]
    rfl

theorem rng_mt.twist_agree {a b : rng_mt.reload_state} (h : rng_mt.agree a.state b.state)
    (hpp : a.pp = b.pp) (hs0 : a.s0 = b.s0) (hs1 : a.s1 = b.s1) (hlt : a.pp < rng_mt.length) :
    rng_mt.twist a = rng_mt.twist b := by
  unfold rng_mt.twist
  rw [← hpp, ← hs0, ← hs1, h.2.2 _ hlt]

theorem rng_mt.reload_loop_agree (j : Nat) : ∀ (a b : rng_mt.reload_state),
    rng_mt.agree a.state b.state → a.p0 = b.p0 → a.p2 = b.p2 → a.pp = b.pp → a.s0 = b.s0 →
    a.s1 = b.s1 → a.pp + j ≤ rng_mt.length → a.p2 + j ≤ rng_mt.length →
    rng_mt.agree (rng_mt.reload_loop j a).state (rng_mt.reload_loop j b).state ∧
      (rng_mt.reload_loop j a).p0 = (rng_mt.reload_loop j b).p0 ∧
      (rng_mt.reload_loop j a).p2 = (rng_mt.reload_loop j b).p2 ∧
      (rng_mt.reload_loop j a).pp = (rng_mt.reload_loop j b).pp ∧
      (rng_mt.reload_loop j a).s0 = (rng_mt.reload_loop j b).s0 ∧
      (rng_mt.reload_loop j a).s1 = (rng_mt.reload_loop j b).s1 ∧
      (rng_mt.reload_loop j a).p2 = a.p2 + j ∧ (rng_mt.reload_loop j a).pp = a.pp + j := by
  induction j with
  | zero =>
    intro a b h h0 h2 hp hs0 hs1 _ _
    exact ⟨h, h0, h2, hp, hs0, hs1, rfl, rfl⟩
  | succ j ih =>
    intro a b h h0 h2 hp hs0 hs1 hpj h2j
    have ht : rng_mt.twist a = rng_mt.twist b :=
      rng_mt.twist_agree h hp hs0 hs1 (by omega)
    have hag : rng_mt.agree (a.state.set a.p0 (rng_mt.twist a))
        (b.state.set b.p0 (rng_mt.twist b)) := by
      rw [← h0, ← ht]
      exact rng_mt.agree_set h _ _
    have hrec := ih
      { state := a.state.set a.p0 (rng_mt.twist a), p0 := a.p0 + 1, p2 := a.p2 + 1,
        pp := a.pp + 1, s0 := a.s1, s1 := (a.state.set a.p0 (rng_mt.twist a)).getD a.p2 0 }
      { state := b.state.set b.p0 (rng_mt.twist b), p0 := b.p0 + 1, p2 := b.p2 + 1,
        pp := b.pp + 1, s0 := b.s1, s1 := (b.state.set b.p0 (rng_mt.twist b)).getD b.p2 0 }
      hag (by simp [h0]) (by simp [h2]) (by simp [hp]) hs1
      (by
        show (a.state.set a.p0 (rng_mt.twist a)).getD a.p2 0 =
          (b.state.set b.p0 (rng_mt.twist b)).getD b.p2 0
        rw [← h2]
        exact hag.2.2 _ (by omega))
      (by show a.pp + 1 + j ≤ rng_mt.length; omega)
      (by show a.p2 + 1 + j ≤ rng_mt.length; omega)
    obtain ⟨r1, r2, r3, r4, r5, r6, r7, r8⟩ := hrec
    refine ⟨r1, r2, r3, r4, r5, r6, ?_, ?_⟩
    · show (rng_mt.reload_loop j _).p2 = a.p2 + (j + 1)
      rw [r7]; show a.p2 + 1 + j = _; omega
    · show (rng_mt.reload_loop j _).pp = a.pp + (j + 1)
      rw [r8]; show a.pp + 1 + j = _; omega

theorem rng_mt.reload_loop_length (j : Nat) : ∀ (a : rng_mt.reload_state),
    (rng_mt.reload_loop j a).state.length = a.state.length := by
  induction j with
  | zero => intro a; rfl
  | succ j ih =>
    intro a
    rw [rng_mt.reload_loop, ih]
    simp
theorem rng_mt.reload_loop_one (a : rng_mt.reload_state) :
    rng_mt.reload_loop 1 a =
      { state := a.state.set a.p0 (rng_mt.twist a), p0 := a.p0 + 1, p2 := a.p2 + 1,
        pp := a.pp + 1, s0 := a.s1, s1 := (a.state.set a.p0 (rng_mt.twist a)).getD a.p2 0 } :=
  rfl

theorem rng_mt.reload_agree (g h : rng_mt) (hag : rng_mt.agree g.state h.state)
    (hseed : g.seed = h.seed) :
    (rng_mt.reload g).1 = (rng_mt.reload h).1 ∧ rng_mt.same (rng_mt.reload g).2 (rng_mt.reload h).2 ∧
      (rng_mt.reload g).2.seed = g.seed ∧ (rng_mt.reload g).2.left = rng_mt.length - 1 ∧
      (rng_mt.reload g).2.next = 1 := by
  have hlen : rng_mt.length = 624 := rfl
  have hper : rng_mt.period = 397 := rfl
  -- the first loop
  have h1 := rng_mt.reload_loop_agree (rng_mt.length - rng_mt.period)
    { state := g.state, p0 := 0, p2 := 2, pp := rng_mt.period, s0 := g.state.getD 0 0,
      s1 := g.state.getD 1 0 }
    { state := h.state, p0 := 0, p2 := 2, pp := rng_mt.period, s0 := h.state.getD 0 0,
      s1 := h.state.getD 1 0 }
    hag rfl rfl rfl (hag.2.2 0 (by rw [hlen]; omega)) (hag.2.2 1 (by rw [hlen]; omega))
    (by show rng_mt.period + (rng_mt.length - rng_mt.period) ≤ _; rw [hlen, hper])
    (by show 2 + (rng_mt.length - rng_mt.period) ≤ _; rw [hlen, hper]; omega)
  dsimp only [rng_mt.reload]
  generalize rng_mt.reload_loop (rng_mt.length - rng_mt.period)
    { state := g.state, p0 := 0, p2 := 2, pp := rng_mt.period, s0 := g.state.getD 0 0,
      s1 := g.state.getD 1 0 } = a1 at h1 ⊢
  generalize rng_mt.reload_loop (rng_mt.length - rng_mt.period)
    { state := h.state, p0 := 0, p2 := 2, pp := rng_mt.period, s0 := h.state.getD 0 0,
      s1 := h.state.getD 1 0 } = b1 at h1 ⊢
  obtain ⟨e1, e2, e3, _, e5, e6, e7, _⟩ := h1
  have e7' : a1.p2 = 229 := by rw [e7]; show 2 + (rng_mt.length - rng_mt.period) = 229; rw [hlen, hper]
  -- the second loop but its last iteration
  have hsplit : rng_mt.period - 1 = 395 + 1 := by rw [hper]
  rw [hsplit, rng_mt.reload_loop_add, rng_mt.reload_loop_add]
  have h2 := rng_mt.reload_loop_agree 395
    { state := a1.state, p0 := a1.p0, p2 := a1.p2, pp := 0, s0 := a1.s0, s1 := a1.s1 }
    { state := b1.state, p0 := b1.p0, p2 := b1.p2, pp := 0, s0 := b1.s0, s1 := b1.s1 }
    e1 e2 e3 rfl e5 e6 (by show 0 + 395 ≤ _; rw [hlen]; omega)
    (by show a1.p2 + 395 ≤ _; rw [hlen, e7'])
  generalize rng_mt.reload_loop 395
    { state := a1.state, p0 := a1.p0, p2 := a1.p2, pp := 0, s0 := a1.s0, s1 := a1.s1 } = a2
    at h2 ⊢
  generalize rng_mt.reload_loop 395
    { state := b1.state, p0 := b1.p0, p2 := b1.p2, pp := 0, s0 := b1.s0, s1 := b1.s1 } = b2
    at h2 ⊢
  obtain ⟨f1, f2, f3, f4, f5, f6, _, f8⟩ := h2
  have f8' : a2.pp = 395 := by rw [f8]
  have ht : rng_mt.twist a2 = rng_mt.twist b2 :=
    rng_mt.twist_agree f1 f4 f5 f6 (by rw [f8', hlen]; omega)
  have hag2 : rng_mt.agree (a2.state.set a2.p0 (rng_mt.twist a2))
      (b2.state.set b2.p0 (rng_mt.twist b2)) := by
    rw [← f2, ← ht]
    exact rng_mt.agree_set f1 _ _
  rw [rng_mt.reload_loop_one, rng_mt.reload_loop_one]
  dsimp only []
  have h0 : (a2.state.set a2.p0 (rng_mt.twist a2)).getD 0 0 =
      (b2.state.set b2.p0 (rng_mt.twist b2)).getD 0 0 := hag2.2.2 0 (by rw [hlen]; omega)
  have ht3 : rng_mt.twist
      { state := a2.state.set a2.p0 (rng_mt.twist a2), p0 := a2.p0 + 1, p2 := a2.p2 + 1,
        pp := a2.pp + 1, s0 := a2.s1, s1 := (a2.state.set a2.p0 (rng_mt.twist a2)).getD 0 0 } =
      rng_mt.twist
      { state := b2.state.set b2.p0 (rng_mt.twist b2), p0 := b2.p0 + 1, p2 := b2.p2 + 1,
        pp := b2.pp + 1, s0 := b2.s1, s1 := (b2.state.set b2.p0 (rng_mt.twist b2)).getD 0 0 } :=
    rng_mt.twist_agree hag2 (by simp [f4]) f6 h0 (by show a2.pp + 1 < _; rw [f8', hlen]; omega)
  refine ⟨by rw [h0], ⟨hseed, rfl, ?_, fun _ => ⟨rfl, ?_⟩⟩, rfl, rfl, rfl⟩
  · show rng_mt.agree (List.set _ _ _) (List.set _ _ _)
    rw [ht3]
    rw [f2] at hag2 ⊢
    exact rng_mt.agree_set hag2 _ _
  · show ((1 : Nat) : Int) + ((rng_mt.length : Int) - 1) = _
    omega
theorem rng_mt.same_symm {g h : rng_mt} (hs : rng_mt.same g h) : rng_mt.same h g := by
  obtain ⟨h1, h2, h3, h4⟩ := hs
  refine ⟨h1.symm, h2.symm, rng_mt.agree_symm h3, fun hl => ?_⟩
  obtain ⟨h5, h6⟩ := h4 (by rw [h2]; exact hl)
  exact ⟨h5.symm, by rw [← h5, ← h2]; exact h6⟩

theorem rng_mt.same_trans {g h k : rng_mt} (hs : rng_mt.same g h) (hs' : rng_mt.same h k) :
    rng_mt.same g k := by
  obtain ⟨h1, h2, h3, h4⟩ := hs
  obtain ⟨k1, k2, k3, k4⟩ := hs'
  refine ⟨h1.trans k1, h2.trans k2, rng_mt.agree_trans h3 k3, fun hl => ?_⟩
  obtain ⟨h5, h6⟩ := h4 hl
  obtain ⟨k5, _⟩ := k4 (by rw [← h2]; exact hl)
  exact ⟨h5.trans k5, h6⟩

theorem rng_mt.get_random_same {g h : rng_mt} (hs : rng_mt.same g h) :
    (rng_mt.get_random g).1 = (rng_mt.get_random h).1 ∧
      rng_mt.same (rng_mt.get_random g).2 (rng_mt.get_random h).2 ∧
      (rng_mt.get_random g).2.seed = g.seed := by
  obtain ⟨h1, h2, h3, h4⟩ := hs
  unfold rng_mt.get_random
  by_cases hl : g.left - 1 < 0
  · rw [if_pos hl, if_pos (by rw [← h2]; exact hl)]
    have hr := rng_mt.reload_agree { g with left := g.left - 1 } { h with left := h.left - 1 }
      h3 h1
    exact ⟨hr.1, hr.2.1, hr.2.2.1⟩
  · rw [if_neg hl, if_neg (by rw [← h2]; exact hl)]
    obtain ⟨h5, h6⟩ := h4 (by omega)
    have hlen : (rng_mt.length : Int) = 624 := rfl
    have hlen' : rng_mt.length = 624 := rfl
    refine ⟨?_, ⟨h1, by show g.left - 1 = h.left - 1; rw [h2], h3, fun hl' => ⟨?_, ?_⟩⟩, rfl⟩
    · show rng_mt.temper _ = rng_mt.temper _
      rw [← h5, h3.2.2 g.next (by rw [hlen']; omega)]
    · show g.next + 1 = h.next + 1
      rw [h5]
    · show ((g.next + 1 : Nat) : Int) + (g.left - 1) = _
      push_cast
      omega

theorem rng_mt.seed_state_loop_length (j : Nat) : ∀ x, (rng_mt.seed_state_loop j x).length = j := by
  induction j with
  | zero => intro x; rfl
  | succ j ih => intro x; simp [rng_mt.seed_state_loop, ih]

theorem rng_mt.seed_state_same (g h : rng_mt) (hg : g.state.length = rng_mt.length + 1)
    (hh : h.state.length = rng_mt.length + 1) (hseed : g.seed = h.seed) :
    rng_mt.same (rng_mt.seed_state g) (rng_mt.seed_state h) := by
  have hlen : rng_mt.length = 624 := rfl
  refine ⟨hseed, rfl, ⟨?_, ?_, fun i hi => ?_⟩, fun hl => absurd hl (lt_irrefl (0 : Int))⟩
  · simp [rng_mt.seed_state, rng_mt.seed_state_loop_length, hg, hlen]
  · simp [rng_mt.seed_state, rng_mt.seed_state_loop_length, hh, hlen]
  · have hi' : i < (((g.seed ||| 1) &&& 0xffffffff) ::
        rng_mt.seed_state_loop (rng_mt.length - 1) ((g.seed ||| 1) &&& 0xffffffff)).length := by
      simp [rng_mt.seed_state_loop_length, hlen]
      omega
    have hi'' : i < (((h.seed ||| 1) &&& 0xffffffff) ::
        rng_mt.seed_state_loop (rng_mt.length - 1) ((h.seed ||| 1) &&& 0xffffffff)).length := by
      simp [rng_mt.seed_state_loop_length, hlen]
      omega
    simp only [rng_mt.seed_state, List.getD_eq_getElem?_getD]
    rw [List.getElem?_append_left hi', List.getElem?_append_left hi'', hseed]

theorem rng_mt.ctor_same (seed_ : Nat) : rng_mt.same (rng_mt.ctor seed_) (rng_mt.ctor seed_) :=
  rng_mt.seed_state_same _ _ (by simp) (by simp) rfl

theorem rng_mt.copy_eq_ctor (g : rng_mt) : rng_mt.copy g = rng_mt.ctor g.seed := rfl

theorem rng_mt.advance_succ (k : Nat) : ∀ g,
    rng_mt.advance (k + 1) g = (rng_mt.get_random (rng_mt.advance k g)).2 := by
  induction k with
  | zero => intro g; rfl
  | succ k ih => intro g; rw [rng_mt.advance, ih]; rfl

theorem rng_mt.advance_seed (k : Nat) (g : rng_mt) (hg : rng_mt.same g g) :
    (rng_mt.advance k g).seed = g.seed ∧ rng_mt.same (rng_mt.advance k g) (rng_mt.advance k g) := by
  induction k with
  | zero => exact ⟨rfl, hg⟩
  | succ k ih =>
    rw [rng_mt.advance_succ]
    have h := rng_mt.get_random_same ih.2
    exact ⟨h.2.2.trans ih.1, h.2.1⟩

theorem rng_mt.draws_same (n : Nat) : ∀ {g h : rng_mt}, rng_mt.same g h →
    rng_mt.draws n g = rng_mt.draws n h := by
  induction n with
  | zero => intro g h _; rfl
  | succ n ih =>
    intro g h hs
    have h1 := rng_mt.get_random_same hs
    rw [rng_mt.draws, rng_mt.draws, h1.1, ih h1.2.1]

theorem rng_mt.draws_advance (k : Nat) : ∀ (n : Nat) (g : rng_mt),
    rng_mt.draws n (rng_mt.advance k g) = (rng_mt.draws (k + n) g).drop k := by
  induction k with
  | zero => intro n g; simp [rng_mt.advance]
  | succ k ih =>
    intro n g
    rw [rng_mt.advance, ih, Nat.add_right_comm, rng_mt.draws]
    rfl

theorem rng_mt.reached_same {g : rng_mt} (hg : rng_mt.reached g) :
    ∃ k, rng_mt.same (rng_mt.advance k (rng_mt.ctor g.seed)) g := by
  induction hg with
  | ctor seed_ => exact ⟨0, rng_mt.ctor_same seed_⟩
  | @copy g _ _ => exact ⟨0, rng_mt.ctor_same g.seed⟩
  | @set_seed g seed_ _ ih =>
    obtain ⟨k, hk⟩ := ih
    exact ⟨0, rng_mt.seed_state_same _ _ (by simp) hk.2.2.1.2.1 rfl⟩
  | @get_random g _ ih =>
    obtain ⟨k, hk⟩ := ih
    have h := rng_mt.get_random_same hk
    have hseed : (rng_mt.get_random g).2.seed = g.seed :=
      (rng_mt.get_random_same (rng_mt.same_trans (rng_mt.same_symm hk) hk)).2.2
    refine ⟨k + 1, ?_⟩
    rw [hseed, rng_mt.advance_succ]
    exact h.2.1

/-! ## Lemmas on `kmc::coverage_scale` -/

theorem kmc.coverage_scale_loop_eq (pow : ℚ → ℚ → ℚ) (sc : Nat → Nat) :
    ∀ (reactants : List (Nat × stoichiometric)) (acc : ℚ × ℚ),
    kmc.coverage_scale_loop pow sc reactants acc =
      (acc.1 * ((kmc.surface_entries sc reactants).map
          (fun it => pow (it.2.power / (sc it.1 : ℚ)) it.2.power)).prod,
        acc.2 + kmc.power_sum sc reactants) := by
  intro reactants
  induction reactants with
  | nil => intro acc; simp [kmc.coverage_scale_loop, kmc.surface_entries, kmc.power_sum]
  | cons it rest ih =>
    intro acc
    unfold kmc.coverage_scale_loop
    by_cases h : sc it.1 > 0
    · rw [if_pos h, ih]
      have hf : kmc.surface_entries sc (it :: rest) = it :: kmc.surface_entries sc rest := by
        simp [kmc.surface_entries, List.filter_cons, h]
      simp only [kmc.power_sum, hf, List.map_cons, List.prod_cons, List.sum_cons]
      ext
      · simp only []; ring
      · simp only []; ring
    · rw [if_neg h, ih]
      have hf : kmc.surface_entries sc (it :: rest) = kmc.surface_entries sc rest := by
        simp [kmc.surface_entries, List.filter_cons, h]
      simp only [kmc.power_sum, hf]

theorem kmc.power_sum_nat (sc : Nat → Nat) (reactants : List (Nat × stoichiometric))
    (hnat : ∀ it ∈ reactants, 0 < sc it.1 → ∃ n : Nat, it.2.power = n) :
    ∃ n : Nat, kmc.power_sum sc reactants = n := by
  induction reactants with
  | nil => exact ⟨0, by simp [kmc.power_sum, kmc.surface_entries]⟩
  | cons it rest ih =>
    obtain ⟨n, hn⟩ := ih (fun x hx => hnat x (List.mem_cons_of_mem _ hx))
    by_cases h : 0 < sc it.1
    · obtain ⟨m, hm⟩ := hnat it (List.mem_cons_self _ _) h
      refine ⟨m + n, ?_⟩
      have hf : kmc.surface_entries sc (it :: rest) = it :: kmc.surface_entries sc rest := by
        simp [kmc.surface_entries, List.filter_cons, h]
      unfold kmc.power_sum at hn ⊢
      rw [hf, List.map_cons, List.sum_cons, hn, hm]
      push_cast
      rfl
    · refine ⟨n, ?_⟩
      have hf : kmc.surface_entries sc (it :: rest) = kmc.surface_entries sc rest := by
        simp [kmc.surface_entries, List.filter_cons, h]
      unfold kmc.power_sum at hn ⊢
      rw [hf, hn]

theorem kmc.coverage_scale_eq_spec (pow : ℚ → ℚ → ℚ) (sc : Nat → Nat)
    (reactants : List (Nat × stoichiometric))
    (hpow : ∀ (x : ℚ) (n : Nat), pow x n = x ^ n)
    (hnat : ∀ it ∈ reactants, 0 < sc it.1 → ∃ n : Nat, it.2.power = n) :
    kmc.coverage_scale pow sc reactants = kmc.coverage_scale_spec sc reactants := by
  unfold kmc.coverage_scale kmc.coverage_scale_spec
  rw [kmc.coverage_scale_loop_eq]
  simp only [one_mul, zero_add]
  obtain ⟨n, hn⟩ := kmc.power_sum_nat sc reactants hnat
  congr 1
  · congr 1
    apply List.map_congr_left
    intro it hit
    have hmem : it ∈ reactants ∧ 0 < sc it.1 := by
      simpa [kmc.surface_entries] using hit
    obtain ⟨m, hm⟩ := hnat it hmem.1 hmem.2
    rw [hm, hpow]
    simp
  · rw [hn, hpow]
    simp

/-! ## Lemmas on `kmc::calc_rate_scale` -/

theorem kmc.calc_rate_scale_event_ok (k : kmc) (site_count : List Int) :
    ∀ (l : List (Nat × (ensemble_map_iter × ensemble_map_iter)))
      (rate_scale rs : List (Nat × (ℚ × ℚ))),
      l.Pairwise (fun a b => a.1 < b.1) →
      (∀ e ∈ l, map_find ptr_lt rate_scale e.1 = none) →
      kmc.calc_rate_scale_event k site_count l rate_scale = .ok rs →
      (∀ e ∈ l,
        (∀ first, e.2.1 = some first →
          map_find ptr_lt rs e.1 = some (e.1,
            (kmc.event_scale k first.get_coordination,
              kmc.event_scale k first.get_coordination))) ∧
        (e.2.1 = none → map_find ptr_lt rs e.1 = some (e.1, (1, 1)))) ∧
      (∀ key, (∀ e ∈ l, e.1 ≠ key) → map_find ptr_lt rs key = map_find ptr_lt rate_scale key) := by
  intro l
  induction l with
  | nil =>
    intro rate_scale rs _ _ h
    simp only [kmc.calc_rate_scale_event, Except.ok.injEq] at h
    subst h
    exact ⟨fun e he => absurd he (List.not_mem_nil e), fun _ _ => rfl⟩
  | cons it rest ih =>
    intro rate_scale rs hsorted hfresh h
    have hrest_sorted := (List.pairwise_cons.1 hsorted).2
    have hlt := (List.pairwise_cons.1 hsorted).1
    have hit := hfresh it (List.mem_cons_self _ _)
    -- the insertion of this reaction
    have key : ∀ v : ℚ × ℚ,
        kmc.calc_rate_scale_event k site_count rest (map_insert ptr_lt (it.1, v) rate_scale)
          = .ok rs →
        map_find ptr_lt rs it.1 = some (it.1, v) ∧
        (∀ e ∈ rest,
          (∀ first, e.2.1 = some first →
            map_find ptr_lt rs e.1 = some (e.1,
              (kmc.event_scale k first.get_coordination,
                kmc.event_scale k first.get_coordination))) ∧
          (e.2.1 = none → map_find ptr_lt rs e.1 = some (e.1, (1, 1)))) ∧
        (∀ key, (∀ e ∈ it :: rest, e.1 ≠ key) →
          map_find ptr_lt rs key = map_find ptr_lt rate_scale key) := by
      intro v hv
      have hfresh' : ∀ e ∈ rest, map_find ptr_lt (map_insert ptr_lt (it.1, v) rate_scale) e.1
          = none := by
        intro e he
        rw [map_find_ptr_insert_ne _ _ _ _ (Nat.ne_of_gt (hlt e he))]
        exact hfresh e (List.mem_cons_of_mem _ he)
      obtain ⟨h1, h2⟩ := ih _ rs hrest_sorted hfresh' hv
      refine ⟨?_, h1, fun key' hkey => ?_⟩
      · rw [h2 it.1 (fun e he => Nat.ne_of_gt (hlt e he))]
        exact map_find_ptr_insert_self _ _ _ hit
      · rw [h2 key' (fun e he => hkey e (List.mem_cons_of_mem _ he))]
        exact map_find_ptr_insert_ne _ _ _ _ (Ne.symm (hkey it (List.mem_cons_self _ _)))
    unfold kmc.calc_rate_scale_event at h
    cases hfirst : it.2.1 with
    | none =>
      rw [hfirst] at h
      obtain ⟨h1, h2, h3⟩ := key _ h
      refine ⟨fun e he => ?_, h3⟩
      rcases List.mem_cons.1 he with rfl | he
      · exact ⟨fun first hf => (by rw [hfirst] at hf; cases hf), fun _ => h1⟩
      · exact h2 e he
    | some first =>
      rw [hfirst] at h
      simp only at h
      split_ifs at h with hc
      cases hcount : site_count[first.get_coordination]? with
      | none => rw [hcount] at h; cases h
      | some count =>
        rw [hcount] at h
        simp only at h
        split_ifs at h with hcnt
        obtain ⟨h1, h2, h3⟩ := key _ h
        refine ⟨fun e he => ?_, h3⟩
        rcases List.mem_cons.1 he with rfl | he
        · refine ⟨fun first' hf => ?_, fun hn => (by rw [hfirst] at hn; cases hn)⟩
          rw [hfirst] at hf
          cases hf
          exact h1
        · exact h2 e he

theorem kmc.calc_rate_scale_event_returns (k : kmc) (site_count : List Int) :
    ∀ (l : List (Nat × (ensemble_map_iter × ensemble_map_iter)))
      (rate_scale : List (Nat × (ℚ × ℚ))),
      (∀ e ∈ l, ∀ first, e.2.1 = some first →
        1 ≤ first.get_coordination ∧
          ∃ count, site_count[first.get_coordination]? = some count ∧ 1 ≤ count) →
      ∃ rs, kmc.calc_rate_scale_event k site_count l rate_scale = .ok rs := by
  intro l
  induction l with
  | nil => intro rate_scale _; exact ⟨rate_scale, rfl⟩
  | cons it rest ih =>
    intro rate_scale hgood
    have hrest : ∀ e ∈ rest, ∀ first, e.2.1 = some first →
        1 ≤ first.get_coordination ∧
          ∃ count, site_count[first.get_coordination]? = some count ∧ 1 ≤ count :=
      fun e he => hgood e (List.mem_cons_of_mem _ he)
    unfold kmc.calc_rate_scale_event
    cases hfirst : it.2.1 with
    | none => exact ih _ hrest
    | some first =>
      obtain ⟨hc, count, hcount, hcnt⟩ := hgood it (List.mem_cons_self _ _) first hfirst
      simp only
      rw [if_neg (by omega), hcount]
      simp only
      rw [if_neg (by omega)]
      exact ih _ hrest

/-! ## Lemmas on the classes of the reactions -/

theorem kmc.create_ensembles_reaction_iterators (sc : Nat → Nat) (k k' : kmc) (rxn : Nat)
    (r : model_reaction)
    (hk : ∀ e ∈ k.rxn_ens, e.2.1 = none → e.2.2 = none)
    (h : kmc.create_ensembles_reaction sc k rxn r = .ok k') :
    ∀ e ∈ k'.rxn_ens, e.2.1 = none → e.2.2 = none := by
  unfold kmc.create_ensembles_reaction at h
  rcases r.get_seq_cases with ⟨h1, h2⟩ | ⟨h1, h2⟩
  · rw [h1] at h
    cases h
  · rw [h1, h2] at h
    simp only at h
    by_cases hne : (ensemble.ctor sc r.create_species_seq.2.1).get_coordination
        ≠ (ensemble.ctor sc r.create_species_seq.2.2).get_coordination
    · rw [if_pos hne] at h
      cases h
    · rw [if_neg hne] at h
      by_cases hpos : (ensemble.ctor sc r.create_species_seq.2.1).get_coordination > 0 ∧
          k.sites > 0
      · rw [if_pos hpos] at h
        simp only [Except.ok.injEq] at h
        subst h
        intro e he
        rcases map_insert_ptr_subset _ _ e he with rfl | he
        · intro hn
          cases hn
        · exact hk e he
      · rw [if_neg hpos] at h
        simp only [Except.ok.injEq] at h
        subst h
        intro e he
        rcases map_insert_ptr_subset _ _ e he with rfl | he
        · intro _
          rfl
        · exact hk e he

theorem kmc.create_ensembles_reactions_iterators (sc : Nat → Nat) :
    ∀ (rs : List model_reaction) (rxn : Nat) (k k' : kmc),
      (∀ e ∈ k.rxn_ens, e.2.1 = none → e.2.2 = none) →
      kmc.create_ensembles_reactions sc rs rxn k = .ok k' →
      ∀ e ∈ k'.rxn_ens, e.2.1 = none → e.2.2 = none := by
  intro rs
  induction rs with
  | nil =>
    intro rxn k k' hk h
    simp only [kmc.create_ensembles_reactions, Except.ok.injEq] at h
    subst h
    exact hk
  | cons r rest ih =>
    intro rxn k k' hk h
    simp only [kmc.create_ensembles_reactions] at h
    cases h1 : kmc.create_ensembles_reaction sc k rxn r with
    | error e => rw [h1] at h; cases h
    | ok k1 =>
      rw [h1] at h
      exact ih _ _ _ (kmc.create_ensembles_reaction_iterators sc k k1 rxn r hk h1) h

theorem kmc.create_ensembles_iterators (sc : Nat → Nat) (mech : model_mechanism)
    (empty_site : Option Nat) (k k' : kmc)
    (hk : ∀ e ∈ k.rxn_ens, e.2.1 = none → e.2.2 = none)
    (h : kmc.create_ensembles sc mech empty_site k = .ok k') :
    ∀ e ∈ k'.rxn_ens, e.2.1 = none → e.2.2 = none := by
  unfold kmc.create_ensembles at h
  cases h1 : kmc.create_ensembles_reactions sc mech.reactions 0 k with
  | error e => rw [h1] at h; cases h
  | ok k1 =>
    rw [h1] at h
    have hk1 := kmc.create_ensembles_reactions_iterators sc _ _ _ _ hk h1
    simp only at h
    by_cases hs : k1.sites > 0
    · rw [if_pos hs] at h
      cases empty_site with
      | none =>
        simp only at h
        by_cases hm : k1.max_coordination = 0
        · rw [if_pos hm] at h
          simp only [Except.ok.injEq] at h
          subst h
          exact hk1
        · rw [if_neg hm] at h
          cases h
      | some empty =>
        simp only [Except.ok.injEq] at h
        subst h
        exact hk1
    · rw [if_neg hs] at h
      simp only [Except.ok.injEq] at h
      subst h
      exact hk1

theorem kmc.create_environments_rxn_ens (sc : Nat → Nat) (fuel : Nat) (k k' : kmc)
    (st st' : store) (empty_site : Option Nat)
    (h : kmc.create_environments sc fuel k st empty_site = .ok (k', st')) :
    k'.rxn_ens = k.rxn_ens := by
  unfold kmc.create_environments at h
  split at h
  · cases h
  · split at h
    · cases h
    · split at h
      · cases h
      · split at h
        · cases h
        · simp only [Except.ok.injEq, Prod.mk.injEq] at h
          rw [← h.1]

theorem kmc.get_ensembles_changed_rxn_ens (k k' : kmc) (st : store) (changed : List Nat)
    (h : kmc.get_ensembles_changed k st changed = .ok k') : k'.rxn_ens = k.rxn_ens := by
  unfold kmc.get_ensembles_changed at h
  split at h
  · cases h
  · simp only [Except.ok.injEq] at h
    rw [← h]

theorem kmc.initialize_iterators (sc : Nat → Nat) (mech : model_mechanism) (empty : Option Nat)
    (fuel : Nat) (k k' : kmc) (st st' : store)
    (hk : ∀ e ∈ k.rxn_ens, e.2.1 = none → e.2.2 = none)
    (h : kmc.initialize sc mech empty fuel k st = .ok (k', st')) :
    ∀ e ∈ k'.rxn_ens, e.2.1 = none → e.2.2 = none := by
  unfold kmc.initialize at h
  split at h
  · cases h
  · rename_i r _
    cases h1 : kmc.create_ensembles sc mech r.1
        { kmc.calc_max_coordination sc mech k with
          max_sites := (kmc.calc_max_coordination sc mech k).max_coordination
          surface := r.2 } with
    | error e => simp only [h1] at h; cases h
    | ok k1 =>
      simp only [h1] at h
      have hk1 := kmc.create_ensembles_iterators sc mech r.1 _ k1 (by exact hk) h1
      cases h2 : k1.surface.initialize r.1 with
      | error e => simp only [h2] at h; cases h
      | ok surface =>
        simp only [h2] at h
        cases h3 : kmc.create_environments sc fuel { k1 with surface := surface } st r.1 with
        | error e => simp only [h3] at h; cases h
        | ok created =>
          simp only [h3] at h
          obtain ⟨kc, stc⟩ := created
          have hc := kmc.create_environments_rxn_ens sc fuel _ kc st stc r.1 h3
          cases h4 : kmc.get_ensembles kc stc with
          | error e => simp only [h4] at h; cases h
          | ok k2 =>
            simp only [h4, Except.ok.injEq, Prod.mk.injEq] at h
            obtain ⟨rfl, rfl⟩ := h
            have h5 := kmc.get_ensembles_changed_rxn_ens kc k2 stc _ h4
            rw [h5, hc]
            exact hk1

theorem kmc.perform_reaction_surface_rxn_ens (sc : Nat → Nat) (k k' : kmc) (st st' : store)
    (ens_map_it : ensemble) (products : List Nat)
    (h : kmc.perform_reaction_surface sc k st ens_map_it products = .ok (k', st')) :
    k'.rxn_ens = k.rxn_ens := by
  unfold kmc.perform_reaction_surface at h
  split at h
  · cases h
  · split_ifs at h
    split at h
    · cases h
    · split at h
      · cases h
      · split at h
        · cases h
        · split at h
          · cases h
          · rename_i changed hch
            cases hd : kmc.delete_ensembles k changed.1 changed.2.1 with
            | error e => simp only [hd] at h; cases h
            | ok deleted =>
              simp only [hd] at h
              cases hg : kmc.get_ensembles_changed deleted.1 deleted.2 changed.2.2 with
              | error e => simp only [hg] at h; cases h
              | ok k1 =>
                simp only [hg, Except.ok.injEq, Prod.mk.injEq] at h
                rw [← h.1, kmc.get_ensembles_changed_rxn_ens _ _ _ _ hg]
                unfold kmc.delete_ensembles at hd
                split at hd
                · cases hd
                · simp only [Except.ok.injEq] at hd
                  rw [← hd]

theorem kmc.perform_reaction_rxn_ens (sc : Nat → Nat)
    (reactor : List Nat → List Nat → Option exn) (k k' : kmc) (st st' : store)
    (rxn : model_reaction) (rxn_for_rev : ensemble_map_iter × ensemble_map_iter) (rate : ℚ)
    (h : kmc.perform_reaction sc reactor k st rxn rxn_for_rev rate = .ok (k', st')) :
    k'.rxn_ens = k.rxn_ens := by
  have key : ∀ (it : ensemble_map_iter) (reactants products : Option (List Nat)),
      kmc.perform_reaction_direction sc reactor k st it reactants products = .ok (k', st') →
      k'.rxn_ens = k.rxn_ens := by
    intro it reactants products hd
    unfold kmc.perform_reaction_direction at hd
    split at hd
    · split at hd
      · split at hd
        · cases hd
        · rename_i r hr
          split at hd
          · cases hd
          · simp only [Except.ok.injEq] at hd
            subst hd
            exact kmc.perform_reaction_surface_rxn_ens sc _ _ _ _ _ _ hr
      · split at hd
        · cases hd
        · simp only [Except.ok.injEq, Prod.mk.injEq] at hd
          rw [← hd.1]
    · cases hd
  unfold kmc.perform_reaction at h
  split_ifs at h
  · exact key _ _ _ h
  · exact key _ _ _ h

/-! ## Lemmas on `kmc::step` -/

theorem map_find_ptr_of_mem {ν : Type} (m : List (Nat × ν)) (e : Nat × ν)
    (hnd : (m.map Prod.fst).Nodup) (he : e ∈ m) : map_find ptr_lt m e.1 = some e := by
  rw [map_find_ptr_eq]
  induction m with
  | nil => cases he
  | cons x rest ih =>
    simp only [List.map_cons, List.nodup_cons] at hnd
    rcases List.mem_cons.1 he with rfl | he
    · simp [List.find?_cons]
    · have hne : x.1 ≠ e.1 := by
        intro heq
        exact hnd.1 (heq ▸ List.mem_map_of_mem Prod.fst he)
      simp only [List.find?_cons, hne, decide_False]
      exact ih hnd.2 he

theorem kmc.select_reaction_loop_congr (G G' : Nat → Except exn ℚ) :
    ∀ (L : List (Nat × (ensemble_map_iter × ensemble_map_iter))) (st : select_state),
      (∀ e ∈ L, G e.1 = G' e.1) →
      kmc.select_reaction_loop G L st = kmc.select_reaction_loop G' L st := by
  intro L
  induction L with
  | nil => intro st _; rfl
  | cons x rest ih =>
    intro st h
    simp only [kmc.select_reaction_loop]
    rw [h x (List.mem_cons_self _ _)]
    cases G' x.1 with
    | error e => rfl
    | ok v => exact ih _ (fun e he => h e (List.mem_cons_of_mem _ he))

theorem kmc.select_reaction_loop_values (G : Nat → Except exn ℚ) :
    ∀ (L : List (Nat × (ensemble_map_iter × ensemble_map_iter))) (st st' : select_state),
      kmc.select_reaction_loop G L st = .ok st' → ∀ e ∈ L, ∃ v, G e.1 = .ok v := by
  intro L
  induction L with
  | nil => intro st st' _ e he; cases he
  | cons x rest ih =>
    intro st st' h e he
    simp only [kmc.select_reaction_loop] at h
    cases hx : G x.1 with
    | error err => rw [hx] at h; cases h
    | ok v =>
      rw [hx] at h
      rcases List.mem_cons.1 he with rfl | he
      · exact ⟨v, hx⟩
      · exact ih _ _ h e he

theorem kmc.select_reaction_congr (G G' : Nat → Except exn ℚ) (precision : ℚ) (k : kmc)
    (g : rng) (h : ∀ e ∈ k.rxn_ens, G e.1 = G' e.1) :
    kmc.select_reaction G precision k g = kmc.select_reaction G' precision k g := by
  unfold kmc.select_reaction
  rw [kmc.select_reaction_loop_congr G G' k.rxn_ens _ h]

/-- A call of `kmc::select_reaction` that returns has computed the net rate of
every reaction. -/
theorem kmc.select_reaction_values (G : Nat → Except exn ℚ) (precision : ℚ) (k : kmc)
    (g : rng) (r : (Nat × ℚ) × rng) (h : kmc.select_reaction G precision k g = .ok r) :
    ∀ e ∈ k.rxn_ens, ∃ v, G e.1 = .ok v := by
  unfold kmc.select_reaction at h
  cases hl : kmc.select_reaction_loop G k.rxn_ens
      { total_rate := 0, rates := [], cum_rates := [] } with
  | error e => rw [hl] at h; cases h
  | ok st => exact kmc.select_reaction_loop_values G _ _ _ hl

/-- The rate that `kmc::select_reaction` returns is the total of the absolute
net rates, negated when the net rate of the selected reaction is negative. -/
theorem kmc.select_reaction_rate (n : Nat → ℚ) (precision : ℚ) (k : kmc) (g : rng)
    (hkeys : (k.rxn_ens.map Prod.fst).Nodup) (rxn : Nat) (rate : ℚ) (g' : rng)
    (h : kmc.select_reaction (fun rxn => .ok (n rxn)) precision k g = .ok ((rxn, rate), g')) :
    rxn ∈ k.rxn_ens.map Prod.fst ∧ precision ≤ (k.rxn_ens.map (fun e => |n e.1|)).sum ∧
      rate = (if n rxn < 0 then (k.rxn_ens.map (fun e => |n e.1|)).sum * -1
        else (k.rxn_ens.map (fun e => |n e.1|)).sum) ∧
      g' = (g.get_random_open (k.rxn_ens.map (fun e => |n e.1|)).sum).2 := by
  obtain ⟨st, hloop, _, htot⟩ := kmc.select_reaction_loop_cum n k.rxn_ens
    { total_rate := 0, rates := [], cum_rates := [] } (fun e he => by simp at he)
  simp only [zero_add] at htot
  have hrates := kmc.select_reaction_loop_rates n k.rxn_ens
    { total_rate := 0, rates := [], cum_rates := [] } st hkeys (fun e _ => rfl) hloop
  simp only [kmc.select_reaction, hloop] at h
  split_ifs at h with hlt
  rw [htot] at hlt h
  split at h
  · cases h
  · cases h
  · rename_i x rxn' hnext
    have hr := hrates rxn'
    by_cases hmem : rxn' ∈ k.rxn_ens.map Prod.fst
    · rw [if_pos hmem] at hr
      rw [hr] at h
      simp only at h
      split_ifs at h with hneg
      · simp only [Except.ok.injEq, Prod.mk.injEq] at h
        obtain ⟨⟨rfl, rfl⟩, rfl⟩ := h
        exact ⟨hmem, not_lt.mp hlt, by rw [if_pos hneg], rfl⟩
      · simp only [Except.ok.injEq, Prod.mk.injEq] at h
        obtain ⟨⟨rfl, rfl⟩, rfl⟩ := h
        exact ⟨hmem, not_lt.mp hlt, by rw [if_neg hneg], rfl⟩
    · rw [if_neg hmem] at hr
      have : map_find ptr_lt ({ total_rate := 0, rates := [], cum_rates := [] } :
          select_state).rates rxn' = none := rfl
      rw [this] at hr
      rw [hr] at h
      cases h

theorem list_sum_abs_nonneg (n : Nat → ℚ)
    (L : List (Nat × (ensemble_map_iter × ensemble_map_iter))) :
    0 ≤ (L.map (fun e => |n e.1|)).sum := by
  induction L with
  | nil => simp
  | cons x rest ih =>
    simp only [List.map_cons, List.sum_cons]
    linarith [abs_nonneg (n x.1)]

theorem list_sum_abs_split (n : Nat → ℚ) (rxn : Nat) :
    ∀ (L : List (Nat × (ensemble_map_iter × ensemble_map_iter))),
      (L.map Prod.fst).Nodup → rxn ∈ L.map Prod.fst →
      (L.map (fun e => |n e.1|)).sum =
        |n rxn| + ((L.filter (fun e => decide (e.1 ≠ rxn))).map (fun e => |n e.1|)).sum := by
  intro L
  induction L with
  | nil => intro _ h; cases h
  | cons x rest ih =>
    intro hnd hmem
    simp only [List.map_cons, List.nodup_cons] at hnd
    by_cases hx : x.1 = rxn
    · have hrest : rest.filter (fun e => decide (e.1 ≠ rxn)) = rest := by
        rw [List.filter_eq_self]
        intro e he
        have : e.1 ≠ rxn := by
          intro heq
          apply hnd.1
          rw [hx, ← heq]
          exact List.mem_map_of_mem Prod.fst he
        simpa using this
      simp only [List.map_cons, List.sum_cons, List.filter_cons, hx, ne_eq, not_true_eq_false,
        decide_False, Bool.false_eq_true, if_false, hrest]
    · have hmem' : rxn ∈ rest.map Prod.fst := by
        simp only [List.map_cons, List.mem_cons] at hmem
        rcases hmem with h | h
        · exact absurd h.symm hx
        · exact h
      simp only [List.map_cons, List.sum_cons, List.filter_cons, ne_eq, hx, not_false_eq_true,
        decide_True, if_true, ih hnd.2 hmem']
      ring

/-- What an iteration of the loop of `kmc::step` that returns has gone
through. -/
theorem kmc.step_body_ok (f : rate_functions) (log : ℚ → ℚ)
    (kmc_step_msp : state → Nat → ℚ → ℚ → ℚ → Except exn state) (sc : Nat → Nat)
    (mech : model_mechanism) (w w' : simulation) (loc : kmc.step_locals)
    (h : kmc.step_body f log kmc_step_msp sc mech w = .ok (w', loc)) :
    ∃ g g' rxn_for_rev_it rxn w1 g1,
      w.memory.random = some g ∧
      kmc.select_reaction (kmc.get_net_rate_of f sc mech w) w.quantities.prec.get_double
        w.engine g = .ok ((loc.rxn, loc.rate), g') ∧
      map_find ptr_lt w.engine.rxn_ens loc.rxn = some rxn_for_rev_it ∧
      mech.reactions[loc.rxn]? = some rxn ∧
      kmc.perform_reaction_reactor sc { w with memory := w.memory.with_random g' } rxn
        rxn_for_rev_it.2 loc.rate = .ok w1 ∧
      w1.memory.random = some g1 ∧
      loc.u = (g1.get_random_open_open 1).1 ∧
      loc.dx = -(log loc.u / |loc.rate|) := by
  unfold kmc.step_body at h
  cases hg : w.memory.random with
  | none => rw [hg] at h; cases h
  | some g =>
    rw [hg] at h
    simp only at h
    cases hsel : kmc.select_reaction (kmc.get_net_rate_of f sc mech w)
        w.quantities.prec.get_double w.engine g with
    | error e => rw [hsel] at h; cases h
    | ok selected =>
      rw [hsel] at h
      simp only at h
      cases hfind : map_find ptr_lt w.engine.rxn_ens selected.1.1 with
      | none => rw [hfind] at h; cases h
      | some rxn_for_rev_it =>
        cases hrxn : mech.reactions[selected.1.1]? with
        | none => rw [hfind, hrxn] at h; cases h
        | some rxn =>
          rw [hfind, hrxn] at h
          simp only at h
          cases hp : kmc.perform_reaction_reactor sc
              { w with memory := w.memory.with_random selected.2 } rxn rxn_for_rev_it.2
              selected.1.2 with
          | error e => rw [hp] at h; cases h
          | ok w1 =>
            rw [hp] at h
            simp only at h
            cases hg1 : w1.memory.random with
            | none => rw [hg1] at h; cases h
            | some g1 =>
              rw [hg1] at h
              simp only at h
              split at h
              · cases h
              · simp only [Except.ok.injEq, Prod.mk.injEq] at h
                obtain ⟨_, rfl⟩ := h
                exact ⟨g, selected.2, rxn_for_rev_it, rxn, w1, g1, rfl, hsel, hfind, hrxn, hp,
                  hg1, rfl, rfl⟩

/-- An iteration of the loop of `kmc::step` that returns has computed the net
rate of every reaction, and `select_reaction` has returned the total of their
absolute values with the sign of the net rate of the selected reaction. -/
theorem kmc.step_body_rate (f : rate_functions) (log : ℚ → ℚ)
    (kmc_step_msp : state → Nat → ℚ → ℚ → ℚ → Except exn state) (sc : Nat → Nat)
    (mech : model_mechanism) (w w' : simulation) (loc : kmc.step_locals)
    (hkeys : (w.engine.rxn_ens.map Prod.fst).Nodup)
    (h : kmc.step_body f log kmc_step_msp sc mech w = .ok (w', loc)) :
    (∀ e ∈ w.engine.rxn_ens,
      kmc.get_net_rate f sc mech w.engine w.quantities w.rates e
        = .ok (kmc.net_rate f sc mech w e.1)) ∧
    loc.rxn ∈ w.engine.rxn_ens.map Prod.fst ∧
    w.quantities.prec.get_double ≤ kmc.total_propensity f sc mech w ∧
    loc.rate = (if kmc.net_rate f sc mech w loc.rxn < 0 then kmc.total_propensity f sc mech w * -1
      else kmc.total_propensity f sc mech w) := by
  obtain ⟨g, g', _, _, _, _, _, hsel, _, _, _, _, _, _⟩ :=
    kmc.step_body_ok f log kmc_step_msp sc mech w w' loc h
  have hval := kmc.select_reaction_values _ _ _ _ _ hsel
  have hG : ∀ e ∈ w.engine.rxn_ens, kmc.get_net_rate_of f sc mech w e.1
      = (fun rxn => Except.ok (kmc.net_rate f sc mech w rxn)) e.1 := by
    intro e he
    obtain ⟨v, hv⟩ := hval e he
    simp only [kmc.net_rate, hv]
  rw [kmc.select_reaction_congr _ (fun rxn => Except.ok (kmc.net_rate f sc mech w rxn)) _ _ _ hG]
    at hsel
  obtain ⟨h1, h2, h3, _⟩ := kmc.select_reaction_rate (kmc.net_rate f sc mech w) _ _ _ hkeys _ _ _ hsel
  refine ⟨fun e he => ?_, h1, h2, h3⟩
  have := hG e he
  simp only [kmc.get_net_rate_of, map_find_ptr_of_mem _ e hkeys he] at this
  exact this
theorem example_step_eq :
    kmc.step_body example_rate_functions_step example_log example_kmc_step_msp example_sc
      example_mech_step example_simulation
      = .ok (example_simulation_stepped, example_step_locals) := by
  with_unfolding_all rfl

theorem example_step_locals_eq : example_step_locals = ⟨1, 4, 2 / 3, 1 / 12⟩ := by
  with_unfolding_all rfl

theorem example_step_net_rate :
    kmc.get_net_rate_of example_rate_functions_step example_sc example_mech_step
      example_simulation 1 = .ok 3 := by
  with_unfolding_all rfl

/-! ## Lemmas on the species that a reaction puts on the lattice -/

theorem environment.place_on_site_types (s : Nat) (site rest : List Nat) (st st' : store)
    (hnd : rest.Nodup) (h : environment.place_on_site s site rest st = .ok st') :
    ∀ e, (st'.env e).center.type = (st.env e).center.type ∨ (st'.env e).center.type = s := by
  obtain ⟨_, _, hout, hin⟩ := environment.place_on_site_ok s site rest st st' hnd h
  intro e
  by_cases he : e ∈ rest
  · exact Or.inr (hin e he).1
  · exact Or.inl (by rw [hout e he])

theorem environment.place_species_loop_types
    (place_rest : store → List Nat → Except exn (Bool × store)) (s : Nat) (left : List Nat)
    (envs : List Nat)
    (hrest : ∀ st envs' b st', place_rest st envs' = .ok (b, st') →
      ∀ e, (st'.env e).center.type = (st.env e).center.type ∨ (st'.env e).center.type ∈ left)
    (L : List (List Nat)) (hL : ∀ site ∈ L, site.Nodup)
    (st : store) (b : Bool) (st' : store)
    (h : environment.place_species_loop place_rest s envs L st = .ok (b, st')) :
    ∀ e, (st'.env e).center.type = (st.env e).center.type ∨
      (st'.env e).center.type ∈ s :: left := by
  induction L generalizing st with
  | nil =>
    simp only [environment.place_species_loop, Except.ok.injEq, Prod.mk.injEq] at h
    obtain ⟨_, rfl⟩ := h
    exact fun _ => Or.inl rfl
  | cons site more ih =>
    have hsite := hL site (List.mem_cons_self _ _)
    simp only [environment.place_species_loop] at h
    cases hr : place_rest st (envs.filter (fun orig_it => !set_contains ptr_lt site orig_it)) with
    | error e => rw [hr] at h; cases h
    | ok r =>
      obtain ⟨b1, st1⟩ := r
      rw [hr] at h
      have t1 := hrest _ _ _ _ hr
      cases b1 with
      | true =>
        simp only at h
        cases hp : environment.place_on_site s site site st1 with
        | error e => rw [hp] at h; cases h
        | ok st2 =>
          rw [hp] at h
          simp only [Except.ok.injEq, Prod.mk.injEq] at h
          obtain ⟨rfl, rfl⟩ := h
          have t2 := environment.place_on_site_types s site site st1 st2 hsite hp
          intro e
          rcases t2 e with h2 | h2
          · rcases t1 e with h1 | h1
            · exact Or.inl (h2.trans h1)
            · exact Or.inr (List.mem_cons_of_mem _ (h2 ▸ h1))
          · exact Or.inr (h2 ▸ List.mem_cons_self _ _)
      | false =>
        simp only at h
        have t2 := ih (fun x hx => hL x (List.mem_cons_of_mem _ hx)) st1 h
        intro e
        rcases t2 e with h2 | h2
        · rcases t1 e with h1 | h1
          · exact Or.inl (h2.trans h1)
          · exact Or.inr (List.mem_cons_of_mem _ (h2 ▸ h1))
        · exact Or.inr h2

/-- The species that `environment::place_species` leaves on an environment is
the one it held or one of the species to place. -/
theorem environment.place_species_types (sc : Nat → Nat) (sp : List Nat) :
    ∀ (st : store) (envs : List Nat) (b : Bool) (st' : store),
      environment.place_species sc sp st envs = .ok (b, st') →
      ∀ e, (st'.env e).center.type = (st.env e).center.type ∨ (st'.env e).center.type ∈ sp := by
  induction sp with
  | nil =>
    intro st envs b st' h
    simp only [environment.place_species] at h
    split_ifs at h
    simp only [Except.ok.injEq, Prod.mk.injEq] at h
    obtain ⟨_, rfl⟩ := h
    exact fun _ => Or.inl rfl
  | cons s rest ih =>
    intro st envs b st' h
    simp only [environment.place_species] at h
    split_ifs at h with h1 h2
    have hc : 1 ≤ sc s := by omega
    obtain ⟨S, hS, hmem⟩ := environment.get_sites_grown st.env (sc s) envs hc
    rw [hS] at h
    simp only at h
    cases hg : st.random with
    | none => rw [hg] at h; cases h
    | some g =>
      rw [hg] at h
      simp only at h
      exact environment.place_species_loop_types
        (environment.place_species sc rest) s rest envs ih (random_shuffle S g).1
        (by
          intro site hsite
          rw [random_shuffle_mem, hmem] at hsite
          obtain ⟨p1, _, _⟩ := environment.grown_props _ _ _ _ hsite
          exact pairwise_lt_nodup _ p1)
        (st.with_random (random_shuffle S g).2) b st' h

/-- The species that `environment::change_ensemble` leaves on an environment is
the one it held or one of the products. -/
theorem environment.change_ensemble_types (sc : Nat → Nat) (st st' : store) (this old : Nat)
    (products remove changed : List Nat)
    (h : environment.change_ensemble sc st this old products [] [] = .ok (st', remove, changed)) :
    ∀ e, (st'.env e).center.type = (st.env e).center.type ∨
      (st'.env e).center.type ∈ products := by
  obtain ⟨_, members, obj, g, placed, _, _, _, _, hplace, hrec, hch, _⟩ :=
    environment.change_ensemble_ok sc st st' this old products [] [] remove changed h
  have hnd : changed.Nodup := by
    rw [hch]
    exact pairwise_lt_nodup _
      (environment.collect_changed_sorted st this members [] List.Pairwise.nil)
  have hrecr := environment.recreate_ensembles_recreated sc changed placed.2 st' hnd hrec
  have hsurf : ∀ e, (st'.env e).center = (placed.2.env e).center := by
    intro e
    exact (hrecr.2.2.2.1.2.2.2.2 e).1.symm
  have ht := environment.place_species_types sc _ _ members placed.1 placed.2 hplace
  intro e
  rw [hsurf e]
  rcases ht e with h1 | h1
  · exact Or.inl h1
  · right
    rw [random_shuffle_mem, ensemble.sorted_species_eq] at h1
    have h2 := (List.perm_insertionSort _ _).mem_iff.1 h1
    exact (List.mem_filter.1 h2).1

theorem kmc.perform_reaction_surface_types (sc : Nat → Nat) (k k' : kmc) (st st' : store)
    (ens_map_it : ensemble) (products : List Nat)
    (h : kmc.perform_reaction_surface sc k st ens_map_it products = .ok (k', st')) :
    k'.environments = k.environments ∧ k'.sites = k.sites ∧
      ∀ e, (st'.env e).center.type = (st.env e).center.type ∨
        (st'.env e).center.type ∈ products := by
  unfold kmc.perform_reaction_surface at h
  split at h
  · cases h
  · split_ifs at h
    split at h
    · cases h
    · split at h
      · cases h
      · split at h
        · cases h
        · split at h
          · cases h
          · rename_i g _ r _ ens_env_it _ changed hch
            cases hd : kmc.delete_ensembles k changed.1 changed.2.1 with
            | error e => simp only [hd] at h; cases h
            | ok deleted =>
              simp only [hd] at h
              cases hg : kmc.get_ensembles_changed deleted.1 deleted.2 changed.2.2 with
              | error e => simp only [hg] at h; cases h
              | ok k1 =>
                simp only [hg, Except.ok.injEq, Prod.mk.injEq] at h
                obtain ⟨rfl, rfl⟩ := h
                have ht := environment.change_ensemble_types sc _ changed.1 _ _ products
                  changed.2.1 changed.2.2 hch
                unfold kmc.get_ensembles_changed at hg
                split at hg
                · cases hg
                · simp only [Except.ok.injEq] at hg
                  subst hg
                  unfold kmc.delete_ensembles at hd
                  cases hl : kmc.delete_ensembles_loop changed.2.1 (k.ensembles, changed.1) with
                  | error e => rw [hl] at hd; cases hd
                  | ok r2 =>
                    rw [hl] at hd
                    simp only [Except.ok.injEq] at hd
                    subst hd
                    have henv := (kmc.delete_ensembles_loop_env _ _ _ hl).1
                    refine ⟨rfl, rfl, fun e => ?_⟩
                    simp only at henv ⊢
                    rw [henv]
                    exact ht e

theorem kmc.perform_reaction_reactor_types (sc : Nat → Nat) (w w' : simulation)
    (rxn : model_reaction) (rxn_for_rev : ensemble_map_iter × ensemble_map_iter) (rate : ℚ)
    (h : kmc.perform_reaction_reactor sc w rxn rxn_for_rev rate = .ok w') :
    w'.engine.environments = w.engine.environments ∧ w'.engine.sites = w.engine.sites ∧
      w'.rates = w.rates ∧
      ∀ e, (w'.memory.env e).center.type = (w.memory.env e).center.type ∨
        (0 < rate ∧ ∃ products, rxn.get_product_seq_ptr = some products ∧
          (w'.memory.env e).center.type ∈ products) ∨
        (rate < 0 ∧ ∃ reactants, rxn.get_reactant_seq_ptr = some reactants ∧
          (w'.memory.env e).center.type ∈ reactants) := by
  have key : ∀ (it : ensemble_map_iter) (reactants products : Option (List Nat)),
      kmc.perform_reaction_reactor_direction sc w it reactants products = .ok w' →
      w'.engine.environments = w.engine.environments ∧ w'.engine.sites = w.engine.sites ∧
        w'.rates = w.rates ∧
        ∀ e, (w'.memory.env e).center.type = (w.memory.env e).center.type ∨
          ∃ ps, products = some ps ∧ (w'.memory.env e).center.type ∈ ps := by
    intro it reactants products hd
    unfold kmc.perform_reaction_reactor_direction at hd
    split at hd
    · rename_i rs ps
      split at hd
      · rename_i ens
        cases hs : kmc.perform_reaction_surface sc w.engine w.memory ens ps with
        | error e => rw [hs] at hd; cases hd
        | ok r =>
          rw [hs] at hd
          simp only at hd
          split at hd
          · cases hd
          · simp only [Except.ok.injEq] at hd
            subst hd
            obtain ⟨a, b, c⟩ := kmc.perform_reaction_surface_types sc _ _ _ _ _ _ hs
            refine ⟨a, b, rfl, fun e => ?_⟩
            rcases c e with h1 | h1
            · exact Or.inl h1
            · exact Or.inr ⟨ps, rfl, h1⟩
      · split at hd
        · cases hd
        · simp only [Except.ok.injEq] at hd
          subst hd
          exact ⟨rfl, rfl, rfl, fun _ => Or.inl rfl⟩
    · cases hd
  unfold kmc.perform_reaction_reactor at h
  split_ifs at h with h1 h2
  · obtain ⟨a, b, c, d⟩ := key _ _ _ h
    refine ⟨a, b, c, fun e => ?_⟩
    rcases d e with h3 | ⟨ps, h3, h4⟩
    · exact Or.inl h3
    · exact Or.inr (Or.inl ⟨h1, ps, h3, h4⟩)
  · obtain ⟨a, b, c, d⟩ := key _ _ _ h
    refine ⟨a, b, c, fun e => ?_⟩
    rcases d e with h3 | ⟨ps, h3, h4⟩
    · exact Or.inl h3
    · exact Or.inr (Or.inr ⟨h2, ps, h3, h4⟩)

/-! ## Lemmas on the quantities that a reaction changes -/

theorem state.add_to_quantity_ok (s s' : state) (msp : Nat) (t : quantity.type) (x : ℚ)
    (h : s.add_to_quantity msp t x = .ok s') :
    s'.prec = s.prec ∧ s'.rxtor = s.rxtor ∧ s'.amount_type = s.amount_type ∧
      (∀ sp, sp ≠ msp → s'.amount sp = s.amount sp) ∧
      (∀ c, s.amount msp = .surface_quantity c → s'.amount msp = .surface_quantity (c + x)) := by
  unfold state.add_to_quantity at h
  cases hq : (s.amount msp).add_to_quantity s.prec t x with
  | error e => rw [hq] at h; cases h
  | ok q =>
    rw [hq] at h
    simp only [Except.ok.injEq] at h
    subst h
    refine ⟨rfl, rfl, rfl, fun sp hsp => by simp [Function.update_noteq hsp], fun c hc => ?_⟩
    simp only [Function.update_same]
    rw [hc] at hq
    simp only [quantity.add_to_quantity, quantity.set_quantity, quantity.get_quantity] at hq
    split_ifs at hq
    simp only [Except.ok.injEq] at hq
    exact hq.symm

theorem state.set_quantity_ok (s s' : state) (msp : Nat) (t : quantity.type) (x : ℚ)
    (h : s.set_quantity msp t x = .ok s') :
    s'.prec = s.prec ∧ s'.rxtor = s.rxtor ∧ s'.amount_type = s.amount_type ∧
      (∀ sp, sp ≠ msp → s'.amount sp = s.amount sp) ∧
      (∀ c, s.amount msp = .surface_quantity c → s'.amount msp = .surface_quantity x) := by
  unfold state.set_quantity at h
  cases hq : (s.amount msp).set_quantity s.prec t x with
  | error e => rw [hq] at h; cases h
  | ok q =>
    rw [hq] at h
    simp only [Except.ok.injEq] at h
    subst h
    refine ⟨rfl, rfl, rfl, fun sp hsp => by simp [Function.update_noteq hsp], fun c hc => ?_⟩
    simp only [Function.update_same]
    rw [hc] at hq
    simp only [quantity.set_quantity] at hq
    split_ifs at hq
    simp only [Except.ok.injEq] at hq
    exact hq.symm

theorem state.surface_typed_of_amount (sc : Nat → Nat) (s s' : state) (msp : Nat)
    (hs : s.surface_typed sc)
    (hother : ∀ sp, sp ≠ msp → s'.amount sp = s.amount sp)
    (hself : ∀ c, s.amount msp = .surface_quantity c → ∃ c', s'.amount msp = .surface_quantity c') :
    s'.surface_typed sc := by
  intro sp hsp
  by_cases h : sp = msp
  · subst h
    obtain ⟨c, hc⟩ := hs sp hsp
    exact hself c hc
  · rw [hother sp h]
    exact hs sp hsp

/-- A loop of `reactor::kmc_reaction` changes the quantities of the species of
its sequence only, each species with a surface coordination by `molecules`
over the sites of the reactor for every occurrence. -/
theorem reactor.kmc_reaction_loop_ok (sc : Nat → Nat) (molecules : ℚ) :
    ∀ (l : List Nat) (s s' : state), s.surface_typed sc → (∀ sp ∈ l, sc sp > 0) →
      reactor.kmc_reaction_loop sc molecules l s = .ok s' →
      s'.prec = s.prec ∧ s'.rxtor = s.rxtor ∧ s'.amount_type = s.amount_type ∧
        s'.surface_typed sc ∧
        (∀ sp, sp ∉ l → s'.amount sp = s.amount sp) ∧
        (l ≠ [] → s.rxtor.get_sites ≠ 0) ∧
        (∀ sp t, sc sp > 0 →
          s'.get_quantity sp t = s.get_quantity sp t
            + (l.count sp : ℚ) * (molecules * (1 / s.rxtor.get_sites))) := by
  intro l
  induction l with
  | nil =>
    intro s s' _ _ h
    simp only [reactor.kmc_reaction_loop, Except.ok.injEq] at h
    subst h
    exact ⟨rfl, rfl, rfl, ‹_›, fun _ _ => rfl, fun h => absurd rfl h, fun sp t _ => by simp⟩
  | cons x rest ih =>
    intro s s' hs hl h
    simp only [reactor.kmc_reaction_loop] at h
    have hx : sc x > 0 := hl x (List.mem_cons_self _ _)
    cases hm : reactor.kmc_reaction_msp sc s.rxtor x with
    | error e => rw [hm] at h; cases h
    | ok v =>
      rw [hm] at h
      simp only at h
      unfold reactor.kmc_reaction_msp at hm
      rw [if_pos hx] at hm
      unfold double_div at hm
      split_ifs at hm with h0
      simp only [Except.ok.injEq] at hm
      subst hm
      cases ha : s.add_to_quantity x s.rxtor.fluid_type (molecules * (1 / s.rxtor.get_sites)) with
      | error e => rw [ha] at h; cases h
      | ok s1 =>
        rw [ha] at h
        simp only at h
        obtain ⟨a1, a2, a3, a4, a5⟩ := state.add_to_quantity_ok _ _ _ _ _ ha
        have hs1 : s1.surface_typed sc :=
          state.surface_typed_of_amount sc s s1 x hs a4 (fun c hc => ⟨_, a5 c hc⟩)
        obtain ⟨b1, b2, b3, b4, b5, _, b7⟩ :=
          ih s1 s' hs1 (fun sp hsp => hl sp (List.mem_cons_of_mem _ hsp)) h
        refine ⟨b1.trans a1, b2.trans a2, b3.trans a3, b4, fun sp hsp => ?_, fun _ => h0,
          fun sp t hsp => ?_⟩
        · rw [b5 sp (fun hin => hsp (List.mem_cons_of_mem _ hin)),
            a4 sp (fun heq => hsp (heq ▸ List.mem_cons_self _ _))]
        · rw [b7 sp t hsp, a2]
          by_cases hsx : sp = x
          · subst hsx
            obtain ⟨c, hc⟩ := hs sp hsp
            simp only [state.get_quantity, a5 c hc, hc, quantity.get_quantity,
              List.count_cons_self]
            push_cast
            ring
          · simp only [state.get_quantity, a4 sp hsx]
            rw [List.count_cons_of_ne hsx]

/-- After `reactor::kmc_initialize` for a lattice with sites, the sites of the
reactor are the scale returned times the sites of the lattice. -/
theorem reactor.kmc_initialize_scaled (s s' : state) (kmc_sites : Nat) (scale scale' : ℚ)
    (hsites : kmc_sites > 0) (h : reactor.kmc_initialize s kmc_sites scale = .ok (scale', s')) :
    s'.rxtor.get_sites = (kmc_sites : ℚ) * scale' := by
  unfold reactor.kmc_initialize at h
  have hN : (kmc_sites : ℚ) ≠ 0 := by exact_mod_cast (Nat.pos_iff_ne_zero.1 hsites)
  by_cases h1 : s.rxtor.get_sites > s.prec.get_double
  · rw [if_pos h1, if_pos hsites] at h
    simp only [Except.ok.injEq, Prod.mk.injEq] at h
    obtain ⟨rfl, rfl⟩ := h
    field_simp
  · rw [if_neg h1] at h
    unfold reactor.set_sites at h
    split_ifs at h
    simp only [Except.ok.injEq, Prod.mk.injEq] at h
    obtain ⟨rfl, rfl⟩ := h
    rfl

/-! ## Lemmas on `kmc::initial_coverage` -/

theorem kmc.initial_coverage_rxn_seq (sc : Nat → Nat) (empty_site sp : Nat) :
    (kmc.initial_coverage_rxn sc empty_site sp).create_species_seq
      = (true, List.replicate (sc sp) empty_site, [sp]) := by
  have h1 : ((1 : ℚ), (1 : ℚ)) = (((1 : ℕ) : ℚ), ((1 : ℕ) : ℚ)) := by simp
  have hp : (⟨1, 1⟩ : stoichiometric) = stoichiometric.of_nat 1 := by
    simp [stoichiometric.of_nat]
  have hr : (⟨(sc sp : ℚ), (sc sp : ℚ)⟩ : stoichiometric) = stoichiometric.of_nat (sc sp) := rfl
  simp only [model_reaction.create_species_seq, kmc.initial_coverage_rxn, hp, hr,
    model_reaction.create_species_seq_of_nat, model_reaction.create_species_seq_of_nil,
    if_true, List.append_nil, List.replicate_one]

/-- What a call of `kmc::perform_reaction(rxn)` for the reaction that places
the species `sp` has done when it returns: nothing when it returns false;
otherwise the coverage of `sp` has grown by `scale` over the sites of the
reactor, and the lattice holds `sp` where it has changed. -/
theorem kmc.perform_reaction_rxn_reactor_placed (sc : Nat → Nat) (w w' : simulation)
    (empty_site sp : Nat) (b : Bool)
    (hs : w.quantities.surface_typed sc) (hempty : sc empty_site > 0) (hsp : sc sp > 0)
    (hne : sp ≠ empty_site)
    (h : kmc.perform_reaction_rxn_reactor sc w (kmc.initial_coverage_rxn sc empty_site sp)
      = .ok (b, w')) :
    (b = false → w' = w) ∧
    w'.rates = w.rates ∧ w'.quantities.rxtor = w.quantities.rxtor ∧
    w'.quantities.prec = w.quantities.prec ∧ w'.engine.sites = w.engine.sites ∧
    w'.engine.environments = w.engine.environments ∧
    w'.quantities.surface_typed sc ∧
    (∀ y, y ≠ empty_site → y ≠ sp → w'.quantities.amount y = w.quantities.amount y) ∧
    (∀ e, (w'.memory.env e).center.type = (w.memory.env e).center.type ∨
      (w'.memory.env e).center.type = sp) ∧
    (b = true → w.quantities.rxtor.get_sites ≠ 0 ∧
      ∀ t, w'.quantities.get_quantity sp t = w.quantities.get_quantity sp t
        + w.rates.scale * (1 / w.quantities.rxtor.get_sites)) := by
  have hseq := kmc.initial_coverage_rxn_seq sc empty_site sp
  unfold kmc.perform_reaction_rxn_reactor at h
  simp only [model_reaction.get_reactant_seq, hseq, if_true] at h
  split at h
  · cases h
  · rename_i em_it _
    split_ifs at h with hemp
    · simp only [Except.ok.injEq, Prod.mk.injEq] at h
      obtain ⟨rfl, rfl⟩ := h
      exact ⟨fun _ => rfl, rfl, rfl, rfl, rfl, rfl, hs, fun _ _ _ => rfl, fun _ => Or.inl rfl,
        fun hb => (by cases hb)⟩
    · cases hp : kmc.perform_reaction_reactor sc w (kmc.initial_coverage_rxn sc empty_site sp)
          (some em_it.1, none) 1 with
      | error e => rw [hp] at h; cases h
      | ok w1 =>
        rw [hp] at h
        simp only [Except.ok.injEq, Prod.mk.injEq] at h
        obtain ⟨rfl, rfl⟩ := h
        obtain ⟨t1, t2, t3, t4⟩ := kmc.perform_reaction_reactor_types sc w w1 _ _ _ hp
        -- the quantities
        unfold kmc.perform_reaction_reactor at hp
        rw [if_pos (by norm_num)] at hp
        simp only [model_reaction.get_reactant_seq_ptr, model_reaction.get_product_seq_ptr, hseq,
          if_true] at hp
        unfold kmc.perform_reaction_reactor_direction at hp
        simp only at hp
        cases hsurf : kmc.perform_reaction_surface sc w.engine w.memory em_it.1 [sp] with
        | error e => rw [hsurf] at hp; cases hp
        | ok r =>
          rw [hsurf] at hp
          simp only at hp
          cases hk : reactor.kmc_reaction sc w.quantities (List.replicate (sc sp) empty_site) [sp]
              w.rates.scale with
          | error e => rw [hk] at hp; cases hp
          | ok s =>
            rw [hk] at hp
            simp only [Except.ok.injEq] at hp
            subst hp
            unfold reactor.kmc_reaction at hk
            cases hk1 : reactor.kmc_reaction_loop sc (-w.rates.scale)
                (List.replicate (sc sp) empty_site) w.quantities with
            | error e => rw [hk1] at hk; cases hk
            | ok s1 =>
              rw [hk1] at hk
              simp only at hk
              obtain ⟨a1, a2, a3, a4, a5, _, a7⟩ := reactor.kmc_reaction_loop_ok sc _ _ _ _ hs
                (fun x hx => by rw [List.eq_of_mem_replicate hx]; exact hempty) hk1
              obtain ⟨b1, b2, b3, b4, b5, b6, b7⟩ := reactor.kmc_reaction_loop_ok sc _ _ _ _ a4
                (fun x hx => by rw [List.mem_singleton.1 hx]; exact hsp) hk
              refine ⟨fun hb => (by cases hb), rfl, b2.trans a2, b1.trans a1, t2, t1, b4,
                fun y hy1 hy2 => ?_, fun e => ?_, fun _ => ⟨?_, fun t => ?_⟩⟩
              · show s.amount y = w.quantities.amount y
                rw [b5 y (by simpa using hy2),
                  a5 y (fun hin => hy1 (List.eq_of_mem_replicate hin))]
              · rcases t4 e with h1 | ⟨_, ps, hps, hin⟩ | ⟨hneg, _⟩
                · exact Or.inl h1
                · simp only [model_reaction.get_product_seq_ptr, hseq, if_true,
                    Option.some.injEq] at hps
                  subst hps
                  exact Or.inr (List.mem_singleton.1 hin)
                · norm_num at hneg
              · rw [← a2]
                exact b6 (by simp)
              · show s.get_quantity sp t = _
                rw [b7 sp t hsp, a7 sp t hsp, a2]
                have hc : (List.replicate (sc sp) empty_site).count sp = 0 := by
                  rw [List.count_eq_zero]
                  intro hin
                  exact hne (List.eq_of_mem_replicate hin)
                simp [hc]

/-- What the loop of `kmc::initial_coverage` that places the species `sp` has
done when it returns: `p` reactions, each adding `scale` over the sites of the
reactor to the coverage of `sp`; the coverage before the last of them was below
`coverage - 0.5 / sites`, and when the loop was not left by `break` the
coverage after it is not. -/
theorem kmc.initial_coverage_while_ok (sc : Nat → Nat) (empty_site sp : Nat) (coverage : ℚ)
    (hempty : sc empty_site > 0) (hsp : sc sp > 0) (hne : sp ≠ empty_site) :
    ∀ (fuel : Nat) (w w' : simulation) (stopped : Bool), w.quantities.surface_typed sc →
      kmc.initial_coverage_while sc (kmc.initial_coverage_rxn sc empty_site sp) sp coverage
        fuel w = .ok (stopped, w') →
      w'.rates = w.rates ∧ w'.quantities.rxtor = w.quantities.rxtor ∧
      w'.quantities.prec = w.quantities.prec ∧ w'.engine.sites = w.engine.sites ∧
      w'.engine.environments = w.engine.environments ∧
      w'.quantities.surface_typed sc ∧
      (∀ y, y ≠ empty_site → y ≠ sp → w'.quantities.amount y = w.quantities.amount y) ∧
      (∀ e, (w'.memory.env e).center.type = (w.memory.env e).center.type ∨
        (w'.memory.env e).center.type = sp) ∧
      (stopped = false →
        ¬ (w'.quantities.get_quantity sp .Econcentration
          < coverage - (1 / 2) / (w.engine.sites : ℚ))) ∧
      ∃ p : Nat,
        (∀ t, w'.quantities.get_quantity sp t = w.quantities.get_quantity sp t
          + (p : ℚ) * (w.rates.scale * (1 / w.quantities.rxtor.get_sites))) ∧
        (p = 0 ∨ (w.quantities.rxtor.get_sites ≠ 0 ∧
          w'.quantities.get_quantity sp .Econcentration
            - w.rates.scale * (1 / w.quantities.rxtor.get_sites)
            < coverage - (1 / 2) / (w.engine.sites : ℚ))) := by
  intro fuel
  induction fuel with
  | zero =>
    intro w w' stopped _ h
    simp only [kmc.initial_coverage_while] at h
    cases h
  | succ fuel ih =>
    intro w w' stopped hs h
    simp only [kmc.initial_coverage_while] at h
    by_cases hc : w.quantities.get_quantity sp .Econcentration
        < coverage - (1 / 2) / (w.engine.sites : ℚ)
    · rw [if_pos hc] at h
      cases hp : kmc.perform_reaction_rxn_reactor sc w
          (kmc.initial_coverage_rxn sc empty_site sp) with
      | error e => rw [hp] at h; cases h
      | ok r =>
        obtain ⟨b, w1⟩ := r
        rw [hp] at h
        obtain ⟨p0, p1, p2, p3, p4, p5, p6, p7, p8, p9⟩ :=
          kmc.perform_reaction_rxn_reactor_placed sc w w1 empty_site sp b hs hempty hsp hne hp
        cases b with
        | false =>
          simp only [Except.ok.injEq, Prod.mk.injEq] at h
          obtain ⟨rfl, rfl⟩ := h
          exact ⟨rfl, rfl, rfl, rfl, rfl, hs, fun _ _ _ => rfl, fun _ => Or.inl rfl,
            fun hb => (by cases hb), 0, fun t => (by simp), Or.inl rfl⟩
        | true =>
          simp only at h
          obtain ⟨q1, q2, q3, q4, q5, q6, q7, q8, q9, p, q10, q11⟩ := ih w1 w' stopped p6 h
          obtain ⟨hsites, hq⟩ := p9 rfl
          refine ⟨q1.trans p1, q2.trans p2, q3.trans p3, q4.trans p4, q5.trans p5, q6,
            fun y hy1 hy2 => ?_, fun e => ?_, fun hb => ?_, p + 1, fun t => ?_, Or.inr ⟨hsites, ?_⟩⟩
          · rw [q7 y hy1 hy2, p7 y hy1 hy2]
          · rcases q8 e with h1 | h1
            · rcases p8 e with h2 | h2
              · exact Or.inl (h1.trans h2)
              · exact Or.inr (h1.trans h2)
            · exact Or.inr h1
          · rw [← p4]
            exact q9 hb
          · rw [q10 t, hq t, p1, p2]
            push_cast
            ring
          · rcases q11 with h0 | ⟨_, h1⟩
            · subst h0
              have := q10 .Econcentration
              simp only [Nat.cast_zero, zero_mul, add_zero] at this
              rw [this, hq .Econcentration]
              linarith
            · rw [p1, p2, p4] at h1
              exact h1
    · rw [if_neg hc] at h
      simp only [Except.ok.injEq, Prod.mk.injEq] at h
      obtain ⟨rfl, rfl⟩ := h
      exact ⟨rfl, rfl, rfl, rfl, rfl, hs, fun _ _ _ => rfl, fun _ => Or.inl rfl,
        fun _ => hc, 0, fun t => (by simp), Or.inl rfl⟩

/-- The frame of one species of `kmc::initial_coverage`: what the body of the
loop leaves as it was. -/
theorem kmc.initial_coverage_species_frame (sc : Nat → Nat) (fuel : Nat) (empty_site sp : Nat)
    (loc loc' : kmc.coverage_locals) (w w' : simulation)
    (hempty : sc empty_site > 0) (hs : w.quantities.surface_typed sc)
    (h : kmc.initial_coverage_species sc fuel empty_site sp loc w = .ok (loc', w')) :
    w'.rates = w.rates ∧ w'.quantities.rxtor = w.quantities.rxtor ∧
    w'.quantities.prec = w.quantities.prec ∧ w'.engine.sites = w.engine.sites ∧
    w'.engine.environments = w.engine.environments ∧
    w'.quantities.surface_typed sc ∧
    (∀ y, y ≠ empty_site → y ≠ sp → w'.quantities.amount y = w.quantities.amount y) ∧
    (∀ e, (w'.memory.env e).center.type = (w.memory.env e).center.type ∨
      ((w'.memory.env e).center.type = sp ∧ sp ≠ empty_site)) ∧
    (∀ y, y ∈ loc.stopped → y ∈ loc'.stopped) ∧
    (∀ y, y ∈ loc'.stopped → y ∈ loc.stopped ∨ y = sp) := by
  unfold kmc.initial_coverage_species at h
  by_cases h1 : sp = empty_site
  · rw [if_pos h1] at h
    cases hq : w.quantities.set_quantity sp .Econcentration 1 with
    | error e => rw [hq] at h; cases h
    | ok s =>
      rw [hq] at h
      simp only [Except.ok.injEq, Prod.mk.injEq] at h
      obtain ⟨rfl, rfl⟩ := h
      obtain ⟨a1, a2, a3, a4, a5⟩ := state.set_quantity_ok _ _ _ _ _ hq
      exact ⟨rfl, a2, a1, rfl, rfl,
        state.surface_typed_of_amount sc _ _ sp hs a4 (fun c hc => ⟨_, a5 c hc⟩),
        fun y _ hy => a4 y hy, fun _ => Or.inl rfl, fun _ hy => hy, fun _ hy => Or.inl hy⟩
  · rw [if_neg h1] at h
    by_cases h2 : sc sp > 0 ∧ w.quantities.get_quantity sp .Econcentration > 0
    · rw [if_pos h2] at h
      split_ifs at h with h3 h4
      · cases hq : w.quantities.set_quantity sp .Econcentration 0 with
        | error e => rw [hq] at h; cases h
        | ok s =>
          rw [hq] at h
          simp only at h
          cases hw : kmc.initial_coverage_while sc (kmc.initial_coverage_rxn sc empty_site sp) sp
              (w.quantities.get_quantity sp .Econcentration) fuel { w with quantities := s } with
          | error e => rw [hw] at h; cases h
          | ok r =>
            rw [hw] at h
            simp only [Except.ok.injEq, Prod.mk.injEq] at h
            obtain ⟨rfl, rfl⟩ := h
            obtain ⟨a1, a2, a3, a4, a5⟩ := state.set_quantity_ok _ _ _ _ _ hq
            have hs0 : s.surface_typed sc :=
              state.surface_typed_of_amount sc _ _ sp hs a4 (fun c hc => ⟨_, a5 c hc⟩)
            obtain ⟨b1, b2, b3, b4, b5, b6, b7, b8, _⟩ := kmc.initial_coverage_while_ok sc
              empty_site sp _ hempty h2.1 h1 fuel _ r.2 r.1 hs0 hw
            refine ⟨b1, b2.trans a2, b3.trans a1, b4, b5, b6, fun y hy1 hy2 => ?_, fun e => ?_,
              fun y hy => ?_, fun y hy => ?_⟩
            · rw [b7 y hy1 hy2]
              exact a4 y hy2
            · rcases b8 e with h5 | h5
              · exact Or.inl h5
              · exact Or.inr ⟨h5, h1⟩
            · simp only
              split_ifs
              · exact List.mem_append_left _ hy
              · exact hy
            · simp only at hy
              split_ifs at hy
              · rcases List.mem_append.1 hy with h5 | h5
                · exact Or.inl h5
                · exact Or.inr (List.mem_singleton.1 h5)
              · exact Or.inl hy
      · simp only [Except.ok.injEq, Prod.mk.injEq] at h
        obtain ⟨rfl, rfl⟩ := h
        exact ⟨rfl, rfl, rfl, rfl, rfl, hs, fun _ _ _ => rfl, fun _ => Or.inl rfl,
          fun _ hy => hy, fun _ hy => Or.inl hy⟩
    · rw [if_neg h2] at h
      simp only [Except.ok.injEq, Prod.mk.injEq] at h
      obtain ⟨rfl, rfl⟩ := h
      exact ⟨rfl, rfl, rfl, rfl, rfl, hs, fun _ _ _ => rfl, fun _ => Or.inl rfl,
        fun _ hy => hy, fun _ hy => Or.inl hy⟩

/-- The coverage of a species after `kmc::initial_coverage` has placed it, when
the loop was not left by `break`: a multiple of `1 / sites` that differs from
the coverage asked for by `0.5 / sites` at most. -/
theorem kmc.initial_coverage_species_placed (sc : Nat → Nat) (fuel : Nat) (empty_site sp : Nat)
    (loc loc' : kmc.coverage_locals) (w w' : simulation)
    (hempty : sc empty_site > 0) (hs : w.quantities.surface_typed sc)
    (hne : sp ≠ empty_site) (hsp : sc sp > 0)
    (hc : w.quantities.get_quantity sp .Econcentration > 0)
    (hsites : w.engine.sites > 0) (hscaled : w.scaled)
    (hstop : sp ∉ loc'.stopped)
    (h : kmc.initial_coverage_species sc fuel empty_site sp loc w = .ok (loc', w')) :
    |w'.quantities.get_quantity sp .Econcentration
        - w.quantities.get_quantity sp .Econcentration| ≤ (1 / 2) / (w.engine.sites : ℚ) ∧
    ∃ p : Nat, w'.quantities.get_quantity sp .Econcentration = (p : ℚ) / (w.engine.sites : ℚ) := by
  unfold kmc.initial_coverage_species at h
  rw [if_neg hne, if_pos ⟨hsp, hc⟩] at h
  by_cases h3 : kmc.initial_coverage_exceeds sc sp loc w = true
  · rw [if_pos h3] at h
    cases h
  rw [if_neg h3, if_pos hsites] at h
  cases hq : w.quantities.set_quantity sp .Econcentration 0 with
  | error e => rw [hq] at h; cases h
  | ok s =>
    rw [hq] at h
    simp only at h
    cases hw : kmc.initial_coverage_while sc (kmc.initial_coverage_rxn sc empty_site sp) sp
        (w.quantities.get_quantity sp .Econcentration) fuel { w with quantities := s } with
    | error e => rw [hw] at h; cases h
    | ok r =>
      rw [hw] at h
      simp only [Except.ok.injEq, Prod.mk.injEq] at h
      obtain ⟨rfl, rfl⟩ := h
      obtain ⟨a1, a2, a3, a4, a5⟩ := state.set_quantity_ok _ _ _ _ _ hq
      have hs0 : s.surface_typed sc :=
        state.surface_typed_of_amount sc _ _ sp hs a4 (fun c hc => ⟨_, a5 c hc⟩)
      obtain ⟨_, _, _, _, _, _, _, _, b9, p, b10, b11⟩ := kmc.initial_coverage_while_ok sc
        empty_site sp _ hempty hsp hne fuel _ r.2 r.1 hs0 hw
      have hr1 : r.1 = false := by
        cases hb : r.1 with
        | false => rfl
        | true =>
          exfalso
          apply hstop
          simp [hb]
      have hN : (0 : ℚ) < (w.engine.sites : ℚ) := by exact_mod_cast hsites
      have hq0 : s.get_quantity sp .Econcentration = 0 := by
        obtain ⟨c, hc'⟩ := hs sp hsp
        simp [state.get_quantity, a5 c hc', quantity.get_quantity]
      simp only at b9 b10 b11
      have hq' := b10 .Econcentration
      rw [hq0, zero_add] at hq'
      have hge := b9 hr1
      rw [not_lt] at hge
      have hhalf : (0 : ℚ) < (1 / 2) / (w.engine.sites : ℚ) := by positivity
      rcases b11 with h0 | ⟨hr, h1⟩
      · subst h0
        simp only [Nat.cast_zero, zero_mul] at hq'
        rw [hq'] at hge ⊢
        refine ⟨?_, 0, by simp⟩
        rw [abs_le]
        constructor <;> linarith
      · have hscale : w.rates.scale ≠ 0 := by
          intro h0
          apply hr
          rw [a2, hscaled, h0, mul_zero]
        have hdelta : w.rates.scale * (1 / s.rxtor.get_sites) = 1 / (w.engine.sites : ℚ) := by
          rw [a2, hscaled]
          field_simp [hscale, ne_of_gt hN]
          ring
        rw [hdelta] at hq' h1
        refine ⟨?_, p, by rw [hq']; ring⟩
        rw [abs_le]
        have : (1 : ℚ) / (w.engine.sites : ℚ) = 2 * ((1 / 2) / (w.engine.sites : ℚ)) := by
          field_simp
        constructor <;> linarith

/-- The frame of the loop of `kmc::initial_coverage` through the species. -/
theorem kmc.initial_coverage_loop_frame (sc : Nat → Nat) (fuel : Nat) (empty_site : Nat)
    (hempty : sc empty_site > 0) :
    ∀ (l : List Nat) (loc loc' : kmc.coverage_locals) (w w' : simulation),
      w.quantities.surface_typed sc →
      kmc.initial_coverage_loop sc fuel empty_site l loc w = .ok (loc', w') →
      w'.rates = w.rates ∧ w'.quantities.rxtor = w.quantities.rxtor ∧
      w'.quantities.prec = w.quantities.prec ∧ w'.engine.sites = w.engine.sites ∧
      w'.engine.environments = w.engine.environments ∧
      w'.quantities.surface_typed sc ∧
      (∀ y, y ≠ empty_site → y ∉ l → w'.quantities.amount y = w.quantities.amount y) ∧
      (∀ e, (w'.memory.env e).center.type = (w.memory.env e).center.type ∨
        ((w'.memory.env e).center.type ∈ l ∧ (w'.memory.env e).center.type ≠ empty_site)) ∧
      (∀ y, y ∈ loc.stopped → y ∈ loc'.stopped) ∧
      (∀ y, y ∈ loc'.stopped → y ∈ loc.stopped ∨ y ∈ l) := by
  intro l
  induction l with
  | nil =>
    intro loc loc' w w' hs h
    simp only [kmc.initial_coverage_loop, Except.ok.injEq, Prod.mk.injEq] at h
    obtain ⟨rfl, rfl⟩ := h
    exact ⟨rfl, rfl, rfl, rfl, rfl, hs, fun _ _ _ => rfl, fun _ => Or.inl rfl, fun _ hy => hy,
      fun _ hy => Or.inl hy⟩
  | cons sp rest ih =>
    intro loc loc' w w' hs h
    simp only [kmc.initial_coverage_loop] at h
    cases h1 : kmc.initial_coverage_species sc fuel empty_site sp loc w with
    | error e => rw [h1] at h; cases h
    | ok r =>
      rw [h1] at h
      simp only at h
      obtain ⟨a1, a2, a3, a4, a5, a6, a7, a8, a9, a10⟩ :=
        kmc.initial_coverage_species_frame sc fuel empty_site sp loc r.1 w r.2 hempty hs h1
      obtain ⟨b1, b2, b3, b4, b5, b6, b7, b8, b9, b10⟩ := ih r.1 loc' r.2 w' a6 h
      refine ⟨b1.trans a1, b2.trans a2, b3.trans a3, b4.trans a4, b5.trans a5, b6,
        fun y hy1 hy2 => ?_, fun e => ?_, fun y hy => b9 y (a9 y hy), fun y hy => ?_⟩
      · rw [b7 y hy1 (fun hin => hy2 (List.mem_cons_of_mem _ hin)),
          a7 y hy1 (fun heq => hy2 (heq ▸ List.mem_cons_self _ _))]
      · rcases b8 e with h2 | ⟨h2, h3⟩
        · rcases a8 e with h4 | ⟨h4, h5⟩
          · exact Or.inl (h2.trans h4)
          · refine Or.inr ⟨?_, ?_⟩
            · rw [h2, h4]
              exact List.mem_cons_self _ _
            · rw [h2, h4]
              exact h5
        · exact Or.inr ⟨List.mem_cons_of_mem _ h2, h3⟩
      · rcases b10 y hy with h2 | h2
        · rcases a10 y h2 with h3 | h3
          · exact Or.inl h3
          · exact Or.inr (h3 ▸ List.mem_cons_self _ _)
        · exact Or.inr (List.mem_cons_of_mem _ h2)

/-- The coverage of every species that the loop of `kmc::initial_coverage` has
placed without leaving its loop by `break`. -/
theorem kmc.initial_coverage_loop_placed (sc : Nat → Nat) (fuel : Nat) (empty_site : Nat)
    (hempty : sc empty_site > 0) :
    ∀ (l : List Nat) (loc loc' : kmc.coverage_locals) (w w' : simulation),
      l.Nodup → w.quantities.surface_typed sc → w.engine.sites > 0 → w.scaled →
      kmc.initial_coverage_loop sc fuel empty_site l loc w = .ok (loc', w') →
      ∀ x ∈ l, x ≠ empty_site → sc x > 0 → w.quantities.get_quantity x .Econcentration > 0 →
        x ∉ loc'.stopped →
        |w'.quantities.get_quantity x .Econcentration
            - w.quantities.get_quantity x .Econcentration| ≤ (1 / 2) / (w.engine.sites : ℚ) ∧
        ∃ p : Nat,
          w'.quantities.get_quantity x .Econcentration = (p : ℚ) / (w.engine.sites : ℚ) := by
  intro l
  induction l with
  | nil => intro _ _ _ _ _ _ _ _ _ x hx; cases hx
  | cons sp rest ih =>
    intro loc loc' w w' hnd hs hsites hscaled h x hx hxe hxs hxc hstop
    rw [List.nodup_cons] at hnd
    simp only [kmc.initial_coverage_loop] at h
    cases h1 : kmc.initial_coverage_species sc fuel empty_site sp loc w with
    | error e => rw [h1] at h; cases h
    | ok r =>
      rw [h1] at h
      simp only at h
      obtain ⟨a1, a2, a3, a4, a5, a6, a7, a8, a9, a10⟩ :=
        kmc.initial_coverage_species_frame sc fuel empty_site sp loc r.1 w r.2 hempty hs h1
      obtain ⟨b1, b2, b3, b4, b5, b6, b7, b8, b9, b10⟩ :=
        kmc.initial_coverage_loop_frame sc fuel empty_site hempty rest r.1 loc' r.2 w' a6 h
      have hscaled1 : r.2.scaled := by
        unfold simulation.scaled at hscaled ⊢
        rw [a1, a2, a4]
        exact hscaled
      rcases List.mem_cons.1 hx with rfl | hx
      · -- the species of this iteration
        have hp := kmc.initial_coverage_species_placed sc fuel empty_site x loc r.1 w r.2 hempty
          hs hxe hxs hxc hsites hscaled (fun hin => hstop (b9 x hin)) h1
        have hsame : w'.quantities.get_quantity x .Econcentration
            = r.2.quantities.get_quantity x .Econcentration := by
          simp only [state.get_quantity, b7 x hxe hnd.1]
        rw [hsame]
        exact hp
      · have hne : x ≠ sp := fun heq => hnd.1 (heq ▸ hx)
        have hsame : r.2.quantities.get_quantity x .Econcentration
            = w.quantities.get_quantity x .Econcentration := by
          simp only [state.get_quantity, a7 x hxe hne]
        have := ih r.1 loc' r.2 w' hnd.2 a6 (by rw [a4]; exact hsites) hscaled1 h x hx hxe hxs
          (by rw [hsame]; exact hxc) hstop
        rw [hsame, a4] at this
        exact this

/-- What `total_coverage` holds after one species of `kmc::initial_coverage`. -/
theorem kmc.initial_coverage_species_total (sc : Nat → Nat) (fuel : Nat) (empty_site sp : Nat)
    (loc loc' : kmc.coverage_locals) (w w' : simulation)
    (h : kmc.initial_coverage_species sc fuel empty_site sp loc w = .ok (loc', w')) :
    loc'.total_coverage = loc.total_coverage +
      (if sp ≠ empty_site ∧ sc sp > 0 ∧ w.quantities.get_quantity sp .Econcentration > 0 then
        w'.quantities.get_quantity sp .Econcentration * (sc sp : ℚ)
      else 0) := by
  unfold kmc.initial_coverage_species at h
  by_cases h1 : sp = empty_site
  · rw [if_pos h1] at h
    cases hq : w.quantities.set_quantity sp .Econcentration 1 with
    | error e => rw [hq] at h; cases h
    | ok s =>
      rw [hq] at h
      simp only [Except.ok.injEq, Prod.mk.injEq] at h
      obtain ⟨rfl, rfl⟩ := h
      rw [if_neg (fun hc => hc.1 h1)]
      simp
  · rw [if_neg h1] at h
    by_cases h2 : sc sp > 0 ∧ w.quantities.get_quantity sp .Econcentration > 0
    · rw [if_pos h2] at h
      rw [if_pos ⟨h1, h2⟩]
      by_cases h3 : kmc.initial_coverage_exceeds sc sp loc w = true
      · rw [if_pos h3] at h
        cases h
      rw [if_neg h3] at h
      by_cases h4 : w.engine.sites > 0
      · rw [if_pos h4] at h
        cases hq : w.quantities.set_quantity sp .Econcentration 0 with
        | error e => rw [hq] at h; cases h
        | ok s =>
          rw [hq] at h
          simp only at h
          cases hw : kmc.initial_coverage_while sc (kmc.initial_coverage_rxn sc empty_site sp) sp
              (w.quantities.get_quantity sp .Econcentration) fuel { w with quantities := s } with
          | error e => rw [hw] at h; cases h
          | ok r =>
            rw [hw] at h
            simp only [Except.ok.injEq, Prod.mk.injEq] at h
            obtain ⟨rfl, rfl⟩ := h
            rfl
      · rw [if_neg h4] at h
        simp only [Except.ok.injEq, Prod.mk.injEq] at h
        obtain ⟨rfl, rfl⟩ := h
        rfl
    · rw [if_neg h2] at h
      simp only [Except.ok.injEq, Prod.mk.injEq] at h
      obtain ⟨rfl, rfl⟩ := h
      rw [if_neg (fun hc => h2 hc.2)]
      simp

/-- What `total_coverage` holds after the loop of `kmc::initial_coverage`
through the species `l`: the coverage placed for the species of `l` is
added. -/
theorem kmc.initial_coverage_loop_total (sc : Nat → Nat) (fuel : Nat) (empty_site : Nat)
    (hempty : sc empty_site > 0) :
    ∀ (l : List Nat) (loc loc' : kmc.coverage_locals) (w w' : simulation),
      l.Nodup → w.quantities.surface_typed sc →
      kmc.initial_coverage_loop sc fuel empty_site l loc w = .ok (loc', w') →
      loc'.total_coverage
        = loc.total_coverage + kmc.placed_coverage sc empty_site l w w' := by
  intro l
  induction l with
  | nil =>
    intro loc loc' w w' _ _ h
    simp only [kmc.initial_coverage_loop, Except.ok.injEq, Prod.mk.injEq] at h
    obtain ⟨rfl, rfl⟩ := h
    simp [kmc.placed_coverage]
  | cons sp rest ih =>
    intro loc loc' w w' hnd hs h
    rw [List.nodup_cons] at hnd
    simp only [kmc.initial_coverage_loop] at h
    cases h1 : kmc.initial_coverage_species sc fuel empty_site sp loc w with
    | error e => rw [h1] at h; cases h
    | ok r =>
      rw [h1] at h
      simp only at h
      obtain ⟨a1, a2, a3, a4, a5, a6, a7, a8, a9, a10⟩ :=
        kmc.initial_coverage_species_frame sc fuel empty_site sp loc r.1 w r.2 hempty hs h1
      obtain ⟨b1, b2, b3, b4, b5, b6, b7, b8, b9, b10⟩ :=
        kmc.initial_coverage_loop_frame sc fuel empty_site hempty rest r.1 loc' r.2 w' a6 h
      have ht := kmc.initial_coverage_species_total sc fuel empty_site sp loc r.1 w r.2 h1
      have hr := ih r.1 loc' r.2 w' hnd.2 a6 h
      rw [hr, ht]
      have hrest : kmc.placed_coverage sc empty_site rest r.2 w'
          = kmc.placed_coverage sc empty_site rest w w' := by
        unfold kmc.placed_coverage
        congr 1
        apply List.map_congr_left
        intro y hy
        have hne : y ≠ sp := fun heq => hnd.1 (heq ▸ hy)
        by_cases hye : y = empty_site
        · rw [if_neg (fun hc => hc.1 hye), if_neg (fun hc => hc.1 hye)]
        · have : r.2.quantities.get_quantity y .Econcentration
              = w.quantities.get_quantity y .Econcentration := by
            simp only [state.get_quantity, a7 y hye hne]
          rw [this]
      have hhead : (if sp ≠ empty_site ∧ sc sp > 0
            ∧ w.quantities.get_quantity sp .Econcentration > 0 then
            r.2.quantities.get_quantity sp .Econcentration * (sc sp : ℚ) else 0)
          = (if sp ≠ empty_site ∧ sc sp > 0
            ∧ w.quantities.get_quantity sp .Econcentration > 0 then
            w'.quantities.get_quantity sp .Econcentration * (sc sp : ℚ) else 0) := by
        by_cases hc : sp ≠ empty_site ∧ sc sp > 0
            ∧ w.quantities.get_quantity sp .Econcentration > 0
        · rw [if_pos hc, if_pos hc]
          have : w'.quantities.get_quantity sp .Econcentration
              = r.2.quantities.get_quantity sp .Econcentration := by
            simp only [state.get_quantity, b7 sp hc.1 hnd.1]
          rw [this]
        · rw [if_neg hc, if_neg hc]
      rw [hrest, hhead]
      simp only [kmc.placed_coverage, List.map_cons, List.sum_cons]
      ring

/-- The loop of `kmc::initial_coverage` through a list of species that is the
concatenation of two lists. -/
theorem kmc.initial_coverage_loop_append (sc : Nat → Nat) (fuel : Nat) (empty_site : Nat)
    (l2 : List Nat) :
    ∀ (l1 : List Nat) (loc : kmc.coverage_locals) (w : simulation),
      kmc.initial_coverage_loop sc fuel empty_site (l1 ++ l2) loc w
        = match kmc.initial_coverage_loop sc fuel empty_site l1 loc w with
          | .error e => .error e
          | .ok r => kmc.initial_coverage_loop sc fuel empty_site l2 r.1 r.2 := by
  intro l1
  induction l1 with
  | nil => intro loc w; rfl
  | cons sp rest ih =>
    intro loc w
    simp only [List.cons_append, kmc.initial_coverage_loop]
    cases h1 : kmc.initial_coverage_species sc fuel empty_site sp loc w with
    | error e => rfl
    | ok r => exact ih r.1 r.2

/-- The `throw` of `kmc::initial_coverage` is reached after the species of a
list `l1` when the loop through `l1` returns and the test of the next species
holds. -/
theorem kmc.initial_coverage_throw_append (sc : Nat → Nat) (fuel : Nat) (empty_site : Nat)
    (sp : Nat) (rest : List Nat) (loc1 : kmc.coverage_locals) (w1 : simulation)
    (hne : sp ≠ empty_site) (hsc : sc sp > 0)
    (hc : w1.quantities.get_quantity sp .Econcentration > 0)
    (hex : kmc.initial_coverage_exceeds sc sp loc1 w1 = true) :
    ∀ (l1 : List Nat) (loc : kmc.coverage_locals) (w : simulation),
      kmc.initial_coverage_loop sc fuel empty_site l1 loc w = .ok (loc1, w1) →
      kmc.initial_coverage_throw sc fuel empty_site (l1 ++ sp :: rest) loc w
        = some (sp, rest, loc1, w1) := by
  intro l1
  induction l1 with
  | nil =>
    intro loc w h
    simp only [kmc.initial_coverage_loop, Except.ok.injEq, Prod.mk.injEq] at h
    obtain ⟨rfl, rfl⟩ := h
    simp only [List.nil_append, kmc.initial_coverage_throw]
    rw [if_pos ⟨hne, hsc, hc, hex⟩]
  | cons y l1 ih =>
    intro loc w h
    simp only [kmc.initial_coverage_loop] at h
    cases h1 : kmc.initial_coverage_species sc fuel empty_site y loc w with
    | error e => rw [h1] at h; cases h
    | ok r =>
      rw [h1] at h
      simp only at h
      simp only [List.cons_append, kmc.initial_coverage_throw]
      have hno : ¬ (y ≠ empty_site ∧ sc y > 0 ∧ w.quantities.get_quantity y .Econcentration > 0 ∧
          kmc.initial_coverage_exceeds sc y loc w = true) := by
        rintro ⟨c1, c2, c3, c4⟩
        unfold kmc.initial_coverage_species at h1
        rw [if_neg c1, if_pos ⟨c2, c3⟩, if_pos c4] at h1
        cases h1
      rw [if_neg hno, h1]
      exact ih r.1 r.2 h

/-- The body of the loop of `kmc::initial_coverage` throws `bad_input` when the
test of the species holds. -/
theorem kmc.initial_coverage_species_raises (sc : Nat → Nat) (fuel : Nat) (empty_site sp : Nat)
    (loc : kmc.coverage_locals) (w : simulation)
    (hne : sp ≠ empty_site) (hsc : sc sp > 0)
    (hc : w.quantities.get_quantity sp .Econcentration > 0)
    (hex : kmc.initial_coverage_exceeds sc sp loc w = true) :
    kmc.initial_coverage_species sc fuel empty_site sp loc w
      = .error .bad_input_total_coverage := by
  unfold kmc.initial_coverage_species
  rw [if_neg hne, if_pos ⟨hsc, hc⟩, if_pos hex]

/-- The result of `kmc::initial_coverage` when it returns: the loop through the
species has returned, and the quantity of the empty site was set last. -/
theorem kmc.initial_coverage_ok (sc : Nat → Nat) (fuel : Nat) (mech : model_mechanism)
    (empty_site : Nat) (w w' : simulation) (stopped : List Nat)
    (h : kmc.initial_coverage sc fuel mech (some empty_site) w = .ok (stopped, w')) :
    ∃ loc1 w1,
      kmc.initial_coverage_loop sc fuel empty_site mech.speciess ⟨0, 0, []⟩ w = .ok (loc1, w1) ∧
      stopped = loc1.stopped ∧ w'.engine = w1.engine ∧ w'.memory = w1.memory ∧
      w'.rates = w1.rates ∧
      ∀ y, y ≠ empty_site → w'.quantities.amount y = w1.quantities.amount y := by
  unfold kmc.initial_coverage at h
  simp only at h
  cases h1 : kmc.initial_coverage_loop sc fuel empty_site mech.speciess ⟨0, 0, []⟩ w with
  | error e => rw [h1] at h; cases h
  | ok r =>
    rw [h1] at h
    simp only at h
    split_ifs at h
    cases hq : r.2.quantities.set_quantity empty_site .Econcentration
        (1 - r.1.total_coverage) with
    | error e => rw [hq] at h; cases h
    | ok s =>
      rw [hq] at h
      simp only [Except.ok.injEq, Prod.mk.injEq] at h
      obtain ⟨rfl, rfl⟩ := h
      obtain ⟨a1, a2, a3, a4, a5⟩ := state.set_quantity_ok _ _ _ _ _ hq
      exact ⟨r.1, r.2, rfl, rfl, rfl, rfl, rfl, fun y hy => a4 y hy⟩

theorem example_initial_coverage_eq :
    kmc.initial_coverage example_sc 20 example_mech (some 1) example_simulation_request
      = .ok ([], example_simulation_covered) := by
  with_unfolding_all rfl

theorem example_state_request_typed : example_state_request.surface_typed example_sc := by
  intro sp hsp
  by_cases h2 : sp = 2
  · exact ⟨1 / 9, by simp [example_state_request, h2]⟩
  · exact ⟨0, by simp [example_state_request, h2, hsp]⟩

theorem example_initial_coverage_overfull_eq :
    kmc.initial_coverage example_sc_single 20 example_mech_single (some 1)
      (example_simulation_requests (31 / 50) (31 / 50))
      = .ok ([], example_simulation_overfull) := by
  with_unfolding_all rfl

theorem example_state_requests_typed (a b : ℚ) :
    (example_state_requests a b).surface_typed example_sc_single := by
  intro sp hsp
  by_cases h2 : sp = 2
  · exact ⟨a, by simp [example_state_requests, h2]⟩
  · by_cases h3 : sp = 3
    · exact ⟨b, by simp [example_state_requests, h3]⟩
    · exact ⟨0, by simp [example_state_requests, h2, h3, hsp]⟩

theorem example_coverage_throw_eq :
    kmc.initial_coverage_loop example_sc_single 20 1 [1, 2] ⟨0, 0, []⟩
      (example_simulation_requests (31 / 50) (7 / 10)) = .ok example_coverage_throw := by
  with_unfolding_all rfl

theorem example_simulation_request_scaled : example_simulation_request.scaled := by
  unfold simulation.scaled
  with_unfolding_all rfl

/-! ## Lemmas on the molecules of the lattice -/

theorem list_all_congr_on {α : Type} (f g : α → Bool) :
    ∀ (l : List α), (∀ x ∈ l, f x = g x) → l.all f = l.all g
  | [], _ => rfl
  | x :: rest, h => by
    simp only [List.all_cons]
    rw [h x (List.mem_cons_self _ _),
      list_all_congr_on f g rest (fun m hm => h m (List.mem_cons_of_mem _ hm))]

theorem list_any_congr_on {α : Type} (f g : α → Bool) :
    ∀ (l : List α), (∀ x ∈ l, f x = g x) → l.any f = l.any g
  | [], _ => rfl
  | x :: rest, h => by
    simp only [List.any_cons]
    rw [h x (List.mem_cons_self _ _),
      list_any_congr_on f g rest (fun m hm => h m (List.mem_cons_of_mem _ hm))]

theorem environment.site_contained_congr_on (a b : store) (site : List Nat)
    (h : ∀ m ∈ site, (a.env m).multisite = (b.env m).multisite) :
    environment.site_contained a site = environment.site_contained b site := by
  unfold environment.site_contained
  apply list_all_congr_on
  intro m hm
  rw [h m hm]

theorem environment.site_occupants_congr_on (a b : store) (site : List Nat)
    (h : ∀ m ∈ site, (a.env m).center.type = (b.env m).center.type) :
    environment.site_occupants a site = environment.site_occupants b site := by
  unfold environment.site_occupants
  exact List.map_congr_left h

theorem environment.site_multisite_congr_on (a b : store) (site : List Nat)
    (h : ∀ m ∈ site, (a.env m).multisite = (b.env m).multisite) :
    environment.site_multisite a site = environment.site_multisite b site := by
  unfold environment.site_multisite
  apply list_any_congr_on
  intro m hm
  rw [h m hm]

theorem environment.site_species_congr_on (sc : Nat → Nat) (a b : store) (site : List Nat)
    (h1 : ∀ m ∈ site, (a.env m).center.type = (b.env m).center.type)
    (h2 : ∀ m ∈ site, (a.env m).multisite = (b.env m).multisite) :
    environment.site_species sc a site = environment.site_species sc b site := by
  simp only [environment.site_species, environment.site_multisite_congr_on a b site h2,
    environment.site_occupants_congr_on a b site h1]

/-- The instances that `environment::create_ensembles` registers: each is in
the list `ensembles`, its site-group is a site-group of the environment that
holds the multisite partners of its members, and its object is the ensemble of
the species on the site-group. -/
theorem environment.create_ensembles_current (sc : Nat → Nat) (st st' : store) (this : Nat)
    (h : environment.create_ensembles sc st this = .ok st') (p : Nat) (g : List Nat)
    (hpg : (p, g) ∈ (st'.env this).ensemble_env) :
    p ∈ (st'.env this).ensembles ∧ st.next ≤ p ∧ g ∈ (st.env this).sites ∧
    environment.site_contained st g = true ∧
    ∃ seq, environment.site_species sc st g = .ok seq ∧
      st'.ens p = some (ensemble.ctor sc seq) := by
  obtain ⟨heq, hsp⟩ := environment.create_ensembles_yields sc st st' this h
  have henv : (st'.env this).ensemble_env
      = List.zip (List.range' st.next
          ((st.env this).sites.filter (environment.site_yields st this)).length)
        ((st.env this).sites.filter (environment.site_yields st this)) := by
    rw [heq, environment.insert_all_ensemble_env]
    · simp [store.cleared]
    · intro kv hkv
      simp [store.cleared] at hkv
  have hens : (st'.env this).ensembles
      = List.range' st.next
          ((st.env this).sites.filter (environment.site_yields st this)).length := by
    rw [heq, environment.insert_all_ensembles]
    simp [store.cleared]
  rw [henv] at hpg
  obtain ⟨i, hp, hgi⟩ := mem_zip_range' _ _ p g hpg
  have hg := List.getElem?_mem hgi
  have hi : i < ((st.env this).sites.filter (environment.site_yields st this)).length := by
    by_contra hc
    rw [List.getElem?_eq_none (by omega)] at hgi
    cases hgi
  obtain ⟨hgs, hy⟩ := List.mem_filter.1 hg
  simp only [environment.site_yields, environment.site_used, Bool.and_eq_true] at hy
  refine ⟨?_, by omega, hgs, hy.1.2, environment.site_species_get sc st g, hsp g hg, ?_⟩
  · rw [hens, hp, List.mem_range']
    exact ⟨i, hi, by omega⟩
  · rw [heq, hp]
    exact environment.insert_all_ens_new sc this _ _ (st.cleared this) i g hgi

/-- The instances of the environments of the list after
`environment::create_ensembles` has run at each of them. -/
theorem environment.recreate_ensembles_current (sc : Nat → Nat) :
    ∀ (l : List Nat) (st st' : store), l.Nodup →
      environment.recreate_ensembles sc l st = .ok st' →
      ∀ e ∈ l, ∀ p g, (p, g) ∈ (st'.env e).ensemble_env →
        p ∈ (st'.env e).ensembles ∧ st.next ≤ p ∧ g ∈ (st.env e).sites ∧
        environment.site_contained st g = true ∧
        ∃ seq, environment.site_species sc st g = .ok seq ∧
          st'.ens p = some (ensemble.ctor sc seq) := by
  intro l
  induction l with
  | nil => intro _ _ _ _ e he; cases he
  | cons it rest ih =>
    intro st st' hnd h e he p g hpg
    rw [List.nodup_cons] at hnd
    simp only [environment.recreate_ensembles] at h
    cases h1 : environment.create_ensembles sc st it with
    | error x => rw [h1] at h; cases h
    | ok st1 =>
      rw [h1] at h
      simp only at h
      have hr1 := environment.create_ensembles_recreated sc st st1 it h1
      have hr2 := environment.recreate_ensembles_recreated sc rest st1 st' hnd.2 h
      obtain ⟨q1, q2, q3, q4, q5, q6, q7, q8⟩ := hr1
      obtain ⟨r1, r2, r3, r4, r5, r6, r7, r8⟩ := hr2
      by_cases hit : e = it
      · subst hit
        rw [r3 e hnd.1] at hpg ⊢
        obtain ⟨c1, c2, c3, c4, seq, c5, c6⟩ :=
          environment.create_ensembles_current sc st st1 e h1 p g hpg
        refine ⟨c1, c2, c3, c4, seq, c5, ?_⟩
        rw [r2 p ((q7 e (List.mem_singleton_self _)).2 p c1).2.1]
        exact c6
      · have he' : e ∈ rest := by
          rcases List.mem_cons.1 he with h0 | h0
          · exact absurd h0 hit
          · exact h0
        obtain ⟨c1, c2, c3, c4, seq, c5, c6⟩ := ih st1 st' hnd.2 h e he' p g hpg
        refine ⟨c1, by omega, ?_, ?_, seq, ?_, c6⟩
        · rw [← (q6 e).2.2.1]; exact c3
        · rw [environment.site_contained_congr q4]; exact c4
        · rw [environment.site_species_congr sc q4]; exact c5

theorem list_filter_bne_length (m : Nat) :
    ∀ (g : List Nat), g.Nodup → m ∈ g → (g.filter (fun it => it != m)).length + 1 = g.length
  | [], _, h => by cases h
  | x :: rest, hnd, h => by
    rw [List.nodup_cons] at hnd
    by_cases hx : x = m
    · subst hx
      have hf : (x :: rest).filter (fun it => it != x) = rest := by
        rw [List.filter_cons_of_neg (by simp)]
        apply List.filter_eq_self.2
        intro a ha
        have : a ≠ x := fun hax => hnd.1 (hax ▸ ha)
        simpa using this
      rw [hf]
      rfl
    · have hm : m ∈ rest := by
        rcases List.mem_cons.1 h with h0 | h0
        · exact absurd h0.symm hx
        · exact h0
      rw [List.filter_cons_of_pos (by simpa using hx)]
      simp only [List.length_cons]
      rw [list_filter_bne_length m rest hnd.2 hm]

/-- The groups of a placement: every group belongs to a species of the
sequence, has as many environments as the coordination of the species, in
ascending order, and its environments hold the species and list one another. -/
theorem environment.assigned_groups (sc : Nat → Nat) (env0 env : Nat → environment) :
    ∀ (sp : List Nat) (gs : List (List Nat)),
      List.Forall₂ (fun s g => g.Pairwise (· < ·) ∧ g.length = sc s ∧
        environment.connected_group env0 g) sp gs →
      environment.assigned env sp gs →
      ∀ g ∈ gs, ∃ s ∈ sp, g.Pairwise (· < ·) ∧ g.length = sc s ∧
        ∀ e ∈ g, (env e).center.type = s ∧ (env e).multisite = g.filter (fun it => it != e)
  | [], [], _, _ => fun g hg => by cases hg
  | s :: rest, g0 :: gs, hf, ha => by
    intro g hg
    rw [List.forall₂_cons] at hf
    simp only [environment.assigned] at ha
    rcases List.mem_cons.1 hg with h0 | h0
    · subst h0
      exact ⟨s, List.mem_cons_self _ _, hf.1.1, hf.1.2.1, ha.1⟩
    · obtain ⟨s', hs', h1⟩ := environment.assigned_groups sc env0 env rest gs hf.2 ha.2 g h0
      exact ⟨s', List.mem_cons_of_mem _ hs', h1⟩
  | [], _ :: _, hf, _ => by cases hf
  | _ :: _, [], hf, _ => by cases hf

/-- A placement of species on a pool that holds the multisite partners of its
environments keeps the molecules of the lattice whole; an environment whose
species has changed is in the pool and holds a species of the sequence, which
has a surface coordination. -/
theorem environment.place_species_molecules (sc : Nat → Nat) (sp : List Nat) (st : store)
    (envs : List Nat) (b : Bool) (stp : store)
    (hsym : ∀ a ∈ envs, ∀ c ∈ envs, c ∈ (st.env a).neighbors → a ∈ (st.env c).neighbors)
    (hmol : st.molecules sc)
    (hclosed : ∀ m ∈ envs, ∀ q ∈ (st.env m).multisite, q ∈ envs)
    (h : environment.place_species sc sp st envs = .ok (b, stp)) :
    stp.molecules sc ∧
    ∀ m, ((stp.env m).center.type = (st.env m).center.type ∧
        (stp.env m).multisite = (st.env m).multisite) ∨
      (b = true ∧ m ∈ envs ∧ (stp.env m).center.type ∈ sp ∧
        1 ≤ sc (stp.env m).center.type) := by
  obtain ⟨hframe, hout, hfalse⟩ := environment.place_species_frame sc sp st envs b stp h
  cases b with
  | false =>
    have henv := hfalse rfl
    refine ⟨?_, fun m => Or.inl ⟨by rw [henv], by rw [henv]⟩⟩
    intro m
    rw [henv]
    exact hmol m
  | true =>
    obtain ⟨gs, hpart, hass⟩ := environment.place_species_sound sc sp st envs stp hsym h
    obtain ⟨hf, _, hmem⟩ := hpart
    have hgroups := environment.assigned_groups sc st.env stp.env sp gs hf hass
    have hin : ∀ m ∈ envs, ∃ g ∈ gs, m ∈ g ∧ ∃ s ∈ sp, g.Pairwise (· < ·) ∧ g.length = sc s ∧
        ∀ e ∈ g, (stp.env e).center.type = s ∧
          (stp.env e).multisite = g.filter (fun it => it != e) := by
      intro m hm
      obtain ⟨g, hg, hmg⟩ := (hmem m).1 hm
      exact ⟨g, hg, hmg, hgroups g hg⟩
    refine ⟨?_, ?_⟩
    · intro m
      by_cases hm : m ∈ envs
      · obtain ⟨g, hg, hmg, s, hs, hsorted, hlen, hall⟩ := hin m hm
        have hnd : g.Nodup := pairwise_lt_nodup g hsorted
        rw [(hall m hmg).2, (hall m hmg).1]
        refine ⟨hnd.filter _, by simp, ?_, ?_⟩
        · intro p hp
          obtain ⟨hpg, hpm⟩ := List.mem_filter.1 hp
          rw [(hall p hpg).1, (hall p hpg).2]
          refine ⟨rfl, List.mem_filter.2 ⟨hmg, ?_⟩⟩
          have : p ≠ m := by simpa using hpm
          simpa using this.symm
        · intro _
          rw [list_filter_bne_length m g hnd hmg, hlen]
      · rw [hout m hm]
        obtain ⟨m1, m2, m3, m4⟩ := hmol m
        refine ⟨m1, m2, ?_, m4⟩
        intro p hp
        have hpo : p ∉ envs := by
          intro hpe
          exact hm (hclosed p hpe m (m3 p hp).2)
        rw [hout p hpo]
        exact m3 p hp
    · intro m
      by_cases hm : m ∈ envs
      · obtain ⟨g, hg, hmg, s, hs, hsorted, hlen, hall⟩ := hin m hm
        refine Or.inr ⟨rfl, hm, ?_, ?_⟩
        · rw [(hall m hmg).1]; exact hs
        · rw [(hall m hmg).1, ← hlen]
          exact List.length_pos_of_mem hmg
      · exact Or.inl ⟨by rw [hout m hm], by rw [hout m hm]⟩

theorem store.molecules_of_same_surface (sc : Nat → Nat) (a b : store)
    (h : a.same_surface b) (hmol : a.molecules sc) : b.molecules sc := by
  intro m
  have hs := h.2.2.2.2
  rw [← (hs m).1, ← (hs m).2]
  obtain ⟨m1, m2, m3, m4⟩ := hmol m
  refine ⟨m1, m2, fun p hp => ?_, m4⟩
  rw [← (hs p).1, ← (hs p).2]
  exact m3 p hp

theorem environment.site_contained_closed (st : store) (g : List Nat)
    (h : environment.site_contained st g = true) :
    ∀ m ∈ g, ∀ q ∈ (st.env m).multisite, q ∈ g := by
  intro m hm q hq
  simp only [environment.site_contained, List.all_eq_true, decide_eq_true_eq] at h
  exact h m hm q hq

/-- What `environment::change_ensemble` keeps: the molecules of the lattice
are whole, the members of the site-groups hold species of the surface, the
registered instances describe the lattice as it is after the call, and no
instance registered after the call is in `remove`. -/
theorem environment.change_ensemble_molecules (sc : Nat → Nat) (envs : List Nat)
    (st st' : store) (this old : Nat) (products remove changed : List Nat)
    (huniq : st.ensembles_unique) (hnext : ∀ e, ∀ p ∈ (st.env e).ensembles, p < st.next)
    (hsym : ∀ a x, x ∈ (st.env a).neighbors → a ∈ (st.env x).neighbors)
    (hconn : st.sites_connected)
    (hmol : st.molecules sc) (hcur : st.instances_current sc)
    (hsurf : st.sites_surface sc envs)
    (h : environment.change_ensemble sc st this old products [] [] = .ok (st', remove, changed)) :
    st'.molecules sc ∧ st'.sites_surface sc envs ∧ st'.instances_current sc ∧
    (∀ e, ∀ p ∈ (st'.env e).ensembles, p ∉ remove) ∧
    (∀ e, (st'.env e).sites = (st.env e).sites ∧
      (st'.env e).neighbors = (st.env e).neighbors ∧
      (st'.env e).initialized = (st.env e).initialized) := by
  obtain ⟨_, members, obj, g, placed, hfind, hobj, hcoord, hrand, hplace, hrec, hch, hrem⟩ :=
    environment.change_ensemble_ok sc st st' this old products [] [] remove changed h
  obtain ⟨b, stp⟩ := placed
  simp only at hrec
  have hmem : (old, members) ∈ (st.env this).ensemble_env :=
    (map_find_ptr_key _ old (old, members) hfind).2
  have hclosed := environment.site_contained_closed st members (hcur this old members hmem).2.1
  obtain ⟨hmolp, htypes⟩ := environment.place_species_molecules sc _
    (st.with_random (random_shuffle (ensemble.ctor sc products).sorted_species g).2) members
    b stp (fun a _ c _ hc => hsym a c hc) hmol hclosed hplace
  obtain ⟨hframe, hout, _⟩ := environment.place_species_frame sc _ _ members b stp hplace
  obtain ⟨f1, f2, f3, f4, f5, f6, f7, f8⟩ := hframe
  have hnd : changed.Nodup := by
    rw [hch]
    exact pairwise_lt_nodup _
      (environment.collect_changed_sorted st this members [] List.Pairwise.nil)
  obtain ⟨r1, r2, r3, r4, r5, r6, r7, r8⟩ :=
    environment.recreate_ensembles_recreated sc changed stp st' hnd hrec
  have hsites : ∀ e, (st'.env e).sites = (st.env e).sites := by
    intro e
    rw [(r6 e).2.2.1, (f8 e).2.2.1]
    rfl
  have hstatic : ∀ e, (st'.env e).sites = (st.env e).sites ∧
      (st'.env e).neighbors = (st.env e).neighbors ∧
      (st'.env e).initialized = (st.env e).initialized := by
    intro e
    refine ⟨hsites e, ?_, ?_⟩
    · rw [(r6 e).1, (f8 e).1]
      rfl
    · rw [(r6 e).2.2.2, (f8 e).2.2.2.2.2.1]
      rfl
  have hrem' : remove = changed.flatMap (fun e => (st.env e).ensembles) := by
    rw [hrem, environment.collect_remove_eq]
    rfl
  have hold : ∀ p ∈ remove, p < st.next := by
    intro p hp
    rw [hrem', List.mem_flatMap] at hp
    obtain ⟨e, _, hpe⟩ := hp
    exact hnext e p hpe
  have hnextp : stp.next = st.next := f2
  -- the members of a site-group of an environment outside `changed` are not in the pool
  have hfar : ∀ e, e ∉ changed → ∀ gr ∈ (st.env e).sites, ∀ m ∈ gr, m ∉ members := by
    intro e he gr hgr m hm hmm
    apply he
    rw [hch, environment.collect_changed_mem]
    exact Or.inr (Or.inr (Or.inr ⟨m, hmm, (hconn.1 e gr hgr m hm).1⟩))
  have hsame : ∀ m, m ∉ members →
      (st'.env m).center.type = (st.env m).center.type ∧
        (st'.env m).multisite = (st.env m).multisite := by
    intro m hm
    rw [← (r4.2.2.2.2 m).1, ← (r4.2.2.2.2 m).2]
    rcases htypes m with h1 | h1
    · exact h1
    · exact absurd h1.2.1 hm
  refine ⟨store.molecules_of_same_surface sc stp st' r4 hmolp, ?_, ?_, ?_, hstatic⟩
  · intro e gr hgr m hm
    rw [hsites e] at hgr
    refine ⟨(hsurf e gr hgr m hm).1, ?_⟩
    rw [← (r4.2.2.2.2 m).1]
    rcases htypes m with h1 | h1
    · rw [h1.1]
      exact (hsurf e gr hgr m hm).2
    · exact h1.2.2.2
  · intro e p gr hpg
    by_cases he : e ∈ changed
    · obtain ⟨c1, _, _, c4, seq, c5, c6⟩ :=
        environment.recreate_ensembles_current sc changed stp st' hnd hrec e he p gr hpg
      refine ⟨c1, ?_, seq, ?_, c6⟩
      · rw [← environment.site_contained_congr r4]; exact c4
      · rw [← environment.site_species_congr sc r4]; exact c5
    · rw [r3 e he, (f8 e).2.2.2.2.1] at hpg
      have hpg' : (p, gr) ∈ (st.env e).ensemble_env := hpg
      obtain ⟨c1, c2, seq, c3, c4⟩ := hcur e p gr hpg'
      have hgr : gr ∈ (st.env e).sites := hconn.2 e p gr hpg'
      have hloc : ∀ m ∈ gr, (st'.env m).center.type = (st.env m).center.type ∧
          (st'.env m).multisite = (st.env m).multisite :=
        fun m hm => hsame m (hfar e he gr hgr m hm)
      refine ⟨?_, ?_, seq, ?_, ?_⟩
      · rw [r3 e he, (f8 e).2.2.2.1]
        exact c1
      · rw [environment.site_contained_congr_on st' st gr (fun m hm => (hloc m hm).2)]
        exact c2
      · rw [environment.site_species_congr_on sc st' st gr (fun m hm => (hloc m hm).1)
          (fun m hm => (hloc m hm).2)]
        exact c3
      · rw [r2 p (by rw [hnextp]; exact hnext e p c1), f1]
        exact c4
  · intro e p hp hpr
    by_cases he : e ∈ changed
    · have := ((r7 e he).2 p hp).1
      have := hold p hpr
      omega
    · rw [r3 e he, (f8 e).2.2.2.1] at hp
      have hp' : p ∈ (st.env e).ensembles := hp
      rw [hrem', List.mem_flatMap] at hpr
      obtain ⟨e', he', hpe'⟩ := hpr
      exact he (huniq.2 e e' p hp' hpe' ▸ he')

/-- The site-group of an instance whose ensemble holds the empty site only,
`n` times: with an empty site of coordination 1, whole molecules and species of
the surface on the members, the site-group has `n` members, each of them holds
the empty site and has no multisite partner. -/
theorem store.instance_of_empties (sc : Nat → Nat) (envs : List Nat) (st : store)
    (empty n : Nat) (hone : sc empty = 1) (hmol : st.molecules sc)
    (hsurf : st.sites_surface sc envs) (e : Nat) (g seq : List Nat)
    (hg : g ∈ (st.env e).sites) (hcont : environment.site_contained st g = true)
    (hseq : environment.site_species sc st g = .ok seq)
    (hsorted : (ensemble.ctor sc seq).sorted_species = List.replicate n empty) :
    (∀ m ∈ g, (st.env m).center.type = empty ∧ (st.env m).multisite = []) ∧ g.length = n := by
  cases hm : environment.site_multisite st g with
  | true =>
    exfalso
    simp only [environment.site_multisite, List.any_eq_true, Bool.not_eq_true',
      List.isEmpty_eq_false] at hm
    obtain ⟨m, hmg, hmne⟩ := hm
    have hmne' : (st.env m).multisite ≠ [] := by
      intro h0
      rw [h0] at hmne
      simp at hmne
    obtain ⟨m1, m2, m3, m4⟩ := hmol m
    have hlen := m4 hmne'
    have hpos : 0 < (st.env m).multisite.length := List.length_pos.2 hmne'
    have hs2 : 2 ≤ sc (st.env m).center.type := by omega
    have hse : (st.env m).center.type ≠ empty := by
      intro h0
      rw [h0, hone] at hs2
      omega
    have hmul : environment.site_multisite st g = true := by
      simp only [environment.site_multisite, List.any_eq_true, Bool.not_eq_true',
        List.isEmpty_eq_false]
      exact ⟨m, hmg, hmne⟩
    simp only [environment.site_species, hmul, if_true] at hseq
    have hcount := environment.insert_counted_count sc _ seq
      (species_count_spec (environment.site_occupants st g)).1 hseq (st.env m).center.type
    rw [(species_count_spec (environment.site_occupants st g)).2 (st.env m).center.type]
      at hcount
    have hocc : (environment.site_occupants st g).count (st.env m).center.type
        = (g.filter (fun x => (st.env x).center.type = (st.env m).center.type)).length :=
      count_map_eq_length_filter (fun x => (st.env x).center.type) g _
    have hzero : (ensemble.ctor sc seq).sorted_species.count (st.env m).center.type = 0 := by
      rw [hsorted]
      exact List.count_eq_zero_of_not_mem (fun hin => hse (List.eq_of_mem_replicate hin))
    rw [ensemble.ctor_count, if_pos (by omega), hcount, hocc] at hzero
    have hclosed := environment.site_contained_closed st g hcont
    have hsub : (m :: (st.env m).multisite)
        ⊆ g.filter (fun x => (st.env x).center.type = (st.env m).center.type) := by
      intro x hx
      rcases List.mem_cons.1 hx with h0 | h0
      · subst h0
        exact List.mem_filter.2 ⟨hmg, by simp⟩
      · exact List.mem_filter.2 ⟨hclosed m hmg x h0, by simpa using (m3 x h0).1⟩
    have hnd : (m :: (st.env m).multisite).Nodup := List.nodup_cons.2 ⟨m2, m1⟩
    have hle := (List.subperm_of_subset hnd hsub).length_le
    simp only [List.length_cons] at hle
    have hlt : (g.filter (fun x => (st.env x).center.type = (st.env m).center.type)).length
        < sc (st.env m).center.type := by
      exact (Nat.div_eq_zero_iff (by omega)).1 hzero
    omega
  | false =>
    simp only [environment.site_species, hm, Bool.false_eq_true, if_false,
      Except.ok.injEq] at hseq
    subst hseq
    have hfil : (environment.site_occupants st g).filter (fun s => decide (sc s > 0))
        = environment.site_occupants st g := by
      apply List.filter_eq_self.mpr
      intro s hs
      simp only [environment.site_occupants, List.mem_map] at hs
      obtain ⟨m, hmg, rfl⟩ := hs
      simpa using (hsurf e g hg m hmg).2
    have hperm : (List.replicate n empty).Perm (environment.site_occupants st g) := by
      rw [← hsorted, ensemble.sorted_species_eq, hfil]
      exact List.perm_insertionSort _ _
    simp only [environment.site_multisite, List.any_eq_false, Bool.not_eq_true',
      Bool.not_eq_false', List.isEmpty_iff] at hm
    refine ⟨fun m hmg => ⟨?_, ?_⟩, ?_⟩
    · have : (st.env m).center.type ∈ environment.site_occupants st g := by
        simp only [environment.site_occupants, List.mem_map]
        exact ⟨m, hmg, rfl⟩
      exact List.eq_of_mem_replicate (hperm.mem_iff.2 this)
    · simpa using hm m hmg
    · have := hperm.length_eq
      simp only [List.length_replicate, environment.site_occupants, List.length_map] at this
      exact this.symm

theorem ensemble.ctor_replicate (sc : Nat → Nat) (n s : Nat) (hs : sc s > 0) :
    (ensemble.ctor sc (List.replicate n s)).sorted_species = List.replicate n s := by
  rw [ensemble.sorted_species_eq]
  have hf : (List.replicate n s).filter (fun x => decide (sc x > 0)) = List.replicate n s := by
    apply List.filter_eq_self.2
    intro a ha
    rw [List.eq_of_mem_replicate ha]
    simpa using hs
  rw [hf]
  have hp : ((List.replicate n s).insertionSort (· ≤ ·)).Perm (List.replicate n s) :=
    List.perm_insertionSort _ _
  exact List.eq_replicate_iff.2 ⟨by rw [hp.length_eq, List.length_replicate],
    fun b hb => List.eq_of_mem_replicate (hp.mem_iff.1 hb)⟩

/-- A placement of the species `X` of a surface coordination at an instance
whose ensemble holds `sc X` empty sites, with an empty site of coordination 1,
on a lattice with whole molecules and connected site-groups: the site-group of
the instance is a set of `sc X` environments of the lattice that held the empty
site and hold `X` after the call, and no other environment has changed its
species. -/
theorem environment.change_ensemble_placed (sc : Nat → Nat) (envs : List Nat)
    (st st' : store) (this old : Nat) (empty X : Nat) (remove changed : List Nat)
    (hone : sc empty = 1) (hX : 1 ≤ sc X)
    (hsym : ∀ a x, x ∈ (st.env a).neighbors → a ∈ (st.env x).neighbors)
    (hconn : st.sites_connected) (hgroups : st.groups_connected)
    (hmol : st.molecules sc) (hcur : st.instances_current sc)
    (hsurf : st.sites_surface sc envs)
    (hinit : ∀ e ∈ envs, (st.env e).initialized = true)
    (hobj : ∀ obj, st.ens old = some obj →
      obj.sorted_species = List.replicate (sc X) empty)
    (h : environment.change_ensemble sc st this old [X] [] [] = .ok (st', remove, changed)) :
    ∃ members : List Nat, members.Nodup ∧ members.length = sc X ∧
      (∀ m ∈ members, m ∈ envs ∧ (st.env m).center.type = empty ∧
        (st'.env m).center.type = X) ∧
      (∀ m, m ∉ members → (st'.env m).center.type = (st.env m).center.type) := by
  obtain ⟨_, members, obj, g, placed, hfind, hens, hcoord, hrand, hplace, hrec, hch, hrem⟩ :=
    environment.change_ensemble_ok sc st st' this old [X] [] [] remove changed h
  obtain ⟨b, stp⟩ := placed
  simp only at hrec
  have hmem : (old, members) ∈ (st.env this).ensemble_env :=
    (map_find_ptr_key _ old (old, members) hfind).2
  obtain ⟨_, hcont, seq, hseq, hens'⟩ := hcur this old members hmem
  have hsorted : (ensemble.ctor sc seq).sorted_species = List.replicate (sc X) empty :=
    hobj _ hens'
  have hsite : members ∈ (st.env this).sites := hconn.2 this old members hmem
  obtain ⟨hall, hlen⟩ := store.instance_of_empties sc envs st empty (sc X) hone hmol hsurf this
    members seq hsite hcont hseq hsorted
  obtain ⟨hsortedm, hcg⟩ := hgroups this members hsite
  have hnd : members.Nodup := pairwise_lt_nodup members hsortedm
  have hsp : (ensemble.ctor sc [X]).sorted_species = [X] := by
    have := ensemble.ctor_replicate sc 1 X (by omega)
    simpa using this
  rw [hsp] at hplace
  have hsh : ∀ g : rng, random_shuffle [X] g = ([X], g) := fun g => rfl
  rw [hsh] at hplace
  simp only at hplace
  -- the coordination of `X` is held by an `int`, as `place_species` has not thrown
  have hint : sc X < 2 ^ 31 := by
    by_contra hc
    unfold environment.place_species at hplace
    rw [if_neg (by omega), if_pos (by omega)] at hplace
    cases hplace
  obtain ⟨b', stp', hok, hcomplete⟩ := environment.place_species_complete sc [X]
    (st.with_random g) members (fun s hs => by rw [List.mem_singleton.1 hs]; exact hX)
    (by rw [hlen]; exact hint) (by simp [hlen]) hnd
    (fun e he => hinit e (hsurf this members hsite e he).1) (by simp [store.with_random])
  rw [hplace] at hok
  simp only [Except.ok.injEq, Prod.mk.injEq] at hok
  obtain ⟨rfl, rfl⟩ := hok
  have hb : b = true := by
    apply hcomplete
    refine ⟨[members], ?_, ?_, ?_⟩
    · exact List.Forall₂.cons ⟨hsortedm, hlen, hcg⟩ List.Forall₂.nil
    · simp
    · intro e
      simp
  subst hb
  obtain ⟨gs, hpart, hass⟩ := environment.place_species_sound sc [X] (st.with_random g) members
    stp (fun a _ c _ hc => hsym a c hc) hplace
  obtain ⟨hf, _, hmemgs⟩ := hpart
  have hgroups' := environment.assigned_groups sc (st.with_random g).env stp.env [X] gs hf hass
  obtain ⟨_, hout, _⟩ := environment.place_species_frame sc [X] _ members true stp hplace
  have hnd' : changed.Nodup := by
    rw [hch]
    exact pairwise_lt_nodup _
      (environment.collect_changed_sorted st this members [] List.Pairwise.nil)
  obtain ⟨_, _, _, r4, _⟩ :=
    environment.recreate_ensembles_recreated sc changed stp st' hnd' hrec
  refine ⟨members, hnd, hlen, fun m hm => ⟨(hsurf this members hsite m hm).1, (hall m hm).1, ?_⟩,
    fun m hm => ?_⟩
  · obtain ⟨gr, hgr, hmgr⟩ := (hmemgs m).1 hm
    obtain ⟨s, hs, _, _, hallg⟩ := hgroups' gr hgr
    rw [← (r4.2.2.2.2 m).1, (hallg m hmgr).1]
    exact List.mem_singleton.1 hs
  · rw [← (r4.2.2.2.2 m).1, hout m hm]
    rfl

theorem kmc.delete_ensembles_loop_ens (old : List Nat) :
    ∀ (acc r : List (ensemble × ens_env_map) × store),
      kmc.delete_ensembles_loop old acc = .ok r →
      r.2.env = acc.2.env ∧ ∀ a, a ∉ old → r.2.ens a = acc.2.ens a := by
  induction old with
  | nil =>
    intro acc r h
    simp only [kmc.delete_ensembles_loop, Except.ok.injEq] at h
    subst h
    exact ⟨rfl, fun _ _ => rfl⟩
  | cons ens_it rest ih =>
    intro acc r h
    simp only [kmc.delete_ensembles_loop] at h
    have key : ∀ acc1 : List (ensemble × ens_env_map),
        kmc.delete_ensembles_loop rest
          (acc1, { acc.2 with ens := Function.update acc.2.ens ens_it none }) = .ok r →
        r.2.env = acc.2.env ∧ ∀ a, a ∉ ens_it :: rest → r.2.ens a = acc.2.ens a := by
      intro acc1 h1
      obtain ⟨e1, e2⟩ := ih _ r h1
      refine ⟨e1, fun a ha => ?_⟩
      rw [e2 a (fun hin => ha (List.mem_cons_of_mem _ hin))]
      simp only
      rw [Function.update_noteq (fun heq => ha (by rw [heq]; exact List.mem_cons_self _ _))]
    split at h
    · cases h
    · split at h
      · split_ifs at h
        exact key _ h
      · exact key _ h

/-- The surface branch of `kmc::perform_reaction` keeps the invariant of the
engine with its lattice, and the site-groups and neighbors of every
environment. -/
theorem kmc.perform_reaction_surface_whole (sc : Nat → Nat) (k k' : kmc) (st st' : store)
    (ens : ensemble) (products : List Nat) (hw : kmc.lattice_whole sc k st)
    (h : kmc.perform_reaction_surface sc k st ens products = .ok (k', st')) :
    kmc.lattice_whole sc k' st' ∧
    ∀ e, (st'.env e).sites = (st.env e).sites ∧
      (st'.env e).neighbors = (st.env e).neighbors := by
  obtain ⟨w1, w2, w3, w4, w5, w6, w7, w8, w9⟩ := hw
  obtain ⟨x1, x2⟩ := kmc.perform_reaction_surface_registered sc k k' st st' ens products w1 w2 h
  obtain ⟨x3, x4⟩ := kmc.perform_reaction_surface_built sc k k' st st' ens products w3 h
  obtain ⟨x5, _, _⟩ := kmc.perform_reaction_surface_types sc k k' st st' ens products h
  obtain ⟨entry, inst, g, changed, deleted, _, _, hch, hdel, _, hst⟩ :=
    kmc.perform_reaction_surface_ok sc k k' st st' ens products h
  obtain ⟨st1, remove, chg⟩ := changed
  obtain ⟨m1, m2, m3, m4, m5⟩ := environment.change_ensemble_molecules sc k.environments
    (st.with_random g) st1 inst.2 inst.1 products remove chg w1.2.2.1 w1.2.2.2 w4
    (store.surface_built_connected _ (store.surface_built_of_env st _ rfl rfl rfl w3) w4)
    w5 w6 w7 hch
  unfold kmc.delete_ensembles at hdel
  cases hd : kmc.delete_ensembles_loop remove (k.ensembles, st1) with
  | error e => rw [hd] at hdel; cases hdel
  | ok r =>
    rw [hd] at hdel
    simp only [Except.ok.injEq] at hdel
    subst hdel
    simp only at hst
    subst hst
    obtain ⟨d1, d2⟩ := kmc.delete_ensembles_loop_ens remove _ r hd
    simp only at d1 d2
    refine ⟨⟨x1, x2, x3, ?_, ?_, ?_, ?_, ?_, ?_⟩, fun e => ?_⟩
    · intro a x hx
      rw [x4 a] at hx
      rw [x4 x]
      exact w4 a x hx
    · intro m
      rw [d1]
      exact m1 m
    · intro e p gr hpg
      rw [d1] at hpg
      obtain ⟨c1, c2, seq, c3, c4⟩ := m3 e p gr hpg
      refine ⟨by rw [d1]; exact c1, ?_, seq, ?_, ?_⟩
      · rw [environment.site_contained_congr_on r.2 st1 gr (fun m _ => by rw [d1])]
        exact c2
      · rw [environment.site_species_congr_on sc r.2 st1 gr (fun m _ => by rw [d1])
          (fun m _ => by rw [d1])]
        exact c3
      · rw [d2 p (m4 e p c1)]
        exact c4
    · intro e gr hgr m hm
      rw [d1] at hgr ⊢
      rw [x5]
      exact m2 e gr hgr m hm
    · rw [x5]
      exact w8
    · intro e he
      rw [x5] at he
      rw [d1, (m5 e).2.2]
      exact w9 e he
    · rw [d1]
      exact ⟨(m5 e).1, (m5 e).2.1⟩

/-- The number of the elements of a list with a given value, when the values
change from `empty` to `X` on a set of elements and nowhere else. -/
theorem list_filter_length_placed (envs members : List Nat) (f f' : Nat → Nat)
    (empty X s : Nat) (hne : X ≠ empty) (hnd : envs.Nodup) (hm : members.Nodup)
    (hsub : ∀ m ∈ members, m ∈ envs ∧ f m = empty ∧ f' m = X)
    (hout : ∀ m, m ∉ members → f' m = f m) :
    (envs.filter (fun e => decide (f' e = s))).length
        + (if s = empty then members.length else 0)
      = (envs.filter (fun e => decide (f e = s))).length
        + (if s = X then members.length else 0) := by
  have hA : (envs.filter (fun e => decide (e ∈ members))).Perm members := by
    rw [List.perm_ext_iff_of_nodup (hnd.filter _) hm]
    intro a
    simp only [List.mem_filter, decide_eq_true_eq]
    exact ⟨fun h => h.2, fun h => ⟨(hsub a h).1, h⟩⟩
  have hlen := hA.length_eq
  rw [← List.countP_eq_length_filter, ← List.countP_eq_length_filter,
    List.countP_eq_countP_filter_add envs (fun e => decide (f' e = s))
      (fun e => decide (e ∈ members)),
    List.countP_eq_countP_filter_add envs (fun e => decide (f e = s))
      (fun e => decide (e ∈ members))]
  have hB : (envs.filter (fun a => !decide (a ∈ members))).countP
        (fun e => decide (f' e = s))
      = (envs.filter (fun a => !decide (a ∈ members))).countP
        (fun e => decide (f e = s)) := by
    apply List.countP_congr
    intro x hx
    have hx' : x ∉ members := by simpa using (List.mem_filter.1 hx).2
    simp only [decide_eq_true_eq, hout x hx']
  have hA1 : (envs.filter (fun e => decide (e ∈ members))).countP (fun e => decide (f' e = s))
      = if s = X then members.length else 0 := by
    by_cases hs : s = X
    · rw [if_pos hs, ← hlen, List.countP_eq_length]
      intro a ha
      have : a ∈ members := by simpa using (List.mem_filter.1 ha).2
      simp [(hsub a this).2.2, hs]
    · rw [if_neg hs, List.countP_eq_zero]
      intro a ha
      have : a ∈ members := by simpa using (List.mem_filter.1 ha).2
      simp only [(hsub a this).2.2, decide_eq_true_eq]
      exact fun h => hs h.symm
  have hA0 : (envs.filter (fun e => decide (e ∈ members))).countP (fun e => decide (f e = s))
      = if s = empty then members.length else 0 := by
    by_cases hs : s = empty
    · rw [if_pos hs, ← hlen, List.countP_eq_length]
      intro a ha
      have : a ∈ members := by simpa using (List.mem_filter.1 ha).2
      simp [(hsub a this).2.1, hs]
    · rw [if_neg hs, List.countP_eq_zero]
      intro a ha
      have : a ∈ members := by simpa using (List.mem_filter.1 ha).2
      simp only [(hsub a this).2.1, decide_eq_true_eq]
      exact fun h => hs h.symm
  rw [hA1, hA0, hB]
  by_cases h1 : s = X
  · have h2 : s ≠ empty := fun h => hne (h1.symm.trans h)
    simp only [if_pos h1, if_neg h2]
    omega
  · simp only [if_neg h1]
    omega

/-- The surface branch of `kmc::perform_reaction` for the reaction that places
the species `X` on `sc X` empty sites: a set of `sc X` environments of the
engine that held the empty site holds `X` after the call, and no other
environment has changed its species. -/
theorem kmc.perform_reaction_surface_placed (sc : Nat → Nat) (k k' : kmc) (st st' : store)
    (ens : ensemble) (empty X : Nat) (hone : sc empty = 1) (hX : 1 ≤ sc X)
    (hw : kmc.lattice_whole sc k st) (hgroups : st.groups_connected)
    (hens : ens.sorted_species = List.replicate (sc X) empty)
    (h : kmc.perform_reaction_surface sc k st ens [X] = .ok (k', st')) :
    ∃ members : List Nat, members.Nodup ∧ members.length = sc X ∧
      (∀ m ∈ members, m ∈ k.environments ∧ (st.env m).center.type = empty ∧
        (st'.env m).center.type = X) ∧
      (∀ m, m ∉ members → (st'.env m).center.type = (st.env m).center.type) := by
  obtain ⟨w1, w2, w3, w4, w5, w6, w7, w8, w9⟩ := hw
  obtain ⟨entry, inst, g, changed, deleted, hfind, hinst, hch, hdel, _, hst⟩ :=
    kmc.perform_reaction_surface_ok sc k k' st st' ens [X] h
  obtain ⟨st1, remove, chg⟩ := changed
  obtain ⟨hentry, hkey⟩ := map_find_ensemble_some k.ensembles ens entry hfind
  have hreg := (w2 entry hentry inst.1 inst.2).1 hinst
  obtain ⟨_, obj, hobj, hsp⟩ := hreg
  obtain ⟨members, c1, c2, c3, c4⟩ := environment.change_ensemble_placed sc k.environments
    (st.with_random g) st1 inst.2 inst.1 empty X remove chg hone hX w4
    (store.surface_built_connected _ (store.surface_built_of_env st _ rfl rfl rfl w3) w4)
    hgroups w5 w6 w7 w9
    (fun obj' hobj' => by
      have : obj' = obj := by
        have h1 : (st.with_random g).ens inst.1 = st.ens inst.1 := rfl
        rw [h1, hobj] at hobj'
        exact (Option.some.inj hobj').symm
      rw [this, hsp, hkey, hens]) hch
  unfold kmc.delete_ensembles at hdel
  cases hd : kmc.delete_ensembles_loop remove (k.ensembles, st1) with
  | error e => rw [hd] at hdel; cases hdel
  | ok r =>
    rw [hd] at hdel
    simp only [Except.ok.injEq] at hdel
    subst hdel
    simp only at hst
    subst hst
    obtain ⟨d1, _⟩ := kmc.delete_ensembles_loop_ens remove _ r hd
    simp only at d1
    refine ⟨members, c1, c2, fun m hm => ?_, fun m hm => ?_⟩
    · rw [d1]
      exact c3 m hm
    · rw [d1]
      exact c4 m hm

/-! ## Lemmas on the lattice during `kmc::initial_coverage` -/

/-- The call `perform_reaction(rxn)` of `kmc::initial_coverage` either finds no
instance and changes nothing, or runs the surface branch of
`kmc::perform_reaction` with a class of `sc sp` empty sites and the product
`sp`. -/
theorem kmc.perform_reaction_rxn_reactor_surface (sc : Nat → Nat) (w w' : simulation)
    (empty_site sp : Nat) (b : Bool) (hempty : sc empty_site > 0)
    (h : kmc.perform_reaction_rxn_reactor sc w (kmc.initial_coverage_rxn sc empty_site sp)
      = .ok (b, w')) :
    (b = false ∧ w' = w) ∨
    (b = true ∧ ∃ ens : ensemble,
      ens.sorted_species = List.replicate (sc sp) empty_site ∧
      kmc.perform_reaction_surface sc w.engine w.memory ens [sp]
        = .ok (w'.engine, w'.memory)) := by
  have hseq := kmc.initial_coverage_rxn_seq sc empty_site sp
  unfold kmc.perform_reaction_rxn_reactor at h
  simp only [model_reaction.get_reactant_seq, hseq, if_true] at h
  cases hfind : map_find ensemble.lt w.engine.ensembles
      (ensemble.ctor sc (List.replicate (sc sp) empty_site)) with
  | none => rw [hfind] at h; cases h
  | some em_it =>
    rw [hfind] at h
    simp only at h
    split_ifs at h with hemp
    · simp only [Except.ok.injEq, Prod.mk.injEq] at h
      obtain ⟨rfl, rfl⟩ := h
      exact Or.inl ⟨rfl, rfl⟩
    · cases hp : kmc.perform_reaction_reactor sc w (kmc.initial_coverage_rxn sc empty_site sp)
          (some em_it.1, none) 1 with
      | error e => rw [hp] at h; cases h
      | ok w1 =>
        rw [hp] at h
        simp only [Except.ok.injEq, Prod.mk.injEq] at h
        obtain ⟨rfl, rfl⟩ := h
        refine Or.inr ⟨rfl, em_it.1, ?_, ?_⟩
        · rw [(map_find_ensemble_some _ _ _ hfind).2]
          exact ensemble.ctor_replicate sc _ _ hempty
        · unfold kmc.perform_reaction_reactor at hp
          rw [if_pos (by norm_num)] at hp
          simp only [model_reaction.get_reactant_seq_ptr, model_reaction.get_product_seq_ptr,
            hseq, if_true] at hp
          unfold kmc.perform_reaction_reactor_direction at hp
          simp only at hp
          cases hsurf : kmc.perform_reaction_surface sc w.engine w.memory em_it.1 [sp] with
          | error e => rw [hsurf] at hp; cases hp
          | ok r =>
            rw [hsurf] at hp
            simp only at hp
            cases hk : reactor.kmc_reaction sc w.quantities
                (List.replicate (sc sp) empty_site) [sp] w.rates.scale with
            | error e => rw [hk] at hp; cases hp
            | ok s =>
              rw [hk] at hp
              simp only [Except.ok.injEq] at hp
              subst hp
              rfl

/-- The lattice after the call `perform_reaction(rxn)` of
`kmc::initial_coverage` for the species `sp`: the invariant of the engine with
its lattice holds, the site-groups are connected, and when the reaction was
performed the species `sp` occupies `sc sp` sites more, the empty site as many
less, and every other species the sites that it occupied. -/
theorem kmc.perform_reaction_rxn_reactor_lattice (sc : Nat → Nat) (w w' : simulation)
    (empty_site sp : Nat) (b : Bool) (hone : sc empty_site = 1) (hsp : sc sp > 0)
    (hne : sp ≠ empty_site) (hw : kmc.lattice_whole sc w.engine w.memory)
    (hgroups : w.memory.groups_connected)
    (h : kmc.perform_reaction_rxn_reactor sc w (kmc.initial_coverage_rxn sc empty_site sp)
      = .ok (b, w')) :
    kmc.lattice_whole sc w'.engine w'.memory ∧ w'.memory.groups_connected ∧
    (∀ s, kmc.occupied_sites w' s + (if b = true ∧ s = empty_site then sc sp else 0)
      = kmc.occupied_sites w s + (if b = true ∧ s = sp then sc sp else 0)) := by
  rcases kmc.perform_reaction_rxn_reactor_surface sc w w' empty_site sp b (by omega) h with
    ⟨rfl, rfl⟩ | ⟨rfl, ens, hens, hsurf⟩
  · exact ⟨hw, hgroups, fun s => by simp⟩
  · obtain ⟨hw', hstatic⟩ := kmc.perform_reaction_surface_whole sc w.engine w'.engine w.memory
      w'.memory ens [sp] hw hsurf
    obtain ⟨members, c1, c2, c3, c4⟩ := kmc.perform_reaction_surface_placed sc w.engine
      w'.engine w.memory w'.memory ens empty_site sp hone hsp hw hgroups hens hsurf
    obtain ⟨x5, _, _⟩ := kmc.perform_reaction_surface_types sc w.engine w'.engine w.memory
      w'.memory ens [sp] hsurf
    refine ⟨hw', ?_, fun s => ?_⟩
    · intro e g hg
      rw [(hstatic e).1] at hg
      obtain ⟨g1, g2⟩ := hgroups e g hg
      exact ⟨g1, environment.connected_group_congr w.memory.env w'.memory.env g
        (fun x => (hstatic x).2) g2⟩
    · have := list_filter_length_placed w.engine.environments members
        (fun e => (w.memory.env e).center.type) (fun e => (w'.memory.env e).center.type)
        empty_site sp s hne hw.2.2.2.2.2.2.2.1 c1 c3 c4
      rw [c2] at this
      simp only [kmc.occupied_sites, x5, true_and]
      exact this

theorem kmc.occupied_sites_congr (w w' : simulation)
    (h1 : w'.engine.environments = w.engine.environments) (h2 : w'.memory = w.memory)
    (s : Nat) : kmc.occupied_sites w' s = kmc.occupied_sites w s := by
  simp only [kmc.occupied_sites, h1, h2]

/-- The loop of `kmc::initial_coverage` that places the species `sp` keeps the
agreement of the coverage of `sp` with the lattice, and the sites of every
species other than `sp` and the empty site. -/
theorem kmc.initial_coverage_while_lattice (sc : Nat → Nat) (empty_site sp : Nat)
    (coverage : ℚ) (hone : sc empty_site = 1) (hsp : sc sp > 0) (hne : sp ≠ empty_site) :
    ∀ (fuel : Nat) (w w' : simulation) (stopped : Bool), w.quantities.surface_typed sc →
      w.scaled → w.engine.sites > 0 → kmc.lattice_whole sc w.engine w.memory →
      w.memory.groups_connected →
      kmc.initial_coverage_while sc (kmc.initial_coverage_rxn sc empty_site sp) sp coverage
        fuel w = .ok (stopped, w') →
      kmc.lattice_whole sc w'.engine w'.memory ∧ w'.memory.groups_connected ∧
      (kmc.coverage_agrees sc w sp → kmc.coverage_agrees sc w' sp) ∧
      ∀ s, s ≠ sp → s ≠ empty_site → kmc.occupied_sites w' s = kmc.occupied_sites w s := by
  intro fuel
  induction fuel with
  | zero => intro w w' stopped _ _ _ _ _ h; simp [kmc.initial_coverage_while] at h
  | succ fuel ih =>
    intro w w' stopped hs hscaled hsites hw hgroups h
    simp only [kmc.initial_coverage_while] at h
    split_ifs at h with hlt
    · cases hp : kmc.perform_reaction_rxn_reactor sc w
          (kmc.initial_coverage_rxn sc empty_site sp) with
      | error e => rw [hp] at h; cases h
      | ok r =>
        obtain ⟨b, w1⟩ := r
        rw [hp] at h
        cases b with
        | false =>
          simp only [Except.ok.injEq, Prod.mk.injEq] at h
          obtain ⟨_, rfl⟩ := h
          exact ⟨hw, hgroups, fun hag => hag, fun _ _ _ => rfl⟩
        | true =>
          simp only at h
          obtain ⟨_, a2, a3, a4, a5, a6, a7, a8, a9, a10⟩ :=
            kmc.perform_reaction_rxn_reactor_placed sc w w1 empty_site sp true hs (by omega) hsp
              hne hp
          obtain ⟨l1, l2, l3⟩ := kmc.perform_reaction_rxn_reactor_lattice sc w w1 empty_site sp
            true hone hsp hne hw hgroups hp
          obtain ⟨hr, hq⟩ := a10 rfl
          have hscaled1 : w1.scaled := by
            unfold simulation.scaled at hscaled ⊢
            rw [a2, a3, a5]
            exact hscaled
          have hN : (0 : ℚ) < (w.engine.sites : ℚ) := by exact_mod_cast hsites
          have hscale : w.rates.scale ≠ 0 := by
            intro h0
            apply hr
            rw [hscaled, h0, mul_zero]
          have hdelta : w.rates.scale * (1 / w.quantities.rxtor.get_sites)
              = 1 / (w.engine.sites : ℚ) := by
            rw [hscaled]
            field_simp [hscale, ne_of_gt hN]
            ring
          have hag1 : kmc.coverage_agrees sc w sp → kmc.coverage_agrees sc w1 sp := by
            intro hag
            unfold kmc.coverage_agrees at hag ⊢
            have hocc := l3 sp
            simp only [true_and, if_neg hne, if_true, add_zero] at hocc
            rw [hocc, hq .Econcentration, hdelta, a5]
            push_cast
            rw [hag]
            field_simp
            ring
          obtain ⟨i1, i2, i3, i4⟩ := ih w1 w' stopped a7 hscaled1 (by rw [a5]; exact hsites)
            l1 l2 h
          refine ⟨i1, i2, fun hag => i3 (hag1 hag), fun s hs1 hs2 => ?_⟩
          rw [i4 s hs1 hs2]
          have := l3 s
          simp only [true_and, if_neg hs1, if_neg hs2, add_zero] at this
          exact this
    · simp only [Except.ok.injEq, Prod.mk.injEq] at h
      obtain ⟨_, rfl⟩ := h
      exact ⟨hw, hgroups, fun hag => hag, fun _ _ _ => rfl⟩

/-- The body of the loop of `kmc::initial_coverage` keeps the lattice whole and
the sites of the species other than `sp` and the empty site; and the coverage
of a species `sp` that it places, of which the lattice held none, agrees with
the lattice after it. -/
theorem kmc.initial_coverage_species_lattice (sc : Nat → Nat) (fuel : Nat)
    (empty_site sp : Nat) (loc loc' : kmc.coverage_locals) (w w' : simulation)
    (hone : sc empty_site = 1) (hs : w.quantities.surface_typed sc) (hscaled : w.scaled)
    (hw : kmc.lattice_whole sc w.engine w.memory) (hgroups : w.memory.groups_connected)
    (h : kmc.initial_coverage_species sc fuel empty_site sp loc w = .ok (loc', w')) :
    kmc.lattice_whole sc w'.engine w'.memory ∧ w'.memory.groups_connected ∧
    (∀ s, s ≠ sp → s ≠ empty_site → kmc.occupied_sites w' s = kmc.occupied_sites w s) ∧
    (sp ≠ empty_site → sc sp > 0 → w.quantities.get_quantity sp .Econcentration > 0 →
      kmc.occupied_sites w sp = 0 → kmc.coverage_agrees sc w' sp) := by
  unfold kmc.initial_coverage_species at h
  by_cases h1 : sp = empty_site
  · rw [if_pos h1] at h
    cases hq : w.quantities.set_quantity sp .Econcentration 1 with
    | error e => rw [hq] at h; cases h
    | ok s =>
      rw [hq] at h
      simp only [Except.ok.injEq, Prod.mk.injEq] at h
      obtain ⟨rfl, rfl⟩ := h
      exact ⟨hw, hgroups, fun _ _ _ => rfl, fun hne => absurd h1 hne⟩
  · rw [if_neg h1] at h
    by_cases h2 : sc sp > 0 ∧ w.quantities.get_quantity sp .Econcentration > 0
    · rw [if_pos h2] at h
      by_cases h3 : kmc.initial_coverage_exceeds sc sp loc w = true
      · rw [if_pos h3] at h
        cases h
      rw [if_neg h3] at h
      by_cases h4 : w.engine.sites > 0
      · rw [if_pos h4] at h
        cases hq : w.quantities.set_quantity sp .Econcentration 0 with
        | error e => rw [hq] at h; cases h
        | ok s =>
          rw [hq] at h
          simp only at h
          cases hwh : kmc.initial_coverage_while sc (kmc.initial_coverage_rxn sc empty_site sp)
              sp (w.quantities.get_quantity sp .Econcentration) fuel
              { w with quantities := s } with
          | error e => rw [hwh] at h; cases h
          | ok r =>
            rw [hwh] at h
            simp only [Except.ok.injEq, Prod.mk.injEq] at h
            obtain ⟨rfl, rfl⟩ := h
            obtain ⟨a1, a2, a3, a4, a5⟩ := state.set_quantity_ok _ _ _ _ _ hq
            have hs0 : s.surface_typed sc :=
              state.surface_typed_of_amount sc _ _ sp hs a4 (fun c hc => ⟨_, a5 c hc⟩)
            have hq0 : s.get_quantity sp .Econcentration = 0 := by
              obtain ⟨c, hc'⟩ := hs sp h2.1
              simp [state.get_quantity, a5 c hc', quantity.get_quantity]
            have hscaled0 : ({ w with quantities := s } : simulation).scaled := by
              unfold simulation.scaled at hscaled ⊢
              simp only
              rw [a2]
              exact hscaled
            have key : kmc.occupied_sites w sp = 0 →
                kmc.coverage_agrees sc ({ w with quantities := s } : simulation) sp := by
              intro h0
              unfold kmc.coverage_agrees
              simp only
              rw [hq0, mul_zero]
              have : kmc.occupied_sites ({ w with quantities := s } : simulation) sp
                  = kmc.occupied_sites w sp := rfl
              rw [this, h0]
              rfl
            obtain ⟨i1, i2, i3, i4⟩ := kmc.initial_coverage_while_lattice sc empty_site sp _
              hone h2.1 h1 fuel _ r.2 r.1 hs0 hscaled0 h4 hw hgroups hwh
            exact ⟨i1, i2, i4, fun _ _ _ h0 => i3 (key h0)⟩
      · rw [if_neg h4] at h
        simp only [Except.ok.injEq, Prod.mk.injEq] at h
        obtain ⟨rfl, rfl⟩ := h
        refine ⟨hw, hgroups, fun _ _ _ => rfl, fun _ _ _ h0 => ?_⟩
        unfold kmc.coverage_agrees
        have : w.engine.sites = 0 := by omega
        rw [h0, this]
        simp
    · rw [if_neg h2] at h
      simp only [Except.ok.injEq, Prod.mk.injEq] at h
      obtain ⟨rfl, rfl⟩ := h
      exact ⟨hw, hgroups, fun _ _ _ => rfl, fun _ hc1 hc2 => absurd ⟨hc1, hc2⟩ h2⟩

/-- The loop of `kmc::initial_coverage` through the species keeps the lattice
whole and the sites of the species that are not in the list; and the coverage
of every species of the list that it places, of which the lattice held none
before, agrees with the lattice after the loop. -/
theorem kmc.initial_coverage_loop_lattice (sc : Nat → Nat) (fuel : Nat) (empty_site : Nat)
    (hone : sc empty_site = 1) :
    ∀ (l : List Nat) (loc loc' : kmc.coverage_locals) (w w' : simulation),
      l.Nodup → w.quantities.surface_typed sc → w.scaled →
      kmc.lattice_whole sc w.engine w.memory → w.memory.groups_connected →
      kmc.initial_coverage_loop sc fuel empty_site l loc w = .ok (loc', w') →
      kmc.lattice_whole sc w'.engine w'.memory ∧ w'.memory.groups_connected ∧
      (∀ s, s ∉ l → s ≠ empty_site → kmc.occupied_sites w' s = kmc.occupied_sites w s) ∧
      (∀ x ∈ l, x ≠ empty_site → sc x > 0 →
        w.quantities.get_quantity x .Econcentration > 0 → kmc.occupied_sites w x = 0 →
        kmc.coverage_agrees sc w' x) := by
  have hempty : sc empty_site > 0 := by omega
  intro l
  induction l with
  | nil =>
    intro loc loc' w w' _ _ _ hw hgroups h
    simp only [kmc.initial_coverage_loop, Except.ok.injEq, Prod.mk.injEq] at h
    obtain ⟨rfl, rfl⟩ := h
    exact ⟨hw, hgroups, fun _ _ _ => rfl, fun x hx => by cases hx⟩
  | cons sp rest ih =>
    intro loc loc' w w' hnd hs hscaled hw hgroups h
    rw [List.nodup_cons] at hnd
    simp only [kmc.initial_coverage_loop] at h
    cases h1 : kmc.initial_coverage_species sc fuel empty_site sp loc w with
    | error e => rw [h1] at h; cases h
    | ok r =>
      rw [h1] at h
      simp only at h
      obtain ⟨a1, a2, a3, a4, a5, a6, a7, a8, a9, a10⟩ :=
        kmc.initial_coverage_species_frame sc fuel empty_site sp loc r.1 w r.2 hempty hs h1
      obtain ⟨l1, l2, l3, l4⟩ := kmc.initial_coverage_species_lattice sc fuel empty_site sp loc
        r.1 w r.2 hone hs hscaled hw hgroups h1
      have hscaled1 : r.2.scaled := by
        unfold simulation.scaled at hscaled ⊢
        rw [a1, a2, a4]
        exact hscaled
      obtain ⟨b1, b2, b3, b4, b5, b6, b7, b8, b9, b10⟩ :=
        kmc.initial_coverage_loop_frame sc fuel empty_site hempty rest r.1 loc' r.2 w' a6 h
      obtain ⟨i1, i2, i3, i4⟩ := ih r.1 loc' r.2 w' hnd.2 a6 hscaled1 l1 l2 h
      refine ⟨i1, i2, fun s hs1 hs2 => ?_, fun x hx hxe hxs hxc hx0 => ?_⟩
      · rw [i3 s (fun hin => hs1 (List.mem_cons_of_mem _ hin)) hs2,
          l3 s (fun heq => hs1 (by rw [heq]; exact List.mem_cons_self _ _)) hs2]
      · rcases List.mem_cons.1 hx with rfl | hx
        · have hag := l4 hxe hxs hxc hx0
          unfold kmc.coverage_agrees at hag ⊢
          have hq : w'.quantities.get_quantity x .Econcentration
              = r.2.quantities.get_quantity x .Econcentration := by
            simp only [state.get_quantity, b7 x hxe hnd.1]
          rw [i3 x hnd.1 hxe, hq, b4]
          exact hag
        · have hne : x ≠ sp := fun heq => hnd.1 (heq ▸ hx)
          have hq : r.2.quantities.get_quantity x .Econcentration
              = w.quantities.get_quantity x .Econcentration := by
            simp only [state.get_quantity, a7 x hxe hne]
          exact i4 x hx hxe hxs (by rw [hq]; exact hxc) (by rw [l3 x hne hxe]; exact hx0)

/-- After `kmc::initial_coverage`, the coverage of every species that it has
placed, of which the lattice held none before, agrees with the lattice. -/
theorem kmc.initial_coverage_lattice (sc : Nat → Nat) (fuel : Nat) (mech : model_mechanism)
    (empty_site : Nat) (w w' : simulation) (stopped : List Nat)
    (hone : sc empty_site = 1) (hnd : mech.speciess.Nodup)
    (hs : w.quantities.surface_typed sc) (hscaled : w.scaled)
    (hw : kmc.lattice_whole sc w.engine w.memory) (hgroups : w.memory.groups_connected)
    (h : kmc.initial_coverage sc fuel mech (some empty_site) w = .ok (stopped, w')) :
    kmc.lattice_whole sc w'.engine w'.memory ∧
    ∀ x ∈ mech.speciess, x ≠ empty_site → sc x > 0 →
      w.quantities.get_quantity x .Econcentration > 0 → kmc.occupied_sites w x = 0 →
      kmc.coverage_agrees sc w' x := by
  obtain ⟨loc1, w1, hloop, _, e1, e2, _, hq⟩ :=
    kmc.initial_coverage_ok sc fuel mech empty_site w w' stopped h
  obtain ⟨i1, _, _, i4⟩ := kmc.initial_coverage_loop_lattice sc fuel empty_site hone
    mech.speciess _ loc1 w w1 hnd hs hscaled hw hgroups hloop
  refine ⟨by rw [e1, e2]; exact i1, fun x hx hxe hxs hxc hx0 => ?_⟩
  have hag := i4 x hx hxe hxs hxc hx0
  unfold kmc.coverage_agrees at hag ⊢
  have hocc : kmc.occupied_sites w' x = kmc.occupied_sites w1 x := by
    simp only [kmc.occupied_sites, e1, e2]
  have hqq : w'.quantities.get_quantity x .Econcentration
      = w1.quantities.get_quantity x .Econcentration := by
    simp only [state.get_quantity, hq x hxe]
  rw [hocc, hqq, e1]
  exact hag

/-! ## Lemmas on the lattice after `kmc::initialize` -/

theorem environment.set_neighbors_kept (st st' : store) (this : Nat)
    (surface : List (List Nat)) (h : environment.set_neighbors st this surface = .ok st') :
    st'.ens = st.ens ∧
    ∀ e, (st'.env e).center = (st.env e).center ∧
      (st'.env e).multisite = (st.env e).multisite ∧
      (st'.env e).ensemble_env = (st.env e).ensemble_env ∧
      (st'.env e).initialized = (st.env e).initialized := by
  unfold environment.set_neighbors at h
  split_ifs at h with h1
  · simp only [Except.ok.injEq] at h
    subst h
    exact ⟨rfl, fun _ => ⟨rfl, rfl, rfl, rfl⟩⟩
  · cases hh : surface.head? with
    | none => simp only [hh] at h; cases h
    | some first =>
      simp only [hh] at h
      split_ifs at h with h2
      cases ha : (environment.neighbor_elements st.env_type (st.env this).center surface
          first).allSome with
      | none => simp only [ha] at h; cases h
      | some added =>
        simp only [ha, Except.ok.injEq] at h
        subst h
        refine ⟨rfl, fun e => ?_⟩
        by_cases he : e = this
        · subst he; simp [Function.update_same]
        · simp [Function.update_noteq he]

theorem kmc.set_neighbors_all_kept (env_surface : List (List Nat)) :
    ∀ (l : List Nat) (st st' : store),
      kmc.set_neighbors_all env_surface l st = .ok st' →
      st'.ens = st.ens ∧
      ∀ e, (st'.env e).center = (st.env e).center ∧
        (st'.env e).multisite = (st.env e).multisite ∧
        (st'.env e).ensemble_env = (st.env e).ensemble_env ∧
        (st'.env e).initialized = (st.env e).initialized := by
  intro l
  induction l with
  | nil =>
    intro st st' h
    simp only [kmc.set_neighbors_all, Except.ok.injEq] at h
    subst h
    exact ⟨rfl, fun _ => ⟨rfl, rfl, rfl, rfl⟩⟩
  | cons eit rest ih =>
    intro st st' h
    simp only [kmc.set_neighbors_all] at h
    cases h1 : environment.set_neighbors st eit env_surface with
    | error e => rw [h1] at h; cases h
    | ok st1 =>
      rw [h1] at h
      simp only at h
      obtain ⟨a1, a2⟩ := environment.set_neighbors_kept st st1 eit env_surface h1
      obtain ⟨b1, b2⟩ := ih st1 st' h
      refine ⟨b1.trans a1, fun e => ?_⟩
      obtain ⟨c1, c2, c3, c4⟩ := a2 e
      obtain ⟨d1, d2, d3, d4⟩ := b2 e
      exact ⟨d1.trans c1, d2.trans c2, d3.trans c3, d4.trans c4⟩

theorem environment.connectivity_kept (fuel : Nat) (st st' : store) (this n_sites : Nat)
    (h : environment.connectivity fuel st this n_sites = .ok st') :
    st'.env_type = st.env_type ∧ st'.radial = st.radial ∧ st'.max_sites = st.max_sites ∧
    st'.empty_site = st.empty_site ∧
    ∀ e, (st'.env e).center = (st.env e).center ∧
      (st'.env e).multisite = (st.env e).multisite ∧
      (st'.env e).ensemble_env = (st.env e).ensemble_env ∧
      (st'.env e).initialized = (st.env e).initialized := by
  unfold environment.connectivity at h
  split_ifs at h with h1 h2
  · revert h
    split
    · intro h; cases h
    · intro h
      simp only [Except.ok.injEq] at h
      subst h
      refine ⟨rfl, rfl, rfl, rfl, fun e => ?_⟩
      by_cases he : e = this
      · subst he; simp [Function.update_same]
      · simp [Function.update_noteq he]
  · simp only [Except.ok.injEq] at h
    subst h
    refine ⟨rfl, rfl, rfl, rfl, fun e => ?_⟩
    by_cases he : e = this
    · subst he; simp [Function.update_same]
    · simp [Function.update_noteq he]

/-- The call `environment::initialize` keeps the lattice points and the
multisite lists, marks the environment initialized, and leaves the registered
instances describing the lattice as it is. -/
theorem environment.initialize_current (sc : Nat → Nat) (fuel : Nat) (st st' : store)
    (this : Nat) (hlt : ∀ e, ∀ p ∈ (st.env e).ensembles, p < st.next)
    (hcur : st.instances_current sc)
    (h : environment.initialize sc fuel st this = .ok st') :
    st'.instances_current sc ∧ st.same_surface st' ∧
    (st'.env this).initialized = true ∧
    (∀ e, e ≠ this → (st'.env e).initialized = (st.env e).initialized) := by
  unfold environment.initialize at h
  split at h
  · cases h
  · cases hc : environment.connectivity fuel
        { st with env := Function.update st.env this { (st.env this) with sites := [] } }
        this st.max_sites with
    | error e => simp only [hc] at h; cases h
    | ok st1 =>
      simp only [hc] at h
      cases hcr : environment.create_ensembles sc st1 this with
      | error e => simp only [hcr] at h; cases h
      | ok st2 =>
        simp only [hcr, Except.ok.injEq] at h
        obtain ⟨c1, c2, c3⟩ := environment.connectivity_instances fuel _ st1 this st.max_sites hc
        obtain ⟨k1, k2, k3, k4, k5⟩ := environment.connectivity_kept fuel _ st1 this
          st.max_sites hc
        simp only at c1 c2 c3 k1 k2 k3 k4 k5
        have hfield : ∀ e, (st1.env e).center = (st.env e).center ∧
            (st1.env e).multisite = (st.env e).multisite ∧
            (st1.env e).ensemble_env = (st.env e).ensemble_env ∧
            (st1.env e).initialized = (st.env e).initialized ∧
            (st1.env e).ensembles = (st.env e).ensembles := by
          intro e
          obtain ⟨d1, d2, d3, d4⟩ := k5 e
          rw [d1, d2, d3, d4, c3 e]
          by_cases he : e = this
          · subst he; simp [Function.update_same]
          · simp [Function.update_noteq he]
        have hs01 : st.same_surface st1 :=
          ⟨k1.symm, k2.symm, k3.symm, k4.symm, fun e => ⟨(hfield e).1.symm, (hfield e).2.1.symm⟩⟩
        obtain ⟨q1, q2, q3, q4, q5, q6, q7, q8⟩ :=
          environment.create_ensembles_recreated sc st1 st2 this hcr
        have hs02 : st.same_surface st2 := store.same_surface_trans hs01 q4
        have hs2' : st2.same_surface st' := by
          rw [← h]
          refine ⟨rfl, rfl, rfl, rfl, fun e => ?_⟩
          by_cases he : e = this
          · subst he; simp [Function.update_same]
          · simp [Function.update_noteq he]
        have hs0' : st.same_surface st' := store.same_surface_trans hs02 hs2'
        have henv' : ∀ e, (st'.env e).ensemble_env = (st2.env e).ensemble_env ∧
            (st'.env e).ensembles = (st2.env e).ensembles := by
          intro e
          rw [← h]
          by_cases he : e = this
          · subst he; simp [Function.update_same]
          · simp [Function.update_noteq he]
        have hens' : st'.ens = st2.ens := by rw [← h]
        refine ⟨?_, hs0', ?_, ?_⟩
        · intro e p g hpg
          rw [(henv' e).1] at hpg
          rw [(henv' e).2, hens']
          by_cases he : e = this
          · subst he
            obtain ⟨e1, _, _, e4, seq, e5, e6⟩ :=
              environment.create_ensembles_current sc st1 st2 e hcr p g hpg
            refine ⟨e1, ?_, seq, ?_, e6⟩
            · rw [← environment.site_contained_congr (store.same_surface_trans q4 hs2')]
              exact e4
            · rw [← environment.site_species_congr sc (store.same_surface_trans q4 hs2')]
              exact e5
          · rw [q3 e (by simpa using he), (hfield e).2.2.1] at hpg
            obtain ⟨e1, e2, seq, e3, e4⟩ := hcur e p g hpg
            refine ⟨?_, ?_, seq, ?_, ?_⟩
            · rw [q3 e (by simpa using he), (hfield e).2.2.2.2]
              exact e1
            · rw [← environment.site_contained_congr hs0']
              exact e2
            · rw [← environment.site_species_congr sc hs0']
              exact e3
            · rw [q2 p (by rw [c1]; exact hlt e p e1), c2]
              exact e4
        · rw [← h]
          simp [Function.update_same]
        · intro e he
          rw [← h]
          simp only [Function.update_noteq he]
          rw [(q6 e).2.2.2, (hfield e).2.2.2.1]

theorem kmc.initialize_all_current (sc : Nat → Nat) (fuel : Nat) (envs : List Nat) :
    ∀ (l : List Nat) (st st' : store), (∀ e ∈ l, e ∈ envs) → st.instances_in envs →
      st.instances_current sc → kmc.initialize_all sc fuel l st = .ok st' →
      st'.instances_current sc ∧ st.same_surface st' ∧
      (∀ e ∈ l, (st'.env e).initialized = true) ∧
      (∀ e, (st.env e).initialized = true → (st'.env e).initialized = true) := by
  intro l
  induction l with
  | nil =>
    intro st st' _ _ hcur h
    simp only [kmc.initialize_all, Except.ok.injEq] at h
    subst h
    exact ⟨hcur, store.same_surface_refl _, fun e he => (by cases he), fun _ he => he⟩
  | cons eit rest ih =>
    intro st st' hl hin hcur h
    simp only [kmc.initialize_all] at h
    cases h1 : environment.initialize sc fuel st eit with
    | error e => rw [h1] at h; cases h
    | ok st1 =>
      rw [h1] at h
      simp only at h
      obtain ⟨a1, a2, a3, a4⟩ := environment.initialize_current sc fuel st st1 eit hin.2.1 hcur h1
      have hin1 := environment.initialize_instances sc fuel st st1 eit envs
        (hl eit (List.mem_cons_self _ _)) hin h1
      obtain ⟨b1, b2, b3, b4⟩ := ih st1 st' (fun e he => hl e (List.mem_cons_of_mem _ he))
        hin1 a1 h
      refine ⟨b1, store.same_surface_trans a2 b2, fun e he => ?_, fun e he => ?_⟩
      · rcases List.mem_cons.1 he with h0 | h0
        · rw [h0]
          exact b4 eit a3
        · exact b3 e h0
      · apply b4
        by_cases hee : e = eit
        · rw [hee]; exact a3
        · rw [a4 e hee]; exact he

theorem kmc.create_environments_row_types (surface : lattice) (row : Nat) (t : Nat)
    (hpt : ∀ col p, surface.get_point row col = .ok p → p.type = t) :
    ∀ (l : List Nat) (acc r : List Nat × store),
      kmc.create_environments_row surface row l acc = .ok r →
      acc.2.next ≤ r.2.next ∧
      (∀ a, a < acc.2.next → r.2.env a = acc.2.env a) ∧
      (∀ a, acc.2.next ≤ a → a < r.2.next → (r.2.env a).center.type = t) := by
  intro l
  induction l with
  | nil =>
    intro acc r h
    simp only [kmc.create_environments_row, Except.ok.injEq] at h
    subst h
    exact ⟨le_refl _, fun _ _ => rfl, fun a h1 h2 => by omega⟩
  | cons col rest ih =>
    intro acc r h
    simp only [kmc.create_environments_row] at h
    cases h1 : surface.get_point row col with
    | error e => simp only [h1] at h; cases h
    | ok point =>
      simp only [h1] at h
      obtain ⟨i1, i2, i3⟩ := ih _ r h
      simp only at i1 i2 i3
      refine ⟨by omega, fun a ha => ?_, fun a ha1 ha2 => ?_⟩
      · rw [i2 a (by omega)]
        simp [Function.update_noteq (Nat.ne_of_lt ha)]
      · by_cases hlt : a < acc.2.next + 1
        · have : a = acc.2.next := by omega
          rw [i2 a hlt, this]
          simp [Function.update_same, environment.ctor, hpt col point h1]
        · exact i3 a (by omega) ha2

theorem kmc.create_environments_rows_types (surface : lattice) (t : Nat)
    (hpt : ∀ row col p, surface.get_point row col = .ok p → p.type = t) :
    ∀ (l : List Nat) (acc r : List (List Nat) × store),
      kmc.create_environments_rows surface l acc = .ok r →
      acc.2.next ≤ r.2.next ∧
      (∀ a, a < acc.2.next → r.2.env a = acc.2.env a) ∧
      (∀ a, acc.2.next ≤ a → a < r.2.next → (r.2.env a).center.type = t) := by
  intro l
  induction l with
  | nil =>
    intro acc r h
    simp only [kmc.create_environments_rows, Except.ok.injEq] at h
    subst h
    exact ⟨le_refl _, fun _ _ => rfl, fun a h1 h2 => by omega⟩
  | cons row rest ih =>
    intro acc r h
    simp only [kmc.create_environments_rows] at h
    cases h1 : kmc.create_environments_row surface row (List.range surface.get_size)
        ([], acc.2) with
    | error e => simp only [h1] at h; cases h
    | ok r1 =>
      simp only [h1] at h
      obtain ⟨a1, a2, a3⟩ := kmc.create_environments_row_types surface row t (hpt row) _
        ([], acc.2) r1 h1
      obtain ⟨i1, i2, i3⟩ := ih _ r h
      simp only at a1 a2 a3 i1 i2 i3
      refine ⟨by omega, fun a ha => ?_, fun a ha1 ha2 => ?_⟩
      · rw [i2 a (by omega), a2 a ha]
      · by_cases hlt : a < r1.2.next
        · rw [i2 a hlt]
          exact a3 a ha1 hlt
        · exact i3 a (by omega) ha2

theorem flatten_rows_eq (b size : Nat) :
    ∀ n, ((List.range n).map (fun j => List.range' (b + j * size) size)).flatten
      = List.range' b (n * size)
  | 0 => by simp
  | n + 1 => by
    rw [List.range_succ, List.map_append, List.flatten_append, flatten_rows_eq b size n]
    simp only [List.map_cons, List.map_nil, List.flatten_cons, List.flatten_nil,
      List.append_nil]
    rw [List.range'_append_1, Nat.succ_mul, Nat.add_comm]

theorem lattice.get_point_type (s0 s1 : lattice) (empty_site : Option Nat) (t : Nat)
    (hpoints : s0.points = []) (ht : ∀ e, empty_site = some e → e = t)
    (hinit : s0.initialize empty_site = .ok s1) (row col : Nat) (p : lattice_point)
    (h : s1.get_point row col = .ok p) : p.type = t := by
  unfold lattice.initialize at hinit
  unfold lattice.get_point at h
  split_ifs at hinit with hpos
  · cases empty_site with
    | none => cases hinit
    | some e =>
      simp only [Except.ok.injEq] at hinit
      subst hinit
      split_ifs at h with h1 h2 h3
      cases hp : (s0.make_surface e).points[(row * s0.size + col) % 2 ^ 32]? with
      | none =>
        simp only [lattice.make_surface] at h hp
        rw [hp] at h
        cases h
      | some q =>
        simp only [lattice.make_surface] at h hp
        rw [hp] at h
        simp only [Except.ok.injEq] at h
        subst h
        have hq := List.getElem?_mem hp
        rw [← ht e rfl]
        exact (lattice.make_surface_points s0 e hpoints).2.1 q hq
  · simp only [Except.ok.injEq] at hinit
    subst hinit
    split_ifs at h with h1 h2 h3
    dsimp only at h2
    omega

/-- The lattice that `kmc::create_environments` builds on a store without
environments: the new environments are the environments of the engine, each
once; no environment has a multisite partner; the environments of the engine
hold the species of the lattice points and are initialized; the registered
instances describe the lattice; and the site-groups have been built for the
environments of the engine only. -/
theorem kmc.create_environments_lattice (sc : Nat → Nat) (fuel : Nat) (k k' : kmc)
    (st st' : store) (empty_site : Option Nat) (t : Nat) (hblank : st.blank)
    (henvs : k.environments = [])
    (hpos : ∀ row col p, k.surface.get_point row col = .ok p → p.row = row ∧ p.column = col)
    (htyp : ∀ row col p, k.surface.get_point row col = .ok p → p.type = t)
    (h : kmc.create_environments sc fuel k st empty_site = .ok (k', st')) :
    k'.environments.Nodup ∧ (∀ e, (st'.env e).multisite = []) ∧
    (∀ e ∈ k'.environments, (st'.env e).center.type = t ∧ (st'.env e).initialized = true) ∧
    st'.instances_current sc ∧ st'.touched (fun e => e ∈ k'.environments) ∧
    (∀ e, e ∉ k'.environments → (st'.env e).neighbors = []) := by
  unfold kmc.create_environments at h
  cases htype : k.env_type with
  | none => simp only [htype] at h; cases h
  | some type =>
    simp only [htype] at h
    cases hrows : kmc.create_environments_rows k.surface (List.range k.surface.get_size)
        ([], { st with
          env_type := type, radial := k.env_radial, max_sites := k.max_sites,
          random := k.random, empty_site := empty_site }) with
    | error e => simp only [hrows] at h; cases h
    | ok created =>
      simp only [hrows] at h
      cases hnb : kmc.set_neighbors_all created.1 (k.environments ++ created.1.flatten)
          created.2 with
      | error e => simp only [hnb] at h; cases h
      | ok st1 =>
        simp only [hnb] at h
        cases hini : kmc.initialize_all sc fuel (k.environments ++ created.1.flatten) st1 with
        | error e => simp only [hini] at h; cases h
        | ok st2 =>
          simp only [hini, Except.ok.injEq, Prod.mk.injEq] at h
          obtain ⟨rfl, rfl⟩ := h
          simp only [henvs, List.nil_append] at hnb hini ⊢
          -- the environments created
          obtain ⟨s1, s2, _, _, _⟩ := kmc.create_environments_rows_spec k.surface hpos _ _
            created hrows
          simp only [List.nil_append, List.length_range] at s1 s2
          have hflat : created.1.flatten
              = List.range' st.next (k.surface.get_size * k.surface.get_size) := by
            rw [s1]
            exact flatten_rows_eq st.next k.surface.get_size k.surface.get_size
          obtain ⟨_, _, t3⟩ := kmc.create_environments_rows_types k.surface t htyp _ _
            created hrows
          simp only at t3
          have hb1 : created.2.blank :=
            kmc.create_environments_rows_blank k.surface _ _ created (by exact hblank) hrows
          have hu := kmc.set_neighbors_all_blank created.1 created.1.flatten
            _ created.2 st1 (fun e he => he) (fun e => by
              obtain ⟨c, hc⟩ := hb1 e
              rw [hc]
              exact ⟨rfl, rfl, fun _ => rfl⟩) hnb
          obtain ⟨n1, n2⟩ := kmc.set_neighbors_all_kept created.1 _ created.2 st1 hnb
          have ht1 : st1.touched (fun _ => False) := by
            refine ⟨fun e he => he.elim, fun e _ => (hu e).1, fun e p g hpg => ?_⟩
            rw [(hu e).2.1] at hpg
            cases hpg
          obtain ⟨ht2, hn2⟩ := kmc.initialize_all_touched sc fuel _ st1 st2 _ ht1 hini
          have hD : (fun e => e ∈ created.1.flatten ∨ False)
              = (fun e => e ∈ created.1.flatten) := by
            funext e
            simp
          rw [hD] at ht2
          -- the instances
          have h0 : created.2.instances_in created.1.flatten := by
            have hnone : ∀ e, (created.2.env e).ensembles = [] := by
              intro e
              obtain ⟨c, hc⟩ := hb1 e
              rw [hc]
              rfl
            refine ⟨⟨fun e => ?_, fun e1 e2 p hp1 _ => ?_⟩, fun e p hp => ?_,
              fun e _ => hnone e⟩
            · rw [hnone e]; exact List.nodup_nil
            · rw [hnone e1] at hp1; cases hp1
            · rw [hnone e] at hp; cases hp
          have h3 := kmc.set_neighbors_all_instances created.1 _ _ created.2 st1 h0 hnb
          have hcur1 : st1.instances_current sc := by
            intro e p g hpg
            rw [(hu e).2.1] at hpg
            cases hpg
          obtain ⟨c1, c2, c3, _⟩ := kmc.initialize_all_current sc fuel created.1.flatten _ st1
            st2 (fun e he => he) h3 hcur1 hini
          refine ⟨?_, fun e => ?_, fun e he => ⟨?_, c3 e he⟩, c1, ht2, fun e he => ?_⟩
          · rw [hflat]
            exact List.nodup_range' _ _
          · rw [← (c2.2.2.2.2 e).2, (n2 e).2.1]
            obtain ⟨c, hc⟩ := hb1 e
            rw [hc]
            rfl
          · rw [← (c2.2.2.2.2 e).1, (n2 e).1]
            rw [hflat, List.mem_range'_1] at he
            exact t3 e he.1 (by rw [s2]; exact he.2)
          · rw [hn2 e]
            exact (hu e).2.2 he

theorem environment.near_mem (nb : Nat → List Nat) (radial : Bool) (max_sites : Nat)
    (L : List Nat) (hsym : ∀ a x, x ∈ nb a → a ∈ nb x) (hout : ∀ e, e ∉ L → nb e = [])
    (e m : Nat) (he : e ∈ L) (h : environment.near nb radial max_sites e m) : m ∈ L := by
  have hnb : ∀ c, m ∈ nb c → m ∈ L := by
    intro c hc
    by_contra hm
    have := hsym c m hc
    rw [hout m hm] at this
    cases this
  unfold environment.near at h
  cases radial with
  | true =>
    simp only [if_true] at h
    by_cases hem : e = m
    · rw [← hem]; exact he
    · obtain ⟨c, hc⟩ := environment.within_neighbor nb _ e m h.2 hem
      exact hnb c hc
  | false =>
    simp only [Bool.false_eq_true, if_false] at h
    rcases h with h | h
    · rw [h]; exact he
    · exact hnb e h

/-- After `kmc::initialize` on an engine and a store as their constructors
leave them, with an empty site of coordination 1, the invariant of the engine
with its lattice holds and every environment of the engine holds the empty
site. -/
theorem kmc.initialize_whole (sc : Nat → Nat) (mech : model_mechanism) (empty : Nat)
    (fuel : Nat) (k k' : kmc) (st st' : store) (hone : sc empty = 1)
    (hens : k.ensembles = []) (henvs : k.environments = [])
    (hpoints : k.surface.points = []) (hsize : k.surface.size * k.surface.size ≤ 2 ^ 32)
    (hblank : st.blank) (h : kmc.initialize sc mech (some empty) fuel k st = .ok (k', st')) :
    kmc.lattice_whole sc k' st' ∧
    (∀ e ∈ k'.environments, (st'.env e).center.type = empty) ∧
    (∀ e, e ∉ k'.environments → (st'.env e).sites = []) := by
  obtain ⟨g1, g2⟩ := kmc.initialize_registered sc mech (some empty) fuel k k' st st'
    (by rw [hens]; exact ⟨List.Pairwise.nil, fun c hc => by cases hc⟩)
    (fun e => by obtain ⟨c, hc⟩ := hblank e; rw [hc]; rfl) h
  have g3 := kmc.initialize_built sc mech (some empty) fuel k k' st st' hblank h
  have g4 := kmc.initialize_symmetric sc mech (some empty) fuel k k' st st' henvs hpoints hsize
    hblank h
  unfold kmc.initialize at h
  split at h
  · cases h
  · rename_i r hr
    have hr2 : r.2.points = [] ∧ r.2.size * r.2.size ≤ 2 ^ 32 ∧
        ∀ e, r.1 = some e → e = empty := by
      split_ifs at hr
      · simp only [Except.ok.injEq] at hr
        rw [← hr]
        exact ⟨hpoints, hsize, fun e he => by simpa using he.symm⟩
      · unfold lattice.set_size at hr
        split_ifs at hr
        simp only [Except.ok.injEq] at hr
        rw [← hr]
        exact ⟨hpoints, by simp, fun e he => by cases he⟩
    split at h
    · cases h
    · rename_i k1 hk1
      obtain ⟨s1, s2⟩ := kmc.create_ensembles_surface sc mech r.1 _ k1 hk1
      split at h
      · cases h
      · rename_i surface hsurf
        split at h
        · cases h
        · rename_i created hcr
          split at h
          · cases h
          · rename_i k2 hge
            simp only [Except.ok.injEq, Prod.mk.injEq] at h
            obtain ⟨kc, stc⟩ := created
            simp only at hge h
            obtain ⟨rfl, rfl⟩ := h
            have hs0 : k1.surface = r.2 := s1
            rw [hs0] at hsurf
            obtain ⟨c1, c2, c3, c4, c5, c6⟩ := kmc.create_environments_lattice sc fuel _ kc st
              stc r.1 empty hblank (by show k1.environments = []; rw [s2]; exact henvs)
              (fun row col p hp =>
                (lattice.get_point_position r.2 surface r.1 hr2.1 hr2.2.1 hsurf row col p hp).2)
              (fun row col p hp =>
                lattice.get_point_type r.2 surface r.1 empty hr2.1 hr2.2.2 hsurf row col p hp)
              hcr
            have henv2 : k2.environments = kc.environments := by
              unfold kmc.get_ensembles kmc.get_ensembles_changed at hge
              split at hge
              · cases hge
              · simp only [Except.ok.injEq] at hge
                rw [← hge]
            unfold kmc.lattice_whole
            rw [henv2]
            refine ⟨⟨g1, g2, g3, g4, ?_, c4, ?_, c1, fun e he => (c3 e he).2⟩,
              fun e he => (c3 e he).1, fun e he => c5.2.1 e he⟩
            · intro m
              rw [c2 m]
              exact ⟨List.nodup_nil, List.not_mem_nil _,
                fun p hp => absurd hp (List.not_mem_nil _), fun hh => absurd rfl hh⟩
            · intro e g hg m hm
              have hD : e ∈ kc.environments := by
                by_contra hne
                rw [c5.2.1 e hne] at hg
                cases hg
              have hnear := (c5.1 e hD).1 g hg m hm
              have hm' := environment.near_mem (fun a => (stc.env a).neighbors) stc.radial
                stc.max_sites kc.environments g4 c6 e m hD hnear
              refine ⟨hm', ?_⟩
              rw [(c3 m hm').1, hone]

theorem kmc.initialized_engine_whole (sc : Nat → Nat) (mech : model_mechanism) (empty : Nat)
    (k : kmc) (st : store) (hone : sc empty = 1)
    (h : kmc.initialized_engine sc mech empty k st) :
    kmc.lattice_whole sc k st ∧
    (∀ e ∈ k.environments, (st.env e).center.type = empty) ∧
    (∀ e, e ∉ k.environments → (st.env e).sites = []) := by
  obtain ⟨k0, st0, fuel, h1, h2, h3, h4, h5, h6⟩ := h
  exact kmc.initialize_whole sc mech empty fuel k0 k st0 st hone h1 h2 h3 h4 h5 h6

theorem environment.small_group_connected (env : Nat → environment) (g : List Nat)
    (h : environment.small_group env g = true) :
    g.Pairwise (· < ·) ∧ environment.connected_group env g := by
  match g, h with
  | [a], _ =>
    refine ⟨List.pairwise_singleton _ _, by simp, fun x hx y hy => ?_⟩
    rw [List.mem_singleton.1 hx, List.mem_singleton.1 hy]
  | [a, b], h =>
    simp only [environment.small_group, Bool.and_eq_true, decide_eq_true_eq] at h
    obtain ⟨⟨h1, h2⟩, h3⟩ := h
    refine ⟨by simp [h1], by simp, fun x hx y hy => ?_⟩
    have hab : Relation.ReflTransGen (fun x y => y ∈ [a, b] ∧ y ∈ (env x).neighbors) a b :=
      Relation.ReflTransGen.single ⟨by simp, h2⟩
    have hba : Relation.ReflTransGen (fun x y => y ∈ [a, b] ∧ y ∈ (env x).neighbors) b a :=
      Relation.ReflTransGen.single ⟨by simp, h3⟩
    simp only [List.mem_cons, List.mem_singleton, List.not_mem_nil, or_false] at hx hy
    rcases hx with rfl | rfl <;> rcases hy with rfl | rfl
    · exact Relation.ReflTransGen.refl
    · exact hab
    · exact hba
    · exact Relation.ReflTransGen.refl

/-- When every environment of the engine holds the empty site, no other
species occupies a site of the lattice. -/
theorem kmc.occupied_sites_empty (w : simulation) (empty s : Nat) (hs : s ≠ empty)
    (h : ∀ e ∈ w.engine.environments, (w.memory.env e).center.type = empty) :
    kmc.occupied_sites w s = 0 := by
  unfold kmc.occupied_sites
  rw [List.length_eq_zero, List.filter_eq_nil_iff]
  intro e he
  rw [h e he]
  simpa using fun heq => hs heq.symm

theorem example_engine_initialized :
    kmc.initialized_engine example_sc example_mech 1 example_engine_init example_memory_init :=
  ⟨example_engine, example_memory, 20, rfl, rfl, rfl, by decide, fun _ => ⟨_, rfl⟩,
    example_initialize_eq⟩

theorem example_memory_init_groups : example_memory_init.groups_connected := by
  intro e g hg
  by_cases he : e ∈ example_engine_init.environments
  · have hall : ∀ e ∈ example_engine_init.environments, ∀ g ∈ (example_memory_init.env e).sites,
        environment.small_group example_memory_init.env g = true := by
      with_unfolding_all decide
    exact environment.small_group_connected _ _ (hall e he g hg)
  · rw [(kmc.initialized_engine_whole example_sc example_mech 1 _ _ rfl
      example_engine_initialized).2.2 e he] at hg
    cases hg

/-! ## Lemmas on `reactor::kmc_step` -/

theorem quantity.set_quantity_same (prec : precision) (q q' : quantity) (t : quantity.type)
    (h : q.set_quantity prec t (q.get_quantity t) = .ok q') : q' = q := by
  cases q with
  | surface_quantity c =>
    simp only [quantity.set_quantity, quantity.get_quantity] at h
    split_ifs at h
    cases h
    rfl
  | fluid_quantity c p f =>
    cases t <;> simp only [quantity.set_quantity, quantity.get_quantity] at h
    · split_ifs at h
      cases h
      rfl
    · split_ifs at h
      cases h
      rfl
    · cases h
      rfl

/-- With equal temperatures `batch_reactor::kmc_step(msp, dx, T0, T0)` changes
nothing. -/
theorem batch_reactor.kmc_step_same (s s1 : state) (msp : Nat) (dx T0 : ℚ)
    (hp : s.rxtor.fluid_type = .Epressure)
    (h : batch_reactor.kmc_step s msp dx T0 T0 = .ok s1) : s1 = s ∧ T0 ≠ 0 := by
  unfold batch_reactor.kmc_step at h
  rw [if_pos hp] at h
  unfold double_div at h
  by_cases hT : T0 = 0
  · rw [if_pos hT] at h
    cases h
  · rw [if_neg hT] at h
    simp only at h
    rw [mul_div_assoc, div_self hT, mul_one] at h
    unfold state.set_quantity state.get_quantity at h
    cases hq : (s.amount msp).set_quantity s.prec .Epressure
        ((s.amount msp).get_quantity .Epressure) with
    | error e => rw [hq] at h; cases h
    | ok q =>
      rw [hq] at h
      cases h
      have := quantity.set_quantity_same _ _ _ _ hq
      subst this
      rw [Function.update_eq_self]
      exact ⟨rfl, hT⟩

theorem reactor.kmc_step_loop_same (sc : Nat → Nat) (dx T0 : ℚ) (species : List Nat) :
    ∀ (s s' : state), s.rxtor.fluid_type = .Epressure →
      reactor.kmc_step_loop sc batch_reactor.kmc_step dx T0 T0 species s = .ok s' → s' = s := by
  induction species with
  | nil =>
    intro s s' _ h
    simp only [reactor.kmc_step_loop] at h
    cases h
    rfl
  | cons sp rest ih =>
    intro s s' hp h
    simp only [reactor.kmc_step_loop] at h
    split_ifs at h with hsc
    · cases h1 : batch_reactor.kmc_step s sp dx T0 T0 with
      | error e => rw [h1] at h; cases h
      | ok s1 =>
        rw [h1] at h
        obtain ⟨he, _⟩ := batch_reactor.kmc_step_same s s1 sp dx T0 hp h1
        subst he
        exact ih _ _ hp h
    · exact ih _ _ hp h

/-! ## Lemmas on `mechanism::expand_species` -/

theorem multiset_insert_perm (x : Nat) (l : List Nat) : (multiset_insert x l).Perm (x :: l) := by
  induction l with
  | nil => exact List.Perm.refl _
  | cons y ys ih =>
    simp only [multiset_insert]
    split_ifs
    · exact List.Perm.refl _
    · exact (List.Perm.cons y ih).trans (List.Perm.swap x y ys)

theorem multiset_insert_sorted (x : Nat) (l : List Nat) (h : l.Pairwise (· ≤ ·)) :
    (multiset_insert x l).Pairwise (· ≤ ·) := by
  induction l with
  | nil => simp [multiset_insert]
  | cons y ys ih =>
    rw [List.pairwise_cons] at h
    simp only [multiset_insert]
    split_ifs with hxy
    · refine List.pairwise_cons.mpr ⟨?_, List.pairwise_cons.mpr h⟩
      intro z hz
      rcases List.mem_cons.mp hz with rfl | hin
      · omega
      · have := h.1 z hin
        omega
    · refine List.pairwise_cons.mpr ⟨?_, ih h.2⟩
      intro z hz
      rcases List.mem_cons.mp ((multiset_insert_perm x ys).subset hz) with rfl | hin
      · omega
      · exact h.1 z hin

theorem foldl_set_insert_lex_mem {α : Type} (f : α → List Nat) (l : List α)
    (c : List (List Nat)) (z : List Nat) :
    z ∈ l.foldl (fun c x => set_insert lexicographical_compare (f x) c) c ↔
      z ∈ c ∨ ∃ x ∈ l, z = f x := by
  induction l generalizing c with
  | nil => simp
  | cons a rest ih =>
    rw [List.foldl_cons, ih, set_insert_lex_mem]
    constructor
    · rintro ((h | h) | ⟨x, hx, h⟩)
      · exact Or.inr ⟨a, List.mem_cons_self _ _, h⟩
      · exact Or.inl h
      · exact Or.inr ⟨x, List.mem_cons_of_mem _ hx, h⟩
    · rintro (h | ⟨x, hx, h⟩)
      · exact Or.inl (Or.inr h)
      · rcases List.mem_cons.mp hx with rfl | hin
        · exact Or.inl (Or.inl h)
        · exact Or.inr ⟨x, hin, h⟩

theorem foldl_foldl_set_insert_lex_mem (f : Nat → List Nat → List Nat) (subs : List (List Nat))
    (current : List Nat) (c : List (List Nat)) (z : List Nat) :
    z ∈ subs.foldl (fun c sub_it =>
        current.foldl (fun c2 ss_it => set_insert lexicographical_compare (f ss_it sub_it) c2) c)
        c ↔
      z ∈ c ∨ ∃ sub ∈ subs, ∃ x ∈ current, z = f x sub := by
  induction subs generalizing c with
  | nil => simp
  | cons a rest ih =>
    rw [List.foldl_cons, ih, foldl_set_insert_lex_mem (fun x => f x a)]
    constructor
    · rintro ((h | ⟨x, hx, h⟩) | ⟨sub, hsub, x, hx, h⟩)
      · exact Or.inl h
      · exact Or.inr ⟨a, List.mem_cons_self _ _, x, hx, h⟩
      · exact Or.inr ⟨sub, List.mem_cons_of_mem _ hsub, x, hx, h⟩
    · rintro (h | ⟨sub, hsub, x, hx, h⟩)
      · exact Or.inl (Or.inl h)
      · rcases List.mem_cons.mp hsub with rfl | hin
        · exact Or.inl (Or.inr ⟨x, hx, h⟩)
        · exact Or.inr ⟨sub, hin, x, hx, h⟩

theorem foldl_foldl_set_insert_lex_sorted (f : Nat → List Nat → List Nat)
    (subs : List (List Nat)) (current : List Nat) (c : List (List Nat))
    (hc : c.Pairwise (fun a b => lexicographical_compare a b = true)) :
    (subs.foldl (fun c sub_it =>
        current.foldl (fun c2 ss_it => set_insert lexicographical_compare (f ss_it sub_it) c2) c)
        c).Pairwise (fun a b => lexicographical_compare a b = true) := by
  induction subs generalizing c with
  | nil => exact hc
  | cons a rest ih =>
    rw [List.foldl_cons]
    exact ih _ (foldl_set_insert_lex_sorted (fun x => f x a) current c hc)

theorem lex_sorted_nodup (l : List (List Nat))
    (h : l.Pairwise (fun a b => lexicographical_compare a b = true)) : l.Nodup := by
  refine h.imp ?_
  intro a b hab heq
  subst heq
  rw [lexicographical_compare_irrefl] at hab
  cases hab

/-- The set that `mechanism::expand_species` fills is in ascending order. -/
theorem mechanism.expand_species_sorted (sets : List (List Nat)) (c : List (List Nat))
    (hc : c.Pairwise (fun a b => lexicographical_compare a b = true)) :
    (mechanism.expand_species sets c).Pairwise
      (fun a b => lexicographical_compare a b = true) := by
  match sets with
  | [] => exact hc
  | [current] =>
    exact foldl_set_insert_lex_sorted (fun x => multiset_insert x []) current c hc
  | current :: next :: rest =>
    exact foldl_foldl_set_insert_lex_sorted multiset_insert _ current c hc

/-- The multisets that `mechanism::expand_species` inserts for a sequence of
species sets that is not empty are the combinations of the species sets. -/
theorem mechanism.expand_species_mem (sets : List (List Nat)) (hne : sets ≠ []) :
    ∀ (c : List (List Nat)) (z : List Nat),
      z ∈ mechanism.expand_species sets c ↔ z ∈ c ∨ mechanism.is_combination sets z := by
  induction sets with
  | nil => exact absurd rfl hne
  | cons current more ih =>
    intro c z
    cases more with
    | nil =>
      simp only [mechanism.expand_species]
      rw [foldl_set_insert_lex_mem (fun x => multiset_insert x [])]
      refine or_congr Iff.rfl ?_
      constructor
      · rintro ⟨x, hx, rfl⟩
        refine ⟨by simp [multiset_insert], [x], ?_, by simp [multiset_insert]⟩
        exact List.Forall₂.cons hx List.Forall₂.nil
      · rintro ⟨_, xs, hxs, hperm⟩
        cases hxs with
        | cons hx hrest =>
          cases hrest
          refine ⟨_, hx, ?_⟩
          simpa [multiset_insert] using hperm
    | cons next rest =>
      simp only [mechanism.expand_species]
      rw [foldl_foldl_set_insert_lex_mem multiset_insert]
      refine or_congr Iff.rfl ?_
      have ih' := ih (by simp) []
      constructor
      · rintro ⟨sub, hsub, x, hx, rfl⟩
        rw [ih'] at hsub
        rcases hsub with hsub | ⟨hsorted, xs, hxs, hperm⟩
        · cases hsub
        · refine ⟨multiset_insert_sorted x sub hsorted, x :: xs, List.Forall₂.cons hx hxs, ?_⟩
          exact (multiset_insert_perm x sub).trans (List.Perm.cons x hperm)
      · rintro ⟨hsorted, xs, hxs, hperm⟩
        cases hxs with
        | @cons x _ xs' _ hx hrest =>
          have hxz : x ∈ z := hperm.symm.subset (List.mem_cons_self _ _)
          have hsub : z.erase x ∈ mechanism.expand_species (next :: rest) [] := by
            rw [ih']
            refine Or.inr ⟨hsorted.sublist (List.erase_sublist x z), xs', hrest, ?_⟩
            have := hperm.erase x
            rwa [List.erase_cons_head] at this
          refine ⟨z.erase x, hsub, x, hx, ?_⟩
          refine List.eq_of_perm_of_sorted ?_ hsorted
            (multiset_insert_sorted x _ (hsorted.sublist (List.erase_sublist x z)))
          exact ((multiset_insert_perm x _).trans (List.perm_cons_erase hxz).symm).symm

/-! ## Lemmas on the class of the reaction that `kmc::select_reaction` returns -/

theorem map_insert_mem {κ ν : Type} (lt : κ → κ → Bool) (kv z : κ × ν) (m : List (κ × ν))
    (h : z ∈ map_insert lt kv m) : z = kv ∨ z ∈ m := by
  induction m with
  | nil =>
    simp only [map_insert, List.mem_singleton] at h
    exact Or.inl h
  | cons e es ih =>
    simp only [map_insert] at h
    split_ifs at h
    · rcases List.mem_cons.mp h with h | h
      · exact Or.inl h
      · exact Or.inr h
    · rcases List.mem_cons.mp h with h | h
      · exact Or.inr (h ▸ List.mem_cons_self _ _)
      · rcases ih h with h | h
        · exact Or.inl h
        · exact Or.inr (List.mem_cons_of_mem _ h)
    · exact Or.inr h

theorem cum_entries_nonzero (n : Nat → ℚ)
    (L : List (Nat × (ensemble_map_iter × ensemble_map_iter))) (t : ℚ) :
    ∀ e ∈ cum_entries n L t, ∃ r, e.2 = some r ∧ n r ≠ 0 := by
  induction L generalizing t with
  | nil => simp [cum_entries]
  | cons x rest ih =>
    intro e he
    simp only [cum_entries] at he
    split_ifs at he with hgt
    · rcases List.mem_cons.mp he with rfl | hin
      · refine ⟨x.1, rfl, ?_⟩
        intro h0
        rw [h0, abs_zero, add_zero] at hgt
        exact lt_irrefl _ hgt
      · exact ih _ e hin
    · exact ih _ e he

/-- The net rate of the reaction that `kmc::select_reaction` returns is not
zero. -/
theorem kmc.select_reaction_nonzero (n : Nat → ℚ) (precision : ℚ) (k : kmc) (g : rng)
    (rxn : Nat) (rate : ℚ) (g' : rng)
    (h : kmc.select_reaction (fun rxn => .ok (n rxn)) precision k g = .ok ((rxn, rate), g')) :
    n rxn ≠ 0 := by
  obtain ⟨st, hloop, hcum, _⟩ := kmc.select_reaction_loop_cum n k.rxn_ens
    { total_rate := 0, rates := [], cum_rates := [] } (fun e he => by simp at he)
  simp only [List.nil_append] at hcum
  simp only [kmc.select_reaction, hloop] at h
  split_ifs at h with hlt
  split at h
  · cases h
  · cases h
  · rename_i x rxn' hnext
    have hmem : (x, some rxn') ∈ map_insert double_lt
        ((g.get_random_open st.total_rate).1, none) st.cum_rates := by
      unfold map_insert_next at hnext
      exact List.getElem?_mem hnext
    rcases map_insert_mem _ _ _ _ hmem with heq | hin
    · cases heq
    · rw [hcum] at hin
      obtain ⟨r, hr, hne⟩ := cum_entries_nonzero n k.rxn_ens 0 _ hin
      simp only [Option.some.injEq] at hr
      subst hr
      split at h
      · cases h
      · split_ifs at h
        · simp only [Except.ok.injEq, Prod.mk.injEq] at h
          obtain ⟨⟨rfl, _⟩, _⟩ := h
          exact hne
        · simp only [Except.ok.injEq, Prod.mk.injEq] at h
          obtain ⟨⟨rfl, _⟩, _⟩ := h
          exact hne

theorem kmc.check_quantities_rate_nonneg (sc : Nat → Nat) (s : state) (rxn : model_reaction)
    (rate molecules v : ℚ) (hrate : 0 ≤ rate)
    (h : kmc.check_quantities_rate sc s rxn rate molecules = .ok v) : 0 ≤ v := by
  unfold kmc.check_quantities_rate at h
  split_ifs at h
  · split at h
    · cases h
    · cases h; exact hrate
    · cases h; exact le_refl _
  · cases h; exact le_refl _

/-- With rates and scale factors that are not negative, a positive net rate of
a reaction with a forward class needs an instance in the forward class, and a
negative net rate an instance in the reverse class, if the reaction has
one. -/
theorem kmc.get_net_rate_class (f : rate_functions) (sc : Nat → Nat) (mech : model_mechanism)
    (k : kmc) (s : state) (km : kmc.rate_members)
    (e : Nat × (ensemble_map_iter × ensemble_map_iter)) (v : ℚ) (first : ensemble)
    (hrates : ∀ r rates, mech.reactions[e.1]? = some r →
      kmc.get_net_rate_rates f sc k s e.1 r = .ok rates → 0 ≤ rates.1 ∧ 0 ≤ rates.2)
    (hscale : ∀ x ∈ km.rate_scale, 0 ≤ x.2.1 ∧ 0 ≤ x.2.2)
    (hfirst : e.2.1 = some first)
    (h : kmc.get_net_rate f sc mech k s km e = .ok v) :
    (v > 0 → ∃ c, map_find ensemble.lt k.ensembles first = some c ∧ 1 ≤ c.2.length) ∧
    (v < 0 → ∀ second, e.2.2 = some second →
      ∃ c, map_find ensemble.lt k.ensembles second = some c ∧ 1 ≤ c.2.length) := by
  unfold kmc.get_net_rate at h
  cases hr : mech.reactions[e.1]? with
  | none => rw [hr] at h; cases h
  | some rxn =>
    rw [hr] at h
    simp only at h
    have hrt := hrates rxn
    unfold kmc.get_net_rate_rates at hrt
    split at h
    · cases h
    · rename_i rates hrates_eq
      have hnn := hrt rates hr hrates_eq
      cases hc : kmc.check_quantities sc s km rxn rates.1 rates.2 with
      | error err => rw [hc] at h; cases h
      | ok checked =>
        rw [hc] at h
        simp only at h
        have hchecked : 0 ≤ checked.1 ∧ 0 ≤ checked.2 := by
          unfold kmc.check_quantities at hc
          cases h1 : kmc.check_quantities_rate sc s rxn rates.1 km.scale with
          | error err => rw [h1] at hc; cases hc
          | ok a =>
            rw [h1] at hc
            simp only at hc
            cases h2 : kmc.check_quantities_rate sc s rxn rates.2 (-km.scale) with
            | error err => rw [h2] at hc; cases hc
            | ok b =>
              rw [h2] at hc
              cases hc
              exact ⟨kmc.check_quantities_rate_nonneg sc s rxn _ _ _ hnn.1 h1,
                kmc.check_quantities_rate_nonneg sc s rxn _ _ _ hnn.2 h2⟩
        cases hs : kmc.get_net_rate_sizes k e checked.1 checked.2 with
        | error err => rw [hs] at h; cases h
        | ok sized =>
          rw [hs] at h
          simp only at h
          cases hsc : map_find ptr_lt km.rate_scale e.1 with
          | none => rw [hsc] at h; cases h
          | some scale_it =>
            rw [hsc] at h
            simp only [Except.ok.injEq] at h
            obtain ⟨hs1, hs2⟩ := hscale scale_it (map_find_ptr_key _ _ _ hsc).2
            unfold kmc.get_net_rate_sizes at hs
            rw [hfirst] at hs
            simp only at hs
            cases hf : map_find ensemble.lt k.ensembles first with
            | none => rw [hf] at hs; cases hs
            | some first_it =>
              rw [hf] at hs
              simp only at hs
              have hlen1 : (0 : ℚ) ≤ (first_it.2.length : ℚ) := Nat.cast_nonneg _
              cases hsec : e.2.2 with
              | none =>
                rw [hsec] at hs
                cases hs
                simp only at h
                refine ⟨fun hv => ⟨first_it, rfl, ?_⟩, fun _ second hsecond => by cases hsecond⟩
                by_contra hlt
                have hz : first_it.2.length = 0 := by omega
                rw [hz] at h
                simp only [Nat.cast_zero, mul_zero, zero_mul, zero_sub] at h
                have : 0 ≤ checked.2 * scale_it.2.2 := mul_nonneg hchecked.2 hs2
                linarith
              | some second =>
                rw [hsec] at hs
                simp only at hs
                cases hf2 : map_find ensemble.lt k.ensembles second with
                | none => rw [hf2] at hs; cases hs
                | some second_it =>
                  rw [hf2] at hs
                  cases hs
                  simp only at h
                  have hlen2 : (0 : ℚ) ≤ (second_it.2.length : ℚ) := Nat.cast_nonneg _
                  constructor
                  · intro hv
                    refine ⟨first_it, rfl, ?_⟩
                    by_contra hlt
                    have hz : first_it.2.length = 0 := by omega
                    rw [hz] at h
                    simp only [Nat.cast_zero, mul_zero, zero_mul, zero_sub] at h
                    have : 0 ≤ checked.2 * (second_it.2.length : ℚ) * scale_it.2.2 :=
                      mul_nonneg (mul_nonneg hchecked.2 hlen2) hs2
                    linarith
                  · intro hv second' hsecond
                    simp only [Option.some.injEq] at hsecond
                    subst hsecond
                    refine ⟨second_it, hf2, ?_⟩
                    by_contra hlt
                    have hz : second_it.2.length = 0 := by omega
                    rw [hz] at h
                    simp only [Nat.cast_zero, mul_zero, zero_mul, sub_zero] at h
                    have : 0 ≤ checked.1 * (first_it.2.length : ℚ) * scale_it.2.1 :=
                      mul_nonneg (mul_nonneg hchecked.1 hlen1) hs1
                    linarith

theorem environment.place_on_site_error (s : Nat) (site : List Nat) :
    ∀ (l : List Nat) (st : store) (e : exn),
      environment.place_on_site s site l st = .error e → e = .bad_pointer_set_species := by
  intro l
  induction l with
  | nil => intro st e h; cases h
  | cons git rest ih =>
    intro st e h
    simp only [environment.place_on_site] at h
    cases h1 : environment.set_species st git s (site.filter (fun it => it != git)) with
    | error e1 =>
      rw [h1] at h
      cases h
      unfold environment.set_species at h1
      split_ifs at h1
      cases h1
      rfl
    | ok st1 =>
      rw [h1] at h
      exact ih _ _ h

theorem environment.get_sites_error (env : Nat → environment) :
    ∀ (coord : Nat) (envs : List Nat) (sites : List (List Nat)) (e : exn),
      environment.get_sites env coord envs sites = .error e → e = .undefined_behaviour := by
  intro coord
  induction coord using Nat.strong_induction_on with
  | _ coord ih =>
    intro envs sites e h
    match coord with
    | 0 => cases h; rfl
    | 1 => cases h
    | c + 2 =>
      simp only [environment.get_sites] at h
      cases h1 : environment.get_sites env (c + 1) envs [] with
      | error e1 =>
        rw [h1] at h
        cases h
        exact ih (c + 1) (by omega) _ _ _ h1
      | ok small => rw [h1] at h; cases h

theorem environment.place_species_loop_error
    (place_rest : store → List Nat → Except exn (Bool × store)) (s : Nat) (envs : List Nat)
    (hrest : ∀ st envs' e, place_rest st envs' = .error e → e.of_place_species) :
    ∀ (L : List (List Nat)) (st : store) (e : exn),
      environment.place_species_loop place_rest s envs L st = .error e →
      e.of_place_species := by
  intro L
  induction L with
  | nil => intro st e h; cases h
  | cons site more ih =>
    intro st e h
    simp only [environment.place_species_loop] at h
    cases hr : place_rest st (envs.filter (fun orig_it => !set_contains ptr_lt site orig_it)) with
    | error e1 =>
      rw [hr] at h
      cases h
      exact hrest _ _ _ hr
    | ok r =>
      obtain ⟨b1, st1⟩ := r
      rw [hr] at h
      cases b1 with
      | true =>
        simp only at h
        cases hp : environment.place_on_site s site site st1 with
        | error e1 =>
          rw [hp] at h
          cases h
          exact Or.inr (Or.inr (Or.inr (environment.place_on_site_error _ _ _ _ _ hp)))
        | ok st2 => rw [hp] at h; cases h
      | false =>
        simp only at h
        exact ih _ _ h

theorem environment.place_species_error (sc : Nat → Nat) (sp : List Nat) :
    ∀ (st : store) (envs : List Nat) (e : exn),
      environment.place_species sc sp st envs = .error e → e.of_place_species := by
  induction sp with
  | nil =>
    intro st envs e h
    simp only [environment.place_species] at h
    split_ifs at h
    cases h
    exact Or.inl rfl
  | cons s rest ih =>
    intro st envs e h
    simp only [environment.place_species] at h
    split_ifs at h with h1 h2
    · cases h; exact Or.inr (Or.inl rfl)
    · cases h; exact Or.inr (Or.inr (Or.inl rfl))
    · cases hs : environment.get_sites st.env (sc s) envs [] with
      | error e1 =>
        rw [hs] at h
        cases h
        exact Or.inr (Or.inr (Or.inl (environment.get_sites_error _ _ _ _ _ hs)))
      | ok S =>
        rw [hs] at h
        simp only at h
        cases hg : st.random with
        | none => rw [hg] at h; cases h; exact Or.inr (Or.inr (Or.inl rfl))
        | some g =>
          rw [hg] at h
          exact environment.place_species_loop_error _ s envs ih _ _ _ h

theorem environment.recreate_ensembles_error (sc : Nat → Nat) :
    ∀ (l : List Nat) (st : store) (e : exn),
      environment.recreate_ensembles sc l st = .error e → e = .undefined_behaviour := by
  intro l
  induction l with
  | nil => intro st e h; cases h
  | cons it rest ih =>
    intro st e h
    simp only [environment.recreate_ensembles] at h
    cases h1 : environment.create_ensembles sc st it with
    | error e1 =>
      rw [h1] at h
      cases h
      exact environment.create_ensembles_error sc _ it _ h1
    | ok st1 => rw [h1] at h; exact ih _ _ h

theorem environment.change_ensemble_error (sc : Nat → Nat) (st : store) (this : Nat)
    (reactants : Nat) (products remove changed : List Nat) (e : exn)
    (h : environment.change_ensemble sc st this reactants products remove changed = .error e) :
    e.of_change_ensemble := by
  unfold environment.change_ensemble at h
  split_ifs at h with hinit
  · cases h; exact Or.inl rfl
  · split at h
    · cases h; exact Or.inr (Or.inl rfl)
    · split at h
      · cases h; exact Or.inr (Or.inr (Or.inr (Or.inr (Or.inr (Or.inl rfl)))))
      · split_ifs at h
        · cases h; exact Or.inr (Or.inr (Or.inl rfl))
        · split at h
          · cases h; exact Or.inr (Or.inr (Or.inr (Or.inr (Or.inr (Or.inl rfl)))))
          · split at h
            · rename_i e1 hp
              cases h
              exact Or.inr (Or.inr (Or.inr (environment.place_species_error _ _ _ _ _ hp)))
            · split at h
              · rename_i e1 hr
                cases h
                exact Or.inr (Or.inr (Or.inr (Or.inr (Or.inr (Or.inl
                  (environment.recreate_ensembles_error _ _ _ _ hr))))))
              · cases h

theorem kmc.delete_ensembles_loop_error :
    ∀ (l : List Nat) (acc : List (ensemble × ens_env_map) × store) (e : exn),
      kmc.delete_ensembles_loop l acc = .error e →
      e = .undefined_behaviour ∨ e = .bad_pointer_corrupted := by
  intro l
  induction l with
  | nil => intro acc e h; cases h
  | cons x rest ih =>
    intro acc e h
    simp only [kmc.delete_ensembles_loop] at h
    split at h
    · cases h; exact Or.inl rfl
    · split at h
      · split_ifs at h
        · cases h; exact Or.inr rfl
        · exact ih _ _ h
      · exact ih _ _ h

theorem kmc.get_ensembles_env_error (st : store) (env_it : Nat) :
    ∀ (l : List Nat) (ensembles : List (ensemble × ens_env_map)) (e : exn),
      kmc.get_ensembles_env st env_it l ensembles = .error e → e = .undefined_behaviour := by
  intro l
  induction l with
  | nil => intro ensembles e h; cases h
  | cons x rest ih =>
    intro ensembles e h
    simp only [kmc.get_ensembles_env] at h
    cases h1 : kmc.get_ensembles_ensemble st env_it ensembles x with
    | error e1 =>
      rw [h1] at h
      cases h
      unfold kmc.get_ensembles_ensemble at h1
      split at h1
      · cases h1; rfl
      · split at h1 <;> cases h1
    | ok v => rw [h1] at h; exact ih _ _ h

theorem kmc.get_ensembles_loop_error (st : store) :
    ∀ (l : List Nat) (ensembles : List (ensemble × ens_env_map)) (e : exn),
      kmc.get_ensembles_loop st l ensembles = .error e → e = .undefined_behaviour := by
  intro l
  induction l with
  | nil => intro ensembles e h; cases h
  | cons x rest ih =>
    intro ensembles e h
    simp only [kmc.get_ensembles_loop] at h
    cases h1 : kmc.get_ensembles_env st x (st.env x).ensembles ensembles with
    | error e1 => rw [h1] at h; cases h; exact kmc.get_ensembles_env_error _ _ _ _ _ h1
    | ok v => rw [h1] at h; exact ih _ _ h

/-- Past its test `size < 1U` the branch of `kmc::perform_reaction` for a
reaction on the surface does not throw the exception of the test. -/
theorem kmc.perform_reaction_surface_error (sc : Nat → Nat) (k : kmc) (st : store)
    (ens : ensemble) (products : List Nat) (e : exn)
    (hsize : ∀ c, map_find ensemble.lt k.ensembles ens = some c → ¬ c.2.length % 2 ^ 32 < 1)
    (h : kmc.perform_reaction_surface sc k st ens products = .error e) :
    e ≠ .bad_request_no_ensemble := by
  unfold kmc.perform_reaction_surface at h
  split at h
  · cases h; intro hh; cases hh
  · rename_i entry hentry
    rw [if_neg (hsize entry hentry)] at h
    split at h
    · cases h; intro hh; cases hh
    · split at h
      · rename_i g hg e1 hr
        cases h
        unfold rng.get_random_n at hr
        split_ifs at hr
        cases hr
        intro hh; cases hh
      · split at h
        · cases h; intro hh; cases hh
        · split at h
          · rename_i e1 hc
            cases h
            rcases environment.change_ensemble_error _ _ _ _ _ _ _ _ hc with
              h | h | h | h | h | h | h <;> (subst h; intro hh; cases hh)
          · split at h
            · rename_i e1 hd
              cases h
              unfold kmc.delete_ensembles at hd
              split at hd
              · rename_i e2 hd2
                cases hd
                rcases kmc.delete_ensembles_loop_error _ _ _ hd2 with h | h <;>
                  (subst h; intro hh; cases hh)
              · cases hd
            · split at h
              · rename_i e1 hc
                cases h
                unfold kmc.get_ensembles_changed at hc
                split at hc
                · rename_i e2 hc2
                  cases hc
                  rw [kmc.get_ensembles_loop_error _ _ _ _ hc2]
                  intro hh; cases hh
                · cases hc
              · cases h

theorem quantity.set_quantity_error (prec : precision) (q : quantity) (t : quantity.type)
    (a : ℚ) (e : exn) (h : q.set_quantity prec t a = .error e) :
    e = .bad_value_coverage ∨ e = .bad_value_concentration ∨ e = .bad_value_pressure := by
  cases q with
  | surface_quantity c =>
    simp only [quantity.set_quantity] at h
    split_ifs at h
    cases h
    exact Or.inl rfl
  | fluid_quantity c p fl =>
    cases t <;> simp only [quantity.set_quantity] at h
    · split_ifs at h
      cases h
      exact Or.inr (Or.inl rfl)
    · split_ifs at h
      cases h
      exact Or.inr (Or.inr rfl)
    · cases h

theorem reactor.kmc_reaction_loop_error (sc : Nat → Nat) (molecules : ℚ) :
    ∀ (l : List Nat) (s : state) (e : exn),
      reactor.kmc_reaction_loop sc molecules l s = .error e → e.of_kmc_reaction := by
  intro l
  induction l with
  | nil => intro s e h; cases h
  | cons sp rest ih =>
    intro s e h
    simp only [reactor.kmc_reaction_loop] at h
    split at h
    · rename_i e1 h1
      cases h
      unfold reactor.kmc_reaction_msp double_div at h1
      split_ifs at h1 <;> cases h1
      · exact Or.inl rfl
      · exact Or.inl rfl
      · exact Or.inl rfl
      · exact Or.inr (Or.inl rfl)
    · split at h
      · rename_i e1 h1
        cases h
        unfold state.add_to_quantity quantity.add_to_quantity at h1
        split at h1
        · rename_i e2 h2
          cases h1
          rcases quantity.set_quantity_error _ _ _ _ _ h2 with h | h | h
          · exact Or.inr (Or.inr (Or.inl h))
          · exact Or.inr (Or.inr (Or.inr (Or.inl h)))
          · exact Or.inr (Or.inr (Or.inr (Or.inr h)))
        · cases h1
      · exact ih _ _ h

theorem reactor.kmc_reaction_error (sc : Nat → Nat) (s : state) (reactants products : List Nat)
    (molecules : ℚ) (e : exn)
    (h : reactor.kmc_reaction sc s reactants products molecules = .error e) :
    e.of_kmc_reaction := by
  unfold reactor.kmc_reaction at h
  split at h
  · rename_i e1 h1
    cases h
    exact reactor.kmc_reaction_loop_error _ _ _ _ _ h1
  · exact reactor.kmc_reaction_loop_error _ _ _ _ _ h

/-- When the class of the direction of the rate, if the reaction has one, has
passed the test `size < 1U`, `kmc::perform_reaction` does not throw the
exception of the test. -/
theorem kmc.perform_reaction_reactor_error (sc : Nat → Nat) (w : simulation)
    (rxn : model_reaction) (rxn_for_rev : ensemble_map_iter × ensemble_map_iter) (rate : ℚ)
    (e : exn)
    (hfor : rate > 0 → ∀ ens c, rxn_for_rev.1 = some ens →
      map_find ensemble.lt w.engine.ensembles ens = some c → ¬ c.2.length % 2 ^ 32 < 1)
    (hrev : rate < 0 → ∀ ens c, rxn_for_rev.2 = some ens →
      map_find ensemble.lt w.engine.ensembles ens = some c → ¬ c.2.length % 2 ^ 32 < 1)
    (h : kmc.perform_reaction_reactor sc w rxn rxn_for_rev rate = .error e) :
    e ≠ .bad_request_no_ensemble := by
  have hdir : ∀ (it : ensemble_map_iter) (reactants products : Option (List Nat)),
      (∀ ens c, it = some ens →
        map_find ensemble.lt w.engine.ensembles ens = some c → ¬ c.2.length % 2 ^ 32 < 1) →
      kmc.perform_reaction_reactor_direction sc w it reactants products = .error e →
      e ≠ .bad_request_no_ensemble := by
    intro it reactants products hit hd
    unfold kmc.perform_reaction_reactor_direction at hd
    split at hd
    · split at hd
      · rename_i ens
        split at hd
        · rename_i e1 hs
          cases hd
          exact kmc.perform_reaction_surface_error sc _ _ ens _ _ (fun c hc => hit ens c rfl hc) hs
        · split at hd
          · rename_i e1 hk
            cases hd
            rcases reactor.kmc_reaction_error _ _ _ _ _ _ hk with h | h | h | h | h <;>
              (subst h; intro hh; cases hh)
          · cases hd
      · split at hd
        · rename_i e1 hk
          cases hd
          rcases reactor.kmc_reaction_error _ _ _ _ _ _ hk with h | h | h | h | h <;>
            (subst h; intro hh; cases hh)
        · cases hd
    · cases hd; intro hh; cases hh
  unfold kmc.perform_reaction_reactor at h
  split_ifs at h with h1 h2
  · exact hdir _ _ _ (hfor h1) h
  · exact hdir _ _ _ (hrev h2) h
  · cases h; intro hh; cases hh

/-! ## Lemmas on the example data of the later claims -/

theorem example_unplaced_eq :
    environment.place_species example_sc [2] example_store [0, 2]
      = .ok (false, example_store_unplaced) := by
  with_unfolding_all rfl

theorem example_surface_rates :
    ∀ i r rates, example_mech_rates.reactions[i]? = some r →
      kmc.get_net_rate_rates example_rate_functions example_sc example_simulation_surface.engine
        example_simulation_surface.quantities i r = .ok rates →
      0 ≤ rates.1 ∧ 0 ≤ rates.2 := by
  intro i r rates hr h
  match i with
  | 0 =>
    have hr' : r = example_rxn_irreversible := by
      have : example_mech_rates.reactions[0]? = some example_rxn_irreversible := rfl
      rw [this] at hr
      exact (Option.some.inj hr).symm
    subst hr'
    have hv : kmc.get_net_rate_rates example_rate_functions example_sc
        example_simulation_surface.engine example_simulation_surface.quantities 0
        example_rxn_irreversible = .ok (2, 0) := by
      with_unfolding_all rfl
    rw [hv] at h
    cases h
    norm_num
  | i + 1 =>
    have : example_mech_rates.reactions[i + 1]? = none := rfl
    rw [this] at hr
    cases hr

theorem example_surface_select :
    kmc.select_reaction
        (kmc.get_net_rate_of example_rate_functions example_sc example_mech_rates
          example_simulation_surface)
        example_simulation_surface.quantities.prec.get_double
        example_simulation_surface.engine example_rng
      = .ok ((0, 36), { example_rng with calls := 1 }) := by
  with_unfolding_all rfl

/-! ## Lemmas on the generator during `kmc::step` -/

theorem rng.advanced_refl (g : rng) : g.advanced g := ⟨rfl, rfl⟩

theorem rng.advanced_trans {a b c : rng} (h1 : a.advanced b) (h2 : b.advanced c) :
    a.advanced c := ⟨h2.1.trans h1.1, h2.2.trans h1.2⟩

theorem rng.get_random_advanced (g : rng) : g.advanced g.get_random.2 := ⟨rfl, rfl⟩

theorem store.rng_advanced_refl (st : store) : st.rng_advanced st :=
  fun g hg => ⟨g, hg, g.advanced_refl⟩

theorem store.rng_advanced_trans {a b c : store} (h1 : a.rng_advanced b)
    (h2 : b.rng_advanced c) : a.rng_advanced c := by
  intro g hg
  obtain ⟨g1, hg1, a1⟩ := h1 g hg
  obtain ⟨g2, hg2, a2⟩ := h2 g1 hg1
  exact ⟨g2, hg2, rng.advanced_trans a1 a2⟩

theorem store.rng_advanced_of_eq {a b : store} (h : b.random = a.random) : a.rng_advanced b :=
  fun g hg => ⟨g, by rw [h, hg], g.advanced_refl⟩

theorem random_shuffle_loop_advanced {α : Type} :
    ∀ (n i : Nat) (l : List α) (g : rng), g.advanced (random_shuffle_loop n i l g).2 := by
  intro n
  induction n with
  | zero => intro i l g; exact g.advanced_refl
  | succ n ih =>
    intro i l g
    simp only [random_shuffle_loop]
    split
    · exact rng.advanced_trans g.get_random_advanced (ih _ _ _)
    · exact g.advanced_refl

theorem random_shuffle_advanced {α : Type} (l : List α) (g : rng) :
    g.advanced (random_shuffle l g).2 :=
  random_shuffle_loop_advanced _ _ l g

theorem environment.place_on_site_random (s : Nat) (site : List Nat) :
    ∀ (rest : List Nat) (st st' : store),
      environment.place_on_site s site rest st = .ok st' → st'.random = st.random := by
  intro rest
  induction rest with
  | nil =>
    intro st st' h
    simp only [environment.place_on_site, Except.ok.injEq] at h
    subst h
    rfl
  | cons git rest ih =>
    intro st st' h
    simp only [environment.place_on_site] at h
    cases hs : environment.set_species st git s (site.filter (fun it => it != git)) with
    | error e => rw [hs] at h; cases h
    | ok st1 =>
      rw [hs] at h
      exact (ih _ _ h).trans (environment.set_species_ok _ _ _ _ _ hs).2.1

theorem environment.place_species_loop_advanced
    (place_rest : store → List Nat → Except exn (Bool × store)) (s : Nat) (envs : List Nat)
    (hrest : ∀ st envs' b st', place_rest st envs' = .ok (b, st') → st.rng_advanced st') :
    ∀ (L : List (List Nat)) (st : store) (b : Bool) (st' : store),
      environment.place_species_loop place_rest s envs L st = .ok (b, st') →
      st.rng_advanced st' := by
  intro L
  induction L with
  | nil =>
    intro st b st' h
    simp only [environment.place_species_loop, Except.ok.injEq, Prod.mk.injEq] at h
    rw [← h.2]
    exact st.rng_advanced_refl
  | cons site more ih =>
    intro st b st' h
    simp only [environment.place_species_loop] at h
    cases hr : place_rest st (envs.filter (fun orig_it => !set_contains ptr_lt site orig_it)) with
    | error e => rw [hr] at h; cases h
    | ok r =>
      obtain ⟨b1, st1⟩ := r
      rw [hr] at h
      have h1 := hrest _ _ _ _ hr
      cases b1 with
      | true =>
        simp only at h
        cases hp : environment.place_on_site s site site st1 with
        | error e => rw [hp] at h; cases h
        | ok st2 =>
          rw [hp] at h
          simp only [Except.ok.injEq, Prod.mk.injEq] at h
          rw [← h.2]
          exact store.rng_advanced_trans h1
            (store.rng_advanced_of_eq (environment.place_on_site_random _ _ _ _ _ hp))
      | false =>
        simp only at h
        exact store.rng_advanced_trans h1 (ih _ _ _ h)

theorem environment.place_species_advanced (sc : Nat → Nat) (sp : List Nat) :
    ∀ (st : store) (envs : List Nat) (b : Bool) (st' : store),
      environment.place_species sc sp st envs = .ok (b, st') → st.rng_advanced st' := by
  induction sp with
  | nil =>
    intro st envs b st' h
    simp only [environment.place_species] at h
    split_ifs at h
    simp only [Except.ok.injEq, Prod.mk.injEq] at h
    rw [← h.2]
    exact st.rng_advanced_refl
  | cons s rest ih =>
    intro st envs b st' h
    simp only [environment.place_species] at h
    split_ifs at h with h1 h2
    cases hs : environment.get_sites st.env (sc s) envs [] with
    | error e => rw [hs] at h; cases h
    | ok S =>
      rw [hs] at h
      simp only at h
      cases hg : st.random with
      | none => rw [hg] at h; cases h
      | some g =>
        rw [hg] at h
        simp only at h
        have hl := environment.place_species_loop_advanced _ s envs ih _ _ _ _ h
        intro g0 hg0
        rw [hg] at hg0
        cases hg0
        obtain ⟨g', hg', ha⟩ := hl (random_shuffle S g).2 rfl
        exact ⟨g', hg', rng.advanced_trans (random_shuffle_advanced S g) ha⟩

theorem environment.recreate_ensembles_random (sc : Nat → Nat) :
    ∀ (l : List Nat) (st st' : store),
      environment.recreate_ensembles sc l st = .ok st' → st'.random = st.random := by
  intro l
  induction l with
  | nil =>
    intro st st' h
    simp only [environment.recreate_ensembles, Except.ok.injEq] at h
    subst h
    rfl
  | cons it rest ih =>
    intro st st' h
    simp only [environment.recreate_ensembles] at h
    cases hc : environment.create_ensembles sc st it with
    | error e => rw [hc] at h; cases h
    | ok st1 =>
      rw [hc] at h
      exact (ih _ _ h).trans (environment.create_ensembles_recreated sc st st1 it hc).2.2.2.2.1

theorem environment.change_ensemble_advanced (sc : Nat → Nat) (st : store) (this : Nat)
    (reactants : Nat) (products remove changed : List Nat) (r : store × List Nat × List Nat)
    (h : environment.change_ensemble sc st this reactants products remove changed = .ok r) :
    st.rng_advanced r.1 := by
  unfold environment.change_ensemble at h
  split_ifs at h with hinit
  split at h
  · cases h
  · split at h
    · cases h
    · split_ifs at h
      split at h
      · cases h
      · rename_i g hg
        split at h
        · cases h
        · rename_i placed hp
          split at h
          · cases h
          · rename_i st1 hr
            cases h
            obtain ⟨b, st2⟩ := placed
            have h1 := environment.place_species_advanced _ _ _ _ _ _ hp
            have h2 := environment.recreate_ensembles_random _ _ _ _ hr
            intro g0 hg0
            rw [hg] at hg0
            cases hg0
            obtain ⟨g', hg', ha⟩ := h1 _ rfl
            exact ⟨g', by rw [h2]; exact hg',
              rng.advanced_trans (random_shuffle_advanced _ g) ha⟩

theorem kmc.delete_ensembles_loop_random :
    ∀ (l : List Nat) (acc r : List (ensemble × ens_env_map) × store),
      kmc.delete_ensembles_loop l acc = .ok r → r.2.random = acc.2.random := by
  intro l
  induction l with
  | nil =>
    intro acc r h
    simp only [kmc.delete_ensembles_loop, Except.ok.injEq] at h
    subst h
    rfl
  | cons x rest ih =>
    intro acc r h
    simp only [kmc.delete_ensembles_loop] at h
    split at h
    · cases h
    · split at h
      · split_ifs at h
        have h1 := ih _ _ h
        exact h1
      · have h1 := ih _ _ h
        exact h1

theorem kmc.perform_reaction_surface_advanced (sc : Nat → Nat) (k : kmc) (st : store)
    (ens : ensemble) (products : List Nat) (r : kmc × store)
    (h : kmc.perform_reaction_surface sc k st ens products = .ok r) : st.rng_advanced r.2 := by
  unfold kmc.perform_reaction_surface at h
  split at h
  · cases h
  · split_ifs at h
    split at h
    · cases h
    · rename_i g hg
      split at h
      · cases h
      · rename_i drawn hd
        split at h
        · cases h
        · split at h
          · cases h
          · rename_i changed hc
            split at h
            · cases h
            · rename_i deleted hdel
              split at h
              · cases h
              · cases h
                have h1 := environment.change_ensemble_advanced _ _ _ _ _ _ _ _ hc
                unfold kmc.delete_ensembles at hdel
                split at hdel
                · cases hdel
                · rename_i r2 hloop
                  cases hdel
                  have h2 := kmc.delete_ensembles_loop_random _ _ _ hloop
                  unfold rng.get_random_n at hd
                  split_ifs at hd
                  cases hd
                  intro g0 hg0
                  rw [hg] at hg0
                  cases hg0
                  obtain ⟨g', hg', ha⟩ := h1 _ rfl
                  exact ⟨g', by rw [h2]; exact hg',
                    rng.advanced_trans g.get_random_advanced ha⟩

theorem kmc.perform_reaction_reactor_advanced (sc : Nat → Nat) (w w1 : simulation)
    (rxn : model_reaction) (rxn_for_rev : ensemble_map_iter × ensemble_map_iter) (rate : ℚ)
    (h : kmc.perform_reaction_reactor sc w rxn rxn_for_rev rate = .ok w1) :
    w.memory.rng_advanced w1.memory ∧ rate ≠ 0 := by
  have hdir : ∀ (it : ensemble_map_iter) (reactants products : Option (List Nat)),
      kmc.perform_reaction_reactor_direction sc w it reactants products = .ok w1 →
      w.memory.rng_advanced w1.memory := by
    intro it reactants products hd
    unfold kmc.perform_reaction_reactor_direction at hd
    split at hd
    · split at hd
      · split at hd
        · cases hd
        · rename_i r hs
          split at hd
          · cases hd
          · cases hd
            exact kmc.perform_reaction_surface_advanced _ _ _ _ _ _ hs
      · split at hd
        · cases hd
        · cases hd
          exact store.rng_advanced_refl _
    · cases hd
  unfold kmc.perform_reaction_reactor at h
  split_ifs at h with h1 h2
  · exact ⟨hdir _ _ _ h, ne_of_gt h1⟩
  · exact ⟨hdir _ _ _ h, ne_of_lt h2⟩

theorem kmc.select_reaction_advanced (G : Nat → Except exn ℚ) (precision : ℚ) (k : kmc)
    (g : rng) (r : (Nat × ℚ) × rng) (h : kmc.select_reaction G precision k g = .ok r) :
    g.advanced r.2 := by
  unfold kmc.select_reaction at h
  split at h
  · cases h
  · split_ifs at h
    split at h
    · cases h
    · cases h
    · split at h
      · cases h
      · split_ifs at h <;> (cases h; exact g.get_random_advanced)

/-- The number that an iteration of the loop of `kmc::step` draws for the time
step comes from the generator of the environments after further calls of
`get_random()`, and the rate that the time step is divided by is not zero. -/
theorem kmc.step_body_advanced (f : rate_functions) (log : ℚ → ℚ)
    (kmc_step_msp : state → Nat → ℚ → ℚ → ℚ → Except exn state) (sc : Nat → Nat)
    (mech : model_mechanism) (w w' : simulation) (loc : kmc.step_locals) (g : rng)
    (hg : w.memory.random = some g)
    (h : kmc.step_body f log kmc_step_msp sc mech w = .ok (w', loc)) :
    ∃ g1, g.advanced g1 ∧ loc.u = (g1.get_random_open_open 1).1 ∧
      loc.dx = -(log loc.u / |loc.rate|) ∧ loc.rate ≠ 0 := by
  obtain ⟨g0, g', rxn_for_rev_it, rxn, w1, g1, hg0, hsel, _, _, hp, hg1, hu, hdx⟩ :=
    kmc.step_body_ok f log kmc_step_msp sc mech w w' loc h
  rw [hg] at hg0
  cases hg0
  have h1 := kmc.select_reaction_advanced _ _ _ _ _ hsel
  obtain ⟨h2, hne⟩ := kmc.perform_reaction_reactor_advanced _ _ _ _ _ _ hp
  obtain ⟨g2, hg2, ha⟩ := h2 g' rfl
  rw [hg1] at hg2
  cases hg2
  exact ⟨g1, rng.advanced_trans h1 ha, hu, hdx, hne⟩

theorem rng.get_random_open_open_bounds (g : rng) (T : ℚ) (hT : 0 < T)
    (hmax : g.stream g.calls ≤ g.max) :
    0 < (g.get_random_open_open T).1 ∧ (g.get_random_open_open T).1 < T := by
  have hden : (0 : ℚ) < (g.max : ℚ) + 2 := by positivity
  have hraw : (g.stream g.calls : ℚ) + 1 < (g.max : ℚ) + 2 := by
    have : (g.stream g.calls : ℚ) ≤ (g.max : ℚ) := by exact_mod_cast hmax
    linarith
  simp only [rng.get_random_open_open, rng.get_random, rng.get_max]
  constructor
  · positivity
  · rw [div_lt_iff₀ hden]
    exact mul_lt_mul_of_pos_left hraw hT

/-! ## Lemmas on the site-groups of the environments -/

theorem set_insert_ptr_length_le (x : Nat) (l : List Nat) :
    (set_insert ptr_lt x l).length ≤ l.length + 1 := by
  induction l with
  | nil => simp [set_insert]
  | cons y ys ih =>
    simp only [set_insert]
    split_ifs
    · simp
    · simp only [List.length_cons]
      omega
    · simp

theorem environment.connected_group_single (env : Nat → environment) (t : Nat) :
    environment.connected_group env [t] := by
  refine ⟨by simp, fun a ha b hb => ?_⟩
  simp only [List.mem_singleton] at ha hb
  rw [ha, hb]

theorem environment.connected_group_mono (env : Nat → environment) (g u : List Nat)
    (hsub : ∀ x ∈ g, x ∈ u) (a b : Nat)
    (h : Relation.ReflTransGen (fun x y => y ∈ g ∧ y ∈ (env x).neighbors) a b) :
    Relation.ReflTransGen (fun x y => y ∈ u ∧ y ∈ (env x).neighbors) a b :=
  Relation.ReflTransGen.mono (fun _ y hxy => ⟨hsub y hxy.1, hxy.2⟩) h

/-- A connected group stays connected when an environment is inserted that is
a neighbor of a member, the neighbour relation being symmetric there. -/
theorem environment.connected_group_insert (env : Nat → environment) (g : List Nat)
    (this it : Nat) (hc : environment.connected_group env g) (hit : it ∈ g)
    (h1 : it ∈ (env this).neighbors) (h2 : this ∈ (env it).neighbors) :
    environment.connected_group env (set_insert ptr_lt this g) := by
  have hsub : ∀ x ∈ g, x ∈ set_insert ptr_lt this g :=
    fun x hx => (set_insert_ptr_mem _ _ _).mpr (Or.inr hx)
  have hthis : this ∈ set_insert ptr_lt this g := (set_insert_ptr_mem _ _ _).mpr (Or.inl rfl)
  have hto : Relation.ReflTransGen
      (fun x y => y ∈ set_insert ptr_lt this g ∧ y ∈ (env x).neighbors) it this :=
    Relation.ReflTransGen.single ⟨hthis, h2⟩
  have hfrom : Relation.ReflTransGen
      (fun x y => y ∈ set_insert ptr_lt this g ∧ y ∈ (env x).neighbors) this it :=
    Relation.ReflTransGen.single ⟨hsub it hit, h1⟩
  refine ⟨?_, fun a ha b hb => ?_⟩
  · intro hnil
    rw [hnil] at hthis
    cases hthis
  · rcases (set_insert_ptr_mem _ _ _).mp ha with rfl | ha' <;>
      rcases (set_insert_ptr_mem _ _ _).mp hb with rfl | hb'
    · exact Relation.ReflTransGen.refl
    · exact hfrom.trans (environment.connected_group_mono env g _ hsub _ _ (hc.2 it hit b hb'))
    · exact (environment.connected_group_mono env g _ hsub _ _ (hc.2 a ha' it hit)).trans hto
    · exact environment.connected_group_mono env g _ hsub _ _ (hc.2 a ha' b hb')

/-- The union of two connected groups with a common environment is
connected. -/
theorem environment.connected_group_union (env : Nat → environment) (g1 g2 : List Nat)
    (t : Nat) (h1 : environment.connected_group env g1)
    (h2 : environment.connected_group env g2) (ht1 : t ∈ g1) (ht2 : t ∈ g2) :
    environment.connected_group env (set_insert_range ptr_lt g1 g2) := by
  have hs1 : ∀ x ∈ g1, x ∈ set_insert_range ptr_lt g1 g2 :=
    fun x hx => (set_insert_range_ptr_mem _ _ _).mpr (Or.inl hx)
  have hs2 : ∀ x ∈ g2, x ∈ set_insert_range ptr_lt g1 g2 :=
    fun x hx => (set_insert_range_ptr_mem _ _ _).mpr (Or.inr hx)
  have hto : ∀ a, a ∈ set_insert_range ptr_lt g1 g2 → Relation.ReflTransGen
      (fun x y => y ∈ set_insert_range ptr_lt g1 g2 ∧ y ∈ (env x).neighbors) a t := by
    intro a ha
    rcases (set_insert_range_ptr_mem _ _ _).mp ha with h | h
    · exact environment.connected_group_mono env g1 _ hs1 _ _ (h1.2 a h t ht1)
    · exact environment.connected_group_mono env g2 _ hs2 _ _ (h2.2 a h t ht2)
  have hfrom : ∀ b, b ∈ set_insert_range ptr_lt g1 g2 → Relation.ReflTransGen
      (fun x y => y ∈ set_insert_range ptr_lt g1 g2 ∧ y ∈ (env x).neighbors) t b := by
    intro b hb
    rcases (set_insert_range_ptr_mem _ _ _).mp hb with h | h
    · exact environment.connected_group_mono env g1 _ hs1 _ _ (h1.2 t ht1 b h)
    · exact environment.connected_group_mono env g2 _ hs2 _ _ (h2.2 t ht2 b h)
  refine ⟨?_, fun a ha b hb => (hto a ha).trans (hfrom b hb)⟩
  intro hnil
  have := hs1 t ht1
  rw [hnil] at this
  cases this

/-- The groups that `environment::radiate` inserts are sets of at most
`n_sites` environments that hold the environment and are connected, on a
symmetric neighbour relation. -/
theorem environment.radiate_rooted (env : Nat → environment)
    (hsym : ∀ a b, b ∈ (env a).neighbors → a ∈ (env b).neighbors) :
    ∀ (n this : Nat) (touch : List Nat) (groups : List (List Nat)) (g : List Nat),
      g ∈ (environment.radiate env n this (touch, groups)).2 →
        g ∈ groups ∨ (g.Pairwise (· < ·) ∧ this ∈ g ∧ g.length ≤ n ∧
          environment.connected_group env g)
  | 0, this, touch, groups, g => by
    intro h
    exact Or.inl h
  | n + 1, this, touch, groups, g => by
    intro h
    simp only [environment.radiate] at h
    rw [set_insert_lex_mem] at h
    rcases h with h | h
    · right
      rw [h]
      exact ⟨by simp, by simp, by simp, environment.connected_group_single env this⟩
    · have hfold : ∀ (l : List Nat) (a : List Nat × List (List Nat)),
          (∀ it ∈ l, it ∈ (env this).neighbors) →
          g ∈ (l.foldl (fun (a : List Nat × List (List Nat)) it =>
            ((environment.radiate env n it (a.1, [])).1,
              (environment.radiate env n it (a.1, [])).2.foldl
                (fun groups git =>
                  set_insert lexicographical_compare (set_insert ptr_lt this git) groups)
                a.2)) a).2 →
          g ∈ a.2 ∨ (g.Pairwise (· < ·) ∧ this ∈ g ∧ g.length ≤ n + 1 ∧
            environment.connected_group env g) := by
        intro l
        induction l with
        | nil => intro a _ hg; exact Or.inl hg
        | cons it rest ih =>
          intro a hl hg
          simp only [List.foldl_cons] at hg
          rcases ih _ (fun x hx => hl x (List.mem_cons_of_mem _ hx)) hg with h1 | h1
          · simp only [] at h1
            rw [foldl_insert_group_mem] at h1
            rcases h1 with h1 | ⟨git, hgit, h1⟩
            · exact Or.inl h1
            · right
              rcases environment.radiate_rooted env hsym n it a.1 [] git hgit with h2 | h2
              · cases h2
              · obtain ⟨q1, q2, q3, q4⟩ := h2
                have hnb := hl it (List.mem_cons_self _ _)
                rw [h1]
                refine ⟨set_insert_ptr_sorted this git q1,
                  (set_insert_ptr_mem _ _ _).mpr (Or.inl rfl), ?_,
                  environment.connected_group_insert env git this it q4 q2 hnb
                    (hsym this it hnb)⟩
                have := set_insert_ptr_length_le this git
                omega
          · exact Or.inr h1
      exact hfold _ _ (fun it hit => hit) h

/-- A property of groups that holds for the union of two groups when the union
has at most `max_sites` environments is kept by the inner loop of
`environment::connectivity`. -/
theorem environment.criss_cross_in_bounded (P : List Nat → Prop) (max_sites : Nat)
    (out : List Nat)
    (hP : ∀ a b, P a → P b → (set_insert_range ptr_lt a b).length ≤ max_sites →
      P (set_insert_range ptr_lt a b)) (hout : P out) :
    ∀ (fuel : Nat) (in_ : List Nat) (sites sites' : List (List Nat)),
      (∀ g ∈ sites, P g) →
      environment.criss_cross_in max_sites out fuel in_ sites = some sites' →
      ∀ g ∈ sites', P g := by
  intro fuel
  induction fuel with
  | zero => intro in_ sites sites' _ h; cases h
  | succ fuel ih =>
    intro in_ sites sites' hs h
    simp only [environment.criss_cross_in] at h
    cases hn : set_next lexicographical_compare sites in_ with
    | none =>
      simp only [hn, Option.some.injEq] at h
      subst h
      exact hs
    | some in1 =>
      simp only [hn] at h
      refine ih in1 _ sites' ?_ h
      intro g hg
      split_ifs at hg with hlen
      · rw [set_insert_lex_mem] at hg
        rcases hg with hg | hg
        · rw [hg]
          exact hP out in1 hout (hs in1 (set_next_mem _ _ _ _ hn)) hlen
        · exact hs g hg
      · exact hs g hg

theorem environment.criss_cross_bounded (P : List Nat → Prop) (max_sites fuel : Nat)
    (hP : ∀ a b, P a → P b → (set_insert_range ptr_lt a b).length ≤ max_sites →
      P (set_insert_range ptr_lt a b)) :
    ∀ (n : Nat) (out : List Nat) (sites sites' : List (List Nat)),
      out ∈ sites → (∀ g ∈ sites, P g) →
      environment.criss_cross max_sites fuel n out sites = some sites' →
      ∀ g ∈ sites', P g := by
  intro n
  induction n with
  | zero => intro out sites sites' _ _ h; cases h
  | succ n ih =>
    intro out sites sites' hout hs h
    simp only [environment.criss_cross] at h
    cases hin : environment.criss_cross_in max_sites out fuel out sites with
    | none => simp only [hin] at h; cases h
    | some sites1 =>
      simp only [hin] at h
      have hs1 := environment.criss_cross_in_bounded P max_sites out hP (hs out hout) fuel out
        sites sites1 hs hin
      cases hn : set_next lexicographical_compare sites1 out with
      | none =>
        simp only [hn, Option.some.injEq] at h
        subst h
        exact hs1
      | some out1 =>
        simp only [hn] at h
        exact ih out1 sites1 sites' (set_next_mem _ _ _ _ hn) hs1 h

theorem environment.connected_group_congr_iff (env env' : Nat → environment) (g : List Nat)
    (h : ∀ e, (env' e).neighbors = (env e).neighbors) :
    environment.connected_group env' g ↔ environment.connected_group env g :=
  ⟨environment.connected_group_congr env' env g (fun e => (h e).symm),
    environment.connected_group_congr env env' g h⟩

/-- The site-groups of the environment after `environment::initialize`, on a
symmetric neighbour relation, with radial sites or a maximum size of at least
one: every site-group is a set of at most `max_sites` environments that holds
the environment and is connected. -/
theorem environment.initialize_groups (sc : Nat → Nat) (fuel : Nat) (st st' : store)
    (this : Nat)
    (hsym : ∀ a b, b ∈ (st.env a).neighbors → a ∈ (st.env b).neighbors)
    (hpos : st.radial = true ∨ 1 ≤ st.max_sites)
    (h : environment.initialize sc fuel st this = .ok st') :
    ∀ g ∈ (st'.env this).sites,
      g.Pairwise (· < ·) ∧ this ∈ g ∧ g.length ≤ st.max_sites ∧
        environment.connected_group st.env g := by
  cases hrad : st.radial with
  | true =>
    obtain ⟨_, hcc⟩ := environment.initialize_radial sc fuel st st' this hrad h
    have hrg : ∀ g ∈ (environment.radiate st.env st.max_sites this
        ((st.env this).connected, [])).2,
        g.Pairwise (· < ·) ∧ this ∈ g ∧ g.length ≤ st.max_sites ∧
          environment.connected_group st.env g := by
      intro g hg
      rcases environment.radiate_rooted st.env hsym st.max_sites this _ _ g hg with h1 | h1
      · cases h1
      · exact h1
    revert hcc
    split
    · intro hcc
      simp only [Option.some.injEq] at hcc
      intro g hg
      rw [← hcc] at hg
      cases hg
    · rename_i out rest hcons
      intro hcc
      rw [hcons] at hrg
      refine environment.criss_cross_bounded
        (fun g => g.Pairwise (· < ·) ∧ this ∈ g ∧ g.length ≤ st.max_sites ∧
          environment.connected_group st.env g)
        st.max_sites fuel ?_ fuel out (out :: rest) _ (List.mem_cons_self _ _) hrg hcc
      intro a b ha hb hlen
      exact ⟨set_insert_range_ptr_sorted a b ha.1,
        (set_insert_range_ptr_mem _ _ _).mpr (Or.inl ha.2.1), hlen,
        environment.connected_group_union st.env a b this ha.2.2.2 hb.2.2.2 ha.2.1 hb.2.1⟩
  | false =>
    have hmax : 1 ≤ st.max_sites := by
      rcases hpos with h1 | h1
      · rw [hrad] at h1; cases h1
      · exact h1
    unfold environment.initialize at h
    cases hrng : st.random with
    | none => rw [hrng] at h; cases h
    | some g0 =>
      have h' : environment.initialize sc fuel st this = .ok st' := by
        unfold environment.initialize
        exact h
      obtain ⟨_, _, h3⟩ := environment.initialize_neighbor sc fuel st this g0 hrad hrng
      obtain ⟨_, hs⟩ := h3 st' h'
      intro g hg
      rw [hs, environment.neighbor_sites_mem st.env this st.max_sites [] g] at hg
      rcases hg with hg | ⟨hsorted, S, hSnd, hSnb, hSlen, hmem⟩
      · cases hg
      · have hthis : this ∈ g := (hmem this).mpr (Or.inl rfl)
        have hnd : g.Nodup := pairwise_lt_nodup g hsorted
        have hsub : g ⊆ this :: S := by
          intro x hx
          rcases (hmem x).mp hx with h1 | h1
          · rw [h1]; exact List.mem_cons_self _ _
          · exact List.mem_cons_of_mem _ h1
        have hlen : g.length ≤ (this :: S).length := (hnd.subperm hsub).length_le
        simp only [List.length_cons] at hlen
        refine ⟨hsorted, hthis, by omega, ⟨List.ne_nil_of_mem hthis, ?_⟩⟩
        have hto : ∀ a ∈ g, Relation.ReflTransGen
            (fun x y => y ∈ g ∧ y ∈ (st.env x).neighbors) a this := by
          intro a ha
          rcases (hmem a).mp ha with h1 | h1
          · rw [h1]
          · exact Relation.ReflTransGen.single ⟨hthis, hsym this a (hSnb a h1)⟩
        have hfrom : ∀ b ∈ g, Relation.ReflTransGen
            (fun x y => y ∈ g ∧ y ∈ (st.env x).neighbors) this b := by
          intro b hb
          rcases (hmem b).mp hb with h1 | h1
          · rw [h1]
          · exact Relation.ReflTransGen.single ⟨hb, hSnb b h1⟩
        exact fun a ha b hb => (hto a ha).trans (hfrom b hb)

theorem environment.initialize_others (sc : Nat → Nat) (fuel : Nat) (st st' : store)
    (this : Nat) (h : environment.initialize sc fuel st this = .ok st') :
    st'.max_sites = st.max_sites ∧ st'.radial = st.radial ∧
    ∀ e, e ≠ this → (st'.env e).sites = (st.env e).sites := by
  unfold environment.initialize at h
  split at h
  · cases h
  · cases hc : environment.connectivity fuel
        { st with env := Function.update st.env this { (st.env this) with sites := [] } }
        this st.max_sites with
    | error e => simp only [hc] at h; cases h
    | ok st1 =>
      simp only [hc] at h
      cases hcr : environment.create_ensembles sc st1 this with
      | error e => simp only [hcr] at h; cases h
      | ok st2 =>
        simp only [hcr, Except.ok.injEq] at h
        obtain ⟨_, _, _, r4, _, r6, _, _⟩ :=
          environment.create_ensembles_recreated sc st1 st2 this hcr
        obtain ⟨c1, c2, c3, _⟩ := environment.connectivity_near fuel
          { st with env := Function.update st.env this { (st.env this) with sites := [] } }
          st1 this (by simp) hc
        subst h
        refine ⟨?_, ?_, fun e he => ?_⟩
        · show st2.max_sites = st.max_sites
          rw [← r4.2.2.1, c2]
        · show st2.radial = st.radial
          rw [← r4.2.1, c1]
        · simp only [Function.update_noteq he]
          rw [(r6 e).2.2.1, c3 e he]
          simp [Function.update_noteq he]

/-- The property of the site-groups is kept by `environment::initialize`. -/
theorem environment.initialize_env_rooted (sc : Nat → Nat) (fuel : Nat) (st st' : store)
    (this : Nat) (hin : st.groups_rooted)
    (hsym : ∀ a b, b ∈ (st.env a).neighbors → a ∈ (st.env b).neighbors)
    (hpos : st.radial = true ∨ 1 ≤ st.max_sites)
    (h : environment.initialize sc fuel st this = .ok st') : st'.groups_rooted := by
  obtain ⟨o1, _, o3⟩ := environment.initialize_others sc fuel st st' this h
  have hnb := environment.initialize_neighbors sc fuel st st' this h
  intro e g hg
  rw [o1, environment.connected_group_congr_iff st.env st'.env g hnb]
  by_cases he : e = this
  · subst he
    exact environment.initialize_groups sc fuel st st' e hsym hpos h g hg
  · rw [o3 e he] at hg
    exact hin e g hg

theorem kmc.initialize_all_rooted (sc : Nat → Nat) (fuel : Nat) :
    ∀ (l : List Nat) (st st' : store), st.groups_rooted →
      (∀ a b, b ∈ (st.env a).neighbors → a ∈ (st.env b).neighbors) →
      (l = [] ∨ st.radial = true ∨ 1 ≤ st.max_sites) →
      kmc.initialize_all sc fuel l st = .ok st' →
      st'.groups_rooted ∧ st'.max_sites = st.max_sites := by
  intro l
  induction l with
  | nil =>
    intro st st' hin _ _ h
    simp only [kmc.initialize_all, Except.ok.injEq] at h
    subst h
    exact ⟨hin, rfl⟩
  | cons eit rest ih =>
    intro st st' hin hsym hpos h
    simp only [kmc.initialize_all] at h
    have hpos' : st.radial = true ∨ 1 ≤ st.max_sites := by
      rcases hpos with h0 | h0
      · cases h0
      · exact h0
    cases h1 : environment.initialize sc fuel st eit with
    | error e => simp only [h1] at h; cases h
    | ok st1 =>
      simp only [h1] at h
      obtain ⟨o1, o2, _⟩ := environment.initialize_others sc fuel st st1 eit h1
      have hnb := environment.initialize_neighbors sc fuel st st1 eit h1
      have hr1 := environment.initialize_env_rooted sc fuel st st1 eit hin hsym hpos' h1
      obtain ⟨hr2, hm2⟩ := ih st1 st' hr1
        (fun a b hb => by
          rw [hnb b]
          rw [hnb a] at hb
          exact hsym a b hb)
        (Or.inr (by rw [o1, o2]; exact hpos')) h
      exact ⟨hr2, hm2.trans o1⟩

theorem kmc.create_ensembles_reactions_statics (sc : Nat → Nat) (rs : List model_reaction) :
    ∀ (rxn : Nat) (k k' : kmc), kmc.create_ensembles_reactions sc rs rxn k = .ok k' →
      k.max_sites ≤ k'.max_sites ∧ k'.env_radial = k.env_radial ∧
      k'.max_coordination = k.max_coordination := by
  induction rs with
  | nil =>
    intro rxn k k' h
    simp only [kmc.create_ensembles_reactions, Except.ok.injEq] at h
    subst h
    exact ⟨le_refl _, rfl, rfl⟩
  | cons r rest ih =>
    intro rxn k k' h
    simp only [kmc.create_ensembles_reactions] at h
    cases h1 : kmc.create_ensembles_reaction sc k rxn r with
    | error e => simp only [h1] at h; cases h
    | ok k1 =>
      simp only [h1] at h
      obtain ⟨b1, b2, b3⟩ := ih (rxn + 1) k1 k' h
      have a : k.max_sites ≤ k1.max_sites ∧ k1.env_radial = k.env_radial ∧
          k1.max_coordination = k.max_coordination := by
        unfold kmc.create_ensembles_reaction at h1
        split at h1
        · cases h1
        · cases h1
        · split_ifs at h1 <;>
            first
            | (cases h1; done)
            | (cases h1
               refine ⟨?_, rfl, rfl⟩
               simp only
               omega)
      exact ⟨le_trans a.1 b1, b2.trans a.2.1, b3.trans a.2.2⟩

theorem kmc.create_ensembles_statics (sc : Nat → Nat) (mech : model_mechanism)
    (empty_site : Option Nat) (k k' : kmc)
    (h : kmc.create_ensembles sc mech empty_site k = .ok k') :
    k.max_sites ≤ k'.max_sites ∧ k'.env_radial = k.env_radial := by
  unfold kmc.create_ensembles at h
  cases h1 : kmc.create_ensembles_reactions sc mech.reactions 0 k with
  | error e => simp only [h1] at h; cases h
  | ok k1 =>
    simp only [h1] at h
    obtain ⟨a1, a2, _⟩ := kmc.create_ensembles_reactions_statics sc mech.reactions 0 k k1 h1
    cases empty_site with
    | none =>
      simp only [] at h
      split_ifs at h
      all_goals
        simp only [Except.ok.injEq] at h
        subst h
        exact ⟨a1, a2⟩
    | some empty =>
      simp only [] at h
      split_ifs at h
      all_goals
        simp only [Except.ok.injEq] at h
        subst h
        exact ⟨a1, a2⟩

theorem kmc.create_environments_row_statics (surface : lattice) (row : Nat) :
    ∀ (l : List Nat) (acc r : List Nat × store),
      kmc.create_environments_row surface row l acc = .ok r →
      r.2.max_sites = acc.2.max_sites ∧ r.2.radial = acc.2.radial := by
  intro l
  induction l with
  | nil =>
    intro acc r h
    simp only [kmc.create_environments_row, Except.ok.injEq] at h
    subst h
    exact ⟨rfl, rfl⟩
  | cons col rest ih =>
    intro acc r h
    simp only [kmc.create_environments_row] at h
    cases h1 : surface.get_point row col with
    | error e => simp only [h1] at h; cases h
    | ok point =>
      simp only [h1] at h
      have h2 := ih _ r h
      exact h2

theorem kmc.create_environments_rows_statics (surface : lattice) :
    ∀ (l : List Nat) (acc r : List (List Nat) × store),
      kmc.create_environments_rows surface l acc = .ok r →
      r.2.max_sites = acc.2.max_sites ∧ r.2.radial = acc.2.radial ∧
      (l = [] → r.1 = acc.1) := by
  intro l
  induction l with
  | nil =>
    intro acc r h
    simp only [kmc.create_environments_rows, Except.ok.injEq] at h
    subst h
    exact ⟨rfl, rfl, fun _ => rfl⟩
  | cons row rest ih =>
    intro acc r h
    simp only [kmc.create_environments_rows] at h
    cases h1 : kmc.create_environments_row surface row (List.range surface.get_size)
        ([], acc.2) with
    | error e => simp only [h1] at h; cases h
    | ok r1 =>
      simp only [h1] at h
      obtain ⟨a1, a2⟩ := kmc.create_environments_row_statics surface row _ _ r1 h1
      obtain ⟨b1, b2, _⟩ := ih _ r h
      exact ⟨b1.trans a1, b2.trans a2, fun hn => by cases hn⟩

theorem kmc.set_neighbors_all_statics (env_surface : List (List Nat)) :
    ∀ (l : List Nat) (st st' : store), kmc.set_neighbors_all env_surface l st = .ok st' →
      st'.max_sites = st.max_sites ∧ st'.radial = st.radial := by
  intro l
  induction l with
  | nil =>
    intro st st' h
    simp only [kmc.set_neighbors_all, Except.ok.injEq] at h
    subst h
    exact ⟨rfl, rfl⟩
  | cons eit rest ih =>
    intro st st' h
    simp only [kmc.set_neighbors_all] at h
    cases h1 : environment.set_neighbors st eit env_surface with
    | error e => simp only [h1] at h; cases h
    | ok st1 =>
      simp only [h1] at h
      obtain ⟨b1, b2⟩ := ih st1 st' h
      have a : st1.max_sites = st.max_sites ∧ st1.radial = st.radial := by
        unfold environment.set_neighbors at h1
        split_ifs at h1
        · cases h1; exact ⟨rfl, rfl⟩
        · split at h1
          · cases h1
          · split_ifs at h1
            split at h1
            · cases h1
            · cases h1; exact ⟨rfl, rfl⟩
      exact ⟨b1.trans a.1, b2.trans a.2⟩

/-- The site-groups after `kmc::create_environments`, for an engine without
environments on a store without environments: with radial sites, a maximum
size of at least one or a lattice without points, every site-group is a set of
at most `max_sites` environments that holds its environment and is
connected. -/
theorem kmc.create_environments_rooted (sc : Nat → Nat) (fuel : Nat) (k k' : kmc)
    (st st' : store) (empty_site : Option Nat) (hblank : st.blank)
    (henvs : k.environments = [])
    (hpt : ∀ row col p, k.surface.get_point row col = .ok p → p.row = row ∧ p.column = col)
    (hpos : k.surface.get_size = 0 ∨ k.env_radial = true ∨ 1 ≤ k.max_sites)
    (h : kmc.create_environments sc fuel k st empty_site = .ok (k', st')) :
    st'.groups_rooted ∧ st'.max_sites = k.max_sites ∧ k'.max_sites = k.max_sites := by
  have hsym := kmc.create_environments_symmetric sc fuel k k' st st' empty_site hblank henvs
    hpt h
  unfold kmc.create_environments at h
  cases htype : k.env_type with
  | none => simp only [htype] at h; cases h
  | some type =>
    simp only [htype] at h
    cases hrows : kmc.create_environments_rows k.surface (List.range k.surface.get_size)
        ([], { st with
          env_type := type, radial := k.env_radial, max_sites := k.max_sites,
          random := k.random, empty_site := empty_site }) with
    | error e => simp only [hrows] at h; cases h
    | ok created =>
      simp only [hrows] at h
      cases hnb : kmc.set_neighbors_all created.1 (k.environments ++ created.1.flatten)
          created.2 with
      | error e => simp only [hnb] at h; cases h
      | ok st1 =>
        simp only [hnb] at h
        cases hini : kmc.initialize_all sc fuel (k.environments ++ created.1.flatten) st1 with
        | error e => simp only [hini] at h; cases h
        | ok st2 =>
          simp only [hini, Except.ok.injEq, Prod.mk.injEq] at h
          obtain ⟨hk, rfl⟩ := h
          have hb1 : created.2.blank :=
            kmc.create_environments_rows_blank k.surface _ _ created (by exact hblank) hrows
          have hu := kmc.set_neighbors_all_blank created.1 (k.environments ++ created.1.flatten)
            _ created.2 st1 (fun e he => he) (fun e => by
              obtain ⟨c, hc⟩ := hb1 e
              rw [hc]
              exact ⟨rfl, rfl, fun _ => rfl⟩) hnb
          obtain ⟨r1, r2, r3⟩ := kmc.create_environments_rows_statics k.surface _ _ created hrows
          obtain ⟨n1, n2⟩ := kmc.set_neighbors_all_statics _ _ _ _ hnb
          simp only at r1 r2 r3
          have hn2 := (kmc.initialize_all_touched sc fuel _ st1 st2 (fun _ => False)
            ⟨fun e he => he.elim, fun e _ => (hu e).1, fun e p g hpg => by
              rw [(hu e).2.1] at hpg
              cases hpg⟩ hini).2
          have hr1 : st1.groups_rooted := by
            intro e g hg
            rw [(hu e).1] at hg
            cases hg
          have hsym1 : ∀ a b, b ∈ (st1.env a).neighbors → a ∈ (st1.env b).neighbors := by
            intro a b hb
            rw [← hn2 b]
            rw [← hn2 a] at hb
            exact hsym a b hb
          have hpos1 : k.environments ++ created.1.flatten = [] ∨ st1.radial = true ∨
              1 ≤ st1.max_sites := by
            rcases hpos with h0 | h0 | h0
            · left
              rw [henvs, r3 (by rw [h0]; rfl)]
              rfl
            · right; left
              rw [n2, r2]
              exact h0
            · right; right
              rw [n1, r1]
              exact h0
          obtain ⟨g1, g2⟩ := kmc.initialize_all_rooted sc fuel _ st1 st2 hr1 hsym1 hpos1 hini
          refine ⟨g1, by rw [g2, n1, r1], ?_⟩
          rw [← hk]

/-- The site-groups after `kmc::initialize`: every site-group of every
environment is a set of at most `max_sites` environments that holds the
environment and is connected. -/
theorem kmc.initialize_rooted (sc : Nat → Nat) (mech : model_mechanism) (empty : Option Nat)
    (fuel : Nat) (k k' : kmc) (st st' : store) (henvs : k.environments = [])
    (hpoints : k.surface.points = []) (hsize : k.surface.size * k.surface.size ≤ 2 ^ 32)
    (hblank : st.blank) (h : kmc.initialize sc mech empty fuel k st = .ok (k', st')) :
    st'.groups_rooted ∧ st'.max_sites = k'.max_sites := by
  unfold kmc.initialize at h
  split at h
  · cases h
  · rename_i r hr
    have hr2 : r.2.points = [] ∧ r.2.size * r.2.size ≤ 2 ^ 32 ∧
        ((kmc.calc_max_coordination sc mech k).max_coordination > 0 ∨ r.2.size = 0) := by
      split_ifs at hr with hmc
      · cases empty with
        | none => cases hr
        | some e =>
          simp only [Except.ok.injEq] at hr
          rw [← hr]
          exact ⟨hpoints, hsize, Or.inl hmc⟩
      · unfold lattice.set_size at hr
        split_ifs at hr
        simp only [Except.ok.injEq] at hr
        rw [← hr]
        exact ⟨hpoints, by simp, Or.inr rfl⟩
    split at h
    · cases h
    · rename_i k1 hk1
      obtain ⟨s1, s2⟩ := kmc.create_ensembles_surface sc mech r.1 _ k1 hk1
      obtain ⟨t1, t2⟩ := kmc.create_ensembles_statics sc mech r.1 _ k1 hk1
      simp only at t1 t2
      split at h
      · cases h
      · rename_i surface hsurf
        split at h
        · cases h
        · rename_i created hcr
          split at h
          · cases h
          · rename_i k2 hk2
            simp only [Except.ok.injEq, Prod.mk.injEq] at h
            obtain ⟨kc, stc⟩ := created
            have hs0 : k1.surface = r.2 := s1
            have hpos : surface.get_size = 0 ∨ k1.env_radial = true ∨ 1 ≤ k1.max_sites := by
              rcases hr2.2.2 with h0 | h0
              · right; right
                omega
              · left
                rw [hs0] at hsurf
                unfold lattice.initialize at hsurf
                rw [if_neg (by omega)] at hsurf
                simp only [Except.ok.injEq] at hsurf
                rw [← hsurf]
                exact h0
            obtain ⟨g1, g2, g3⟩ := kmc.create_environments_rooted sc fuel
              { k1 with surface := surface } kc st stc r.1 hblank
              (by show k1.environments = []; rw [s2]; exact henvs)
              (by
                intro row col p hp
                rw [hs0] at hsurf
                exact (lattice.get_point_position r.2 surface r.1 hr2.1 hr2.2.1 hsurf row col p
                  hp).2)
              hpos hcr
            have hk2m : k2.max_sites = kc.max_sites := by
              unfold kmc.get_ensembles kmc.get_ensembles_changed at hk2
              split at hk2
              · cases hk2
              · cases hk2
                rfl
            rw [← h.1, ← h.2]
            exact ⟨g1, by rw [g2, hk2m, g3]⟩

/-! ## Lemmas on the engines that the program reaches -/

/-- A property of the engine and the store that the surface branch of
`kmc::perform_reaction` keeps is kept by `kmc::perform_reaction`. -/
theorem kmc.perform_reaction_lift (sc : Nat → Nat) (reactor : List Nat → List Nat → Option exn)
    (I : kmc → store → Prop)
    (hstep : ∀ k st ens products k' st', I k st →
      kmc.perform_reaction_surface sc k st ens products = .ok (k', st') → I k' st')
    (k k' : kmc) (st st' : store) (rxn : model_reaction)
    (rxn_for_rev : ensemble_map_iter × ensemble_map_iter) (rate : ℚ) (hI : I k st)
    (h : kmc.perform_reaction sc reactor k st rxn rxn_for_rev rate = .ok (k', st')) :
    I k' st' := by
  have hdir : ∀ (it : ensemble_map_iter) (reactants products : Option (List Nat)),
      kmc.perform_reaction_direction sc reactor k st it reactants products = .ok (k', st') →
      I k' st' := by
    intro it reactants products hd
    unfold kmc.perform_reaction_direction at hd
    split at hd
    · split at hd
      · split at hd
        · cases hd
        · rename_i r hs
          split at hd
          · cases hd
          · cases hd
            exact hstep _ _ _ _ _ _ hI hs
      · split at hd
        · cases hd
        · cases hd
          exact hI
    · cases hd
  unfold kmc.perform_reaction at h
  split_ifs at h
  · exact hdir _ _ _ h
  · exact hdir _ _ _ h

theorem kmc.perform_reaction_rxn_lift (sc : Nat → Nat)
    (reactor : List Nat → List Nat → Option exn) (I : kmc → store → Prop)
    (hstep : ∀ k st ens products k' st', I k st →
      kmc.perform_reaction_surface sc k st ens products = .ok (k', st') → I k' st')
    (k k' : kmc) (st st' : store) (rxn : model_reaction) (b : Bool) (hI : I k st)
    (h : kmc.perform_reaction_rxn sc reactor k st rxn = .ok (b, k', st')) : I k' st' := by
  unfold kmc.perform_reaction_rxn at h
  split at h
  · cases h
  · split at h
    · cases h
    · split_ifs at h
      · simp only [Except.ok.injEq, Prod.mk.injEq] at h
        obtain ⟨_, rfl, rfl⟩ := h
        exact hI
      · split at h
        · cases h
        · rename_i r hp
          simp only [Except.ok.injEq, Prod.mk.injEq] at h
          obtain ⟨k1, st1⟩ := r
          obtain ⟨_, h2⟩ := h
          simp only [Prod.mk.injEq] at h2
          obtain ⟨rfl, rfl⟩ := h2
          exact kmc.perform_reaction_lift sc reactor I hstep k k1 st st1 rxn _ 1 hI hp

/-- A property that holds after `kmc::initialize` and is kept by the surface
branch of `kmc::perform_reaction` holds for the engines that the program
reaches. -/
theorem kmc.reached_induction (sc : Nat → Nat) (mech : model_mechanism) (empty : Option Nat)
    (fuel : Nat) (reactor : List Nat → List Nat → Option exn) (I : kmc → store → Prop)
    (hinit : ∀ k0 k st0 st, k0.ensembles = [] → k0.environments = [] →
      k0.surface.points = [] → k0.surface.size * k0.surface.size ≤ 2 ^ 32 → st0.blank →
      kmc.initialize sc mech empty fuel k0 st0 = .ok (k, st) → I k st)
    (hstep : ∀ k st ens products k' st', I k st →
      kmc.perform_reaction_surface sc k st ens products = .ok (k', st') → I k' st')
    (k : kmc) (st : store) (h : kmc.reached sc mech empty fuel reactor k st) : I k st := by
  induction h with
  | init h1 h2 h3 h4 h5 h6 => exact hinit _ _ _ _ h1 h2 h3 h4 h5 h6
  | coverage _ hs ih => exact kmc.perform_reaction_rxn_lift sc reactor I hstep _ _ _ _ _ _ ih hs
  | step _ hs ih => exact kmc.perform_reaction_lift sc reactor I hstep _ _ _ _ _ _ _ ih hs

theorem environment.recreate_ensembles_same (sc : Nat → Nat) :
    ∀ (l : List Nat) (a b : store),
      environment.recreate_ensembles sc l a = .ok b →
      a.same_surface b ∧
      ∀ e, (b.env e).neighbors = (a.env e).neighbors ∧
        (b.env e).connected = (a.env e).connected ∧ (b.env e).sites = (a.env e).sites ∧
        (b.env e).initialized = (a.env e).initialized := by
  intro l
  induction l with
  | nil =>
    intro a b hab
    simp only [environment.recreate_ensembles, Except.ok.injEq] at hab
    subst hab
    exact ⟨store.same_surface_refl _, fun _ => ⟨rfl, rfl, rfl, rfl⟩⟩
  | cons it rest ih =>
    intro a b hab
    simp only [environment.recreate_ensembles] at hab
    cases h1 : environment.create_ensembles sc a it with
    | error e => simp only [h1] at hab; cases hab
    | ok a1 =>
      simp only [h1] at hab
      obtain ⟨_, _, _, r4, _, r6, _, _⟩ := environment.create_ensembles_recreated sc a a1 it h1
      obtain ⟨i1, i3⟩ := ih a1 b hab
      refine ⟨store.same_surface_trans r4 i1, fun e => ?_⟩
      rw [(i3 e).1, (i3 e).2.1, (i3 e).2.2.1, (i3 e).2.2.2, (r6 e).1, (r6 e).2.1, (r6 e).2.2.1,
        (r6 e).2.2.2]
      exact ⟨rfl, rfl, rfl, rfl⟩

theorem kmc.delete_ensembles_loop_statics :
    ∀ (l : List Nat) (acc r : List (ensemble × ens_env_map) × store),
      kmc.delete_ensembles_loop l acc = .ok r →
      r.2.env_type = acc.2.env_type ∧ r.2.empty_site = acc.2.empty_site := by
  intro l
  induction l with
  | nil =>
    intro acc r h
    simp only [kmc.delete_ensembles_loop, Except.ok.injEq] at h
    subst h
    exact ⟨rfl, rfl⟩
  | cons x rest ih =>
    intro acc r h
    simp only [kmc.delete_ensembles_loop] at h
    split at h
    · cases h
    · split at h
      · split_ifs at h
        have h1 := ih _ _ h
        exact h1
      · have h1 := ih _ _ h
        exact h1

/-- What the surface branch of `kmc::perform_reaction` has done to the store:
the species of `products` with a surface coordination were placed, in some
order, on the members of an instance registered at an environment, whose
object has the coordination of the products; after the placement only the
ensembles have changed. -/
theorem kmc.perform_reaction_surface_placement (sc : Nat → Nat) (k k' : kmc) (st st' : store)
    (ens : ensemble) (products : List Nat)
    (h : kmc.perform_reaction_surface sc k st ens products = .ok (k', st')) :
    ∃ (this old : Nat) (members : List Nat) (obj : ensemble) (g0 g : rng) (b : Bool)
        (stp : store),
      st.random = some g0 ∧
      map_find ptr_lt (st.env this).ensemble_env old = some (old, members) ∧
      st.ens old = some obj ∧
      obj.get_coordination = (ensemble.ctor sc products).get_coordination ∧
      environment.place_species sc
        (random_shuffle (ensemble.ctor sc products).sorted_species g).1
        (st.with_random (random_shuffle (ensemble.ctor sc products).sorted_species g).2)
        members = .ok (b, stp) ∧
      stp.same_surface st' ∧
      (∀ e, (st'.env e).neighbors = (stp.env e).neighbors ∧
        (st'.env e).connected = (stp.env e).connected ∧
        (st'.env e).sites = (stp.env e).sites ∧
        (st'.env e).initialized = (stp.env e).initialized) ∧
      k'.max_sites = k.max_sites ∧ k'.environments = k.environments ∧
      k'.sites = k.sites := by
  obtain ⟨entry, inst, g, changed, deleted, hfind, hinst, hch, hdel, hge, hst⟩ :=
    kmc.perform_reaction_surface_ok sc k k' st st' ens products h
  obtain ⟨chst, chrem, chchg⟩ := changed
  obtain ⟨_, members, obj, g1, placed, c1, c2, c3, c4, hplace, hrec, _, _⟩ :=
    environment.change_ensemble_ok sc _ chst inst.2 inst.1 products [] [] chrem chchg hch
  obtain ⟨s1, s2⟩ := environment.recreate_ensembles_same sc _ _ _ hrec
  have hg0 : ∃ g0, st.random = some g0 := by
    unfold kmc.perform_reaction_surface at h
    split at h
    · cases h
    · split_ifs at h
      split at h
      · cases h
      · rename_i g0 hg0
        exact ⟨g0, hg0⟩
  obtain ⟨g0, hg0⟩ := hg0
  unfold kmc.delete_ensembles at hdel
  cases hd : kmc.delete_ensembles_loop chrem (k.ensembles, chst) with
  | error e => rw [hd] at hdel; cases hdel
  | ok rd =>
    rw [hd] at hdel
    simp only [Except.ok.injEq] at hdel
    obtain ⟨d1, d2, d3⟩ := kmc.delete_ensembles_loop_env chrem _ rd hd
    have hst' : st' = rd.2 := by rw [hst, ← hdel]
    have hk' : k'.max_sites = k.max_sites ∧ k'.environments = k.environments ∧
        k'.sites = k.sites := by
      unfold kmc.get_ensembles_changed at hge
      split at hge
      · cases hge
      · cases hge
        rw [← hdel]
        exact ⟨rfl, rfl, rfl⟩
    obtain ⟨b, stp⟩ := placed
    simp only [store.with_random] at c4
    cases c4
    have hstat : rd.2.env_type = chst.env_type ∧ rd.2.empty_site = chst.empty_site :=
      kmc.delete_ensembles_loop_statics chrem _ rd hd
    refine ⟨inst.2, inst.1, members, obj, g0, g, b, stp, hg0, c1, c2, c3, hplace, ?_, ?_, hk'⟩
    · rw [hst']
      refine ⟨?_, ?_, ?_, ?_, fun e => ?_⟩
      · rw [hstat.1]; exact s1.1
      · rw [d2]; exact s1.2.1
      · rw [d3]; exact s1.2.2.1
      · rw [hstat.2]; exact s1.2.2.2.1
      · rw [d1]; exact s1.2.2.2.2 e
    · intro e
      rw [hst', d1]
      exact s2 e

theorem kmc.perform_reaction_surface_rooted (sc : Nat → Nat) (k k' : kmc) (st st' : store)
    (ens : ensemble) (products : List Nat)
    (hI : st.groups_rooted ∧ st.max_sites = k.max_sites)
    (h : kmc.perform_reaction_surface sc k st ens products = .ok (k', st')) :
    st'.groups_rooted ∧ st'.max_sites = k'.max_sites := by
  obtain ⟨this, old, members, obj, g0, g, b, stp, _, _, _, _, hplace, hsame, henv, hk, _, _⟩ :=
    kmc.perform_reaction_surface_placement sc k k' st st' ens products h
  obtain ⟨hf, _, _⟩ := environment.place_species_frame sc _ _ _ _ _ hplace
  obtain ⟨_, _, _, _, f5, _, _, f8⟩ := hf
  have hmax : st'.max_sites = st.max_sites := by
    rw [← hsame.2.2.1, f5]
    rfl
  have hnb : ∀ e, (st'.env e).neighbors = (st.env e).neighbors := by
    intro e
    rw [(henv e).1, (f8 e).1]
    rfl
  have hsites : ∀ e, (st'.env e).sites = (st.env e).sites := by
    intro e
    rw [(henv e).2.2.1, (f8 e).2.2.1]
    rfl
  refine ⟨fun e g hg => ?_, by rw [hmax, hk, hI.2]⟩
  rw [hsites e] at hg
  obtain ⟨r1, r2, r3, r4⟩ := hI.1 e g hg
  exact ⟨r1, r2, by rw [hmax]; exact r3,
    (environment.connected_group_congr_iff st.env st'.env g hnb).2 r4⟩

/-- The site-groups of the engines that the program reaches: every site-group
is a set of at most `max_sites` environments that holds its environment and is
connected, and the maximum of the environments is the one of the engine. -/
theorem kmc.reached_rooted (sc : Nat → Nat) (mech : model_mechanism) (empty : Option Nat)
    (fuel : Nat) (reactor : List Nat → List Nat → Option exn) (k : kmc) (st : store)
    (h : kmc.reached sc mech empty fuel reactor k st) :
    st.groups_rooted ∧ st.max_sites = k.max_sites :=
  kmc.reached_induction sc mech empty fuel reactor
    (fun k st => st.groups_rooted ∧ st.max_sites = k.max_sites)
    (fun k0 k st0 st _ h2 h3 h4 h5 h6 =>
      kmc.initialize_rooted sc mech empty fuel k0 k st0 st h2 h3 h4 h5 h6)
    (fun k st ens products k' st' hI hs =>
      kmc.perform_reaction_surface_rooted sc k k' st st' ens products hI hs)
    k st h

theorem kmc.count_sites_env_error (max_sites : Nat) (hmax : max_sites < 2 ^ 32) :
    ∀ (sites : List (List Nat)) (site_count : List Int) (e : exn),
      (∀ g ∈ sites, 1 ≤ g.length ∧ g.length ≤ max_sites) →
      kmc.count_sites_env max_sites sites site_count = .error e →
      e = .undefined_behaviour := by
  intro sites
  induction sites with
  | nil =>
    intro site_count e _ h
    simp only [kmc.count_sites_env] at h
    cases h
  | cons g rest ih =>
    intro site_count e hg h
    obtain ⟨g1, g2⟩ := hg g (List.mem_cons_self _ _)
    have hmod : g.length % 2 ^ 32 = g.length := Nat.mod_eq_of_lt (by omega)
    simp only [kmc.count_sites_env, hmod] at h
    rw [if_neg (by omega), if_neg (by omega)] at h
    split at h
    · cases h
      rfl
    · split_ifs at h
      · cases h
        rfl
      · exact ih _ e (fun g' hg' => hg g' (List.mem_cons_of_mem _ hg')) h

theorem kmc.count_sites_loop_error (k : kmc) (st : store) (hmax : k.max_sites < 2 ^ 32)
    (hg : ∀ e g, g ∈ (st.env e).sites → 1 ≤ g.length ∧ g.length ≤ k.max_sites) :
    ∀ (envs : List Nat) (site_count : List Int) (e : exn),
      kmc.count_sites_loop k st envs site_count = .error e → e = .undefined_behaviour := by
  intro envs
  induction envs with
  | nil =>
    intro site_count e h
    simp only [kmc.count_sites_loop] at h
    cases h
  | cons x rest ih =>
    intro site_count e h
    simp only [kmc.count_sites_loop] at h
    split at h
    · rename_i e1 h1
      cases h
      exact kmc.count_sites_env_error k.max_sites hmax _ _ _ (fun g hgm => hg x g hgm) h1
    · exact ih _ e h

/-! ## Lemmas on the pool of `environment::place_species` -/

theorem list_set_set_swap_perm (l : List Nat) (i j : Nat) (x y : Nat)
    (hi : l[i]? = some x) (hj : l[j]? = some y) :
    ((l.set i y).set j x).Perm l := by
  have hil : i < l.length := by
    by_contra hcon
    rw [List.getElem?_eq_none (by omega)] at hi
    cases hi
  have hjl : j < l.length := by
    by_contra hcon
    rw [List.getElem?_eq_none (by omega)] at hj
    cases hj
  have hxi : l[i] = x := by
    rw [List.getElem?_eq_getElem hil] at hi
    exact Option.some.inj hi
  have hyj : l[j] = y := by
    rw [List.getElem?_eq_getElem hjl] at hj
    exact Option.some.inj hj
  by_cases hij : i = j
  · subst hij
    have hxy : x = y := by rw [← hxi, hyj]
    subst hxy
    rw [List.set_set]
    have hself : l.set i x = l := by
      apply List.ext_getElem?
      intro n
      rw [List.getElem?_set]
      by_cases hin : i = n
      · subst hin
        simp only [hil, if_true]
        exact hi.symm
      · simp only [hin, if_false]
    rw [hself]
  · rw [List.perm_iff_count]
    intro b
    have hjl1 : j < (l.set i y).length := by rw [List.length_set]; exact hjl
    have h1 : (l.set i y)[j] = y := by
      rw [List.getElem_set_ne hij]
      exact hyj
    rw [List.count_set _ _ _ _ hjl1, List.count_set _ _ _ _ hil, h1, hxi]
    have hx : x ∈ l := hxi ▸ List.getElem_mem hil
    have hy : y ∈ l := hyj ▸ List.getElem_mem hjl
    have cx : 0 < l.count x := List.count_pos_iff.2 hx
    have cy : 0 < l.count y := List.count_pos_iff.2 hy
    by_cases hxb : x = b
    · by_cases hyb : y = b
      · subst hxb
        subst hyb
        simp only [beq_self_eq_true, if_true]
        omega
      · subst hxb
        have : (y == x) = false := by simpa using hyb
        simp only [beq_self_eq_true, if_true, this]
        simp only [Bool.false_eq_true, if_false]
        omega
    · by_cases hyb : y = b
      · subst hyb
        have : (x == y) = false := by simpa using hxb
        simp only [beq_self_eq_true, if_true, this]
        simp only [Bool.false_eq_true, if_false]
        omega
      · have h2 : (x == b) = false := by simpa using hxb
        have h3 : (y == b) = false := by simpa using hyb
        simp only [h2, h3]
        simp

theorem random_shuffle_loop_perm (n i : Nat) (l : List Nat) (g : rng) :
    (random_shuffle_loop n i l g).1.Perm l := by
  induction n generalizing i l g with
  | zero => exact List.Perm.refl _
  | succ n ih =>
    simp only [random_shuffle_loop]
    cases hi : l[i]? with
    | none => exact List.Perm.refl _
    | some x =>
      cases hj : l[g.get_random.1 % (i + 1)]? with
      | none => exact List.Perm.refl _
      | some y =>
        simp only
        exact (ih _ _ _).trans (list_set_set_swap_perm l i _ x y hi hj)

/-- The call `std::random_shuffle` permutes the sequence. -/
theorem random_shuffle_perm (l : List Nat) (g : rng) : (random_shuffle l g).1.Perm l :=
  random_shuffle_loop_perm _ _ l g

theorem list_filter_not_contains_length (envs site : List Nat) (hnd : site.Nodup)
    (hsub : ∀ m ∈ site, m ∈ envs) :
    (envs.filter (fun orig_it => !set_contains ptr_lt site orig_it)).length + site.length
      ≤ envs.length := by
  have h1 := List.length_eq_length_filter_add (l := envs)
    (fun orig_it => !set_contains ptr_lt site orig_it)
  simp only [Bool.not_not] at h1
  have h2 : site.length ≤ (envs.filter (fun x => set_contains ptr_lt site x)).length := by
    apply List.Subperm.length_le
    apply List.subperm_of_subset hnd
    intro m hm
    rw [List.mem_filter]
    refine ⟨hsub m hm, ?_⟩
    simp [set_contains_ptr, hm]
  omega

theorem environment.place_species_loop_points_left
    (place_rest : store → List Nat → Except exn (Bool × store)) (s c n : Nat) (envs : List Nat)
    (hrest : ∀ st envs', place_rest st envs' = .error .bad_request_points_left →
      n < envs'.length) :
    ∀ (L : List (List Nat)) (st : store),
      (∀ site ∈ L, site.Nodup ∧ site.length = c ∧ ∀ m ∈ site, m ∈ envs) →
      environment.place_species_loop place_rest s envs L st = .error .bad_request_points_left →
      c + n < envs.length := by
  intro L
  induction L with
  | nil => intro st _ h; cases h
  | cons site more ih =>
    intro st hL h
    obtain ⟨s1, s2, s3⟩ := hL site (List.mem_cons_self _ _)
    simp only [environment.place_species_loop] at h
    cases hr : place_rest st (envs.filter (fun orig_it => !set_contains ptr_lt site orig_it)) with
    | error e1 =>
      rw [hr] at h
      cases h
      have h1 := hrest _ _ hr
      have h2 := list_filter_not_contains_length envs site s1 s3
      omega
    | ok r =>
      obtain ⟨b1, st1⟩ := r
      rw [hr] at h
      cases b1 with
      | true =>
        simp only at h
        cases hp : environment.place_on_site s site site st1 with
        | error e1 =>
          rw [hp] at h
          have := environment.place_on_site_error _ _ _ _ _ hp
          cases h
          cases this
        | ok st2 => rw [hp] at h; cases h
      | false =>
        simp only at h
        exact ih _ (fun site' hs' => hL site' (List.mem_cons_of_mem _ hs')) h

/-- The error of `environment::place_species` that lattice points are left
means that the pool has more environments than the species have sites. -/
theorem environment.place_species_points_left (sc : Nat → Nat) (sp : List Nat) :
    ∀ (st : store) (envs : List Nat),
      environment.place_species sc sp st envs = .error .bad_request_points_left →
      (sp.map sc).sum < envs.length := by
  induction sp with
  | nil =>
    intro st envs h
    simp only [environment.place_species] at h
    split_ifs at h with h1
    cases envs with
    | nil => simp at h1
    | cons a as => simp
  | cons s rest ih =>
    intro st envs h
    simp only [environment.place_species] at h
    split_ifs at h with h1 h2
    · cases h
    · cases h
    · have hc : 1 ≤ sc s := by omega
      obtain ⟨S, hS, hmem⟩ := environment.get_sites_grown st.env (sc s) envs hc
      rw [hS] at h
      simp only at h
      cases hg : st.random with
      | none => rw [hg] at h; cases h
      | some g =>
        rw [hg] at h
        simp only at h
        have := environment.place_species_loop_points_left
          (environment.place_species sc rest) s (sc s) (rest.map sc).sum envs ih
          (random_shuffle S g).1 _
          (by
            intro site hsite
            rw [random_shuffle_mem, hmem] at hsite
            obtain ⟨p1, p2, p3⟩ := environment.grown_props _ _ _ _ hsite
            exact ⟨pairwise_lt_nodup _ p1, p2, p3⟩) h
        simpa using this

/-! ## Lemmas on the molecules and the coordination of the instances -/

/-- A set of environments that holds whole molecules of `c` environments each
has a multiple of `c` environments. -/
theorem molecules_divide (ms : Nat → List Nat) (c : Nat) :
    ∀ (n : Nat) (A : List Nat), A.length = n → A.Nodup →
      (∀ m ∈ A, (ms m).Nodup ∧ m ∉ ms m ∧ (ms m).length + 1 = c ∧
        ∀ p ∈ ms m, p ∈ A ∧ ∀ x, x ∈ ms p ↔ x ≠ p ∧ (x = m ∨ x ∈ ms m)) →
      c ∣ n := by
  intro n
  induction n using Nat.strong_induction_on with
  | _ n ih =>
    intro A hlen hnd hA
    cases A with
    | nil =>
      simp only [List.length_nil] at hlen
      rw [← hlen]
      exact dvd_zero _
    | cons m rest =>
      obtain ⟨a1, a2, a3, a4⟩ := hA m (List.mem_cons_self _ _)
      have hMnd : (m :: ms m).Nodup := List.nodup_cons.2 ⟨a2, a1⟩
      have hMsub : ∀ x ∈ m :: ms m, x ∈ m :: rest := by
        intro x hx
        rcases List.mem_cons.1 hx with h0 | h0
        · rw [h0]; exact List.mem_cons_self _ _
        · exact (a4 x h0).1
      have hperm : ((m :: rest).filter (fun x => decide (x ∈ m :: ms m))).Perm (m :: ms m) := by
        refine (List.perm_ext_iff_of_nodup (hnd.filter _) hMnd).2 (fun a => ?_)
        rw [List.mem_filter]
        constructor
        · intro h
          simpa using h.2
        · intro h
          exact ⟨hMsub a h, by simpa using h⟩
      have hsplit := List.length_eq_length_filter_add (l := m :: rest)
        (fun x => decide (x ∈ m :: ms m))
      rw [hperm.length_eq, hlen] at hsplit
      simp only [List.length_cons] at hsplit
      have hrec := ih ((m :: rest).filter (fun x => !decide (x ∈ m :: ms m))).length
        (by omega) ((m :: rest).filter (fun x => !decide (x ∈ m :: ms m))) rfl (hnd.filter _)
        (by
          intro m' hm'
          rw [List.mem_filter] at hm'
          obtain ⟨hm'A, hm'M⟩ := hm'
          have hm'M : m' ∉ m :: ms m := by simpa using hm'M
          obtain ⟨b1, b2, b3, b4⟩ := hA m' hm'A
          refine ⟨b1, b2, b3, fun p hp => ⟨?_, (b4 p hp).2⟩⟩
          rw [List.mem_filter]
          refine ⟨(b4 p hp).1, ?_⟩
          have hpM : p ∉ m :: ms m := by
            intro hpM
            have hne : m' ≠ p := fun he => b2 (he ▸ hp)
            have hm'p : m' ∈ ms p := ((b4 p hp).2 m').2 ⟨hne, Or.inl rfl⟩
            rcases List.mem_cons.1 hpM with h0 | h0
            · rw [h0] at hm'p
              exact hm'M (List.mem_cons_of_mem _ hm'p)
            · rcases (((a4 p h0).2 m').1 hm'p).2 with h1 | h1
              · exact hm'M (h1 ▸ List.mem_cons_self _ _)
              · exact hm'M (List.mem_cons_of_mem _ h1)
          simpa using hpM)
      rw [hsplit, ← a3]
      exact Dvd.dvd.add (dvd_refl _) (a3 ▸ hrec)

theorem environment.insert_counted_sum (sc : Nat → Nat) :
    ∀ (m : List (Nat × Nat)) (out : List Nat),
      environment.insert_counted sc m = .ok out → (∀ e ∈ m, sc e.1 ∣ e.2) →
      (out.map sc).sum = (m.map Prod.snd).sum := by
  intro m
  induction m with
  | nil =>
    intro out h _
    simp only [environment.insert_counted, Except.ok.injEq] at h
    subst h
    rfl
  | cons e rest ih =>
    intro out h hdiv
    simp only [environment.insert_counted] at h
    split_ifs at h with h0
    cases h1 : environment.insert_counted sc rest with
    | error e1 => rw [h1] at h; cases h
    | ok out1 =>
      rw [h1] at h
      simp only [Except.ok.injEq] at h
      subst h
      rw [List.map_append, List.sum_append, ih out1 h1
        (fun e' he' => hdiv e' (List.mem_cons_of_mem _ he')), List.map_replicate,
        List.sum_replicate, List.map_cons, List.sum_cons, smul_eq_mul,
        Nat.div_mul_cancel (hdiv e (List.mem_cons_self _ _))]

theorem species_count_increment_sum (sp : Nat) :
    ∀ (m : List (Nat × Nat)),
      ((species_count_increment sp m).map Prod.snd).sum = (m.map Prod.snd).sum + 1 := by
  intro m
  induction m with
  | nil => simp [species_count_increment]
  | cons e es ih =>
    simp only [species_count_increment]
    split_ifs
    · simp only [List.map_cons, List.sum_cons]
      omega
    · simp only [List.map_cons, List.sum_cons, ih]
      omega
    · simp only [List.map_cons, List.sum_cons]
      omega

theorem species_count_foldl_sum (seq : List Nat) :
    ∀ (m : List (Nat × Nat)),
      ((seq.foldl (fun m sp => species_count_increment sp m) m).map Prod.snd).sum
        = (m.map Prod.snd).sum + seq.length := by
  induction seq with
  | nil => intro m; rfl
  | cons x xs ih =>
    intro m
    simp only [List.foldl_cons, List.length_cons]
    rw [ih, species_count_increment_sum]
    omega

theorem species_count_get_mem :
    ∀ (m : List (Nat × Nat)), m.Pairwise (fun a b => a.1 < b.1) → ∀ e ∈ m,
      species_count_get m e.1 = e.2 := by
  intro m
  induction m with
  | nil => intro _ e he; cases he
  | cons x xs ih =>
    intro hm e he
    rw [List.pairwise_cons] at hm
    rcases List.mem_cons.1 he with h0 | h0
    · subst h0
      simp [species_count_get]
    · have hlt := hm.1 e h0
      have hne : ¬ x.1 = e.1 := by omega
      simp only [species_count_get, hne, if_false]
      exact ih hm.2 e h0

theorem list_map_sum_ones (f : Nat → Nat) :
    ∀ (g : List Nat), (∀ m ∈ g, f m = 1) → (g.map f).sum = g.length := by
  intro g
  induction g with
  | nil => intro _; rfl
  | cons a as ih =>
    intro h
    rw [List.map_cons, List.sum_cons, h a (List.mem_cons_self _ _),
      ih (fun m hm => h m (List.mem_cons_of_mem _ hm)), List.length_cons]
    omega

/-- The species that `environment::create_ensembles` finds on a site-group that
holds the multisite partners of its members, on a lattice of whole and closed
molecules, have as many sites together as the site-group has members. -/
theorem environment.site_species_sum (sc : Nat → Nat) (envs : List Nat) (st : store)
    (g seq : List Nat) (hmol : st.molecules sc) (hcl : st.molecules_closed sc envs)
    (hnd : g.Nodup) (hsub : ∀ m ∈ g, m ∈ envs)
    (hcont : environment.site_contained st g = true)
    (h : environment.site_species sc st g = .ok seq) :
    (seq.map sc).sum = g.length := by
  unfold environment.site_species at h
  split_ifs at h with hms
  · obtain ⟨c1, c2⟩ := species_count_spec (environment.site_occupants st g)
    rw [environment.insert_counted_sum sc _ seq h, species_count, species_count_foldl_sum]
    · simp [environment.site_occupants]
    · intro e he
      have he2 : e.2 = (environment.site_occupants st g).count e.1 := by
        rw [← c2 e.1, species_count_get_mem _ c1 e he]
      rw [he2, environment.site_occupants, count_map_eq_length_filter]
      refine molecules_divide (fun m => (st.env m).multisite) (sc e.1) _
        (g.filter (fun m => (st.env m).center.type = e.1)) rfl (hnd.filter _) ?_
      intro m hm
      rw [List.mem_filter] at hm
      obtain ⟨hmg, hmt⟩ := hm
      have hmt : (st.env m).center.type = e.1 := by simpa using hmt
      obtain ⟨m1, m2, m3, _⟩ := hmol m
      refine ⟨m1, m2, by rw [← hmt]; exact hcl.1 m (hsub m hmg), fun p hp => ⟨?_, hcl.2 m (hsub m hmg) p hp⟩⟩
      rw [List.mem_filter]
      refine ⟨environment.site_contained_closed st g hcont m hmg p hp, ?_⟩
      rw [← hmt]
      simpa using (m3 p hp).1
  · simp only [Except.ok.injEq] at h
    subst h
    rw [environment.site_occupants, List.map_map]
    apply list_map_sum_ones
    intro m hm
    have hempty : (st.env m).multisite = [] := by
      simp only [environment.site_multisite, List.any_eq_true, not_exists, not_and,
        Bool.not_eq_true] at hms
      have := hms m hm
      simpa using this
    have := hcl.1 m (hsub m hm)
    rw [hempty] at this
    simp only [Function.comp]
    simpa using this.symm

/-- A placement of species on a pool that holds the multisite partners of its
environments keeps the molecules of the lattice closed. -/
theorem environment.place_species_closed (sc : Nat → Nat) (envs0 sp : List Nat) (st : store)
    (envs : List Nat) (b : Bool) (stp : store)
    (hsym : ∀ a ∈ envs, ∀ c ∈ envs, c ∈ (st.env a).neighbors → a ∈ (st.env c).neighbors)
    (hmol : st.molecules sc) (hcl : st.molecules_closed sc envs0)
    (hclosed : ∀ m ∈ envs, ∀ q ∈ (st.env m).multisite, q ∈ envs)
    (h : environment.place_species sc sp st envs = .ok (b, stp)) :
    stp.molecules_closed sc envs0 := by
  obtain ⟨hframe, hout, hfalse⟩ := environment.place_species_frame sc sp st envs b stp h
  cases b with
  | false =>
    have henv := hfalse rfl
    unfold store.molecules_closed
    rw [henv]
    exact hcl
  | true =>
    obtain ⟨gs, hpart, hass⟩ := environment.place_species_sound sc sp st envs stp hsym h
    obtain ⟨hf, _, hmem⟩ := hpart
    have hgroups := environment.assigned_groups sc st.env stp.env sp gs hf hass
    have hin : ∀ m ∈ envs, ∃ g ∈ gs, m ∈ g ∧ ∃ s ∈ sp, g.Pairwise (· < ·) ∧ g.length = sc s ∧
        ∀ e ∈ g, (stp.env e).center.type = s ∧
          (stp.env e).multisite = g.filter (fun it => it != e) := by
      intro m hm
      obtain ⟨g, hg, hmg⟩ := (hmem m).1 hm
      exact ⟨g, hg, hmg, hgroups g hg⟩
    refine ⟨?_, ?_⟩
    · intro m hm0
      by_cases hm : m ∈ envs
      · obtain ⟨g, hg, hmg, s, hs, hsorted, hlen, hall⟩ := hin m hm
        have hnd : g.Nodup := pairwise_lt_nodup g hsorted
        rw [(hall m hmg).2, (hall m hmg).1, list_filter_bne_length m g hnd hmg, hlen]
      · rw [hout m hm]
        exact hcl.1 m hm0
    · intro m hm0 p hp x
      by_cases hm : m ∈ envs
      · obtain ⟨g, hg, hmg, s, hs, hsorted, hlen, hall⟩ := hin m hm
        rw [(hall m hmg).2] at hp ⊢
        obtain ⟨hpg, hpm⟩ := List.mem_filter.1 hp
        have hpm : p ≠ m := by simpa using hpm
        rw [(hall p hpg).2]
        simp only [List.mem_filter, bne_iff_ne, ne_eq]
        constructor
        · rintro ⟨hxg, hxp⟩
          refine ⟨hxp, ?_⟩
          by_cases hxm : x = m
          · exact Or.inl hxm
          · exact Or.inr ⟨hxg, hxm⟩
        · rintro ⟨hxp, hx | hx⟩
          · exact ⟨hx ▸ hmg, hxp⟩
          · exact ⟨hx.1, hxp⟩
      · rw [hout m hm] at hp ⊢
        have hpe : p ∉ envs := by
          intro hpe
          exact hm (hclosed p hpe m ((hmol m).2.2.1 p hp).2)
        rw [hout p hpe]
        exact hcl.2 m hm0 p hp x

theorem store.molecules_closed_congr (sc : Nat → Nat) (envs : List Nat) {a b : store}
    (h : a.same_surface b) (hcl : a.molecules_closed sc envs) : b.molecules_closed sc envs := by
  obtain ⟨_, _, _, _, hs⟩ := h
  refine ⟨fun m hm => ?_, fun m hm p hp x => ?_⟩
  · rw [← (hs m).1, ← (hs m).2]
    exact hcl.1 m hm
  · rw [← (hs m).2] at hp ⊢
    rw [← (hs p).2]
    exact hcl.2 m hm p hp x

/-- The surface branch of `kmc::perform_reaction` keeps the invariant of the
engine with its lattice and the molecules closed. -/
theorem kmc.perform_reaction_surface_closed (sc : Nat → Nat) (k k' : kmc) (st st' : store)
    (ens : ensemble) (products : List Nat)
    (hI : kmc.lattice_whole sc k st ∧ st.molecules_closed sc k.environments)
    (h : kmc.perform_reaction_surface sc k st ens products = .ok (k', st')) :
    kmc.lattice_whole sc k' st' ∧ st'.molecules_closed sc k'.environments := by
  obtain ⟨hw, hcl⟩ := hI
  refine ⟨(kmc.perform_reaction_surface_whole sc k k' st st' ens products hw h).1, ?_⟩
  obtain ⟨this, old, members, obj, g0, g, b, stp, _, hfind, _, _, hplace, hsame, _, _, henvs, _⟩ :=
    kmc.perform_reaction_surface_placement sc k k' st st' ens products h
  obtain ⟨_, _, _, w4, w5, w6, _, _, _⟩ := hw
  have hmem : (old, members) ∈ (st.env this).ensemble_env :=
    (map_find_ptr_key _ old (old, members) hfind).2
  have hclosed := environment.site_contained_closed st members (w6 this old members hmem).2.1
  rw [henvs]
  exact store.molecules_closed_congr sc _ hsame
    (environment.place_species_closed sc k.environments _ (st.with_random _) members b stp
      (fun a _ c _ hc => w4 a c hc) w5 hcl hclosed hplace)

/-- The engines that the program reaches, with an empty site of coordination
1, keep the invariant of the engine with its lattice, and their molecules are
closed. -/
theorem kmc.reached_closed (sc : Nat → Nat) (mech : model_mechanism) (empty : Nat)
    (fuel : Nat) (reactor : List Nat → List Nat → Option exn) (k : kmc) (st : store)
    (hone : sc empty = 1) (h : kmc.reached sc mech (some empty) fuel reactor k st) :
    kmc.lattice_whole sc k st ∧ st.molecules_closed sc k.environments :=
  kmc.reached_induction sc mech (some empty) fuel reactor
    (fun k st => kmc.lattice_whole sc k st ∧ st.molecules_closed sc k.environments)
    (fun k0 k st0 st h1 h2 h3 h4 h5 h6 => by
      obtain ⟨a1, a2, _⟩ := kmc.initialize_whole sc mech empty fuel k0 k st0 st hone h1 h2 h3 h4
        h5 h6
      have hms : ∀ m ∈ k.environments, (st.env m).multisite = [] := by
        intro m hm
        by_contra hne
        have hlen := (a1.2.2.2.2.1 m).2.2.2 hne
        rw [a2 m hm, hone] at hlen
        have h0 : (st.env m).multisite.length = 0 := by omega
        exact hne (List.length_eq_zero.1 h0)
      refine ⟨a1, fun m hm => ?_, fun m hm p hp => ?_⟩
      · rw [hms m hm, a2 m hm, hone]
        rfl
      · rw [hms m hm] at hp
        cases hp)
    (fun k st ens products k' st' hI hs =>
      kmc.perform_reaction_surface_closed sc k k' st st' ens products hI hs)
    k st h

/-- The instances registered on a lattice of whole and closed molecules, with
site-groups that are sets of less than `2 ^ 32` environments of the engine:
the coordination of the object of an instance is the number of the members of
its site-group. -/
theorem environment.instance_coordination (sc : Nat → Nat) (k : kmc) (st : store)
    (hw : kmc.lattice_whole sc k st) (hcl : st.molecules_closed sc k.environments)
    (hr : st.groups_rooted) (hmax : st.max_sites < 2 ^ 32) (e p : Nat) (g : List Nat)
    (obj : ensemble) (hpg : (p, g) ∈ (st.env e).ensemble_env) (hobj : st.ens p = some obj) :
    obj.get_coordination = g.length := by
  obtain ⟨_, _, w3, w4, w5, w6, w7, _, _⟩ := hw
  have hsites : g ∈ (st.env e).sites := (store.surface_built_connected st w3 w4).2 e p g hpg
  obtain ⟨r1, _, r3, _⟩ := hr e g hsites
  obtain ⟨_, c2, seq, c3, c4⟩ := w6 e p g hpg
  rw [hobj] at c4
  cases c4
  have hsum := environment.site_species_sum sc k.environments st g seq w5 hcl
    (pairwise_lt_nodup g r1) (fun m hm => (w7 e g hsites m hm).1) c2 c3
  rw [ensemble.get_coordination, ensemble.coordination_eq, hsum]
  exact Nat.mod_eq_of_lt (by omega)

/-- Where the error of `environment::change_ensemble` that lattice points are
left comes from: the call of `environment::place_species` with the shuffled
species of the products and the members of the old instance. -/
theorem environment.change_ensemble_points_left (sc : Nat → Nat) (st : store) (this : Nat)
    (reactants : Nat) (products remove changed : List Nat)
    (h : environment.change_ensemble sc st this reactants products remove changed
      = .error .bad_request_points_left) :
    ∃ members obj g,
      map_find ptr_lt (st.env this).ensemble_env reactants = some (reactants, members) ∧
      st.ens reactants = some obj ∧
      obj.get_coordination = (ensemble.ctor sc products).get_coordination ∧
      st.random = some g ∧
      environment.place_species sc
        (random_shuffle (ensemble.ctor sc products).sorted_species g).1
        (st.with_random (random_shuffle (ensemble.ctor sc products).sorted_species g).2)
        members = .error .bad_request_points_left := by
  unfold environment.change_ensemble at h
  split_ifs at h with hinit
  · cases h
  · cases hfind : map_find ptr_lt (st.env this).ensemble_env reactants with
    | none => rw [hfind] at h; cases h
    | some old_ens_env =>
      rw [hfind] at h
      simp only at h
      cases hobj : st.ens reactants with
      | none => rw [hobj] at h; cases h
      | some obj =>
        rw [hobj] at h
        simp only at h
        split_ifs at h with hcoord
        · cases h
        · cases hrand : st.random with
          | none => rw [hrand] at h; cases h
          | some g =>
            rw [hrand] at h
            simp only at h
            cases hplace : environment.place_species sc
                (random_shuffle (ensemble.ctor sc products).sorted_species g).1
                (st.with_random (random_shuffle (ensemble.ctor sc products).sorted_species g).2)
                old_ens_env.2 with
            | error e =>
              rw [hplace] at h
              simp only [Except.error.injEq] at h
              subst h
              obtain ⟨key, members⟩ := old_ens_env
              have hkey := (map_find_ptr_key _ reactants (key, members) hfind).1
              simp only at hkey
              subst hkey
              exact ⟨members, obj, g, rfl, rfl, by simpa using hcoord, rfl, hplace⟩
            | ok placed =>
              rw [hplace] at h
              simp only at h
              cases hrec : environment.recreate_ensembles sc
                  (environment.collect_changed st this old_ens_env.2 changed) placed.2 with
              | error e =>
                rw [hrec] at h
                simp only [Except.error.injEq] at h
                subst h
                cases environment.recreate_ensembles_error _ _ _ _ hrec
              | ok st1 => rw [hrec] at h; cases h

/-! ## Lemmas on the example of the reaction that cannot be placed -/

set_option maxRecDepth 1000000 in
set_option maxHeartbeats 0 in
/-- The example of the lattice of four rows and four columns, evaluated: the
call of `kmc::initialize` returns, the engine has the reaction `4 @ -> 2 @@A`
with the class of four empty sites, the lattice holds the empty site on its
sixteen sites, and after `kmc::perform_reaction` it still does, while the
coverages have become `3/4` and `1/8`; and `environment::place_species` returns
`false` for two species `2` on the members of the instance `20`. -/
theorem example_pairs_summary :
    example_initialize_pairs.toOption.isSome = true ∧
    example_simulation_pairs.engine.rxn_ens
      = [(0, (some (ensemble.ctor example_sc [1, 1, 1, 1]), none))] ∧
    example_simulation_pairs.engine.sites = 16 ∧
    kmc.coverage_summary example_simulation_pairs = (16, 0, 1, 0) ∧
    example_perform_pairs.toOption.map kmc.coverage_summary = some (16, 0, 3 / 4, 1 / 8) ∧
    example_perform_pairs.toOption.map (fun w => w.engine.sites) = some 16 ∧
    map_find ptr_lt (example_simulation_pairs.memory.env 0).ensemble_env 20
      = some (20, [0, 1, 3, 12]) ∧
    (environment.place_species example_sc [2, 2] example_simulation_pairs.memory
      [0, 1, 3, 12]).toOption.map Prod.fst = some false := by
  with_unfolding_all decide

/-! ## Lemmas on what `kmc::perform_reaction` does to the lattice -/

theorem environment.assigned_of_same (env env' : Nat → environment) :
    ∀ (sp : List Nat) (gs : List (List Nat)),
      (∀ e, (env' e).center.type = (env e).center.type ∧
        (env' e).multisite = (env e).multisite) →
      environment.assigned env sp gs → environment.assigned env' sp gs
  | [], [], _, _ => trivial
  | [], _ :: _, _, ha => ha
  | _ :: _, [], _, ha => ha
  | s :: rest, g :: gs, h, ha => by
    simp only [environment.assigned] at ha ⊢
    refine ⟨fun e he => ?_, environment.assigned_of_same env env' rest gs h ha.2⟩
    rw [(h e).1, (h e).2]
    exact ha.1 e he

/-- The surface branch of `kmc::perform_reaction` on an engine whose class map
holds the registered instances, with a symmetric neighbour relation: the
instance drawn is consumed, and the products are placed on its members when
`environment::place_species` returns true, while the lattice is left as it was
when it returns false. -/
theorem kmc.perform_reaction_surface_outcome (sc : Nat → Nat) (k kf : kmc) (st stf : store)
    (ens : ensemble) (products : List Nat)
    (hwf : kmc.well_formed k.ensembles st) (hinv : kmc.classes_registered k.ensembles st)
    (hsym : ∀ a x, x ∈ (st.env a).neighbors → a ∈ (st.env x).neighbors)
    (h : kmc.perform_reaction_surface sc k st ens products = .ok (kf, stf)) :
    kmc.reaction_outcome sc k st ens products kf stf := by
  obtain ⟨entry, inst, g, changed, deleted, hfind, hinst, hch, hdel, hge, hst⟩ :=
    kmc.perform_reaction_surface_ok sc k kf st stf ens products h
  obtain ⟨hentry, hspecies⟩ := map_find_ensemble_some k.ensembles ens entry hfind
  obtain ⟨hreg, obj, hobj, hobjs⟩ := (hinv entry hentry inst.1 inst.2).1 hinst
  obtain ⟨st1, remove, chg⟩ := changed
  obtain ⟨_, members, obj', g1, placed, c1, _, _, c4, hplace, hrec, hchg, _⟩ :=
    environment.change_ensemble_ok sc _ st1 inst.2 inst.1 products [] [] remove chg hch
  simp only [store.with_random] at c4
  cases c4
  obtain ⟨b, stp⟩ := placed
  simp only at hrec
  obtain ⟨i1, i2, i3, i4, _, _, _, _⟩ :=
    environment.change_ensemble_instances sc (st.with_random g) st1 inst.2 inst.1 products
      remove chg hwf.2.2.1 hch
  obtain ⟨s1, _⟩ := environment.recreate_ensembles_same sc _ _ _ hrec
  obtain ⟨_, hout, hfalse⟩ := environment.place_species_frame sc _ _ members b stp hplace
  obtain ⟨kd, std⟩ := deleted
  have hstd : stf = std := hst
  subst hstd
  have henv : stf.env = st1.env := by
    unfold kmc.delete_ensembles at hdel
    cases hd : kmc.delete_ensembles_loop remove (k.ensembles, st1) with
    | error e => rw [hd] at hdel; cases hdel
    | ok rd =>
      rw [hd] at hdel
      simp only [Except.ok.injEq, Prod.mk.injEq] at hdel
      rw [← hdel.2]
      exact (kmc.delete_ensembles_loop_env remove _ rd hd).1
  have hthis : inst.2 ∈ chg := by
    rw [hchg, environment.collect_changed_mem]
    exact Or.inr (Or.inl rfl)
  have hgone : ∀ e, inst.1 ∉ (stf.env e).ensembles := by
    intro e he
    rw [henv] at he
    by_cases hec : e ∈ chg
    · have := ((i4 e hec).2 inst.1 he).1
      have hlt := hwf.2.2.2 inst.2 inst.1 hreg
      have hn : (st.with_random g).next = st.next := rfl
      omega
    · rw [i3 e hec] at he
      have : e = inst.2 := hwf.2.2.1.2 e inst.2 inst.1 he hreg
      exact hec (this ▸ hthis)
  obtain ⟨_, hupd⟩ := kmc.update_registered sc k (st.with_random g) st1 inst.2 inst.1 products
    remove chg (kmc.well_formed_with_random _ _ _ hwf)
    (kmc.classes_registered_with_random _ _ _ hinv) hch
  obtain ⟨_, hinvf⟩ := hupd kd stf kf hdel hge
  have hsame : ∀ e, (stf.env e).center.type = (stp.env e).center.type ∧
      (stf.env e).multisite = (stp.env e).multisite := by
    intro e
    rw [henv, (s1.2.2.2.2 e).1, (s1.2.2.2.2 e).2]
    exact ⟨rfl, rfl⟩
  refine ⟨entry, inst, obj, members,
    (random_shuffle (ensemble.ctor sc products).sorted_species g).1,
    (random_shuffle (ensemble.ctor sc products).sorted_species g).2, b, stp,
    hfind, hinst, hreg, hobj, by rw [hobjs, hspecies], c1, hgone, ?_,
    random_shuffle_perm _ g, hplace, hsame, ?_, ?_, ?_⟩
  · intro c hc hin
    exact hgone inst.2 ((hinvf c hc inst.1 inst.2).1 hin).1
  · intro e he
    rw [(hsame e).1, (hsame e).2, hout e he]
    exact ⟨rfl, rfl⟩
  · intro hb
    subst hb
    obtain ⟨gs, hpart, hass⟩ := environment.place_species_sound sc _
      ((st.with_random g).with_random _) members stp (fun a _ c _ hc => hsym a c hc) hplace
    exact ⟨gs, hpart, environment.assigned_of_same stp.env stf.env _ gs hsame hass⟩
  · intro hb e
    rw [(hsame e).1, (hsame e).2, hfalse hb]
    exact ⟨rfl, rfl⟩

set_option maxRecDepth 1000000 in
set_option maxHeartbeats 0 in
/-- The example of the lattice of four rows and four columns, evaluated for
`kmc::perform_reaction` with the rate 1 and the forward class of four empty
sites: the call of `kmc::initialize` returns; the products of the reaction
`4 @ -> 2 @@A` are two species `2`; the call of `kmc::perform_reaction` returns,
and each of the sixteen environments of the engine holds the empty site,
without a multisite list, before the call and after it. -/
theorem example_pairs_reaction :
    example_initialize_pairs.toOption.isSome = true ∧
    example_rxn_pairs.get_reactant_seq_ptr = some [1, 1, 1, 1] ∧
    example_rxn_pairs.get_product_seq_ptr = some [2, 2] ∧
    (map_find ensemble.lt example_simulation_pairs.engine.ensembles
      (ensemble.ctor example_sc [1, 1, 1, 1])).map (fun c => c.2.length) = some 64 ∧
    (example_simulation_pairs.engine.environments,
      example_simulation_pairs.engine.environments.map
        (fun e => ((example_simulation_pairs.memory.env e).center.type,
          (example_simulation_pairs.memory.env e).multisite)))
      = (List.range 16, List.replicate 16 (1, [])) ∧
    (kmc.perform_reaction example_sc (fun _ _ => none) example_simulation_pairs.engine
      example_simulation_pairs.memory example_rxn_pairs
      (some (ensemble.ctor example_sc [1, 1, 1, 1]), none) 1).toOption.map
        (fun r => (r.1.environments,
          r.1.environments.map (fun e => ((r.2.env e).center.type, (r.2.env e).multisite))))
      = some (List.range 16, List.replicate 16 (1, [])) := by
  with_unfolding_all decide

/-! ## Claims -/

/-- C1: two species sequences that are permutations of each other give
ensembles that compare equal under `ensemble::operator<` (neither is less than
the other); they are in fact the same value, so `find` addresses the same
entry in every ensemble class map. -/
theorem C1_permuted_sequences_same_key (sc : Nat → Nat)
    (s1 s2 : List Nat) (h : s1.Perm s2) :
    (ensemble.ctor sc s1).lt (ensemble.ctor sc s2) = false ∧
    (ensemble.ctor sc s2).lt (ensemble.ctor sc s1) = false ∧
    ∀ (ν : Type) (m : List (ensemble × ν)),
      map_find ensemble.lt m (ensemble.ctor sc s1) =
        map_find ensemble.lt m (ensemble.ctor sc s2) := by
  rw [ensemble.ctor_perm sc h]
  exact ⟨lexicographical_compare_irrefl _, lexicographical_compare_irrefl _, fun _ _ => rfl⟩

/-- Witness of C1 on the sequences `[A, B]` and `[B, A]`. -/
theorem C1_permuted_sequences_same_key_witness :
    (ensemble.ctor (fun _ => 1) [1, 2]).lt (ensemble.ctor (fun _ => 1) [2, 1]) = false ∧
    (ensemble.ctor (fun _ => 1) [2, 1]).lt (ensemble.ctor (fun _ => 1) [1, 2]) = false ∧
    ∀ (ν : Type) (m : List (ensemble × ν)),
      map_find ensemble.lt m (ensemble.ctor (fun _ => 1) [1, 2]) =
        map_find ensemble.lt m (ensemble.ctor (fun _ => 1) [2, 1]) :=
  C1_permuted_sequences_same_key (fun _ => 1) [1, 2] [2, 1] (List.Perm.swap 2 1 [])

/-- C2: `kmc::create_ensembles` raises `bad_input` for every mechanism with a
reaction whose reactant ensemble and product ensemble differ in total
coordination, and does not raise its coordination error when the two
coordinations agree for every reaction. -/
theorem C2_create_ensembles_coordination_check (sc : Nat → Nat)
    (mech : model_mechanism) (empty_site : Option Nat) (k : kmc) :
    ((∃ r ∈ mech.reactions, r.coordination_mismatch sc) →
      ∃ e, kmc.create_ensembles sc mech empty_site k = .error e ∧ e.cls = .bad_input) ∧
    ((∀ r ∈ mech.reactions, ¬ r.coordination_mismatch sc) →
      kmc.create_ensembles sc mech empty_site k ≠ .error .bad_input_coordination) := by
  constructor
  · intro h
    obtain ⟨e, he, hc⟩ := kmc.create_ensembles_reactions_mismatch sc mech.reactions h 0 k
    exact ⟨e, by simp [kmc.create_ensembles, he], hc⟩
  · intro h
    have hn := kmc.create_ensembles_reactions_no_mismatch sc mech.reactions h 0 k
    unfold kmc.create_ensembles
    cases hr : kmc.create_ensembles_reactions sc mech.reactions 0 k with
    | error e =>
      rw [hr] at hn
      simpa using hn
    | ok k1 =>
      simp only
      cases empty_site with
      | none => split_ifs <;> simp
      | some empty => split_ifs <;> simp

/-- Witness of C2: the mechanism with the reaction `@ -> @@A` is refused with
`bad_input`, the mechanism with `2 @ <-> @@A` does not raise the coordination
error. -/
theorem C2_create_ensembles_coordination_check_witness :
    (∃ e, kmc.create_ensembles example_sc
        ⟨[1, 2], [example_rxn_balanced, example_rxn_unbalanced]⟩ (some 1) example_kmc = .error e ∧
      e.cls = .bad_input) ∧
    kmc.create_ensembles example_sc ⟨[1, 2], [example_rxn_balanced]⟩ (some 1) example_kmc
      ≠ .error .bad_input_coordination :=
  ⟨(C2_create_ensembles_coordination_check example_sc
      ⟨[1, 2], [example_rxn_balanced, example_rxn_unbalanced]⟩ (some 1) example_kmc).1
      ⟨example_rxn_unbalanced, by simp, example_rxn_unbalanced_mismatch⟩,
   (C2_create_ensembles_coordination_check example_sc
      ⟨[1, 2], [example_rxn_balanced]⟩ (some 1) example_kmc).2
      (by
        intro r hr
        simp only [List.mem_singleton] at hr
        subst hr
        exact example_rxn_balanced_no_mismatch)⟩

/-- C3: for the engine and the store after `kmc::initialize` and any calls of
`kmc::perform_reaction`, and any state of the generator, on a successful
`environment::change_ensemble` started with empty outputs: every environment
that is not in the returned `changed` has the same centre occupant, multisite
list, `ensembles` and `ensemble_env` as before, the members of each of its
site-groups hold the same species and multisite lists as before, and only
members of the replaced instance can change occupant. -/
theorem C3_change_ensemble_frame (sc : Nat → Nat) (mech : model_mechanism) (empty : Option Nat)
    (fuel : Nat) (reactor : List Nat → List Nat → Option exn) (k : kmc) (st st' : store)
    (g : rng) (this old : Nat) (products remove changed members : List Nat)
    (hreach : kmc.reached sc mech empty fuel reactor k st)
    (hfind : map_find ptr_lt (st.env this).ensemble_env old = some (old, members))
    (h : environment.change_ensemble sc (st.with_random g) this old products [] []
      = .ok (st', remove, changed)) :
    (∀ e, e ∉ changed →
      (st'.env e).center.type = (st.env e).center.type ∧
      (st'.env e).multisite = (st.env e).multisite ∧
      (st'.env e).ensembles = (st.env e).ensembles ∧
      (st'.env e).ensemble_env = (st.env e).ensemble_env ∧
      ∀ g ∈ (st.env e).sites,
        environment.site_occupants st' g = environment.site_occupants st g ∧
        ∀ m ∈ g, (st'.env m).multisite = (st.env m).multisite) ∧
    (∀ e, (st'.env e).center.type ≠ (st.env e).center.type → e ∈ members) := by
  obtain ⟨hbuilt, hsym⟩ := kmc.reached_surface sc mech empty fuel reactor k st hreach
  obtain ⟨hconn, hsites⟩ := store.surface_built_connected st hbuilt hsym
  have hmem : members ∈ (st.env this).sites :=
    hsites this old members (map_find_ptr_key _ old (old, members) hfind).2
  exact environment.change_ensemble_frame sc (st.with_random g) st' this old products remove
    changed members hfind (fun m hm => (hconn this members hmem m hm).2)
    (fun e gr hgr m hm _ => (hconn e gr hgr m hm).1) h

/-- Witness of C3: on the lattice of three rows and three columns after
`kmc::initialize`, the call of `change_ensemble` at the environment `0`
replaces the instance `10` on the environments `0` and `1`; the environments
`5` and `8` are not in `changed`. -/
theorem C3_change_ensemble_frame_witness :
    example_frame_changed = [0, 1, 2, 3, 4, 6, 7] ∧
    (example_frame_store.env 0).center.type ≠ (example_memory_init.env 0).center.type ∧
    ((∀ e, e ∉ example_frame_changed →
      (example_frame_store.env e).center.type = (example_memory_init.env e).center.type ∧
      (example_frame_store.env e).multisite = (example_memory_init.env e).multisite ∧
      (example_frame_store.env e).ensembles = (example_memory_init.env e).ensembles ∧
      (example_frame_store.env e).ensemble_env = (example_memory_init.env e).ensemble_env ∧
      ∀ g ∈ (example_memory_init.env e).sites,
        environment.site_occupants example_frame_store g
          = environment.site_occupants example_memory_init g ∧
        ∀ m ∈ g, (example_frame_store.env m).multisite
          = (example_memory_init.env m).multisite) ∧
    (∀ e, (example_frame_store.env e).center.type ≠ (example_memory_init.env e).center.type →
      e ∈ [0, 1])) :=
  ⟨by decide, by decide,
    C3_change_ensemble_frame example_sc example_mech (some 1) 20 (fun _ _ => none)
      example_engine_init example_memory_init example_frame_store example_rng 0 10 [2]
      example_frame_remove example_frame_changed [0, 1]
      (kmc.reached.init rfl rfl rfl (by decide) (fun _ => ⟨_, rfl⟩) example_initialize_eq)
      (by decide) example_frame_change_eq⟩

/-- C4: for the engine and the store after `kmc::initialize` and after every
`kmc::perform_reaction` that follows, the instance map of every class of the
class map holds exactly the pairs of an instance and an environment such that
the instance is in the ensemble list of the environment and has the sorted
species of the class; and the call of `kmc::delete_ensembles` that
`kmc::perform_reaction` makes then, with the instances that
`environment::change_ensemble` has put into `remove`, does not raise the
`corrupted` error. -/
theorem C4_class_map_invariant (sc : Nat → Nat) (mech : model_mechanism) (empty : Option Nat)
    (fuel : Nat) (reactor : List Nat → List Nat → Option exn) (k : kmc) (st : store)
    (h : kmc.reached sc mech empty fuel reactor k st) :
    kmc.classes_registered k.ensembles st ∧
    ∀ (g : rng) (this old : Nat) (products : List Nat) (st1 : store) (remove changed : List Nat),
      environment.change_ensemble sc (st.with_random g) this old products [] []
        = .ok (st1, remove, changed) →
      kmc.delete_ensembles k st1 remove ≠ .error .bad_pointer_corrupted := by
  obtain ⟨hwf, hinv⟩ := kmc.reached_registered sc mech empty fuel reactor k st h
  refine ⟨hinv, ?_⟩
  intro g this old products st1 remove changed hch
  exact (kmc.update_registered sc k (st.with_random g) st1 this old products remove changed
    (kmc.well_formed_with_random _ _ _ hwf) (kmc.classes_registered_with_random _ _ _ hinv)
    hch).1

/-- Witness of C4: the engine on the lattice of three rows and three columns after
`kmc::initialize` and one reaction that puts the species `2` on two empty
sites. -/
theorem C4_class_map_invariant_witness :
    example_engine_reacted.ensembles.map (fun c => (c.1.sorted_species, c.2.length))
      = [([1], 7), ([1, 1], 22)] ∧
    kmc.classes_registered example_engine_reacted.ensembles example_memory_reacted ∧
    ∀ (g : rng) (this old : Nat) (products : List Nat) (st1 : store) (remove changed : List Nat),
      environment.change_ensemble example_sc (example_memory_reacted.with_random g) this old
        products [] [] = .ok (st1, remove, changed) →
      kmc.delete_ensembles example_engine_reacted st1 remove ≠ .error .bad_pointer_corrupted :=
  ⟨by decide,
    C4_class_map_invariant example_sc example_mech (some 1) 20 (fun _ _ => none)
      example_engine_reacted example_memory_reacted
      (kmc.reached.step
        (kmc.reached.init rfl rfl rfl (by decide) (fun _ => ⟨_, rfl⟩) example_initialize_eq)
        example_perform_reaction_eq)⟩

/-- C5: given the net rates of the reactions in the iteration order of
`rxn_ens`, with a total `T` of their absolute values that is positive and not
below the precision threshold, the draw `r` of `kmc::select_reaction` lies in
`[0, T)` and the reaction returned is the one at the position `i` with
`sum_{j<i} |n_j| <= r < sum_{j<=i} |n_j|`; its net rate is not zero. -/
theorem C5_select_reaction_cumulative (n : Nat → ℚ) (precision : ℚ) (k : kmc) (g : rng)
    (hkeys : (k.rxn_ens.map Prod.fst).Nodup)
    (hmax : g.stream g.calls ≤ g.max)
    (hprec : precision ≤ (k.rxn_ens.map (fun e => |n e.1|)).sum)
    (hpos : 0 < (k.rxn_ens.map (fun e => |n e.1|)).sum) :
    0 ≤ (g.get_random_open (k.rxn_ens.map (fun e => |n e.1|)).sum).1 ∧
    (g.get_random_open (k.rxn_ens.map (fun e => |n e.1|)).sum).1
      < (k.rxn_ens.map (fun e => |n e.1|)).sum ∧
    ∃ i rxn_ens_it total_rate g',
      k.rxn_ens[i]? = some rxn_ens_it ∧
      kmc.select_reaction (fun rxn => .ok (n rxn)) precision k g
        = .ok ((rxn_ens_it.1, total_rate), g') ∧
      cumulative_rate (k.rxn_ens.map (fun e => n e.1)) i
        ≤ (g.get_random_open (k.rxn_ens.map (fun e => |n e.1|)).sum).1 ∧
      (g.get_random_open (k.rxn_ens.map (fun e => |n e.1|)).sum).1
        < cumulative_rate (k.rxn_ens.map (fun e => n e.1)) (i + 1) ∧
      n rxn_ens_it.1 ≠ 0 := by
  have hbounds := g.get_random_open_bounds (k.rxn_ens.map (fun e => |n e.1|)).sum
  have hbounds2 := hbounds hpos hmax
  obtain ⟨hr0, hrT⟩ := hbounds2
  refine ⟨hr0, hrT, ?_⟩
  obtain ⟨st, hloop, hcum, htot⟩ := kmc.select_reaction_loop_cum n k.rxn_ens
    { total_rate := 0, rates := [], cum_rates := [] } (fun e he => by simp at he)
  simp only [List.nil_append, zero_add] at hcum htot
  have hrates := kmc.select_reaction_loop_rates n k.rxn_ens
    { total_rate := 0, rates := [], cum_rates := [] } st hkeys (fun e _ => rfl) hloop
  have hrT0 : (g.get_random_open (k.rxn_ens.map (fun e => |n e.1|)).sum).1
      < 0 + (k.rxn_ens.map (fun e => |n e.1|)).sum := by
    rw [zero_add]; exact hrT
  have hsel := map_insert_next_cum_entries n k.rxn_ens 0
    (g.get_random_open (k.rxn_ens.map (fun e => |n e.1|)).sum).1
  have hsel2 := hsel hr0 hrT0
  obtain ⟨i, x, c, hget, hnext, hlo, hhi⟩ := hsel2
  have hxmem : x.1 ∈ k.rxn_ens.map Prod.fst :=
    List.mem_map_of_mem Prod.fst (List.getElem?_mem hget)
  have hfind : map_find ptr_lt st.rates x.1 = some (x.1, n x.1) := by
    rw [hrates x.1]; simp [hxmem]
  simp only [zero_add] at hlo hhi
  have hnz : n x.1 ≠ 0 := by
    intro h0
    have hstep := cumulative_rate_succ (k.rxn_ens.map (fun e => n e.1)) i (n x.1)
      (by rw [List.getElem?_map, hget]; rfl)
    rw [hstep, h0] at hhi
    simp at hhi
    linarith
  have hnp : ¬ st.total_rate < precision := by rw [htot]; exact not_lt.mpr hprec
  by_cases hneg : n x.1 < 0
  · refine ⟨i, x, st.total_rate * -1, (g.get_random_open st.total_rate).2, hget, ?_, hlo, hhi, hnz⟩
    simp only [kmc.select_reaction, hloop, hnp, if_false]
    rw [hcum, htot, hnext]
    simp only [hfind, hneg, if_true]
  · refine ⟨i, x, st.total_rate, (g.get_random_open st.total_rate).2, hget, ?_, hlo, hhi, hnz⟩
    simp only [kmc.select_reaction, hloop, hnp, if_false]
    rw [hcum, htot, hnext]
    simp only [hfind, hneg, if_false]

/-- Witness of C5: three reactions with the net rates `1`, `0`, `-1` and a draw
equal to the first cumulative total. -/
theorem C5_select_reaction_cumulative_witness :
    0 ≤ (example_rng.get_random_open
      (example_kmc_rates.rxn_ens.map (fun e => |example_net_rate e.1|)).sum).1 ∧
    (example_rng.get_random_open
      (example_kmc_rates.rxn_ens.map (fun e => |example_net_rate e.1|)).sum).1
      < (example_kmc_rates.rxn_ens.map (fun e => |example_net_rate e.1|)).sum ∧
    ∃ i rxn_ens_it total_rate g',
      example_kmc_rates.rxn_ens[i]? = some rxn_ens_it ∧
      kmc.select_reaction (fun rxn => .ok (example_net_rate rxn)) DBL_EPSILON example_kmc_rates
        example_rng = .ok ((rxn_ens_it.1, total_rate), g') ∧
      cumulative_rate (example_kmc_rates.rxn_ens.map (fun e => example_net_rate e.1)) i
        ≤ (example_rng.get_random_open
          (example_kmc_rates.rxn_ens.map (fun e => |example_net_rate e.1|)).sum).1 ∧
      (example_rng.get_random_open
          (example_kmc_rates.rxn_ens.map (fun e => |example_net_rate e.1|)).sum).1
        < cumulative_rate (example_kmc_rates.rxn_ens.map (fun e => example_net_rate e.1)) (i + 1) ∧
      example_net_rate rxn_ens_it.1 ≠ 0 :=
  C5_select_reaction_cumulative example_net_rate DBL_EPSILON example_kmc_rates example_rng
    (by decide) (by decide)
    (by norm_num [example_kmc_rates, example_net_rate, DBL_EPSILON])
    (by norm_num [example_kmc_rates, example_net_rate])

/-- C6: for species that all have a surface coordination of at least 1 and a
pool of distinct, initialized environments whose size is the sum of the
coordinations (and fits the `int` that `get_sites` takes), with a symmetric
neighbour relation on the pool, `environment::place_species` returns, and it
returns true if and only if the pool can be partitioned into connected groups,
the group of a species having as many members as its coordination.  The
generator of the shuffles is arbitrary, so this holds for every outcome of the
shuffles. -/
theorem C6_place_species_iff_partition (sc : Nat → Nat) (sp : List Nat) (st : store)
    (envs : List Nat) (hcoord : ∀ s ∈ sp, 1 ≤ sc s) (hsize : envs.length = (sp.map sc).sum)
    (hint : envs.length < 2 ^ 31) (hset : envs.Nodup)
    (hsym : ∀ a ∈ envs, ∀ b ∈ envs, b ∈ (st.env a).neighbors → a ∈ (st.env b).neighbors)
    (hinit : ∀ e ∈ envs, (st.env e).initialized = true) (hrand : st.random.isSome = true) :
    ∃ b st', environment.place_species sc sp st envs = .ok (b, st') ∧
      (b = true ↔ ∃ gs, environment.is_partition sc st.env sp envs gs) := by
  obtain ⟨b, st', hok, hcomplete⟩ :=
    environment.place_species_complete sc sp st envs hcoord hint hsize hset hinit hrand
  refine ⟨b, st', hok, ?_, hcomplete⟩
  intro hb
  subst hb
  obtain ⟨gs, hgs, _⟩ := environment.place_species_sound sc sp st envs st' hsym hok
  exact ⟨gs, hgs⟩

/-- Witness of C6: the species `2`, of coordination 2, on the pool `{0, 1}` of
the example store. -/
theorem C6_place_species_iff_partition_witness :
    (∀ s ∈ [2], 1 ≤ example_sc s) ∧ [0, 1].length = ([2].map example_sc).sum ∧
    ∃ b st', environment.place_species example_sc [2] example_store [0, 1] = .ok (b, st') ∧
      (b = true ↔ ∃ gs, environment.is_partition example_sc example_store.env [2] [0, 1] gs) :=
  ⟨by decide, by decide,
    C6_place_species_iff_partition example_sc [2] example_store [0, 1] (by decide) (by decide)
      (by decide) (by decide) (by decide) (by decide) rfl⟩

/-- C7: when `environment::place_species` returns true, on a pool with a
symmetric neighbour relation, the pool is partitioned into groups, one for
every species of the sequence: the group of a species is a set of as many pool
environments as its coordination, connected under the neighbour relation, every
environment of the group holds the species, and its multisite list is the list
of the other members of the group (the empty list for a group of one). -/
theorem C7_place_species_result (sc : Nat → Nat) (sp : List Nat) (st st' : store)
    (envs : List Nat)
    (hsym : ∀ a ∈ envs, ∀ b ∈ envs, b ∈ (st.env a).neighbors → a ∈ (st.env b).neighbors)
    (h : environment.place_species sc sp st envs = .ok (true, st')) :
    ∃ gs, environment.is_partition sc st'.env sp envs gs ∧
      environment.assigned st'.env sp gs := by
  obtain ⟨gs, hgs, hass⟩ := environment.place_species_sound sc sp st envs st' hsym h
  have hframe := (environment.place_species_frame sc sp st envs true st' h).1
  exact ⟨gs, environment.is_partition_congr sc st.env st'.env sp envs gs
    (fun e => (hframe.2.2.2.2.2.2.2 e).1) hgs, hass⟩

/-- Witness of C7: the species `2` is placed on the environments `0` and `1` of
the example store, each of which gets the other as its multisite list. -/
theorem C7_place_species_result_witness :
    (example_store_placed.env 0).center.type = 2 ∧
    (example_store_placed.env 0).multisite = [1] ∧
    (example_store_placed.env 1).multisite = [0] ∧
    ∃ gs, environment.is_partition example_sc example_store_placed.env [2] [0, 1] gs ∧
      environment.assigned example_store_placed.env [2] gs :=
  ⟨by decide, by decide, by decide,
    C7_place_species_result example_sc [2] example_store example_store_placed [0, 1]
      (by decide) example_place_eq⟩

/-- C8: after `environment::create_ensembles` the environment has one ensemble
instance for every site-group that is not skipped by the empty-centre rule and
contains every multisite partner of its members, in the order of the
site-groups, and none for any other site-group; `ensemble_env` maps the
instances to the members of their site-groups. -/
theorem C8_create_ensembles_instances (sc : Nat → Nat) (st st' : store) (this : Nat)
    (hne : ∀ g ∈ (st.env this).sites, g ≠ [])
    (h : environment.create_ensembles sc st this = .ok st') :
    (st'.env this).ensembles.Nodup ∧
    (st'.env this).ensembles.length
      = ((st.env this).sites.filter (environment.site_used st this)).length ∧
    (st'.env this).ensemble_env = List.zip (st'.env this).ensembles
      ((st.env this).sites.filter (environment.site_used st this)) ∧
    (∀ p g, (p, g) ∈ (st'.env this).ensemble_env →
      g ∈ (st.env this).sites ∧ environment.skip_site st this g = false ∧
        ∀ m ∈ g, ∀ q ∈ (st.env m).multisite, q ∈ g) ∧
    (∀ g ∈ (st.env this).sites, environment.skip_site st this g = false →
      (∀ m ∈ g, ∀ q ∈ (st.env m).multisite, q ∈ g) →
      ∃ p ∈ (st'.env this).ensembles, (p, g) ∈ (st'.env this).ensemble_env) := by
  obtain ⟨h1, h2⟩ := environment.create_ensembles_ensembles sc st st' this hne h
  have hused : ∀ g, environment.site_used st this g = true ↔
      (environment.skip_site st this g = false ∧ ∀ m ∈ g, ∀ q ∈ (st.env m).multisite, q ∈ g) := by
    intro g
    simp [environment.site_used, environment.site_contained]
  refine ⟨?_, ?_, ?_, ?_, ?_⟩
  · rw [h1]; exact List.nodup_range' _ _
  · rw [h1]; simp
  · rw [h2, h1]
  · intro p g hpg
    rw [h2] at hpg
    have hg := (List.of_mem_zip hpg).2
    rw [List.mem_filter] at hg
    exact ⟨hg.1, (hused g).mp hg.2⟩
  · intro g hg hskip hcont
    have hmem : g ∈ (st.env this).sites.filter (environment.site_used st this) :=
      List.mem_filter.mpr ⟨hg, (hused g).mpr ⟨hskip, hcont⟩⟩
    obtain ⟨i, hi, hgi⟩ := List.getElem_of_mem hmem
    have hlen : i < (List.range' st.next
        ((st.env this).sites.filter (environment.site_used st this)).length).length := by
      simpa using hi
    refine ⟨(List.range' st.next
        ((st.env this).sites.filter (environment.site_used st this)).length)[i], ?_, ?_⟩
    · rw [h1]; exact List.getElem_mem _
    · rw [h2, ← hgi]
      have hz : i < ((List.range' st.next
          ((st.env this).sites.filter (environment.site_used st this)).length).zip
          ((st.env this).sites.filter (environment.site_used st this))).length := by
        simpa using hi
      have := @List.getElem_zip _ _ (List.range' st.next
        ((st.env this).sites.filter (environment.site_used st this)).length)
        ((st.env this).sites.filter (environment.site_used st this)) i hz
      rw [← this]
      exact List.getElem_mem _

/-- Witness of C8: `create_ensembles` at the environment `1` of the example
store, whose three site-groups are all used. -/
theorem C8_create_ensembles_instances_witness :
    (∀ g ∈ (example_store.env 1).sites, g ≠ []) ∧
    environment.create_ensembles example_sc example_store 1 = .ok example_store_created ∧
    (example_store_created.env 1).ensembles.Nodup ∧
    (example_store_created.env 1).ensembles.length
      = ((example_store.env 1).sites.filter (environment.site_used example_store 1)).length ∧
    (example_store_created.env 1).ensemble_env = List.zip (example_store_created.env 1).ensembles
      ((example_store.env 1).sites.filter (environment.site_used example_store 1)) ∧
    (∀ p g, (p, g) ∈ (example_store_created.env 1).ensemble_env →
      g ∈ (example_store.env 1).sites ∧ environment.skip_site example_store 1 g = false ∧
        ∀ m ∈ g, ∀ q ∈ (example_store.env m).multisite, q ∈ g) ∧
    (∀ g ∈ (example_store.env 1).sites, environment.skip_site example_store 1 g = false →
      (∀ m ∈ g, ∀ q ∈ (example_store.env m).multisite, q ∈ g) →
      ∃ p ∈ (example_store_created.env 1).ensembles,
        (p, g) ∈ (example_store_created.env 1).ensemble_env) :=
  ⟨by decide, rfl,
    C8_create_ensembles_instances example_sc example_store example_store_created 1
      (by decide) rfl⟩

/-- C9: the species sequence of the instance registered for a site-group.  When
a member of the site-group holds a multisite species, every species `s` is in
the sequence `c / m` times (rounded down), with `c` the number of members of
the site-group that `s` occupies and `m` its surface coordination; when every
member holds a single-site species (of a surface coordination of at least 1),
the sequence has one entry per member, the species on the members. -/
theorem C9_instance_species_sequence (sc : Nat → Nat) (st st' : store) (this : Nat)
    (hne : ∀ g ∈ (st.env this).sites, g ≠ [])
    (h : environment.create_ensembles sc st this = .ok st') :
    ∀ p g, (p, g) ∈ (st'.env this).ensemble_env →
      ∃ obj, st'.ens p = some obj ∧
        (environment.site_multisite st g = true →
          ∀ s, obj.sorted_species.count s
            = (g.filter (fun m => (st.env m).center.type = s)).length / sc s) ∧
        (environment.site_multisite st g = false →
          (∀ m ∈ g, 1 ≤ sc (st.env m).center.type) →
          obj.sorted_species.length = g.length ∧
          obj.sorted_species.Perm (environment.site_occupants st g)) := by
  intro p g hpg
  obtain ⟨seq, hseq, hobj⟩ := environment.create_ensembles_object sc st st' this hne h p g hpg
  refine ⟨_, hobj, ?_, ?_⟩
  · intro hm s
    simp only [environment.site_species, hm, if_true] at hseq
    have hcount := environment.insert_counted_count sc _ seq
      (species_count_spec (environment.site_occupants st g)).1 hseq s
    rw [(species_count_spec (environment.site_occupants st g)).2 s] at hcount
    have hocc : (environment.site_occupants st g).count s
        = (g.filter (fun m => (st.env m).center.type = s)).length :=
      count_map_eq_length_filter (fun m => (st.env m).center.type) g s
    rw [ensemble.ctor_count, hcount, hocc]
    by_cases hs : sc s > 0
    · simp [hs]
    · have h0 : sc s = 0 := by omega
      simp [h0]
  · intro hm hsurf
    simp only [environment.site_species, hm, Bool.false_eq_true, if_false,
      Except.ok.injEq] at hseq
    subst hseq
    have hfil : (environment.site_occupants st g).filter (fun s => decide (sc s > 0))
        = environment.site_occupants st g := by
      apply List.filter_eq_self.mpr
      intro s hs
      simp only [environment.site_occupants, List.mem_map] at hs
      obtain ⟨m, hmg, rfl⟩ := hs
      simpa using hsurf m hmg
    have hperm : (ensemble.ctor sc (environment.site_occupants st g)).sorted_species.Perm
        (environment.site_occupants st g) := by
      rw [ensemble.sorted_species_eq, hfil]
      exact List.perm_insertionSort _ _
    exact ⟨by rw [hperm.length_eq]; simp [environment.site_occupants], hperm⟩

/-- Witness of C9: `create_ensembles` at the environment `1` when the species
`2` of coordination 2 lies on the environments `0` and `1`. -/
theorem C9_instance_species_sequence_witness :
    (∀ g ∈ (example_store_multi.env 1).sites, g ≠ []) ∧
    environment.create_ensembles example_sc example_store_multi 1
      = .ok example_store_multi_created ∧
    ∀ p g, (p, g) ∈ (example_store_multi_created.env 1).ensemble_env →
      ∃ obj, example_store_multi_created.ens p = some obj ∧
        (environment.site_multisite example_store_multi g = true →
          ∀ s, obj.sorted_species.count s
            = (g.filter (fun m => (example_store_multi.env m).center.type = s)).length
              / example_sc s) ∧
        (environment.site_multisite example_store_multi g = false →
          (∀ m ∈ g, 1 ≤ example_sc (example_store_multi.env m).center.type) →
          obj.sorted_species.length = g.length ∧
          obj.sorted_species.Perm (environment.site_occupants example_store_multi g)) :=
  ⟨by decide, rfl,
    C9_instance_species_sequence example_sc example_store_multi example_store_multi_created 1
      (by decide) rfl⟩

/-- C10: on a successful `environment::change_ensemble` started with empty
outputs, `changed` is the set of this environment, the environments connected
to it and the environments connected to the members of the old instance, and
`remove` holds the instances registered at the environments of `changed`
before the call, each of them once. -/
theorem C10_change_ensemble_outputs (sc : Nat → Nat) (st st' : store) (this old : Nat)
    (products remove changed : List Nat) (huniq : st.ensembles_unique)
    (h : environment.change_ensemble sc st this old products [] [] = .ok (st', remove, changed)) :
    ∃ members, map_find ptr_lt (st.env this).ensemble_env old = some (old, members) ∧
      (∀ x, x ∈ changed ↔
        x = this ∨ x ∈ (st.env this).connected ∨ ∃ m ∈ members, x ∈ (st.env m).connected) ∧
      changed.Nodup ∧
      remove = changed.flatMap (fun e => (st.env e).ensembles) ∧
      (∀ p, p ∈ remove ↔ ∃ e ∈ changed, p ∈ (st.env e).ensembles) ∧
      remove.Nodup := by
  obtain ⟨_, members, obj, g, placed, hfind, _, _, _, _, _, hch, hrem⟩ :=
    environment.change_ensemble_ok sc st st' this old products [] [] remove changed h
  have hrem' : remove = changed.flatMap (fun e => (st.env e).ensembles) := by
    rw [hrem, environment.collect_remove_eq]; rfl
  have hnd : changed.Nodup := by
    rw [hch]
    exact pairwise_lt_nodup _ (environment.collect_changed_sorted st this members [] List.Pairwise.nil)
  refine ⟨members, hfind, ?_, hnd, hrem', ?_, ?_⟩
  · intro x
    rw [hch, environment.collect_changed_mem]
    simp
  · intro p
    rw [hrem']
    simp [List.mem_flatMap]
  · rw [hrem', List.nodup_flatMap]
    refine ⟨fun e _ => huniq.1 e, ?_⟩
    apply hnd.imp
    intro a b hab
    show List.Disjoint (st.env a).ensembles (st.env b).ensembles
    intro p hpa hpb
    exact hab (huniq.2 a b p hpa hpb)

/-- Witness of C10: the example call of `change_ensemble`, for which `changed`
is `{0, 1, 2}` and `remove` holds the eight instances of these environments. -/
theorem C10_change_ensemble_outputs_witness :
    example_change_changed = [0, 1, 2] ∧
    example_change_remove = [100, 101, 102, 103, 104, 105, 106, 107] ∧
    ∃ members,
      map_find ptr_lt (example_store_init.env 1).ensemble_env 102 = some (102, members) ∧
      (∀ x, x ∈ example_change_changed ↔
        x = 1 ∨ x ∈ (example_store_init.env 1).connected ∨
          ∃ m ∈ members, x ∈ (example_store_init.env m).connected) ∧
      example_change_changed.Nodup ∧
      example_change_remove
        = example_change_changed.flatMap (fun e => (example_store_init.env e).ensembles) ∧
      (∀ p, p ∈ example_change_remove ↔
        ∃ e ∈ example_change_changed, p ∈ (example_store_init.env e).ensembles) ∧
      example_change_remove.Nodup :=
  ⟨by decide, by decide,
    C10_change_ensemble_outputs example_sc example_store_init example_change_store 1 102 [2]
      example_change_remove example_change_changed example_store_init_unique example_change_eq⟩

/-- C11: `environment::change_ensemble` throws `bad_pointer` when the
environment is not initialized, `bad_pointer` when the given instance is not a
key of the map `ensemble_env` of this environment, and `bad_request` when the
total coordination of the products differs from that of the instance; at each
of these `throw` statements the store is the store of the call, so that no
occupant of a site and no ensemble list of an environment has been
modified. -/
theorem C11_change_ensemble_errors (sc : Nat → Nat) (st : store) (this reactants : Nat)
    (products remove changed : List Nat) :
    ((st.env this).initialized = false →
      environment.change_ensemble sc st this reactants products remove changed
        = .error .bad_pointer_not_initialized ∧
      environment.change_ensemble_throw sc st this reactants products remove changed
        = some (.bad_pointer_not_initialized, st, remove, changed)) ∧
    ((st.env this).initialized = true →
      map_find ptr_lt (st.env this).ensemble_env reactants = none →
      environment.change_ensemble sc st this reactants products remove changed
        = .error .bad_pointer_not_owned ∧
      environment.change_ensemble_throw sc st this reactants products remove changed
        = some (.bad_pointer_not_owned, st, remove, changed)) ∧
    ((st.env this).initialized = true →
      ∀ old obj, map_find ptr_lt (st.env this).ensemble_env reactants = some old →
      st.ens reactants = some obj →
      obj.get_coordination ≠ (ensemble.ctor sc products).get_coordination →
      environment.change_ensemble sc st this reactants products remove changed
        = .error .bad_request_coordination ∧
      ∃ remove' changed',
        environment.change_ensemble_throw sc st this reactants products remove changed
          = some (.bad_request_coordination, st, remove', changed')) ∧
    exn.bad_pointer_not_initialized.cls = .bad_pointer ∧
    exn.bad_pointer_not_owned.cls = .bad_pointer ∧
    exn.bad_request_coordination.cls = .bad_request ∧
    (∀ e st' remove' changed',
      environment.change_ensemble_throw sc st this reactants products remove changed
        = some (e, st', remove', changed') →
      environment.change_ensemble sc st this reactants products remove changed = .error e ∧
      st' = st ∧
      ∀ x, (st'.env x).get_species = (st.env x).get_species ∧
        (st'.env x).ensembles = (st.env x).ensembles) := by
  refine ⟨?_, ?_, ?_, rfl, rfl, rfl, ?_⟩
  · intro hinit
    unfold environment.change_ensemble environment.change_ensemble_throw
    simp [hinit]
  · intro hinit hfind
    unfold environment.change_ensemble environment.change_ensemble_throw
    simp [hinit, hfind]
  · intro hinit old obj hfind hobj hc
    unfold environment.change_ensemble environment.change_ensemble_throw
    simp [hinit, hfind, hobj, hc]
  · intro e st' remove' changed' h
    obtain ⟨h1, h2⟩ := environment.change_ensemble_throw_error sc st st' this reactants products
      remove changed remove' changed' e h
    subst h2
    exact ⟨h1, rfl, fun x => ⟨rfl, rfl⟩⟩

/-- C12: `ensemble::operator<` is a strict total order of the ensembles
identified by their sorted species sequence: it is irreflexive and transitive,
of two ensembles exactly one of `a < b`, `b < a` and equality of the sorted
sequences holds, and it is the lexicographic order of the sorted sequences. -/
theorem C12_operator_lt_strict_total_order :
    (∀ a : ensemble, ensemble.lt a a = false) ∧
    (∀ a b c : ensemble, ensemble.lt a b = true → ensemble.lt b c = true →
      ensemble.lt a c = true) ∧
    (∀ a b : ensemble,
      (ensemble.lt a b = true ∧ ensemble.lt b a = false ∧
          a.sorted_species ≠ b.sorted_species) ∨
        (ensemble.lt a b = false ∧ ensemble.lt b a = true ∧
          a.sorted_species ≠ b.sorted_species) ∨
        (ensemble.lt a b = false ∧ ensemble.lt b a = false ∧
          a.sorted_species = b.sorted_species)) ∧
    (∀ a b : ensemble,
      ensemble.lt a b = true ↔ List.Lex (· < ·) a.sorted_species b.sorted_species) := by
  refine ⟨fun a => lexicographical_compare_irrefl _,
    fun a b c h1 h2 => lexicographical_compare_trans _ _ _ h1 h2, ?_,
    fun a b => lexicographical_compare_iff_lex _ _⟩
  intro a b
  unfold ensemble.lt
  cases hab : lexicographical_compare a.sorted_species b.sorted_species with
  | true =>
    refine Or.inl ⟨rfl, lexicographical_compare_asymm _ _ hab, ?_⟩
    intro heq
    rw [heq, lexicographical_compare_irrefl] at hab
    exact absurd hab (by decide)
  | false =>
    cases hba : lexicographical_compare b.sorted_species a.sorted_species with
    | true =>
      refine Or.inr (Or.inl ⟨rfl, rfl, ?_⟩)
      intro heq
      rw [heq, lexicographical_compare_irrefl] at hba
      exact absurd hba (by decide)
    | false =>
      exact Or.inr (Or.inr ⟨rfl, rfl, lexicographical_compare_eq_of_not_lt _ _ hab hba⟩)

/-- C13: for a species sequence whose total surface coordination fits the
`unsigned int` of the member `coordination`, `get_coordination()` of the
constructed ensemble is the sum of the surface coordinations of the species of
the sequence, `get_size()` is the number of species of the sequence with a
coordination greater than 0, and the stored sequence is sorted and holds these
species. -/
theorem C13_ensemble_constructor (sc : Nat → Nat) (speciess : List Nat)
    (hsum : (speciess.map sc).sum < 2 ^ 32) :
    (ensemble.ctor sc speciess).get_coordination = (speciess.map sc).sum ∧
    (ensemble.ctor sc speciess).get_size = speciess.countP (fun s => decide (sc s > 0)) ∧
    (ensemble.ctor sc speciess).sorted_species.Sorted (· ≤ ·) ∧
    (ensemble.ctor sc speciess).sorted_species.Perm
      (speciess.filter (fun s => decide (sc s > 0))) := by
  refine ⟨?_, ?_, ?_, ?_⟩
  · unfold ensemble.get_coordination
    rw [ensemble.coordination_eq, Nat.mod_eq_of_lt hsum]
  · unfold ensemble.get_size
    rw [ensemble.sorted_species_eq, List.length_insertionSort, List.countP_eq_length_filter]
    apply Nat.mod_eq_of_lt
    exact lt_of_le_of_lt (ensemble.size_le_sum sc speciess) hsum
  · rw [ensemble.sorted_species_eq]
    exact List.sorted_insertionSort _ _
  · rw [ensemble.sorted_species_eq]
    exact List.perm_insertionSort _ _

/-- Witness of C13: the sequence of the species 2, 3, 1, 2 with the
coordinations 2, 0, 1, 2 gives the ensemble of the species 1, 2, 2 with
coordination 5 and size 3. -/
theorem C13_ensemble_constructor_witness :
    ((([2, 3, 1, 2] : List Nat).map example_sc).sum < 2 ^ 32) ∧
    ensemble.ctor example_sc [2, 3, 1, 2] = ⟨[1, 2, 2], 5⟩ ∧
    ((ensemble.ctor example_sc [2, 3, 1, 2]).get_coordination
        = (([2, 3, 1, 2] : List Nat).map example_sc).sum ∧
      (ensemble.ctor example_sc [2, 3, 1, 2]).get_size
        = ([2, 3, 1, 2] : List Nat).countP (fun s => decide (example_sc s > 0)) ∧
      (ensemble.ctor example_sc [2, 3, 1, 2]).sorted_species.Sorted (· ≤ ·) ∧
      (ensemble.ctor example_sc [2, 3, 1, 2]).sorted_species.Perm
        (([2, 3, 1, 2] : List Nat).filter (fun s => decide (example_sc s > 0)))) :=
  ⟨by decide, by decide, C13_ensemble_constructor example_sc [2, 3, 1, 2] (by decide)⟩

/-- C14: on the `N x N` matrix of environments with the environment `addr i j`
in row `i` and column `j`, `environment::set_neighbors` at the environment of
the position `(r, c)` returns and leaves every other environment as it was; to
the neighbors of the environment it adds nothing for single sites, the four
environments at `((r-1) mod N, c)`, `((r+1) mod N, c)`, `(r, (c+1) mod N)`,
`(r, (c-1) mod N)` for nearest neighbors, and these four followed by the four
diagonal environments with both indices modulo `N` for next nearest
neighbors. -/
theorem C14_set_neighbors_periodic (st : store) (this : Nat) (N r c : Nat)
    (addr : Nat → Nat → Nat) (hN : N < 2 ^ 31) (hr : r < N) (hc : c < N)
    (hrow : (st.env this).center.row = r) (hcol : (st.env this).center.column = c) :
    ∃ st', environment.set_neighbors st this
        ((List.range N).map (fun i => (List.range N).map (fun j => addr i j))) = .ok st' ∧
      (∀ e, e ≠ this → st'.env e = st.env e) ∧
      (st'.env this).neighbors = (st.env this).neighbors ++
        environment.periodic_neighbors st.env_type N r c addr ∧
      ((st.env this).neighbors = [] →
        (st'.env this).neighbors = environment.periodic_neighbors st.env_type N r c addr) := by
  by_cases hne : st.env_type = .Esingle
  · refine ⟨st, ?_, fun e _ => rfl, ?_, ?_⟩
    · unfold environment.set_neighbors
      rw [if_pos hne]
    · rw [hne]
      simp [environment.periodic_neighbors]
    · intro h
      rw [hne, h]
      rfl
  · have hpos : 0 < N := by omega
    have hhead : ((List.range N).map (fun i => (List.range N).map (fun j => addr i j))).head?
        = some ((List.range N).map (fun j => addr 0 j)) := by
      cases N with
      | zero => omega
      | succ n => simp [List.range_succ_eq_map]
    obtain ⟨st', h, hother, hnb⟩ := environment.set_neighbors_ok st this _ _ N r c addr hne hN
      hhead (by simp) (by simp)
      (fun i j hi hj => lattice.matrix_getElem N addr i j hi hj) hr hc hrow hcol
    rw [environment.directions_periodic st.env_type N r c addr hne hr hc] at hnb
    refine ⟨st', h, hother, hnb, ?_⟩
    intro hnil
    rw [hnb, hnil]
    rfl

/-- Witness of C14: at the corner `(0, 0)` of the example matrix of three rows
and three columns, next nearest neighbors, the neighbors are the environments
6, 3, 1, 2 and 8, 7, 5, 4. -/
theorem C14_set_neighbors_periodic_witness :
    (3 < 2 ^ 31 ∧ 0 < 3) ∧
    example_matrix = (List.range 3).map (fun i => (List.range 3).map (fun j => 3 * i + j)) ∧
    environment.periodic_neighbors example_memory_matrix.env_type 3 0 0 (fun i j => 3 * i + j)
      = [6, 3, 1, 2, 8, 7, 5, 4] ∧
    ∃ st', environment.set_neighbors example_memory_matrix 0
        ((List.range 3).map (fun i => (List.range 3).map (fun j => 3 * i + j))) = .ok st' ∧
      (∀ e, e ≠ 0 → st'.env e = example_memory_matrix.env e) ∧
      (st'.env 0).neighbors = (example_memory_matrix.env 0).neighbors ++
        environment.periodic_neighbors example_memory_matrix.env_type 3 0 0
          (fun i j => 3 * i + j) ∧
      ((example_memory_matrix.env 0).neighbors = [] →
        (st'.env 0).neighbors
          = environment.periodic_neighbors example_memory_matrix.env_type 3 0 0
            (fun i j => 3 * i + j)) :=
  ⟨by decide, by decide, by decide,
    C14_set_neighbors_periodic example_memory_matrix 0 3 0 0 (fun i j => 3 * i + j)
      (by decide) (by decide) (by decide) rfl rfl⟩

/-- Counterexample of C15: on the four lattice points `0 - 1 - 2 - 3` in a row,
with radial sites of at most 2 environments, `environment::initialize` at the
new environment `1` returns; the environment `3` is within 2 steps of `1`, by
way of its neighbor `2`, and it is not in `connected`, which is `{0, 1, 2}`. -/
theorem C15_radial_connected_counterexample :
    (example_store_radial 2).radial = true ∧ (example_store_radial 2).max_sites = 2 ∧
    ((example_store_radial 2).env 1).connected = [] ∧
    environment.initialize example_sc 20 (example_store_radial 2) 1
      = .ok (example_store_radial_init 2) ∧
    environment.within (fun a => ((example_store_radial 2).env a).neighbors)
      (example_store_radial 2).max_sites 1 3 ∧
    ((example_store_radial_init 2).env 1).connected = [0, 1, 2] ∧
    3 ∉ ((example_store_radial_init 2).env 1).connected :=
  ⟨rfl, rfl, rfl, rfl, Or.inr ⟨2, by decide, Or.inr ⟨3, by decide, rfl⟩⟩, by decide, by decide⟩

/-- C15 as amended: with radial sites and the generator set,
`environment::initialize` with the maximum ensemble size `max_sites` returns
(the loops of `connectivity` end within as many iterations as the environments
grouped by `radiate` have subsets), unless `create_ensembles` divides by a
coordination of zero.  After it, the member `connected` holds what it held
before the call together with the environments within `max_sites - 1` steps
from neighbor to neighbor (none when `max_sites` is 0); for an environment
whose `connected` was empty before, it is exactly the set of the environments
within `max_sites - 1` steps of it.  The neighbors are those before the
call. -/
theorem C15_radial_connected (sc : Nat → Nat) (st : store) (this : Nat) (g : rng)
    (hrad : st.radial = true) (hrng : st.random = some g) :
    (∀ fuel, 2 ^ (environment.universe (environment.radiate st.env st.max_sites this
        ((st.env this).connected, [])).2).length < fuel →
      (∃ st', environment.initialize sc fuel st this = .ok st') ∨
        environment.initialize sc fuel st this = .error .undefined_behaviour) ∧
    (∀ fuel st', environment.initialize sc fuel st this = .ok st' →
      (∀ x, x ∈ (st'.env this).connected ↔
        x ∈ (st.env this).connected ∨
          (0 < st.max_sites ∧
            environment.within (fun a => (st.env a).neighbors) (st.max_sites - 1) this x)) ∧
      ((st.env this).connected = [] →
        ∀ x, x ∈ (st'.env this).connected ↔
          (0 < st.max_sites ∧
            environment.within (fun a => (st.env a).neighbors) (st.max_sites - 1) this x)) ∧
      (∀ e, (st'.env e).neighbors = (st.env e).neighbors)) := by
  refine ⟨fun fuel hfuel =>
    environment.initialize_radial_returns sc fuel st this g hrad hrng hfuel, ?_⟩
  intro fuel st' h
  obtain ⟨h1, _⟩ := environment.initialize_radial sc fuel st st' this hrad h
  have hall : ∀ x, x ∈ (st'.env this).connected ↔
      x ∈ (st.env this).connected ∨
        (0 < st.max_sites ∧
          environment.within (fun a => (st.env a).neighbors) (st.max_sites - 1) this x) := by
    intro x
    rw [h1]
    exact environment.radiate_touch st.env st.max_sites this _ _ x
  refine ⟨hall, ?_, environment.initialize_neighbors sc fuel st st' this h⟩
  intro hnew x
  rw [hall x, hnew]
  simp

/-- Witness of C15: the example call at the environment `1` of the row
`0 - 1 - 2 - 3`, with radial sites of at most 2 environments, which returns
within 20 iterations and after which `connected` is `{0, 1, 2}`. -/
theorem C15_radial_connected_witness :
    ((example_store_radial 2).radial = true ∧
      (example_store_radial 2).random
        = some { stream := fun n => 7 * n + 3, calls := 0, max := 1000 }) ∧
    environment.initialize example_sc 20 (example_store_radial 2) 1
      = .ok (example_store_radial_init 2) ∧
    ((example_store_radial_init 2).env 1).connected = [0, 1, 2] ∧
    ((∀ fuel, 2 ^ (environment.universe (environment.radiate (example_store_radial 2).env
        (example_store_radial 2).max_sites 1
        (((example_store_radial 2).env 1).connected, [])).2).length < fuel →
      (∃ st', environment.initialize example_sc fuel (example_store_radial 2) 1 = .ok st') ∨
        environment.initialize example_sc fuel (example_store_radial 2) 1
          = .error .undefined_behaviour) ∧
    (∀ fuel st', environment.initialize example_sc fuel (example_store_radial 2) 1 = .ok st' →
      (∀ x, x ∈ (st'.env 1).connected ↔
        x ∈ ((example_store_radial 2).env 1).connected ∨
          (0 < (example_store_radial 2).max_sites ∧
            environment.within (fun a => ((example_store_radial 2).env a).neighbors)
              ((example_store_radial 2).max_sites - 1) 1 x)) ∧
      (((example_store_radial 2).env 1).connected = [] →
        ∀ x, x ∈ (st'.env 1).connected ↔
          (0 < (example_store_radial 2).max_sites ∧
            environment.within (fun a => ((example_store_radial 2).env a).neighbors)
              ((example_store_radial 2).max_sites - 1) 1 x)) ∧
      (∀ e, (st'.env e).neighbors = ((example_store_radial 2).env e).neighbors))) :=
  ⟨⟨rfl, rfl⟩, rfl, by decide,
    C15_radial_connected example_sc (example_store_radial 2) 1
      { stream := fun n => 7 * n + 3, calls := 0, max := 1000 } rfl rfl⟩

/-- C16: with radial sites and the generator set, `environment::initialize`
returns (the loops of `connectivity` end within as many iterations as the
environments grouped by `radiate` have subsets), unless `create_ensembles`
divides by a coordination of zero.  After it, for every two groups `g1` and
`g2` that `environment::radiate` produces for the environment and whose union
has at most `max_sites` environments, the union is one of the site-groups of
the environment; the union is the same set whichever of the two groups the
loop takes first, for every order of the addresses. -/
theorem C16_radial_unions (sc : Nat → Nat) (st : store) (this : Nat) (g : rng)
    (hrad : st.radial = true) (hrng : st.random = some g) :
    (∀ fuel, 2 ^ (environment.universe (environment.radiate st.env st.max_sites this
        ((st.env this).connected, [])).2).length < fuel →
      (∃ st', environment.initialize sc fuel st this = .ok st') ∨
        environment.initialize sc fuel st this = .error .undefined_behaviour) ∧
    (∀ fuel st' g1 g2, environment.initialize sc fuel st this = .ok st' →
      g1 ∈ (environment.radiate st.env st.max_sites this ((st.env this).connected, [])).2 →
      g2 ∈ (environment.radiate st.env st.max_sites this ((st.env this).connected, [])).2 →
      (set_insert_range ptr_lt g1 g2).length ≤ st.max_sites →
      set_insert_range ptr_lt g1 g2 ∈ (st'.env this).sites ∧
      set_insert_range ptr_lt g2 g1 = set_insert_range ptr_lt g1 g2 ∧
      (∀ x, x ∈ set_insert_range ptr_lt g1 g2 ↔ x ∈ g1 ∨ x ∈ g2) ∧
      (∀ u : List Nat, u.Pairwise (· < ·) → (∀ x, x ∈ u ↔ x ∈ g1 ∨ x ∈ g2) →
        u ∈ (st'.env this).sites)) := by
  refine ⟨fun fuel hfuel =>
    environment.initialize_radial_returns sc fuel st this g hrad hrng hfuel, ?_⟩
  intro fuel st' g1 g2 h h1 h2 hlen
  obtain ⟨hin, _, hs1, hs2⟩ := environment.initialize_criss_cross sc fuel st st' this hrad h
    g1 g2 h1 h2 hlen
  refine ⟨hin, set_insert_range_comm g2 g1 hs2 hs1,
    fun x => set_insert_range_ptr_mem g1 g2 x, ?_⟩
  intro u hu hmem
  have heq : u = set_insert_range ptr_lt g1 g2 := by
    apply sorted_eq_of_mem_iff u _ hu (set_insert_range_ptr_sorted g1 g2 hs1)
    intro x
    rw [hmem x, set_insert_range_ptr_mem]
  rw [heq]
  exact hin

/-- Witness of C16: at the environment `1` of the row `0 - 1 - 2 - 3`, with
radial sites of at most 3 environments, `radiate` produces the groups `{0, 1}`
and `{1, 2}`, and their union `{0, 1, 2}` is a site-group after
`environment::initialize`, which returns within 20 iterations. -/
theorem C16_radial_unions_witness :
    ((example_store_radial 3).radial = true ∧
      (example_store_radial 3).random
        = some { stream := fun n => 7 * n + 3, calls := 0, max := 1000 }) ∧
    ( environment.initialize example_sc 20 (example_store_radial 3) 1
        = .ok (example_store_radial_init 3) ∧
      [0, 1] ∈ (environment.radiate (example_store_radial 3).env
        (example_store_radial 3).max_sites 1 (((example_store_radial 3).env 1).connected, [])).2 ∧
      [1, 2] ∈ (environment.radiate (example_store_radial 3).env
        (example_store_radial 3).max_sites 1 (((example_store_radial 3).env 1).connected, [])).2 ∧
      (set_insert_range ptr_lt [0, 1] [1, 2]).length ≤ (example_store_radial 3).max_sites) ∧
    set_insert_range ptr_lt [0, 1] [1, 2] = [0, 1, 2] ∧
    ((example_store_radial_init 3).env 1).sites
      = [[0, 1], [0, 1, 2], [1], [1, 2], [1, 2, 3]] ∧
    (set_insert_range ptr_lt [0, 1] [1, 2] ∈ ((example_store_radial_init 3).env 1).sites ∧
      set_insert_range ptr_lt [1, 2] [0, 1] = set_insert_range ptr_lt [0, 1] [1, 2] ∧
      (∀ x, x ∈ set_insert_range ptr_lt [0, 1] [1, 2] ↔ x ∈ [0, 1] ∨ x ∈ [1, 2]) ∧
      (∀ u : List Nat, u.Pairwise (· < ·) → (∀ x, x ∈ u ↔ x ∈ [0, 1] ∨ x ∈ [1, 2]) →
        u ∈ ((example_store_radial_init 3).env 1).sites)) :=
  ⟨⟨rfl, rfl⟩, ⟨rfl, by decide, by decide, by decide⟩, by decide, by decide,
    (C16_radial_unions example_sc (example_store_radial 3) 1
      { stream := fun n => 7 * n + 3, calls := 0, max := 1000 } rfl rfl).2 20
      (example_store_radial_init 3) [0, 1] [1, 2] rfl (by decide) (by decide) (by decide)⟩

/-- C17: with neighbor sites, the maximum size `max_sites` and the random number
generator set, `environment::initialize` throws `bad_input` if and only if
`max_sites` is greater than the number of the neighbors (the size of the
sequence `neighbors`) plus one, and has no other exception of the program; when
it returns, the site-groups are exactly the sets of this environment and a set
`S` of at most `max_sites - 1` of its neighbors (no neighbor for `max_sites`
0), and `connected` holds what it held before, this environment and its
neighbors. -/
theorem C17_neighbor_sites (sc : Nat → Nat) (fuel : Nat) (st : store) (this : Nat) (g : rng)
    (hrad : st.radial = false) (hrng : st.random = some g) :
    ((∃ e, environment.initialize sc fuel st this = .error e ∧ e.cls = .bad_input) ↔
      st.max_sites > (st.env this).neighbors.length + 1) ∧
    (¬ st.max_sites > (st.env this).neighbors.length + 1 →
      (∃ st', environment.initialize sc fuel st this = .ok st') ∨
        environment.initialize sc fuel st this = .error .undefined_behaviour) ∧
    (∀ st', environment.initialize sc fuel st this = .ok st' →
      (∀ group, group ∈ (st'.env this).sites ↔
        group.Pairwise (· < ·) ∧ ∃ S : List Nat, S.Nodup ∧
          (∀ x ∈ S, x ∈ (st.env this).neighbors) ∧ S.length ≤ st.max_sites - 1 ∧
          ∀ x, x ∈ group ↔ x = this ∨ x ∈ S) ∧
      (∀ x, x ∈ (st'.env this).connected ↔
        x ∈ (st.env this).connected ∨ x = this ∨ x ∈ (st.env this).neighbors) ∧
      ((st.env this).connected = [] →
        ∀ x, x ∈ (st'.env this).connected ↔ x = this ∨ x ∈ (st.env this).neighbors)) := by
  obtain ⟨h1, h2, h3⟩ := environment.initialize_neighbor sc fuel st this g hrad hrng
  refine ⟨⟨?_, ?_⟩, h2, ?_⟩
  · rintro ⟨e, he, hcls⟩
    by_contra hn
    rcases h2 hn with ⟨st', hok⟩ | herr
    · rw [hok] at he
      cases he
    · rw [herr] at he
      simp only [Except.error.injEq] at he
      subst he
      exact absurd hcls (by decide)
  · intro hn
    exact ⟨_, h1 hn, rfl⟩
  · intro st' h
    obtain ⟨hc, hs⟩ := h3 st' h
    have hconn : ∀ x, x ∈ (st'.env this).connected ↔
        x ∈ (st.env this).connected ∨ x = this ∨ x ∈ (st.env this).neighbors := by
      intro x
      rw [hc, set_insert_range_ptr_mem, set_insert_ptr_mem]
      tauto
    refine ⟨?_, hconn, ?_⟩
    · intro group
      rw [hs, environment.neighbor_sites_mem st.env this st.max_sites [] group]
      simp
    · intro hnew x
      rw [hconn x, hnew]
      simp

/-- Witness of C17: the example call at the environment `1` of the row
`0 - 1 - 2 - 3`, with neighbor sites of at most 3 environments: the site-groups
are `{1}`, `{0, 1}`, `{1, 2}` and `{0, 1, 2}`, and `connected` is `{0, 1, 2}`. -/
theorem C17_neighbor_sites_witness :
    ((example_store_neighbor 3).radial = false ∧
      (example_store_neighbor 3).random
        = some { stream := fun n => 7 * n + 3, calls := 0, max := 1000 }) ∧
    environment.initialize example_sc 20 (example_store_neighbor 3) 1
      = .ok (example_store_neighbor_init 3) ∧
    ((example_store_neighbor_init 3).env 1).sites = [[0, 1], [0, 1, 2], [1], [1, 2]] ∧
    ((example_store_neighbor_init 3).env 1).connected = [0, 1, 2] ∧
    (((∃ e, environment.initialize example_sc 20 (example_store_neighbor 3) 1 = .error e ∧
        e.cls = .bad_input) ↔
      (example_store_neighbor 3).max_sites
        > ((example_store_neighbor 3).env 1).neighbors.length + 1) ∧
    (¬ (example_store_neighbor 3).max_sites
        > ((example_store_neighbor 3).env 1).neighbors.length + 1 →
      (∃ st', environment.initialize example_sc 20 (example_store_neighbor 3) 1 = .ok st') ∨
        environment.initialize example_sc 20 (example_store_neighbor 3) 1
          = .error .undefined_behaviour) ∧
    (∀ st', environment.initialize example_sc 20 (example_store_neighbor 3) 1 = .ok st' →
      (∀ group, group ∈ (st'.env 1).sites ↔
        group.Pairwise (· < ·) ∧ ∃ S : List Nat, S.Nodup ∧
          (∀ x ∈ S, x ∈ ((example_store_neighbor 3).env 1).neighbors) ∧
          S.length ≤ (example_store_neighbor 3).max_sites - 1 ∧
          ∀ x, x ∈ group ↔ x = 1 ∨ x ∈ S) ∧
      (∀ x, x ∈ (st'.env 1).connected ↔
        x ∈ ((example_store_neighbor 3).env 1).connected ∨ x = 1 ∨
          x ∈ ((example_store_neighbor 3).env 1).neighbors) ∧
      (((example_store_neighbor 3).env 1).connected = [] →
        ∀ x, x ∈ (st'.env 1).connected ↔
          x = 1 ∨ x ∈ ((example_store_neighbor 3).env 1).neighbors))) :=
  ⟨⟨rfl, rfl⟩, rfl, by decide, by decide,
    C17_neighbor_sites example_sc 20 (example_store_neighbor 3) 1
      { stream := fun n => 7 * n + 3, calls := 0, max := 1000 } rfl rfl⟩

/-- Counterexample of C18: for the mechanism of the one reaction `2 @ -> @@A`,
which has the coordination 2 and no reverse rate constant, on a lattice of four
sites with a maximum coordination of 2, `kmc::create_ensembles` returns with
the classes of one and of two empty sites; the pattern of the products of the
reaction, the species on two sites, is not a key of the class map. -/
theorem C18_class_keys_counterexample :
    example_kmc.sites > 0 ∧ example_kmc.ensembles = [] ∧ example_kmc.max_coordination = 2 ∧
    kmc.create_ensembles example_sc ⟨[1, 2], [example_rxn_irreversible]⟩ (some 1) example_kmc
      = .ok example_kmc_classes_irreversible ∧
    example_rxn_irreversible.get_reactant_seq = .ok [1, 1] ∧
    example_rxn_irreversible.get_product_seq = .ok [2] ∧
    (ensemble.ctor example_sc [1, 1]).get_coordination = 2 ∧
    (ensemble.ctor example_sc [2]).get_coordination = 2 ∧
    example_kmc_classes_irreversible.ensembles.map Prod.fst = [⟨[1], 1⟩, ⟨[1, 1], 2⟩] ∧
    ¬ ∃ c ∈ example_kmc_classes_irreversible.ensembles, c.1 = ensemble.ctor example_sc [2] :=
  ⟨by decide, rfl, rfl, example_create_ensembles_irreversible_eq,
    example_rxn_irreversible_get_seq.1, example_rxn_irreversible_get_seq.2, by decide, by decide,
    by decide, by decide⟩

/-- C18 as amended: after `kmc::create_ensembles` on a lattice with sites > 0,
started with an empty class map, the keys of the ensemble class map are exactly
the reactant patterns of the reactions with a coordination greater than 0, the
product patterns of those of these reactions that are reversible, and the
patterns of `i` empty sites for `i` from 1 to `max_coordination`. -/
theorem C18_class_keys (sc : Nat → Nat) (mech : model_mechanism) (empty : Nat)
    (k0 k : kmc) (hstart : k0.ensembles = []) (hsites : k0.sites > 0)
    (h : kmc.create_ensembles sc mech (some empty) k0 = .ok k) :
    ∀ key, (∃ c ∈ k.ensembles, c.1 = key) ↔
      (∃ r ∈ mech.reactions, ∃ rs ps, r.get_reactant_seq = .ok rs ∧
        r.get_product_seq = .ok ps ∧ (ensemble.ctor sc rs).get_coordination > 0 ∧
        (key = ensemble.ctor sc rs ∨ (r.is_reversible = true ∧ key = ensemble.ctor sc ps))) ∨
      ∃ i, 1 ≤ i ∧ i ≤ k0.max_coordination ∧
        key = ensemble.ctor sc (List.replicate i empty) :=
  kmc.create_ensembles_keys sc mech empty k0 k hstart hsites h

/-- Witness of C18: for the mechanism of the reversible reaction `2 @ <-> @@A`
the keys are the classes of one empty site, of two empty sites and of the
species on two sites. -/
theorem C18_class_keys_witness :
    (example_kmc.ensembles = [] ∧ example_kmc.sites > 0 ∧
      kmc.create_ensembles example_sc ⟨[1, 2], [example_rxn_balanced]⟩ (some 1) example_kmc
        = .ok example_kmc_classes) ∧
    example_kmc_classes.ensembles.map Prod.fst = [⟨[1], 1⟩, ⟨[1, 1], 2⟩, ⟨[2], 2⟩] ∧
    ∀ key, (∃ c ∈ example_kmc_classes.ensembles, c.1 = key) ↔
      (∃ r ∈ (⟨[1, 2], [example_rxn_balanced]⟩ : model_mechanism).reactions,
        ∃ rs ps, r.get_reactant_seq = .ok rs ∧
        r.get_product_seq = .ok ps ∧ (ensemble.ctor example_sc rs).get_coordination > 0 ∧
        (key = ensemble.ctor example_sc rs ∨
          (r.is_reversible = true ∧ key = ensemble.ctor example_sc ps))) ∨
      ∃ i, 1 ≤ i ∧ i ≤ example_kmc.max_coordination ∧
        key = ensemble.ctor example_sc (List.replicate i 1) :=
  ⟨⟨rfl, by decide, example_create_ensembles_eq⟩, by decide,
    C18_class_keys example_sc ⟨[1, 2], [example_rxn_balanced]⟩ 1 example_kmc
      example_kmc_classes rfl (by decide) example_create_ensembles_eq⟩

/-- C19: for net rates `n` of the reactions and a threshold
`precision::get_double()`, which is at least `DBL_EPSILON`,
`kmc::select_reaction` throws `bad_request` whenever the sum of the absolute net
rates of the reactions of `rxn_ens` is below the threshold, in particular
whenever every net rate is zero, and returns a reaction of `rxn_ens`
otherwise. -/
theorem C19_select_reaction_threshold (n : Nat → ℚ) (precision : ℚ) (k : kmc) (g : rng)
    (hkeys : (k.rxn_ens.map Prod.fst).Nodup) (hmax : g.stream g.calls ≤ g.max)
    (hprec : DBL_EPSILON ≤ precision) :
    ((k.rxn_ens.map (fun e => |n e.1|)).sum < precision →
      kmc.select_reaction (fun rxn => .ok (n rxn)) precision k g
        = .error .bad_request_zero_rate) ∧
    ((∀ e ∈ k.rxn_ens, n e.1 = 0) →
      kmc.select_reaction (fun rxn => .ok (n rxn)) precision k g
        = .error .bad_request_zero_rate) ∧
    exn.bad_request_zero_rate.cls = .bad_request ∧
    (¬ (k.rxn_ens.map (fun e => |n e.1|)).sum < precision →
      ∃ rxn_ens_it ∈ k.rxn_ens, ∃ rate g',
        kmc.select_reaction (fun rxn => .ok (n rxn)) precision k g
          = .ok ((rxn_ens_it.1, rate), g')) := by
  have hpos := DBL_EPSILON_pos
  refine ⟨kmc.select_reaction_error n precision k g, ?_, rfl, ?_⟩
  · intro hzero
    apply kmc.select_reaction_error
    have hsum : (k.rxn_ens.map (fun e => |n e.1|)).sum = 0 := by
      apply List.sum_eq_zero
      intro x hx
      obtain ⟨e, he, rfl⟩ := List.mem_map.mp hx
      rw [hzero e he, abs_zero]
    rw [hsum]
    linarith
  · intro hge
    have hle : precision ≤ (k.rxn_ens.map (fun e => |n e.1|)).sum := not_lt.mp hge
    obtain ⟨i, x, hget, _, hsel⟩ := kmc.select_reaction_ok n precision k g hkeys hmax hle
      (by linarith)
    exact ⟨x, List.getElem?_mem hget, _, _, hsel⟩

/-- Witness of C19: three reactions with the net rates `1`, `0`, `-1` and the
threshold `DBL_EPSILON`, for which a reaction is returned. -/
theorem C19_select_reaction_threshold_witness :
    ((example_kmc_rates.rxn_ens.map Prod.fst).Nodup ∧
      example_rng.stream example_rng.calls ≤ example_rng.max ∧ DBL_EPSILON ≤ DBL_EPSILON) ∧
    ((example_kmc_rates.rxn_ens.map (fun e => |example_net_rate e.1|)).sum < DBL_EPSILON →
      kmc.select_reaction (fun rxn => .ok (example_net_rate rxn)) DBL_EPSILON example_kmc_rates
        example_rng = .error .bad_request_zero_rate) ∧
    ((∀ e ∈ example_kmc_rates.rxn_ens, example_net_rate e.1 = 0) →
      kmc.select_reaction (fun rxn => .ok (example_net_rate rxn)) DBL_EPSILON example_kmc_rates
        example_rng = .error .bad_request_zero_rate) ∧
    exn.bad_request_zero_rate.cls = .bad_request ∧
    (¬ (example_kmc_rates.rxn_ens.map (fun e => |example_net_rate e.1|)).sum < DBL_EPSILON →
      ∃ rxn_ens_it ∈ example_kmc_rates.rxn_ens, ∃ rate g',
        kmc.select_reaction (fun rxn => .ok (example_net_rate rxn)) DBL_EPSILON
          example_kmc_rates example_rng = .ok ((rxn_ens_it.1, rate), g')) :=
  ⟨⟨by decide, by decide, le_refl _⟩,
    C19_select_reaction_threshold example_net_rate DBL_EPSILON example_kmc_rates example_rng
      (by decide) (by decide) (le_refl _)⟩

/-- C20, the input on which the code leaves the claim: on the lattice of four
rows and four columns with neighbor sites, empty after `kmc::initialize`,
`kmc::perform_reaction` is called for the reaction `4 @ -> 2 @@A` with the
positive rate 1 and the forward class of four empty sites, which has 64
instances.  The call returns, and every one of the sixteen environments holds
the empty site without a multisite list, as before the call: the products, two
species `2` of coordination 2, have not been placed. -/
theorem C20_direction_of_reaction_counterexample :
    (∃ k st, kmc.initialize example_sc example_mech_pairs (some 1) 20 example_engine_pairs
        example_memory = .ok (k, st) ∧
      example_simulation_pairs.engine = k ∧ example_simulation_pairs.memory = st) ∧
    (1 : ℚ) > 0 ∧
    example_rxn_pairs.get_reactant_seq_ptr = some [1, 1, 1, 1] ∧
    example_rxn_pairs.get_product_seq_ptr = some [2, 2] ∧ example_sc 2 = 2 ∧
    (∃ c, map_find ensemble.lt example_simulation_pairs.engine.ensembles
        (ensemble.ctor example_sc [1, 1, 1, 1]) = some c ∧ c.2.length = 64) ∧
    example_simulation_pairs.engine.environments = List.range 16 ∧
    (∀ e ∈ example_simulation_pairs.engine.environments,
      (example_simulation_pairs.memory.env e).center.type = 1 ∧
      (example_simulation_pairs.memory.env e).multisite = []) ∧
    ∃ kf stf, kmc.perform_reaction example_sc (fun _ _ => none) example_simulation_pairs.engine
        example_simulation_pairs.memory example_rxn_pairs
        (some (ensemble.ctor example_sc [1, 1, 1, 1]), none) 1 = .ok (kf, stf) ∧
      kf.environments = List.range 16 ∧
      (∀ e ∈ kf.environments, (stf.env e).center.type = 1 ∧ (stf.env e).multisite = []) ∧
      ∀ e ∈ kf.environments, (stf.env e).center.type ≠ 2 := by
  obtain ⟨h0, h1, h2, h3, h4, h5⟩ := example_pairs_reaction
  have hall : ∀ (env : Nat → environment) (l : List Nat),
      l.map (fun e => ((env e).center.type, (env e).multisite))
        = List.replicate l.length (1, []) →
      ∀ e ∈ l, (env e).center.type = 1 ∧ (env e).multisite = [] := by
    intro env l hl e he
    have hm : ((env e).center.type, (env e).multisite)
        ∈ l.map (fun e => ((env e).center.type, (env e).multisite)) :=
      List.mem_map.2 ⟨e, he, rfl⟩
    rw [hl] at hm
    have := List.eq_of_mem_replicate hm
    simp only [Prod.mk.injEq] at this
    exact this
  simp only [Prod.mk.injEq] at h4
  refine ⟨?_, by norm_num, h1, h2, rfl, ?_, h4.1, ?_, ?_⟩
  · cases hi : example_initialize_pairs with
    | error e => rw [hi] at h0; cases h0
    | ok r =>
      refine ⟨r.1, r.2, hi, ?_, ?_⟩
      · simp only [example_simulation_pairs, hi]
      · simp only [example_simulation_pairs, hi]
  · cases hf : map_find ensemble.lt example_simulation_pairs.engine.ensembles
        (ensemble.ctor example_sc [1, 1, 1, 1]) with
    | none => rw [hf] at h3; cases h3
    | some c =>
      rw [hf] at h3
      simp only [Option.map_some', Option.some.injEq] at h3
      exact ⟨c, rfl, h3⟩
  · apply hall
    rw [h4.2, h4.1]
    simp
  · cases hp : kmc.perform_reaction example_sc (fun _ _ => none)
        example_simulation_pairs.engine example_simulation_pairs.memory example_rxn_pairs
        (some (ensemble.ctor example_sc [1, 1, 1, 1]), none) 1 with
    | error e => rw [hp] at h5; cases h5
    | ok r =>
      rw [hp] at h5
      simp only [Except.toOption, Option.map_some', Option.some.injEq, Prod.mk.injEq] at h5
      obtain ⟨kf, stf⟩ := r
      simp only at h5
      have hfin := hall stf.env kf.environments (by rw [h5.2, h5.1]; simp)
      refine ⟨kf, stf, rfl, h5.1, hfin, fun e he => ?_⟩
      rw [(hfin e he).1]
      decide

/-- C20, what the code does: the rate that `kmc::select_reaction` returns is
negative exactly when the net rate of the selected reaction is negative, and
positive exactly when that net rate is positive.  `kmc::perform_reaction` with a
positive rate takes the forward class of the reaction with its reactants and
products, with a negative rate the reverse class with the products and
reactants exchanged, and with a rate of zero it throws `bad_value`.  When it
returns, on an engine that the program reaches, for a reaction with the class
taken: an instance of that class has been consumed (it is registered at no
environment and in no class after the call), and
`environment::place_species` was called with the surface species of the
products (of the reactants for a negative rate) on the members of the
instance; when its result is true the species have been placed on a division
of the members into connected groups, and when its result is false, which
`environment::change_ensemble` does not test, every environment holds what it
held before the call. -/
theorem C20_direction_of_reaction (n : Nat → ℚ) (precision : ℚ) (k : kmc) (g : rng)
    (hkeys : (k.rxn_ens.map Prod.fst).Nodup) (hmax : g.stream g.calls ≤ g.max)
    (hprec : DBL_EPSILON ≤ precision) :
    (∀ rxn rate g',
      kmc.select_reaction (fun rxn => .ok (n rxn)) precision k g = .ok ((rxn, rate), g') →
      (rate < 0 ↔ n rxn < 0) ∧ (rate > 0 ↔ n rxn > 0)) ∧
    (∀ (sc : Nat → Nat) (reactor : List Nat → List Nat → Option exn) (ke : kmc) (st : store)
      (rxn : model_reaction) (rxn_for_rev : ensemble_map_iter × ensemble_map_iter) (rate : ℚ),
      (rate > 0 →
        kmc.perform_reaction sc reactor ke st rxn rxn_for_rev rate
          = kmc.perform_reaction_direction sc reactor ke st rxn_for_rev.1
              rxn.get_reactant_seq_ptr rxn.get_product_seq_ptr) ∧
      (rate < 0 →
        kmc.perform_reaction sc reactor ke st rxn rxn_for_rev rate
          = kmc.perform_reaction_direction sc reactor ke st rxn_for_rev.2
              rxn.get_product_seq_ptr rxn.get_reactant_seq_ptr) ∧
      (rate = 0 →
        kmc.perform_reaction sc reactor ke st rxn rxn_for_rev rate = .error .bad_value_rate ∧
        exn.bad_value_rate.cls = .bad_value)) ∧
    (∀ (sc : Nat → Nat) (mech : model_mechanism) (empty : Option Nat) (fuel : Nat)
      (reactor : List Nat → List Nat → Option exn) (ke : kmc) (st : store),
      kmc.reached sc mech empty fuel reactor ke st →
      ∀ (rxn : model_reaction) (rxn_for_rev : ensemble_map_iter × ensemble_map_iter) (rate : ℚ)
        (kf : kmc) (stf : store),
      kmc.perform_reaction sc reactor ke st rxn rxn_for_rev rate = .ok (kf, stf) →
      (rate > 0 → ∀ ens, rxn_for_rev.1 = some ens →
        ∃ reactants products, rxn.get_reactant_seq_ptr = some reactants ∧
          rxn.get_product_seq_ptr = some products ∧
          kmc.reaction_outcome sc ke st ens products kf stf) ∧
      (rate < 0 → ∀ ens, rxn_for_rev.2 = some ens →
        ∃ reactants products, rxn.get_reactant_seq_ptr = some reactants ∧
          rxn.get_product_seq_ptr = some products ∧
          kmc.reaction_outcome sc ke st ens reactants kf stf)) := by
  have hpos := DBL_EPSILON_pos
  have hdir : ∀ (sc : Nat → Nat) (reactor : List Nat → List Nat → Option exn) (ke : kmc)
      (st : store) (rxn : model_reaction) (rxn_for_rev : ensemble_map_iter × ensemble_map_iter)
      (rate : ℚ),
      (rate > 0 →
        kmc.perform_reaction sc reactor ke st rxn rxn_for_rev rate
          = kmc.perform_reaction_direction sc reactor ke st rxn_for_rev.1
              rxn.get_reactant_seq_ptr rxn.get_product_seq_ptr) ∧
      (rate < 0 →
        kmc.perform_reaction sc reactor ke st rxn rxn_for_rev rate
          = kmc.perform_reaction_direction sc reactor ke st rxn_for_rev.2
              rxn.get_product_seq_ptr rxn.get_reactant_seq_ptr) ∧
      (rate = 0 →
        kmc.perform_reaction sc reactor ke st rxn rxn_for_rev rate = .error .bad_value_rate ∧
        exn.bad_value_rate.cls = .bad_value) := by
    intro sc reactor ke st rxn rxn_for_rev rate
    refine ⟨?_, ?_, ?_⟩
    · intro hrate
      unfold kmc.perform_reaction
      rw [if_pos hrate]
    · intro hrate
      unfold kmc.perform_reaction
      rw [if_neg (by linarith), if_pos hrate]
    · intro hrate
      refine ⟨?_, rfl⟩
      unfold kmc.perform_reaction
      rw [if_neg (by linarith), if_neg (by linarith)]
  have hout : ∀ (sc : Nat → Nat) (mech : model_mechanism) (empty : Option Nat) (fuel : Nat)
      (reactor : List Nat → List Nat → Option exn) (ke kf : kmc) (st stf : store)
      (ens : ensemble) (a b : Option (List Nat)),
      kmc.reached sc mech empty fuel reactor ke st →
      kmc.perform_reaction_direction sc reactor ke st (some ens) a b = .ok (kf, stf) →
      ∃ rs ps, a = some rs ∧ b = some ps ∧ kmc.reaction_outcome sc ke st ens ps kf stf := by
    intro sc mech empty fuel reactor ke kf st stf ens a b hreach h
    obtain ⟨hwf, hinv⟩ := kmc.reached_registered sc mech empty fuel reactor ke st hreach
    obtain ⟨_, hsym⟩ := kmc.reached_surface sc mech empty fuel reactor ke st hreach
    unfold kmc.perform_reaction_direction at h
    cases a with
    | none => cases h
    | some rs =>
      cases b with
      | none => cases h
      | some ps =>
        simp only [] at h
        cases hs : kmc.perform_reaction_surface sc ke st ens ps with
        | error e => simp only [hs] at h; cases h
        | ok r =>
          simp only [hs] at h
          cases hre : reactor rs ps with
          | some e => simp only [hre] at h; cases h
          | none =>
            simp only [hre, Except.ok.injEq] at h
            subst h
            exact ⟨rs, ps, rfl, rfl,
              kmc.perform_reaction_surface_outcome sc ke _ st _ ens ps hwf hinv hsym hs⟩
  refine ⟨?_, hdir, ?_⟩
  · intro rxn rate g' hsel
    by_cases hlt : (k.rxn_ens.map (fun e => |n e.1|)).sum < precision
    · rw [kmc.select_reaction_error n precision k g hlt] at hsel
      cases hsel
    · have hle : precision ≤ (k.rxn_ens.map (fun e => |n e.1|)).sum := not_lt.mp hlt
      have hT : 0 < (k.rxn_ens.map (fun e => |n e.1|)).sum := by linarith
      obtain ⟨i, x, _, hnz, hok⟩ := kmc.select_reaction_ok n precision k g hkeys hmax hle hT
      rw [hok] at hsel
      simp only [Except.ok.injEq, Prod.mk.injEq] at hsel
      obtain ⟨⟨hx, hrate⟩, _⟩ := hsel
      rw [← hx, ← hrate]
      by_cases hneg : n x.1 < 0
      · rw [if_pos hneg]
        constructor
        · constructor
          · intro _; exact hneg
          · intro _; linarith
        · constructor
          · intro h; linarith
          · intro h; linarith
      · rw [if_neg hneg]
        have hgt : n x.1 > 0 := lt_of_le_of_ne (not_lt.mp hneg) (Ne.symm hnz)
        constructor
        · constructor
          · intro h; linarith
          · intro h; exact absurd h hneg
        · constructor
          · intro _; exact hgt
          · intro _; exact hT
  · intro sc mech empty fuel reactor ke st hreach rxn rxn_for_rev rate kf stf h
    refine ⟨?_, ?_⟩
    · intro hrate ens hens
      rw [(hdir sc reactor ke st rxn rxn_for_rev rate).1 hrate, hens] at h
      obtain ⟨rs, ps, h1, h2, h3⟩ := hout sc mech empty fuel reactor ke kf st stf ens _ _ hreach h
      exact ⟨rs, ps, h1, h2, h3⟩
    · intro hrate ens hens
      rw [(hdir sc reactor ke st rxn rxn_for_rev rate).2.1 hrate, hens] at h
      obtain ⟨ps, rs, h1, h2, h3⟩ := hout sc mech empty fuel reactor ke kf st stf ens _ _ hreach h
      exact ⟨rs, ps, h2, h1, h3⟩

/-- C20 at the examples: for three reactions with the net rates `1`, `0`, `-1`
the reaction `2` of net rate `-1` is selected and the rate returned is `-2`; on
the engine of the lattice of three rows and three columns after
`kmc::initialize`, `kmc::perform_reaction` for the reaction `2 @ <-> @@A` with
the rate `1` consumes an instance of the class of two empty sites and places
the product on its two members, the environments `0` and `6`. -/
theorem C20_direction_of_reaction_witness :
    ((example_kmc_rates.rxn_ens.map Prod.fst).Nodup ∧
      example_rng.stream example_rng.calls ≤ example_rng.max ∧ DBL_EPSILON ≤ DBL_EPSILON) ∧
    kmc.select_reaction (fun rxn => .ok (example_net_rate rxn)) DBL_EPSILON
      example_kmc_rates example_rng
      = .ok ((2, -2), { stream := fun _ => 1, calls := 1, max := 1 }) ∧
    example_net_rate 2 < 0 ∧
    kmc.perform_reaction example_sc (fun _ _ => none) example_engine_init example_memory_init
      example_rxn_balanced (some (ensemble.ctor example_sc [1, 1]), none) 1
      = .ok (example_engine_reacted, example_memory_reacted) ∧
    ((example_memory_reacted.env 0).center.type, (example_memory_reacted.env 0).multisite,
      (example_memory_reacted.env 6).center.type, (example_memory_reacted.env 6).multisite)
      = (2, [6], 2, [0]) ∧
    (∃ reactants products, example_rxn_balanced.get_reactant_seq_ptr = some reactants ∧
      example_rxn_balanced.get_product_seq_ptr = some products ∧
      kmc.reaction_outcome example_sc example_engine_init example_memory_init
        (ensemble.ctor example_sc [1, 1]) products example_engine_reacted
        example_memory_reacted) ∧
    (∀ rxn rate g',
      kmc.select_reaction (fun rxn => .ok (example_net_rate rxn)) DBL_EPSILON example_kmc_rates
        example_rng = .ok ((rxn, rate), g') →
      (rate < 0 ↔ example_net_rate rxn < 0) ∧ (rate > 0 ↔ example_net_rate rxn > 0)) :=
  ⟨⟨by decide, by decide, le_refl _⟩, example_select_reaction_eq,
    by norm_num [example_net_rate], example_perform_reaction_eq, by decide,
    ((C20_direction_of_reaction example_net_rate DBL_EPSILON example_kmc_rates example_rng
      (by decide) (by decide) (le_refl _)).2.2 example_sc example_mech (some 1) 20
        (fun _ _ => none) example_engine_init example_memory_init
        (kmc.reached.init rfl rfl rfl (by decide) (fun _ => ⟨_, rfl⟩) example_initialize_eq)
        example_rxn_balanced (some (ensemble.ctor example_sc [1, 1]), none) 1
        example_engine_reacted example_memory_reacted example_perform_reaction_eq).1
      (by norm_num) _ rfl,
    (C20_direction_of_reaction example_net_rate DBL_EPSILON example_kmc_rates example_rng
      (by decide) (by decide) (le_refl _)).1⟩

/-- C28: on a lattice of the interface that has not been initialized, of side
`N > 0`: `lattice::initialize` with an empty species returns, the lattice then
has exactly `N * N` points, every one of them holds the empty species, the
point of the position `(r, c)` is at the index `r * N + c`, and the lattice is
marked initialized; with a null empty species it throws `bad_pointer`, and at
the `throw` the lattice is as it was, without points and not initialized. -/
theorem C28_lattice_initialize (l : lattice) (hl : l.reached)
    (hun : l.initialized = false) (hN : l.size > 0) :
    (∀ e, ∃ l', lattice.initialize l (some e) = .ok l' ∧
      l'.points.length = l.size * l.size ∧ (∀ p ∈ l'.points, p.type = e) ∧
      (∀ r c, r < l.size → c < l.size → l'.points[r * l.size + c]? = some ⟨e, r, c⟩) ∧
      l'.initialized = true ∧ l'.size = l.size) ∧
    ( lattice.initialize l none = .error .bad_pointer_lattice ∧
      exn.bad_pointer_lattice.cls = .bad_pointer ∧
      lattice.initialize_throw l none = some (.bad_pointer_lattice, l) ∧
      l.points = [] ∧ l.initialized = false) := by
  have hpts := (lattice.reached_points l hl).1 hun
  refine ⟨fun e => ?_, ?_, rfl, ?_, hpts, hun⟩
  · obtain ⟨h1, h2, h3⟩ := lattice.make_surface_points l e hpts
    refine ⟨{ l.make_surface e with initialized := true }, ?_, h1, h2, h3, rfl, rfl⟩
    unfold lattice.initialize
    rw [if_pos hN]
  · unfold lattice.initialize
    rw [if_pos hN]
  · unfold lattice.initialize_throw
    rw [if_pos hN]

/-- Witness of C28: the lattice of side 2 as constructed, initialized with the
species `1`, has the four points of the positions `(0, 0)`, `(0, 1)`, `(1, 0)`
and `(1, 1)`. -/
theorem C28_lattice_initialize_witness :
    ((⟨2, false, []⟩ : lattice).initialized = false ∧ (⟨2, false, []⟩ : lattice).size > 0) ∧
    ((∀ e, ∃ l', lattice.initialize ⟨2, false, []⟩ (some e) = .ok l' ∧
      l'.points.length = (⟨2, false, []⟩ : lattice).size * (⟨2, false, []⟩ : lattice).size ∧
      (∀ p ∈ l'.points, p.type = e) ∧
      (∀ r c, r < (⟨2, false, []⟩ : lattice).size → c < (⟨2, false, []⟩ : lattice).size →
        l'.points[r * (⟨2, false, []⟩ : lattice).size + c]? = some ⟨e, r, c⟩) ∧
      l'.initialized = true ∧ l'.size = (⟨2, false, []⟩ : lattice).size) ∧
    ( lattice.initialize ⟨2, false, []⟩ none = .error .bad_pointer_lattice ∧
      exn.bad_pointer_lattice.cls = .bad_pointer ∧
      lattice.initialize_throw ⟨2, false, []⟩ none
        = some (.bad_pointer_lattice, ⟨2, false, []⟩) ∧
      (⟨2, false, []⟩ : lattice).points = [] ∧
      (⟨2, false, []⟩ : lattice).initialized = false)) :=
  ⟨⟨rfl, by decide⟩,
    C28_lattice_initialize ⟨2, false, []⟩ (lattice.reached.ctor 2) rfl (by decide)⟩

/-- C29: on a lattice of the interface with a side `N` whose square fits the
`unsigned int` of the index, `lattice::get_point(row, col)` returns a point if
and only if the lattice has been initialized, `row < N` and `col < N`, and the
point returned has the position `(row, col)`; it throws `bad_request` on a
lattice that has not been initialized and `bad_value` for a row or a column
that is not on the lattice. -/
theorem C29_lattice_get_point (l : lattice) (hl : l.reached)
    (hsize : l.size * l.size ≤ 2 ^ 32) (row col : Nat) :
    ((∃ p, l.get_point row col = .ok p) ↔
      (l.initialized = true ∧ row < l.size ∧ col < l.size)) ∧
    (∀ p, l.get_point row col = .ok p → p.row = row ∧ p.column = col) ∧
    (l.initialized = false → l.get_point row col = .error .bad_request_lattice) ∧
    (l.initialized = true → ¬ (row < l.size ∧ col < l.size) →
      ∃ e, l.get_point row col = .error e ∧ e.cls = .bad_value) := by
  have hinv := lattice.reached_points l hl
  have hok : l.initialized = true → row < l.size → col < l.size →
      ∃ p, l.get_point row col = .ok p ∧ p.row = row ∧ p.column = col := by
    intro hi hr hc
    obtain ⟨p, hp, hrow, hcol⟩ := hinv.2 hi row col hr hc
    refine ⟨p, ?_, hrow, hcol⟩
    unfold lattice.get_point
    have hlt : row * l.size + col < l.size * l.size := by
      have h4 : row + 1 ≤ l.size := by omega
      have h5 : (row + 1) * l.size ≤ l.size * l.size := Nat.mul_le_mul_right _ h4
      rw [Nat.succ_mul] at h5
      omega
    rw [hi]
    simp only [Bool.not_true, Bool.false_eq_true, if_false]
    rw [if_neg (by omega), if_neg (by omega), Nat.mod_eq_of_lt (by omega), hp]
  have hbad : l.initialized = true → ¬ (row < l.size ∧ col < l.size) →
      ∃ e, l.get_point row col = .error e ∧ e.cls = .bad_value := by
    intro hi hn
    unfold lattice.get_point
    rw [hi]
    simp only [Bool.not_true, Bool.false_eq_true, if_false]
    by_cases hr : row ≥ l.size
    · rw [if_pos hr]
      exact ⟨_, rfl, rfl⟩
    · rw [if_neg hr, if_pos (by omega)]
      exact ⟨_, rfl, rfl⟩
  have hun : l.initialized = false → l.get_point row col = .error .bad_request_lattice := by
    intro hi
    unfold lattice.get_point
    rw [hi]
    rfl
  refine ⟨⟨?_, ?_⟩, ?_, hun, hbad⟩
  · rintro ⟨p, hp⟩
    cases hi : l.initialized with
    | false =>
      rw [hun hi] at hp
      cases hp
    | true =>
      by_contra hn
      have hn' : ¬ (row < l.size ∧ col < l.size) := fun h => hn ⟨rfl, h.1, h.2⟩
      obtain ⟨e, he, _⟩ := hbad hi hn'
      rw [he] at hp
      cases hp
  · rintro ⟨hi, hr, hc⟩
    obtain ⟨p, hp, _⟩ := hok hi hr hc
    exact ⟨p, hp⟩
  · intro p hp
    cases hi : l.initialized with
    | false =>
      rw [hun hi] at hp
      cases hp
    | true =>
      by_cases hn : row < l.size ∧ col < l.size
      · obtain ⟨p', hp', hrow, hcol⟩ := hok hi hn.1 hn.2
        rw [hp'] at hp
        simp only [Except.ok.injEq] at hp
        subst hp
        exact ⟨hrow, hcol⟩
      · obtain ⟨e, he, _⟩ := hbad hi hn
        rw [he] at hp
        cases hp

/-- Witness of C29: on the example lattice of side 2, the point of the row 1
and the column 0 is returned. -/
theorem C29_lattice_get_point_witness :
    ( lattice.initialize ⟨2, false, []⟩ (some 1) = .ok example_lattice ∧
      example_lattice.size * example_lattice.size ≤ 2 ^ 32) ∧
    example_lattice.get_point 1 0 = .ok ⟨1, 1, 0⟩ ∧
    (((∃ p, example_lattice.get_point 1 0 = .ok p) ↔
      (example_lattice.initialized = true ∧ 1 < example_lattice.size ∧
        0 < example_lattice.size)) ∧
    (∀ p, example_lattice.get_point 1 0 = .ok p → p.row = 1 ∧ p.column = 0) ∧
    (example_lattice.initialized = false →
      example_lattice.get_point 1 0 = .error .bad_request_lattice) ∧
    (example_lattice.initialized = true →
      ¬ (1 < example_lattice.size ∧ 0 < example_lattice.size) →
      ∃ e, example_lattice.get_point 1 0 = .error e ∧ e.cls = .bad_value)) :=
  ⟨⟨rfl, by decide⟩, rfl,
    C29_lattice_get_point example_lattice
      (lattice.reached.init (some 1) (lattice.reached.ctor 2) rfl) (by decide) 1 0⟩

set_option maxRecDepth 100000 in
/-- C30, as stated, fails: the generator made with the seed 4357 that has made
one draw next draws 4290933890, while its copy made at that moment draws
3510405877, the first value of the sequence. -/
theorem C30_rng_copy_counterexample :
    rng_mt.draws 1 (rng_mt.get_random (rng_mt.ctor 4357)).2 = [4290933890] ∧
      rng_mt.draws 1 (rng_mt.copy (rng_mt.get_random (rng_mt.ctor 4357)).2) = [3510405877] ∧
      ¬ (rng_mt.draws 1 (rng_mt.copy (rng_mt.get_random (rng_mt.ctor 4357)).2) =
        rng_mt.draws 1 (rng_mt.get_random (rng_mt.ctor 4357)).2) := by
  decide

/-- C30, amended: a copy of a generator `rng_mt` made by `copy()` produces the
sequence of draws of a generator newly made with the seed of the original,
whatever number of draws the original had already made; the original produces
that sequence without its first `k` draws, `k` being the number of draws it
made since it was last seeded, so that the two agree from the moment of
copying when the original made no draw since it was made, copied or seeded. -/
theorem C30_rng_copy (g : rng_mt) (hg : g.reached) (n : Nat) :
    rng_mt.draws n (rng_mt.copy g) = rng_mt.draws n (rng_mt.ctor g.seed) ∧
      (∀ j, rng_mt.draws n (rng_mt.copy (rng_mt.advance j g)) = rng_mt.draws n (rng_mt.copy g)) ∧
      (∃ k, ∀ m, rng_mt.draws m g = (rng_mt.draws (k + m) (rng_mt.copy g)).drop k) ∧
      rng_mt.draws n (rng_mt.copy (rng_mt.ctor g.seed)) = rng_mt.draws n (rng_mt.ctor g.seed) ∧
      rng_mt.draws n (rng_mt.copy (rng_mt.copy g)) = rng_mt.draws n (rng_mt.copy g) ∧
      (∀ seed_, rng_mt.draws n (rng_mt.copy (rng_mt.set_seed g seed_)) =
        rng_mt.draws n (rng_mt.set_seed g seed_)) := by
  obtain ⟨k, hk⟩ := rng_mt.reached_same hg
  have hgg : rng_mt.same g g := rng_mt.same_trans (rng_mt.same_symm hk) hk
  refine ⟨rfl, fun j => ?_, ⟨k, fun m => ?_⟩, rfl, rfl, fun seed_ => ?_⟩
  · rw [rng_mt.copy_eq_ctor, (rng_mt.advance_seed j g hgg).1]
    rfl
  · rw [← rng_mt.draws_same m hk, rng_mt.draws_advance]
    rfl
  · obtain ⟨k', hk'⟩ := rng_mt.reached_same (rng_mt.reached.set_seed seed_ hg)
    exact rng_mt.draws_same n
      (rng_mt.seed_state_same _ _ (by simp) hgg.2.2.1.1 rfl)

/-- C30, amended, at the generator made with the seed 4357 after one draw. -/
theorem C30_rng_copy_witness :
    (rng_mt.get_random (rng_mt.ctor 4357)).2.reached ∧
      rng_mt.draws 2 (rng_mt.copy (rng_mt.get_random (rng_mt.ctor 4357)).2) =
        rng_mt.draws 2 (rng_mt.ctor 4357) :=
  ⟨rng_mt.reached.get_random (rng_mt.reached.ctor 4357),
    (C30_rng_copy (rng_mt.get_random (rng_mt.ctor 4357)).2
      (rng_mt.reached.get_random (rng_mt.reached.ctor 4357)) 2).1⟩

/-- C25: `kmc::coverage_scale(reactants)` is the product over the surface
species of `pow(n_i / m_i, n_i)` divided by `pow(sum, sum)`, the species of
coordination 0 being ignored; it is 1 when there is no surface species, as
`pow(0, 0) = 1`; and with powers that are natural numbers and an exact `pow` it
is the rational number `prod (n_i / m_i) ^ n_i / (sum n_i) ^ (sum n_i)`. -/
theorem C25_coverage_scale (pow : ℚ → ℚ → ℚ) (sc : Nat → Nat)
    (reactants : List (Nat × stoichiometric))
    (hpow : ∀ (x : ℚ) (n : Nat), pow x n = x ^ n) :
    kmc.coverage_scale pow sc reactants =
        ((kmc.surface_entries sc reactants).map
            (fun it => pow (it.2.power / (sc it.1 : ℚ)) it.2.power)).prod /
          pow (kmc.power_sum sc reactants) (kmc.power_sum sc reactants) ∧
      ((∀ it ∈ reactants, sc it.1 = 0) → kmc.coverage_scale pow sc reactants = 1) ∧
      ((∀ it ∈ reactants, 0 < sc it.1 → ∃ n : Nat, it.2.power = n) →
        kmc.coverage_scale pow sc reactants = kmc.coverage_scale_spec sc reactants) := by
  refine ⟨?_, fun h0 => ?_, kmc.coverage_scale_eq_spec pow sc reactants hpow⟩
  · unfold kmc.coverage_scale
    rw [kmc.coverage_scale_loop_eq]
    simp only [one_mul, zero_add]
  · have hf : kmc.surface_entries sc reactants = [] := by
      simp only [kmc.surface_entries, List.filter_eq_nil_iff]
      intro it hit
      simp [h0 it hit]
    unfold kmc.coverage_scale
    rw [kmc.coverage_scale_loop_eq]
    simp only [kmc.power_sum, hf, List.map_nil, List.prod_nil, List.sum_nil, one_mul, zero_add]
    have := hpow 0 0
    simp only [Nat.cast_zero, pow_zero] at this
    rw [this]
    norm_num

/-- C25 at a map of the species 1 (coordination 1, power 1), 2 (coordination 2,
power 2) and 3 (not on the surface): the scale is `1 * 1 / 3 ^ 3`. -/
theorem C25_coverage_scale_witness :
    (∀ (x : ℚ) (n : Nat), example_pow x n = x ^ n) ∧
      (∀ it ∈ example_stoich, 0 < example_sc it.1 → ∃ n : Nat, it.2.power = n) ∧
      kmc.coverage_scale example_pow example_sc example_stoich =
        kmc.coverage_scale_spec example_sc example_stoich ∧
      kmc.coverage_scale example_pow example_sc example_stoich = 1 / 27 :=
  have hpow : ∀ (x : ℚ) (n : Nat), example_pow x n = x ^ n := fun x n => by
    simp [example_pow]
  have hnat : ∀ it ∈ example_stoich, 0 < example_sc it.1 → ∃ n : Nat, it.2.power = n := by
    intro it hit _
    simp only [example_stoich, List.mem_cons, List.mem_singleton, List.not_mem_nil,
      or_false] at hit
    rcases hit with rfl | rfl | rfl
    · exact ⟨1, by norm_num⟩
    · exact ⟨2, by norm_num⟩
    · exact ⟨1, by norm_num⟩
  ⟨hpow, hnat, (C25_coverage_scale example_pow example_sc example_stoich hpow).2.2 hnat, by
    rw [(C25_coverage_scale example_pow example_sc example_stoich hpow).1]
    norm_num [kmc.surface_entries, kmc.power_sum, example_stoich, example_sc, example_pow,
      Int.toNat]⟩

/-- C24: with event based rate constants, a call of `kmc::calc_rate_scale`
that returns has given every reaction with a surface class the pair `(x, x)`,
where `x` is 1 over the coordination of the class of its reactants for radial
sites and, for neighbor sites, 1/2 when that coordination is 2 and 1 otherwise,
and every reaction without a surface class the pair `(1, 1)`; the call returns
when `count_sites` does and every such class has a coordination of 1 or more
and a site of its size on the surface. -/
theorem C24_calc_rate_scale_event (pow : ℚ → ℚ → ℚ) (sc : Nat → Nat) (mech : model_mechanism)
    (k : kmc) (st : store) (s : state) (km : kmc.rate_members)
    (hevent : km.event_rate = true)
    (hkeys : k.rxn_ens.Pairwise (fun a b => a.1 < b.1))
    (hfresh : ∀ e ∈ k.rxn_ens, map_find ptr_lt km.rate_scale e.1 = none) :
    (∀ rs, kmc.calc_rate_scale pow sc mech k st s km = .ok rs →
      ∀ e ∈ k.rxn_ens,
        (∀ first, e.2.1 = some first →
          map_find ptr_lt rs e.1 = some (e.1,
            ((if k.env_radial then 1 / (first.get_coordination : ℚ)
              else if first.get_coordination = 2 then 1 / 2 else 1),
             (if k.env_radial then 1 / (first.get_coordination : ℚ)
              else if first.get_coordination = 2 then 1 / 2 else 1)))) ∧
        (e.2.1 = none → map_find ptr_lt rs e.1 = some (e.1, (1, 1)))) ∧
    (∀ site_count,
      kmc.count_sites k st (List.replicate ((k.max_sites + 1) % 2 ^ 32) 0) = .ok site_count →
      (∀ e ∈ k.rxn_ens, ∀ first, e.2.1 = some first →
        1 ≤ first.get_coordination ∧
          ∃ count, site_count[first.get_coordination]? = some count ∧ 1 ≤ count) →
      ∃ rs, kmc.calc_rate_scale pow sc mech k st s km = .ok rs) := by
  constructor
  · intro rs h
    unfold kmc.calc_rate_scale at h
    cases hc : kmc.count_sites k st (List.replicate ((k.max_sites + 1) % 2 ^ 32) 0) with
    | error e => rw [hc] at h; cases h
    | ok site_count =>
      rw [hc] at h
      simp only [hevent, if_true] at h
      exact (kmc.calc_rate_scale_event_ok k site_count k.rxn_ens km.rate_scale rs hkeys hfresh h).1
  · intro site_count hc hgood
    unfold kmc.calc_rate_scale
    rw [hc]
    simp only [hevent, if_true]
    exact kmc.calc_rate_scale_event_returns k site_count k.rxn_ens km.rate_scale hgood

/-- C24 on the lattice of three rows and three columns with radial sites: the
reaction `0`, whose class of two empty sites has the coordination 2, gets
`(1/2, 1/2)`, and the reaction `1`, without a surface class, gets `(1, 1)`. -/
theorem C24_calc_rate_scale_event_witness :
    example_rate_members.event_rate = true ∧
      example_engine_rates.rxn_ens.Pairwise (fun a b => a.1 < b.1) ∧
      (∀ e ∈ example_engine_rates.rxn_ens,
        map_find ptr_lt example_rate_members.rate_scale e.1 = none) ∧
      ∃ rs, kmc.calc_rate_scale example_pow example_sc example_mech example_engine_rates
          example_memory_init example_state example_rate_members = .ok rs ∧
        map_find ptr_lt rs 0 = some (0, (1 / 2, 1 / 2)) ∧
        map_find ptr_lt rs 1 = some (1, (1, 1)) := by
  have hkeys : example_engine_rates.rxn_ens.Pairwise (fun a b => a.1 < b.1) := by
    simp [example_engine_rates]
  have hfresh : ∀ e ∈ example_engine_rates.rxn_ens,
      map_find ptr_lt example_rate_members.rate_scale e.1 = none := fun _ _ => rfl
  have hcount : kmc.count_sites example_engine_rates example_memory_init
      (List.replicate ((example_engine_rates.max_sites + 1) % 2 ^ 32) 0) = .ok [0, 9, 36] := by
    rfl
  have h := C24_calc_rate_scale_event example_pow example_sc example_mech example_engine_rates
    example_memory_init example_state example_rate_members rfl hkeys hfresh
  obtain ⟨rs, hrs⟩ := h.2 [0, 9, 36] hcount (by
    intro e he first hfirst
    simp only [example_engine_rates, List.mem_cons, List.mem_singleton, List.not_mem_nil,
      or_false] at he
    rcases he with rfl | rfl
    · simp only [Option.some.injEq] at hfirst
      subst hfirst
      exact ⟨by decide, 36, rfl, by decide⟩
    · cases hfirst)
  have h0 := (h.1 rs hrs (0, (some (ensemble.ctor example_sc [1, 1]), none))
    (by simp [example_engine_rates])).1 _ rfl
  have h1 := (h.1 rs hrs (1, (none, none)) (by simp [example_engine_rates])).2 rfl
  refine ⟨rfl, hkeys, hfresh, rs, hrs, ?_, h1⟩
  rw [h0]
  have hr : example_engine_rates.env_radial = true := rfl
  have hcoord : (ensemble.ctor example_sc [1, 1]).get_coordination = 2 := rfl
  simp only [hr, hcoord, if_true]
  norm_num

/-- C23: for a lattice simulation (`sites > 0`), `kmc::get_net_rate` of a
reaction returns `f * c_f * s_f - r * c_r * s_r`, where `f` and `r` are the
fluid forward and reverse rates, each replaced by 0 when it is not above the
threshold of the precision or `reactor::kmc_quantities(net, scale)`, for `r`
with `- scale`, is false, `c_f` and `c_r` are the numbers of instances in the
forward and the reverse class of the reaction (no factor without the class),
and `(s_f, s_r)` is the pair of `rate_scale` for the reaction. -/
theorem C23_get_net_rate (f : rate_functions) (sc : Nat → Nat) (mech : model_mechanism)
    (k : kmc) (s : state) (km : kmc.rate_members)
    (rxn_ens_it : Nat × (ensemble_map_iter × ensemble_map_iter)) (rxn : model_reaction)
    (f_rate s_f s_r : ℚ) (qf qr : Bool)
    (hsites : k.sites > 0)
    (hrxn : mech.reactions[rxn_ens_it.1]? = some rxn)
    (hclass : rxn_ens_it.2.1 = none → rxn_ens_it.2.2 = none)
    (hfirst : ∀ key, rxn_ens_it.2.1 = some key →
      (map_find ensemble.lt k.ensembles key).isSome = true)
    (hsecond : ∀ key, rxn_ens_it.2.2 = some key →
      (map_find ensemble.lt k.ensembles key).isSome = true)
    (hf : rxn.get_fluid_forward_rate f sc s rxn_ens_it.1 s.rxtor.get_temperature = .ok f_rate)
    (hqf : f_rate > s.prec.get_double →
      reactor.kmc_quantities sc s rxn.get_net_coefficients km.scale = .ok qf)
    (hqr : rxn.get_fluid_reverse_rate f sc s rxn_ens_it.1 s.rxtor.get_temperature
        > s.prec.get_double →
      reactor.kmc_quantities sc s rxn.get_net_coefficients (-km.scale) = .ok qr)
    (hscale : map_find ptr_lt km.rate_scale rxn_ens_it.1 = some (rxn_ens_it.1, (s_f, s_r))) :
    kmc.get_net_rate f sc mech k s km rxn_ens_it =
      .ok (kmc.checked_rate s f_rate qf * kmc.class_count k rxn_ens_it.2.1 * s_f -
        kmc.checked_rate s
            (rxn.get_fluid_reverse_rate f sc s rxn_ens_it.1 s.rxtor.get_temperature) qr *
          kmc.class_count k rxn_ens_it.2.2 * s_r) := by
  have hcf : kmc.check_quantities_rate sc s rxn f_rate km.scale
      = .ok (kmc.checked_rate s f_rate qf) := by
    unfold kmc.check_quantities_rate kmc.checked_rate
    by_cases h : f_rate > s.prec.get_double
    · rw [if_pos h, hqf h]
      cases qf <;> simp [h]
    · rw [if_neg h]
      simp [h]
  have hcr : kmc.check_quantities_rate sc s rxn
      (rxn.get_fluid_reverse_rate f sc s rxn_ens_it.1 s.rxtor.get_temperature) (-km.scale)
      = .ok (kmc.checked_rate s
        (rxn.get_fluid_reverse_rate f sc s rxn_ens_it.1 s.rxtor.get_temperature) qr) := by
    unfold kmc.check_quantities_rate kmc.checked_rate
    by_cases h : rxn.get_fluid_reverse_rate f sc s rxn_ens_it.1 s.rxtor.get_temperature
        > s.prec.get_double
    · rw [if_pos h, hqr h]
      cases qr <;> simp [h]
    · rw [if_neg h]
      simp [h]
  have hsz : ∀ a b : ℚ, kmc.get_net_rate_sizes k rxn_ens_it a b
      = .ok (a * kmc.class_count k rxn_ens_it.2.1, b * kmc.class_count k rxn_ens_it.2.2) := by
    intro a b
    unfold kmc.get_net_rate_sizes kmc.class_count
    cases h1 : rxn_ens_it.2.1 with
    | none =>
      rw [hclass h1]
      simp
    | some first =>
      have hv := hfirst first h1
      cases hm1 : map_find ensemble.lt k.ensembles first with
      | none => rw [hm1] at hv; cases hv
      | some first_it =>
        cases h2 : rxn_ens_it.2.2 with
        | none => simp [hm1]
        | some second =>
          have hv2 := hsecond second h2
          cases hm2 : map_find ensemble.lt k.ensembles second with
          | none => rw [hm2] at hv2; cases hv2
          | some second_it => simp [hm1, hm2]
  unfold kmc.get_net_rate
  rw [hrxn]
  simp only [hsites, if_true, hf]
  unfold kmc.check_quantities
  rw [hcf]
  simp only
  rw [hcr]
  simp only
  rw [hsz, hscale]

/-- C23 for the reaction `2 @ -> @@A` on the empty lattice of three rows and
three columns: the forward rate 2, the 36 instances of the class of two empty
sites and the scale factor 1/2 give the net rate 36. -/
theorem C23_get_net_rate_witness :
    example_engine_rates.sites > 0 ∧
      example_rxn_irreversible.get_fluid_forward_rate example_rate_functions example_sc
        example_state_empty 0 example_state_empty.rxtor.get_temperature = .ok 2 ∧
      reactor.kmc_quantities example_sc example_state_empty
        example_rxn_irreversible.get_net_coefficients example_rate_members_scaled.scale
          = .ok true ∧
      kmc.get_net_rate example_rate_functions example_sc example_mech_rates example_engine_rates
        example_state_empty example_rate_members_scaled
        (0, (some (ensemble.ctor example_sc [1, 1]), none)) = .ok 36 := by
  have hf : example_rxn_irreversible.get_fluid_forward_rate example_rate_functions example_sc
      example_state_empty 0 example_state_empty.rxtor.get_temperature = .ok 2 := by
    with_unfolding_all rfl
  have hq : reactor.kmc_quantities example_sc example_state_empty
      example_rxn_irreversible.get_net_coefficients example_rate_members_scaled.scale
        = .ok true := by
    with_unfolding_all rfl
  have hrev : example_rxn_irreversible.get_fluid_reverse_rate example_rate_functions example_sc
      example_state_empty 0 example_state_empty.rxtor.get_temperature = 0 := rfl
  have h := C23_get_net_rate example_rate_functions example_sc example_mech_rates
    example_engine_rates example_state_empty example_rate_members_scaled
    (0, (some (ensemble.ctor example_sc [1, 1]), none)) example_rxn_irreversible 2 (1 / 2)
    (1 / 2) true true (by decide) rfl (fun hn => by cases hn)
    (fun key hkey => by
      simp only [Option.some.injEq] at hkey
      subst hkey
      rfl)
    (fun key hkey => by cases hkey) hf (fun _ => hq)
    (fun hlt => by
      rw [hrev] at hlt
      exact absurd hlt (by with_unfolding_all decide))
    rfl
  refine ⟨by decide, hf, hq, ?_⟩
  rw [h, hrev]
  have hc : kmc.class_count example_engine_rates (some (ensemble.ctor example_sc [1, 1])) = 36 := by
    with_unfolding_all rfl
  have hp : example_state_empty.prec.get_double = DBL_EPSILON := rfl
  dsimp only
  rw [hc]
  simp only [kmc.checked_rate, kmc.class_count, hp, DBL_EPSILON]
  norm_num

/-- C21, as stated, fails: at the example engine, whose reactions `0` and `1`
have the net rates 1 and 3, `select_reaction` selects the reaction `1` and
returns the rate 4, the total, and `step` divides by 4, not by the absolute
net rate 3 of the selected reaction. -/
theorem C21_step_selected_rate_counterexample :
    kmc.step_body example_rate_functions_step example_log example_kmc_step_msp example_sc
        example_mech_step example_simulation
        = .ok (example_simulation_stepped, example_step_locals) ∧
      example_step_locals.rxn = 1 ∧
      kmc.get_net_rate_of example_rate_functions_step example_sc example_mech_step
        example_simulation 1 = .ok 3 ∧
      example_step_locals.rate = 4 ∧
      ¬ (|example_step_locals.rate| = |(3 : ℚ)|) ∧
      example_step_locals.dx = -(example_log example_step_locals.u / 4) ∧
      ¬ (example_step_locals.dx = -(example_log example_step_locals.u / |(3 : ℚ)|)) := by
  refine ⟨example_step_eq, ?_, example_step_net_rate, ?_, ?_, ?_, ?_⟩ <;>
    rw [example_step_locals_eq] <;> norm_num [example_log, abs_of_pos]

/-- C21, amended: in an iteration of the loop of `kmc::step` that returns, the
time step is `dx = -(log(U) / |r|)`, where `r` is the rate that
`select_reaction` returns; its absolute value is the absolute net rate of the
selected reaction plus the absolute net rates of all the other reactions, and
its sign is the sign of the net rate of the selected reaction, so that it is
the absolute net rate of the selected reaction when every other reaction has
the net rate 0. -/
theorem C21_step_selected_rate (f : rate_functions) (log : ℚ → ℚ)
    (kmc_step_msp : state → Nat → ℚ → ℚ → ℚ → Except exn state) (sc : Nat → Nat)
    (mech : model_mechanism) (w w' : simulation) (loc : kmc.step_locals)
    (hkeys : (w.engine.rxn_ens.map Prod.fst).Nodup)
    (h : kmc.step_body f log kmc_step_msp sc mech w = .ok (w', loc)) :
    loc.dx = -(log loc.u / |loc.rate|) ∧
    (∃ g g', w.memory.random = some g ∧
      kmc.select_reaction (kmc.get_net_rate_of f sc mech w) w.quantities.prec.get_double
        w.engine g = .ok ((loc.rxn, loc.rate), g')) ∧
    kmc.get_net_rate_of f sc mech w loc.rxn = .ok (kmc.net_rate f sc mech w loc.rxn) ∧
    |loc.rate| = |kmc.net_rate f sc mech w loc.rxn| +
      ((w.engine.rxn_ens.filter (fun e => decide (e.1 ≠ loc.rxn))).map
        (fun e => |kmc.net_rate f sc mech w e.1|)).sum ∧
    (loc.rate < 0 ↔ kmc.net_rate f sc mech w loc.rxn < 0) ∧
    ((∀ e ∈ w.engine.rxn_ens, e.1 ≠ loc.rxn → kmc.net_rate f sc mech w e.1 = 0) →
      |loc.rate| = |kmc.net_rate f sc mech w loc.rxn|) := by
  obtain ⟨g, g', rxn_for_rev_it, rxn, w1, g1, hg, hsel, hfind, _, _, _, _, hdx⟩ :=
    kmc.step_body_ok f log kmc_step_msp sc mech w w' loc h
  obtain ⟨hval, hmem, hprec, hrate⟩ :=
    kmc.step_body_rate f log kmc_step_msp sc mech w w' loc hkeys h
  have hnn : 0 ≤ kmc.total_propensity f sc mech w :=
    list_sum_abs_nonneg (kmc.net_rate f sc mech w) w.engine.rxn_ens
  have habs : |loc.rate| = kmc.total_propensity f sc mech w := by
    rw [hrate]
    split_ifs
    · rw [mul_neg_one, abs_neg, abs_of_nonneg hnn]
    · exact abs_of_nonneg hnn
  have hsplit := list_sum_abs_split (kmc.net_rate f sc mech w) loc.rxn w.engine.rxn_ens hkeys hmem
  have hsum : |loc.rate| = |kmc.net_rate f sc mech w loc.rxn| +
      ((w.engine.rxn_ens.filter (fun e => decide (e.1 ≠ loc.rxn))).map
        (fun e => |kmc.net_rate f sc mech w e.1|)).sum := by
    rw [habs]
    exact hsplit
  have hself : kmc.get_net_rate_of f sc mech w loc.rxn
      = .ok (kmc.net_rate f sc mech w loc.rxn) := by
    have hkey := map_find_ptr_key _ _ _ hfind
    have := hval rxn_for_rev_it hkey.2
    rw [hkey.1] at this
    simp only [kmc.get_net_rate_of, hfind]
    exact this
  -- the rate of the selected reaction is not zero: perform_reaction has not thrown
  refine ⟨hdx, ⟨g, g', hg, hsel⟩, hself, hsum, ?_, ?_⟩
  · rw [hrate]
    constructor
    · intro hneg
      by_contra hn
      rw [if_neg hn] at hneg
      linarith
    · intro hneg
      rw [if_pos hneg]
      have hr0 : loc.rate ≠ 0 := by
        intro h0
        obtain ⟨_, _, _, _, _, _, _, _, _, _, hp, _⟩ :=
          kmc.step_body_ok f log kmc_step_msp sc mech w w' loc h
        rw [h0] at hp
        simp [kmc.perform_reaction_reactor] at hp
      have hne : kmc.total_propensity f sc mech w ≠ 0 := by
        intro h0
        apply hr0
        rw [hrate, h0]
        simp
      have : 0 < kmc.total_propensity f sc mech w := lt_of_le_of_ne hnn (Ne.symm hne)
      linarith
  · intro hzero
    rw [hsum]
    have : ((w.engine.rxn_ens.filter (fun e => decide (e.1 ≠ loc.rxn))).map
        (fun e => |kmc.net_rate f sc mech w e.1|)).sum = 0 := by
      apply List.sum_eq_zero
      intro x hx
      obtain ⟨e, he, rfl⟩ := List.mem_map.1 hx
      have he' := List.mem_filter.1 he
      rw [hzero e he'.1 (by simpa using he'.2)]
      simp
    rw [this, add_zero]

/-- C21, amended, at the example engine: the rate returned has the absolute
value of the net rate 3 of the selected reaction plus that of the other
reaction. -/
theorem C21_step_selected_rate_witness :
    (example_simulation.engine.rxn_ens.map Prod.fst).Nodup ∧
      kmc.step_body example_rate_functions_step example_log example_kmc_step_msp example_sc
        example_mech_step example_simulation
        = .ok (example_simulation_stepped, example_step_locals) ∧
      |example_step_locals.rate| =
        |kmc.net_rate example_rate_functions_step example_sc example_mech_step
            example_simulation example_step_locals.rxn| +
          ((example_simulation.engine.rxn_ens.filter
              (fun e => decide (e.1 ≠ example_step_locals.rxn))).map
            (fun e => |kmc.net_rate example_rate_functions_step example_sc example_mech_step
              example_simulation e.1|)).sum :=
  ⟨by decide, example_step_eq,
    (C21_step_selected_rate example_rate_functions_step example_log example_kmc_step_msp
      example_sc example_mech_step example_simulation example_simulation_stepped
      example_step_locals (by decide) example_step_eq).2.2.2.1⟩

/-- C22: in an iteration of the loop of `kmc::step` that returns, the time
step is `dx = -(log(U) / R)`, where `U` is the number that
`get_random_open_open()` draws after the reaction has been performed and `R`
is the total propensity, the sum over all reactions of `rxn_ens` of the
absolute value of the net rate that `get_net_rate` has returned for it to
`select_reaction`; `xi` is incremented by it. -/
theorem C22_step_total_propensity (f : rate_functions) (log : ℚ → ℚ)
    (kmc_step_msp : state → Nat → ℚ → ℚ → ℚ → Except exn state) (sc : Nat → Nat)
    (mech : model_mechanism) (w w' : simulation) (loc : kmc.step_locals)
    (hkeys : (w.engine.rxn_ens.map Prod.fst).Nodup)
    (h : kmc.step_body f log kmc_step_msp sc mech w = .ok (w', loc)) :
    (∀ e ∈ w.engine.rxn_ens,
      kmc.get_net_rate f sc mech w.engine w.quantities w.rates e
        = .ok (kmc.net_rate f sc mech w e.1)) ∧
    loc.dx = -(log loc.u / kmc.total_propensity f sc mech w) ∧
    (∃ (g' : rng) (rxn_for_rev_it : Nat × (ensemble_map_iter × ensemble_map_iter))
        (rxn : model_reaction) (w1 : simulation) (g1 : rng),
      kmc.perform_reaction_reactor sc { w with memory := w.memory.with_random g' } rxn
        rxn_for_rev_it.2 loc.rate = .ok w1 ∧
      w1.memory.random = some g1 ∧ loc.u = (g1.get_random_open_open 1).1) ∧
    (∀ fuel xi xf, xi < xf →
      kmc.step f log kmc_step_msp sc mech (fuel + 1) w xi xf
        = kmc.step f log kmc_step_msp sc mech fuel w'
            (xi + -(log loc.u / kmc.total_propensity f sc mech w)) xf) := by
  obtain ⟨g, g', rxn_for_rev_it, rxn, w1, g1, _, _, _, _, hp, hg1, hu, hdx⟩ :=
    kmc.step_body_ok f log kmc_step_msp sc mech w w' loc h
  obtain ⟨hval, _, _, hrate⟩ := kmc.step_body_rate f log kmc_step_msp sc mech w w' loc hkeys h
  have hnn : 0 ≤ kmc.total_propensity f sc mech w :=
    list_sum_abs_nonneg (kmc.net_rate f sc mech w) w.engine.rxn_ens
  have habs : |loc.rate| = kmc.total_propensity f sc mech w := by
    rw [hrate]
    split_ifs
    · rw [mul_neg_one, abs_neg, abs_of_nonneg hnn]
    · exact abs_of_nonneg hnn
  have hdx' : loc.dx = -(log loc.u / kmc.total_propensity f sc mech w) := by
    rw [hdx, habs]
  refine ⟨hval, hdx', ⟨g', rxn_for_rev_it, rxn, w1, g1, hp, hg1, hu⟩, ?_⟩
  intro fuel xi xf hlt
  rw [kmc.step, if_pos hlt, h]
  simp only [hdx']

/-- C22 at the example engine with the net rates 1 and 3: the time step is
`-(log(U) / R)` with the total propensity `R` of the two reactions. -/
theorem C22_step_total_propensity_witness :
    (example_simulation.engine.rxn_ens.map Prod.fst).Nodup ∧
      kmc.step_body example_rate_functions_step example_log example_kmc_step_msp example_sc
        example_mech_step example_simulation
        = .ok (example_simulation_stepped, example_step_locals) ∧
      example_step_locals.dx = -(example_log example_step_locals.u /
        kmc.total_propensity example_rate_functions_step example_sc example_mech_step
          example_simulation) :=
  ⟨by decide, example_step_eq,
    (C22_step_total_propensity example_rate_functions_step example_log example_kmc_step_msp
      example_sc example_mech_step example_simulation example_simulation_stepped
      example_step_locals (by decide) example_step_eq).2.1⟩

/-- C26, as stated, fails for a species on more than one site.  On the lattice
of three rows and three columns (`N = 3`) the coverage `c = 1/9` is requested
for the species `2` of coordination 2: `kmc::initial_coverage` returns, no loop
of placement is left by `break`, one `2` is placed, and it occupies 2 lattice
sites; `2 / 9` differs from `1 / 9` by more than `0.5 / 9`. -/
theorem C26_initial_coverage_counterexample :
    kmc.initial_coverage example_sc 20 example_mech (some 1) example_simulation_request
      = .ok ([], example_simulation_covered) ∧
    example_simulation_request.engine.sites = 3 * 3 ∧
    example_sc 2 = 2 ∧
    example_simulation_request.quantities.get_quantity 2 .Econcentration = 1 / 9 ∧
    kmc.occupied_sites example_simulation_covered 2 = 2 ∧
    ¬ |(kmc.occupied_sites example_simulation_covered 2 : ℚ) / (3 * 3) - 1 / 9|
        ≤ (1 / 2) / (3 * 3) := by
  have h : kmc.occupied_sites example_simulation_covered 2 = 2 := by with_unfolding_all decide
  refine ⟨example_initial_coverage_eq, by with_unfolding_all decide, rfl,
    by with_unfolding_all rfl, h, ?_⟩
  rw [h]
  norm_num [abs_le]

/-- C26 (amended): after `kmc::initial_coverage` on a lattice of `N x N` sites
whose reactor is scaled to the lattice, for every surface species `X` other
than the empty site with a requested coverage `c > 0` whose loop of placement
was not left by `break` (the empty-site ensembles did not run out), the
coverage of `X` is `p / (N * N)` for the number `p` of the `X` placed, and
differs from `c` by `0.5 / (N * N)` at most; and when the engine is as
`kmc::initialize` leaves it for `initial_coverage`, with an empty site of
coordination 1 and connected site-groups, `X` occupies `coordination(X) * p`
lattice sites, so that the number of the lattice sites occupied by `X` divided
by `coordination(X) * N * N` differs from `c` by `0.5 / (N * N)` at most. -/
theorem C26_initial_coverage (sc : Nat → Nat) (fuel : Nat) (mech : model_mechanism)
    (empty_site : Nat) (w w' : simulation) (stopped : List Nat) (N X : Nat)
    (hN : w.engine.sites = N * N) (hpos : 0 < N)
    (hempty : sc empty_site > 0) (hs : w.quantities.surface_typed sc) (hscaled : w.scaled)
    (hnd : mech.speciess.Nodup)
    (hX : X ∈ mech.speciess) (hXe : X ≠ empty_site) (hXs : sc X > 0)
    (hc : w.quantities.get_quantity X .Econcentration > 0)
    (h : kmc.initial_coverage sc fuel mech (some empty_site) w = .ok (stopped, w'))
    (hstop : X ∉ stopped) :
    ∃ p : Nat,
      w'.quantities.get_quantity X .Econcentration = (p : ℚ) / ((N : ℚ) * (N : ℚ)) ∧
      |w'.quantities.get_quantity X .Econcentration
          - w.quantities.get_quantity X .Econcentration| ≤ (1 / 2) / ((N : ℚ) * (N : ℚ)) ∧
      (sc empty_site = 1 → kmc.initialized_engine sc mech empty_site w.engine w.memory →
        w.memory.groups_connected →
        kmc.occupied_sites w' X = sc X * p ∧
        |(kmc.occupied_sites w' X : ℚ) / ((sc X : ℚ) * ((N : ℚ) * (N : ℚ)))
            - w.quantities.get_quantity X .Econcentration| ≤ (1 / 2) / ((N : ℚ) * (N : ℚ))) := by
  obtain ⟨loc1, w1, hloop, hst, he1, _, _, hq⟩ :=
    kmc.initial_coverage_ok sc fuel mech empty_site w w' stopped h
  have hsites : w.engine.sites > 0 := by rw [hN]; exact Nat.mul_pos hpos hpos
  have hplaced := kmc.initial_coverage_loop_placed sc fuel empty_site hempty mech.speciess _
    loc1 w w1 hnd hs hsites hscaled hloop X hX hXe hXs hc (by rw [← hst]; exact hstop)
  have hsame : w'.quantities.get_quantity X .Econcentration
      = w1.quantities.get_quantity X .Econcentration := by
    simp only [state.get_quantity, hq X hXe]
  rw [← hsame, hN] at hplaced
  push_cast at hplaced
  obtain ⟨hbound, p, hp⟩ := hplaced
  refine ⟨p, hp, hbound, fun hone hinit hgroups => ?_⟩
  obtain ⟨hw, hall, _⟩ := kmc.initialized_engine_whole sc mech empty_site _ _ hone hinit
  have hag := (kmc.initial_coverage_lattice sc fuel mech empty_site w w' stopped hone hnd hs
    hscaled hw hgroups h).2 X hX hXe hXs hc
    (kmc.occupied_sites_empty w empty_site X hXe hall)
  unfold kmc.coverage_agrees at hag
  have hsites' : w'.engine.sites = N * N := by
    obtain ⟨_, _, _, b4, _⟩ := kmc.initial_coverage_loop_frame sc fuel empty_site hempty
      mech.speciess _ loc1 w w1 hs hloop
    rw [he1, b4, hN]
  have hNq : (0 : ℚ) < (N : ℚ) * (N : ℚ) := by positivity
  have hXq : (0 : ℚ) < (sc X : ℚ) := by exact_mod_cast hXs
  rw [hsites', hp] at hag
  push_cast at hag
  have hocc : (kmc.occupied_sites w' X : ℚ) = (sc X : ℚ) * (p : ℚ) := by
    rw [hag]
    field_simp
    ring
  refine ⟨by exact_mod_cast hocc, ?_⟩
  have hdiv : (kmc.occupied_sites w' X : ℚ) / ((sc X : ℚ) * ((N : ℚ) * (N : ℚ)))
      = w'.quantities.get_quantity X .Econcentration := by
    rw [hocc, hp]
    field_simp
    ring
  rw [hdiv]
  exact hbound

/-- Witness of C26: on the lattice of three rows and three columns the coverage
`1/9` requested for the species `2` of coordination 2 is the coverage after the
call, with `p = 1`, and the species occupies 2 sites. -/
theorem C26_initial_coverage_witness :
    example_simulation_covered.quantities.get_quantity 2 .Econcentration = 1 / 9 ∧
    kmc.occupied_sites example_simulation_covered 2 = 2 ∧
    example_sc 1 = 1 ∧
    kmc.initialized_engine example_sc example_mech 1 example_simulation_request.engine
      example_simulation_request.memory ∧
    example_simulation_request.memory.groups_connected ∧
    ∃ p : Nat,
      example_simulation_covered.quantities.get_quantity 2 .Econcentration
        = (p : ℚ) / (((3 : Nat) : ℚ) * ((3 : Nat) : ℚ)) ∧
      |example_simulation_covered.quantities.get_quantity 2 .Econcentration
          - example_simulation_request.quantities.get_quantity 2 .Econcentration|
        ≤ (1 / 2) / (((3 : Nat) : ℚ) * ((3 : Nat) : ℚ)) ∧
      (example_sc 1 = 1 →
        kmc.initialized_engine example_sc example_mech 1 example_simulation_request.engine
          example_simulation_request.memory →
        example_simulation_request.memory.groups_connected →
        kmc.occupied_sites example_simulation_covered 2 = example_sc 2 * p ∧
        |(kmc.occupied_sites example_simulation_covered 2 : ℚ)
              / ((example_sc 2 : ℚ) * (((3 : Nat) : ℚ) * ((3 : Nat) : ℚ)))
            - example_simulation_request.quantities.get_quantity 2 .Econcentration|
          ≤ (1 / 2) / (((3 : Nat) : ℚ) * ((3 : Nat) : ℚ))) :=
  ⟨by with_unfolding_all rfl, by with_unfolding_all decide, rfl, example_engine_initialized,
    example_memory_init_groups,
    C26_initial_coverage example_sc 20 example_mech 1 example_simulation_request
      example_simulation_covered [] 3 2 (by with_unfolding_all decide) (by decide) (by decide)
      example_state_request_typed example_simulation_request_scaled (by decide) (by decide)
      (by decide) (by decide) (by with_unfolding_all decide) example_initial_coverage_eq
      (by simp)⟩

/-- C27, as stated, fails when the coverages placed are rounded down.  On the
lattice of two rows and two columns the coverage `31/50` is requested for each
of the species `2` and `3` of coordination 1: the requested coverages sum to
`31/25`, which is more than `1 + 0.5 / 4`, and `kmc::initial_coverage` returns
without an exception, with two sites for each species. -/
theorem C27_initial_coverage_bad_input_counterexample :
    kmc.placed_coverage example_sc_single 1 example_mech_single.speciess
        (example_simulation_requests (31 / 50) (31 / 50))
        (example_simulation_requests (31 / 50) (31 / 50)) = 31 / 25 ∧
    (31 / 25 : ℚ) > 1 + (1 / 2) / 4 ∧
    (example_simulation_requests (31 / 50) (31 / 50)).engine.sites = 4 ∧
    kmc.initial_coverage example_sc_single 20 example_mech_single (some 1)
      (example_simulation_requests (31 / 50) (31 / 50))
      = .ok ([], example_simulation_overfull) ∧
    kmc.occupied_sites example_simulation_overfull 2 = 2 ∧
    kmc.occupied_sites example_simulation_overfull 3 = 2 :=
  ⟨by with_unfolding_all rfl, by norm_num, by with_unfolding_all decide,
    example_initial_coverage_overfull_eq, by with_unfolding_all decide,
    by with_unfolding_all decide⟩

/-- C27 (amended): `kmc::initial_coverage` raises `bad_input` whenever its loop
comes to a surface species `sp` other than the empty site, with a requested
coverage above 0, for which the coverage placed for the species before it
(each weighted by its surface coordination) plus the requested coverage of
`sp` times its coordination is more than `1 + 0.5 * coordination(sp) / sites`;
at the `throw` the species `sp` and the species after it have been placed on
no site of the lattice, and their quantities are as requested. -/
theorem C27_initial_coverage_bad_input (sc : Nat → Nat) (fuel : Nat) (mech : model_mechanism)
    (empty_site : Nat) (w : simulation) (done : List Nat) (sp : Nat) (rest : List Nat)
    (loc1 : kmc.coverage_locals) (w1 : simulation)
    (hempty : sc empty_site > 0) (hs : w.quantities.surface_typed sc)
    (hnd : mech.speciess.Nodup) (hl : mech.speciess = done ++ sp :: rest)
    (hdone : kmc.initial_coverage_loop sc fuel empty_site done ⟨0, 0, []⟩ w = .ok (loc1, w1))
    (hne : sp ≠ empty_site) (hsc : sc sp > 0)
    (hc : w.quantities.get_quantity sp .Econcentration > 0) (hsites : w.engine.sites > 0)
    (hex : kmc.placed_coverage sc empty_site done w w1
        + w.quantities.get_quantity sp .Econcentration * (sc sp : ℚ)
        > 1 + ((1 / 2) * (sc sp : ℚ)) / (w.engine.sites : ℚ)) :
    kmc.initial_coverage sc fuel mech (some empty_site) w = .error .bad_input_total_coverage ∧
    exn.bad_input_total_coverage.cls = .bad_input ∧
    kmc.initial_coverage_throw sc fuel empty_site mech.speciess ⟨0, 0, []⟩ w
      = some (sp, rest, loc1, w1) ∧
    (∀ y ∈ sp :: rest, ∀ e,
      (w1.memory.env e).center.type = y → (w.memory.env e).center.type = y) ∧
    (∀ y ∈ sp :: rest, y ≠ empty_site → w1.quantities.amount y = w.quantities.amount y) := by
  rw [hl] at hnd
  have hdisj : ∀ y ∈ sp :: rest, y ∉ done := by
    intro y hy hyd
    exact (List.nodup_append.1 hnd).2.2 hyd hy
  have hnd1 : done.Nodup := (List.nodup_append.1 hnd).1
  obtain ⟨b1, b2, b3, b4, b5, b6, b7, b8, b9, b10⟩ :=
    kmc.initial_coverage_loop_frame sc fuel empty_site hempty done _ loc1 w w1 hs hdone
  have htot := kmc.initial_coverage_loop_total sc fuel empty_site hempty done _ loc1 w w1
    hnd1 hs hdone
  simp only [zero_add] at htot
  have hsame : w1.quantities.get_quantity sp .Econcentration
      = w.quantities.get_quantity sp .Econcentration := by
    simp only [state.get_quantity, b7 sp hne (hdisj sp (List.mem_cons_self _ _))]
  have hexc : kmc.initial_coverage_exceeds sc sp loc1 w1 = true := by
    simp only [kmc.initial_coverage_exceeds, Bool.and_eq_true, decide_eq_true_eq]
    rw [b4, htot, hsame]
    exact ⟨hsites, hex⟩
  have hc1 : w1.quantities.get_quantity sp .Econcentration > 0 := by rw [hsame]; exact hc
  refine ⟨?_, rfl, ?_, ?_, ?_⟩
  · unfold kmc.initial_coverage
    simp only
    rw [hl, kmc.initial_coverage_loop_append, hdone]
    simp only [kmc.initial_coverage_loop]
    rw [kmc.initial_coverage_species_raises sc fuel empty_site sp loc1 w1 hne hsc hc1 hexc]
  · rw [hl]
    exact kmc.initial_coverage_throw_append sc fuel empty_site sp rest loc1 w1 hne hsc hc1 hexc
      done _ w hdone
  · intro y hy e hye
    rcases b8 e with h1 | ⟨h1, _⟩
    · rw [← h1]; exact hye
    · rw [hye] at h1
      exact absurd h1 (hdisj y hy)
  · intro y hy hye
    exact b7 y hye (hdisj y hy)

/-- Witness of C27: on the lattice of two rows and two columns the coverages
`31/50` and `7/10` are requested for the species `2` and `3`; two sites have
been filled with the species `2` when the loop comes to the species `3`, and
`1/2 + 7/10` is more than `1 + 0.5 / 4`. -/
theorem C27_initial_coverage_bad_input_witness :
    example_coverage_throw.1.total_coverage = 1 / 2 ∧
    kmc.occupied_sites example_coverage_throw.2 2 = 2 ∧
    kmc.occupied_sites example_coverage_throw.2 3 = 0 ∧
    kmc.initial_coverage example_sc_single 20 example_mech_single (some 1)
        (example_simulation_requests (31 / 50) (7 / 10))
      = .error .bad_input_total_coverage ∧
    exn.bad_input_total_coverage.cls = .bad_input ∧
    kmc.initial_coverage_throw example_sc_single 20 1 example_mech_single.speciess ⟨0, 0, []⟩
        (example_simulation_requests (31 / 50) (7 / 10))
      = some (3, [], example_coverage_throw.1, example_coverage_throw.2) ∧
    (∀ y ∈ [3], ∀ e,
      (example_coverage_throw.2.memory.env e).center.type = y →
        ((example_simulation_requests (31 / 50) (7 / 10)).memory.env e).center.type = y) ∧
    (∀ y ∈ [3], y ≠ 1 → example_coverage_throw.2.quantities.amount y
      = (example_simulation_requests (31 / 50) (7 / 10)).quantities.amount y) :=
  ⟨by with_unfolding_all rfl, by with_unfolding_all decide, by with_unfolding_all decide,
    C27_initial_coverage_bad_input example_sc_single 20 example_mech_single 1
      (example_simulation_requests (31 / 50) (7 / 10)) [1, 2] 3 []
      example_coverage_throw.1 example_coverage_throw.2 (by decide)
      (example_state_requests_typed _ _) (by decide) rfl example_coverage_throw_eq (by decide)
      (by decide) (by with_unfolding_all decide) (by with_unfolding_all decide)
      (by with_unfolding_all decide)⟩

/-- C31: for a generator whose `get_random()` returns no value above
`get_max()`: for every `n > 0`, `get_random(n)` returns a value in `[0, n)`,
so that the index that `kmc::perform_reaction` draws for a class with an
instance is a position of its instance map; in exact arithmetic, for every
`max > 0`, `get_random_open(max)` is in `[0, max)` and
`get_random_open_open(max)` is strictly between 0 and `max`; and in an
iteration of the loop of `kmc::step` that returns, with the generator as the
generator of the environments and a `log` that is negative between 0 and 1,
the number drawn is strictly between 0 and 1, the rate is not zero and the
time step is strictly positive. -/
theorem C31_draw_ranges (g : rng) (hcontract : ∀ i, g.stream i ≤ g.max) :
    (∀ n : Nat, 0 < n → ∃ r, g.get_random_n n = .ok (r, g.get_random.2) ∧ r < n) ∧
    (∀ m : ens_env_map, ¬ m.length % 2 ^ 32 < 1 →
      ∃ r it, g.get_random_n (m.length % 2 ^ 32) = .ok (r, g.get_random.2) ∧
        r % 2 ^ 32 < m.length ∧ m[r % 2 ^ 32]? = some it) ∧
    (∀ max : ℚ, 0 < max →
      0 ≤ (g.get_random_open max).1 ∧ (g.get_random_open max).1 < max) ∧
    (∀ max : ℚ, 0 < max →
      0 < (g.get_random_open_open max).1 ∧ (g.get_random_open_open max).1 < max) ∧
    (∀ (f : rate_functions) (log : ℚ → ℚ)
        (kmc_step_msp : state → Nat → ℚ → ℚ → ℚ → Except exn state) (sc : Nat → Nat)
        (mech : model_mechanism) (w w' : simulation) (loc : kmc.step_locals),
      w.memory.random = some g → (∀ x : ℚ, 0 < x → x < 1 → log x < 0) →
      kmc.step_body f log kmc_step_msp sc mech w = .ok (w', loc) →
      0 < loc.u ∧ loc.u < 1 ∧ loc.rate ≠ 0 ∧ 0 < loc.dx) := by
  have hn : ∀ n : Nat, 0 < n → ∃ r, g.get_random_n n = .ok (r, g.get_random.2) ∧ r < n := by
    intro n hpos
    refine ⟨g.get_random.1 % n, ?_, Nat.mod_lt _ hpos⟩
    unfold rng.get_random_n
    rw [if_neg (by omega)]
  refine ⟨hn, ?_, fun max hmax => g.get_random_open_bounds max hmax (hcontract _),
    fun max hmax => g.get_random_open_open_bounds max hmax (hcontract _), ?_⟩
  · intro m hm
    have hpos : 0 < m.length % 2 ^ 32 := by omega
    obtain ⟨r, hr, hlt⟩ := hn _ hpos
    have hle : m.length % 2 ^ 32 ≤ m.length := Nat.mod_le _ _
    have hr2 : r % 2 ^ 32 < m.length := lt_of_le_of_lt (Nat.mod_le _ _) (by omega)
    exact ⟨r, m[r % 2 ^ 32], hr, hr2, List.getElem?_eq_getElem hr2⟩
  · intro f log kmc_step_msp sc mech w w' loc hg hlog h
    obtain ⟨g1, ha, hu, hdx, hne⟩ :=
      kmc.step_body_advanced f log kmc_step_msp sc mech w w' loc g hg h
    have hc1 : g1.stream g1.calls ≤ g1.max := by
      rw [ha.1, ha.2]
      exact hcontract _
    obtain ⟨h0, h1⟩ := g1.get_random_open_open_bounds 1 one_pos hc1
    rw [← hu] at h0 h1
    refine ⟨h0, h1, hne, ?_⟩
    rw [hdx]
    have hl := hlog _ h0 h1
    have habs : 0 < |loc.rate| := abs_pos.mpr hne
    have : log loc.u / |loc.rate| < 0 := div_neg_of_neg_of_pos hl habs
    linarith

/-- Witness of C31: the example generator, of which every `get_random()`
returns 1 and `get_max()` is 1, draws 1 in `[0, 3)`, and the time step of the
example iteration of the loop of `kmc::step` is positive. -/
theorem C31_draw_ranges_witness :
    (∀ i, example_rng.stream i ≤ example_rng.max) ∧
    example_rng.get_random_n 3 = .ok (1, example_rng.get_random.2) ∧
    (∃ r, example_rng.get_random_n 3 = .ok (r, example_rng.get_random.2) ∧ r < 3) ∧
    kmc.step_body example_rate_functions_step example_log example_kmc_step_msp example_sc
      example_mech_step example_simulation
      = .ok (example_simulation_stepped, example_step_locals) ∧
    0 < example_step_locals.dx :=
  ⟨fun _ => Nat.le_refl _, rfl,
    (C31_draw_ranges example_rng (fun _ => Nat.le_refl _)).1 3 (by decide),
    example_step_eq,
    ((C31_draw_ranges example_rng (fun _ => Nat.le_refl _)).2.2.2.2 example_rate_functions_step
      example_log example_kmc_step_msp example_sc example_mech_step example_simulation
      example_simulation_stepped example_step_locals rfl
      (fun x _ h1 => by unfold example_log; linarith) example_step_eq).2.2.2⟩

/-- C32: `environment::create_ensembles` skips a site-group by the rule of the
empty centre exactly when the site-groups are neighbor sites (not radial), the
centre holds the empty-site species, the site-group has `max_sites` members,
and the environment type is `Enn` with `max_sites = 5` or `Ennn` with
`max_sites = 9`; no instance is registered for a site-group that the rule
skips; and a site-group of the environment that the rule does not skip (radial
sites, another centre, a smaller site-group, or another combination of the
type and `max_sites`) has an instance when it contains the multisite partners
of its members. -/
theorem C32_empty_centre_rule (sc : Nat → Nat) (st st' : store) (this : Nat)
    (hne : ∀ g ∈ (st.env this).sites, g ≠ [])
    (h : environment.create_ensembles sc st this = .ok st') :
    (∀ g, environment.skip_site st this g = true ↔
      (st.radial = false ∧ some (st.env this).center.type = st.empty_site ∧
        g.length = st.max_sites ∧
        ((st.env_type = .Enn ∧ st.max_sites = 5) ∨ (st.env_type = .Ennn ∧ st.max_sites = 9)))) ∧
    (∀ g, environment.skip_site st this g = true →
      ∀ p, (p, g) ∉ (st'.env this).ensemble_env) ∧
    (∀ g ∈ (st.env this).sites,
      (st.radial = true ∨ some (st.env this).center.type ≠ st.empty_site ∨
        g.length ≠ st.max_sites ∨
        ¬ ((st.env_type = .Enn ∧ st.max_sites = 5) ∨
          (st.env_type = .Ennn ∧ st.max_sites = 9))) →
      (∀ m ∈ g, ∀ q ∈ (st.env m).multisite, q ∈ g) →
      ∃ p ∈ (st'.env this).ensembles, (p, g) ∈ (st'.env this).ensemble_env) := by
  have hskip : ∀ g, environment.skip_site st this g = true ↔
      (st.radial = false ∧ some (st.env this).center.type = st.empty_site ∧
        g.length = st.max_sites ∧
        ((st.env_type = .Enn ∧ st.max_sites = 5) ∨
          (st.env_type = .Ennn ∧ st.max_sites = 9))) := by
    intro g
    unfold environment.skip_site
    cases hr : st.radial <;> cases ht : st.env_type <;>
      by_cases h1 : some (st.env this).center.type = st.empty_site <;>
      by_cases h2 : g.length = st.max_sites <;> simp [h1, h2]
  obtain ⟨h1, h2⟩ := environment.create_ensembles_ensembles sc st st' this hne h
  refine ⟨hskip, ?_, ?_⟩
  · intro g hg p hpg
    rw [h2] at hpg
    have hmem := (List.of_mem_zip hpg).2
    rw [List.mem_filter] at hmem
    simp [environment.site_used, hg] at hmem
  · intro g hg hno hcont
    have hns : environment.skip_site st this g = false := by
      cases hs : environment.skip_site st this g with
      | false => rfl
      | true =>
        obtain ⟨a, b, c, d⟩ := (hskip g).1 hs
        rcases hno with hno | hno | hno | hno
        · rw [a] at hno; cases hno
        · exact absurd b hno
        · exact absurd c hno
        · exact absurd d hno
    have hmem : g ∈ (st.env this).sites.filter (environment.site_used st this) := by
      rw [List.mem_filter]
      refine ⟨hg, ?_⟩
      simp only [environment.site_used, hns, Bool.not_false, Bool.true_and,
        environment.site_contained, List.all_eq_true, decide_eq_true_eq]
      exact hcont
    obtain ⟨i, hi, hgi⟩ := List.getElem_of_mem hmem
    have hlen : i < (List.range' st.next
        ((st.env this).sites.filter (environment.site_used st this)).length).length := by
      simpa using hi
    refine ⟨(List.range' st.next
        ((st.env this).sites.filter (environment.site_used st this)).length)[i], ?_, ?_⟩
    · rw [h1]; exact List.getElem_mem _
    · rw [h2, ← hgi]
      have hz : i < ((List.range' st.next
          ((st.env this).sites.filter (environment.site_used st this)).length).zip
          ((st.env this).sites.filter (environment.site_used st this))).length := by
        simpa using hi
      have := @List.getElem_zip _ _ (List.range' st.next
        ((st.env this).sites.filter (environment.site_used st this)).length)
        ((st.env this).sites.filter (environment.site_used st this)) i hz
      rw [← this]
      exact List.getElem_mem _

/-- Witness of C32: `create_ensembles` at the point `0` of the example store
of the star, with neighbor sites of nearest neighbors and `max_sites = 5`: the
site-group of five points is skipped and has no instance, the site-groups of
one and of two points have the instances `100` and `101`. -/
theorem C32_empty_centre_rule_witness :
    (∀ g ∈ (example_store_star.env 0).sites, g ≠ []) ∧
    environment.create_ensembles example_sc example_store_star 0
      = .ok example_store_star_created ∧
    environment.skip_site example_store_star 0 [0, 1, 2, 3, 4] = true ∧
    (∀ p, (p, [0, 1, 2, 3, 4]) ∉ (example_store_star_created.env 0).ensemble_env) ∧
    (example_store_star_created.env 0).ensemble_env = [(100, [0]), (101, [0, 1])] :=
  ⟨by decide, rfl, by decide,
    (C32_empty_centre_rule example_sc example_store_star example_store_star_created 0
      (by decide) rfl).2.1 [0, 1, 2, 3, 4] (by decide),
    by decide⟩

/-- C33: for every `coord ≥ 1` and every pool of environments on which the
neighbour relation is symmetric, `environment::get_sites(coord, pool, sites)`
with an empty `sites` returns, and the set it returns holds exactly the
subsets of the pool (ascending lists of environments of the pool) that have
`coord` members and are connected under the neighbour relation. -/
theorem C33_get_sites_connected_subsets (env : Nat → environment) (coord : Nat)
    (envs : List Nat) (hc : 1 ≤ coord)
    (hsym : ∀ a ∈ envs, ∀ b ∈ envs, b ∈ (env a).neighbors → a ∈ (env b).neighbors) :
    ∃ S, environment.get_sites env coord envs [] = .ok S ∧
      ∀ z, z ∈ S ↔ (z.Pairwise (· < ·) ∧ z.length = coord ∧ (∀ m ∈ z, m ∈ envs) ∧
        environment.connected_group env z) := by
  obtain ⟨S, hS, hmem⟩ := environment.get_sites_grown env coord envs hc
  refine ⟨S, hS, fun z => ?_⟩
  rw [hmem]
  constructor
  · intro hg
    obtain ⟨h1, h2, h3⟩ := environment.grown_props env envs coord z hg
    exact ⟨h1, h2, h3, environment.grown_connected env envs hsym coord z hg⟩
  · rintro ⟨h1, h2, h3, h4⟩
    rw [← h2]
    exact environment.grown_of_connected env envs z h1 h3 h4

/-- Witness of C33: the connected pairs of the four example environments
`0 - 1 - 2 - 3`. -/
theorem C33_get_sites_connected_subsets_witness :
    1 ≤ 2 ∧
    (∀ a ∈ [0, 1, 2, 3], ∀ b ∈ [0, 1, 2, 3],
      b ∈ (example_env a).neighbors → a ∈ (example_env b).neighbors) ∧
    environment.get_sites example_env 2 [0, 1, 2, 3] [] = .ok [[0, 1], [1, 2], [2, 3]] ∧
    ∃ S, environment.get_sites example_env 2 [0, 1, 2, 3] [] = .ok S ∧
      ∀ z, z ∈ S ↔ (z.Pairwise (· < ·) ∧ z.length = 2 ∧ (∀ m ∈ z, m ∈ [0, 1, 2, 3]) ∧
        environment.connected_group example_env z) :=
  ⟨by decide, by decide, rfl,
    C33_get_sites_connected_subsets example_env 2 [0, 1, 2, 3] (by decide) (by decide)⟩

/-- C34 fails on the code.  A batch reactor of temperature `T0 = 300` with the
heating rate 1 and the pressure as the fluid quantity, and the species `5`,
which is no surface species, with the pressure 2: `reactor::kmc_step` over
`dx = 3` sets the temperature to `T1 = 303`, and the pressure of the species
is 2 as before, not `2 * T1 / T0`. -/
theorem C34_kmc_step_temperature_counterexample :
    |example_state_heated.rxtor.get_heating_rate| > example_state_heated.prec.get_double ∧
    example_sc 5 = 0 ∧
    example_state_heated.get_quantity 5 .Epressure = 2 ∧
    ∃ s', reactor.kmc_step example_sc batch_reactor.kmc_step example_state_heated [5] 3
        = .ok s' ∧
      s'.rxtor.get_temperature = 303 ∧
      s'.get_quantity 5 .Epressure = 2 ∧
      s'.get_quantity 5 .Epressure
        ≠ example_state_heated.get_quantity 5 .Epressure * 303 / 300 := by
  refine ⟨by norm_num [example_state_heated, reactor.get_heating_rate, reactor.ctor,
      precision.get_double, precision.ctor, DBL_EPSILON], rfl, by with_unfolding_all rfl, ?_⟩
  refine ⟨{ example_state_heated with
      rxtor := { example_state_heated.rxtor with temperature := 303 } }, ?_, rfl,
    by with_unfolding_all rfl, ?_⟩
  · norm_num [reactor.kmc_step, reactor.kmc_step_loop, batch_reactor.kmc_step,
      example_state_heated, reactor.get_heating_rate, reactor.ctor, reactor.set_temperature,
      reactor.get_temperature, precision.get_double, precision.ctor, DBL_EPSILON,
      example_sc, double_div, state.get_quantity, state.set_quantity, quantity.get_quantity,
      quantity.set_quantity, precision.get_pressure]
  · norm_num [example_state_heated, state.get_quantity, quantity.get_quantity, example_sc]

/-- C34, what the code does: for a reactor with a heating rate above the
precision, `reactor::kmc_step` over `dx` sets the temperature to
`T1 = T0 + heating_rate * dx` and calls the update of the species with `T0`
for both temperatures, the `T1` of the loop being the variable that was
initialized with `T0`; in a batch reactor with the pressure as the fluid
quantity the quantities of all species are as before the call. -/
theorem C34_kmc_step_temperature (sc : Nat → Nat) (s s' : state) (species : List Nat) (dx : ℚ)
    (hrate : |s.rxtor.get_heating_rate| > s.prec.get_double)
    (hp : s.rxtor.fluid_type = .Epressure)
    (h : reactor.kmc_step sc batch_reactor.kmc_step s species dx = .ok s') :
    s'.rxtor.get_temperature = s.rxtor.get_temperature + s.rxtor.get_heating_rate * dx ∧
    reactor.kmc_step_loop sc batch_reactor.kmc_step dx s.rxtor.get_temperature
        s.rxtor.get_temperature species
        { s with rxtor := { s.rxtor with
          temperature := s.rxtor.get_temperature + s.rxtor.get_heating_rate * dx } } = .ok s' ∧
    s'.amount = s.amount ∧
    ∀ sp, s'.get_quantity sp .Epressure = s.get_quantity sp .Epressure := by
  unfold reactor.kmc_step at h
  rw [if_pos hrate] at h
  unfold reactor.set_temperature at h
  split_ifs at h with ht
  simp only at h
  have he := reactor.kmc_step_loop_same sc dx _ species _ s' (by exact hp) h
  subst he
  exact ⟨rfl, h, rfl, fun _ => rfl⟩

/-- C34 at the example reactor that is heated: the temperature becomes 303 and
the pressure of the species `5` stays 2. -/
theorem C34_kmc_step_temperature_witness :
    |example_state_heated.rxtor.get_heating_rate| > example_state_heated.prec.get_double ∧
    example_state_heated.rxtor.fluid_type = .Epressure ∧
    reactor.kmc_step example_sc batch_reactor.kmc_step example_state_heated [5] 3
      = .ok { example_state_heated with
          rxtor := { example_state_heated.rxtor with temperature := 303 } } ∧
    ({ example_state_heated with
        rxtor := { example_state_heated.rxtor with temperature := 303 } } : state).amount
      = example_state_heated.amount :=
  have h1 : |example_state_heated.rxtor.get_heating_rate|
      > example_state_heated.prec.get_double := by
    norm_num [example_state_heated, reactor.get_heating_rate, reactor.ctor,
      precision.get_double, precision.ctor, DBL_EPSILON]
  have h2 : reactor.kmc_step example_sc batch_reactor.kmc_step example_state_heated [5] 3
      = .ok { example_state_heated with
          rxtor := { example_state_heated.rxtor with temperature := 303 } } := by
    norm_num [reactor.kmc_step, reactor.kmc_step_loop, batch_reactor.kmc_step,
      example_state_heated, reactor.get_heating_rate, reactor.ctor, reactor.set_temperature,
      reactor.get_temperature, precision.get_double, precision.ctor, DBL_EPSILON,
      example_sc, double_div, state.get_quantity, state.set_quantity, quantity.get_quantity,
      quantity.set_quantity, precision.get_pressure]
  ⟨h1, rfl, h2,
    (C34_kmc_step_temperature example_sc example_state_heated _ [5] 3 h1 rfl h2).2.2.1⟩

/-- C35: `mechanism::expand_species` is total; for a sequence of species sets
`S_1 .. S_n` that is not empty and an empty set `combinations` it produces a
set (an ascending list without repetition) that holds exactly the multisets
`{x_1, ..., x_n}` with `x_i` taken from `S_i`, each multiset as the ascending
list of its elements, and to a set `combinations` that is not empty these
multisets are added; for an empty sequence it inserts nothing. -/
theorem C35_expand_species_combinations (sets : List (List Nat)) (c : List (List Nat))
    (hne : sets ≠ []) :
    mechanism.expand_species [] c = c ∧
    (mechanism.expand_species sets []).Nodup ∧
    (mechanism.expand_species sets []).Pairwise
      (fun a b => lexicographical_compare a b = true) ∧
    (∀ z, z ∈ mechanism.expand_species sets [] ↔
      (z.Pairwise (· ≤ ·) ∧
        ∃ xs : List Nat, List.Forall₂ (fun x S => x ∈ S) xs sets ∧ z.Perm xs)) ∧
    (∀ z, z ∈ mechanism.expand_species sets c ↔
      z ∈ c ∨ z ∈ mechanism.expand_species sets []) := by
  have hs := mechanism.expand_species_sorted sets [] List.Pairwise.nil
  refine ⟨rfl, lex_sorted_nodup _ hs, hs, fun z => ?_, fun z => ?_⟩
  · rw [mechanism.expand_species_mem sets hne]
    simp [mechanism.is_combination]
  · rw [mechanism.expand_species_mem sets hne, mechanism.expand_species_mem sets hne]
    simp

/-- Witness of C35: the species sets `{1, 2}` and `{2, 3}` have the four
combinations `{1, 2}`, `{1, 3}`, `{2, 2}` and `{2, 3}`. -/
theorem C35_expand_species_combinations_witness :
    ([[1, 2], [2, 3]] : List (List Nat)) ≠ [] ∧
    mechanism.expand_species [[1, 2], [2, 3]] [] = [[1, 2], [1, 3], [2, 2], [2, 3]] ∧
    (∀ z, z ∈ mechanism.expand_species [[1, 2], [2, 3]] [] ↔
      (z.Pairwise (· ≤ ·) ∧
        ∃ xs : List Nat, List.Forall₂ (fun x S => x ∈ S) xs [[1, 2], [2, 3]] ∧ z.Perm xs)) :=
  ⟨by decide, by decide,
    (C35_expand_species_combinations [[1, 2], [2, 3]] [] (by decide)).2.2.2.1⟩

/-- C36: for the engine and the store after `kmc::initialize`, with an empty
site of coordination 1, and after every `kmc::perform_reaction` that follows
(the calls that reach `environment::change_ensemble`), with `max_sites` held by
an `unsigned int`: every environment of the engine lies with its multisite
partners on as many sites as the coordination of its species, the partners are
distinct from one another and from the environment, hold its species, and list
the environment and one another; the object of every instance registered at an
environment has a coordination equal to the number of the members of its
site-group; so whenever `environment::change_ensemble` passes its test of the
coordination, the pool of `environment::place_species` has as many
environments as the coordination of the products, and neither this call nor
`environment::change_ensemble` raises the error that lattice points are
left. -/
theorem C36_molecules_whole_pool_exact (sc : Nat → Nat) (mech : model_mechanism) (empty : Nat)
    (fuel : Nat) (reactor : List Nat → List Nat → Option exn) (k : kmc) (st : store)
    (hone : sc empty = 1) (hmax : k.max_sites < 2 ^ 32)
    (h : kmc.reached sc mech (some empty) fuel reactor k st) :
    (∀ m ∈ k.environments,
      (st.env m).multisite.Nodup ∧ m ∉ (st.env m).multisite ∧
      (st.env m).multisite.length + 1 = sc (st.env m).center.type ∧
      ∀ p ∈ (st.env m).multisite,
        (st.env p).center.type = (st.env m).center.type ∧ m ∈ (st.env p).multisite ∧
        ∀ q ∈ (st.env m).multisite, q ≠ p → q ∈ (st.env p).multisite) ∧
    (∀ e p g obj, (p, g) ∈ (st.env e).ensemble_env → st.ens p = some obj →
      obj.get_coordination = g.length) ∧
    (∀ (g : rng) (this old : Nat) (members products : List Nat) (obj : ensemble),
      map_find ptr_lt (st.env this).ensemble_env old = some (old, members) →
      st.ens old = some obj →
      obj.get_coordination = (ensemble.ctor sc products).get_coordination →
      members.length = (ensemble.ctor sc products).get_coordination ∧
      environment.place_species sc
        (random_shuffle (ensemble.ctor sc products).sorted_species g).1
        (st.with_random (random_shuffle (ensemble.ctor sc products).sorted_species g).2)
        members ≠ .error .bad_request_points_left) ∧
    ∀ (g : rng) (this old : Nat) (products remove changed : List Nat),
      environment.change_ensemble sc (st.with_random g) this old products remove changed
        ≠ .error .bad_request_points_left := by
  obtain ⟨hw, hcl⟩ := kmc.reached_closed sc mech empty fuel reactor k st hone h
  obtain ⟨hr, hm⟩ := kmc.reached_rooted sc mech (some empty) fuel reactor k st h
  have hinst : ∀ e p g obj, (p, g) ∈ (st.env e).ensemble_env → st.ens p = some obj →
      obj.get_coordination = g.length :=
    fun e p g obj hpg hobj => environment.instance_coordination sc k st hw hcl hr
      (by rw [hm]; exact hmax) e p g obj hpg hobj
  have hpool : ∀ (g : rng) (this old : Nat) (members products : List Nat) (obj : ensemble),
      map_find ptr_lt (st.env this).ensemble_env old = some (old, members) →
      st.ens old = some obj →
      obj.get_coordination = (ensemble.ctor sc products).get_coordination →
      members.length = (ensemble.ctor sc products).get_coordination ∧
      environment.place_species sc
        (random_shuffle (ensemble.ctor sc products).sorted_species g).1
        (st.with_random (random_shuffle (ensemble.ctor sc products).sorted_species g).2)
        members ≠ .error .bad_request_points_left := by
    intro g this old members products obj hfind hobj hcoord
    have hlen : members.length = (ensemble.ctor sc products).get_coordination := by
      rw [← hcoord]
      exact (hinst this old members obj (map_find_ptr_key _ old (old, members) hfind).2
        hobj).symm
    refine ⟨hlen, fun herr => ?_⟩
    have hlt := environment.place_species_points_left sc _ _ _ herr
    rw [((random_shuffle_perm _ g).map sc).sum_eq, hlen, ensemble.get_coordination,
      ensemble.coordination_sorted] at hlt
    have := Nat.mod_le (((ensemble.ctor sc products).sorted_species.map sc).sum) (2 ^ 32)
    omega
  refine ⟨fun m hmk => ?_, hinst, hpool, ?_⟩
  · obtain ⟨m1, m2, m3, _⟩ := hw.2.2.2.2.1 m
    refine ⟨m1, m2, hcl.1 m hmk, fun p hp => ⟨(m3 p hp).1, (m3 p hp).2, fun q hq hqp => ?_⟩⟩
    exact ((hcl.2 m hmk p hp) q).2 ⟨hqp, Or.inr hq⟩
  · intro g this old products remove changed herr
    obtain ⟨members, obj, g1, c1, c2, c3, c4, c5⟩ :=
      environment.change_ensemble_points_left sc _ this old products remove changed herr
    simp only [store.with_random] at c4
    cases c4
    exact (hpool g this old members products obj c1 c2 c3).2 c5

/-- Witness of C36: the engine on the lattice of three rows and three columns
after `kmc::initialize` and one reaction that has put the species `2`, of
coordination 2, on the environments `0` and `6`, which list each other; the
only instance registered at the environment `0` has the members `0` and `6` and
an object of coordination 2. -/
theorem C36_molecules_whole_pool_exact_witness :
    example_sc 1 = 1 ∧
    ((example_memory_reacted.env 0).center.type, (example_memory_reacted.env 0).multisite,
      (example_memory_reacted.env 6).center.type, (example_memory_reacted.env 6).multisite)
      = (2, [6], 2, [0]) ∧
    (example_memory_reacted.env 0).ensemble_env = [(54, [0, 6])] ∧
    (example_memory_reacted.ens 54).map (fun o => o.get_coordination) = some 2 ∧
    (∀ m ∈ example_engine_reacted.environments,
      (example_memory_reacted.env m).multisite.Nodup ∧
      m ∉ (example_memory_reacted.env m).multisite ∧
      (example_memory_reacted.env m).multisite.length + 1
        = example_sc (example_memory_reacted.env m).center.type ∧
      ∀ p ∈ (example_memory_reacted.env m).multisite,
        (example_memory_reacted.env p).center.type
          = (example_memory_reacted.env m).center.type ∧
        m ∈ (example_memory_reacted.env p).multisite ∧
        ∀ q ∈ (example_memory_reacted.env m).multisite, q ≠ p →
          q ∈ (example_memory_reacted.env p).multisite) ∧
    (∀ e p g obj, (p, g) ∈ (example_memory_reacted.env e).ensemble_env →
      example_memory_reacted.ens p = some obj → obj.get_coordination = g.length) ∧
    (∀ (g : rng) (this old : Nat) (members products : List Nat) (obj : ensemble),
      map_find ptr_lt (example_memory_reacted.env this).ensemble_env old
        = some (old, members) →
      example_memory_reacted.ens old = some obj →
      obj.get_coordination = (ensemble.ctor example_sc products).get_coordination →
      members.length = (ensemble.ctor example_sc products).get_coordination ∧
      environment.place_species example_sc
        (random_shuffle (ensemble.ctor example_sc products).sorted_species g).1
        (example_memory_reacted.with_random
          (random_shuffle (ensemble.ctor example_sc products).sorted_species g).2)
        members ≠ .error .bad_request_points_left) ∧
    ∀ (g : rng) (this old : Nat) (products remove changed : List Nat),
      environment.change_ensemble example_sc (example_memory_reacted.with_random g) this old
        products remove changed ≠ .error .bad_request_points_left :=
  ⟨by decide, by decide, by decide, by decide,
    C36_molecules_whole_pool_exact example_sc example_mech 1 20 (fun _ _ => none)
      example_engine_reacted example_memory_reacted (by decide) (by decide)
      (kmc.reached.step
        (kmc.reached.init rfl rfl rfl (by decide) (fun _ => ⟨_, rfl⟩) example_initialize_eq)
        example_perform_reaction_eq)⟩

/-- C37, the input on which the code leaves the claim: on the lattice of four
rows and four columns with neighbor sites, empty after `kmc::initialize`, the
call of `kmc::perform_reaction` for the reaction `4 @ -> 2 @@A` returns; the
coverages agreed with the lattice before the call; after it the coverage of
the species `2`, of coordination 2, is `1/8` and that of the empty site `3/4`,
while the lattice still holds the empty site on its sixteen sites and the
species `2` on none, so that `0` sites stand against `2 * 16 * 1/8 = 4`; the
members `0, 1, 3, 12` of the instance `20` of four empty sites, an environment
with three of its neighbors, cannot be divided into two connected pairs, and
`environment::place_species` returns `false` on them. -/
theorem C37_coverage_agrees_counterexample :
    (∃ k st, kmc.initialize example_sc example_mech_pairs (some 1) 20 example_engine_pairs
        example_memory = .ok (k, st) ∧
      example_simulation_pairs.engine = k ∧ example_simulation_pairs.memory = st) ∧
    example_simulation_pairs.engine.rxn_ens
      = [(0, (some (ensemble.ctor example_sc [1, 1, 1, 1]), none))] ∧
    kmc.coverage_agrees example_sc example_simulation_pairs 1 ∧
    kmc.coverage_agrees example_sc example_simulation_pairs 2 ∧
    map_find ptr_lt (example_simulation_pairs.memory.env 0).ensemble_env 20
      = some (20, [0, 1, 3, 12]) ∧
    (∃ st, environment.place_species example_sc [2, 2] example_simulation_pairs.memory
      [0, 1, 3, 12] = .ok (false, st)) ∧
    ∃ w, kmc.perform_reaction_reactor example_sc example_simulation_pairs example_rxn_pairs
        (some (ensemble.ctor example_sc [1, 1, 1, 1]), none) 1 = .ok w ∧
      w.engine.sites = 4 * 4 ∧ example_sc 2 = 2 ∧
      kmc.occupied_sites w 1 = 16 ∧ kmc.occupied_sites w 2 = 0 ∧
      w.quantities.get_quantity 1 .Econcentration = 3 / 4 ∧
      w.quantities.get_quantity 2 .Econcentration = 1 / 8 ∧
      ¬ kmc.coverage_agrees example_sc w 1 ∧ ¬ kmc.coverage_agrees example_sc w 2 := by
  obtain ⟨h0, h1, h2, h3, h4, h5, h6, h7⟩ := example_pairs_summary
  simp only [kmc.coverage_summary, Prod.mk.injEq] at h3
  obtain ⟨a1, a2, a3, a4⟩ := h3
  refine ⟨?_, h1, ?_, ?_, h6, ?_, ?_⟩
  · cases hi : example_initialize_pairs with
    | error e => rw [hi] at h0; cases h0
    | ok r =>
      refine ⟨r.1, r.2, hi, ?_, ?_⟩
      · simp only [example_simulation_pairs, hi]
      · simp only [example_simulation_pairs, hi]
  · unfold kmc.coverage_agrees
    rw [a1, a3, h2]
    norm_num [example_sc]
  · unfold kmc.coverage_agrees
    rw [a2, a4, h2]
    norm_num
  · cases hpl : environment.place_species example_sc [2, 2] example_simulation_pairs.memory
        [0, 1, 3, 12] with
    | error e => rw [hpl] at h7; cases h7
    | ok r =>
      rw [hpl] at h7
      simp only [Except.toOption, Option.map_some', Option.some.injEq] at h7
      obtain ⟨b, st⟩ := r
      simp only at h7
      subst h7
      exact ⟨st, rfl⟩
  · cases hp : example_perform_pairs with
    | error e => rw [hp] at h4; cases h4
    | ok w =>
      rw [hp] at h4 h5
      simp only [Except.toOption, Option.map_some', Option.some.injEq, kmc.coverage_summary,
        Prod.mk.injEq] at h4 h5
      obtain ⟨b1, b2, b3, b4⟩ := h4
      refine ⟨w, hp, h5, rfl, b1, b2, b3, b4, ?_, ?_⟩
      · unfold kmc.coverage_agrees
        rw [b1, b3, h5]
        norm_num [example_sc]
      · unfold kmc.coverage_agrees
        rw [b2, b4, h5]
        norm_num [example_sc]

/-- C38: when `environment::place_species` returns false, the environments
are as they were before the call, so that no occupant and no multisite list
has been changed; and when it returns true for a sequence that starts with the
species `s`, the species left have been placed with success on the pool
without a site before `s` has been put on the environments of that site. -/
theorem C38_place_species_false (sc : Nat → Nat) (sp : List Nat) (st : store)
    (envs : List Nat) (b : Bool) (st' : store)
    (h : environment.place_species sc sp st envs = .ok (b, st')) :
    (b = false → st'.env = st.env ∧
      ∀ e, (st'.env e).center.type = (st.env e).center.type ∧
        (st'.env e).multisite = (st.env e).multisite) ∧
    (∀ s rest, sp = s :: rest → b = true →
      ∃ site stx st2, stx.env = st.env ∧
        environment.place_species sc rest stx
            (envs.filter (fun orig_it => !set_contains ptr_lt site orig_it)) = .ok (true, st2) ∧
        environment.place_on_site s site site st2 = .ok st') := by
  constructor
  · intro hb
    have he := (environment.place_species_frame sc sp st envs b st' h).2.2 hb
    exact ⟨he, fun e => by rw [he]; exact ⟨rfl, rfl⟩⟩
  · intro s rest hsp hb
    subst hsp
    subst hb
    simp only [environment.place_species] at h
    split_ifs at h with h1 h2
    cases hs : environment.get_sites st.env (sc s) envs [] with
    | error e => rw [hs] at h; cases h
    | ok S =>
      rw [hs] at h
      simp only at h
      cases hg : st.random with
      | none => rw [hg] at h; cases h
      | some g =>
        rw [hg] at h
        simp only at h
        obtain ⟨site, _, stx, st2, hx, hr, hp⟩ :=
          environment.place_species_loop_true (environment.place_species sc rest) s envs
            (environment.place_species_frame sc rest) _ _ _ h
        exact ⟨site, stx, st2, hx, hr, hp⟩

/-- Witness of C38: the species `2`, of coordination 2, on the pool `{0, 2}` of
the example store, whose two environments are no neighbors:
`place_species` returns false and the environments are unchanged. -/
theorem C38_place_species_false_witness :
    environment.place_species example_sc [2] example_store [0, 2]
      = .ok (false, example_store_unplaced) ∧
    example_store_unplaced.env = example_store.env ∧
      ∀ e, (example_store_unplaced.env e).center.type = (example_store.env e).center.type ∧
        (example_store_unplaced.env e).multisite = (example_store.env e).multisite :=
  ⟨example_unplaced_eq,
    (C38_place_species_false example_sc [2] example_store [0, 2] false example_store_unplaced
      example_unplaced_eq).1 rfl⟩

/-- C39: with forward and reverse rates of the reactions that are not negative
(the fluid rates when the lattice is used) and scale factors that are not
negative, the rate that `kmc::select_reaction` returns with a reaction that
has a forward class is not zero; when it is positive the forward class has an
instance, and when it is negative the reverse class, if the reaction has one,
has an instance; so, the classes having fewer than `2 ^ 32` instances,
`kmc::perform_reaction` called with this reaction and rate, as `kmc::step`
does, never throws the exception of a class without an ensemble on the
surface. -/
theorem C39_selected_class_has_instance (f : rate_functions) (sc : Nat → Nat)
    (mech : model_mechanism) (w : simulation) (g g' : rng) (rxn : Nat) (rate : ℚ)
    (entry : Nat × (ensemble_map_iter × ensemble_map_iter)) (first : ensemble)
    (hkeys : (w.engine.rxn_ens.map Prod.fst).Nodup)
    (hrates : ∀ i r rates, mech.reactions[i]? = some r →
      kmc.get_net_rate_rates f sc w.engine w.quantities i r = .ok rates →
      0 ≤ rates.1 ∧ 0 ≤ rates.2)
    (hscale : ∀ x ∈ w.rates.rate_scale, 0 ≤ x.2.1 ∧ 0 ≤ x.2.2)
    (hsize : ∀ c ∈ w.engine.ensembles, c.2.length < 2 ^ 32)
    (hsel : kmc.select_reaction (kmc.get_net_rate_of f sc mech w) w.quantities.prec.get_double
      w.engine g = .ok ((rxn, rate), g'))
    (hentry : map_find ptr_lt w.engine.rxn_ens rxn = some entry)
    (hclass : entry.2.1 = some first) :
    rate ≠ 0 ∧
    (rate > 0 →
      ∃ c, map_find ensemble.lt w.engine.ensembles first = some c ∧ 1 ≤ c.2.length) ∧
    (rate < 0 → ∀ second, entry.2.2 = some second →
      ∃ c, map_find ensemble.lt w.engine.ensembles second = some c ∧ 1 ≤ c.2.length) ∧
    (∀ r e, kmc.perform_reaction_reactor sc { w with memory := w.memory.with_random g' } r
        entry.2 rate = .error e → e ≠ .bad_request_no_ensemble) := by
  have hval := kmc.select_reaction_values _ _ _ _ _ hsel
  have hcongr : ∀ e ∈ w.engine.rxn_ens, kmc.get_net_rate_of f sc mech w e.1
      = (fun rxn => Except.ok (kmc.net_rate f sc mech w rxn)) e.1 := by
    intro e he
    obtain ⟨v, hv⟩ := hval e he
    simp only [kmc.net_rate, hv]
  rw [kmc.select_reaction_congr _ (fun rxn => Except.ok (kmc.net_rate f sc mech w rxn)) _ _ _
    hcongr] at hsel
  have hne := kmc.select_reaction_nonzero _ _ _ _ _ _ _ hsel
  obtain ⟨hmem, _, hrate, _⟩ := kmc.select_reaction_rate _ _ _ _ hkeys _ _ _ hsel
  have hsplit := list_sum_abs_split (kmc.net_rate f sc mech w) rxn w.engine.rxn_ens hkeys hmem
  have hrest := list_sum_abs_nonneg (kmc.net_rate f sc mech w)
    (w.engine.rxn_ens.filter (fun e => decide (e.1 ≠ rxn)))
  have habs : 0 < |kmc.net_rate f sc mech w rxn| := abs_pos.mpr hne
  have hT : 0 < (w.engine.rxn_ens.map (fun e => |kmc.net_rate f sc mech w e.1|)).sum := by
    rw [hsplit]; linarith
  obtain ⟨hkey, hin⟩ := map_find_ptr_key _ _ _ hentry
  obtain ⟨v, hv⟩ := hval entry hin
  have hnet : kmc.net_rate f sc mech w rxn = v := by
    rw [← hkey]
    simp only [kmc.net_rate, hv]
  have hget : kmc.get_net_rate f sc mech w.engine w.quantities w.rates entry = .ok v := by
    rw [hkey] at hv
    unfold kmc.get_net_rate_of at hv
    rw [hentry] at hv
    exact hv
  obtain ⟨hpos, hneg⟩ := kmc.get_net_rate_class f sc mech w.engine w.quantities w.rates entry v
    first (fun r rates h1 h2 => hrates entry.1 r rates h1 h2) hscale hclass hget
  have hfor : rate > 0 →
      ∃ c, map_find ensemble.lt w.engine.ensembles first = some c ∧ 1 ≤ c.2.length := by
    intro hr
    apply hpos
    rw [← hnet]
    by_contra hle
    have hlt : kmc.net_rate f sc mech w rxn < 0 :=
      lt_of_le_of_ne (not_lt.mp hle) hne
    rw [hrate, if_pos hlt] at hr
    linarith
  have hrev : rate < 0 → ∀ second, entry.2.2 = some second →
      ∃ c, map_find ensemble.lt w.engine.ensembles second = some c ∧ 1 ≤ c.2.length := by
    intro hr
    apply hneg
    rw [← hnet]
    by_contra hle
    rw [hrate, if_neg hle] at hr
    linarith
  have hguard : ∀ (c : ensemble × ens_env_map), c ∈ w.engine.ensembles → 1 ≤ c.2.length →
      ¬ c.2.length % 2 ^ 32 < 1 := by
    intro c hc h1
    rw [Nat.mod_eq_of_lt (hsize c hc)]
    omega
  refine ⟨?_, hfor, hrev, ?_⟩
  · rw [hrate]
    split_ifs <;> linarith
  · intro r e herr
    refine kmc.perform_reaction_reactor_error sc _ r entry.2 rate e ?_ ?_ herr
    · intro hr ens c hens hc
      rw [hclass] at hens
      simp only [Option.some.injEq] at hens
      subst hens
      obtain ⟨c', hc', hlen⟩ := hfor hr
      have hcc : map_find ensemble.lt w.engine.ensembles first = some c := hc
      rw [hc'] at hcc
      simp only [Option.some.injEq] at hcc
      subst hcc
      exact hguard _ (map_find_ensemble_some _ _ _ hc').1 hlen
    · intro hr ens c hens hc
      obtain ⟨c', hc', hlen⟩ := hrev hr ens hens
      have hcc : map_find ensemble.lt w.engine.ensembles ens = some c := hc
      rw [hc'] at hcc
      simp only [Option.some.injEq] at hcc
      subst hcc
      exact hguard _ (map_find_ensemble_some _ _ _ hc').1 hlen

/-- Witness of C39: the reaction `2 @ -> @@A` on the empty lattice of three
rows and three columns is selected with the rate 36, and its forward class,
the class of two empty sites, has an instance. -/
theorem C39_selected_class_has_instance_witness :
    (example_simulation_surface.engine.rxn_ens.map Prod.fst).Nodup ∧
    (∀ x ∈ example_simulation_surface.rates.rate_scale, 0 ≤ x.2.1 ∧ 0 ≤ x.2.2) ∧
    kmc.select_reaction
        (kmc.get_net_rate_of example_rate_functions example_sc example_mech_rates
          example_simulation_surface)
        example_simulation_surface.quantities.prec.get_double
        example_simulation_surface.engine example_rng
      = .ok ((0, 36), { example_rng with calls := 1 }) ∧
    ((36 : ℚ) > 0 →
      ∃ c, map_find ensemble.lt example_simulation_surface.engine.ensembles
          (ensemble.ctor example_sc [1, 1]) = some c ∧ 1 ≤ c.2.length) :=
  have hscale : ∀ x ∈ example_simulation_surface.rates.rate_scale, 0 ≤ x.2.1 ∧ 0 ≤ x.2.2 := by
    intro x hx
    have hx' : x = (0, (1 / 2, 1 / 2)) := by
      simpa [example_simulation_surface, example_rate_members_scaled] using hx
    subst hx'
    norm_num
  ⟨by decide, hscale, example_surface_select,
    (C39_selected_class_has_instance example_rate_functions example_sc example_mech_rates
      example_simulation_surface example_rng { example_rng with calls := 1 } 0 36
      (0, (some (ensemble.ctor example_sc [1, 1]), none)) (ensemble.ctor example_sc [1, 1])
      (by decide) example_surface_rates hscale (by with_unfolding_all decide)
      example_surface_select rfl rfl).2.1⟩

/-- C40: for the engine and the store after `kmc::initialize` (which calls
`environment::initialize` on every environment, with radial or with neighbor
sites) and after every `kmc::perform_reaction` that follows, every site-group
of an environment is a set that contains the environment, has at least one and
at most `max_sites` members and is connected under the neighbour relation; and
then `kmc::count_sites`, with `max_sites` held by an `unsigned int`, raises
neither the error of a site that is too large nor the error of a site of size
zero. -/
theorem C40_site_groups_rooted (sc : Nat → Nat) (mech : model_mechanism) (empty : Option Nat)
    (fuel : Nat) (reactor : List Nat → List Nat → Option exn) (k : kmc) (st : store)
    (hmax : k.max_sites < 2 ^ 32)
    (h : kmc.reached sc mech empty fuel reactor k st) :
    st.max_sites = k.max_sites ∧
    (∀ e g, g ∈ (st.env e).sites →
      g.Pairwise (· < ·) ∧ e ∈ g ∧ 1 ≤ g.length ∧ g.length ≤ st.max_sites ∧
      environment.connected_group st.env g) ∧
    ∀ site_count : List Int,
      kmc.count_sites k st site_count ≠ .error .bad_value_site_large ∧
      kmc.count_sites k st site_count ≠ .error .bad_value_site_zero := by
  obtain ⟨hr, hm⟩ := kmc.reached_rooted sc mech empty fuel reactor k st h
  have hg : ∀ e g, g ∈ (st.env e).sites →
      g.Pairwise (· < ·) ∧ e ∈ g ∧ 1 ≤ g.length ∧ g.length ≤ st.max_sites ∧
      environment.connected_group st.env g := by
    intro e g hgm
    obtain ⟨r1, r2, r3, r4⟩ := hr e g hgm
    exact ⟨r1, r2, List.length_pos_of_mem r2, r3, r4⟩
  refine ⟨hm, hg, fun site_count => ?_⟩
  have herr : ∀ e, kmc.count_sites k st site_count = .error e → e = .undefined_behaviour :=
    fun e he => kmc.count_sites_loop_error k st hmax
      (fun e g hgm => ⟨(hg e g hgm).2.2.1, by rw [← hm]; exact (hg e g hgm).2.2.2.1⟩)
      k.environments site_count e he
  constructor
  · intro he
    cases herr _ he
  · intro he
    cases herr _ he

/-- Witness of C40: the engine on the lattice of three rows and three columns
after `kmc::initialize` and one reaction; the site-groups of the environment
`0` are the environment alone and its pairs with its four neighbors, and
`kmc::count_sites` counts nine sites of one and thirty-six of two
environments. -/
theorem C40_site_groups_rooted_witness :
    example_engine_reacted.max_sites = 2 ∧
    (example_memory_reacted.env 0).sites = [[0], [0, 1], [0, 2], [0, 3], [0, 6]] ∧
    kmc.count_sites example_engine_reacted example_memory_reacted [0, 0, 0] = .ok [0, 9, 36] ∧
    example_memory_reacted.max_sites = example_engine_reacted.max_sites ∧
    (∀ e g, g ∈ (example_memory_reacted.env e).sites →
      g.Pairwise (· < ·) ∧ e ∈ g ∧ 1 ≤ g.length ∧ g.length ≤ example_memory_reacted.max_sites ∧
      environment.connected_group example_memory_reacted.env g) ∧
    ∀ site_count : List Int,
      kmc.count_sites example_engine_reacted example_memory_reacted site_count
        ≠ .error .bad_value_site_large ∧
      kmc.count_sites example_engine_reacted example_memory_reacted site_count
        ≠ .error .bad_value_site_zero :=
  ⟨by decide, by decide, by with_unfolding_all rfl,
    C40_site_groups_rooted example_sc example_mech (some 1) 20 (fun _ _ => none)
      example_engine_reacted example_memory_reacted (by decide)
      (kmc.reached.step
        (kmc.reached.init rfl rfl rfl (by decide) (fun _ => ⟨_, rfl⟩) example_initialize_eq)
        example_perform_reaction_eq)⟩

end chimp
